import Mathlib

/-!
# WeensyOS kernel (`pset4/kernel.c`)

A shallow embedding of the physical page ownership table, the address-space
builder, process cleanup and the `fork` system call of `kernel.c`, followed by
the properties proved about them.

Machine integers are mathematical integers; the 8-bit signed fields of
`physical_pageinfo` are renormalised with `int8` after every `++`/`--`.
Pointers are physical addresses (`NULL = 0`).  Physical memory is an array of
pages, each page an array of 512 eight-byte words, so that a page can be read
both as data and as a page-table node (`pt->entry[index]`).
The allocator of `pset1/m61.c` and the reader of `pset3/io61.c` are embedded in the
namespaces `M61` and `Io61`, after the definitions of the kernel; their properties are at
the end.
-/

namespace Weensy

/-! ## Constants and address arithmetic -/

/-- Layout constants of `kernel.h`, which is not part of the sources: the number of
process slots, the size of physical memory, the per-process virtual address ceiling
and the first process address.  They are parameters of the development. -/
structure KernelConfig where
  NPROC : Nat
  MEMSIZE_PHYSICAL : Nat
  MEMSIZE_VIRTUAL : Nat
  PROC_START_ADDR : Nat

/-- Size of a page in bytes. -/
def PAGESIZE : Nat := 4096

/-- Number of entries of a page-table node. -/
def NPAGETABLEENTRIES : Nat := 512

/-- The null pointer. -/
def NULL : Nat := 0

/-- Page number of a physical address (`PAGENUMBER(ptr)`, a right shift by 12). -/
def PAGENUMBER (ptr : Nat) : Nat := ptr / PAGESIZE

/-- Physical address of a page number (`PAGEADDRESS(pn)`, a left shift by 12). -/
def PAGEADDRESS (pn : Nat) : Nat := pn * PAGESIZE

/-- Number of physical pages, `PAGENUMBER(MEMSIZE_PHYSICAL)`. -/
def NPAGES (K : KernelConfig) : Nat := PAGENUMBER K.MEMSIZE_PHYSICAL

/-- Owner constant of `pageowner_t`: the page is free. -/
def PO_FREE : Int := 0

/-- Owner constant of `pageowner_t`: the page is reserved memory. -/
def PO_RESERVED : Int := -1

/-- Owner constant of `pageowner_t`: the page is used by the kernel. -/
def PO_KERNEL : Int := -2

/-- Conversion of an integer to `int8_t` (two's complement wrap-around). -/
def int8 (x : Int) : Int := (x + 128) % 256 - 128

/-- Conversion of an integer to a 64-bit unsigned register value. -/
def uint64 (x : Int) : Nat := (x % 18446744073709551616).toNat

/-- Page-table entry flag: present. -/
def PTE_P : Nat := 1

/-- Page-table entry flag: writable. -/
def PTE_W : Nat := 2

/-- Page-table entry flag: user-accessible. -/
def PTE_U : Nat := 4

/-- Physical address stored in a page-table entry (the flag bits cleared). -/
def PTE_ADDR (pe : Nat) : Nat := pe / PAGESIZE * PAGESIZE

/-- Flag bits of a page-table entry. -/
def PTE_FLAGS (pe : Nat) : Nat := pe % PAGESIZE

/-- Index into the page-table node of the given level (0 is the root, 3 the leaf level)
selected by virtual address `va`: nine address bits per level above the 12 offset bits. -/
def PAGEINDEX (va level : Nat) : Nat := (va / 2 ^ (12 + 9 * (3 - level))) % NPAGETABLEENTRIES

/-- The addresses visited by `for (va = lo; va < hi; va += PAGESIZE)`. -/
def page_addresses (lo hi : Nat) : List Nat :=
  (List.range ((hi - lo + (PAGESIZE - 1)) / PAGESIZE)).map (fun k => lo + k * PAGESIZE)

/-! ## Data model -/

/-- One entry of `pageinfo[]`: owner and reference count of a physical page. -/
structure physical_pageinfo where
  owner : Int
  refcount : Int
deriving DecidableEq, Repr

/-- Process states (`p_state`). -/
inductive procstate where
  | P_FREE
  | P_RUNNABLE
  | P_BROKEN
deriving DecidableEq, Repr

/-- Saved register snapshot.  The registers the kernel names are fields; the remaining
ones are kept in `reg_other`. -/
structure x86_64_registers where
  reg_rax : Nat
  reg_rdi : Nat
  reg_rsp : Nat
  reg_rip : Nat
  reg_intno : Nat
  reg_err : Nat
  reg_other : Nat → Nat

/-- Process descriptor. -/
structure proc where
  p_pid : Int
  p_registers : x86_64_registers
  p_state : procstate
  p_pagetable : Nat

/-- Result of `virtual_memory_lookup` for a mapped address. -/
structure vamapping where
  pn : Nat
  pa : Nat
  perm : Nat
deriving DecidableEq, Repr

/-- The kernel's global state: `pageinfo[]`, physical memory (page number, then word
index), `processes[]`, `current` (as an index into `processes`), `current_owner`, `ticks`. -/
structure KernelState where
  pageinfo : Nat → physical_pageinfo
  physmem : Nat → Nat → Nat
  processes : Nat → proc
  current : Nat
  current_owner : Int
  ticks : Nat

/-- Assignment `pageinfo[pn] = info`. -/
def set_pageinfo (s : KernelState) (pn : Nat) (info : physical_pageinfo) : KernelState :=
  { s with pageinfo := fun i => if i = pn then info else s.pageinfo i }

/-- Assignment of a whole physical page. -/
def set_page (s : KernelState) (pn : Nat) (page : Nat → Nat) : KernelState :=
  { s with physmem := fun i => if i = pn then page else s.physmem i }

/-- Assignment of one 8-byte word of physical memory. -/
def set_word (s : KernelState) (pn index w : Nat) : KernelState :=
  { s with physmem := fun i j => if i = pn ∧ j = index then w else s.physmem i j }

/-- Assignment `processes[i] = p`. -/
def set_proc (s : KernelState) (i : Nat) (p : proc) : KernelState :=
  { s with processes := fun j => if j = i then p else s.processes j }

/-- Assignment `processes[i].p_state = st`. -/
def set_p_state (s : KernelState) (i : Nat) (st : procstate) : KernelState :=
  set_proc s i { s.processes i with p_state := st }

/-- Assignment `processes[i].p_pagetable = pt`. -/
def set_p_pagetable (s : KernelState) (i : Nat) (pt : Nat) : KernelState :=
  set_proc s i { s.processes i with p_pagetable := pt }

/-- Assignment `processes[i].p_registers.reg_rax = v`. -/
def set_reg_rax (s : KernelState) (i : Nat) (v : Nat) : KernelState :=
  set_proc s i { s.processes i with
    p_registers := { (s.processes i).p_registers with reg_rax := v } }

/-! ## Physical page ownership table -/

/-- The `while` loop of `find_free_page`: advance `freePage` while the page is referenced
and the index is in bounds.  The loop body runs at most `NPAGES` times, which is the
fuel `find_free_page` supplies. -/
def find_free_page_scan (K : KernelConfig) (s : KernelState) : Nat → Nat → Nat
  | 0, freePage => freePage
  | fuel + 1, freePage =>
    if 0 < (s.pageinfo freePage).refcount ∧ freePage < NPAGES K then
      find_free_page_scan K s fuel (freePage + 1)
    else freePage

/-- `find_free_page()`: returns the new state and the returned pointer. -/
def find_free_page (K : KernelConfig) (s : KernelState) : KernelState × Nat :=
  let freePage := find_free_page_scan K s (NPAGES K) 0
  if NPAGES K ≤ freePage then (s, NULL)
  else
    (set_page
      (set_pageinfo s freePage
        { owner := s.current_owner, refcount := int8 ((s.pageinfo freePage).refcount + 1) })
      freePage (fun _ => 0),
     PAGEADDRESS freePage)

/-- `release_page(pageNum, pid)`. -/
def release_page (s : KernelState) (pageNum : Nat) (pid : Int) : KernelState :=
  let s1 := set_pageinfo s pageNum
    { s.pageinfo pageNum with refcount := int8 ((s.pageinfo pageNum).refcount - 1) }
  if (s1.pageinfo pageNum).refcount = 0 ∨ (s1.pageinfo pageNum).owner = pid then
    set_pageinfo s1 pageNum { s1.pageinfo pageNum with owner := PO_FREE }
  else s1

/-- `assign_physical_page(addr, owner)`: returns the new state and the return value. -/
def assign_physical_page (K : KernelConfig) (s : KernelState) (addr : Nat) (owner : Int) :
    KernelState × Int :=
  if addr &&& 0xFFF ≠ 0 ∨ K.MEMSIZE_PHYSICAL ≤ addr then (s, -1)
  else if addr &&& 0xFFF ≠ 0 ∨ K.MEMSIZE_PHYSICAL ≤ addr ∨
      (s.pageinfo (PAGENUMBER addr)).refcount ≠ 0 then (s, -1)
  else (set_pageinfo s (PAGENUMBER addr) { owner := owner, refcount := 1 }, 0)

/-! ## Page tables -/

/-- Modelled from the spec: `pt->entry[index]` for the page-table node at physical
address `pt` (the declaration of `x86_64_pagetable` is not part of the sources).  A node
"is itself a physical page", so its entries are the words of that page. -/
def pt_entry (physmem : Nat → Nat → Nat) (pt index : Nat) : Nat :=
  physmem (PAGENUMBER pt) index

/-- Modelled from the spec: one step down the 4-level tree, from the node at `pt` of the
given level to the node its entry for `va` refers to, if that entry is present. -/
def pt_next (physmem : Nat → Nat → Nat) (pt va level : Nat) : Option Nat :=
  if pt_entry physmem pt (PAGEINDEX va level) &&& PTE_P ≠ 0 then
    some (PTE_ADDR (pt_entry physmem pt (PAGEINDEX va level)))
  else none

/-- Modelled from the spec: the node of the given level reached from the root `pagetable`
along the path of `va`. -/
def pt_walk (physmem : Nat → Nat → Nat) (pagetable va : Nat) : Nat → Option Nat
  | 0 => some pagetable
  | level + 1 =>
    match pt_walk physmem pagetable va level with
    | none => none
    | some pt => pt_next physmem pt va level

/-- Modelled from the spec: `virtual_memory_lookup(pagetable, va)` of `k-hardware.c`,
which is not part of the sources: "pure query, no mutation", returning the physical page
and permissions of a mapped address and `none` (`vam.pn == -1`) for an unmapped one. -/
def virtual_memory_lookup (physmem : Nat → Nat → Nat) (pagetable va : Nat) :
    Option vamapping :=
  match pt_walk physmem pagetable va 3 with
  | none => none
  | some l4 =>
    if pt_entry physmem l4 (PAGEINDEX va 3) &&& PTE_P ≠ 0 then
      some { pn := PAGENUMBER (pt_entry physmem l4 (PAGEINDEX va 3)),
             pa := PTE_ADDR (pt_entry physmem l4 (PAGEINDEX va 3)) + va % PAGESIZE,
             perm := PTE_FLAGS (pt_entry physmem l4 (PAGEINDEX va 3)) }
    else none

/-- Modelled from the spec: one level of the descent of `virtual_memory_map`: follow the
present entry, or allocate a node "through `allocator` on demand" and link it with
present, writable and user-accessible flags; no node is allocated for a non-present
mapping or without an allocator. -/
def pt_next_alloc (K : KernelConfig) (s : KernelState) (pt va perm level : Nat)
    (allocator : Bool) : KernelState × Option Nat :=
  match pt_next s.physmem pt va level with
  | some next => (s, some next)
  | none =>
    if perm &&& PTE_P = 0 ∨ allocator = false then (s, none)
    else if (find_free_page K s).2 = NULL then ((find_free_page K s).1, none)
    else
      (set_word (find_free_page K s).1 (PAGENUMBER pt) (PAGEINDEX va level)
        ((find_free_page K s).2 ||| (PTE_P ||| PTE_W ||| PTE_U)),
       some (find_free_page K s).2)

/-- Modelled from the spec: the leaf-level node for `va`, allocating the missing
intermediate nodes. -/
def lookup_l4pagetable (K : KernelConfig) (s : KernelState) (pagetable va perm : Nat)
    (allocator : Bool) : KernelState × Option Nat :=
  match pt_next_alloc K s pagetable va perm 0 allocator with
  | (s1, none) => (s1, none)
  | (s1, some l2) =>
    match pt_next_alloc K s1 l2 va perm 1 allocator with
    | (s2, none) => (s2, none)
    | (s2, some l3) => pt_next_alloc K s2 l3 va perm 2 allocator

/-- Modelled from the spec: `virtual_memory_map` for a single page. -/
def virtual_memory_map_page (K : KernelConfig) (s : KernelState)
    (pagetable va pa perm : Nat) (allocator : Bool) : KernelState × Int :=
  match lookup_l4pagetable K s pagetable va perm allocator with
  | (s1, some l4) =>
    (set_word s1 (PAGENUMBER l4) (PAGEINDEX va 3)
      (if perm &&& PTE_P ≠ 0 then pa ||| perm else perm), 0)
  | (s1, none) => if perm &&& PTE_P ≠ 0 then (s1, -1) else (s1, 0)

/-- Modelled from the spec: the page-by-page loop of `virtual_memory_map`. -/
def virtual_memory_map_pages (K : KernelConfig) (pagetable perm : Nat) (allocator : Bool) :
    Nat → KernelState → Nat → Nat → KernelState × Int
  | 0, s, _, _ => (s, 0)
  | n + 1, s, va, pa =>
    if (virtual_memory_map_page K s pagetable va pa perm allocator).2 < 0 then
      ((virtual_memory_map_page K s pagetable va pa perm allocator).1, -1)
    else
      virtual_memory_map_pages K pagetable perm allocator n
        (virtual_memory_map_page K s pagetable va pa perm allocator).1
        (va + PAGESIZE) (pa + PAGESIZE)

/-- Modelled from the spec: `virtual_memory_map(pagetable, va, pa, sz, perm, allocator)`
of `k-hardware.c`, which is not part of the sources: "maps a page-aligned `[va, va+size)`
range to `[pa, pa+size)` with the given permission bits, allocating page-table nodes
through `allocator` on demand; returns failure if an allocation is needed and `allocator`
yields none".  The allocator is `find_free_page` (`true`) or `NULL` (`false`). -/
def virtual_memory_map (K : KernelConfig) (s : KernelState)
    (pagetable va pa sz perm : Nat) (allocator : Bool) : KernelState × Int :=
  virtual_memory_map_pages K pagetable perm allocator (sz / PAGESIZE) s va pa

/-! ## Process cleanup -/

/-- The first loop of `process_cleanup_partial`: release every page mapped in the
process's page table at an address of the list below `vaLast`. -/
def process_cleanup_loop (pid : Int) (vaLast : Nat) : List Nat → KernelState → KernelState
  | [], s => s
  | va :: rest, s =>
    if vaLast ≤ va then s
    else
      match virtual_memory_lookup s.physmem (s.processes pid.toNat).p_pagetable va with
      | none => process_cleanup_loop pid vaLast rest s
      | some vam => process_cleanup_loop pid vaLast rest (release_page s vam.pn pid)

/-- The second loop of `process_cleanup_partial`: release every page whose recorded
owner is `pid`. -/
def process_cleanup_sweep (pid : Int) : List Nat → KernelState → KernelState
  | [], s => s
  | i :: rest, s =>
    if (s.pageinfo i).owner = pid then process_cleanup_sweep pid rest (release_page s i pid)
    else process_cleanup_sweep pid rest s

/-- `process_cleanup_partial(pid, vaLast)`. -/
def process_cleanup_partial (K : KernelConfig) (s : KernelState) (pid : Int)
    (vaLast : Nat) : KernelState :=
  let s1 := set_p_state s pid.toNat procstate.P_FREE
  let s2 :=
    if (s1.processes pid.toNat).p_pagetable ≠ NULL then
      set_p_pagetable
        (release_page
          (process_cleanup_loop pid vaLast
            (page_addresses K.PROC_START_ADDR K.MEMSIZE_VIRTUAL) s1)
          (PAGENUMBER (s1.processes pid.toNat).p_pagetable) pid)
        pid.toNat NULL
    else s1
  set_p_state (process_cleanup_sweep pid (List.range (NPAGES K)) s2) pid.toNat
    procstate.P_FREE

/-- `process_cleanup(pid)`. -/
def process_cleanup (K : KernelConfig) (s : KernelState) (pid : Int) : KernelState :=
  process_cleanup_partial K s pid K.MEMSIZE_VIRTUAL

/-! ## Address-space builder -/

/-- The `for` loop of `copy_pagetable`; the flag is `false` when a mapping step failed. -/
def copy_pagetable_loop (K : KernelConfig) (pagetable first_page_num : Nat) :
    List Nat → KernelState → KernelState × Bool
  | [], s => (s, true)
  | va :: rest, s =>
    match virtual_memory_lookup s.physmem pagetable va with
    | none => copy_pagetable_loop K pagetable first_page_num rest s
    | some vam =>
      if (virtual_memory_map K s first_page_num va vam.pa PAGESIZE vam.perm true).2 < 0 then
        ((virtual_memory_map K s first_page_num va vam.pa PAGESIZE vam.perm true).1, false)
      else
        copy_pagetable_loop K pagetable first_page_num rest
          (virtual_memory_map K s first_page_num va vam.pa PAGESIZE vam.perm true).1

/-- `copy_pagetable(pagetable, owner)`: returns the new state and the returned pointer. -/
def copy_pagetable (K : KernelConfig) (s : KernelState) (pagetable : Nat) (owner : Int) :
    KernelState × Nat :=
  if (find_free_page K { s with current_owner := owner }).2 = NULL then
    ((find_free_page K { s with current_owner := owner }).1, NULL)
  else if
    (copy_pagetable_loop K pagetable (find_free_page K { s with current_owner := owner }).2
      (page_addresses 0 K.MEMSIZE_VIRTUAL)
      (find_free_page K { s with current_owner := owner }).1).2 = true then
    ((copy_pagetable_loop K pagetable (find_free_page K { s with current_owner := owner }).2
        (page_addresses 0 K.MEMSIZE_VIRTUAL)
        (find_free_page K { s with current_owner := owner }).1).1,
      (find_free_page K { s with current_owner := owner }).2)
  else
    ((copy_pagetable_loop K pagetable (find_free_page K { s with current_owner := owner }).2
        (page_addresses 0 K.MEMSIZE_VIRTUAL)
        (find_free_page K { s with current_owner := owner }).1).1, NULL)

/-! ## The fork system call -/

/-- The path taken by the `INT_SYS_FORK` handler, with the values of its local variables
`freeProc` and (on an early return) the loop variable `i`. -/
inductive fork_outcome where
  | no_free_slot
  | clone_failed (freeProc : Nat)
  | copy_failed (freeProc : Nat) (i : Nat)
  | forked (freeProc : Nat)
deriving DecidableEq, Repr

/-- The `while` loop of `INT_SYS_FORK` that searches a free process slot.  The body runs
fewer than `NPROC` times, which is the fuel the handler supplies. -/
def sys_fork_find_slot (K : KernelConfig) (s : KernelState) : Nat → Nat → Nat
  | 0, freeProc => freeProc
  | fuel + 1, freeProc =>
    if (s.processes freeProc).p_state ≠ procstate.P_FREE ∧ freeProc < K.NPROC then
      sys_fork_find_slot K s fuel (freeProc + 1)
    else freeProc

/-- The `for` loop of `INT_SYS_FORK` over the parent's address space; the second component
is `some i` when the loop returned early at address `i` (after the rollback). -/
def sys_fork_loop (K : KernelConfig) (freeProc : Nat) :
    List Nat → KernelState → KernelState × Option Nat
  | [], s => (s, none)
  | i :: rest, s =>
    match virtual_memory_lookup s.physmem (s.processes s.current).p_pagetable i with
    | none => sys_fork_loop K freeProc rest s
    | some map =>
      if 0 ≤ (s.pageinfo map.pn).owner then
        if map.perm &&& (PTE_U ||| PTE_W) = PTE_U then
          sys_fork_loop K freeProc rest
            (set_pageinfo s map.pn
              { s.pageinfo map.pn with refcount := int8 ((s.pageinfo map.pn).refcount + 1) })
        else if map.perm &&& (PTE_U ||| PTE_W) = (PTE_U ||| PTE_W) then
          if (find_free_page K s).2 = NULL then
            ( process_cleanup_partial K
                (set_reg_rax (find_free_page K s).1 s.current (uint64 (-1)))
                (s.processes freeProc).p_pid i,
              some i)
          else
            if (virtual_memory_map K
                  (set_page (find_free_page K s).1 (PAGENUMBER (find_free_page K s).2)
                    ((find_free_page K s).1.physmem (PAGENUMBER map.pa)))
                  (s.processes freeProc).p_pagetable i (find_free_page K s).2 PAGESIZE
                  map.perm true).2 < 0 then
              ( process_cleanup_partial K
                  (set_reg_rax
                    (virtual_memory_map K
                      (set_page (find_free_page K s).1 (PAGENUMBER (find_free_page K s).2)
                        ((find_free_page K s).1.physmem (PAGENUMBER map.pa)))
                      (s.processes freeProc).p_pagetable i (find_free_page K s).2 PAGESIZE
                      map.perm true).1
                    s.current (uint64 (-1)))
                  (s.processes freeProc).p_pid i,
                some i)
            else
              sys_fork_loop K freeProc rest
                (virtual_memory_map K
                  (set_page (find_free_page K s).1 (PAGENUMBER (find_free_page K s).2)
                    ((find_free_page K s).1.physmem (PAGENUMBER map.pa)))
                  (s.processes freeProc).p_pagetable i (find_free_page K s).2 PAGESIZE
                  map.perm true).1
        else sys_fork_loop K freeProc rest s
      else sys_fork_loop K freeProc rest s

/-- The state after a `fork` that reached the end of its loop: the registers are copied
to the child, the parent returns the child's pid and the child returns zero. -/
def sys_fork_finish (s : KernelState) (freeProc : Nat) : KernelState :=
  set_reg_rax
    (set_reg_rax
      (set_proc s freeProc
        { s.processes freeProc with p_registers := (s.processes s.current).p_registers })
      s.current (uint64 (s.processes freeProc).p_pid))
    freeProc 0

/-- The state in which the loop of `INT_SYS_FORK` starts: the slot `freeProc` is marked
runnable and receives the copy of the parent's page table. -/
def sys_fork_clone (K : KernelConfig) (s : KernelState) (freeProc : Nat) : KernelState :=
  set_p_pagetable
    (copy_pagetable K (set_p_state s freeProc procstate.P_RUNNABLE)
      ((set_p_state s freeProc procstate.P_RUNNABLE).processes s.current).p_pagetable
      (int8 (s.processes freeProc).p_pid)).1
    freeProc
    (copy_pagetable K (set_p_state s freeProc procstate.P_RUNNABLE)
      ((set_p_state s freeProc procstate.P_RUNNABLE).processes s.current).p_pagetable
      (int8 (s.processes freeProc).p_pid)).2

/-- The `INT_SYS_FORK` case of `exception`, run on the state in which the trap's register
snapshot has been stored in the current process descriptor. -/
def sys_fork (K : KernelConfig) (s : KernelState) : KernelState × fork_outcome :=
  if K.NPROC ≤ sys_fork_find_slot K s K.NPROC 1 then
    (set_reg_rax s s.current (uint64 (-1)), fork_outcome.no_free_slot)
  else if
    ((sys_fork_clone K s (sys_fork_find_slot K s K.NPROC 1)).processes
      (sys_fork_find_slot K s K.NPROC 1)).p_pagetable = NULL then
    (set_reg_rax
      (process_cleanup K (sys_fork_clone K s (sys_fork_find_slot K s K.NPROC 1))
        (sys_fork_find_slot K s K.NPROC 1))
      s.current (uint64 (-1)),
     fork_outcome.clone_failed (sys_fork_find_slot K s K.NPROC 1))
  else
    match
      (sys_fork_loop K (sys_fork_find_slot K s K.NPROC 1) (page_addresses 0 K.MEMSIZE_VIRTUAL)
        (sys_fork_clone K s (sys_fork_find_slot K s K.NPROC 1))).2 with
    | some i =>
      ((sys_fork_loop K (sys_fork_find_slot K s K.NPROC 1)
          (page_addresses 0 K.MEMSIZE_VIRTUAL)
          (sys_fork_clone K s (sys_fork_find_slot K s K.NPROC 1))).1,
       fork_outcome.copy_failed (sys_fork_find_slot K s K.NPROC 1) i)
    | none =>
      (sys_fork_finish
        (sys_fork_loop K (sys_fork_find_slot K s K.NPROC 1)
          (page_addresses 0 K.MEMSIZE_VIRTUAL)
          (sys_fork_clone K s (sys_fork_find_slot K s K.NPROC 1))).1
        (sys_fork_find_slot K s K.NPROC 1),
       fork_outcome.forked (sys_fork_find_slot K s K.NPROC 1))

/-- The first statement of `exception`: `current->p_registers = *reg`. -/
def exception_save (s : KernelState) (reg : x86_64_registers) : KernelState :=
  set_proc s s.current { s.processes s.current with p_registers := reg }

/-! ## User-mode memory access -/

/-- Two addresses select the same entries at the levels below `l`. -/
def SamePath (va va' l : Nat) : Prop := ∀ i, i < l → PAGEINDEX va i = PAGEINDEX va' i

/-- Page `n` holds a node of the page table rooted at `r`. -/
def IsNode (m : Nat → Nat → Nat) (r n : Nat) : Prop :=
  ∃ va l a, l ≤ 3 ∧ pt_walk m r va l = some a ∧ PAGENUMBER a = n

/-- The page table rooted at `r` is a tree: a page holds at most one of its nodes. -/
def TreeInj (m : Nat → Nat → Nat) (r : Nat) : Prop :=
  ∀ va va' l l' a a', l ≤ 3 → l' ≤ 3 → pt_walk m r va l = some a →
    pt_walk m r va' l' = some a' → PAGENUMBER a = PAGENUMBER a' → l = l' ∧ SamePath va va' l

/-- Allocation is well behaved in this state: no reference count is negative, and page 0
(whose address is the null pointer) is referenced. -/
def AllocSane (K : KernelConfig) (s : KernelState) : Prop :=
  (∀ pn, pn < NPAGES K → 0 ≤ (s.pageinfo pn).refcount) ∧ 0 < (s.pageinfo 0).refcount

/-- The page table rooted at `r` is a tree all of whose nodes are referenced pages. -/
def TreeOwned (s : KernelState) (r : Nat) : Prop :=
  TreeInj s.physmem r ∧ ∀ n, IsNode s.physmem r n → 0 < (s.pageinfo n).refcount

/-- What a mapping step into the page table rooted at `r` may do to the state: the
process table is untouched, the tree only grows, and it grows by pages that were free;
page records change only by allocation of a free page to `current_owner`; referenced
pages outside the tree keep their contents. -/
def MapStep (K : KernelConfig) (s s' : KernelState) (r : Nat) : Prop :=
  s'.processes = s.processes ∧ s'.current = s.current ∧
    s'.current_owner = s.current_owner ∧
    (∀ n, IsNode s.physmem r n → IsNode s'.physmem r n) ∧
    (∀ n, IsNode s'.physmem r n →
      IsNode s.physmem r n ∨ (n < NPAGES K ∧ (s.pageinfo n).refcount = 0)) ∧
    (∀ pn, s'.pageinfo pn = s.pageinfo pn ∨
      (pn < NPAGES K ∧ (s.pageinfo pn).refcount = 0 ∧
        s'.pageinfo pn = { owner := s.current_owner, refcount := 1 })) ∧
    (∀ pn, 0 < (s.pageinfo pn).refcount → ¬ IsNode s.physmem r pn →
      s'.physmem pn = s.physmem pn)

/-- Every node on the paths of the listed addresses through the page table rooted at `r`
is a referenced page. -/
def NodesReferenced (s : KernelState) (r : Nat) (vas : List Nat) : Prop :=
  ∀ va ∈ vas, ∀ k, k ≤ 3 → ∀ a, pt_walk s.physmem r va k = some a →
    0 < (s.pageinfo (PAGENUMBER a)).refcount

/-- Invariant of the construction of a page table rooted at `c` for `owner`, started in
state `s`: in the current state `t` the table is a tree of pages that were free in `s`;
a page referenced in `s` keeps its owner and contents and has gained `inc` references;
a page free in `s` is still as it was or has been allocated to `owner`. -/
def BuildInv (K : KernelConfig) (s : KernelState) (owner : Int) (c : Nat) (inc : Nat → Int)
    (t : KernelState) : Prop :=
  AllocSane K t ∧ TreeOwned t c ∧
    (∀ n, IsNode t.physmem c n → n < NPAGES K ∧ (s.pageinfo n).refcount = 0) ∧
    (∀ pn, 0 < (s.pageinfo pn).refcount →
      0 ≤ inc pn ∧
      t.pageinfo pn =
        { owner := (s.pageinfo pn).owner, refcount := (s.pageinfo pn).refcount + inc pn }) ∧
    (∀ pn, ¬ 0 < (s.pageinfo pn).refcount →
      t.pageinfo pn = s.pageinfo pn ∨
        (pn < NPAGES K ∧ (s.pageinfo pn).refcount = 0 ∧
          t.pageinfo pn = { owner := owner, refcount := 1 })) ∧
    (∀ pn, 0 < (s.pageinfo pn).refcount → t.physmem pn = s.physmem pn) ∧
    t.current_owner = owner ∧ t.current = s.current

/-! ## The fork loop, one step at a time -/

/-- One iteration of the loop of `INT_SYS_FORK`, without the rollback: the state after the
iteration and whether the iteration takes the early return. -/
def sys_fork_step (K : KernelConfig) (freeProc i : Nat) (s : KernelState) :
    KernelState × Bool :=
  match virtual_memory_lookup s.physmem (s.processes s.current).p_pagetable i with
  | none => (s, false)
  | some map =>
    if 0 ≤ (s.pageinfo map.pn).owner then
      if map.perm &&& (PTE_U ||| PTE_W) = PTE_U then
        (set_pageinfo s map.pn
          { s.pageinfo map.pn with refcount := int8 ((s.pageinfo map.pn).refcount + 1) },
         false)
      else if map.perm &&& (PTE_U ||| PTE_W) = (PTE_U ||| PTE_W) then
        if (find_free_page K s).2 = NULL then ((find_free_page K s).1, true)
        else
          ((virtual_memory_map K
              (set_page (find_free_page K s).1 (PAGENUMBER (find_free_page K s).2)
                ((find_free_page K s).1.physmem (PAGENUMBER map.pa)))
              (s.processes freeProc).p_pagetable i (find_free_page K s).2 PAGESIZE
              map.perm true).1,
            decide ((virtual_memory_map K
              (set_page (find_free_page K s).1 (PAGENUMBER (find_free_page K s).2)
                ((find_free_page K s).1.physmem (PAGENUMBER map.pa)))
              (s.processes freeProc).p_pagetable i (find_free_page K s).2 PAGESIZE
              map.perm true).2 < 0))
      else (s, false)
    else (s, false)

/-- The number of references the loop of `INT_SYS_FORK` adds to physical page `pn` at
address `va`: one if the parent maps `va` to `pn` user-accessible and not writable and the
owner of `pn` is not negative. -/
def fork_share (s : KernelState) (proot va pn : Nat) : Int :=
  match virtual_memory_lookup s.physmem proot va with
  | none => 0
  | some map =>
    if map.pn = pn ∧ 0 ≤ (s.pageinfo pn).owner ∧ map.perm &&& (PTE_U ||| PTE_W) = PTE_U then 1
    else 0

/-- The number of references the loop of `INT_SYS_FORK` adds to physical page `pn` over a
list of addresses. -/
def fork_shares (s : KernelState) (proot : Nat) (vas : List Nat) (pn : Nat) : Int :=
  (vas.map (fun va => fork_share s proot va pn)).sum

/-- The loop of `INT_SYS_FORK` copies the page the parent maps at `va`: the mapping is
user-accessible and writable and the owner of the page is not negative. -/
def fork_copies (s : KernelState) (proot va : Nat) : Prop :=
  ∃ map, virtual_memory_lookup s.physmem proot va = some map ∧
    0 ≤ (s.pageinfo map.pn).owner ∧ map.perm &&& (PTE_U ||| PTE_W) = (PTE_U ||| PTE_W)

/-- What the loop of `INT_SYS_FORK` has achieved in state `t` after it has handled the
addresses `done`, starting in state `t0`, for the child table rooted at `c`: the
construction invariant with the references added so far; an untouched process table;
pages only leave the free pool; child lookups changed only at the handled addresses that
were copied; each copied address is mapped to its own, previously free page that belongs
to `owner`, has reference count 1 and holds the contents of the parent's page. -/
def ForkProgress (K : KernelConfig) (s : KernelState) (owner : Int) (c proot : Nat)
    (inc0 : Nat → Int) (t0 : KernelState) (done : List Nat) (t : KernelState) : Prop :=
  BuildInv K s owner c (fun pn => inc0 pn + fork_shares s proot done pn) t ∧
    t.processes = t0.processes ∧
    (∀ pn, (t.pageinfo pn).refcount = 0 → (t0.pageinfo pn).refcount = 0) ∧
    (∀ va', (∀ va ∈ done, ¬ SamePath va va' 4) →
      virtual_memory_lookup t.physmem c va' = virtual_memory_lookup t0.physmem c va') ∧
    (∀ q, ¬ 0 < (s.pageinfo q).refcount → 0 < (t0.pageinfo q).refcount →
      ¬ IsNode t0.physmem c q →
      t.pageinfo q = t0.pageinfo q ∧ t.physmem q = t0.physmem q ∧ ¬ IsNode t.physmem c q) ∧
    (∀ va ∈ done, ¬ fork_copies s proot va →
      virtual_memory_lookup t.physmem c va = virtual_memory_lookup t0.physmem c va) ∧
    (∀ va ∈ done, ∀ vam, virtual_memory_lookup s.physmem proot va = some vam →
      0 ≤ (s.pageinfo vam.pn).owner →
      vam.perm &&& (PTE_U ||| PTE_W) = (PTE_U ||| PTE_W) →
      ∃ q, virtual_memory_lookup t.physmem c va =
            some { pn := q, pa := PAGEADDRESS q, perm := vam.perm } ∧
        q < NPAGES K ∧ (t0.pageinfo q).refcount = 0 ∧
        t.pageinfo q = { owner := owner, refcount := 1 } ∧
        ¬ IsNode t.physmem c q ∧ t.physmem q = s.physmem vam.pn) ∧
    (∀ va1 ∈ done, ∀ va2 ∈ done, va1 ≠ va2 → fork_copies s proot va1 →
      fork_copies s proot va2 → ∀ m1 m2,
      virtual_memory_lookup t.physmem c va1 = some m1 →
      virtual_memory_lookup t.physmem c va2 = some m2 → m1.pn ≠ m2.pn)

/-- Every user-accessible mapping of the page table rooted at `proot` at one of the
listed addresses refers to a referenced page. -/
def UserMappedReferenced (s : KernelState) (proot : Nat) (vas : List Nat) : Prop :=
  ∀ va ∈ vas, ∀ vam, virtual_memory_lookup s.physmem proot va = some vam →
    (vam.perm &&& (PTE_U ||| PTE_W) = PTE_U ∨
      vam.perm &&& (PTE_U ||| PTE_W) = (PTE_U ||| PTE_W)) →
    0 < (s.pageinfo vam.pn).refcount

/-- The references added by the loop of `INT_SYS_FORK` do not overflow the 8-bit
reference count of any page the table rooted at `proot` maps at the listed addresses. -/
def NoOverflow (s : KernelState) (proot : Nat) (vas : List Nat) : Prop :=
  ∀ va ∈ vas, ∀ vam, virtual_memory_lookup s.physmem proot va = some vam →
    (s.pageinfo vam.pn).refcount + fork_shares s proot vas vam.pn ≤ 127

/-- A state in which `fork` can be analysed: allocation is well behaved; the address
space fits the four-level tree and process ids fit the 8-bit owner field; the nodes of
the current process's page table and the pages it maps user-accessible are referenced
pages; sharing does not overflow a reference count; every process descriptor carries its
own index as pid; and the current process is not a free slot. -/
def ForkReady (K : KernelConfig) (s : KernelState) : Prop :=
  AllocSane K s ∧ K.MEMSIZE_VIRTUAL ≤ 2 ^ 48 ∧ K.NPROC ≤ 128 ∧
    NodesReferenced s (s.processes s.current).p_pagetable
      (page_addresses 0 K.MEMSIZE_VIRTUAL) ∧
    UserMappedReferenced s (s.processes s.current).p_pagetable
      (page_addresses 0 K.MEMSIZE_VIRTUAL) ∧
    NoOverflow s (s.processes s.current).p_pagetable (page_addresses 0 K.MEMSIZE_VIRTUAL) ∧
    (∀ i, i < K.NPROC → (s.processes i).p_pid = i) ∧
    (s.processes s.current).p_state ≠ procstate.P_FREE

/-- The state `s'` after a successful `fork` from `s` with child slot `child`: the slot
was free, is not slot 0 and not the parent's; the child descriptor is runnable with the
parent's registers and return value 0; the parent's return value is the child's pid;
other descriptors are unchanged; pages referenced before keep owner and contents and
gain one reference per shared mapping; free pages are untouched or belong to the child
with reference count 1; the parent's lookups are unchanged; the child has the parent's
mapping at every address that is not copied, and at every copied address a mapping with
the same permissions to its own, previously free page holding the parent's contents. -/
def ForkedState (K : KernelConfig) (s s' : KernelState) (child : Nat) : Prop :=
  1 ≤ child ∧ child < K.NPROC ∧ child ≠ s.current ∧
    (s.processes child).p_state = procstate.P_FREE ∧
    s'.current = s.current ∧
    s'.processes child =
      { p_pid := child,
        p_registers := { (s.processes s.current).p_registers with reg_rax := 0 },
        p_state := procstate.P_RUNNABLE,
        p_pagetable := (s'.processes child).p_pagetable } ∧
    s'.processes s.current =
      { s.processes s.current with
        p_registers :=
          { (s.processes s.current).p_registers with reg_rax := uint64 child } } ∧
    (∀ j, j ≠ child → j ≠ s.current → s'.processes j = s.processes j) ∧
    (s'.processes child).p_pagetable ≠ NULL ∧
    (∀ pn, 0 < (s.pageinfo pn).refcount →
      s'.pageinfo pn =
          { owner := (s.pageinfo pn).owner,
            refcount := (s.pageinfo pn).refcount +
              fork_shares s (s.processes s.current).p_pagetable
                (page_addresses 0 K.MEMSIZE_VIRTUAL) pn } ∧
        s'.physmem pn = s.physmem pn) ∧
    (∀ pn, ¬ 0 < (s.pageinfo pn).refcount →
      s'.pageinfo pn = s.pageinfo pn ∨
        (pn < NPAGES K ∧ (s.pageinfo pn).refcount = 0 ∧
          s'.pageinfo pn = { owner := child, refcount := 1 })) ∧
    (∀ va ∈ page_addresses 0 K.MEMSIZE_VIRTUAL,
      virtual_memory_lookup s'.physmem (s.processes s.current).p_pagetable va =
        virtual_memory_lookup s.physmem (s.processes s.current).p_pagetable va) ∧
    (∀ va ∈ page_addresses 0 K.MEMSIZE_VIRTUAL,
      ¬ fork_copies s (s.processes s.current).p_pagetable va →
      virtual_memory_lookup s'.physmem (s'.processes child).p_pagetable va =
        virtual_memory_lookup s.physmem (s.processes s.current).p_pagetable va) ∧
    (∀ va ∈ page_addresses 0 K.MEMSIZE_VIRTUAL, ∀ vam,
      virtual_memory_lookup s.physmem (s.processes s.current).p_pagetable va = some vam →
      0 ≤ (s.pageinfo vam.pn).owner →
      vam.perm &&& (PTE_U ||| PTE_W) = (PTE_U ||| PTE_W) →
      ∃ q, virtual_memory_lookup s'.physmem (s'.processes child).p_pagetable va =
            some { pn := q, pa := PAGEADDRESS q, perm := vam.perm } ∧
        q < NPAGES K ∧ (s.pageinfo q).refcount = 0 ∧
        s'.pageinfo q = { owner := child, refcount := 1 } ∧
        s'.physmem q = s.physmem vam.pn) ∧
    (∀ va1 ∈ page_addresses 0 K.MEMSIZE_VIRTUAL,
      ∀ va2 ∈ page_addresses 0 K.MEMSIZE_VIRTUAL, va1 ≠ va2 →
      fork_copies s (s.processes s.current).p_pagetable va1 →
      fork_copies s (s.processes s.current).p_pagetable va2 → ∀ m1 m2,
      virtual_memory_lookup s'.physmem (s'.processes child).p_pagetable va1 = some m1 →
      virtual_memory_lookup s'.physmem (s'.processes child).p_pagetable va2 = some m2 →
      m1.pn ≠ m2.pn)

/-! ## Rollback of a failed fork -/

/-- The record `release_page` leaves for a page whose record is `info`. -/
def release_info (pid : Int) (info : physical_pageinfo) : physical_pageinfo :=
  if int8 (info.refcount - 1) = 0 ∨ info.owner = pid then
    { owner := PO_FREE, refcount := int8 (info.refcount - 1) }
  else { owner := info.owner, refcount := int8 (info.refcount - 1) }

/-- The pages the first loop of `process_cleanup_partial` releases at the listed
addresses: one entry for each address that is mapped in the table rooted at `c`. -/
def released_pages (m : Nat → Nat → Nat) (c : Nat) (vas : List Nat) : List Nat :=
  vas.filterMap (fun va => (virtual_memory_lookup m c va).map (fun vam => vam.pn))

/-- State `u` can be rolled back to `s` for `pid`: every page record is as in `s`, or the
page was free in `s` and now belongs to `pid` with reference count 1. -/
def RollbackReady (K : KernelConfig) (s u : KernelState) (pid : Int) : Prop :=
  ∀ pn, pn < NPAGES K → u.pageinfo pn = s.pageinfo pn ∨
    (s.pageinfo pn = { owner := PO_FREE, refcount := 0 } ∧
      u.pageinfo pn = { owner := pid, refcount := 1 })

/-! ## The page-allocation system call -/

/-- The assignment `current_owner = current->p_pid` of the `INT_SYS_PAGE_ALLOC` handler;
`current_owner` is an `int8_t`. -/
def sys_page_alloc_owner (s : KernelState) : KernelState :=
  { s with current_owner := int8 (s.processes s.current).p_pid }

/-- The mapping step of the `INT_SYS_PAGE_ALLOC` handler: the call
`virtual_memory_map(current->p_pagetable, addr, PAGEADDRESS(PAGENUMBER(freePage)),
PAGESIZE, PTE_P | PTE_W | PTE_U, find_free_page)` for the page `freePage` that
`find_free_page` has returned. -/
def sys_page_alloc_map (K : KernelConfig) (s : KernelState) : KernelState × Int :=
  virtual_memory_map K (find_free_page K (sys_page_alloc_owner s)).1
    (s.processes s.current).p_pagetable (s.processes s.current).p_registers.reg_rdi
    (PAGEADDRESS (PAGENUMBER (find_free_page K (sys_page_alloc_owner s)).2)) PAGESIZE
    (PTE_P ||| PTE_W ||| PTE_U) true

/-- The `INT_SYS_PAGE_ALLOC` case of `exception`, run on the state in which the trap's
register snapshot has been stored in the current process descriptor. -/
def sys_page_alloc (K : KernelConfig) (s : KernelState) : KernelState :=
  if (s.processes s.current).p_registers.reg_rdi &&& 0xFFF ≠ 0 then
    set_reg_rax s s.current (uint64 (-1))
  else
    match virtual_memory_lookup s.physmem (s.processes s.current).p_pagetable
        (s.processes s.current).p_registers.reg_rdi with
    | some _ => set_reg_rax s s.current (uint64 (-1))
    | none =>
      if (find_free_page K (sys_page_alloc_owner s)).2 = NULL then
        set_reg_rax (find_free_page K (sys_page_alloc_owner s)).1 s.current (uint64 (-1))
      else if (sys_page_alloc_map K s).2 < 0 then
        set_reg_rax
          (release_page (sys_page_alloc_map K s).1
            (PAGENUMBER (find_free_page K (sys_page_alloc_owner s)).2)
            (s.processes s.current).p_pid)
          s.current (uint64 (-1))
      else set_reg_rax (sys_page_alloc_map K s).1 s.current 0

/-- The number of physical pages with reference count 0. -/
def free_page_count (K : KernelConfig) (s : KernelState) : Nat :=
  (List.range (NPAGES K)).countP (fun pn => decide ((s.pageinfo pn).refcount = 0))

/-- The state in which the current process traps with its argument register holding
`a`, its other registers being as they were saved last. -/
def page_alloc_trap (s : KernelState) (a : Nat) : KernelState :=
  exception_save s { (s.processes s.current).p_registers with reg_rdi := a }

/-- A process issues page-alloc syscalls for the listed addresses, one trap after the
other, and is resumed after each.  The result is the list of the return values, in the
order of the calls, and the final state. -/
def page_alloc_calls (K : KernelConfig) : List Nat → KernelState → List Nat × KernelState
  | [], s => ([], s)
  | a :: rest, s =>
    (((sys_page_alloc K (page_alloc_trap s a)).processes s.current).p_registers.reg_rax ::
        (page_alloc_calls K rest (sys_page_alloc K (page_alloc_trap s a))).1,
      (page_alloc_calls K rest (sys_page_alloc K (page_alloc_trap s a))).2)

/-- What becomes of the machine when the kernel stops handling a trap: a process is
resumed (`run` does not return), the scheduler finds no Runnable process and spins
forever, or the kernel stops on a failed assertion or `panic`. -/
inductive trap_result where
  | resumed (s : KernelState)
  | spinning (s : KernelState)
  | halted

/-- `run(p)` for `p = &processes[pid]`: asserts that the process is Runnable, sets
`current = p` and resumes the process from its saved registers (`set_pagetable` and
`exception_return` leave the kernel state alone). -/
def run (s : KernelState) (pid : Nat) : trap_result :=
  if (s.processes pid).p_state = procstate.P_RUNNABLE then
    trap_result.resumed { s with current := pid }
  else trap_result.halted

/-- The `while (1)` loop of `schedule()` cut at `fuel` iterations, started with the local
variable `pid`: each iteration moves to `(pid + 1) % NPROC` (C remainder) and stops at a
Runnable slot, which is the result; `none` when no iteration of the first `fuel` finds
one.  `check_keyboard()` does not touch the kernel state.  The slot index is
`processes[pid]`; pids are indices of the table (`kernel()` sets `p_pid = i`), so the
index is never negative. -/
def schedule_scan (K : KernelConfig) (s : KernelState) : Nat → Int → Option Nat
  | 0, _ => none
  | fuel + 1, pid =>
    if (s.processes (Int.tmod (pid + 1) K.NPROC).toNat).p_state = procstate.P_RUNNABLE then
      some (Int.tmod (pid + 1) K.NPROC).toNat
    else schedule_scan K s fuel (Int.tmod (pid + 1) K.NPROC)

/-- `schedule()`: scan from `current->p_pid` and run the first Runnable process.  `NPROC`
iterations visit every slot; when none of them is Runnable the loop spins forever. -/
def schedule (K : KernelConfig) (s : KernelState) : trap_result :=
  match schedule_scan K s K.NPROC (s.processes s.current).p_pid with
  | some pid => run s pid
  | none => trap_result.spinning s

/-- The processes selected by `n` consecutive calls of `schedule()`, each one issued with
the previously selected process as `current`. -/
def schedule_calls (K : KernelConfig) : Nat → KernelState → List Nat
  | 0, _ => []
  | n + 1, s =>
    match schedule K s with
    | trap_result.resumed s' => s'.current :: schedule_calls K n s'
    | _ => []

/-- The indices of the Runnable slots of the process table, in increasing order. -/
def runnable_slots (K : KernelConfig) (s : KernelState) : List Nat :=
  (List.range K.NPROC).filter
    (fun i => decide ((s.processes i).p_state = procstate.P_RUNNABLE))

/-! ## Invariant checker -/

/-- Constants that `kernel.c` uses and takes from `kernel.h`, `x86-64.h` and the linker
script, none of which is part of the sources: the address of the kernel page table, the
bounds `KERNEL_START_ADDR`, `end` and `start_data` of the kernel image, the top of the
kernel stack, the trap vector numbers and the user-mode bit of a page-fault error code. -/
structure KernelLayout where
  kernel_pagetable : Nat
  KERNEL_START_ADDR : Nat
  kernel_end : Nat
  start_data : Nat
  KERNEL_STACK_TOP : Nat
  INT_PAGEFAULT : Nat
  INT_TIMER : Nat
  INT_SYS_PANIC : Nat
  INT_SYS_GETPID : Nat
  INT_SYS_YIELD : Nat
  INT_SYS_PAGE_ALLOC : Nat
  INT_SYS_FORK : Nat
  INT_SYS_EXIT : Nat
  PFERR_USER : Nat

/-- One assertion pair of `check_page_table_mappings`: `va` is identity mapped in `pt`,
and writable when `writable` is required.  An unmapped address fails the assertions. -/
def check_identity_mapped (s : KernelState) (pt va : Nat) (writable : Bool) : Bool :=
  match virtual_memory_lookup s.physmem pt va with
  | some vam => decide (vam.pa = va) && (!writable || decide (vam.perm &&& PTE_W ≠ 0))
  | none => false

/-- `check_page_table_mappings(pt)`: `true` when no assertion fails. -/
def check_page_table_mappings (L : KernelLayout) (s : KernelState) (pt : Nat) : Bool :=
  decide (PTE_ADDR pt = pt) &&
    (page_addresses L.KERNEL_START_ADDR L.kernel_end).all
      (fun va => check_identity_mapped s pt va (decide (L.start_data ≤ va))) &&
    check_identity_mapped s pt (L.KERNEL_STACK_TOP - PAGESIZE) true

/-- `check_page_table_ownership_level(pt, level, owner, refcount)` with
`level = 3 - depth`: `true` when no assertion fails. -/
def check_page_table_ownership_level (K : KernelConfig) (s : KernelState) (owner : Int) :
    Nat → Nat → Int → Bool
  | 0, pt, refcount =>
    decide (PAGENUMBER pt < NPAGES K) && decide ((s.pageinfo (PAGENUMBER pt)).owner = owner) &&
      decide ((s.pageinfo (PAGENUMBER pt)).refcount = refcount)
  | depth + 1, pt, refcount =>
    decide (PAGENUMBER pt < NPAGES K) && decide ((s.pageinfo (PAGENUMBER pt)).owner = owner) &&
      decide ((s.pageinfo (PAGENUMBER pt)).refcount = refcount) &&
      (List.range NPAGETABLEENTRIES).all
        (fun index =>
          decide (pt_entry s.physmem pt index = 0) ||
            check_page_table_ownership_level K s owner depth
              (PTE_ADDR (pt_entry s.physmem pt index)) 1)

/-- `check_page_table_ownership(pt, pid)`: `true` when no assertion fails. -/
def check_page_table_ownership (K : KernelConfig) (L : KernelLayout) (s : KernelState)
    (pt : Nat) (pid : Int) : Bool :=
  if pt = L.kernel_pagetable then
    check_page_table_ownership_level K s PO_KERNEL 3 pt
      (1 + ((List.range K.NPROC).countP
        (fun xpid => decide ((s.processes xpid).p_state ≠ procstate.P_FREE ∧
          (s.processes xpid).p_pagetable = L.kernel_pagetable)) : Nat))
  else check_page_table_ownership_level K s pid 3 pt 1

/-- `check_virtual_memory()`: `true` when no assertion fails. -/
def check_virtual_memory (K : KernelConfig) (L : KernelLayout) (s : KernelState) : Bool :=
  decide ((s.processes 0).p_state = procstate.P_FREE) &&
    check_page_table_mappings L s L.kernel_pagetable &&
    check_page_table_ownership K L s L.kernel_pagetable (-1) &&
    (List.range K.NPROC).all
      (fun pid =>
        !(decide ((s.processes pid).p_state ≠ procstate.P_FREE ∧
            (s.processes pid).p_pagetable ≠ L.kernel_pagetable)) ||
          (check_page_table_mappings L s (s.processes pid).p_pagetable &&
            check_page_table_ownership K L s (s.processes pid).p_pagetable pid)) &&
    (List.range (NPAGES K)).all
      (fun pn =>
        !(decide (0 < (s.pageinfo pn).refcount ∧ 0 ≤ (s.pageinfo pn).owner)) ||
          decide ((s.processes (s.pageinfo pn).owner.toNat).p_state ≠ procstate.P_FREE))

/-! ## Trap dispatcher -/

/-- The end of `exception`: return to the current process if it is Runnable, otherwise
schedule. -/
def exception_exit (K : KernelConfig) (s : KernelState) : trap_result :=
  if (s.processes s.current).p_state = procstate.P_RUNNABLE then run s s.current
  else schedule K s

/-- The `switch` of `exception` followed by the end of the function, run on the state in
which the trap's register snapshot has been stored.  `panic` halts; `schedule()` does not
return, so the yield and timer cases do not reach the end of the function. -/
def exception_switch (K : KernelConfig) (L : KernelLayout) (s : KernelState)
    (reg : x86_64_registers) : trap_result :=
  if reg.reg_intno = L.INT_SYS_PANIC then trap_result.halted
  else if reg.reg_intno = L.INT_SYS_GETPID then
    exception_exit K (set_reg_rax s s.current (uint64 (s.processes s.current).p_pid))
  else if reg.reg_intno = L.INT_SYS_YIELD then schedule K s
  else if reg.reg_intno = L.INT_SYS_PAGE_ALLOC then exception_exit K (sys_page_alloc K s)
  else if reg.reg_intno = L.INT_TIMER then
    schedule K { s with ticks := (s.ticks + 1) % 2 ^ 32 }
  else if reg.reg_intno = L.INT_PAGEFAULT then
    if reg.reg_err &&& L.PFERR_USER = 0 then trap_result.halted
    else exception_exit K (set_p_state s s.current procstate.P_BROKEN)
  else if reg.reg_intno = L.INT_SYS_FORK then exception_exit K (sys_fork K s).1
  else if reg.reg_intno = L.INT_SYS_EXIT then
    exception_exit K (process_cleanup K s (s.processes s.current).p_pid)
  else trap_result.halted

/-- `exception(reg)`: store the snapshot in the current descriptor, check the invariants
(unless this is a kernel page fault; a failed assertion halts), handle the trap.  Console
output and `check_keyboard()` are not part of the model. -/
def exception (K : KernelConfig) (L : KernelLayout) (s : KernelState)
    (reg : x86_64_registers) : trap_result :=
  if (reg.reg_intno ≠ L.INT_PAGEFAULT ∨ reg.reg_err &&& L.PFERR_USER ≠ 0) ∧
      check_virtual_memory K L (exception_save s reg) = false then trap_result.halted
  else exception_switch K L (exception_save s reg) reg

/-! ## Boot -/

/-- The helpers of `k-hardware.c` and `k-loader.c` that `process_setup` calls are not
part of the sources and are parameters.  `process_init(p, 0)` resets the register
snapshot of the descriptor it is given to `process_init`.  `program_load(p, n, NULL)`,
called in state `s` for process `pid` and program `n`, may take pages and write memory
(page tables included) and sets registers of the descriptor it is given: it returns the
ownership table, the memory, the register snapshot of `p` and its return value. -/
structure LoaderModel where
  process_init : x86_64_registers
  program_load : KernelState → Nat → Nat →
    (Nat → physical_pageinfo) × (Nat → Nat → Nat) × x86_64_registers × Int

/-- The state after `program_load(&processes[pid], program_number, NULL)`. -/
def program_load_state (env : LoaderModel) (s : KernelState) (pid program_number : Nat) :
    KernelState :=
  set_proc
    { s with pageinfo := (env.program_load s pid program_number).1,
             physmem := (env.program_load s pid program_number).2.1 }
    pid { s.processes pid with p_registers := (env.program_load s pid program_number).2.2.1 }

/-- The first part of `process_setup(pid, program_number)`, up to the call of
`program_load`: the descriptor is initialised, receives a copy of the kernel page table
and the kernel, console and remaining physical memory are mapped. -/
def process_setup_map (K : KernelConfig) (L : KernelLayout) (env : LoaderModel)
    (s : KernelState) (pid : Nat) : KernelState :=
  let s1 := set_proc s pid { s.processes pid with p_registers := env.process_init }
  let s2 := set_p_pagetable (copy_pagetable K s1 L.kernel_pagetable (int8 pid)).1 pid
    (copy_pagetable K s1 L.kernel_pagetable (int8 pid)).2
  let s3 := { s2 with current_owner := int8 pid }
  let s4 := (virtual_memory_map K s3 (s3.processes pid).p_pagetable 0 0 K.PROC_START_ADDR
    (PTE_P ||| PTE_W) true).1
  let s5 := (virtual_memory_map K s4 (s4.processes pid).p_pagetable 0xB8000 0xB8000 PAGESIZE
    (PTE_P ||| PTE_U ||| PTE_W) true).1
  (virtual_memory_map K s5 (s5.processes pid).p_pagetable K.PROC_START_ADDR
    K.PROC_START_ADDR (K.MEMSIZE_PHYSICAL - K.PROC_START_ADDR) 0 true).1

/-- The second part of `process_setup`, after a successful `program_load` and with the
stack page `stackPage` found: the stack pointer is set, the stack page assigned and
mapped, and the process marked Runnable. -/
def process_setup_stack (K : KernelConfig) (s : KernelState) (pid stackPage : Nat) :
    KernelState :=
  let s1 := set_proc s pid
    { s.processes pid with
      p_registers := { (s.processes pid).p_registers with reg_rsp := K.MEMSIZE_VIRTUAL } }
  let s2 := (assign_physical_page K s1 stackPage pid).1
  set_p_state
    (virtual_memory_map K s2 (s2.processes pid).p_pagetable (K.MEMSIZE_VIRTUAL - PAGESIZE)
      (PAGEADDRESS (PAGENUMBER stackPage)) PAGESIZE (PTE_P ||| PTE_W ||| PTE_U) true).1
    pid procstate.P_RUNNABLE

/-- `process_setup(pid, program_number)`; `none` when one of its assertions fails. -/
def process_setup (K : KernelConfig) (L : KernelLayout) (env : LoaderModel)
    (s : KernelState) (pid program_number : Nat) : Option KernelState :=
  if (env.program_load (process_setup_map K L env s pid) pid program_number).2.2.2 < 0 then
    none
  else if (find_free_page K
      (program_load_state env (process_setup_map K L env s pid) pid program_number)).2 =
      NULL then none
  else
    some (process_setup_stack K
      (find_free_page K
        (program_load_state env (process_setup_map K L env s pid) pid program_number)).1
      pid
      (find_free_page K
        (program_load_state env (process_setup_map K L env s pid) pid program_number)).2)

/-- The argument of `kernel`, as far as the function tells commands apart. -/
inductive boot_command where
  | fork
  | forkexit
  | other
deriving DecidableEq, Repr

/-- The descriptor table after `memset(processes, 0, sizeof(processes))` and the loop
that sets `p_pid = i` and `p_state = P_FREE`. -/
def kernel_init_processes (K : KernelConfig) (s : KernelState) : KernelState :=
  { s with
    processes := fun i =>
      if i < K.NPROC then
        { p_pid := i, p_registers := ⟨0, 0, 0, 0, 0, 0, fun _ => 0⟩,
          p_state := procstate.P_FREE, p_pagetable := NULL }
      else s.processes i }

/-- The loop `for (i = 1; i <= 4; ++i) process_setup(i, i - 1)` over the given pids. -/
def kernel_setup_loop (K : KernelConfig) (L : KernelLayout) (env : LoaderModel) :
    List Nat → KernelState → Option KernelState
  | [], s => some s
  | i :: rest, s =>
    match process_setup K L env s i (i - 1) with
    | none => none
    | some s' => kernel_setup_loop K L env rest s'

/-- `kernel(command)`, run on the state left by `hardware_init`, `pageinfo_init`,
`console_clear` and `timer_init`: map the kernel and the console in the kernel page
table, initialise the descriptor table, set up the first processes and run process 1. -/
def kernel (K : KernelConfig) (L : KernelLayout) (env : LoaderModel) (s : KernelState)
    (command : boot_command) : trap_result :=
  match
    (match command with
      | boot_command.fork =>
        process_setup K L env
          (kernel_init_processes K
            (virtual_memory_map K
              (virtual_memory_map K s L.kernel_pagetable 0 0 K.PROC_START_ADDR
                (PTE_P ||| PTE_W) false).1
              L.kernel_pagetable 0xB8000 0xB8000 PAGESIZE (PTE_P ||| PTE_W ||| PTE_U) false).1)
          1 4
      | boot_command.forkexit =>
        process_setup K L env
          (kernel_init_processes K
            (virtual_memory_map K
              (virtual_memory_map K s L.kernel_pagetable 0 0 K.PROC_START_ADDR
                (PTE_P ||| PTE_W) false).1
              L.kernel_pagetable 0xB8000 0xB8000 PAGESIZE (PTE_P ||| PTE_W ||| PTE_U) false).1)
          1 5
      | boot_command.other =>
        kernel_setup_loop K L env [1, 2, 3, 4]
          (kernel_init_processes K
            (virtual_memory_map K
              (virtual_memory_map K s L.kernel_pagetable 0 0 K.PROC_START_ADDR
                (PTE_P ||| PTE_W) false).1
              L.kernel_pagetable 0xB8000 0xB8000 PAGESIZE (PTE_P ||| PTE_W ||| PTE_U) false).1))
    with
  | none => trap_result.halted
  | some s' => run s' 1

/-- The states in which a process runs: the state `kernel` starts process 1 in, and the
state in which `exception` resumes a process after a trap taken in such a state. -/
inductive Reachable (K : KernelConfig) (L : KernelLayout) (env : LoaderModel) :
    KernelState → Prop where
  | boot (s0 : KernelState) (command : boot_command) (s : KernelState) :
    kernel K L env s0 command = trap_result.resumed s → Reachable K L env s
  | trap (s : KernelState) (reg : x86_64_registers) (s' : KernelState) :
    Reachable K L env s → exception K L s reg = trap_result.resumed s' →
    Reachable K L env s'

/-- The process 0 invariant with what it rests on: slot 0 is Free and holds a null page
table, and the pid of every slot is its index. -/
def ProcessZero (K : KernelConfig) (s : KernelState) : Prop :=
  (s.processes 0).p_state = procstate.P_FREE ∧ (s.processes 0).p_pagetable = NULL ∧
    ∀ i, i < K.NPROC → (s.processes i).p_pid = (i : Int)

/-- Between `s` and `s'` only the descriptors of the slots in `A` may differ, no pid
changes and `current` is the same. -/
def ProcFrame (A : Nat → Prop) (s s' : KernelState) : Prop :=
  s'.current = s.current ∧ (∀ j, ¬ A j → s'.processes j = s.processes j) ∧
    ∀ j, (s'.processes j).p_pid = (s.processes j).p_pid

/-- Whether the kernel resumed a process. -/
def trap_result.is_resumed : trap_result → Bool
  | trap_result.resumed _ => true
  | _ => false

/-- The state in which a process was resumed, or `d`. -/
def trap_result.state_or (d : KernelState) : trap_result → KernelState
  | trap_result.resumed s => s
  | _ => d

/-- The trap numbers are pairwise different, as the labels of the `switch` of `exception`
must be. -/
def trap_numbers_distinct (L : KernelLayout) : Prop :=
  [L.INT_SYS_PANIC, L.INT_SYS_GETPID, L.INT_SYS_YIELD, L.INT_SYS_PAGE_ALLOC, L.INT_TIMER,
    L.INT_PAGEFAULT, L.INT_SYS_FORK, L.INT_SYS_EXIT].Nodup

/-- The trap is a page fault that did not come from user mode. -/
def kernel_page_fault (L : KernelLayout) (reg : x86_64_registers) : Prop :=
  reg.reg_intno = L.INT_PAGEFAULT ∧ reg.reg_err &&& L.PFERR_USER = 0

/-- The trap number is none of the eight numbers `exception` handles. -/
def unknown_trap (L : KernelLayout) (reg : x86_64_registers) : Prop :=
  reg.reg_intno ∉ [L.INT_SYS_PANIC, L.INT_SYS_GETPID, L.INT_SYS_YIELD,
    L.INT_SYS_PAGE_ALLOC, L.INT_TIMER, L.INT_PAGEFAULT, L.INT_SYS_FORK, L.INT_SYS_EXIT]

instance (L : KernelLayout) : Decidable (trap_numbers_distinct L) := by
  unfold trap_numbers_distinct
  infer_instance

instance (L : KernelLayout) (reg : x86_64_registers) : Decidable (kernel_page_fault L reg) := by
  unfold kernel_page_fault
  infer_instance

instance (L : KernelLayout) (reg : x86_64_registers) : Decidable (unknown_trap L reg) := by
  unfold unknown_trap
  infer_instance

/-! ## Boot: the ownership table -/

/-- The owner `pageinfo_init` gives the page at physical address `addr`.  The query
`physical_memory_isreserved` of `k-hardware.c` is not part of the sources and is the
parameter `isreserved`; `KERNEL_STACK_TOP - PAGESIZE` is computed on 64 bits. -/
def pageinfo_init_owner (L : KernelLayout) (isreserved : Nat → Bool) (addr : Nat) : Int :=
  if isreserved addr = true then PO_RESERVED
  else if (L.KERNEL_START_ADDR ≤ addr ∧ addr < L.kernel_end) ∨
      addr = uint64 ((L.KERNEL_STACK_TOP : Int) - PAGESIZE) then PO_KERNEL
  else PO_FREE

/-- The loop of `pageinfo_init` over the given addresses. -/
def pageinfo_init_loop (L : KernelLayout) (isreserved : Nat → Bool) :
    List Nat → KernelState → KernelState
  | [], s => s
  | addr :: rest, s =>
    pageinfo_init_loop L isreserved rest
      (set_pageinfo s (PAGENUMBER addr)
        { owner := pageinfo_init_owner L isreserved addr,
          refcount := if pageinfo_init_owner L isreserved addr ≠ PO_FREE then 1 else 0 })

/-- `pageinfo_init()`. -/
def pageinfo_init (K : KernelConfig) (L : KernelLayout) (isreserved : Nat → Bool)
    (s : KernelState) : KernelState :=
  pageinfo_init_loop L isreserved (page_addresses 0 K.MEMSIZE_PHYSICAL) s

/-- The states in which a process runs on a machine whose ownership table was set up by
`pageinfo_init`: the state `kernel` starts process 1 in, and the state in which
`exception` resumes a process after a trap taken in such a state. -/
inductive Booted (K : KernelConfig) (L : KernelLayout) (env : LoaderModel)
    (isreserved : Nat → Bool) : KernelState → Prop where
  | boot (s0 : KernelState) (command : boot_command) (s : KernelState) :
    kernel K L env (pageinfo_init K L isreserved s0) command = trap_result.resumed s →
    Booted K L env isreserved s
  | trap (s : KernelState) (reg : x86_64_registers) (s' : KernelState) :
    Booted K L env isreserved s → exception K L s reg = trap_result.resumed s' →
    Booted K L env isreserved s'

/-- Every physical page's owner is Free, Reserved, Kernel, or the pid of a process that is
not Free. -/
def OwnersLive (K : KernelConfig) (s : KernelState) : Prop :=
  ∀ pn, pn < NPAGES K →
    (s.pageinfo pn).owner = PO_FREE ∨ (s.pageinfo pn).owner = PO_RESERVED ∨
      (s.pageinfo pn).owner = PO_KERNEL ∨
      ∃ p, p < K.NPROC ∧ (s.processes p).p_pid = (s.pageinfo pn).owner ∧
        (s.processes p).p_state ≠ procstate.P_FREE

/-- What an allocating step may do to the owners: `current_owner` is kept, and the owner
of a page is as before, Free, or `current_owner`. -/
def AllocFrame (s s' : KernelState) : Prop :=
  s'.current_owner = s.current_owner ∧
    ∀ pn, (s'.pageinfo pn).owner = (s.pageinfo pn).owner ∨
      (s'.pageinfo pn).owner = PO_FREE ∨ (s'.pageinfo pn).owner = s.current_owner

/-- What a handler may do to the owners: the owner of a page is as before, Free, or `o`. -/
def OwnerStep (o : Int) (s s' : KernelState) : Prop :=
  ∀ pn, (s'.pageinfo pn).owner = (s.pageinfo pn).owner ∨
    (s'.pageinfo pn).owner = PO_FREE ∨ (s'.pageinfo pn).owner = o

/-- Between `s` and `s'` the pid, state and page-table pointer of the slots outside `A`
are the same. -/
def DescFrame (A : Nat → Prop) (s s' : KernelState) : Prop :=
  ∀ j, ¬ A j → (s'.processes j).p_pid = (s.processes j).p_pid ∧
    (s'.processes j).p_state = (s.processes j).p_state ∧
    (s'.processes j).p_pagetable = (s.processes j).p_pagetable

/-- Assumption on the program loader, which is not part of the sources: the pages whose
owner it changes it gives to the process it loads (as `assign_physical_page(addr,
p->p_pid)` does) or frees. -/
def LoaderAssigns (env : LoaderModel) : Prop :=
  ∀ (s : KernelState) (pid n pn : Nat),
    ((env.program_load s pid n).1 pn).owner = (s.pageinfo pn).owner ∨
      ((env.program_load s pid n).1 pn).owner = PO_FREE ∨
      ((env.program_load s pid n).1 pn).owner = (s.processes pid).p_pid

/-! ## The ownership partition -/

/-- The configurations the invariants are stated for: process ids and reference counts fit
their 8-bit fields (`NPROC ≤ 126`), the address space fits the four-level tree, and the
process region starts page-aligned inside it. -/
def ConfigSane (K : KernelConfig) : Prop :=
  K.NPROC ≤ 126 ∧ K.MEMSIZE_VIRTUAL ≤ 2 ^ 48 ∧ K.PROC_START_ADDR % 4096 = 0 ∧
    K.PROC_START_ADDR ≤ K.MEMSIZE_VIRTUAL

/-- Slot `p` of the process table holds a process: its state is not Free. -/
def Live (K : KernelConfig) (s : KernelState) (p : Nat) : Prop :=
  p < K.NPROC ∧ (s.processes p).p_state ≠ procstate.P_FREE

/-- The page-aligned addresses of the process region `[PROC_START_ADDR, MEMSIZE_VIRTUAL)`,
the addresses `fork` and `process_cleanup` walk over above the kernel region. -/
def user_range (K : KernelConfig) : List Nat :=
  page_addresses K.PROC_START_ADDR K.MEMSIZE_VIRTUAL

/-- The physical pages process `p` maps in the process region, one entry for each mapped
address. -/
def mapped_pages (K : KernelConfig) (s : KernelState) (p : Nat) : List Nat :=
  released_pages s.physmem (s.processes p).p_pagetable (user_range K)

/-- The number of (pid, virtual address) pairs, over the non-Free processes and the
addresses of the process region, whose mapping refers to physical page `pn`. -/
def mapping_count (K : KernelConfig) (s : KernelState) (pn : Nat) : Nat :=
  ((List.range K.NPROC).map (fun p =>
    if (s.processes p).p_state ≠ procstate.P_FREE then (mapped_pages K s p).count pn
    else 0)).sum

/-- The ownership partition with what it rests on.  For every non-Free process: its page
table is a tree whose nodes are pages owned by the process with reference count 1; the
pages it maps in the process region are user-accessible pages of the pool that are no
page-table nodes, each mapped at one address only, and a writable one is referenced once;
every page below `PROC_START_ADDR` is mapped, user-accessible only for pages the kernel
keeps (negative owner), and writable and user-accessible only for the console.  The
reference count of a page mapped in a process region is the number of these mappings,
and of any other page at most 1; a page a process owns that is mapped at all is mapped
by its owner; a page with reference count 0 is Free; page 0 is never a process's. -/
structure KernelInv (K : KernelConfig) (s : KernelState) : Prop where
  zero : ProcessZero K s
  sane : AllocSane K s
  page0 : (s.pageinfo 0).owner < 0
  free : ∀ pn, pn < NPAGES K → (s.pageinfo pn).refcount = 0 → (s.pageinfo pn).owner = PO_FREE
  owners : OwnersLive K s
  tree : ∀ p, Live K s p → TreeInj s.physmem (s.processes p).p_pagetable
  nodes : ∀ p, Live K s p → ∀ n, IsNode s.physmem (s.processes p).p_pagetable n →
    n < NPAGES K ∧ s.pageinfo n = { owner := (p : Int), refcount := 1 }
  user : ∀ p, Live K s p → ∀ va ∈ user_range K, ∀ vam,
    virtual_memory_lookup s.physmem (s.processes p).p_pagetable va = some vam →
    vam.perm &&& PTE_U ≠ 0 ∧ 0 ≤ (s.pageinfo vam.pn).owner ∧ vam.pn < NPAGES K ∧
      ∀ q, Live K s q → ¬ IsNode s.physmem (s.processes q).p_pagetable vam.pn
  once : ∀ p, Live K s p → (mapped_pages K s p).Nodup
  count : ∀ pn, pn < NPAGES K →
    (0 < mapping_count K s pn → (s.pageinfo pn).refcount = (mapping_count K s pn : Int)) ∧
      (mapping_count K s pn = 0 → (s.pageinfo pn).refcount ≤ 1)
  own : ∀ pn, pn < NPAGES K → ∀ p, Live K s p → (s.pageinfo pn).owner = (p : Int) →
    0 < mapping_count K s pn → pn ∈ mapped_pages K s p
  wexcl : ∀ p, Live K s p → ∀ va ∈ user_range K, ∀ vam,
    virtual_memory_lookup s.physmem (s.processes p).p_pagetable va = some vam →
    vam.perm &&& PTE_W ≠ 0 → (s.pageinfo vam.pn).refcount = 1
  low : ∀ p, Live K s p → ∀ va ∈ page_addresses 0 K.PROC_START_ADDR,
    ∃ vam, virtual_memory_lookup s.physmem (s.processes p).p_pagetable va = some vam ∧
      vam.pn < NPAGES K ∧
      (vam.perm &&& PTE_U ≠ 0 →
        (s.pageinfo vam.pn).owner < 0 ∧ 0 < (s.pageinfo vam.pn).refcount) ∧
      (va ≠ 0xB8000 → ¬ (vam.perm &&& PTE_W ≠ 0 ∧ vam.perm &&& PTE_U ≠ 0))

/-- The states reached from `s0` by traps that resume a process. -/
inductive TrapsFrom (K : KernelConfig) (L : KernelLayout) (s0 : KernelState) :
    KernelState → Prop where
  | start : TrapsFrom K L s0 s0
  | trap (s : KernelState) (reg : x86_64_registers) (s' : KernelState) :
    TrapsFrom K L s0 s → exception K L s reg = trap_result.resumed s' → TrapsFrom K L s0 s'

/-! ## Boot: what the invariant rests on -/

/-- Referenced pages keep their record from `s` to `s'`. -/
def RefKeep (s s' : KernelState) : Prop :=
  ∀ pn, 0 < (s.pageinfo pn).refcount → s'.pageinfo pn = s.pageinfo pn

/-- The configurations `kernel` boots on: the slots 1 to 4 exist; the process region starts
above address 0, inside physical memory, and holds at least the stack page; physical
memory ends page-aligned inside the virtual address space, which ends page-aligned; the
console page `0xB8000` lies in the kernel region (or outside the address space, on a small
machine). -/
def BootSane (K : KernelConfig) : Prop :=
  4 < K.NPROC ∧ 0 < K.PROC_START_ADDR ∧ K.PROC_START_ADDR ≤ K.MEMSIZE_PHYSICAL ∧
    K.MEMSIZE_PHYSICAL ≤ K.MEMSIZE_VIRTUAL ∧ K.MEMSIZE_PHYSICAL % 4096 = 0 ∧
    K.MEMSIZE_VIRTUAL % 4096 = 0 ∧ K.PROC_START_ADDR < K.MEMSIZE_VIRTUAL ∧
    (0xB8000 < K.PROC_START_ADDR ∨ K.MEMSIZE_VIRTUAL ≤ 0xB8000)

/-- Assumption on `hardware_init`, which is not part of the sources: the state it leaves.
The kernel page table is a tree whose nodes are pages that `pageinfo_init` gives to the
kernel or marks reserved; it has a leaf node for every page below `PROC_START_ADDR` and
maps nothing in the process region above physical memory; page 0 and, when it lies in the
kernel region, the console page are not in the pool. -/
structure HardwareInit (K : KernelConfig) (L : KernelLayout) (isreserved : Nat → Bool)
    (s : KernelState) : Prop where
  tree : TreeInj s.physmem L.kernel_pagetable
  nodes : ∀ n, IsNode s.physmem L.kernel_pagetable n →
    n < NPAGES K ∧ pageinfo_init_owner L isreserved (PAGEADDRESS n) ≠ PO_FREE
  leaves : ∀ va ∈ page_addresses 0 K.PROC_START_ADDR,
    pt_walk s.physmem L.kernel_pagetable va 3 ≠ none
  high : ∀ va ∈ user_range K, K.MEMSIZE_PHYSICAL ≤ va →
    virtual_memory_lookup s.physmem L.kernel_pagetable va = none
  page0 : pageinfo_init_owner L isreserved 0 ≠ PO_FREE
  console : 0xB8000 < K.PROC_START_ADDR → pageinfo_init_owner L isreserved 0xB8000 ≠ PO_FREE

/-- The kernel page table while `kernel` sets the processes up: a tree of referenced pages
with negative owner that maps every page below `PROC_START_ADDR` as the invariant asks of
a process, and nothing in the process region above physical memory. -/
structure KernelTable (K : KernelConfig) (L : KernelLayout) (s : KernelState) : Prop where
  tree : TreeInj s.physmem L.kernel_pagetable
  nodes : ∀ n, IsNode s.physmem L.kernel_pagetable n →
    n < NPAGES K ∧ (s.pageinfo n).owner < 0 ∧ 0 < (s.pageinfo n).refcount
  low : ∀ va ∈ page_addresses 0 K.PROC_START_ADDR,
    ∃ vam, virtual_memory_lookup s.physmem L.kernel_pagetable va = some vam ∧
      vam.pn < NPAGES K ∧
      (vam.perm &&& PTE_U ≠ 0 →
        (s.pageinfo vam.pn).owner < 0 ∧ 0 < (s.pageinfo vam.pn).refcount) ∧
      (va ≠ 0xB8000 → ¬ (vam.perm &&& PTE_W ≠ 0 ∧ vam.perm &&& PTE_U ≠ 0))
  high : ∀ va ∈ user_range K, K.MEMSIZE_PHYSICAL ≤ va →
    virtual_memory_lookup s.physmem L.kernel_pagetable va = none
  console : 0xB8000 < K.PROC_START_ADDR →
    (s.pageinfo 0xB8).owner < 0 ∧ 0 < (s.pageinfo 0xB8).refcount

/-- Assumption on the program loader, which is not part of the sources.  It releases no
page; it leaves the record and contents of the referenced pages with negative owner alone;
and when it loads a program for a process whose process region is empty and does not fail,
it keeps the invariant (the process counted as live) and leaves the top page of the
address space, where `process_setup` puts the stack, unmapped. -/
def LoaderSound (K : KernelConfig) (env : LoaderModel) : Prop :=
  ∀ (s : KernelState) (pid n : Nat),
    (∀ pn, 0 < (s.pageinfo pn).refcount → 0 < ((env.program_load s pid n).1 pn).refcount) ∧
    (∀ pn, (s.pageinfo pn).owner < 0 → 0 < (s.pageinfo pn).refcount →
      (env.program_load s pid n).1 pn = s.pageinfo pn ∧
        (env.program_load s pid n).2.1 pn = s.physmem pn) ∧
    (pid < K.NPROC → KernelInv K (set_p_state s pid procstate.P_RUNNABLE) →
      (∀ va ∈ user_range K,
        virtual_memory_lookup s.physmem (s.processes pid).p_pagetable va = none) →
      ¬ (env.program_load s pid n).2.2.2 < 0 →
      KernelInv K (set_p_state (program_load_state env s pid n) pid procstate.P_RUNNABLE) ∧
        virtual_memory_lookup (env.program_load s pid n).2.1 (s.processes pid).p_pagetable
          (K.MEMSIZE_VIRTUAL - PAGESIZE) = none)

/-- The number of (pid, virtual address) pairs, over the non-Free processes and all
page-aligned addresses below `MEMSIZE_VIRTUAL`, whose mapping refers to physical page
`pn`. -/
def mapping_count_all (K : KernelConfig) (s : KernelState) (pn : Nat) : Nat :=
  ((List.range K.NPROC).map (fun p =>
    if (s.processes p).p_state ≠ procstate.P_FREE then
      (released_pages s.physmem (s.processes p).p_pagetable
        (page_addresses 0 K.MEMSIZE_VIRTUAL)).count pn
    else 0)).sum

/-- The table rooted at `c` can take a mapping at an address below `2 ^ 21` without
exhausting the pool: either it maps such an address already (the three nodes below the root
on the common path of these addresses exist) and a page is free, or four pages are free. -/
def Anchored (K : KernelConfig) (c : Nat) (t : KernelState) : Prop :=
  ((∃ va v, va < 2 ^ 21 ∧ virtual_memory_lookup t.physmem c va = some v) ∧
      1 ≤ free_page_count K t) ∨
    4 ≤ free_page_count K t

instance (K : KernelConfig) : Decidable (ConfigSane K) := by
  unfold ConfigSane
  infer_instance

instance (K : KernelConfig) : Decidable (BootSane K) := by
  unfold BootSane
  infer_instance

/-! ## The array indices the two search loops use -/

/-- The indices at which the `while` loop of `find_free_page` reads `pageinfo[]`, in order.
Each evaluation of the condition `pageinfo[freePage].refcount > 0 && freePage <
PAGENUMBER(MEMSIZE_PHYSICAL)` reads `pageinfo[freePage]` first, whatever `freePage` is, and
compares `freePage` with the bound only when the count is positive.  The fuel bounds the
number of evaluations. -/
def find_free_page_scan_reads (K : KernelConfig) (s : KernelState) : Nat → Nat → List Nat
  | 0, _ => []
  | fuel + 1, freePage =>
    if 0 < (s.pageinfo freePage).refcount ∧ freePage < NPAGES K then
      freePage :: find_free_page_scan_reads K s fuel (freePage + 1)
    else [freePage]

/-- Every index at which `find_free_page()` reads or writes `pageinfo[]`: the reads of the
loop (the condition is evaluated at most `NPAGES + 1` times) and, when the function does
not return `NULL`, the two assignments to `pageinfo[freePage]`. -/
def find_free_page_accesses (K : KernelConfig) (s : KernelState) : List Nat :=
  find_free_page_scan_reads K s (NPAGES K + 1) 0 ++
    (if NPAGES K ≤ find_free_page_scan K s (NPAGES K) 0 then []
      else [find_free_page_scan K s (NPAGES K) 0, find_free_page_scan K s (NPAGES K) 0])

/-- The slot indices at which the `while` loop of `INT_SYS_FORK` reads `processes[]`, in
order.  Each evaluation of the condition `processes[freeProc].p_state != P_FREE && freeProc
< NPROC` reads `processes[freeProc]` first, whatever `freeProc` is.  The fuel bounds the
number of evaluations. -/
def sys_fork_find_slot_reads (K : KernelConfig) (s : KernelState) : Nat → Nat → List Nat
  | 0, _ => []
  | fuel + 1, freeProc =>
    if (s.processes freeProc).p_state ≠ procstate.P_FREE ∧ freeProc < K.NPROC then
      freeProc :: sys_fork_find_slot_reads K s fuel (freeProc + 1)
    else [freeProc]

/-- The slots the search of `INT_SYS_FORK` inspects: it starts at slot 1 and evaluates its
condition at most `NPROC` times. -/
def sys_fork_slot_reads (K : KernelConfig) (s : KernelState) : List Nat :=
  sys_fork_find_slot_reads K s K.NPROC 1

/-! ## Example states -/

/-- A small configuration used for concrete instances: four process slots, sixteen
physical pages, eight virtual pages, processes starting at the fifth virtual page. -/
def example_config : KernelConfig :=
  { NPROC := 4, MEMSIZE_PHYSICAL := 0x10000, MEMSIZE_VIRTUAL := 0x8000,
    PROC_START_ADDR := 0x4000 }

/-- Registers all zero. -/
def example_registers : x86_64_registers :=
  { reg_rax := 0, reg_rdi := 0, reg_rsp := 0, reg_rip := 0, reg_intno := 0, reg_err := 0,
    reg_other := fun _ => 0 }

/-- An ownership table in which pages 0 and 1 belong to the kernel and every other page
is free; no process is active. -/
def example_table : KernelState :=
  { pageinfo := fun i => if i < 2 then ⟨PO_KERNEL, 1⟩ else ⟨PO_FREE, 0⟩,
    physmem := fun _ _ => 5,
    processes := fun i => ⟨i, example_registers, procstate.P_FREE, NULL⟩,
    current := 1, current_owner := 3, ticks := 0 }

/-- An ownership table in which every page is referenced. -/
def example_full_table : KernelState :=
  { example_table with pageinfo := fun _ => ⟨PO_KERNEL, 1⟩ }

/-- A running parent in the small configuration.  Page 0 is reserved; pages 1 to 4 hold
the four nodes of the page table of process 1; page 5 is mapped read-only and page 6
writable (holding the byte 7) for user mode above `PROC_START_ADDR`; page 7 is a reserved
page that is mapped writable for user mode below `PROC_START_ADDR`, as the console is;
pages 8 to 15 are free. -/
def example_parent : KernelState :=
  { pageinfo := fun i =>
      if i = 0 then ⟨PO_RESERVED, 1⟩ else if i < 7 then ⟨1, 1⟩
      else if i = 7 then ⟨PO_RESERVED, 1⟩ else ⟨PO_FREE, 0⟩,
    physmem := fun p i =>
      if p = 1 ∧ i = 0 then 0x2007 else if p = 2 ∧ i = 0 then 0x3007
      else if p = 3 ∧ i = 0 then 0x4007 else if p = 4 ∧ i = 1 then 0x7007
      else if p = 4 ∧ i = 4 then 0x5005 else if p = 4 ∧ i = 5 then 0x6007
      else if p = 6 ∧ i = 0 then 7 else 0,
    processes := fun i =>
      ⟨i, example_registers, if i = 1 then procstate.P_RUNNABLE else procstate.P_FREE,
        if i = 1 then 0x1000 else NULL⟩,
    current := 1, current_owner := 0, ticks := 0 }

/-- The layout of the kernel as built: 16 process slots, 2 MiB of physical memory, 3 MiB
of virtual address space per process, processes starting at `0x100000`. -/
def weensy_config : KernelConfig :=
  { NPROC := 16, MEMSIZE_PHYSICAL := 0x200000, MEMSIZE_VIRTUAL := 0x300000,
    PROC_START_ADDR := 0x100000 }

/-- A running process 1 in the layout of the kernel as built.  Page 0 and the I/O pages
`0xA0` to `0xFF` (the console page `0xB8` among them) are reserved.  Pages 1 to 5 hold the
page table of process 1: root, one node at each of the next two levels, and the two leaf
nodes for the addresses below and from `0x200000`.  The process maps the console at
`0xB8000` (present, writable, user-accessible), page `0x100` read-only for user mode at
`0x100000`, its writable data page `0x101` at `0x101000` and its stack page `0x102` at
`0x2FF000`.  The console and the data page start with the byte 7.  Page `0x100` has
owner `ro_owner`; the pages from 6 up to (excluding) `6 + nfree` are free; every other page
belongs to the kernel. -/
def weensy_state (ro_owner : Int) (nfree : Nat) : KernelState :=
  { pageinfo := fun i =>
      if i = 0 then ⟨PO_RESERVED, 1⟩ else if i < 6 then ⟨1, 1⟩
      else if i < 6 + nfree then ⟨PO_FREE, 0⟩
      else if 0xA0 ≤ i ∧ i < 0x100 then ⟨PO_RESERVED, 1⟩
      else if i = 0x100 then ⟨ro_owner, 1⟩
      else if i = 0x101 ∨ i = 0x102 then ⟨1, 1⟩
      else ⟨PO_KERNEL, 1⟩,
    physmem := fun p i =>
      if p = 1 ∧ i = 0 then 0x2007 else if p = 2 ∧ i = 0 then 0x3007
      else if p = 3 ∧ i = 0 then 0x4007 else if p = 3 ∧ i = 1 then 0x5007
      else if p = 4 ∧ i = 0xB8 then 0xB8007 else if p = 4 ∧ i = 0x100 then 0x100005
      else if p = 4 ∧ i = 0x101 then 0x101007 else if p = 5 ∧ i = 0xFF then 0x102007
      else if p = 0xB8 ∧ i = 0 then 7 else if p = 0x101 ∧ i = 0 then 7 else 0,
    processes := fun i =>
      ⟨i, example_registers, if i = 1 then procstate.P_RUNNABLE else procstate.P_FREE,
        if i = 1 then 0x1000 else NULL⟩,
    current := 1, current_owner := 0, ticks := 0 }

/-- The example parent short of memory: only the four pages 8 to 11 are free, which is
enough for the four nodes of a child's page table but not for the copy of the writable
page; the pages from 12 on belong to the kernel. -/
def example_parent_low : KernelState :=
  { example_parent with
    pageinfo := fun i => if 12 ≤ i then ⟨PO_KERNEL, 1⟩ else example_parent.pageinfo i }

/-- The example parent with only the two pages 8 and 9 free: not enough for the four
nodes of a copy of its page table; the pages from 10 on belong to the kernel. -/
def example_parent_tight : KernelState :=
  { example_parent with
    pageinfo := fun i => if 10 ≤ i then ⟨PO_KERNEL, 1⟩ else example_parent.pageinfo i }

/-- The example parent at a page-alloc trap whose argument register holds `a`. -/
def example_alloc_trap (a : Nat) : KernelState :=
  exception_save example_parent { example_registers with reg_rdi := a }

/-- Process 1 in the layout of the kernel as built (58 free pages) at a page-alloc trap
whose argument register holds `a`. -/
def weensy_alloc_trap (a : Nat) : KernelState :=
  exception_save (weensy_state 1 58) { example_registers with reg_rdi := a }

/-- The example parent with no free page: the pages from 8 on belong to the kernel. -/
def example_parent_full : KernelState :=
  { example_parent with
    pageinfo := fun i => if 8 ≤ i then ⟨PO_KERNEL, 1⟩ else example_parent.pageinfo i }

/-- The example parent with processes 1 and 3 Runnable and process 2 Broken. -/
def example_three : KernelState :=
  { example_parent with
    processes := fun i =>
      ⟨i, example_registers,
        if i = 1 ∨ i = 3 then procstate.P_RUNNABLE
        else if i = 2 then procstate.P_BROKEN else procstate.P_FREE,
        if i = 1 then 0x1000 else NULL⟩ }

/-- A small machine to boot: 4 process slots, 16 physical pages, processes from
`0x8000`. -/
def boot_config : KernelConfig :=
  { NPROC := 4, MEMSIZE_PHYSICAL := 0x10000, MEMSIZE_VIRTUAL := 0x10000,
    PROC_START_ADDR := 0x8000 }

/-- Layout of the small machine: the kernel image is pages 1 to 6, its data (from
`0x2000`) holding the kernel page table at `0x3000`; the kernel stack is page 7.  Trap
numbers and error bits are those of the x86-64 kernel. -/
def boot_layout : KernelLayout :=
  { kernel_pagetable := 0x3000, KERNEL_START_ADDR := 0x1000, kernel_end := 0x7000,
    start_data := 0x2000, KERNEL_STACK_TOP := 0x8000, INT_PAGEFAULT := 14, INT_TIMER := 32,
    INT_SYS_PANIC := 48, INT_SYS_GETPID := 49, INT_SYS_YIELD := 50,
    INT_SYS_PAGE_ALLOC := 51, INT_SYS_FORK := 52, INT_SYS_EXIT := 53, PFERR_USER := 4 }

/-- A loader that loads an empty program: nothing is allocated or written, the entry
point is `0x8000` and the call succeeds. -/
def boot_loader : LoaderModel :=
  { process_init := ⟨0, 0, 0, 0, 0, 0, fun _ => 0⟩,
    program_load := fun s pid _ =>
      (s.pageinfo, s.physmem, { (s.processes pid).p_registers with reg_rip := 0x8000 }, 0) }

/-- The small machine before `kernel` runs: page 0 is reserved, pages 1 to 7 belong to
the kernel, pages 8 to 15 are free; the four nodes of the kernel page table (pages 3 to 6)
are linked and the leaf is empty. -/
def boot_state : KernelState :=
  { pageinfo := fun i =>
      if i = 0 then ⟨PO_RESERVED, 1⟩ else if i < 8 then ⟨PO_KERNEL, 1⟩ else ⟨PO_FREE, 0⟩,
    physmem := fun p i =>
      if p = 3 ∧ i = 0 then 0x4007 else if p = 4 ∧ i = 0 then 0x5007
      else if p = 5 ∧ i = 0 then 0x6007 else 0,
    processes := fun _ => ⟨0, example_registers, procstate.P_FREE, NULL⟩,
    current := 0, current_owner := 0, ticks := 0 }

/-- The state in which the small machine, booted with the command `fork`, starts
process 1. -/
def booted_state : KernelState :=
  (kernel boot_config boot_layout boot_loader boot_state boot_command.fork).state_or boot_state

/-- The register snapshot of a get-pid trap. -/
def getpid_registers : x86_64_registers :=
  { example_registers with reg_intno := 49 }

/-- The register snapshot of a trap with number `n` and page-fault error code `e`. -/
def trap_registers (n e : Nat) : x86_64_registers :=
  { example_registers with reg_intno := n, reg_err := e }

/-- The example parent after its `fork`: the child is process 2 and page 5, which the
parent owns and maps read-only for user mode, is shared by the two. -/
def example_forked : KernelState := (sys_fork example_config example_parent).1

/-- The small machine with five process slots, so that the slots 1 to 4 that `kernel`
sets up exist. -/
def boot_config_five : KernelConfig := { boot_config with NPROC := 5 }

/-- On the small machine only page 0 is reserved. -/
def boot_isreserved (addr : Nat) : Bool := decide (addr < 0x1000)

/-- The small machine with five slots after `pageinfo_init` and `kernel`, booted with the
command `fork`. -/
def booted_five : KernelState :=
  (kernel boot_config_five boot_layout boot_loader
    (pageinfo_init boot_config_five boot_layout boot_isreserved boot_state)
    boot_command.fork).state_or boot_state

/-- Layout of the small machine with the kernel page table at `0x1000`. -/
def chain_layout : KernelLayout := { boot_layout with kernel_pagetable := 0x1000 }

/-- The small machine as `hardware_init` leaves it, with the kernel page table in pages 1
to 4: the four nodes are linked and the leaf is empty. -/
def chain_state : KernelState :=
  { boot_state with
    physmem := fun p i =>
      if p = 1 ∧ i = 0 then 0x2007 else if p = 2 ∧ i = 0 then 0x3007
      else if p = 3 ∧ i = 0 then 0x4007 else 0 }

/-- The small machine with five slots and the kernel page table at `0x1000`, booted with
the command `fork`. -/
def chain_booted : KernelState :=
  (kernel boot_config_five chain_layout boot_loader
    (pageinfo_init boot_config_five chain_layout boot_isreserved chain_state)
    boot_command.fork).state_or chain_state

/-- A machine with 32 physical pages, enough for the four processes `kernel` sets up by
default. -/
def four_config : KernelConfig :=
  { NPROC := 5, MEMSIZE_PHYSICAL := 0x20000, MEMSIZE_VIRTUAL := 0x20000,
    PROC_START_ADDR := 0x8000 }

/-- The machine with 32 pages after `kernel` has set up the processes 1 to 4. -/
def chain_booted_four : KernelState :=
  (kernel four_config chain_layout boot_loader
    (pageinfo_init four_config chain_layout boot_isreserved chain_state)
    boot_command.other).state_or chain_state

/-- The reserved physical addresses of the machine as built: page 0 and the I/O region
from `0xA0000` up to (excluding) `0x100000`, which holds the console page. -/
def weensy_isreserved (addr : Nat) : Bool :=
  decide (addr = 0 ∨ 0xA0000 ≤ addr ∧ addr < 0x100000)

/-- The machine with the constants of the kernel as built and the kernel image of the small
machine, booted with the command `fork`. -/
def weensy_booted : KernelState :=
  (kernel weensy_config chain_layout boot_loader
    (pageinfo_init weensy_config chain_layout weensy_isreserved chain_state)
    boot_command.fork).state_or chain_state

/-- A loader whose program is one page of read-only text: `program_load` takes the lowest
free page for the calling process and maps it at `PROC_START_ADDR`, user-accessible and not
writable, and sets the entry point there. -/
def ro_loader (K : KernelConfig) : LoaderModel :=
  { process_init := ⟨0, 0, 0, 0, 0, 0, fun _ => 0⟩,
    program_load := fun s pid _ =>
      ((virtual_memory_map K (find_free_page K s).1 (s.processes pid).p_pagetable
          K.PROC_START_ADDR (find_free_page K s).2 PAGESIZE (PTE_P ||| PTE_U) true).1.pageinfo,
        (virtual_memory_map K (find_free_page K s).1 (s.processes pid).p_pagetable
          K.PROC_START_ADDR (find_free_page K s).2 PAGESIZE (PTE_P ||| PTE_U) true).1.physmem,
        { (s.processes pid).p_registers with reg_rip := K.PROC_START_ADDR }, 0) }

/-- A machine of twenty pages with five process slots; the process region starts at page
8. -/
def share_config : KernelConfig :=
  { NPROC := 5, MEMSIZE_PHYSICAL := 0x14000, MEMSIZE_VIRTUAL := 0x14000,
    PROC_START_ADDR := 0x8000 }

/-- The machine of `share_config` after `kernel("fork")` with the read-only loader:
process 1 runs, its text is page 12. -/
def share_booted : KernelState :=
  (kernel share_config chain_layout (ro_loader share_config)
    (pageinfo_init share_config chain_layout boot_isreserved chain_state)
    boot_command.fork).state_or chain_state

/-- The state after the fork trap of process 1 in `share_booted`. -/
def share_forked : KernelState :=
  (exception_switch share_config chain_layout
    (exception_save share_booted (trap_registers 52 0)) (trap_registers 52 0)).state_or
      chain_state

/-- The state after the exit trap of process 1 in `share_forked`. -/
def share_orphan : KernelState :=
  (exception_switch share_config chain_layout
    (exception_save share_forked (trap_registers 53 0)) (trap_registers 53 0)).state_or
      chain_state

/-- The example parent with a page of its own mapped below `PROC_START_ADDR`: page 8
belongs to process 1, has reference count 1 and is mapped read-only for user mode at
`0x2000`. -/
def example_parent_low_share : KernelState :=
  { example_parent with
    pageinfo := fun i => if i = 8 then ⟨1, 1⟩ else example_parent.pageinfo i,
    physmem := fun p i => if p = 4 ∧ i = 2 then 0x8005 else example_parent.physmem p i }

/-- The example parent with a page left recorded for slot 2, which is Free: page 8 has
owner 2 and reference count 1 and is mapped nowhere. -/
def example_parent_stale : KernelState :=
  { example_parent with
    pageinfo := fun i => if i = 8 then ⟨2, 1⟩ else example_parent.pageinfo i }

/-- The example parent with two free pages at a page-alloc trap whose argument register
holds `a`. -/
def example_tight_trap (a : Nat) : KernelState :=
  exception_save example_parent_tight { example_registers with reg_rdi := a }

end Weensy

/-! # The debugging allocator (`pset1/m61.c`)

Pointers are addresses (`NULL = 0`); `size_t` and `unsigned long long` values are natural
numbers reduced modulo `2 ^ 64`.  The heap is split by what is stored: the metadata record
and the overflow buffer written at an address, and the bytes of the payloads.  A call whose
behaviour C leaves undefined (a division by zero, a store through a null pointer) has no
result: the functions return `none`. -/

namespace M61

/-- The null pointer. -/
def NULL : Nat := 0

/-- Reduction to `size_t` / `unsigned long long`. -/
def size_t (x : Nat) : Nat := x % 2 ^ 64

/-- `struct m61_statistics`: the declaration is in `m61.h`, which is not part of the
sources; these are the fields `m61.c` uses, all printed as `unsigned long long` except the
two heap bounds, which are pointers. -/
structure m61_statistics where
  nactive : Nat
  active_size : Nat
  ntotal : Nat
  total_size : Nat
  nfail : Nat
  fail_size : Nat
  heap_min : Nat
  heap_max : Nat

/-- `struct m61_metadata`, without its padding field. -/
structure m61_metadata where
  size : Nat
  active_flag : Nat
  ptr_addr : Nat
  file : Nat
  line : Int
  prev : Nat
  next : Nat

/-- A node of the heavy-hitter list (`m61_heavyhitter_node`); the list itself stands for
the `next` pointers. -/
structure m61_heavyhitter_node where
  fileName : Nat
  lineNumber : Int
  HHNum : Int
  size : Nat

/-- The globals of `m61.c` and the heap: `global_stats`, `head`, `HH_Head`,
`HH_total_bytes`, the metadata record stored at an address, the overflow buffer stored at
an address and the bytes of memory. -/
structure m61_state where
  global_stats : m61_statistics
  head : Nat
  HH_Head : List m61_heavyhitter_node
  HH_total_bytes : Nat
  metadata : Nat → m61_metadata
  overflow_buffer : Nat → Nat
  memory : Nat → Nat

/-- What `m61.c` takes from outside: `sizeof(struct m61_statistics)` (declared in `m61.h`),
the address the C library's `malloc` returns for a request in a state, and the value of
`rand()`. -/
structure m61_env where
  sizeof_statistics : Nat
  malloc : m61_state → Nat → Nat
  rand : m61_state → Int

/-- `sizeof(struct m61_metadata)` on x86-64: two `unsigned long long`, two pointers, an
`int` padded to 8 bytes, two pointers, an `int` padded to 8 bytes. -/
def sizeof_metadata : Nat := 64

/-- `sizeof(m61_overflow_buffer)`: one `unsigned long long`. -/
def sizeof_overflow_buffer : Nat := 8

/-- The walk of `update_HHList` over the list: at the first node with the same file and
line the size and the count are raised; `none` when there is no such node. -/
def update_HHList_walk (file : Nat) (line : Int) (sz : Nat) :
    List m61_heavyhitter_node → Option (List m61_heavyhitter_node)
  | [] => none
  | node :: rest =>
    if node.fileName = file ∧ node.lineNumber = line then
      some ({ node with size := size_t (node.size + sz), HHNum := node.HHNum + 1 } :: rest)
    else
      match update_HHList_walk file line sz rest with
      | some rest' => some (node :: rest')
      | none => none

/-- `update_HHList(file, line, sz)`. -/
def update_HHList (st : m61_state) (file : Nat) (line : Int) (sz : Nat) : m61_state :=
  match update_HHList_walk file line sz st.HH_Head with
  | some l => { st with HH_Head := l, HH_total_bytes := size_t (st.HH_total_bytes + sz) }
  | none =>
    { st with
      HH_Head := { fileName := file, lineNumber := line, HHNum := 1, size := sz } ::
        st.HH_Head,
      HH_total_bytes := size_t (st.HH_total_bytes + sz) }

/-- `m61_malloc(sz, file, line)`: the new state and the pointer returned.  The guard
compares `sz` with `2^32 - 1 - sizeof(struct m61_statistics) - sizeof(m61_overflow_buffer)`
(a `double`, exact for these values).  The result of the C library's `malloc` is not
checked: when it is `NULL` the store `*ptr = metadata` is undefined and there is no result.
`rand() > 0.7` holds when `rand()` is at least 1. -/
def m61_malloc (env : m61_env) (st : m61_state) (sz : Nat) (file : Nat) (line : Int) :
    Option (m61_state × Nat) :=
  if (sz : Int) > (2 ^ 32 - 1 : Int) - env.sizeof_statistics - sizeof_overflow_buffer then
    some ({ st with
      global_stats := { st.global_stats with
        nfail := size_t (st.global_stats.nfail + 1),
        fail_size := size_t (st.global_stats.fail_size + sz) } }, NULL)
  else
    let ptr := env.malloc st (size_t (sizeof_metadata + sz + sizeof_overflow_buffer))
    if ptr = NULL then none
    else
      let stats := st.global_stats
      let heap_min := ptr
      let heap_max := ptr + sz + sizeof_metadata
      let stats1 : m61_statistics :=
        { stats with
          nactive := size_t (stats.nactive + 1), ntotal := size_t (stats.ntotal + 1),
          active_size := size_t (stats.active_size + sz),
          total_size := size_t (stats.total_size + sz) }
      let stats2 : m61_statistics :=
        if stats1.heap_min = NULL ∨ stats1.heap_min ≥ heap_min then
          { stats1 with heap_min := heap_min }
        else stats1
      let stats3 : m61_statistics :=
        if stats2.heap_max = NULL ∨ stats2.heap_max ≤ heap_max then
          { stats2 with heap_max := heap_max }
        else stats2
      let record : m61_metadata :=
        { size := sz, active_flag := 0, ptr_addr := ptr + sizeof_metadata, file := file,
          line := line, prev := NULL, next := NULL }
      let metadata1 : Nat → m61_metadata := fun a => if a = ptr then record else st.metadata a
      let metadata2 : Nat → m61_metadata :=
        if st.head ≠ NULL then
          fun a =>
            if a = st.head then
              { (if st.head = ptr then { record with next := st.head } else metadata1 st.head)
                with prev := ptr }
            else if a = ptr then { record with next := st.head }
            else metadata1 a
        else metadata1
      let st1 : m61_state :=
        { st with
          global_stats := stats3, head := ptr, metadata := metadata2,
          overflow_buffer := fun a =>
            if a = ptr + sizeof_metadata + sz then 1111 else st.overflow_buffer a }
      let st2 := if 0 < env.rand st then update_HHList st1 file line sz else st1
      some (st2, ptr + sizeof_metadata)

/-- `memset(ptr, 0, n)` on the bytes of memory. -/
def memset_zero (st : m61_state) (ptr n : Nat) : m61_state :=
  { st with memory := fun a => if ptr ≤ a ∧ a < ptr + n then 0 else st.memory a }

/-- `m61_calloc(nmemb, sz, file, line)`.  `maximum_int` is `(unsigned int) -1`.  The guard
`nmemb > maximum_int / sz || sz > maximum_int / nmemb` divides by `sz` first and, when the
first comparison is false, by `nmemb`; an integer division by zero is undefined and leaves
no result. -/
def m61_calloc (env : m61_env) (st : m61_state) (nmemb sz : Nat) (file : Nat) (line : Int) :
    Option (m61_state × Nat) :=
  let maximum_int : Nat := 2 ^ 32 - 1
  if sz = 0 then none
  else if nmemb > maximum_int / sz then
    some ({ st with
      global_stats := { st.global_stats with nfail := size_t (st.global_stats.nfail + 1) } },
      NULL)
  else if nmemb = 0 then none
  else if sz > maximum_int / nmemb then
    some ({ st with
      global_stats := { st.global_stats with nfail := size_t (st.global_stats.nfail + 1) } },
      NULL)
  else
    match m61_malloc env st (size_t (nmemb * sz)) file line with
    | none => none
    | some (st', ptr) =>
      if ptr ≠ NULL then some (memset_zero st' ptr (size_t (nmemb * sz)), ptr)
      else some (st', ptr)

/-- An allocator state with nothing allocated. -/
def m61_empty : m61_state :=
  { global_stats := ⟨0, 0, 0, 0, 0, 0, 0, 0⟩, head := NULL, HH_Head := [],
    HH_total_bytes := 0, metadata := fun _ => ⟨0, 0, 0, 0, 0, 0, 0⟩,
    overflow_buffer := fun _ => 0, memory := fun _ => 0xAA }

/-- An environment whose `malloc` always returns `0x1000` and whose `rand()` is 0. -/
def m61_example_env : m61_env :=
  { sizeof_statistics := 64, malloc := fun _ _ => 0x1000, rand := fun _ => 0 }

end M61

/-! # Buffered reads (`pset3/io61.c`)

`off_t` and `ssize_t` values are integers reduced to 64 bits in two's complement, `size_t`
values and pointers are natural numbers below `2 ^ 64`.  The memory at `cache->memory` is a
partial map from offsets to bytes: an offset outside the mapped pages has no byte, and a
read there faults, which leaves no result. -/

namespace Io61

/-- `O_RDONLY`. -/
def O_RDONLY : Int := 0

/-- `EOF`. -/
def EOF : Int := -1

/-- Reduction to an unsigned 64-bit value (`size_t`, a pointer). -/
def uint64 (x : Int) : Nat := (x % 2 ^ 64).toNat

/-- Reduction to a signed 64-bit value (`off_t`, `ssize_t`). -/
def int64 (x : Int) : Int := (x + 2 ^ 63) % 2 ^ 64 - 2 ^ 63

/-- Reduction to a signed 32-bit value (`int`). -/
def int32 (x : Int) : Int := (x + 2 ^ 31) % 2 ^ 32 - 2 ^ 31

/-- `io61_cache`; `memory` holds what can be read at `cache->memory + offset`. -/
structure io61_cache where
  size : Nat
  start_char : Nat
  end_char : Nat
  before_current_pos : Int
  memory : Nat → Option Nat
  start : Int
  cache_end : Int
  mmapp_bool : Bool
  current_pos : Int

/-- `struct io61_file`. -/
structure io61_file where
  fd : Int
  cache : io61_cache
  size : Int
  mode : Int

/-- The branch `if (f->cache->mmapp_bool)` of `io61_readc`: the position is incremented
first, whatever it is; the returned expression reads `*(memory + current_pos - 1)` also when
the position is past the size, and then masks the byte away and yields `EOF`. -/
def io61_readc_mmap (f : io61_file) : Option (io61_file × Int) :=
  let pos := int64 (f.cache.current_pos + 1)
  let f' := { f with cache := { f.cache with current_pos := pos } }
  match f.cache.memory (uint64 (pos - 1)) with
  | none => none
  | some byte => some (f', if pos > f.size then EOF else (byte : Int))

/-- `io61_readc(f)`.  The branches for a file that is not memory-mapped call `read(2)`;
they are the parameter `unmapped`. -/
def io61_readc (unmapped : io61_file → Option (io61_file × Int)) (f : io61_file) :
    Option (io61_file × Int) :=
  if f.mode ≠ O_RDONLY then some (f, -1)
  else if f.cache.mmapp_bool = true then io61_readc_mmap f
  else unmapped f

/-- The local `size_read` of `io61_read`: the two operands are compared as pointers, that
is as unsigned 64-bit values, and the chosen one is stored in an `ssize_t`. -/
def io61_read_size (f : io61_file) (sz : Nat) : Int :=
  if uint64 (f.size - f.cache.current_pos) > sz then int64 sz
  else int64 (uint64 (f.size - f.cache.current_pos))

/-- `memcpy(buf, memory + pos, n)`: the bytes at the offsets `pos` to `pos + n - 1`, when
all of them can be read. -/
def memcpy_source (memory : Nat → Option Nat) (pos n : Nat) : Option (List Nat) :=
  (List.range n).mapM (fun i => memory (pos + i))

/-- The branch `if (f->cache->mmapp_bool)` of `io61_read`: the file afterwards, the buffer
afterwards and the return value. -/
def io61_read_mmap (f : io61_file) (buf : Nat → Nat) (sz : Nat) :
    Option (io61_file × (Nat → Nat) × Int) :=
  let size_read := io61_read_size f sz
  match memcpy_source f.cache.memory (uint64 f.cache.current_pos) (uint64 size_read) with
  | none => none
  | some bytes =>
    some ({ f with cache := { f.cache with
              current_pos := int64 (f.cache.current_pos + size_read) } },
      (fun i => if h : i < bytes.length then bytes.get ⟨i, h⟩ else buf i), size_read)

/-- `io61_read(f, buf, sz)` for `sz` below `2 ^ 64`.  The loop for a file that is not
memory-mapped calls `read(2)`; it is the parameter `unmapped`. -/
def io61_read (unmapped : io61_file → (Nat → Nat) → Nat → Option (io61_file × (Nat → Nat) × Int))
    (f : io61_file) (buf : Nat → Nat) (sz : Nat) : Option (io61_file × (Nat → Nat) × Int) :=
  if f.mode ≠ O_RDONLY then some (f, buf, -1)
  else if f.cache.mmapp_bool = true then io61_read_mmap f buf sz
  else unmapped f buf sz

/-- A read-only file of the two bytes `0x61 0x62` as `io61_fdopen` leaves it when `mmap`
succeeds: the mapping is one page, the file's bytes followed by zeros; the position is 0. -/
def two_byte_file : io61_file :=
  { fd := 3, size := 2, mode := O_RDONLY,
    cache :=
      { size := 0, start_char := 0, end_char := 0, before_current_pos := 0,
        memory := fun i =>
          if i = 0 then some 0x61 else if i = 1 then some 0x62
          else if i < 4096 then some 0 else none,
        start := 0, cache_end := 0, mmapp_bool := true, current_pos := 0 } }

end Io61

namespace Weensy

/-! # Properties -/

/-! ## State updates -/

@[simp] theorem set_pageinfo_pageinfo (s : KernelState) (pn : Nat) (info : physical_pageinfo)
    (i : Nat) : (set_pageinfo s pn info).pageinfo i = if i = pn then info else s.pageinfo i :=
  rfl

@[simp] theorem set_pageinfo_physmem (s : KernelState) (pn : Nat) (info : physical_pageinfo) :
    (set_pageinfo s pn info).physmem = s.physmem := rfl

@[simp] theorem set_pageinfo_processes (s : KernelState) (pn : Nat)
    (info : physical_pageinfo) : (set_pageinfo s pn info).processes = s.processes := rfl

@[simp] theorem set_pageinfo_current (s : KernelState) (pn : Nat) (info : physical_pageinfo) :
    (set_pageinfo s pn info).current = s.current := rfl

@[simp] theorem set_pageinfo_current_owner (s : KernelState) (pn : Nat)
    (info : physical_pageinfo) : (set_pageinfo s pn info).current_owner = s.current_owner :=
  rfl

@[simp] theorem set_page_pageinfo (s : KernelState) (pn : Nat) (page : Nat → Nat) :
    (set_page s pn page).pageinfo = s.pageinfo := rfl

@[simp] theorem set_page_physmem (s : KernelState) (pn : Nat) (page : Nat → Nat) (i : Nat) :
    (set_page s pn page).physmem i = if i = pn then page else s.physmem i := rfl

@[simp] theorem set_page_processes (s : KernelState) (pn : Nat) (page : Nat → Nat) :
    (set_page s pn page).processes = s.processes := rfl

@[simp] theorem set_page_current (s : KernelState) (pn : Nat) (page : Nat → Nat) :
    (set_page s pn page).current = s.current := rfl

@[simp] theorem set_page_current_owner (s : KernelState) (pn : Nat) (page : Nat → Nat) :
    (set_page s pn page).current_owner = s.current_owner := rfl

@[simp] theorem set_word_pageinfo (s : KernelState) (pn index w : Nat) :
    (set_word s pn index w).pageinfo = s.pageinfo := rfl

@[simp] theorem set_word_physmem (s : KernelState) (pn index w i j : Nat) :
    (set_word s pn index w).physmem i j =
      if i = pn ∧ j = index then w else s.physmem i j := rfl

@[simp] theorem set_word_current (s : KernelState) (pn index w : Nat) :
    (set_word s pn index w).current = s.current := rfl

@[simp] theorem set_word_current_owner (s : KernelState) (pn index w : Nat) :
    (set_word s pn index w).current_owner = s.current_owner := rfl

@[simp] theorem set_proc_pageinfo (s : KernelState) (i : Nat) (p : proc) :
    (set_proc s i p).pageinfo = s.pageinfo := rfl

@[simp] theorem set_proc_physmem (s : KernelState) (i : Nat) (p : proc) :
    (set_proc s i p).physmem = s.physmem := rfl

@[simp] theorem set_proc_processes (s : KernelState) (i : Nat) (p : proc) (j : Nat) :
    (set_proc s i p).processes j = if j = i then p else s.processes j := rfl

@[simp] theorem set_proc_current (s : KernelState) (i : Nat) (p : proc) :
    (set_proc s i p).current = s.current := rfl

@[simp] theorem set_proc_current_owner (s : KernelState) (i : Nat) (p : proc) :
    (set_proc s i p).current_owner = s.current_owner := rfl

/-! ## Physical page ownership table -/

theorem find_free_page_scan_spec (K : KernelConfig) (s : KernelState) :
    ∀ fuel start : Nat,
      start ≤ find_free_page_scan K s fuel start ∧
      find_free_page_scan K s fuel start ≤ start + fuel ∧
      (∀ j, start ≤ j → j < find_free_page_scan K s fuel start →
        0 < (s.pageinfo j).refcount ∧ j < NPAGES K) ∧
      (find_free_page_scan K s fuel start < start + fuel →
        ¬ (0 < (s.pageinfo (find_free_page_scan K s fuel start)).refcount ∧
            find_free_page_scan K s fuel start < NPAGES K)) := by
  intro fuel
  induction fuel with
  | zero =>
    intro start
    simp only [find_free_page_scan]
    refine ⟨le_refl _, by omega, ?_, by omega⟩
    intro j h1 h2
    omega
  | succ n ih =>
    intro start
    simp only [find_free_page_scan]
    by_cases hc : 0 < (s.pageinfo start).refcount ∧ start < NPAGES K
    · rw [if_pos hc]
      obtain ⟨h1, h2, h3, h4⟩ := ih (start + 1)
      refine ⟨by omega, by omega, ?_, ?_⟩
      · intro j hj1 hj2
        by_cases hjs : j = start
        · subst hjs
          exact hc
        · exact h3 j (by omega) hj2
      · intro hlt
        exact h4 (by omega)
    · rw [if_neg hc]
      refine ⟨le_refl _, by omega, ?_, ?_⟩
      · intro j hj1 hj2
        omega
      · intro _
        exact hc

/-- The scan of `find_free_page` stops within its fuel: it returns either the lowest page
whose reference count is not positive, or `NPAGES` when there is none. -/
theorem find_free_page_scan_result (K : KernelConfig) (s : KernelState) :
    find_free_page_scan K s (NPAGES K) 0 ≤ NPAGES K ∧
    (∀ j, j < find_free_page_scan K s (NPAGES K) 0 → 0 < (s.pageinfo j).refcount) ∧
    (find_free_page_scan K s (NPAGES K) 0 < NPAGES K →
      (s.pageinfo (find_free_page_scan K s (NPAGES K) 0)).refcount ≤ 0) := by
  obtain ⟨_, h2, h3, h4⟩ := find_free_page_scan_spec K s (NPAGES K) 0
  refine ⟨by omega, fun j hj => (h3 j (Nat.zero_le _) hj).1, ?_⟩
  intro hlt
  have := h4 (by omega)
  by_contra hcon
  exact this ⟨by omega, hlt⟩

theorem int8_one : int8 1 = 1 := by decide

/-- C1. `find_free_page`, success case: when all reference counts are non-negative and
some page has reference count 0, the function returns the address of the lowest-numbered
page `k` with reference count 0; afterwards page `k` has owner `current_owner`, reference
count 1 and zeroed contents, and the owner, reference count and contents of every other
page are unchanged. -/
theorem find_free_page_success (K : KernelConfig) (s : KernelState)
    (hnonneg : ∀ pn, pn < NPAGES K → 0 ≤ (s.pageinfo pn).refcount)
    (hfree : ∃ pn, pn < NPAGES K ∧ (s.pageinfo pn).refcount = 0) :
    ∃ k, k < NPAGES K ∧ (s.pageinfo k).refcount = 0 ∧
      (∀ j, j < k → (s.pageinfo j).refcount ≠ 0) ∧
      (find_free_page K s).2 = PAGEADDRESS k ∧
      (find_free_page K s).1.pageinfo k = { owner := s.current_owner, refcount := 1 } ∧
      (∀ i, (find_free_page K s).1.physmem k i = 0) ∧
      (∀ j, j ≠ k → (find_free_page K s).1.pageinfo j = s.pageinfo j ∧
        (find_free_page K s).1.physmem j = s.physmem j) := by
  obtain ⟨hle, hbelow, hat⟩ := find_free_page_scan_result K s
  obtain ⟨pn, hpn, hzero⟩ := hfree
  have hlt : find_free_page_scan K s (NPAGES K) 0 < NPAGES K := by
    by_contra hcon
    have := hbelow pn (by omega)
    omega
  have hk0 : (s.pageinfo (find_free_page_scan K s (NPAGES K) 0)).refcount = 0 := by
    have h1 := hat hlt
    have h2 := hnonneg _ hlt
    omega
  refine ⟨find_free_page_scan K s (NPAGES K) 0, hlt, hk0, ?_, ?_, ?_, ?_, ?_⟩
  · intro j hj
    have := hbelow j hj
    omega
  · simp only [find_free_page]
    rw [if_neg (by omega)]
  · simp only [find_free_page]
    rw [if_neg (by omega)]
    simp [hk0, int8_one]
  · intro i
    simp only [find_free_page]
    rw [if_neg (by omega)]
    simp
  · intro j hj
    simp only [find_free_page]
    rw [if_neg (by omega)]
    simp [hj]

/-- Witness for C1: a table of four pages in which page 2 is the lowest free page. -/
theorem find_free_page_success_witness :
    ∃ k, k < NPAGES example_config ∧ (example_table.pageinfo k).refcount = 0 ∧
      (∀ j, j < k → (example_table.pageinfo j).refcount ≠ 0) ∧
      (find_free_page example_config example_table).2 = PAGEADDRESS k ∧
      (find_free_page example_config example_table).1.pageinfo k =
        { owner := example_table.current_owner, refcount := 1 } ∧
      (∀ i, (find_free_page example_config example_table).1.physmem k i = 0) ∧
      (∀ j, j ≠ k →
        (find_free_page example_config example_table).1.pageinfo j =
            example_table.pageinfo j ∧
          (find_free_page example_config example_table).1.physmem j =
            example_table.physmem j) :=
  find_free_page_success example_config example_table
    (by
      intro pn _
      show (0 : Int) ≤
        (if pn < 2 then (⟨PO_KERNEL, 1⟩ : physical_pageinfo) else ⟨PO_FREE, 0⟩).refcount
      split <;> decide)
    ⟨2, by decide, by decide⟩

/-- C2. `find_free_page`, exhaustion case: when every physical page has a positive
reference count, the function returns `NULL` and the state (in particular the owner and
reference count of every page) is unchanged.  The function is total, so it returns in
every state. -/
theorem find_free_page_exhausted (K : KernelConfig) (s : KernelState)
    (hall : ∀ pn, pn < NPAGES K → 0 < (s.pageinfo pn).refcount) :
    (find_free_page K s).2 = NULL ∧ (find_free_page K s).1 = s := by
  obtain ⟨hle, _, hat⟩ := find_free_page_scan_result K s
  have hge : NPAGES K ≤ find_free_page_scan K s (NPAGES K) 0 := by
    by_contra hcon
    have h1 := hat (by omega)
    have h2 := hall _ (by omega : find_free_page_scan K s (NPAGES K) 0 < NPAGES K)
    omega
  simp only [find_free_page]
  rw [if_pos hge]
  exact ⟨rfl, rfl⟩

/-- Witness for C2: a table in which every page belongs to the kernel. -/
theorem find_free_page_exhausted_witness :
    (find_free_page example_config example_full_table).2 = NULL ∧
      (find_free_page example_config example_full_table).1 = example_full_table :=
  find_free_page_exhausted example_config example_full_table
    (by intro pn _; show (0 : Int) < 1; decide)

/-- C3. `release_page(page, pid)` decrements the page's reference count by one (in
`int8_t` arithmetic, which is the integer `refcount - 1` for every stored value above
`-128`); afterwards the owner is `PO_FREE` if the new count is 0 or the prior owner equals
`pid`, and otherwise the prior owner; no other page's record changes, and neither do
memory contents nor the process table. -/
theorem release_page_spec (s : KernelState) (pageNum : Nat) (pid : Int) :
    ((release_page s pageNum pid).pageinfo pageNum).refcount =
        int8 ((s.pageinfo pageNum).refcount - 1) ∧
      (-128 < (s.pageinfo pageNum).refcount ∧ (s.pageinfo pageNum).refcount ≤ 127 →
        ((release_page s pageNum pid).pageinfo pageNum).refcount =
          (s.pageinfo pageNum).refcount - 1) ∧
      ((release_page s pageNum pid).pageinfo pageNum).owner =
        (if ((release_page s pageNum pid).pageinfo pageNum).refcount = 0 ∨
            (s.pageinfo pageNum).owner = pid then PO_FREE
         else (s.pageinfo pageNum).owner) ∧
      (∀ j, j ≠ pageNum → (release_page s pageNum pid).pageinfo j = s.pageinfo j) ∧
      (release_page s pageNum pid).physmem = s.physmem ∧
      (release_page s pageNum pid).processes = s.processes := by
  have hrc : ((release_page s pageNum pid).pageinfo pageNum).refcount =
      int8 ((s.pageinfo pageNum).refcount - 1) := by
    simp only [release_page]
    split <;> simp
  refine ⟨hrc, ?_, ?_, ?_, ?_, ?_⟩
  · intro h
    rw [hrc]
    simp only [int8]
    omega
  · rw [hrc]
    simp only [release_page]
    split <;> simp_all
  · intro j hj
    simp only [release_page]
    split <;> simp [hj]
  · simp only [release_page]
    split <;> simp
  · simp only [release_page]
    split <;> simp

theorem and_0xFFF (addr : Nat) : addr &&& 0xFFF = addr % 4096 := by
  have := Nat.and_pow_two_sub_one_eq_mod addr 12
  simpa using this

@[simp] theorem release_page_physmem (s : KernelState) (pageNum : Nat) (pid : Int) :
    (release_page s pageNum pid).physmem = s.physmem := by
  simp only [release_page]
  split <;> simp

@[simp] theorem release_page_processes (s : KernelState) (pageNum : Nat) (pid : Int) :
    (release_page s pageNum pid).processes = s.processes := by
  simp only [release_page]
  split <;> simp

@[simp] theorem release_page_current (s : KernelState) (pageNum : Nat) (pid : Int) :
    (release_page s pageNum pid).current = s.current := by
  simp only [release_page]
  split <;> simp

theorem release_page_pageinfo_ne (s : KernelState) (pageNum : Nat) (pid : Int) (j : Nat)
    (hj : j ≠ pageNum) : (release_page s pageNum pid).pageinfo j = s.pageinfo j := by
  simp only [release_page]
  split <;> simp [hj]

theorem release_page_owner_of_owner (s : KernelState) (pageNum : Nat) (pid : Int)
    (h : (s.pageinfo pageNum).owner = pid) :
    ((release_page s pageNum pid).pageinfo pageNum).owner = PO_FREE := by
  simp only [release_page]
  split <;> simp_all

@[simp] theorem process_cleanup_loop_processes (pid : Int) (vaLast : Nat) (l : List Nat) :
    ∀ s : KernelState, (process_cleanup_loop pid vaLast l s).processes = s.processes := by
  induction l with
  | nil => intro s; rfl
  | cons va rest ih =>
    intro s
    simp only [process_cleanup_loop]
    split
    · rfl
    · split
      · exact ih s
      · rw [ih]
        simp

@[simp] theorem process_cleanup_loop_physmem (pid : Int) (vaLast : Nat) (l : List Nat) :
    ∀ s : KernelState, (process_cleanup_loop pid vaLast l s).physmem = s.physmem := by
  induction l with
  | nil => intro s; rfl
  | cons va rest ih =>
    intro s
    simp only [process_cleanup_loop]
    split
    · rfl
    · split
      · exact ih s
      · rw [ih]
        simp

theorem process_cleanup_sweep_cons (pid : Int) (i : Nat) (rest : List Nat) (s : KernelState) :
    process_cleanup_sweep pid (i :: rest) s =
      process_cleanup_sweep pid rest
        (if (s.pageinfo i).owner = pid then release_page s i pid else s) := by
  simp only [process_cleanup_sweep]
  split <;> rfl

@[simp] theorem process_cleanup_sweep_processes (pid : Int) (l : List Nat) :
    ∀ s : KernelState, (process_cleanup_sweep pid l s).processes = s.processes := by
  induction l with
  | nil => intro s; rfl
  | cons i rest ih =>
    intro s
    rw [process_cleanup_sweep_cons]
    rw [ih]
    split <;> simp

@[simp] theorem process_cleanup_sweep_physmem (pid : Int) (l : List Nat) :
    ∀ s : KernelState, (process_cleanup_sweep pid l s).physmem = s.physmem := by
  induction l with
  | nil => intro s; rfl
  | cons i rest ih =>
    intro s
    rw [process_cleanup_sweep_cons]
    rw [ih]
    split <;> simp

/-- The owner sweep leaves no page of its list owned by `pid`, and never makes `pid` the
owner of a page. -/
theorem process_cleanup_sweep_owner (pid : Int) (hpid : pid ≠ 0) (l : List Nat) :
    ∀ (s : KernelState) (pn : Nat), (pn ∈ l ∨ (s.pageinfo pn).owner ≠ pid) →
      ((process_cleanup_sweep pid l s).pageinfo pn).owner ≠ pid := by
  induction l with
  | nil =>
    intro s pn h
    rcases h with h | h
    · simp at h
    · exact h
  | cons i rest ih =>
    intro s pn h
    rw [process_cleanup_sweep_cons]
    by_cases hmem : pn ∈ rest
    · exact ih _ pn (Or.inl hmem)
    · apply ih _ pn
      right
      by_cases hown : (s.pageinfo i).owner = pid
      · rw [if_pos hown]
        by_cases hpi : pn = i
        · subst hpi
          rw [release_page_owner_of_owner s pn pid hown]
          exact fun hc => hpid (by simpa [PO_FREE] using hc.symm)
        · rw [release_page_pageinfo_ne s i pid pn hpi]
          rcases h with h | h
          · simp only [List.mem_cons] at h
            rcases h with h | h
            · exact absurd h hpi
            · exact absurd h hmem
          · exact h
      · rw [if_neg hown]
        rcases h with h | h
        · simp only [List.mem_cons] at h
          rcases h with h | h
          · subst h
            exact hown
          · exact absurd h hmem
        · exact h

theorem pte_present_iff (pe : Nat) : pe &&& PTE_P ≠ 0 ↔ pe % 2 = 1 := by
  simp only [PTE_P, Nat.and_one_is_mod]
  omega

theorem lor_aligned (a b : Nat) (h : b < 4096) : (a * 4096) ||| b = a * 4096 + b := by
  have := Nat.mul_add_lt_is_or (i := 12) h a
  rw [Nat.mul_comm] at this
  simpa using this.symm

theorem pt_next_congr (m m' : Nat → Nat → Nat) (a a' va va' k : Nat)
    (h : m' (PAGENUMBER a') (PAGEINDEX va' k) = m (PAGENUMBER a) (PAGEINDEX va k)) :
    pt_next m' a' va' k = pt_next m a va k := by
  simp only [pt_next, pt_entry, h]

theorem pt_walk_zero (m : Nat → Nat → Nat) (r va : Nat) : pt_walk m r va 0 = some r := rfl

theorem pt_walk_succ (m : Nat → Nat → Nat) (r va l : Nat) :
    pt_walk m r va (l + 1) =
      match pt_walk m r va l with
      | none => none
      | some pt => pt_next m pt va l := rfl

theorem pt_walk_succ_some (m : Nat → Nat → Nat) (r va l a : Nat)
    (h : pt_walk m r va l = some a) : pt_walk m r va (l + 1) = pt_next m a va l := by
  rw [pt_walk_succ, h]

theorem pt_walk_succ_none (m : Nat → Nat → Nat) (r va l : Nat)
    (h : pt_walk m r va l = none) : pt_walk m r va (l + 1) = none := by
  rw [pt_walk_succ, h]

theorem pt_walk_none_mono (m : Nat → Nat → Nat) (r va l : Nat)
    (h : pt_walk m r va l = none) : ∀ k, l ≤ k → pt_walk m r va k = none := by
  intro k hk
  induction k with
  | zero =>
    have : l = 0 := by omega
    subst this
    exact h
  | succ n ih =>
    by_cases hl : l = n + 1
    · subst hl
      exact h
    · exact pt_walk_succ_none m r va n (ih (by omega))

theorem SamePath.symm {va va' l : Nat} (h : SamePath va va' l) : SamePath va' va l :=
  fun i hi => (h i hi).symm

theorem SamePath.path_trans {va va' va'' l : Nat} (h : SamePath va va' l)
    (h' : SamePath va' va'' l) : SamePath va va'' l :=
  fun i hi => (h i hi).trans (h' i hi)

theorem SamePath.mono {va va' l k : Nat} (h : SamePath va va' l) (hk : k ≤ l) :
    SamePath va va' k :=
  fun i hi => h i (by omega)

theorem SamePath.path_refl (va l : Nat) : SamePath va va l := fun _ _ => rfl

theorem SamePath.succ {va va' l : Nat} (h : SamePath va va' l)
    (h' : PAGEINDEX va l = PAGEINDEX va' l) : SamePath va va' (l + 1) := by
  intro i hi
  by_cases hil : i = l
  · subst hil
    exact h'
  · exact h i (by omega)

theorem pt_walk_samepath (m : Nat → Nat → Nat) (r va va' : Nat) :
    ∀ l, SamePath va va' l → pt_walk m r va l = pt_walk m r va' l := by
  intro l
  induction l with
  | zero => intro _; rfl
  | succ n ih =>
    intro h
    rw [pt_walk_succ, pt_walk_succ, ih (h.mono (by omega))]
    cases pt_walk m r va' n with
    | none => rfl
    | some a =>
      show pt_next m a va n = pt_next m a va' n
      exact pt_next_congr m m a a va' va n (by rw [h n (by omega)])

/-- Addresses of distinct pages below `2 ^ 48` take different paths through the tree. -/
theorem samePath_four (va va' : Nat) (h : va < 2 ^ 48) (h' : va' < 2 ^ 48)
    (hs : SamePath va va' 4) : va / 4096 = va' / 4096 := by
  have h0 := hs 0 (by decide)
  have h1 := hs 1 (by decide)
  have h2 := hs 2 (by decide)
  have h3 := hs 3 (by decide)
  simp only [PAGEINDEX, NPAGETABLEENTRIES] at h0 h1 h2 h3
  norm_num at h0 h1 h2 h3 h h'
  omega

/-- A write to one entry of the node at level `l` on the path of `va`, together with
arbitrary changes outside the tree, does not affect the walks that do not pass through
that entry. -/
theorem pt_walk_write (m m' : Nat → Nat → Nat) (r va l pt : Nat) (hinj : TreeInj m r)
    (hl : l ≤ 3) (hpt : pt_walk m r va l = some pt)
    (hm : ∀ n idx, IsNode m r n → ¬ (n = PAGENUMBER pt ∧ idx = PAGEINDEX va l) →
      m' n idx = m n idx) :
    ∀ k va', k ≤ 3 → ¬ (l < k ∧ SamePath va va' (l + 1)) →
      pt_walk m' r va' k = pt_walk m r va' k := by
  intro k
  induction k with
  | zero => intro va' _ _; rfl
  | succ n ih =>
    intro va' hk hnot
    have ih' := ih va' (by omega) (fun h => hnot ⟨by omega, h.2⟩)
    rw [pt_walk_succ, pt_walk_succ, ih']
    cases hw : pt_walk m r va' n with
    | none => rfl
    | some a =>
      show pt_next m' a va' n = pt_next m a va' n
      apply pt_next_congr
      apply hm _ _ ⟨va', n, a, by omega, hw, rfl⟩
      intro hc
      obtain ⟨hnl, hsp⟩ := hinj va' va n l a pt (by omega) hl hw hpt hc.1
      subst hnl
      exact hnot ⟨by omega, hsp.symm.succ hc.2.symm⟩

theorem virtual_memory_lookup_of_walk (m : Nat → Nat → Nat) (r va a : Nat)
    (h : pt_walk m r va 3 = some a) :
    virtual_memory_lookup m r va =
      if m (PAGENUMBER a) (PAGEINDEX va 3) &&& PTE_P ≠ 0 then
        some { pn := PAGENUMBER (m (PAGENUMBER a) (PAGEINDEX va 3)),
               pa := PTE_ADDR (m (PAGENUMBER a) (PAGEINDEX va 3)) + va % PAGESIZE,
               perm := PTE_FLAGS (m (PAGENUMBER a) (PAGEINDEX va 3)) }
      else none := by
  simp only [virtual_memory_lookup, h, pt_entry]

theorem virtual_memory_lookup_of_walk_none (m : Nat → Nat → Nat) (r va : Nat)
    (h : pt_walk m r va 3 = none) : virtual_memory_lookup m r va = none := by
  simp only [virtual_memory_lookup, h]

/-- A lookup only reads the nodes on the path of its address. -/
theorem virtual_memory_lookup_frame (m m' : Nat → Nat → Nat) (r va : Nat)
    (h : ∀ k a, k ≤ 3 → pt_walk m r va k = some a →
      m' (PAGENUMBER a) = m (PAGENUMBER a)) :
    (∀ k, k ≤ 3 → pt_walk m' r va k = pt_walk m r va k) ∧
      virtual_memory_lookup m' r va = virtual_memory_lookup m r va := by
  have hw : ∀ k, k ≤ 3 → pt_walk m' r va k = pt_walk m r va k := by
    intro k
    induction k with
    | zero => intro _; rfl
    | succ n ih =>
      intro hk
      rw [pt_walk_succ, pt_walk_succ, ih (by omega)]
      cases hwn : pt_walk m r va n with
      | none => rfl
      | some a =>
        show pt_next m' a va n = pt_next m a va n
        exact pt_next_congr m m' a a va va n (by rw [h n a (by omega) hwn])
  refine ⟨hw, ?_⟩
  cases hw3 : pt_walk m r va 3 with
  | none =>
    rw [virtual_memory_lookup_of_walk_none m r va hw3,
      virtual_memory_lookup_of_walk_none m' r va (by rw [hw 3 (le_refl _), hw3])]
  | some a =>
    rw [virtual_memory_lookup_of_walk m r va a hw3,
      virtual_memory_lookup_of_walk m' r va a (by rw [hw 3 (le_refl _), hw3]),
      h 3 a (le_refl _) hw3]

theorem TreeInj_of_walk_eq (m m' : Nat → Nat → Nat) (r : Nat)
    (h : ∀ k va, k ≤ 3 → pt_walk m' r va k = pt_walk m r va k) (hinj : TreeInj m r) :
    TreeInj m' r := by
  intro va va' l l' a a' hl hl' hw hw' hpn
  rw [h l va hl] at hw
  rw [h l' va' hl'] at hw'
  exact hinj va va' l l' a a' hl hl' hw hw' hpn

theorem IsNode_of_walk_eq (m m' : Nat → Nat → Nat) (r : Nat)
    (h : ∀ k va, k ≤ 3 → pt_walk m' r va k = pt_walk m r va k) (n : Nat) :
    IsNode m' r n ↔ IsNode m r n := by
  constructor
  · rintro ⟨va, l, a, hl, hw, hpn⟩
    exact ⟨va, l, a, hl, by rw [← h l va hl]; exact hw, hpn⟩
  · rintro ⟨va, l, a, hl, hw, hpn⟩
    exact ⟨va, l, a, hl, by rw [h l va hl]; exact hw, hpn⟩

/-- Writing the leaf entry of `va`: the nodes of the tree stay where they are, the
lookup of `va` reads the new entry, and the lookups of all other pages are unchanged. -/
theorem virtual_memory_lookup_write_leaf (m m' : Nat → Nat → Nat) (r va pt e : Nat)
    (hinj : TreeInj m r) (hpt : pt_walk m r va 3 = some pt)
    (hcell : m' (PAGENUMBER pt) (PAGEINDEX va 3) = e)
    (hother : ∀ n idx, ¬ (n = PAGENUMBER pt ∧ idx = PAGEINDEX va 3) → m' n idx = m n idx) :
    (∀ k va', k ≤ 3 → pt_walk m' r va' k = pt_walk m r va' k) ∧
      (∀ va', ¬ SamePath va va' 4 →
        virtual_memory_lookup m' r va' = virtual_memory_lookup m r va') ∧
      virtual_memory_lookup m' r va =
        (if e &&& PTE_P ≠ 0 then
          some { pn := PAGENUMBER e, pa := PTE_ADDR e + va % PAGESIZE, perm := PTE_FLAGS e }
         else none) := by
  have hw : ∀ k va', k ≤ 3 → pt_walk m' r va' k = pt_walk m r va' k := fun k va' hk =>
    pt_walk_write m m' r va 3 pt hinj (le_refl _) hpt (fun n idx _ hne => hother n idx hne)
      k va' hk (fun h => by omega)
  refine ⟨hw, ?_, ?_⟩
  · intro va' hsp
    cases hw3 : pt_walk m r va' 3 with
    | none =>
      rw [virtual_memory_lookup_of_walk_none m r va' hw3,
        virtual_memory_lookup_of_walk_none m' r va' (by rw [hw 3 va' (le_refl _), hw3])]
    | some a =>
      rw [virtual_memory_lookup_of_walk m r va' a hw3,
        virtual_memory_lookup_of_walk m' r va' a (by rw [hw 3 va' (le_refl _), hw3])]
      have hc : m' (PAGENUMBER a) (PAGEINDEX va' 3) = m (PAGENUMBER a) (PAGEINDEX va' 3) := by
        apply hother
        intro hc
        obtain ⟨_, hsp3⟩ := hinj va' va 3 3 a pt (le_refl _) (le_refl _) hw3 hpt hc.1
        exact hsp (hsp3.symm.succ hc.2.symm)
      rw [hc]
  · rw [virtual_memory_lookup_of_walk m' r va pt (by rw [hw 3 va (le_refl _), hpt]), hcell]

/-- Linking a fresh, zeroed page `fp` into the absent entry of the node at level `l` on the
path of `va`: the walks through other entries are unchanged, the new entry leads to `fp`,
and nothing lies below `fp`. -/
theorem pt_walk_link (m m' : Nat → Nat → Nat) (r va l pt e fp : Nat) (hinj : TreeInj m r)
    (hl : l ≤ 2) (hpt : pt_walk m r va l = some pt) (hfp : ¬ IsNode m r fp)
    (hcell : m' (PAGENUMBER pt) (PAGEINDEX va l) = e)
    (hzero : ∀ idx, m' fp idx = 0)
    (hother : ∀ n idx, n ≠ fp → ¬ (n = PAGENUMBER pt ∧ idx = PAGEINDEX va l) →
      m' n idx = m n idx)
    (he : e % 2 = 1) (hea : PAGENUMBER (PTE_ADDR e) = fp) :
    (∀ k va', k ≤ 3 → ¬ (l < k ∧ SamePath va va' (l + 1)) →
        pt_walk m' r va' k = pt_walk m r va' k) ∧
      (∀ va', SamePath va va' (l + 1) → pt_walk m' r va' (l + 1) = some (PTE_ADDR e)) ∧
      (∀ k va', l + 1 < k → SamePath va va' (l + 1) → pt_walk m' r va' k = none) := by
  have hold : ∀ k va', k ≤ 3 → ¬ (l < k ∧ SamePath va va' (l + 1)) →
      pt_walk m' r va' k = pt_walk m r va' k :=
    pt_walk_write m m' r va l pt hinj (by omega) hpt (fun n idx hn hne =>
      hother n idx (fun hc => hfp (hc ▸ hn)) hne)
  have hnew : ∀ va', SamePath va va' (l + 1) →
      pt_walk m' r va' (l + 1) = some (PTE_ADDR e) := by
    intro va' hsp
    have h1 : pt_walk m' r va' l = some pt := by
      rw [hold l va' (by omega) (fun h => by omega),
        ← pt_walk_samepath m r va va' l (hsp.mono (by omega)), hpt]
    rw [pt_walk_succ_some m' r va' l pt h1]
    simp only [pt_next, pt_entry]
    rw [← hsp l (by omega), hcell, if_pos ((pte_present_iff e).mpr he)]
  refine ⟨hold, hnew, ?_⟩
  intro k va' hk hsp
  apply pt_walk_none_mono m' r va' (l + 2) _ k (by omega)
  rw [pt_walk_succ_some m' r va' (l + 1) _ (hnew va' hsp)]
  simp only [pt_next, pt_entry, hea, hzero]
  simp

theorem pt_walk_link_absent (m : Nat → Nat → Nat) (r va l pt : Nat)
    (hpt : pt_walk m r va l = some pt) (habs : pt_next m pt va l = none) :
    ∀ k va', l < k → SamePath va va' (l + 1) → pt_walk m r va' k = none := by
  intro k va' hk hsp
  apply pt_walk_none_mono m r va' (l + 1) _ k (by omega)
  have h1 : pt_walk m r va' l = some pt := by
    rw [← pt_walk_samepath m r va va' l (hsp.mono (by omega)), hpt]
  rw [pt_walk_succ_some m r va' l pt h1, ← habs]
  exact pt_next_congr m m pt pt va va' l (by rw [hsp l (by omega)])

/-- Linking a fresh page keeps the tree a tree, adds exactly that page to its nodes and
changes no lookup. -/
theorem pt_walk_link_tree (m m' : Nat → Nat → Nat) (r va l pt e fp : Nat)
    (hinj : TreeInj m r) (hl : l ≤ 2) (hpt : pt_walk m r va l = some pt)
    (habs : pt_next m pt va l = none) (hfp : ¬ IsNode m r fp)
    (hcell : m' (PAGENUMBER pt) (PAGEINDEX va l) = e)
    (hzero : ∀ idx, m' fp idx = 0)
    (hother : ∀ n idx, n ≠ fp → ¬ (n = PAGENUMBER pt ∧ idx = PAGEINDEX va l) →
      m' n idx = m n idx)
    (he : e % 2 = 1) (hea : PAGENUMBER (PTE_ADDR e) = fp) :
    TreeInj m' r ∧
      (∀ n, IsNode m' r n → IsNode m r n ∨ n = fp) ∧
      (∀ n, IsNode m r n → IsNode m' r n) ∧
      IsNode m' r fp ∧
      (∀ va', virtual_memory_lookup m' r va' = virtual_memory_lookup m r va') ∧
      pt_walk m' r va (l + 1) = some (PTE_ADDR e) := by
  obtain ⟨hold, hnew, hbelow⟩ :=
    pt_walk_link m m' r va l pt e fp hinj hl hpt hfp hcell hzero hother he hea
  have habsent := pt_walk_link_absent m r va l pt hpt habs
  -- every walk of the new tree is an old walk or ends at the fresh page
  have hcase : ∀ k va' a, k ≤ 3 → pt_walk m' r va' k = some a →
      pt_walk m r va' k = some a ∨
        (k = l + 1 ∧ SamePath va va' (l + 1) ∧ a = PTE_ADDR e) := by
    intro k va' a hk hw
    by_cases hc : l < k ∧ SamePath va va' (l + 1)
    · right
      by_cases hkl : k = l + 1
      · subst hkl
        rw [hnew va' hc.2] at hw
        exact ⟨rfl, hc.2, (Option.some.inj hw).symm⟩
      · rw [hbelow k va' (by omega) hc.2] at hw
        exact absurd hw (by simp)
    · left
      rw [← hold k va' hk hc]
      exact hw
  refine ⟨?_, ?_, ?_, ?_, ?_, hnew va (SamePath.path_refl va _)⟩
  · intro va1 va2 l1 l2 a1 a2 hl1 hl2 hw1 hw2 hpn
    rcases hcase l1 va1 a1 hl1 hw1 with h1 | ⟨h1, hs1, ha1⟩
    · rcases hcase l2 va2 a2 hl2 hw2 with h2 | ⟨h2, hs2, ha2⟩
      · exact hinj va1 va2 l1 l2 a1 a2 hl1 hl2 h1 h2 hpn
      · exfalso
        apply hfp
        refine ⟨va1, l1, a1, hl1, h1, ?_⟩
        rw [hpn, ha2, hea]
    · rcases hcase l2 va2 a2 hl2 hw2 with h2 | ⟨h2, hs2, ha2⟩
      · exfalso
        apply hfp
        refine ⟨va2, l2, a2, hl2, h2, ?_⟩
        rw [← hpn, ha1, hea]
      · refine ⟨by omega, ?_⟩
        rw [h1]
        exact hs1.symm.path_trans hs2
  · rintro n ⟨va', k, a, hk, hw, hpn⟩
    rcases hcase k va' a hk hw with h | ⟨_, _, ha⟩
    · exact Or.inl ⟨va', k, a, hk, h, hpn⟩
    · right
      rw [← hpn, ha, hea]
  · rintro n ⟨va', k, a, hk, hw, hpn⟩
    refine ⟨va', k, a, hk, ?_, hpn⟩
    rw [hold k va' hk]
    · exact hw
    · intro hc
      rw [habsent k va' hc.1 hc.2] at hw
      exact absurd hw (by simp)
  · exact ⟨va, l + 1, PTE_ADDR e, by omega, hnew va (SamePath.path_refl va _), hea⟩
  · intro va'
    by_cases hsp : SamePath va va' (l + 1)
    · have h3 : pt_walk m r va' 3 = none := habsent 3 va' (by omega) hsp
      rw [virtual_memory_lookup_of_walk_none m r va' h3]
      by_cases hl2 : l = 2
      · subst hl2
        rw [virtual_memory_lookup_of_walk m' r va' _ (hnew va' hsp), hea, hzero]
        simp
      · exact virtual_memory_lookup_of_walk_none m' r va' (hbelow 3 va' (by omega) hsp)
    · have hw3 : pt_walk m' r va' 3 = pt_walk m r va' 3 :=
        hold 3 va' (le_refl _) (fun hc => hsp hc.2)
      cases hw : pt_walk m r va' 3 with
      | none =>
        rw [virtual_memory_lookup_of_walk_none m r va' hw,
          virtual_memory_lookup_of_walk_none m' r va' (by rw [hw3, hw])]
      | some a =>
        rw [virtual_memory_lookup_of_walk m r va' a hw,
          virtual_memory_lookup_of_walk m' r va' a (by rw [hw3, hw])]
        have hc : m' (PAGENUMBER a) (PAGEINDEX va' 3) = m (PAGENUMBER a) (PAGEINDEX va' 3) := by
          apply hother
          · intro hc
            exact hfp ⟨va', 3, a, le_refl _, hw, hc⟩
          · intro hc
            obtain ⟨h3l, _⟩ := hinj va' va 3 l a pt (le_refl _) (by omega) hw hpt hc.1
            omega
        rw [hc]

/-! ## Allocation and mapping steps -/

/-- In a state where allocation is well behaved, `find_free_page` either fails without
touching the state (no page is free), or allocates the lowest free page. -/
theorem find_free_page_alloc (K : KernelConfig) (s : KernelState) (h : AllocSane K s) :
    ((find_free_page K s).2 = NULL ∧ (find_free_page K s).1 = s ∧
        ∀ pn, pn < NPAGES K → 0 < (s.pageinfo pn).refcount) ∨
      (∃ fp, 0 < fp ∧ fp < NPAGES K ∧ (s.pageinfo fp).refcount = 0 ∧
        (∀ j, j < fp → 0 < (s.pageinfo j).refcount) ∧
        (find_free_page K s).2 = PAGEADDRESS fp ∧ (find_free_page K s).2 ≠ NULL ∧
        (find_free_page K s).1 =
          set_page (set_pageinfo s fp { owner := s.current_owner, refcount := 1 }) fp
            (fun _ => 0)) := by
  obtain ⟨hle, hbelow, hat⟩ := find_free_page_scan_result K s
  by_cases hge : NPAGES K ≤ find_free_page_scan K s (NPAGES K) 0
  · left
    simp only [find_free_page]
    rw [if_pos hge]
    exact ⟨rfl, rfl, fun pn hpn => hbelow pn (by omega)⟩
  · right
    have hlt : find_free_page_scan K s (NPAGES K) 0 < NPAGES K := by omega
    have hrc : (s.pageinfo (find_free_page_scan K s (NPAGES K) 0)).refcount = 0 := by
      have h1 := hat hlt
      have h2 := h.1 _ hlt
      omega
    have hpos : 0 < find_free_page_scan K s (NPAGES K) 0 := by
      by_contra hcon
      have h0 : find_free_page_scan K s (NPAGES K) 0 = 0 := by omega
      rw [h0] at hrc
      have := h.2
      omega
    refine ⟨find_free_page_scan K s (NPAGES K) 0, hpos, hlt, hrc, hbelow, ?_, ?_, ?_⟩
    · simp only [find_free_page]
      rw [if_neg hge]
    · simp only [find_free_page]
      rw [if_neg hge]
      simp only [PAGEADDRESS, PAGESIZE, NULL]
      omega
    · simp only [find_free_page]
      rw [if_neg hge, hrc]
      simp [int8_one]

theorem MapStep.step_refl (K : KernelConfig) (s : KernelState) (r : Nat) : MapStep K s s r :=
  ⟨rfl, rfl, rfl, fun _ h => h, fun _ h => Or.inl h, fun _ => Or.inl rfl, fun _ _ _ => rfl⟩

theorem MapStep.step_trans {K : KernelConfig} {s s' s'' : KernelState} {r : Nat}
    (h : MapStep K s s' r) (h' : MapStep K s' s'' r) : MapStep K s s'' r := by
  obtain ⟨hp, hc, ho, hmono, hnew, hinfo, hmem⟩ := h
  obtain ⟨hp', hc', ho', hmono', hnew', hinfo', hmem'⟩ := h'
  have hrc0 : ∀ pn, (s'.pageinfo pn).refcount = 0 → (s.pageinfo pn).refcount = 0 := by
    intro pn h0
    rcases hinfo pn with h1 | ⟨_, _, h1⟩
    · rw [← h1]; exact h0
    · rw [h1] at h0
      exact absurd (show (1 : Int) = 0 from h0) (by decide)
  refine ⟨hp'.trans hp, hc'.trans hc, ho'.trans ho, fun n hn => hmono' n (hmono n hn), ?_, ?_,
    ?_⟩
  · intro n hn
    rcases hnew' n hn with h1 | ⟨h1, h2⟩
    · exact hnew n h1
    · exact Or.inr ⟨h1, hrc0 n h2⟩
  · intro pn
    rcases hinfo' pn with h1 | ⟨h1, h2, h3⟩
    · rw [h1]
      exact hinfo pn
    · right
      refine ⟨h1, hrc0 pn h2, ?_⟩
      rw [h3, ho]
  · intro pn hpos hnode
    have hpos' : 0 < (s'.pageinfo pn).refcount := by
      rcases hinfo pn with h1 | ⟨_, h1, _⟩
      · rw [h1]; exact hpos
      · omega
    have hnode' : ¬ IsNode s'.physmem r pn := by
      intro hn
      rcases hnew pn hn with h1 | ⟨_, h1⟩
      · exact hnode h1
      · omega
    rw [hmem' pn hpos' hnode', hmem pn hpos hnode]

theorem pte_link_entry (fp : Nat) :
    (PAGEADDRESS fp ||| (PTE_P ||| PTE_W ||| PTE_U)) % 2 = 1 ∧
      PAGENUMBER (PTE_ADDR (PAGEADDRESS fp ||| (PTE_P ||| PTE_W ||| PTE_U))) = fp ∧
      PTE_ADDR (PAGEADDRESS fp ||| (PTE_P ||| PTE_W ||| PTE_U)) = PAGEADDRESS fp := by
  have h7 : (PTE_P ||| PTE_W ||| PTE_U) = 7 := by decide
  rw [h7]
  simp only [PAGEADDRESS, PAGESIZE, PTE_ADDR, PAGENUMBER]
  rw [lor_aligned fp 7 (by decide)]
  omega

/-- One level of the descent of `virtual_memory_map` into the tree rooted at `r`. -/
theorem pt_next_alloc_spec (K : KernelConfig) (s : KernelState) (r va perm l pt : Nat)
    (hs : AllocSane K s) (ht : TreeOwned s r) (hl : l ≤ 2)
    (hpt : pt_walk s.physmem r va l = some pt) (hperm : perm % 2 = 1) :
    MapStep K s (pt_next_alloc K s pt va perm l true).1 r ∧
      AllocSane K (pt_next_alloc K s pt va perm l true).1 ∧
      TreeOwned (pt_next_alloc K s pt va perm l true).1 r ∧
      (∀ va', virtual_memory_lookup (pt_next_alloc K s pt va perm l true).1.physmem r va' =
        virtual_memory_lookup s.physmem r va') ∧
      (∀ a, (pt_next_alloc K s pt va perm l true).2 = some a →
        pt_walk (pt_next_alloc K s pt va perm l true).1.physmem r va (l + 1) = some a) ∧
      ((pt_next_alloc K s pt va perm l true).2 = none →
        (pt_next_alloc K s pt va perm l true).1 = s ∧
          ∀ pn, pn < NPAGES K → 0 < (s.pageinfo pn).refcount) := by
  have hP : ¬ (perm &&& PTE_P = 0 ∨ true = false) := by
    intro hc
    rcases hc with hc | hc
    · exact ((pte_present_iff perm).mpr hperm) hc
    · exact absurd hc (by decide)
  cases hnext : pt_next s.physmem pt va l with
  | some next =>
    have hres : pt_next_alloc K s pt va perm l true = (s, some next) := by
      simp only [pt_next_alloc, hnext]
    rw [hres]
    refine ⟨MapStep.step_refl K s r, hs, ht, fun _ => rfl, ?_, ?_⟩
    · intro a ha
      rw [pt_walk_succ_some s.physmem r va l pt hpt, hnext]
      exact ha
    · intro hc
      exact absurd hc (by simp)
  | none =>
    rcases find_free_page_alloc K s hs with ⟨h2, h1, hall⟩ | ⟨fp, hfp0, hfpN, hrc, _, h2, hne, h1⟩
    · have hres : pt_next_alloc K s pt va perm l true = (s, none) := by
        simp only [pt_next_alloc, hnext, if_neg hP, h2, h1, if_true]
      rw [hres]
      refine ⟨MapStep.step_refl K s r, hs, ht, fun _ => rfl, ?_, fun _ => ⟨rfl, hall⟩⟩
      intro a ha
      exact absurd ha (by simp)
    · have hres : pt_next_alloc K s pt va perm l true =
          (set_word (set_page (set_pageinfo s fp { owner := s.current_owner, refcount := 1 })
              fp (fun _ => 0)) (PAGENUMBER pt) (PAGEINDEX va l)
            (PAGEADDRESS fp ||| (PTE_P ||| PTE_W ||| PTE_U)), some (PAGEADDRESS fp)) := by
        rw [h2] at hne
        simp only [pt_next_alloc, hnext, if_neg hP, h1, h2, if_neg hne]
      rw [hres]
      obtain ⟨he, hea, hea'⟩ := pte_link_entry fp
      have hfpnode : ¬ IsNode s.physmem r fp := by
        intro hn
        have := ht.2 fp hn
        omega
      have hptnode : IsNode s.physmem r (PAGENUMBER pt) := ⟨va, l, pt, by omega, hpt, rfl⟩
      have hfpne : fp ≠ PAGENUMBER pt := fun hc => hfpnode (hc ▸ hptnode)
      obtain ⟨hinj', hnodes', hmono', hfpn', hlook', hwalk'⟩ :=
        pt_walk_link_tree s.physmem
          (set_word (set_page (set_pageinfo s fp { owner := s.current_owner, refcount := 1 })
              fp (fun _ => 0)) (PAGENUMBER pt) (PAGEINDEX va l)
            (PAGEADDRESS fp ||| (PTE_P ||| PTE_W ||| PTE_U))).physmem
          r va l pt (PAGEADDRESS fp ||| (PTE_P ||| PTE_W ||| PTE_U)) fp ht.1 hl hpt hnext
          hfpnode (by simp) (by intro idx; simp [hfpne])
          (by
            intro n idx hn hne'
            simp only [set_word_physmem, set_page_physmem, set_pageinfo_physmem]
            rw [if_neg hne', if_neg hn])
          he hea
      refine ⟨⟨rfl, rfl, rfl, hmono', ?_, ?_, ?_⟩, ⟨?_, ?_⟩, ⟨hinj', ?_⟩, hlook', ?_, ?_⟩
      · intro n hn
        rcases hnodes' n hn with h | h
        · exact Or.inl h
        · subst h
          exact Or.inr ⟨hfpN, hrc⟩
      · intro pn
        by_cases hpn : pn = fp
        · subst hpn
          right
          exact ⟨hfpN, hrc, by simp⟩
        · left
          simp [hpn]
      · intro pn hpos hnode
        have hpn : pn ≠ fp := by
          intro hc
          subst hc
          omega
        have hpn' : pn ≠ PAGENUMBER pt := fun hc => hnode (hc ▸ hptnode)
        funext idx
        simp [hpn, hpn']
      · intro pn hpnN
        by_cases hpn : pn = fp
        · subst hpn
          simp
        · simp only [set_word_pageinfo, set_page_pageinfo, set_pageinfo_pageinfo, if_neg hpn]
          exact hs.1 pn hpnN
      · have : (0 : Nat) ≠ fp := by omega
        simp only [set_word_pageinfo, set_page_pageinfo, set_pageinfo_pageinfo, if_neg this]
        exact hs.2
      · intro n hn
        by_cases hpn : n = fp
        · subst hpn
          simp
        · simp only [set_word_pageinfo, set_page_pageinfo, set_pageinfo_pageinfo, if_neg hpn]
          rcases hnodes' n hn with h | h
          · exact ht.2 n h
          · exact absurd h hpn
      · intro a ha
        rw [hwalk', hea']
        exact ha
      · intro hc
        exact absurd hc (by simp)

/-- The descent of `virtual_memory_map` to the leaf-level node of `va`. -/
theorem lookup_l4pagetable_spec (K : KernelConfig) (s : KernelState) (r va perm : Nat)
    (hs : AllocSane K s) (ht : TreeOwned s r) (hperm : perm % 2 = 1) :
    MapStep K s (lookup_l4pagetable K s r va perm true).1 r ∧
      AllocSane K (lookup_l4pagetable K s r va perm true).1 ∧
      TreeOwned (lookup_l4pagetable K s r va perm true).1 r ∧
      (∀ va', virtual_memory_lookup (lookup_l4pagetable K s r va perm true).1.physmem r va' =
        virtual_memory_lookup s.physmem r va') ∧
      (∀ a, (lookup_l4pagetable K s r va perm true).2 = some a →
        pt_walk (lookup_l4pagetable K s r va perm true).1.physmem r va 3 = some a) ∧
      ((lookup_l4pagetable K s r va perm true).2 = none →
        ∀ pn, pn < NPAGES K →
          0 < ((lookup_l4pagetable K s r va perm true).1.pageinfo pn).refcount) := by
  have h0 := pt_next_alloc_spec K s r va perm 0 r hs ht (by omega) (pt_walk_zero _ _ _) hperm
  rcases hres0 : pt_next_alloc K s r va perm 0 true with ⟨s1, o1⟩
  rw [hres0] at h0
  obtain ⟨hm0, hs0, ht0, hl0, hw0, hf0⟩ := h0
  cases o1 with
  | none =>
    have hres : lookup_l4pagetable K s r va perm true = (s1, none) := by
      simp only [lookup_l4pagetable, hres0]
    rw [hres]
    refine ⟨hm0, hs0, ht0, hl0, fun a ha => absurd ha (by simp), fun _ => ?_⟩
    obtain ⟨he, hall⟩ := hf0 rfl
    have he' : s1 = s := he
    subst he'
    exact hall
  | some l2 =>
    have h1 := pt_next_alloc_spec K s1 r va perm 1 l2 hs0 ht0 (by omega) (hw0 l2 rfl) hperm
    rcases hres1 : pt_next_alloc K s1 l2 va perm 1 true with ⟨s2, o2⟩
    rw [hres1] at h1
    obtain ⟨hm1, hs1, ht1, hl1, hw1, hf1⟩ := h1
    cases o2 with
    | none =>
      have hres : lookup_l4pagetable K s r va perm true = (s2, none) := by
        simp only [lookup_l4pagetable, hres0, hres1]
      rw [hres]
      refine ⟨hm0.step_trans hm1, hs1, ht1, fun va' => (hl1 va').trans (hl0 va'),
        fun a ha => absurd ha (by simp), fun _ => ?_⟩
      obtain ⟨he, hall⟩ := hf1 rfl
      have he' : s2 = s1 := he
      subst he'
      exact hall
    | some l3 =>
      have h2 := pt_next_alloc_spec K s2 r va perm 2 l3 hs1 ht1 (by omega) (hw1 l3 rfl) hperm
      have hres : lookup_l4pagetable K s r va perm true =
          pt_next_alloc K s2 l3 va perm 2 true := by
        simp only [lookup_l4pagetable, hres0, hres1]
      rw [hres]
      obtain ⟨hm2, hs2, ht2, hl2, hw2, hf2⟩ := h2
      refine ⟨(hm0.step_trans hm1).step_trans hm2, hs2, ht2,
        fun va' => ((hl2 va').trans (hl1 va')).trans (hl0 va'), hw2, fun hn => ?_⟩
      obtain ⟨he, hall⟩ := hf2 hn
      rw [he]
      exact hall

theorem pte_leaf_entry (pa perm : Nat) (hpa : pa % 4096 = 0) (hperm : perm < 4096) :
    (pa ||| perm) % 2 = perm % 2 ∧ PAGENUMBER (pa ||| perm) = pa / 4096 ∧
      PTE_ADDR (pa ||| perm) = pa ∧ PTE_FLAGS (pa ||| perm) = perm := by
  have hpa' : pa = pa / 4096 * 4096 := by omega
  have hor : pa ||| perm = pa / 4096 * 4096 + perm := by
    rw [← lor_aligned (pa / 4096) perm hperm, ← hpa']
  rw [hor]
  simp only [PAGENUMBER, PTE_ADDR, PTE_FLAGS, PAGESIZE]
  omega

/-- Mapping one page with a present permission into the tree rooted at `r`. -/
theorem virtual_memory_map_page_spec (K : KernelConfig) (s : KernelState)
    (r va pa perm : Nat) (hs : AllocSane K s) (ht : TreeOwned s r)
    (hpa : pa % 4096 = 0) (hperm4 : perm < 4096) (hperm : perm % 2 = 1) :
    MapStep K s (virtual_memory_map_page K s r va pa perm true).1 r ∧
      AllocSane K (virtual_memory_map_page K s r va pa perm true).1 ∧
      TreeOwned (virtual_memory_map_page K s r va pa perm true).1 r ∧
      ((virtual_memory_map_page K s r va pa perm true).2 = 0 ∨
        (virtual_memory_map_page K s r va pa perm true).2 = -1) ∧
      ((virtual_memory_map_page K s r va pa perm true).2 = 0 →
        virtual_memory_lookup (virtual_memory_map_page K s r va pa perm true).1.physmem r va =
          some { pn := pa / 4096, pa := pa + va % PAGESIZE, perm := perm }) ∧
      (∀ va', ¬ SamePath va va' 4 →
        virtual_memory_lookup (virtual_memory_map_page K s r va pa perm true).1.physmem r va' =
          virtual_memory_lookup s.physmem r va') ∧
      ((virtual_memory_map_page K s r va pa perm true).2 = -1 →
        (∀ va',
          virtual_memory_lookup (virtual_memory_map_page K s r va pa perm true).1.physmem r
            va' = virtual_memory_lookup s.physmem r va') ∧
        ∀ pn, pn < NPAGES K →
          0 < ((virtual_memory_map_page K s r va pa perm true).1.pageinfo pn).refcount) := by
  have hP : perm &&& PTE_P ≠ 0 := (pte_present_iff perm).mpr hperm
  obtain ⟨hm, hs1, ht1, hl, hw, hf⟩ := lookup_l4pagetable_spec K s r va perm hs ht hperm
  rcases hres : lookup_l4pagetable K s r va perm true with ⟨s1, o⟩
  rw [hres] at hm hs1 ht1 hl hw hf
  cases o with
  | none =>
    have hr : virtual_memory_map_page K s r va pa perm true = (s1, -1) := by
      simp only [virtual_memory_map_page, hres, if_pos hP]
    rw [hr]
    exact ⟨hm, hs1, ht1, Or.inr rfl,
      fun hc => absurd (show (-1 : Int) = 0 from hc) (by decide), fun va' _ => hl va',
      fun _ => ⟨hl, hf rfl⟩⟩
  | some l4 =>
    have hr : virtual_memory_map_page K s r va pa perm true =
        (set_word s1 (PAGENUMBER l4) (PAGEINDEX va 3) (pa ||| perm), 0) := by
      simp only [virtual_memory_map_page, hres, if_pos hP]
    rw [hr]
    obtain ⟨he2, hepn, hea, hef⟩ := pte_leaf_entry pa perm hpa hperm4
    obtain ⟨hwalk, hlother, hlva⟩ :=
      virtual_memory_lookup_write_leaf s1.physmem
        (set_word s1 (PAGENUMBER l4) (PAGEINDEX va 3) (pa ||| perm)).physmem r va l4
        (pa ||| perm) ht1.1 (hw l4 rfl) (by simp)
        (by
          intro n idx hne
          simp only [set_word_physmem, if_neg hne])
    have hnode := IsNode_of_walk_eq s1.physmem
      (set_word s1 (PAGENUMBER l4) (PAGEINDEX va 3) (pa ||| perm)).physmem r
      (fun k va' hk => hwalk k va' hk)
    have hstep : MapStep K s1 (set_word s1 (PAGENUMBER l4) (PAGEINDEX va 3) (pa ||| perm)) r := by
      refine ⟨rfl, rfl, rfl, fun n hn => (hnode n).mpr hn, fun n hn => Or.inl ((hnode n).mp hn),
        fun _ => Or.inl rfl, ?_⟩
      intro pn _ hnn
      have hpn : pn ≠ PAGENUMBER l4 := by
        intro hc
        exact hnn ⟨va, 3, l4, le_refl _, hw l4 rfl, hc.symm⟩
      funext idx
      simp [hpn]
    refine ⟨hm.step_trans hstep, hs1, ⟨TreeInj_of_walk_eq s1.physmem _ r (fun k va' hk => hwalk k va' hk) ht1.1,
      fun n hn => ht1.2 n ((hnode n).mp hn)⟩, Or.inl rfl, fun _ => ?_, ?_,
      fun hc => absurd (show (0 : Int) = -1 from hc) (by decide)⟩
    · rw [hlva, if_pos ((pte_present_iff _).mpr (by rw [he2]; exact hperm)), hepn, hea, hef]
    · intro va' hsp
      rw [hlother va' hsp]
      exact hl va'

theorem virtual_memory_map_single (K : KernelConfig) (s : KernelState)
    (r va pa perm : Nat) (allocator : Bool) :
    virtual_memory_map K s r va pa PAGESIZE perm allocator =
      ((virtual_memory_map_page K s r va pa perm allocator).1,
        if (virtual_memory_map_page K s r va pa perm allocator).2 < 0 then -1 else 0) := by
  have h1 : PAGESIZE / PAGESIZE = 1 := by decide
  simp only [virtual_memory_map, h1, virtual_memory_map_pages]
  split <;> rfl

/-- `virtual_memory_map` of a single present page into the tree rooted at `r`. -/
theorem virtual_memory_map_spec (K : KernelConfig) (s : KernelState)
    (r va pa perm : Nat) (hs : AllocSane K s) (ht : TreeOwned s r)
    (hpa : pa % 4096 = 0) (hperm4 : perm < 4096) (hperm : perm % 2 = 1) :
    MapStep K s (virtual_memory_map K s r va pa PAGESIZE perm true).1 r ∧
      AllocSane K (virtual_memory_map K s r va pa PAGESIZE perm true).1 ∧
      TreeOwned (virtual_memory_map K s r va pa PAGESIZE perm true).1 r ∧
      (¬ (virtual_memory_map K s r va pa PAGESIZE perm true).2 < 0 →
        virtual_memory_lookup (virtual_memory_map K s r va pa PAGESIZE perm true).1.physmem r
            va = some { pn := pa / 4096, pa := pa + va % PAGESIZE, perm := perm }) ∧
      (∀ va', ¬ SamePath va va' 4 →
        virtual_memory_lookup (virtual_memory_map K s r va pa PAGESIZE perm true).1.physmem r
            va' = virtual_memory_lookup s.physmem r va') ∧
      ((virtual_memory_map K s r va pa PAGESIZE perm true).2 < 0 →
        (∀ va',
          virtual_memory_lookup (virtual_memory_map K s r va pa PAGESIZE perm true).1.physmem
            r va' = virtual_memory_lookup s.physmem r va') ∧
        ∀ pn, pn < NPAGES K →
          0 < ((virtual_memory_map K s r va pa PAGESIZE perm true).1.pageinfo pn).refcount) := by
  obtain ⟨hm, hs1, ht1, hr, hok, hoth, hfail⟩ :=
    virtual_memory_map_page_spec K s r va pa perm hs ht hpa hperm4 hperm
  rw [virtual_memory_map_single]
  refine ⟨hm, hs1, ht1, ?_, hoth, ?_⟩
  · intro hneg
    apply hok
    rcases hr with h | h
    · exact h
    · rw [h] at hneg
      simp at hneg
  · intro hneg
    apply hfail
    rcases hr with h | h
    · rw [h] at hneg
      simp at hneg
    · exact h

/-! ## Building a page table: the invariant -/

theorem BuildInv.rc_zero {K : KernelConfig} {s t : KernelState} {owner : Int} {c : Nat}
    {inc : Nat → Int} (h : BuildInv K s owner c inc t) (pn : Nat)
    (h0 : (t.pageinfo pn).refcount = 0) : (s.pageinfo pn).refcount = 0 := by
  obtain ⟨_, _, _, hold, hnew, _, _, _⟩ := h
  by_cases hpos : 0 < (s.pageinfo pn).refcount
  · obtain ⟨hi, hpi⟩ := hold pn hpos
    rw [hpi] at h0
    simp only at h0
    omega
  · rcases hnew pn hpos with h1 | ⟨_, h1, _⟩
    · rw [← h1]; exact h0
    · exact h1

theorem BuildInv.rc_pos {K : KernelConfig} {s t : KernelState} {owner : Int} {c : Nat}
    {inc : Nat → Int} (h : BuildInv K s owner c inc t) (pn : Nat)
    (hpos : 0 < (s.pageinfo pn).refcount) : 0 < (t.pageinfo pn).refcount := by
  obtain ⟨hi, hpi⟩ := h.2.2.2.1 pn hpos
  rw [hpi]
  simp only
  omega

theorem BuildInv.not_node {K : KernelConfig} {s t : KernelState} {owner : Int} {c : Nat}
    {inc : Nat → Int} (h : BuildInv K s owner c inc t) (pn : Nat)
    (hpos : 0 < (s.pageinfo pn).refcount) : ¬ IsNode t.physmem c pn := by
  intro hn
  have := (h.2.2.1 pn hn).2
  omega

/-- A mapping step into the table under construction preserves the invariant. -/
theorem BuildInv.mapstep {K : KernelConfig} {s t t1 : KernelState} {owner : Int} {c : Nat}
    {inc : Nat → Int} (h : BuildInv K s owner c inc t) (hm : MapStep K t t1 c)
    (hs1 : AllocSane K t1) (ht1 : TreeOwned t1 c) : BuildInv K s owner c inc t1 := by
  have hrc0 := h.rc_zero
  have hrcpos := h.rc_pos
  have hnn := h.not_node
  obtain ⟨_, _, hnodes, hold, hnew, hmem, hown, hcur⟩ := h
  obtain ⟨hp, hc, ho, hmono, hnewn, hinfo, hframe⟩ := hm
  refine ⟨hs1, ht1, ?_, ?_, ?_, ?_, ho.trans hown, hc.trans hcur⟩
  · intro n hn
    rcases hnewn n hn with h1 | ⟨h1, h2⟩
    · exact hnodes n h1
    · exact ⟨h1, hrc0 n h2⟩
  · intro pn hpos
    refine ⟨(hold pn hpos).1, ?_⟩
    rcases hinfo pn with h1 | ⟨_, h1, _⟩
    · rw [h1]
      exact (hold pn hpos).2
    · have := hrcpos pn hpos
      omega
  · intro pn hpos
    rcases hinfo pn with h1 | ⟨h1, h2, h3⟩
    · rw [h1]
      exact hnew pn hpos
    · right
      refine ⟨h1, hrc0 pn h2, ?_⟩
      rw [h3, hown]
  · intro pn hpos
    rw [hframe pn (hrcpos pn hpos) (hnn pn hpos)]
    exact hmem pn hpos

/-- The lookups in a page table all of whose nodes were referenced at the start of the
construction are not affected by it. -/
theorem BuildInv.lookup_stable {K : KernelConfig} {s t : KernelState} {owner : Int} {c : Nat}
    {inc : Nat → Int} (h : BuildInv K s owner c inc t) (r va : Nat)
    (hst : ∀ k, k ≤ 3 → ∀ a, pt_walk s.physmem r va k = some a →
      0 < (s.pageinfo (PAGENUMBER a)).refcount) :
    virtual_memory_lookup t.physmem r va = virtual_memory_lookup s.physmem r va :=
  (virtual_memory_lookup_frame s.physmem t.physmem r va
    (fun k a hk hw => h.2.2.2.2.2.1 _ (hst k hk a hw))).2

theorem virtual_memory_lookup_props (m : Nat → Nat → Nat) (r va : Nat) (vam : vamapping)
    (h : virtual_memory_lookup m r va = some vam) :
    vam.perm < 4096 ∧ vam.perm % 2 = 1 ∧ vam.pa = vam.pn * 4096 + va % 4096 := by
  cases hw : pt_walk m r va 3 with
  | none =>
    rw [virtual_memory_lookup_of_walk_none m r va hw] at h
    exact absurd h (by simp)
  | some a =>
    rw [virtual_memory_lookup_of_walk m r va a hw] at h
    split at h
    · rename_i hp
      have hv := (Option.some.inj h).symm
      subst hv
      have := (pte_present_iff _).mp hp
      dsimp only [PTE_FLAGS, PTE_ADDR, PAGENUMBER, PAGESIZE] at this ⊢
      omega
    · exact absurd h (by simp)

/-- The loop of `copy_pagetable`: it preserves the construction invariant, touches only
the lookups of the addresses it visits, and on success gives each visited address the
mapping it has in the source table. -/
theorem copy_pagetable_loop_spec (K : KernelConfig) (s : KernelState) (proot c : Nat)
    (owner : Int) (inc : Nat → Int) :
    ∀ (l : List Nat) (t : KernelState),
      (∀ va ∈ l, va % 4096 = 0) → NodesReferenced s proot l →
      l.Pairwise (fun a b => ¬ SamePath a b 4) →
      BuildInv K s owner c inc t →
      BuildInv K s owner c inc (copy_pagetable_loop K proot c l t).1 ∧
      (copy_pagetable_loop K proot c l t).1.processes = t.processes ∧
      (∀ va', (∀ va ∈ l, ¬ SamePath va va' 4) →
        virtual_memory_lookup (copy_pagetable_loop K proot c l t).1.physmem c va' =
          virtual_memory_lookup t.physmem c va') ∧
      ((copy_pagetable_loop K proot c l t).2 = true →
        ∀ va ∈ l,
          (∀ vam, virtual_memory_lookup s.physmem proot va = some vam →
            virtual_memory_lookup (copy_pagetable_loop K proot c l t).1.physmem c va =
              some vam) ∧
          (virtual_memory_lookup s.physmem proot va = none →
            virtual_memory_lookup (copy_pagetable_loop K proot c l t).1.physmem c va =
              virtual_memory_lookup t.physmem c va)) := by
  intro l
  induction l with
  | nil =>
    intro t _ _ _ hinv
    exact ⟨hinv, rfl, fun _ _ => rfl, fun _ va hva => absurd hva (by simp)⟩
  | cons va rest ih =>
    intro t hal hst hpw hinv
    have hal' : ∀ v ∈ rest, v % 4096 = 0 := fun v hv => hal v (List.mem_cons_of_mem _ hv)
    have hst' : NodesReferenced s proot rest :=
      fun v hv => hst v (List.mem_cons_of_mem _ hv)
    have hpw' := (List.pairwise_cons.mp hpw).2
    have hpva := (List.pairwise_cons.mp hpw).1
    have hlk : virtual_memory_lookup t.physmem proot va =
        virtual_memory_lookup s.physmem proot va :=
      hinv.lookup_stable proot va (hst va (List.mem_cons_self _ _))
    cases hsrc : virtual_memory_lookup s.physmem proot va with
    | none =>
      have hres : copy_pagetable_loop K proot c (va :: rest) t =
          copy_pagetable_loop K proot c rest t := by
        simp only [copy_pagetable_loop, hlk, hsrc]
      rw [hres]
      obtain ⟨hi, hp, hoth, hok⟩ := ih t hal' hst' hpw' hinv
      refine ⟨hi, hp, fun va' hva' => hoth va' (fun v hv => hva' v (List.mem_cons_of_mem _ hv)),
        ?_⟩
      intro hsucc v hv
      rcases List.mem_cons.mp hv with hv | hv
      · subst hv
        refine ⟨fun vam hvam => ?_, fun _ => hoth v (fun w hw => ?_)⟩
        · rw [hsrc] at hvam
          exact absurd hvam (by simp)
        · exact fun hsp => hpva w hw hsp.symm
      · exact hok hsucc v hv
    | some vam =>
      obtain ⟨hp4, hp2, hpa⟩ := virtual_memory_lookup_props s.physmem proot va vam hsrc
      have hva0 : va % 4096 = 0 := hal va (List.mem_cons_self _ _)
      have hpa0 : vam.pa % 4096 = 0 := by omega
      obtain ⟨hm, hs1, ht1, hmok, hmoth, hmfail⟩ :=
        virtual_memory_map_spec K t c va vam.pa vam.perm hinv.1 hinv.2.1 hpa0 hp4 hp2
      have hinv1 := hinv.mapstep hm hs1 ht1
      by_cases hneg : (virtual_memory_map K t c va vam.pa PAGESIZE vam.perm true).2 < 0
      · have hres : copy_pagetable_loop K proot c (va :: rest) t =
            ((virtual_memory_map K t c va vam.pa PAGESIZE vam.perm true).1, false) := by
          simp only [copy_pagetable_loop, hlk, hsrc, if_pos hneg]
        rw [hres]
        exact ⟨hinv1, hm.1, fun va' _ => (hmfail hneg).1 va',
          fun hc => absurd hc (by simp)⟩
      · have hres : copy_pagetable_loop K proot c (va :: rest) t =
            copy_pagetable_loop K proot c rest
              (virtual_memory_map K t c va vam.pa PAGESIZE vam.perm true).1 := by
          simp only [copy_pagetable_loop, hlk, hsrc, if_neg hneg]
        rw [hres]
        obtain ⟨hi, hp, hoth, hok⟩ := ih _ hal' hst' hpw' hinv1
        refine ⟨hi, hp.trans hm.1, ?_, ?_⟩
        · intro va' hva'
          rw [hoth va' (fun v hv => hva' v (List.mem_cons_of_mem _ hv))]
          exact hmoth va' (hva' va (List.mem_cons_self _ _))
        · intro hsucc v hv
          rcases List.mem_cons.mp hv with hv | hv
          · subst hv
            have hkeep := hoth v (fun w hw hsp => hpva w hw hsp.symm)
            refine ⟨fun vam' hvam' => ?_, fun hc => ?_⟩
            · rw [hkeep, hmok hneg]
              rw [hsrc] at hvam'
              have hv' := Option.some.inj hvam'
              subst hv'
              congr 1
              cases vam with
              | mk pn pa perm =>
                simp only [PAGESIZE] at hpa ⊢
                congr 1 <;> omega
            · rw [hsrc] at hc
              exact absurd hc (by simp)
          · obtain ⟨h1, h2⟩ := hok hsucc v hv
            refine ⟨h1, fun hn => ?_⟩
            rw [h2 hn]
            exact hmoth v (hpva v hv)

/-! ## `copy_pagetable` -/

theorem mem_page_addresses (lo hi va : Nat) :
    va ∈ page_addresses lo hi ↔
      ∃ k, k < (hi - lo + (PAGESIZE - 1)) / PAGESIZE ∧ va = lo + k * PAGESIZE := by
  simp only [page_addresses, List.mem_map, List.mem_range]
  constructor
  · rintro ⟨k, hk, rfl⟩
    exact ⟨k, hk, rfl⟩
  · rintro ⟨k, hk, rfl⟩
    exact ⟨k, hk, rfl⟩

theorem page_addresses_zero_mem (hi va : Nat) (h : va ∈ page_addresses 0 hi) :
    va % 4096 = 0 ∧ va < hi := by
  obtain ⟨k, hk, rfl⟩ := (mem_page_addresses 0 hi va).mp h
  simp only [PAGESIZE] at hk ⊢
  omega

theorem page_addresses_zero_of (hi va : Nat) (h0 : va % 4096 = 0) (hlt : va < hi) :
    va ∈ page_addresses 0 hi := by
  refine (mem_page_addresses 0 hi va).mpr ⟨va / 4096, ?_, ?_⟩
  · simp only [PAGESIZE]
    omega
  · simp only [PAGESIZE]
    omega

theorem page_addresses_pairwise (hi : Nat) (hhi : hi ≤ 2 ^ 48) :
    (page_addresses 0 hi).Pairwise (fun a b => ¬ SamePath a b 4) := by
  have hnd : (page_addresses 0 hi).Pairwise (fun a b => a ≠ b) := by
    simp only [page_addresses]
    rw [List.pairwise_map]
    refine (List.pairwise_lt_range _).imp ?_
    intro a b hab
    simp only [PAGESIZE]
    omega
  refine hnd.imp_of_mem ?_
  intro a b ha hb hne hsp
  obtain ⟨ha0, hahi⟩ := page_addresses_zero_mem hi a ha
  obtain ⟨hb0, hbhi⟩ := page_addresses_zero_mem hi b hb
  have := samePath_four a b (by omega) (by omega) hsp
  omega

theorem PAGENUMBER_PAGEADDRESS (pn : Nat) : PAGENUMBER (PAGEADDRESS pn) = pn := by
  simp only [PAGENUMBER, PAGEADDRESS, PAGESIZE]
  omega

/-- A table whose root page is zeroed has the root as only node and maps nothing. -/
theorem pt_walk_zero_root (m : Nat → Nat → Nat) (c : Nat)
    (hz : ∀ idx, m (PAGENUMBER c) idx = 0) :
    (∀ va k, pt_walk m c va (k + 1) = none) ∧ TreeInj m c ∧
      (∀ n, IsNode m c n → n = PAGENUMBER c) ∧
      (∀ va, virtual_memory_lookup m c va = none) := by
  have h1 : ∀ va, pt_walk m c va 1 = none := by
    intro va
    rw [pt_walk_succ_some m c va 0 c rfl]
    simp only [pt_next, pt_entry, hz]
    simp
  have hall : ∀ va k, pt_walk m c va (k + 1) = none := fun va k =>
    pt_walk_none_mono m c va 1 (h1 va) (k + 1) (by omega)
  have hlev : ∀ va l a, pt_walk m c va l = some a → l = 0 ∧ a = c := by
    intro va l a hw
    cases l with
    | zero => exact ⟨rfl, (Option.some.inj hw).symm⟩
    | succ k =>
      rw [hall va k] at hw
      exact absurd hw (by simp)
  refine ⟨hall, ?_, ?_, ?_⟩
  · intro va va' l l' a a' _ _ hw hw' _
    obtain ⟨hl, _⟩ := hlev va l a hw
    obtain ⟨hl', _⟩ := hlev va' l' a' hw'
    subst hl
    subst hl'
    exact ⟨rfl, fun i hi => absurd hi (by omega)⟩
  · rintro n ⟨va, l, a, _, hw, hpn⟩
    obtain ⟨_, ha⟩ := hlev va l a hw
    rw [← hpn, ha]
  · intro va
    exact virtual_memory_lookup_of_walk_none m c va (hall va 2)

/-- `copy_pagetable(pagetable, owner)` in a state where allocation is well behaved and
the nodes of the source table are referenced pages.  In every case the process table is
untouched, referenced pages keep their record and contents, and free pages are either
untouched or allocated to `owner` with reference count 1.  When the result is not `NULL`
it is the root of a tree of previously free pages in which every page-aligned address
below `MEMSIZE_VIRTUAL` has the same lookup as in the source. -/
theorem copy_pagetable_spec (K : KernelConfig) (s : KernelState) (proot : Nat) (owner : Int)
    (hs : AllocSane K s) (hmv : K.MEMSIZE_VIRTUAL ≤ 2 ^ 48)
    (hst : NodesReferenced s proot (page_addresses 0 K.MEMSIZE_VIRTUAL)) :
    (copy_pagetable K s proot owner).1.processes = s.processes ∧
      (copy_pagetable K s proot owner).1.current = s.current ∧
      (copy_pagetable K s proot owner).1.current_owner = owner ∧
      AllocSane K (copy_pagetable K s proot owner).1 ∧
      (∀ pn, 0 < (s.pageinfo pn).refcount →
        (copy_pagetable K s proot owner).1.pageinfo pn = s.pageinfo pn ∧
          (copy_pagetable K s proot owner).1.physmem pn = s.physmem pn) ∧
      (∀ pn, ¬ 0 < (s.pageinfo pn).refcount →
        (copy_pagetable K s proot owner).1.pageinfo pn = s.pageinfo pn ∨
          (pn < NPAGES K ∧ (s.pageinfo pn).refcount = 0 ∧
            (copy_pagetable K s proot owner).1.pageinfo pn =
              { owner := owner, refcount := 1 })) ∧
      ((copy_pagetable K s proot owner).2 ≠ NULL →
        BuildInv K s owner (copy_pagetable K s proot owner).2 (fun _ => 0)
            (copy_pagetable K s proot owner).1 ∧
          (copy_pagetable K s proot owner).2 =
            PAGEADDRESS (PAGENUMBER (copy_pagetable K s proot owner).2) ∧
          (s.pageinfo (PAGENUMBER (copy_pagetable K s proot owner).2)).refcount = 0 ∧
          PAGENUMBER (copy_pagetable K s proot owner).2 < NPAGES K ∧
          (copy_pagetable K s proot owner).1.pageinfo
              (PAGENUMBER (copy_pagetable K s proot owner).2) =
            { owner := owner, refcount := 1 } ∧
          ∀ va ∈ page_addresses 0 K.MEMSIZE_VIRTUAL,
            virtual_memory_lookup (copy_pagetable K s proot owner).1.physmem
                (copy_pagetable K s proot owner).2 va =
              virtual_memory_lookup s.physmem proot va) := by
  have hs0 : AllocSane K { s with current_owner := owner } := hs
  -- facts that follow from the invariant
  have hfacts : ∀ (c : Nat) (t : KernelState), BuildInv K s owner c (fun _ => 0) t →
      t.current = s.current ∧ t.current_owner = owner ∧ AllocSane K t ∧
      (∀ pn, 0 < (s.pageinfo pn).refcount →
        t.pageinfo pn = s.pageinfo pn ∧ t.physmem pn = s.physmem pn) ∧
      (∀ pn, ¬ 0 < (s.pageinfo pn).refcount →
        t.pageinfo pn = s.pageinfo pn ∨
          (pn < NPAGES K ∧ (s.pageinfo pn).refcount = 0 ∧
            t.pageinfo pn = { owner := owner, refcount := 1 })) := by
    intro c t hinv
    refine ⟨hinv.2.2.2.2.2.2.2, hinv.2.2.2.2.2.2.1, hinv.1, fun pn hpos => ⟨?_, ?_⟩,
      hinv.2.2.2.2.1⟩
    · rw [(hinv.2.2.2.1 pn hpos).2]
      simp
    · exact hinv.2.2.2.2.2.1 pn hpos
  rcases find_free_page_alloc K { s with current_owner := owner } hs0 with
    ⟨h2, h1, _⟩ | ⟨fp, hfp0, hfpN, hrc, _, h2, hne, h1⟩
  · have hres : copy_pagetable K s proot owner = ({ s with current_owner := owner }, NULL) := by
      simp only [copy_pagetable, h2, h1, if_true]
    rw [hres]
    exact ⟨rfl, rfl, rfl, hs0, fun _ _ => ⟨rfl, rfl⟩, fun _ _ => Or.inl rfl,
      fun hc => absurd rfl hc⟩
  · have hrc' : (s.pageinfo fp).refcount = 0 := hrc
    have hinv1 : BuildInv K s owner (PAGEADDRESS fp) (fun _ => 0)
        (set_page (set_pageinfo { s with current_owner := owner } fp
          { owner := owner, refcount := 1 }) fp (fun _ => 0)) := by
      obtain ⟨_, hinj, hnodes, _⟩ := pt_walk_zero_root
        (set_page (set_pageinfo { s with current_owner := owner } fp
          { owner := owner, refcount := 1 }) fp (fun _ => 0)).physmem (PAGEADDRESS fp)
        (by intro idx; simp [PAGENUMBER_PAGEADDRESS])
      rw [PAGENUMBER_PAGEADDRESS] at hnodes
      refine ⟨⟨?_, ?_⟩, ⟨hinj, ?_⟩, ?_, ?_, ?_, ?_, rfl, rfl⟩
      · intro pn hpn
        by_cases hp : pn = fp
        · subst hp; simp
        · simp only [set_page_pageinfo, set_pageinfo_pageinfo, if_neg hp]
          exact hs.1 pn hpn
      · have : (0 : Nat) ≠ fp := by omega
        simp only [set_page_pageinfo, set_pageinfo_pageinfo, if_neg this]
        exact hs.2
      · intro n hn
        rw [hnodes n hn]
        simp
      · intro n hn
        rw [hnodes n hn]
        exact ⟨hfpN, hrc'⟩
      · intro pn hpos
        have hp : pn ≠ fp := by
          intro hc; subst hc; omega
        refine ⟨le_refl _, ?_⟩
        simp [hp]
      · intro pn _
        by_cases hp : pn = fp
        · subst hp
          right
          exact ⟨hfpN, hrc', by simp⟩
        · left
          simp [hp]
      · intro pn hpos
        have hp : pn ≠ fp := by
          intro hc; subst hc; omega
        simp [hp]
    have hlook1 : ∀ va, virtual_memory_lookup
        (set_page (set_pageinfo { s with current_owner := owner } fp
          { owner := owner, refcount := 1 }) fp (fun _ => 0)).physmem (PAGEADDRESS fp) va =
          none :=
      (pt_walk_zero_root _ (PAGEADDRESS fp)
        (by intro idx; simp [PAGENUMBER_PAGEADDRESS])).2.2.2
    obtain ⟨hi, hp, hoth, hok⟩ := copy_pagetable_loop_spec K s proot (PAGEADDRESS fp) owner
      (fun _ => 0) (page_addresses 0 K.MEMSIZE_VIRTUAL) _
      (fun va hva => (page_addresses_zero_mem _ va hva).1) hst
      (page_addresses_pairwise _ hmv) hinv1
    have hne' : PAGEADDRESS fp ≠ NULL := by rw [← h2]; exact hne
    by_cases hsucc : (copy_pagetable_loop K proot (PAGEADDRESS fp)
        (page_addresses 0 K.MEMSIZE_VIRTUAL)
        (set_page (set_pageinfo { s with current_owner := owner } fp
          { owner := owner, refcount := 1 }) fp (fun _ => 0))).2 = true
    · have hres : copy_pagetable K s proot owner =
          ((copy_pagetable_loop K proot (PAGEADDRESS fp)
            (page_addresses 0 K.MEMSIZE_VIRTUAL)
            (set_page (set_pageinfo { s with current_owner := owner } fp
              { owner := owner, refcount := 1 }) fp (fun _ => 0))).1, PAGEADDRESS fp) := by
        simp only [copy_pagetable, h2, h1, if_neg hne', if_pos hsucc]
      rw [hres]
      obtain ⟨f1, f2, f3, f4, f5⟩ := hfacts _ _ hi
      refine ⟨hp, f1, f2, f3, f4, f5, fun _ => ⟨hi, ?_, ?_, ?_, ?_, ?_⟩⟩
      · simp only [PAGENUMBER_PAGEADDRESS]
      · simp only [PAGENUMBER_PAGEADDRESS]
        exact hrc'
      · simp only [PAGENUMBER_PAGEADDRESS]
        exact hfpN
      · simp only [PAGENUMBER_PAGEADDRESS]
        have hnotpos : ¬ 0 < (s.pageinfo fp).refcount := by omega
        rcases f5 fp hnotpos with h | ⟨_, _, h⟩
        · exfalso
          have hroot : IsNode (copy_pagetable_loop K proot (PAGEADDRESS fp)
              (page_addresses 0 K.MEMSIZE_VIRTUAL)
              (set_page (set_pageinfo { s with current_owner := owner } fp
                { owner := owner, refcount := 1 }) fp (fun _ => 0))).1.physmem
              (PAGEADDRESS fp) fp :=
            ⟨0, 0, PAGEADDRESS fp, by omega, rfl, PAGENUMBER_PAGEADDRESS fp⟩
          have := hi.2.1.2 fp hroot
          rw [h] at this
          omega
        · exact h
      · intro va hva
        obtain ⟨ha, hb⟩ := hok hsucc va hva
        cases hsrc : virtual_memory_lookup s.physmem proot va with
        | none =>
          rw [hb hsrc]
          exact hlook1 va
        | some vam => exact ha vam hsrc
    · have hres : copy_pagetable K s proot owner =
          ((copy_pagetable_loop K proot (PAGEADDRESS fp)
            (page_addresses 0 K.MEMSIZE_VIRTUAL)
            (set_page (set_pageinfo { s with current_owner := owner } fp
              { owner := owner, refcount := 1 }) fp (fun _ => 0))).1, NULL) := by
        simp only [copy_pagetable, h2, h1, if_neg hne', if_neg hsucc]
      rw [hres]
      obtain ⟨f1, f2, f3, f4, f5⟩ := hfacts _ _ hi
      exact ⟨hp, f1, f2, f3, f4, f5, fun hc => absurd rfl hc⟩

/-! ## The fork loop -/

theorem sys_fork_loop_cons (K : KernelConfig) (freeProc i : Nat) (rest : List Nat)
    (s : KernelState) :
    sys_fork_loop K freeProc (i :: rest) s =
      if (sys_fork_step K freeProc i s).2 = true then
        ( process_cleanup_partial K
            (set_reg_rax (sys_fork_step K freeProc i s).1 s.current (uint64 (-1)))
            (s.processes freeProc).p_pid i, some i)
      else sys_fork_loop K freeProc rest (sys_fork_step K freeProc i s).1 := by
  simp only [sys_fork_loop, sys_fork_step]
  split
  · simp
  · split
    · split
      · simp
      · split
        · split
          · simp
          · split
            · rename_i h
              simp [h]
            · rename_i h
              simp [h]
        · simp
    · simp

theorem BuildInv.congr_inc {K : KernelConfig} {s t : KernelState} {owner : Int} {c : Nat}
    {inc inc' : Nat → Int} (h : BuildInv K s owner c inc t) (he : ∀ pn, inc pn = inc' pn) :
    BuildInv K s owner c inc' t := by
  have : inc = inc' := funext he
  rw [← this]
  exact h

theorem int8_of_range (x : Int) (h1 : -128 ≤ x) (h2 : x ≤ 127) : int8 x = x := by
  simp only [int8]
  omega

/-- Sharing step of the fork loop: one more reference to a page that was referenced at
the start. -/
theorem BuildInv.share {K : KernelConfig} {s t : KernelState} {owner : Int} {c : Nat}
    {inc : Nat → Int} (h : BuildInv K s owner c inc t) (pn' : Nat)
    (hpos : 0 < (s.pageinfo pn').refcount)
    (hwrap : (s.pageinfo pn').refcount + inc pn' + 1 ≤ 127) :
    BuildInv K s owner c (fun pn => inc pn + if pn = pn' then 1 else 0)
      (set_pageinfo t pn'
        { t.pageinfo pn' with refcount := int8 ((t.pageinfo pn').refcount + 1) }) := by
  have hnn := h.not_node
  obtain ⟨hsane, htree, hnodes, hold, hnew, hmem, hown, hcur⟩ := h
  obtain ⟨hi', hpi'⟩ := hold pn' hpos
  have hrc : int8 ((t.pageinfo pn').refcount + 1) = (s.pageinfo pn').refcount + inc pn' + 1 := by
    rw [hpi']
    show int8 ((s.pageinfo pn').refcount + inc pn' + 1) = _
    exact int8_of_range _ (by omega) (by omega)
  refine ⟨⟨?_, ?_⟩, ⟨htree.1, ?_⟩, hnodes, ?_, ?_, hmem, hown, hcur⟩
  · intro pn hpn
    by_cases hp : pn = pn'
    · subst hp
      simp only [set_pageinfo_pageinfo, if_true, hrc]
      omega
    · simp only [set_pageinfo_pageinfo, if_neg hp]
      exact hsane.1 pn hpn
  · by_cases hp : 0 = pn'
    · subst hp
      simp only [set_pageinfo_pageinfo, if_true, hrc]
      omega
    · simp only [set_pageinfo_pageinfo, if_neg hp]
      exact hsane.2
  · intro n hn
    have hp : n ≠ pn' := by
      intro hc
      subst hc
      exact hnn n hpos hn
    simp only [set_pageinfo_pageinfo, if_neg hp]
    exact htree.2 n hn
  · intro pn hpn
    obtain ⟨hi, hpi⟩ := hold pn hpn
    by_cases hp : pn = pn'
    · subst hp
      simp only [set_pageinfo_pageinfo, if_true, hrc]
      refine ⟨by omega, ?_⟩
      rw [hpi]
      simp only [physical_pageinfo.mk.injEq, true_and]
      omega
    · simp only [set_pageinfo_pageinfo, if_neg hp]
      refine ⟨by omega, ?_⟩
      rw [hpi]
      simp
  · intro pn hpn
    have hp : pn ≠ pn' := by
      intro hc
      subst hc
      exact hpn hpos
    simp only [set_pageinfo_pageinfo, if_neg hp]
    exact hnew pn hpn

/-- Allocation of a data page and filling it from another page is a step that leaves the
page table under construction alone. -/
theorem find_free_page_data_step (K : KernelConfig) (t : KernelState) (c fp : Nat)
    (page : Nat → Nat) (hsane : AllocSane K t) (htree : TreeOwned t c) (hfp0 : 0 < fp)
    (hfpN : fp < NPAGES K) (hrc : (t.pageinfo fp).refcount = 0) :
    MapStep K t
        (set_page (set_page (set_pageinfo t fp { owner := t.current_owner, refcount := 1 }) fp
          (fun _ => 0)) fp page) c ∧
      AllocSane K
        (set_page (set_page (set_pageinfo t fp { owner := t.current_owner, refcount := 1 }) fp
          (fun _ => 0)) fp page) ∧
      TreeOwned
        (set_page (set_page (set_pageinfo t fp { owner := t.current_owner, refcount := 1 }) fp
          (fun _ => 0)) fp page) c ∧
      (∀ va, virtual_memory_lookup
          (set_page (set_page (set_pageinfo t fp { owner := t.current_owner, refcount := 1 })
            fp (fun _ => 0)) fp page).physmem c va = virtual_memory_lookup t.physmem c va) ∧
      ¬ IsNode
        (set_page (set_page (set_pageinfo t fp { owner := t.current_owner, refcount := 1 }) fp
          (fun _ => 0)) fp page).physmem c fp := by
  have hfpnode : ¬ IsNode t.physmem c fp := by
    intro hn
    have := htree.2 fp hn
    omega
  have hframe : ∀ va k a, k ≤ 3 → pt_walk t.physmem c va k = some a →
      (set_page (set_page (set_pageinfo t fp { owner := t.current_owner, refcount := 1 }) fp
          (fun _ => 0)) fp page).physmem (PAGENUMBER a) = t.physmem (PAGENUMBER a) := by
    intro va k a hk hw
    have hne : PAGENUMBER a ≠ fp := fun hc => hfpnode ⟨va, k, a, hk, hw, hc⟩
    simp [hne]
  have hwalk : ∀ k va, k ≤ 3 →
      pt_walk (set_page (set_page (set_pageinfo t fp
          { owner := t.current_owner, refcount := 1 }) fp (fun _ => 0)) fp page).physmem c va k =
        pt_walk t.physmem c va k := fun k va hk =>
    (virtual_memory_lookup_frame t.physmem _ c va (hframe va)).1 k hk
  have hnode := IsNode_of_walk_eq t.physmem _ c hwalk
  refine ⟨⟨rfl, rfl, rfl, fun n hn => (hnode n).mpr hn, fun n hn => Or.inl ((hnode n).mp hn),
    ?_, ?_⟩, ⟨?_, ?_⟩, ⟨TreeInj_of_walk_eq t.physmem _ c hwalk htree.1, ?_⟩, ?_, ?_⟩
  · intro pn
    by_cases hp : pn = fp
    · subst hp
      right
      exact ⟨hfpN, hrc, by simp⟩
    · left
      simp [hp]
  · intro pn hpos _
    have hp : pn ≠ fp := by
      intro hc; subst hc; omega
    simp [hp]
  · intro pn hpn
    by_cases hp : pn = fp
    · subst hp; simp
    · simp only [set_page_pageinfo, set_pageinfo_pageinfo, if_neg hp]
      exact hsane.1 pn hpn
  · have : (0 : Nat) ≠ fp := by omega
    simp only [set_page_pageinfo, set_pageinfo_pageinfo, if_neg this]
    exact hsane.2
  · intro n hn
    have hn' := (hnode n).mp hn
    have hp : n ≠ fp := fun hc => hfpnode (hc ▸ hn')
    simp only [set_page_pageinfo, set_pageinfo_pageinfo, if_neg hp]
    exact htree.2 n hn'
  · intro va
    exact (virtual_memory_lookup_frame t.physmem _ c va (hframe va)).2
  · intro hn
    exact hfpnode ((hnode fp).mp hn)

/-- Consequences of a mapping step for the pages outside the tree. -/
theorem MapStep.outside {K : KernelConfig} {t t1 : KernelState} {c : Nat}
    (hm : MapStep K t t1 c) :
    (∀ pn, (t1.pageinfo pn).refcount = 0 → (t.pageinfo pn).refcount = 0) ∧
      (∀ q, 0 < (t.pageinfo q).refcount → ¬ IsNode t.physmem c q →
        t1.pageinfo q = t.pageinfo q ∧ t1.physmem q = t.physmem q ∧
          ¬ IsNode t1.physmem c q) := by
  obtain ⟨_, _, _, _, hnewn, hinfo, hframe⟩ := hm
  refine ⟨?_, ?_⟩
  · intro pn h0
    rcases hinfo pn with h | ⟨_, h, _⟩
    · rw [← h]; exact h0
    · exact h
  · intro q hpos hnn
    refine ⟨?_, hframe q hpos hnn, ?_⟩
    · rcases hinfo q with h | ⟨_, h, _⟩
      · exact h
      · omega
    · intro hn
      rcases hnewn q hn with h | ⟨_, h⟩
      · exact hnn h
      · omega

theorem PAGEADDRESS_mod (fp : Nat) : PAGEADDRESS fp % 4096 = 0 := by
  simp only [PAGEADDRESS, PAGESIZE]
  omega

/-- One iteration of the loop of `INT_SYS_FORK` at a page-aligned address `i`, in a state
`t` of the construction of the child's table rooted at `c`. -/
theorem sys_fork_step_spec (K : KernelConfig) (s t : KernelState) (proot c : Nat)
    (owner : Int) (f : Nat) (inc : Nat → Int) (i : Nat)
    (hinv : BuildInv K s owner c inc t)
    (hproot : (t.processes t.current).p_pagetable = proot)
    (hchild : (t.processes f).p_pagetable = c)
    (hi : i % 4096 = 0)
    (hnodes : ∀ k, k ≤ 3 → ∀ a, pt_walk s.physmem proot i k = some a →
      0 < (s.pageinfo (PAGENUMBER a)).refcount)
    (huser : ∀ vam, virtual_memory_lookup s.physmem proot i = some vam →
      (vam.perm &&& (PTE_U ||| PTE_W) = PTE_U ∨
        vam.perm &&& (PTE_U ||| PTE_W) = (PTE_U ||| PTE_W)) →
      0 < (s.pageinfo vam.pn).refcount)
    (hwrap : ∀ vam, virtual_memory_lookup s.physmem proot i = some vam →
      (s.pageinfo vam.pn).refcount + inc vam.pn + fork_share s proot i vam.pn ≤ 127) :
    BuildInv K s owner c (fun pn => inc pn + fork_share s proot i pn)
        (sys_fork_step K f i t).1 ∧
      (sys_fork_step K f i t).1.processes = t.processes ∧
      (∀ pn, ((sys_fork_step K f i t).1.pageinfo pn).refcount = 0 →
        (t.pageinfo pn).refcount = 0) ∧
      (∀ va', ¬ SamePath i va' 4 →
        virtual_memory_lookup (sys_fork_step K f i t).1.physmem c va' =
          virtual_memory_lookup t.physmem c va') ∧
      (∀ q, ¬ 0 < (s.pageinfo q).refcount → 0 < (t.pageinfo q).refcount →
        ¬ IsNode t.physmem c q →
        (sys_fork_step K f i t).1.pageinfo q = t.pageinfo q ∧
          (sys_fork_step K f i t).1.physmem q = t.physmem q ∧
          ¬ IsNode (sys_fork_step K f i t).1.physmem c q) ∧
      ((sys_fork_step K f i t).2 = false → ¬ fork_copies s proot i →
        virtual_memory_lookup (sys_fork_step K f i t).1.physmem c i =
          virtual_memory_lookup t.physmem c i) ∧
      ((sys_fork_step K f i t).2 = false →
        ∀ vam, virtual_memory_lookup s.physmem proot i = some vam →
          0 ≤ (s.pageinfo vam.pn).owner →
          vam.perm &&& (PTE_U ||| PTE_W) = (PTE_U ||| PTE_W) →
          ∃ q, virtual_memory_lookup (sys_fork_step K f i t).1.physmem c i =
                some { pn := q, pa := PAGEADDRESS q, perm := vam.perm } ∧
            q < NPAGES K ∧ (t.pageinfo q).refcount = 0 ∧
            (sys_fork_step K f i t).1.pageinfo q = { owner := owner, refcount := 1 } ∧
            ¬ IsNode (sys_fork_step K f i t).1.physmem c q ∧
            (sys_fork_step K f i t).1.physmem q = s.physmem vam.pn) ∧
      ((sys_fork_step K f i t).2 = true →
        (∀ va', virtual_memory_lookup (sys_fork_step K f i t).1.physmem c va' =
          virtual_memory_lookup t.physmem c va') ∧
        fork_copies s proot i ∧ ∀ pn, fork_share s proot i pn = 0) := by
  have hlk : virtual_memory_lookup t.physmem proot i = virtual_memory_lookup s.physmem proot i :=
    hinv.lookup_stable proot i hnodes
  have h46 : PTE_U ≠ (PTE_U ||| PTE_W) := by decide
  -- an iteration that does nothing
  have hskip : sys_fork_step K f i t = (t, false) →
      (∀ pn, fork_share s proot i pn = 0) → ¬ fork_copies s proot i →
      BuildInv K s owner c (fun pn => inc pn + fork_share s proot i pn)
        (sys_fork_step K f i t).1 ∧
      (sys_fork_step K f i t).1.processes = t.processes ∧
      (∀ pn, ((sys_fork_step K f i t).1.pageinfo pn).refcount = 0 →
        (t.pageinfo pn).refcount = 0) ∧
      (∀ va', ¬ SamePath i va' 4 →
        virtual_memory_lookup (sys_fork_step K f i t).1.physmem c va' =
          virtual_memory_lookup t.physmem c va') ∧
      (∀ q, ¬ 0 < (s.pageinfo q).refcount → 0 < (t.pageinfo q).refcount →
        ¬ IsNode t.physmem c q →
        (sys_fork_step K f i t).1.pageinfo q = t.pageinfo q ∧
          (sys_fork_step K f i t).1.physmem q = t.physmem q ∧
          ¬ IsNode (sys_fork_step K f i t).1.physmem c q) ∧
      ((sys_fork_step K f i t).2 = false → ¬ fork_copies s proot i →
        virtual_memory_lookup (sys_fork_step K f i t).1.physmem c i =
          virtual_memory_lookup t.physmem c i) ∧
      ((sys_fork_step K f i t).2 = false →
        ∀ vam, virtual_memory_lookup s.physmem proot i = some vam →
          0 ≤ (s.pageinfo vam.pn).owner →
          vam.perm &&& (PTE_U ||| PTE_W) = (PTE_U ||| PTE_W) →
          ∃ q, virtual_memory_lookup (sys_fork_step K f i t).1.physmem c i =
                some { pn := q, pa := PAGEADDRESS q, perm := vam.perm } ∧
            q < NPAGES K ∧ (t.pageinfo q).refcount = 0 ∧
            (sys_fork_step K f i t).1.pageinfo q = { owner := owner, refcount := 1 } ∧
            ¬ IsNode (sys_fork_step K f i t).1.physmem c q ∧
            (sys_fork_step K f i t).1.physmem q = s.physmem vam.pn) ∧
      ((sys_fork_step K f i t).2 = true →
        (∀ va', virtual_memory_lookup (sys_fork_step K f i t).1.physmem c va' =
          virtual_memory_lookup t.physmem c va') ∧
        fork_copies s proot i ∧ ∀ pn, fork_share s proot i pn = 0) := by
    intro hst hshare hnc
    rw [hst]
    refine ⟨hinv.congr_inc (fun pn => by simp only [hshare pn, add_zero]), rfl, fun _ h => h,
      fun _ _ => rfl, fun _ _ _ hn => ⟨rfl, rfl, hn⟩, fun _ _ => rfl, ?_,
      fun hc => absurd hc (by simp)⟩
    intro _ vam hvam ho hp
    exact absurd ⟨vam, hvam, ho, hp⟩ hnc
  rcases Option.eq_none_or_eq_some (virtual_memory_lookup s.physmem proot i) with
    hsrc | ⟨vam, hsrc⟩
  · apply hskip
    · simp only [sys_fork_step, hproot, hlk, hsrc]
    · intro pn
      simp only [fork_share, hsrc]
    · rintro ⟨vam, hvam, _⟩
      rw [hsrc] at hvam
      exact absurd hvam (by simp)
  · obtain ⟨hp4, hp2, hpa⟩ := virtual_memory_lookup_props s.physmem proot i vam hsrc
    by_cases hU : vam.perm &&& (PTE_U ||| PTE_W) = PTE_U ∨
        vam.perm &&& (PTE_U ||| PTE_W) = (PTE_U ||| PTE_W)
    · have hpos := huser vam hsrc hU
      obtain ⟨hincnn, hpit⟩ := hinv.2.2.2.1 vam.pn hpos
      have hownt : (t.pageinfo vam.pn).owner = (s.pageinfo vam.pn).owner := by rw [hpit]
      by_cases hown : 0 ≤ (s.pageinfo vam.pn).owner
      · have hown' : 0 ≤ (t.pageinfo vam.pn).owner := by rw [hownt]; exact hown
        rcases hU with hro | hrw
        · -- sharing
          have hst : sys_fork_step K f i t =
              (set_pageinfo t vam.pn
                { t.pageinfo vam.pn with
                  refcount := int8 ((t.pageinfo vam.pn).refcount + 1) }, false) := by
            simp only [sys_fork_step, hproot, hlk, hsrc, if_pos hown', if_pos hro]
          have hsh : ∀ pn, fork_share s proot i pn = if pn = vam.pn then 1 else 0 := by
            intro pn
            simp only [fork_share, hsrc]
            by_cases hp : pn = vam.pn
            · subst hp
              simp [hown, hro]
            · have hp' : ¬ vam.pn = pn := fun hc => hp hc.symm
              simp [hp, hp']
          have hw := hwrap vam hsrc
          rw [hsh vam.pn, if_pos rfl] at hw
          have hinv' : BuildInv K s owner c (fun pn => inc pn + fork_share s proot i pn)
              (set_pageinfo t vam.pn
                { t.pageinfo vam.pn with
                  refcount := int8 ((t.pageinfo vam.pn).refcount + 1) }) :=
            (hinv.share vam.pn hpos hw).congr_inc (fun pn => by simp only [hsh pn])
          rw [hst]
          refine ⟨hinv', rfl, ?_, fun _ _ => rfl, ?_, fun _ _ => rfl, ?_,
            fun hc => absurd hc (by simp)⟩
          · intro pn h0
            by_cases hp : pn = vam.pn
            · rw [hp] at h0
              exfalso
              obtain ⟨h1a, h1b⟩ := hinv'.2.2.2.1 vam.pn hpos
              rw [h1b] at h0
              dsimp only at h0 h1a
              omega
            · simpa [hp] using h0
          · intro q hq _ hnn
            have hp : q ≠ vam.pn := by
              intro hc
              subst hc
              exact hq hpos
            exact ⟨by simp [hp], rfl, hnn⟩
          · intro _ vam' hvam' _ hp
            rw [hsrc] at hvam'
            have := Option.some.inj hvam'
            subst this
            rw [hro] at hp
            exact absurd hp h46
        · -- copying
          have hnro : ¬ vam.perm &&& (PTE_U ||| PTE_W) = PTE_U := by
            rw [hrw]
            exact fun hc => h46 hc.symm
          have hsh : ∀ pn, fork_share s proot i pn = 0 := by
            intro pn
            simp only [fork_share, hsrc]
            simp [hnro]
          have hpn : PAGENUMBER vam.pa = vam.pn := by
            rw [hpa]
            simp only [PAGENUMBER, PAGESIZE]
            omega
          rcases find_free_page_alloc K t hinv.1 with
            ⟨h2, h1, _⟩ | ⟨fp, hfp0, hfpN, hrc, _, h2, hne, h1⟩
          · have hst : sys_fork_step K f i t = (t, true) := by
              simp only [sys_fork_step, hproot, hlk, hsrc, if_pos hown', if_neg hnro,
                if_pos hrw, h2, h1, if_true]
            rw [hst]
            exact ⟨hinv.congr_inc (fun pn => by simp only [hsh pn, add_zero]), rfl, fun _ h => h,
              fun _ _ => rfl, fun _ _ _ hn => ⟨rfl, rfl, hn⟩, fun _ _ => rfl,
              fun hc => absurd hc (by simp),
              fun _ => ⟨fun _ => rfl, ⟨vam, hsrc, hown, hrw⟩, hsh⟩⟩
          · have hne' : PAGEADDRESS fp ≠ NULL := by rw [← h2]; exact hne
            have hsrcne : vam.pn ≠ fp := by
              intro hc
              have := hinv.rc_pos vam.pn hpos
              rw [hc] at this
              omega
            obtain ⟨hm2, hs2, ht2, hl2, hnn2⟩ :=
              find_free_page_data_step K t c fp (t.physmem vam.pn) hinv.1 hinv.2.1 hfp0 hfpN hrc
            obtain ⟨hm3, hs3, ht3, hok3, hoth3, hfail3⟩ :=
              virtual_memory_map_spec K _ c i (PAGEADDRESS fp) vam.perm hs2 ht2
                (PAGEADDRESS_mod fp) hp4 hp2
            have hst : sys_fork_step K f i t =
                ((virtual_memory_map K
                  (set_page (set_page (set_pageinfo t fp
                    { owner := t.current_owner, refcount := 1 }) fp (fun _ => 0)) fp
                    (t.physmem vam.pn)) c i (PAGEADDRESS fp) PAGESIZE vam.perm true).1,
                 decide ((virtual_memory_map K
                  (set_page (set_page (set_pageinfo t fp
                    { owner := t.current_owner, refcount := 1 }) fp (fun _ => 0)) fp
                    (t.physmem vam.pn)) c i (PAGEADDRESS fp) PAGESIZE vam.perm true).2 < 0)) := by
              simp only [sys_fork_step, hproot, hlk, hsrc, if_pos hown', if_neg hnro,
                if_pos hrw, h2, h1, if_neg hne', hchild, hpn, PAGENUMBER_PAGEADDRESS]
              simp [hsrcne]
            have hm := hm2.step_trans hm3
            have hinv3 : BuildInv K s owner c (fun pn => inc pn + fork_share s proot i pn) _ :=
              (hinv.mapstep hm hs3 ht3).congr_inc (fun pn => by simp only [hsh pn, add_zero])
            obtain ⟨hout1, hout2⟩ := hm.outside
            rw [hst]
            refine ⟨hinv3, hm.1, hout1, ?_, fun q _ hq hnn => hout2 q hq hnn, ?_, ?_, ?_⟩
            · intro va' hsp
              rw [hoth3 va' hsp]
              exact hl2 va'
            · intro _ hnc
              exact absurd ⟨vam, hsrc, hown, hrw⟩ hnc
            · intro hfalse vam' hvam' _ _
              rw [hsrc] at hvam'
              have := Option.some.inj hvam'
              subst this
              have hneg : ¬ (virtual_memory_map K
                  (set_page (set_page (set_pageinfo t fp
                    { owner := t.current_owner, refcount := 1 }) fp (fun _ => 0)) fp
                    (t.physmem vam.pn)) c i (PAGEADDRESS fp) PAGESIZE vam.perm true).2 < 0 := by
                simpa using hfalse
              obtain ⟨ho1, ho2, ho3⟩ := hm3.outside.2 fp (by simp) hnn2
              refine ⟨fp, ?_, hfpN, hrc, ?_, ho3, ?_⟩
              · rw [hok3 hneg]
                congr 1
                have h1 : PAGEADDRESS fp / 4096 = fp := PAGENUMBER_PAGEADDRESS fp
                have h2 := PAGEADDRESS_mod fp
                simp only [PAGESIZE]
                rw [h1]
                simp only [vamapping.mk.injEq, true_and, and_true]
                omega
              · rw [ho1]
                simp [hinv.2.2.2.2.2.2.1]
              · rw [ho2]
                simp only [set_page_physmem, if_true]
                exact hinv.2.2.2.2.2.1 vam.pn hpos
            · intro htrue
              refine ⟨fun va' => ?_, ⟨vam, hsrc, hown, hrw⟩, hsh⟩
              have hneg : (virtual_memory_map K
                  (set_page (set_page (set_pageinfo t fp
                    { owner := t.current_owner, refcount := 1 }) fp (fun _ => 0)) fp
                    (t.physmem vam.pn)) c i (PAGEADDRESS fp) PAGESIZE vam.perm true).2 < 0 := by
                simpa using htrue
              rw [(hfail3 hneg).1 va']
              exact hl2 va'
      · have hown' : ¬ 0 ≤ (t.pageinfo vam.pn).owner := by rw [hownt]; exact hown
        apply hskip
        · simp only [sys_fork_step, hproot, hlk, hsrc, if_neg hown']
        · intro pn
          simp only [fork_share, hsrc]
          by_cases hp : vam.pn = pn
          · subst hp
            simp [hown]
          · simp [hp]
        · rintro ⟨vam', hvam', ho, _⟩
          rw [hsrc] at hvam'
          have := Option.some.inj hvam'
          subst this
          exact hown ho
    · have h1 : ¬ vam.perm &&& (PTE_U ||| PTE_W) = PTE_U := fun hc => hU (Or.inl hc)
      have h2 : ¬ vam.perm &&& (PTE_U ||| PTE_W) = (PTE_U ||| PTE_W) := fun hc => hU (Or.inr hc)
      apply hskip
      · simp only [sys_fork_step, hproot, hlk, hsrc, if_neg h1, if_neg h2]
        split <;> rfl
      · intro pn
        simp only [fork_share, hsrc]
        simp [h1]
      · rintro ⟨vam', hvam', _, hp⟩
        rw [hsrc] at hvam'
        have := Option.some.inj hvam'
        subst this
        exact h2 hp

theorem fork_share_nonneg (s : KernelState) (proot va pn : Nat) :
    0 ≤ fork_share s proot va pn := by
  simp only [fork_share]
  split
  · exact le_refl _
  · split <;> decide

theorem fork_share_le_one (s : KernelState) (proot va pn : Nat) :
    fork_share s proot va pn ≤ 1 := by
  simp only [fork_share]
  split
  · decide
  · split <;> decide

theorem fork_shares_nil (s : KernelState) (proot pn : Nat) : fork_shares s proot [] pn = 0 :=
  rfl

theorem fork_shares_cons (s : KernelState) (proot i : Nat) (l : List Nat) (pn : Nat) :
    fork_shares s proot (i :: l) pn = fork_share s proot i pn + fork_shares s proot l pn := by
  simp only [fork_shares, List.map_cons, List.sum_cons]

theorem fork_shares_nonneg (s : KernelState) (proot : Nat) (l : List Nat) (pn : Nat) :
    0 ≤ fork_shares s proot l pn := by
  induction l with
  | nil => exact le_refl _
  | cons i rest ih =>
    rw [fork_shares_cons]
    have := fork_share_nonneg s proot i pn
    omega

theorem ForkProgress.nil {K : KernelConfig} {s t0 : KernelState} {owner : Int} {c : Nat}
    (proot : Nat) {inc0 : Nat → Int} (h : BuildInv K s owner c inc0 t0) :
    ForkProgress K s owner c proot inc0 t0 [] t0 :=
  ⟨h.congr_inc (fun pn => by simp only [fork_shares_nil, add_zero]), rfl, fun _ h => h,
    fun _ _ => rfl, fun _ _ _ hn => ⟨rfl, rfl, hn⟩, fun _ hva => absurd hva (by simp),
    fun _ hva => absurd hva (by simp), fun _ hva => absurd hva (by simp)⟩

/-- Progress over `rest` after a successful iteration at `i` is progress over
`i :: rest`. -/
theorem ForkProgress.cons {K : KernelConfig} {s t0 t1 t' : KernelState} {owner : Int}
    {c proot : Nat} {inc0 : Nat → Int} {i : Nat} {rest : List Nat}
    (hinv0 : BuildInv K s owner c inc0 t0)
    (hp : t1.processes = t0.processes)
    (h3 : ∀ pn, (t1.pageinfo pn).refcount = 0 → (t0.pageinfo pn).refcount = 0)
    (h4 : ∀ va', ¬ SamePath i va' 4 →
      virtual_memory_lookup t1.physmem c va' = virtual_memory_lookup t0.physmem c va')
    (h5 : ∀ q, ¬ 0 < (s.pageinfo q).refcount → 0 < (t0.pageinfo q).refcount →
      ¬ IsNode t0.physmem c q →
      t1.pageinfo q = t0.pageinfo q ∧ t1.physmem q = t0.physmem q ∧
        ¬ IsNode t1.physmem c q)
    (h6 : ¬ fork_copies s proot i →
      virtual_memory_lookup t1.physmem c i = virtual_memory_lookup t0.physmem c i)
    (h7 : ∀ vam, virtual_memory_lookup s.physmem proot i = some vam →
      0 ≤ (s.pageinfo vam.pn).owner →
      vam.perm &&& (PTE_U ||| PTE_W) = (PTE_U ||| PTE_W) →
      ∃ q, virtual_memory_lookup t1.physmem c i =
            some { pn := q, pa := PAGEADDRESS q, perm := vam.perm } ∧
        q < NPAGES K ∧ (t0.pageinfo q).refcount = 0 ∧
        t1.pageinfo q = { owner := owner, refcount := 1 } ∧
        ¬ IsNode t1.physmem c q ∧ t1.physmem q = s.physmem vam.pn)
    (hpw : ∀ va ∈ rest, ¬ SamePath i va 4)
    (hprog : ForkProgress K s owner c proot (fun pn => inc0 pn + fork_share s proot i pn) t1
      rest t') :
    ForkProgress K s owner c proot inc0 t0 (i :: rest) t' := by
  obtain ⟨q1, q2, q3, q4, q8, q5, q6, q7⟩ := hprog
  have hkeep : virtual_memory_lookup t'.physmem c i = virtual_memory_lookup t1.physmem c i :=
    q4 i (fun va hva hsp => hpw va hva hsp.symm)
  -- the page copied at `i`, seen in the final state
  have hcopy : ∀ vam, virtual_memory_lookup s.physmem proot i = some vam →
      0 ≤ (s.pageinfo vam.pn).owner →
      vam.perm &&& (PTE_U ||| PTE_W) = (PTE_U ||| PTE_W) →
      ∃ q, virtual_memory_lookup t'.physmem c i =
            some { pn := q, pa := PAGEADDRESS q, perm := vam.perm } ∧
        q < NPAGES K ∧ (t0.pageinfo q).refcount = 0 ∧
        t'.pageinfo q = { owner := owner, refcount := 1 } ∧
        ¬ IsNode t'.physmem c q ∧ t'.physmem q = s.physmem vam.pn ∧
        (t1.pageinfo q).refcount = 1 := by
    intro vam hvam ho hperm
    obtain ⟨q, hl, hqN, hq0, hqi, hqn, hqm⟩ := h7 vam hvam ho hperm
    have hnew : ¬ 0 < (s.pageinfo q).refcount := by
      have := hinv0.rc_zero q hq0
      omega
    obtain ⟨e1, e2, e3⟩ := q8 q hnew (by rw [hqi]; exact Int.one_pos) hqn
    exact ⟨q, by rw [hkeep, hl], hqN, hq0, by rw [e1, hqi], e3, by rw [e2, hqm],
      by rw [hqi]⟩
  refine ⟨?_, q2.trans hp, fun pn h => h3 pn (q3 pn h), ?_, ?_, ?_, ?_, ?_⟩
  · exact q1.congr_inc (fun pn => by simp only [fork_shares_cons, add_assoc])
  · intro va' hva'
    rw [q4 va' (fun va hva => hva' va (List.mem_cons_of_mem _ hva))]
    exact h4 va' (hva' i (List.mem_cons_self _ _))
  · intro q hq hpos hnn
    obtain ⟨e1, e2, e3⟩ := h5 q hq hpos hnn
    obtain ⟨f1, f2, f3⟩ := q8 q hq (by rw [e1]; exact hpos) e3
    exact ⟨f1.trans e1, f2.trans e2, f3⟩
  · intro va hva hnc
    rcases List.mem_cons.mp hva with hva | hva
    · subst hva
      rw [hkeep]
      exact h6 hnc
    · rw [q5 va hva hnc]
      exact h4 va (hpw va hva)
  · intro va hva vam hvam ho hperm
    rcases List.mem_cons.mp hva with hva | hva
    · subst hva
      obtain ⟨q, e1, e2, e3, e4, e5, e6, _⟩ := hcopy vam hvam ho hperm
      exact ⟨q, e1, e2, e3, e4, e5, e6⟩
    · obtain ⟨q, e1, e2, e3, e4, e5, e6⟩ := q6 va hva vam hvam ho hperm
      exact ⟨q, e1, e2, h3 q e3, e4, e5, e6⟩
  · -- a page copied at `i` differs from the pages copied later
    have hdiff : fork_copies s proot i → ∀ va ∈ rest, fork_copies s proot va → ∀ mi mv,
        virtual_memory_lookup t'.physmem c i = some mi →
        virtual_memory_lookup t'.physmem c va = some mv → mi.pn ≠ mv.pn := by
      intro hci va hva hcv mi mv hmi hmv
      obtain ⟨vami, hvami, hoi, hpi⟩ := hci
      obtain ⟨vamv, hvamv, hov, hpv⟩ := hcv
      obtain ⟨q, e1, _, _, _, _, _, e7⟩ := hcopy vami hvami hoi hpi
      obtain ⟨q', f1, _, f3, _, _, _⟩ := q6 va hva vamv hvamv hov hpv
      rw [e1] at hmi
      rw [f1] at hmv
      rw [← Option.some.inj hmi, ← Option.some.inj hmv]
      intro hqq
      have hqq' : q = q' := hqq
      rw [hqq'] at e7
      omega
    intro va1 hva1 va2 hva2 hne hc1 hc2 m1 m2 hm1 hm2
    rcases List.mem_cons.mp hva1 with h1 | h1
    · rcases List.mem_cons.mp hva2 with h2 | h2
      · exact absurd (h1.trans h2.symm) hne
      · subst h1
        exact hdiff hc1 va2 h2 hc2 m1 m2 hm1 hm2
    · rcases List.mem_cons.mp hva2 with h2 | h2
      · subst h2
        exact (hdiff hc2 va1 h1 hc1 m2 m1 hm2 hm1).symm
      · exact q7 va1 h1 va2 h2 hne hc1 hc2 m1 m2 hm1 hm2

/-- The loop of `INT_SYS_FORK` over a list of page-aligned addresses with pairwise
distinct paths.  If the loop runs to its end, it has made progress over the whole list;
if it returns early at `i`, it has made progress over the addresses before `i`, `i` is an
address to be copied, and the result is the rollback of the state reached. -/
theorem sys_fork_loop_spec (K : KernelConfig) (s : KernelState) (proot c : Nat)
    (owner : Int) (f : Nat) :
    ∀ (l : List Nat) (t0 : KernelState) (inc0 : Nat → Int),
      (∀ va ∈ l, va % 4096 = 0) → NodesReferenced s proot l →
      UserMappedReferenced s proot l →
      l.Pairwise (fun a b => ¬ SamePath a b 4) →
      (∀ va ∈ l, ∀ vam, virtual_memory_lookup s.physmem proot va = some vam →
        (s.pageinfo vam.pn).refcount + inc0 vam.pn + fork_shares s proot l vam.pn ≤ 127) →
      BuildInv K s owner c inc0 t0 →
      (t0.processes t0.current).p_pagetable = proot →
      (t0.processes f).p_pagetable = c →
      ((sys_fork_loop K f l t0).2 = none →
        ForkProgress K s owner c proot inc0 t0 l (sys_fork_loop K f l t0).1) ∧
      (∀ i, (sys_fork_loop K f l t0).2 = some i →
        ∃ l1 l2 tf, l = l1 ++ i :: l2 ∧ ForkProgress K s owner c proot inc0 t0 l1 tf ∧
          fork_copies s proot i ∧
          (sys_fork_loop K f l t0).1 =
            process_cleanup_partial K (set_reg_rax tf t0.current (uint64 (-1)))
              (t0.processes f).p_pid i) := by
  intro l
  induction l with
  | nil =>
    intro t0 inc0 _ _ _ _ _ hinv _ _
    exact ⟨fun _ => ForkProgress.nil proot hinv, fun i hi => absurd hi (by simp [sys_fork_loop])⟩
  | cons i rest ih =>
    intro t0 inc0 hal hnr hur hpw hwrap hinv hproot hchild
    have hwrap_i : ∀ vam, virtual_memory_lookup s.physmem proot i = some vam →
        (s.pageinfo vam.pn).refcount + inc0 vam.pn + fork_share s proot i vam.pn ≤ 127 := by
      intro vam hvam
      have h1 := hwrap i (List.mem_cons_self _ _) vam hvam
      rw [fork_shares_cons] at h1
      have h2 := fork_shares_nonneg s proot rest vam.pn
      omega
    obtain ⟨s1, s2, s3, s4, s5, s6, s7, s8⟩ :=
      sys_fork_step_spec K s t0 proot c owner f inc0 i hinv hproot hchild
        (hal i (List.mem_cons_self _ _)) (hnr i (List.mem_cons_self _ _))
        (hur i (List.mem_cons_self _ _)) hwrap_i
    rw [sys_fork_loop_cons]
    by_cases hfail : (sys_fork_step K f i t0).2 = true
    · rw [if_pos hfail]
      refine ⟨fun hc => absurd hc (by simp), ?_⟩
      intro j hj
      have hji : i = j := by simpa using hj
      subst hji
      obtain ⟨e1, e2, e3⟩ := s8 hfail
      refine ⟨[], rest, (sys_fork_step K f i t0).1, rfl, ?_, e2, rfl⟩
      exact ⟨s1.congr_inc (fun pn => by simp only [e3 pn, fork_shares_nil]), s2, s3,
        fun va' _ => e1 va', s5, fun _ hva => absurd hva (by simp),
        fun _ hva => absurd hva (by simp), fun _ hva => absurd hva (by simp)⟩
    · rw [if_neg hfail]
      have hfalse : (sys_fork_step K f i t0).2 = false := by
        simpa using hfail
      have hcur : (sys_fork_step K f i t0).1.current = t0.current :=
        s1.2.2.2.2.2.2.2.trans hinv.2.2.2.2.2.2.2.symm
      obtain ⟨ih1, ih2⟩ := ih (sys_fork_step K f i t0).1
        (fun pn => inc0 pn + fork_share s proot i pn)
        (fun va hva => hal va (List.mem_cons_of_mem _ hva))
        (fun va hva => hnr va (List.mem_cons_of_mem _ hva))
        (fun va hva => hur va (List.mem_cons_of_mem _ hva))
        (List.pairwise_cons.mp hpw).2
        (fun va hva vam hvam => by
          have h1 := hwrap va (List.mem_cons_of_mem _ hva) vam hvam
          rw [fork_shares_cons] at h1
          show (s.pageinfo vam.pn).refcount + (inc0 vam.pn + fork_share s proot i vam.pn) +
            fork_shares s proot rest vam.pn ≤ 127
          omega)
        s1 (by rw [hcur, s2]; exact hproot) (by rw [s2]; exact hchild)
      have hpwi := (List.pairwise_cons.mp hpw).1
      refine ⟨fun hnone => ForkProgress.cons hinv s2 s3 s4 s5 (s6 hfalse) (s7 hfalse) hpwi
        (ih1 hnone), ?_⟩
      intro j hj
      obtain ⟨l1, l2, tf, hl, hprog, hcj, hres⟩ := ih2 j hj
      refine ⟨i :: l1, l2, tf, by rw [hl]; rfl, ?_, hcj, ?_⟩
      · exact ForkProgress.cons hinv s2 s3 s4 s5 (s6 hfalse) (s7 hfalse)
          (fun va hva => hpwi va (by rw [hl]; exact List.mem_append_left _ hva)) hprog
      · rw [hres, hcur, s2]

/-! ## The fork system call -/

theorem sys_fork_find_slot_spec (K : KernelConfig) (s : KernelState) :
    ∀ fuel start : Nat,
      start ≤ sys_fork_find_slot K s fuel start ∧
      sys_fork_find_slot K s fuel start ≤ start + fuel ∧
      (∀ j, start ≤ j → j < sys_fork_find_slot K s fuel start →
        (s.processes j).p_state ≠ procstate.P_FREE ∧ j < K.NPROC) ∧
      (sys_fork_find_slot K s fuel start < start + fuel →
        ¬ ((s.processes (sys_fork_find_slot K s fuel start)).p_state ≠ procstate.P_FREE ∧
            sys_fork_find_slot K s fuel start < K.NPROC)) := by
  intro fuel
  induction fuel with
  | zero =>
    intro start
    simp only [sys_fork_find_slot]
    refine ⟨le_refl _, by omega, ?_, by omega⟩
    intro j h1 h2
    omega
  | succ n ih =>
    intro start
    simp only [sys_fork_find_slot]
    by_cases hc : (s.processes start).p_state ≠ procstate.P_FREE ∧ start < K.NPROC
    · rw [if_pos hc]
      obtain ⟨h1, h2, h3, h4⟩ := ih (start + 1)
      refine ⟨by omega, by omega, ?_, ?_⟩
      · intro j hj1 hj2
        by_cases hjs : j = start
        · subst hjs
          exact hc
        · exact h3 j (by omega) hj2
      · intro hlt
        exact h4 (by omega)
    · rw [if_neg hc]
      refine ⟨le_refl _, by omega, ?_, ?_⟩
      · intro j hj1 hj2
        omega
      · intro _
        exact hc

/-- The slot search of `fork` stops within its fuel: it returns the lowest slot from 1 on
that is free, or a value of at least `NPROC` when there is none. -/
theorem sys_fork_find_slot_result (K : KernelConfig) (s : KernelState) :
    1 ≤ sys_fork_find_slot K s K.NPROC 1 ∧
      (∀ j, 1 ≤ j → j < sys_fork_find_slot K s K.NPROC 1 →
        (s.processes j).p_state ≠ procstate.P_FREE ∧ j < K.NPROC) ∧
      (sys_fork_find_slot K s K.NPROC 1 < K.NPROC →
        (s.processes (sys_fork_find_slot K s K.NPROC 1)).p_state = procstate.P_FREE) := by
  obtain ⟨h1, h2, h3, h4⟩ := sys_fork_find_slot_spec K s K.NPROC 1
  refine ⟨h1, h3, ?_⟩
  intro hlt
  have := h4 (by omega)
  by_contra hcon
  exact this ⟨hcon, hlt⟩

theorem int8_natCast (n : Nat) (h : n < 128) : int8 (n : Int) = n := by
  simp only [int8]
  omega

/-- The state in which the loop of `fork` starts, when the clone of the parent's page
table succeeded. -/
theorem sys_fork_clone_spec (K : KernelConfig) (s : KernelState) (f : Nat)
    (hready : ForkReady K s) (hf : f < K.NPROC) (hfp : f ≠ s.current)
    (hne : ((sys_fork_clone K s f).processes f).p_pagetable ≠ NULL) :
    BuildInv K s f ((sys_fork_clone K s f).processes f).p_pagetable (fun _ => 0)
        (sys_fork_clone K s f) ∧
      ((sys_fork_clone K s f).processes (sys_fork_clone K s f).current).p_pagetable =
        (s.processes s.current).p_pagetable ∧
      (sys_fork_clone K s f).processes s.current = s.processes s.current ∧
      (sys_fork_clone K s f).processes f =
        { s.processes f with
          p_state := procstate.P_RUNNABLE,
          p_pagetable := ((sys_fork_clone K s f).processes f).p_pagetable } ∧
      (∀ j, j ≠ f → (sys_fork_clone K s f).processes j = s.processes j) ∧
      (∀ va ∈ page_addresses 0 K.MEMSIZE_VIRTUAL,
        virtual_memory_lookup (sys_fork_clone K s f).physmem
            ((sys_fork_clone K s f).processes f).p_pagetable va =
          virtual_memory_lookup s.physmem (s.processes s.current).p_pagetable va) := by
  obtain ⟨hsane, hmv, hnp, hnr, _, _, hpid, _⟩ := hready
  have hpidf : int8 (s.processes f).p_pid = (f : Int) := by
    rw [hpid f hf]
    exact int8_natCast f (by omega)
  have hproot : ((set_p_state s f procstate.P_RUNNABLE).processes s.current).p_pagetable =
      (s.processes s.current).p_pagetable := by
    simp only [set_p_state, set_proc_processes]
    split
    · rename_i h
      rw [h]
    · rfl
  have hclone : sys_fork_clone K s f =
      set_p_pagetable
        (copy_pagetable K (set_p_state s f procstate.P_RUNNABLE)
          (s.processes s.current).p_pagetable f).1 f
        (copy_pagetable K (set_p_state s f procstate.P_RUNNABLE)
          (s.processes s.current).p_pagetable f).2 := by
    simp only [sys_fork_clone, hproot, hpidf]
  obtain ⟨c1, c2, c3, c4, c5, c6, c7⟩ :=
    copy_pagetable_spec K (set_p_state s f procstate.P_RUNNABLE)
      (s.processes s.current).p_pagetable f hsane hmv hnr
  have hroot : ((sys_fork_clone K s f).processes f).p_pagetable =
      (copy_pagetable K (set_p_state s f procstate.P_RUNNABLE)
          (s.processes s.current).p_pagetable f).2 := by
    rw [hclone]
    simp [set_p_pagetable]
  rw [hroot] at hne ⊢
  obtain ⟨hinv, _, _, _, _, hlook⟩ := c7 hne
  rw [hclone]
  have hcur : (copy_pagetable K (set_p_state s f procstate.P_RUNNABLE)
      (s.processes s.current).p_pagetable f).1.current = s.current := c2
  have hps : ∀ j, (copy_pagetable K (set_p_state s f procstate.P_RUNNABLE)
      (s.processes s.current).p_pagetable f).1.processes j =
        if j = f then { s.processes f with p_state := procstate.P_RUNNABLE }
        else s.processes j := by
    intro j
    rw [c1]
    simp only [set_p_state, set_proc_processes]
  refine ⟨hinv, ?_, ?_, ?_, ?_, hlook⟩
  · simp only [set_p_pagetable, set_proc_current, set_proc_processes, hcur, hps,
      if_neg hfp.symm]
  · simp only [set_p_pagetable, set_proc_processes, hps, if_neg hfp.symm]
  · simp only [set_p_pagetable, set_proc_processes, hps, if_true]
  · intro j hj
    simp only [set_p_pagetable, set_proc_processes, hps, if_neg hj]

theorem sys_fork_finish_fields (t : KernelState) (f : Nat) (hfp : f ≠ t.current) :
    (sys_fork_finish t f).pageinfo = t.pageinfo ∧
      (sys_fork_finish t f).physmem = t.physmem ∧
      (sys_fork_finish t f).current = t.current ∧
      (sys_fork_finish t f).processes f =
        { t.processes f with
          p_registers := { (t.processes t.current).p_registers with reg_rax := 0 } } ∧
      (sys_fork_finish t f).processes t.current =
        { t.processes t.current with
          p_registers :=
            { (t.processes t.current).p_registers with
              reg_rax := uint64 (t.processes f).p_pid } } ∧
      (∀ j, j ≠ f → j ≠ t.current → (sys_fork_finish t f).processes j = t.processes j) := by
  refine ⟨rfl, rfl, rfl, ?_, ?_, ?_⟩
  · simp [sys_fork_finish, set_reg_rax, hfp, hfp.symm]
  · simp [sys_fork_finish, set_reg_rax, hfp, hfp.symm]
  · intro j h1 h2
    simp [sys_fork_finish, set_reg_rax, h1, h2]

/-- A successful `fork` from a state in which `fork` can be analysed. -/
theorem sys_fork_forked_spec (K : KernelConfig) (s s' : KernelState) (child : Nat)
    (hready : ForkReady K s) (hfork : sys_fork K s = (s', fork_outcome.forked child)) :
    ForkedState K s s' child := by
  obtain ⟨hf1, _, hffree⟩ := sys_fork_find_slot_result K s
  have hready' := hready
  obtain ⟨hsane, hmv, hnp, hnr, hur, hno, hpid, hcurstate⟩ := hready'
  simp only [sys_fork] at hfork
  by_cases h1 : K.NPROC ≤ sys_fork_find_slot K s K.NPROC 1
  · rw [if_pos h1] at hfork
    exact absurd (Prod.mk.inj hfork).2 (by simp)
  rw [if_neg h1] at hfork
  by_cases h2 : ((sys_fork_clone K s (sys_fork_find_slot K s K.NPROC 1)).processes
      (sys_fork_find_slot K s K.NPROC 1)).p_pagetable = NULL
  · rw [if_pos h2] at hfork
    exact absurd (Prod.mk.inj hfork).2 (by simp)
  rw [if_neg h2] at hfork
  have hflt : sys_fork_find_slot K s K.NPROC 1 < K.NPROC := by omega
  have hfree := hffree hflt
  have hfp : sys_fork_find_slot K s K.NPROC 1 ≠ s.current := by
    intro hc
    rw [hc] at hfree
    exact hcurstate hfree
  obtain ⟨hinv, hproot, hpcur, hpf, hpoth, hlookc⟩ :=
    sys_fork_clone_spec K s _ hready hflt hfp h2
  obtain ⟨hsucc, _⟩ := sys_fork_loop_spec K s (s.processes s.current).p_pagetable
    ((sys_fork_clone K s (sys_fork_find_slot K s K.NPROC 1)).processes
      (sys_fork_find_slot K s K.NPROC 1)).p_pagetable
    (sys_fork_find_slot K s K.NPROC 1) (sys_fork_find_slot K s K.NPROC 1)
    (page_addresses 0 K.MEMSIZE_VIRTUAL)
    (sys_fork_clone K s (sys_fork_find_slot K s K.NPROC 1)) (fun _ => 0)
    (fun va hva => (page_addresses_zero_mem _ va hva).1) hnr hur
    (page_addresses_pairwise _ hmv)
    (fun va hva vam hvam => by
      have := hno va hva vam hvam
      simpa using this)
    hinv hproot rfl
  split at hfork
  · exact absurd (Prod.mk.inj hfork).2 (by simp)
  · rename_i hnone
    obtain ⟨hs', hchild⟩ := Prod.mk.inj hfork
    have hchild' : sys_fork_find_slot K s K.NPROC 1 = child := by
      simpa using hchild
    obtain ⟨q1, q2, q3, q4, q8, q5, q6, q7⟩ := hsucc hnone
    rw [hchild'] at hs' q1 q2 q3 q4 q8 q5 q6 q7 hfp hfree hflt hf1 hinv hproot hpcur hpf hpoth hlookc h2
    have hcur' : (sys_fork_loop K child (page_addresses 0 K.MEMSIZE_VIRTUAL)
        (sys_fork_clone K s child)).1.current = s.current := q1.2.2.2.2.2.2.2
    have hfp' : child ≠ (sys_fork_loop K child (page_addresses 0 K.MEMSIZE_VIRTUAL)
        (sys_fork_clone K s child)).1.current := by rw [hcur']; exact hfp
    obtain ⟨e1, e2, e3, e4, e5, e6⟩ := sys_fork_finish_fields _ child hfp'
    rw [hs'] at e1 e2 e3 e4 e5 e6
    rw [hcur'] at e4 e5 e6
    rw [q2] at e4 e5 e6
    have hptc : (s'.processes child).p_pagetable =
        ((sys_fork_clone K s child).processes child).p_pagetable := by
      rw [e4]
    have hpidc : (s.processes child).p_pid = child := hpid child hflt
    rw [← hptc] at q1 q4 q5 q6 q7 hlookc hinv
    refine ⟨hf1, hflt, hfp, hfree, e3.trans hcur', ?_, ?_, ?_, ?_, ?_, ?_, ?_, ?_, ?_, ?_⟩
    · rw [e4, hpcur, hpf]
      simp [hpidc]
    · rw [e5, hpcur, hpf]
      simp [hpidc]
    · intro j hj1 hj2
      rw [e6 j hj1 hj2]
      exact hpoth j hj1
    · rw [hptc]
      exact h2
    · intro pn hpos
      rw [e1, e2]
      obtain ⟨_, hpi⟩ := q1.2.2.2.1 pn hpos
      refine ⟨?_, q1.2.2.2.2.2.1 pn hpos⟩
      rw [hpi]
      simp
    · intro pn hpos
      rw [e1]
      exact q1.2.2.2.2.1 pn hpos
    · intro va hva
      rw [e2]
      exact q1.lookup_stable _ va (hnr va hva)
    · intro va hva hnc
      rw [e2, q5 va hva hnc]
      exact hlookc va hva
    · intro va hva vam hvam ho hperm
      obtain ⟨q, f1, f2, f3, f4, _, f6⟩ := q6 va hva vam hvam ho hperm
      refine ⟨q, by rw [e2]; exact f1, f2, hinv.rc_zero q f3, by rw [e1]; exact f4,
        by rw [e2]; exact f6⟩
    · intro va1 hva1 va2 hva2 hne hc1 hc2 m1 m2 hm1 hm2
      rw [e2] at hm1 hm2
      exact q7 va1 hva1 va2 hva2 hne hc1 hc2 m1 m2 hm1 hm2

/-! ## The process table during `fork` -/

theorem find_free_page_frame (K : KernelConfig) (s : KernelState) :
    (find_free_page K s).1.processes = s.processes ∧
      (find_free_page K s).1.current = s.current ∧
      (find_free_page K s).1.current_owner = s.current_owner := by
  simp only [find_free_page]
  split <;> exact ⟨rfl, rfl, rfl⟩

theorem pt_next_alloc_frame (K : KernelConfig) (s : KernelState) (pt va perm l : Nat)
    (a : Bool) :
    (pt_next_alloc K s pt va perm l a).1.processes = s.processes ∧
      (pt_next_alloc K s pt va perm l a).1.current = s.current := by
  obtain ⟨h1, h2, _⟩ := find_free_page_frame K s
  simp only [pt_next_alloc]
  split
  · exact ⟨rfl, rfl⟩
  · split
    · exact ⟨rfl, rfl⟩
    · split
      · exact ⟨h1, h2⟩
      · exact ⟨h1, h2⟩

theorem lookup_l4pagetable_frame (K : KernelConfig) (s : KernelState) (r va perm : Nat)
    (a : Bool) :
    (lookup_l4pagetable K s r va perm a).1.processes = s.processes ∧
      (lookup_l4pagetable K s r va perm a).1.current = s.current := by
  obtain ⟨h0, g0⟩ := pt_next_alloc_frame K s r va perm 0 a
  rcases hres0 : pt_next_alloc K s r va perm 0 a with ⟨s1, o1⟩
  rw [hres0] at h0 g0
  cases o1 with
  | none =>
    simp only [lookup_l4pagetable, hres0]
    exact ⟨h0, g0⟩
  | some l2 =>
    obtain ⟨h1, g1⟩ := pt_next_alloc_frame K s1 l2 va perm 1 a
    rcases hres1 : pt_next_alloc K s1 l2 va perm 1 a with ⟨s2, o2⟩
    rw [hres1] at h1 g1
    cases o2 with
    | none =>
      simp only [lookup_l4pagetable, hres0, hres1]
      exact ⟨h1.trans h0, g1.trans g0⟩
    | some l3 =>
      obtain ⟨h2, g2⟩ := pt_next_alloc_frame K s2 l3 va perm 2 a
      simp only [lookup_l4pagetable, hres0, hres1]
      exact ⟨(h2.trans h1).trans h0, (g2.trans g1).trans g0⟩

theorem virtual_memory_map_page_frame (K : KernelConfig) (s : KernelState)
    (r va pa perm : Nat) (a : Bool) :
    (virtual_memory_map_page K s r va pa perm a).1.processes = s.processes ∧
      (virtual_memory_map_page K s r va pa perm a).1.current = s.current := by
  obtain ⟨h, g⟩ := lookup_l4pagetable_frame K s r va perm a
  rcases hres : lookup_l4pagetable K s r va perm a with ⟨s1, o⟩
  rw [hres] at h g
  cases o with
  | none =>
    simp only [virtual_memory_map_page, hres]
    split <;> exact ⟨h, g⟩
  | some l4 =>
    simp only [virtual_memory_map_page, hres]
    exact ⟨h, g⟩

theorem virtual_memory_map_frame (K : KernelConfig) (s : KernelState)
    (r va pa perm : Nat) (a : Bool) :
    (virtual_memory_map K s r va pa PAGESIZE perm a).1.processes = s.processes ∧
      (virtual_memory_map K s r va pa PAGESIZE perm a).1.current = s.current := by
  rw [virtual_memory_map_single]
  exact virtual_memory_map_page_frame K s r va pa perm a

theorem copy_pagetable_loop_frame (K : KernelConfig) (proot c : Nat) :
    ∀ (l : List Nat) (t : KernelState),
      (copy_pagetable_loop K proot c l t).1.processes = t.processes ∧
        (copy_pagetable_loop K proot c l t).1.current = t.current := by
  intro l
  induction l with
  | nil => intro t; exact ⟨rfl, rfl⟩
  | cons va rest ih =>
    intro t
    simp only [copy_pagetable_loop]
    split
    · exact ih t
    · rename_i vam _
      obtain ⟨h, g⟩ := virtual_memory_map_frame K t c va vam.pa vam.perm true
      split
      · exact ⟨h, g⟩
      · obtain ⟨h', g'⟩ := ih (virtual_memory_map K t c va vam.pa PAGESIZE vam.perm true).1
        exact ⟨h'.trans h, g'.trans g⟩

theorem copy_pagetable_frame (K : KernelConfig) (s : KernelState) (proot : Nat)
    (owner : Int) :
    (copy_pagetable K s proot owner).1.processes = s.processes ∧
      (copy_pagetable K s proot owner).1.current = s.current := by
  obtain ⟨h, g, _⟩ := find_free_page_frame K { s with current_owner := owner }
  simp only [copy_pagetable]
  split
  · exact ⟨h, g⟩
  · obtain ⟨h', g'⟩ := copy_pagetable_loop_frame K proot
      (find_free_page K { s with current_owner := owner }).2
      (page_addresses 0 K.MEMSIZE_VIRTUAL) (find_free_page K { s with current_owner := owner }).1
    split
    · exact ⟨h'.trans h, g'.trans g⟩
    · exact ⟨h'.trans h, g'.trans g⟩

theorem sys_fork_step_frame (K : KernelConfig) (f i : Nat) (t : KernelState) :
    (sys_fork_step K f i t).1.processes = t.processes ∧
      (sys_fork_step K f i t).1.current = t.current := by
  obtain ⟨h, g, _⟩ := find_free_page_frame K t
  simp only [sys_fork_step]
  split
  · exact ⟨rfl, rfl⟩
  · split
    · split
      · exact ⟨rfl, rfl⟩
      · split
        · split
          · exact ⟨h, g⟩
          · rename_i vam _ _ _ _ _
            obtain ⟨h', g'⟩ := virtual_memory_map_frame K
              (set_page (find_free_page K t).1 (PAGENUMBER (find_free_page K t).2)
                ((find_free_page K t).1.physmem (PAGENUMBER vam.pa)))
              (t.processes f).p_pagetable i (find_free_page K t).2 vam.perm true
            exact ⟨h'.trans h, g'.trans g⟩
        · exact ⟨rfl, rfl⟩
    · exact ⟨rfl, rfl⟩

theorem sys_fork_loop_frame (K : KernelConfig) (f : Nat) :
    ∀ (l : List Nat) (t : KernelState), (sys_fork_loop K f l t).2 = none →
      (sys_fork_loop K f l t).1.processes = t.processes ∧
        (sys_fork_loop K f l t).1.current = t.current := by
  intro l
  induction l with
  | nil => intro t _; exact ⟨rfl, rfl⟩
  | cons i rest ih =>
    intro t hnone
    rw [sys_fork_loop_cons] at hnone ⊢
    obtain ⟨h, g⟩ := sys_fork_step_frame K f i t
    by_cases hfail : (sys_fork_step K f i t).2 = true
    · rw [if_pos hfail] at hnone
      exact absurd hnone (by simp)
    · rw [if_neg hfail] at hnone ⊢
      obtain ⟨h', g'⟩ := ih _ hnone
      exact ⟨h'.trans h, g'.trans g⟩

theorem uint64_natCast (n : Nat) (h : n < 2 ^ 64) : uint64 (n : Int) = n := by
  simp only [uint64]
  omega

/-- C9. Fork return values: when a process that is not in a free slot forks successfully
(every descriptor carrying its index as pid), the child slot is runnable, the child's
saved registers equal the snapshot taken at the trap except that the return-value register
is 0, the parent's registers equal the snapshot except that the return-value register is
the child's pid, and that pid is at least 1 and different from the parent's pid. -/
theorem sys_fork_return_values (K : KernelConfig) (s : KernelState)
    (reg : x86_64_registers) (s' : KernelState) (child : Nat)
    (hnproc : K.NPROC ≤ 2 ^ 31) (hcur : s.current < K.NPROC)
    (hstate : (s.processes s.current).p_state ≠ procstate.P_FREE)
    (hpid : ∀ i, i < K.NPROC → (s.processes i).p_pid = i)
    (hfork : sys_fork K (exception_save s reg) = (s', fork_outcome.forked child)) :
    (s'.processes child).p_state = procstate.P_RUNNABLE ∧
      (s'.processes child).p_registers = { reg with reg_rax := 0 } ∧
      (s'.processes s.current).p_registers = { reg with reg_rax := child } ∧
      (s'.processes child).p_pid = child ∧ 1 ≤ child ∧ child < K.NPROC ∧
      (s'.processes child).p_pid ≠ (s'.processes s.current).p_pid := by
  obtain ⟨hf1, _, hffree⟩ := sys_fork_find_slot_result K (exception_save s reg)
  have hecur : (exception_save s reg).current = s.current := rfl
  have hepc : (exception_save s reg).processes s.current =
      { s.processes s.current with p_registers := reg } := by
    simp [exception_save]
  have hepo : ∀ j, j ≠ s.current → (exception_save s reg).processes j = s.processes j := by
    intro j hj
    simp [exception_save, hj]
  simp only [sys_fork] at hfork
  by_cases h1 : K.NPROC ≤ sys_fork_find_slot K (exception_save s reg) K.NPROC 1
  · rw [if_pos h1] at hfork
    exact absurd (Prod.mk.inj hfork).2 (by simp)
  rw [if_neg h1] at hfork
  by_cases h2 : ((sys_fork_clone K (exception_save s reg)
      (sys_fork_find_slot K (exception_save s reg) K.NPROC 1)).processes
      (sys_fork_find_slot K (exception_save s reg) K.NPROC 1)).p_pagetable = NULL
  · rw [if_pos h2] at hfork
    exact absurd (Prod.mk.inj hfork).2 (by simp)
  rw [if_neg h2] at hfork
  split at hfork
  · exact absurd (Prod.mk.inj hfork).2 (by simp)
  · rename_i hnone
    obtain ⟨hs', hchild⟩ := Prod.mk.inj hfork
    have hchild' : sys_fork_find_slot K (exception_save s reg) K.NPROC 1 = child := by
      simpa using hchild
    rw [hchild'] at hs' hnone hf1 hffree h1
    have hflt : child < K.NPROC := by omega
    have hfree := hffree hflt
    have hfp : child ≠ s.current := by
      intro hc
      rw [hc, hepc] at hfree
      exact hstate hfree
    obtain ⟨l1, l2⟩ := sys_fork_loop_frame K child (page_addresses 0 K.MEMSIZE_VIRTUAL)
      (sys_fork_clone K (exception_save s reg) child) hnone
    obtain ⟨c1, c2⟩ := copy_pagetable_frame K
      (set_p_state (exception_save s reg) child procstate.P_RUNNABLE)
      ((set_p_state (exception_save s reg) child procstate.P_RUNNABLE).processes
        (exception_save s reg).current).p_pagetable
      (int8 ((exception_save s reg).processes child).p_pid)
    have hclonep : ∀ j, (sys_fork_clone K (exception_save s reg) child).processes j =
        if j = child then
          { (exception_save s reg).processes child with
            p_state := procstate.P_RUNNABLE,
            p_pagetable := ((sys_fork_clone K (exception_save s reg) child).processes
              child).p_pagetable }
        else (exception_save s reg).processes j := by
      intro j
      simp only [sys_fork_clone, set_p_pagetable, set_proc_processes, c1]
      simp only [set_p_state, set_proc_processes]
      split <;> simp
    have hclonec : (sys_fork_clone K (exception_save s reg) child).current = s.current := by
      simp only [sys_fork_clone, set_p_pagetable, set_proc_current, c2]
      rfl
    have hcur' : (sys_fork_loop K child (page_addresses 0 K.MEMSIZE_VIRTUAL)
        (sys_fork_clone K (exception_save s reg) child)).1.current = s.current :=
      l2.trans hclonec
    have hfp' : child ≠ (sys_fork_loop K child (page_addresses 0 K.MEMSIZE_VIRTUAL)
        (sys_fork_clone K (exception_save s reg) child)).1.current := by
      rw [hcur']; exact hfp
    obtain ⟨_, _, _, e4, e5, _⟩ := sys_fork_finish_fields _ child hfp'
    rw [hs'] at e4 e5
    rw [hcur'] at e4 e5
    rw [l1] at e4 e5
    rw [hclonep] at e4 e5
    rw [hclonep child, if_pos rfl] at e5
    rw [if_pos rfl, hclonep s.current, if_neg hfp.symm, hepc] at e4
    rw [if_neg hfp.symm, hepc] at e5
    rw [hepo child hfp] at e4 e5
    have hpc : (s.processes child).p_pid = child := hpid child hflt
    have hps : (s.processes s.current).p_pid = s.current := hpid s.current hcur
    refine ⟨by rw [e4], by rw [e4], ?_, by rw [e4]; exact hpc, hf1, hflt, ?_⟩
    · rw [e5]
      simp only [hpc]
      rw [uint64_natCast child (by
        have : (2 : Nat) ^ 31 < 2 ^ 64 := by norm_num
        omega)]
    · rw [e4, e5]
      simp only [hpc, hps]
      intro hc
      exact hfp (by exact_mod_cast hc)

/-! ## Fork: sharing and copying -/

theorem page_addresses_nodup (lo hi : Nat) : (page_addresses lo hi).Nodup := by
  simp only [page_addresses, List.Nodup]
  rw [List.pairwise_map]
  refine (List.pairwise_lt_range _).imp ?_
  intro a b hab
  simp only [PAGESIZE]
  omega

theorem fork_shares_eq_zero (s : KernelState) (proot : Nat) (l : List Nat) (pn : Nat)
    (h : ∀ va ∈ l, fork_share s proot va pn = 0) : fork_shares s proot l pn = 0 := by
  induction l with
  | nil => rfl
  | cons i rest ih =>
    rw [fork_shares_cons, h i (List.mem_cons_self _ _),
      ih (fun va hva => h va (List.mem_cons_of_mem _ hva))]
    rfl

theorem fork_shares_eq_one (s : KernelState) (proot : Nat) (l : List Nat) (pn va : Nat)
    (hnd : l.Nodup) (hva : va ∈ l) (h1 : fork_share s proot va pn = 1)
    (h0 : ∀ va' ∈ l, va' ≠ va → fork_share s proot va' pn = 0) :
    fork_shares s proot l pn = 1 := by
  induction l with
  | nil => exact absurd hva (by simp)
  | cons i rest ih =>
    rw [fork_shares_cons]
    have hnd' := List.nodup_cons.mp hnd
    by_cases hi : i = va
    · subst hi
      rw [h1, fork_shares_eq_zero s proot rest pn
        (fun va' hva' => h0 va' (List.mem_cons_of_mem _ hva')
          (fun hc => hnd'.1 (hc ▸ hva')))]
      rfl
    · have hva' : va ∈ rest := by
        rcases List.mem_cons.mp hva with h | h
        · exact absurd h.symm hi
        · exact h
      rw [h0 i (List.mem_cons_self _ _) hi,
        ih hnd'.2 hva' (fun va' hva'' => h0 va' (List.mem_cons_of_mem _ hva''))]
      rfl

/-- C7, as amended.  In a state in which `fork` can be analysed, after a successful fork,
for every page-aligned address below `MEMSIZE_VIRTUAL` that the parent maps
user-accessible and writable to a page whose owner is not negative, the child maps that
address with the same permissions to a page `q` that was free before the fork, differs
from every page the parent maps user-accessible and from the child's other copies, has
owner `child` and reference count 1 and holds the contents of the parent's page.  The
parent's mapping, the contents and the owner of its page are unchanged, and so is the
page's reference count unless the parent also maps the page read-only. -/
theorem sys_fork_copies_writable (K : KernelConfig) (s s' : KernelState) (child : Nat)
    (hready : ForkReady K s) (hfork : sys_fork K s = (s', fork_outcome.forked child))
    (va : Nat) (hva : va ∈ page_addresses 0 K.MEMSIZE_VIRTUAL) (vam : vamapping)
    (hmap : virtual_memory_lookup s.physmem (s.processes s.current).p_pagetable va = some vam)
    (hrw : vam.perm &&& (PTE_U ||| PTE_W) = (PTE_U ||| PTE_W))
    (hown : 0 ≤ (s.pageinfo vam.pn).owner) :
    ∃ q, virtual_memory_lookup s'.physmem (s'.processes child).p_pagetable va =
          some { pn := q, pa := PAGEADDRESS q, perm := vam.perm } ∧
      q < NPAGES K ∧ (s.pageinfo q).refcount = 0 ∧
      (∀ va' ∈ page_addresses 0 K.MEMSIZE_VIRTUAL, ∀ vam',
        virtual_memory_lookup s.physmem (s.processes s.current).p_pagetable va' = some vam' →
        (vam'.perm &&& (PTE_U ||| PTE_W) = PTE_U ∨
          vam'.perm &&& (PTE_U ||| PTE_W) = (PTE_U ||| PTE_W)) → vam'.pn ≠ q) ∧
      (∀ va' ∈ page_addresses 0 K.MEMSIZE_VIRTUAL, va' ≠ va →
        fork_copies s (s.processes s.current).p_pagetable va' → ∀ m',
        virtual_memory_lookup s'.physmem (s'.processes child).p_pagetable va' = some m' →
        m'.pn ≠ q) ∧
      s'.pageinfo q = { owner := child, refcount := 1 } ∧
      s'.physmem q = s.physmem vam.pn ∧
      s'.physmem vam.pn = s.physmem vam.pn ∧
      virtual_memory_lookup s'.physmem (s.processes s.current).p_pagetable va = some vam ∧
      (s'.pageinfo vam.pn).owner = (s.pageinfo vam.pn).owner ∧
      (s'.pageinfo vam.pn).refcount =
        (s.pageinfo vam.pn).refcount +
          fork_shares s (s.processes s.current).p_pagetable
            (page_addresses 0 K.MEMSIZE_VIRTUAL) vam.pn ∧
      ((∀ va' ∈ page_addresses 0 K.MEMSIZE_VIRTUAL,
          fork_share s (s.processes s.current).p_pagetable va' vam.pn = 0) →
        s'.pageinfo vam.pn = s.pageinfo vam.pn) := by
  obtain ⟨_, _, _, _, _, _, _, _, _, hold, _, hparent, _, hcopy, hdist⟩ :=
    sys_fork_forked_spec K s s' child hready hfork
  have hpos : 0 < (s.pageinfo vam.pn).refcount :=
    hready.2.2.2.2.1 va hva vam hmap (Or.inr hrw)
  obtain ⟨q, hq1, hq2, hq3, hq4, hq5⟩ := hcopy va hva vam hmap hown hrw
  have hpi := (hold vam.pn hpos).1
  refine ⟨q, hq1, hq2, hq3, ?_, ?_, hq4, hq5, (hold vam.pn hpos).2, ?_, by rw [hpi],
    by rw [hpi], ?_⟩
  · intro va' hva' vam' hvam' hU hc
    have := hready.2.2.2.2.1 va' hva' vam' hvam' hU
    rw [hc] at this
    omega
  · intro va' hva' hne hc' m' hm' hc
    exact hdist va' hva' va hva hne hc' ⟨vam, hmap, hown, hrw⟩ m' _ hm' hq1 hc
  · rw [hparent va hva]
    exact hmap
  · intro hz
    rw [hpi, fork_shares_eq_zero s _ _ vam.pn hz]
    simp

/-! ## The example parent -/

theorem example_parent_ready : ForkReady example_config example_parent := by
  unfold ForkReady AllocSane NodesReferenced UserMappedReferenced NoOverflow
  decide

theorem example_parent_forks :
    sys_fork example_config example_parent =
      ((sys_fork example_config example_parent).1, fork_outcome.forked 2) :=
  Prod.ext rfl (by decide)

/-- Witness for C7: the example parent maps address `0x5000` writable to page 6, which
it owns; after the fork the child maps `0x5000` to a page that was free, now belongs to
the child with reference count 1 and holds the contents of page 6. -/
theorem sys_fork_copies_writable_witness :
    ForkReady example_config example_parent ∧
      (sys_fork example_config example_parent).2 = fork_outcome.forked 2 ∧
      ∃ q, virtual_memory_lookup (sys_fork example_config example_parent).1.physmem
            (((sys_fork example_config example_parent).1.processes 2).p_pagetable) 0x5000 =
          some { pn := q, pa := PAGEADDRESS q, perm := 7 } ∧
        (example_parent.pageinfo q).refcount = 0 ∧
        (sys_fork example_config example_parent).1.pageinfo q = { owner := 2, refcount := 1 } ∧
        (sys_fork example_config example_parent).1.physmem q = example_parent.physmem 6 ∧
        (sys_fork example_config example_parent).1.pageinfo 6 = example_parent.pageinfo 6 := by
  obtain ⟨q, h1, _, h3, _, _, h6, h7, _, _, _, _, h12⟩ :=
    sys_fork_copies_writable example_config example_parent
      (sys_fork example_config example_parent).1 2 example_parent_ready example_parent_forks
      0x5000 (by decide) { pn := 6, pa := 0x6000, perm := 7 } (by decide) (by decide)
      (by decide)
  exact ⟨example_parent_ready, by decide, q, h1, h3, h6, h7, h12 (by decide)⟩

/-- Witness for C9: process 1 of the example parent traps with a register snapshot and
forks; the child is process 2. -/
theorem sys_fork_return_values_witness :
    ((sys_fork example_config (exception_save example_parent example_registers)).1.processes
        2).p_state = procstate.P_RUNNABLE ∧
      ((sys_fork example_config (exception_save example_parent example_registers)).1.processes
        2).p_registers = { example_registers with reg_rax := 0 } ∧
      ((sys_fork example_config (exception_save example_parent example_registers)).1.processes
        1).p_registers = { example_registers with reg_rax := 2 } :=
  have h := sys_fork_return_values example_config example_parent example_registers
    (sys_fork example_config (exception_save example_parent example_registers)).1 2
    (by decide) (by decide) (by decide) (by decide) (Prod.ext rfl (by decide))
  ⟨h.1, h.2.1, h.2.2.1⟩

/-! ## Fork: isolation of the copies -/

theorem perm_user_of_user_writable (perm : Nat)
    (h : perm &&& (PTE_U ||| PTE_W) = (PTE_U ||| PTE_W)) : perm &&& PTE_U ≠ 0 := by
  have h1 : perm &&& (PTE_U ||| PTE_W) &&& PTE_U = (PTE_U ||| PTE_W) &&& PTE_U := by rw [h]
  rw [Nat.and_assoc] at h1
  have h2 : (PTE_U ||| PTE_W) &&& PTE_U = PTE_U := by decide
  rw [h2] at h1
  rw [h1]
  decide

theorem release_page_pageinfo (s : KernelState) (pageNum : Nat) (pid : Int) (j : Nat) :
    (release_page s pageNum pid).pageinfo j =
      if j = pageNum then release_info pid (s.pageinfo pageNum) else s.pageinfo j := by
  by_cases hj : j = pageNum
  · rw [if_pos hj, hj]
    simp only [release_page, release_info, set_pageinfo_pageinfo, if_true]
    split <;> simp
  · rw [if_neg hj]
    exact release_page_pageinfo_ne s pageNum pid j hj

theorem page_addresses_sorted (lo hi : Nat) :
    (page_addresses lo hi).Pairwise (fun a b => a < b) := by
  simp only [page_addresses]
  rw [List.pairwise_map]
  refine (List.pairwise_lt_range _).imp ?_
  intro a b hab
  simp only [PAGESIZE]
  omega

theorem page_addresses_mem (lo hi va : Nat) (hlo : lo % 4096 = 0)
    (h : va ∈ page_addresses lo hi) : va % 4096 = 0 ∧ lo ≤ va ∧ va < hi := by
  obtain ⟨k, hk, rfl⟩ := (mem_page_addresses lo hi va).mp h
  simp only [PAGESIZE] at hk ⊢
  omega

theorem page_addresses_of (lo hi va : Nat) (hlo : lo % 4096 = 0) (h0 : va % 4096 = 0)
    (hle : lo ≤ va) (hlt : va < hi) : va ∈ page_addresses lo hi := by
  refine (mem_page_addresses lo hi va).mpr ⟨(va - lo) / 4096, ?_, ?_⟩
  · simp only [PAGESIZE]
    omega
  · simp only [PAGESIZE]
    omega

/-- The first loop of `process_cleanup_partial` releases, once for each mapped address
of its list below `vaLast`, the page mapped there. -/
theorem process_cleanup_loop_pageinfo (pid : Int) (vaLast : Nat) (pn : Nat) :
    ∀ (vs : List Nat) (w : KernelState), vs.Pairwise (fun a b => a < b) →
      (process_cleanup_loop pid vaLast vs w).pageinfo pn =
        (release_info pid)^[(released_pages w.physmem (w.processes pid.toNat).p_pagetable
          (vs.filter (fun va => decide (va < vaLast)))).count pn] (w.pageinfo pn) := by
  intro vs
  induction vs with
  | nil => intro w _; rfl
  | cons va rest ih =>
    intro w hpw
    obtain ⟨hlt, hpw'⟩ := List.pairwise_cons.mp hpw
    simp only [process_cleanup_loop]
    by_cases hbreak : vaLast ≤ va
    · rw [if_pos hbreak]
      have hnil : (va :: rest).filter (fun va => decide (va < vaLast)) = [] := by
        rw [List.filter_eq_nil_iff]
        intro a ha
        rcases List.mem_cons.mp ha with h | h
        · subst h
          simp only [decide_eq_true_eq]
          omega
        · have := hlt a h
          simp only [decide_eq_true_eq]
          omega
      rw [hnil]
      rfl
    · rw [if_neg hbreak]
      have hva : va < vaLast := by omega
      rw [List.filter_cons_of_pos (by simpa using hva)]
      rcases Option.eq_none_or_eq_some
          (virtual_memory_lookup w.physmem (w.processes pid.toNat).p_pagetable va)
        with hl | ⟨vam, hl⟩
      · simp only [hl]
        rw [ih w hpw']
        simp only [released_pages, List.filterMap_cons, hl, Option.map_none']
      · simp only [hl]
        rw [ih _ hpw']
        simp only [release_page_physmem, release_page_processes, released_pages,
          List.filterMap_cons, hl, Option.map_some']
        rw [List.count_cons, release_page_pageinfo]
        by_cases hp : pn = vam.pn
        · rw [if_pos hp, hp]
          simp only [beq_self_eq_true, if_true]
          rw [Function.iterate_succ_apply]
        · rw [if_neg hp]
          have : (vam.pn == pn) = false := by
            simpa using fun hc => hp hc.symm
          simp only [this, Bool.false_eq_true, if_false, Nat.add_zero]

/-- The owner sweep of `process_cleanup_partial` releases each page of its list that is
owned by `pid` once. -/
theorem process_cleanup_sweep_pageinfo (pid : Int) (pn : Nat) :
    ∀ (l : List Nat) (w : KernelState), l.Nodup →
      (process_cleanup_sweep pid l w).pageinfo pn =
        if pn ∈ l ∧ (w.pageinfo pn).owner = pid then release_info pid (w.pageinfo pn)
        else w.pageinfo pn := by
  intro l
  induction l with
  | nil => intro w _; simp [process_cleanup_sweep]
  | cons i rest ih =>
    intro w hnd
    obtain ⟨hi, hnd'⟩ := List.nodup_cons.mp hnd
    rw [process_cleanup_sweep_cons, ih _ hnd']
    by_cases hpi : pn = i
    · rw [hpi]
      by_cases hown : (w.pageinfo i).owner = pid
      · simp [hi, hown, release_page_pageinfo]
      · simp [hi, hown]
    · by_cases hown : (w.pageinfo i).owner = pid
      · rw [if_pos hown, release_page_pageinfo, if_neg hpi]
        simp [List.mem_cons, hpi]
      · rw [if_neg hown]
        simp [List.mem_cons, hpi]

theorem release_info_iterate (pid o r : Int) (ho : o ≠ pid) (hr : 1 ≤ r) :
    ∀ k : Nat, r + k ≤ 127 →
      (release_info pid)^[k] { owner := o, refcount := r + k } =
        { owner := o, refcount := r } := by
  intro k
  induction k with
  | zero => intro _; simp
  | succ n ih =>
    intro hb
    rw [Function.iterate_succ_apply]
    have h8 : int8 (r + ((n + 1 : Nat) : Int) - 1) = r + n := by
      rw [int8_of_range] <;> push_cast <;> omega
    have hstep : release_info pid { owner := o, refcount := r + ((n + 1 : Nat) : Int) } =
        { owner := o, refcount := r + n } := by
      simp only [release_info, h8]
      rw [if_neg]
      intro h
      rcases h with h | h
      · omega
      · exact ho h
    rw [hstep]
    exact ih (by push_cast at hb; omega)

theorem release_info_owned (pid : Int) :
    release_info pid { owner := pid, refcount := 1 } = { owner := PO_FREE, refcount := 0 } := by
  simp [release_info, int8]

theorem count_filterMap_le_one {α β : Type} [DecidableEq β] (g : α → Option β) (x : β) :
    ∀ l : List α, l.Nodup →
      (∀ a ∈ l, ∀ b ∈ l, g a = some x → g b = some x → a = b) →
      (l.filterMap g).count x ≤ 1 := by
  intro l
  induction l with
  | nil => intro _ _; simp
  | cons a rest ih =>
    intro hnd hinj
    obtain ⟨ha, hnd'⟩ := List.nodup_cons.mp hnd
    have ih' := ih hnd' (fun a' ha' b' hb' =>
      hinj a' (List.mem_cons_of_mem _ ha') b' (List.mem_cons_of_mem _ hb'))
    rcases Option.eq_none_or_eq_some (g a) with hg | ⟨b, hg⟩
    · rw [List.filterMap_cons_none hg]
      exact ih'
    · rw [List.filterMap_cons_some hg, List.count_cons]
      by_cases hbx : b = x
      · subst hbx
        have h0 : (rest.filterMap g).count b = 0 := by
          rw [List.count_eq_zero]
          intro hmem
          obtain ⟨a', ha', hga'⟩ := List.mem_filterMap.mp hmem
          have := hinj a (List.mem_cons_self _ _) a' (List.mem_cons_of_mem _ ha') hg hga'
          exact ha (this ▸ ha')
        simp [h0]
      · have : (b == x) = false := by simpa using hbx
        simp only [this, Bool.false_eq_true, if_false, Nat.add_zero]
        exact ih'

theorem count_filterMap_sum {α β : Type} [DecidableEq β] (g : α → Option β) (x : β)
    (f : α → Int) :
    ∀ l : List α, (∀ a ∈ l, f a = if g a = some x then 1 else 0) →
      (((l.filterMap g).count x : Nat) : Int) = (l.map f).sum := by
  intro l
  induction l with
  | nil => intro _; simp
  | cons a rest ih =>
    intro hf
    have ih' := ih (fun a' ha' => hf a' (List.mem_cons_of_mem _ ha'))
    have hfa := hf a (List.mem_cons_self _ _)
    rw [List.map_cons, List.sum_cons, ← ih', hfa]
    rcases Option.eq_none_or_eq_some (g a) with hg | ⟨b, hg⟩
    · rw [List.filterMap_cons_none hg, hg]
      simp
    · rw [List.filterMap_cons_some hg, List.count_cons, hg]
      by_cases hbx : b = x
      · subst hbx
        simp
        omega
      · have : (b == x) = false := by simpa using hbx
        simp [this, hbx]

theorem fork_shares_subset (s : KernelState) (proot pn : Nat) (l l' : List Nat)
    (hnd : l.Nodup) (hnd' : l'.Nodup) (hsub : ∀ va ∈ l', va ∈ l)
    (h0 : ∀ va ∈ l, va ∉ l' → fork_share s proot va pn = 0) :
    fork_shares s proot l' pn = fork_shares s proot l pn := by
  simp only [fork_shares]
  rw [← List.sum_toFinset _ hnd, ← List.sum_toFinset _ hnd']
  apply Finset.sum_subset
  · intro a ha
    simp only [List.mem_toFinset] at ha ⊢
    exact hsub a ha
  · intro a ha hna
    simp only [List.mem_toFinset] at ha hna
    exact h0 a ha hna

theorem and_low_bits (x m : Nat) (hm : 7 &&& m = m) : x &&& m = x % 8 &&& m := by
  have h7 : x &&& 7 = x % 8 := Nat.and_pow_two_sub_one_eq_mod x 3
  rw [← h7, Nat.and_assoc, hm]

theorem perm_user_cases (perm : Nat) (h : perm &&& PTE_U ≠ 0) :
    perm &&& (PTE_U ||| PTE_W) = PTE_U ∨
      perm &&& (PTE_U ||| PTE_W) = (PTE_U ||| PTE_W) := by
  rw [and_low_bits perm PTE_U (by decide)] at h
  rw [and_low_bits perm (PTE_U ||| PTE_W) (by decide)]
  have hlt : perm % 8 < 8 := Nat.mod_lt _ (by decide)
  revert h
  generalize perm % 8 = x at hlt
  interval_cases x <;> decide

/-! ## Rollback of a failed fork: the page records -/

/-- In a state that can be rolled back, the owner sweep restores every page record. -/
theorem process_cleanup_sweep_rollback (K : KernelConfig) (s w : KernelState) (f : Nat)
    (hstale : ∀ pn, pn < NPAGES K → (s.pageinfo pn).owner ≠ f)
    (hroll : RollbackReady K s w f) :
    ∀ pn, pn < NPAGES K →
      (process_cleanup_sweep f (List.range (NPAGES K)) w).pageinfo pn = s.pageinfo pn := by
  intro pn hpn
  rw [process_cleanup_sweep_pageinfo f pn _ w (List.nodup_range _)]
  rcases hroll pn hpn with h | ⟨h1, h2⟩
  · rw [if_neg, h]
    rintro ⟨_, hc⟩
    rw [h] at hc
    exact hstale pn hpn hc
  · rw [if_pos ⟨List.mem_range.mpr hpn, by rw [h2]⟩, h2, release_info_owned, h1]

theorem fork_shares_append (s : KernelState) (proot : Nat) (l l' : List Nat) (pn : Nat) :
    fork_shares s proot (l ++ l') pn = fork_shares s proot l pn + fork_shares s proot l' pn := by
  simp only [fork_shares, List.map_append, List.sum_append]

/-- The first loop of the rollback of a fork that failed at address `i`: it takes back
the references the fork had added to shared pages and frees the copies mapped from
`PROC_START_ADDR` on; the root of the child's table is still allocated. -/
theorem process_cleanup_loop_rollback (K : KernelConfig) (s t0 tf w : KernelState)
    (proot c f i : Nat) (l1 l2 : List Nat)
    (hsane : AllocSane K s)
    (hur : UserMappedReferenced s proot (page_addresses 0 K.MEMSIZE_VIRTUAL))
    (hno : NoOverflow s proot (page_addresses 0 K.MEMSIZE_VIRTUAL))
    (hstart : K.PROC_START_ADDR % 4096 = 0)
    (hfree : ∀ pn, pn < NPAGES K → (s.pageinfo pn).refcount = 0 →
      (s.pageinfo pn).owner = PO_FREE)
    (hstale : ∀ pn, pn < NPAGES K → (s.pageinfo pn).owner ≠ f)
    (huser : ∀ va ∈ page_addresses K.PROC_START_ADDR K.MEMSIZE_VIRTUAL, ∀ vam,
      virtual_memory_lookup s.physmem proot va = some vam →
      vam.perm &&& PTE_U ≠ 0 ∧ 0 ≤ (s.pageinfo vam.pn).owner)
    (hlow : ∀ va ∈ page_addresses 0 K.PROC_START_ADDR, ∀ vam,
      virtual_memory_lookup s.physmem proot va = some vam →
      vam.perm &&& (PTE_U ||| PTE_W) = PTE_U → (s.pageinfo vam.pn).owner < 0)
    (hl : page_addresses 0 K.MEMSIZE_VIRTUAL = l1 ++ i :: l2)
    (hinv0 : BuildInv K s f c (fun _ => 0) t0)
    (hlook0 : ∀ va ∈ page_addresses 0 K.MEMSIZE_VIRTUAL,
      virtual_memory_lookup t0.physmem c va = virtual_memory_lookup s.physmem proot va)
    (hprog : ForkProgress K s f c proot (fun _ => 0) t0 l1 tf)
    (hwi : w.pageinfo = tf.pageinfo) (hwm : w.physmem = tf.physmem)
    (hwc : (w.processes f).p_pagetable = c) :
    RollbackReady K s
        (process_cleanup_loop f i (page_addresses K.PROC_START_ADDR K.MEMSIZE_VIRTUAL) w) f ∧
      PAGENUMBER c < NPAGES K ∧
      (process_cleanup_loop f i (page_addresses K.PROC_START_ADDR K.MEMSIZE_VIRTUAL)
        w).pageinfo (PAGENUMBER c) = { owner := f, refcount := 1 } ∧
      s.pageinfo (PAGENUMBER c) = { owner := PO_FREE, refcount := 0 } := by
  obtain ⟨q1, _, _, _, _, q6, q7, q8⟩ := hprog
  obtain ⟨_, b2, b3, b4, b5, _, _, _⟩ := q1
  have heta : ∀ pn, s.pageinfo pn =
      { owner := (s.pageinfo pn).owner, refcount := (s.pageinfo pn).refcount } := fun _ => rfl
  have hsorted := page_addresses_sorted 0 K.MEMSIZE_VIRTUAL
  rw [hl] at hsorted
  obtain ⟨hs1, hs2, hs3⟩ := List.pairwise_append.mp hsorted
  have hs2' := (List.pairwise_cons.mp hs2).1
  have hnd1 : l1.Nodup := hs1.imp (fun h => Nat.ne_of_lt h)
  have hmem1 : ∀ va ∈ l1, va < i ∧ va ∈ page_addresses 0 K.MEMSIZE_VIRTUAL :=
    fun va hva => ⟨hs3 va hva i (List.mem_cons_self _ _), by
      rw [hl]; exact List.mem_append_left _ hva⟩
  -- the addresses the loop visits
  have hvs_mem : ∀ va,
      va ∈ (page_addresses K.PROC_START_ADDR K.MEMSIZE_VIRTUAL).filter
        (fun va => decide (va < i)) ↔
      va ∈ page_addresses K.PROC_START_ADDR K.MEMSIZE_VIRTUAL ∧ va < i := by
    intro va
    simp only [List.mem_filter, decide_eq_true_eq]
  generalize hvs : (page_addresses K.PROC_START_ADDR K.MEMSIZE_VIRTUAL).filter
    (fun va => decide (va < i)) = vs at hvs_mem
  have hvsnd : vs.Nodup := by
    rw [← hvs]
    exact (page_addresses_nodup _ _).filter _
  have hvs1 : ∀ va ∈ vs, va ∈ l1 := by
    intro va hva
    obtain ⟨h1, h2⟩ := (hvs_mem va).mp hva
    obtain ⟨a0, _, a2⟩ := page_addresses_mem _ _ va hstart h1
    have : va ∈ l1 ++ i :: l2 := by
      rw [← hl]
      exact page_addresses_zero_of _ va a0 a2
    rcases List.mem_append.mp this with h | h
    · exact h
    · rcases List.mem_cons.mp h with h | h
      · omega
      · have := hs2' va h
        omega
  -- what the child maps at a visited address
  have htgt : ∀ va ∈ vs, ∀ vam, virtual_memory_lookup tf.physmem c va = some vam →
      (0 < (s.pageinfo vam.pn).refcount ∧ ¬ fork_copies s proot va ∧
        virtual_memory_lookup s.physmem proot va = some vam ∧
        vam.perm &&& (PTE_U ||| PTE_W) = PTE_U ∧ 0 ≤ (s.pageinfo vam.pn).owner) ∨
      (¬ 0 < (s.pageinfo vam.pn).refcount ∧ fork_copies s proot va ∧
        tf.pageinfo vam.pn = { owner := f, refcount := 1 } ∧
        ¬ IsNode tf.physmem c vam.pn) := by
    intro va hva vam hvam
    have hva1 := hvs1 va hva
    obtain ⟨_, hva0⟩ := hmem1 va hva1
    by_cases hc : fork_copies s proot va
    · right
      obtain ⟨map, hmap, hown, hperm⟩ := hc
      obtain ⟨q, f1, _, f3, f4, f5, _⟩ := q7 va hva1 map hmap hown hperm
      rw [f1] at hvam
      have hq : vam.pn = q := by rw [← Option.some.inj hvam]
      rw [hq]
      refine ⟨?_, ⟨map, hmap, hown, hperm⟩, f4, f5⟩
      have := hinv0.rc_zero q f3
      omega
    · left
      have hlk : virtual_memory_lookup tf.physmem c va =
          virtual_memory_lookup s.physmem proot va := (q6 va hva1 hc).trans (hlook0 va hva0)
      rw [hlk] at hvam
      obtain ⟨hu, hown⟩ := huser va ((hvs_mem va).mp hva).1 vam hvam
      rcases perm_user_cases vam.perm hu with h4 | h6
      · exact ⟨hur va hva0 vam hvam (Or.inl h4), hc, hvam, h4, hown⟩
      · exact absurd ⟨vam, hvam, hown, h6⟩ hc
  -- the references the fork added are the releases of the loop
  have hshare : ∀ pn, 0 < (s.pageinfo pn).refcount → ∀ va ∈ vs,
      fork_share s proot va pn =
        if (virtual_memory_lookup tf.physmem c va).map (fun vam => vam.pn) = some pn then 1
        else 0 := by
    intro pn hpos va hva
    rcases Option.eq_none_or_eq_some (virtual_memory_lookup tf.physmem c va)
      with hn | ⟨vam, hvam⟩
    · have hva1 := hvs1 va hva
      have hva0 := (hmem1 va hva1).2
      by_cases hc : fork_copies s proot va
      · obtain ⟨map, hmap, hown, hperm⟩ := hc
        obtain ⟨q, f1, _⟩ := q7 va hva1 map hmap hown hperm
        rw [f1] at hn
        exact absurd hn (by simp)
      · have hlk := (q6 va hva1 hc).trans (hlook0 va hva0)
        rw [hn] at hlk
        simp only [fork_share, ← hlk, hn, Option.map_none']
        simp
    · rcases htgt va hva vam hvam with ⟨_, _, h3, h4, h5⟩ | ⟨h1, h2, _, _⟩
      · simp only [fork_share, h3, hvam, Option.map_some', Option.some.injEq]
        by_cases hp : vam.pn = pn
        · rw [← hp]
          simp [h4, h5]
        · simp [hp]
      · obtain ⟨map, hmap, hown, hperm⟩ := h2
        have hne : vam.pn ≠ pn := by
          intro hc
          rw [hc] at h1
          exact h1 hpos
        have hnp : ¬ (map.perm &&& (PTE_U ||| PTE_W) = PTE_U) := by
          rw [hperm]
          decide
        simp only [fork_share, hmap, hvam, Option.map_some', Option.some.injEq, if_neg hne]
        simp [hnp]
  have hloop : ∀ pn,
      (process_cleanup_loop f i (page_addresses K.PROC_START_ADDR K.MEMSIZE_VIRTUAL)
        w).pageinfo pn =
      (release_info f)^[(released_pages tf.physmem c vs).count pn] (tf.pageinfo pn) := by
    intro pn
    rw [process_cleanup_loop_pageinfo f i pn _ w (page_addresses_sorted _ _)]
    simp only [Int.toNat_ofNat, hwm, hwc, hwi, hvs]
  have hmemrel : ∀ pn, pn ∈ released_pages tf.physmem c vs →
      ∃ va ∈ vs, ∃ vam, virtual_memory_lookup tf.physmem c va = some vam ∧ vam.pn = pn := by
    intro pn h
    obtain ⟨va, hva, hg⟩ := List.mem_filterMap.mp h
    rcases Option.eq_none_or_eq_some (virtual_memory_lookup tf.physmem c va)
      with hn | ⟨vam, hvam⟩
    · rw [hn] at hg
      simp at hg
    · rw [hvam] at hg
      exact ⟨va, hva, vam, hvam, by simpa using hg⟩
  -- the root of the child's table
  have hrootnode : IsNode tf.physmem c (PAGENUMBER c) := ⟨0, 0, c, by omega, rfl, rfl⟩
  obtain ⟨hrlt, hr0⟩ := b3 _ hrootnode
  have hrpos : 0 < (tf.pageinfo (PAGENUMBER c)).refcount := b2.2 _ hrootnode
  have hrinfo : tf.pageinfo (PAGENUMBER c) = { owner := f, refcount := 1 } := by
    rcases b5 (PAGENUMBER c) (by omega) with h | ⟨_, _, h⟩
    · rw [h] at hrpos
      omega
    · exact h
  have hrcount : (released_pages tf.physmem c vs).count (PAGENUMBER c) = 0 := by
    rw [List.count_eq_zero]
    intro hmem
    obtain ⟨va, hva, vam, hvam, hpn⟩ := hmemrel _ hmem
    rcases htgt va hva vam hvam with ⟨h1, _⟩ | ⟨_, _, _, h4⟩
    · rw [hpn] at h1
      omega
    · rw [hpn] at h4
      exact h4 hrootnode
  refine ⟨?_, hrlt, ?_, ?_⟩
  · intro pn hpn
    rw [hloop pn]
    by_cases hpos : 0 < (s.pageinfo pn).refcount
    · left
      obtain ⟨_, hinfo⟩ := b4 pn hpos
      have hsub : fork_shares s proot vs pn = fork_shares s proot l1 pn := by
        refine fork_shares_subset s proot pn l1 vs hnd1 hvsnd hvs1 ?_
        intro va hva hnot
        obtain ⟨hlt, hva0⟩ := hmem1 va hva
        obtain ⟨a0, a2⟩ := page_addresses_zero_mem _ va hva0
        have hbelow : va < K.PROC_START_ADDR := by
          by_contra hge
          exact hnot ((hvs_mem va).mpr
            ⟨page_addresses_of _ _ va hstart a0 (by omega) a2, hlt⟩)
        have hvalow : va ∈ page_addresses 0 K.PROC_START_ADDR :=
          page_addresses_zero_of _ va a0 hbelow
        simp only [fork_share]
        rcases Option.eq_none_or_eq_some (virtual_memory_lookup s.physmem proot va)
          with hn | ⟨map, hmap⟩
        · rw [hn]
        · rw [hmap]
          simp only
          rw [if_neg]
          rintro ⟨e1, e2, e3⟩
          have := hlow va hvalow map hmap e3
          rw [e1] at this
          omega
      have hcnt : (((released_pages tf.physmem c vs).count pn : Nat) : Int) =
          fork_shares s proot l1 pn := by
        rw [← hsub]
        exact count_filterMap_sum _ pn (fun va => fork_share s proot va pn) vs
          (hshare pn hpos)
      rw [hinfo]
      simp only [zero_add]
      rw [← hcnt]
      by_cases hz : (released_pages tf.physmem c vs).count pn = 0
      · rw [hz]
        simp only [Function.iterate_zero, id, Nat.cast_zero, add_zero]
      · have hmem : pn ∈ released_pages tf.physmem c vs :=
          List.count_pos_iff.mp (Nat.pos_of_ne_zero hz)
        obtain ⟨va, hva, vam, hvam, hpn'⟩ := hmemrel pn hmem
        have hb : (s.pageinfo pn).refcount +
            (((released_pages tf.physmem c vs).count pn : Nat) : Int) ≤ 127 := by
          rcases htgt va hva vam hvam with ⟨_, _, h3, _, _⟩ | ⟨h1, _⟩
          · have := hno va (hmem1 va (hvs1 va hva)).2 vam h3
            rw [hl, fork_shares_append, hpn'] at this
            have hnn := fork_shares_nonneg s proot (i :: l2) pn
            rw [hcnt]
            omega
          · rw [hpn'] at h1
            exact absurd hpos h1
        rw [release_info_iterate f _ _ (hstale pn hpn) (by omega) _ hb]
    · have hrc0 : (s.pageinfo pn).refcount = 0 := by
        have := hsane.1 pn hpn
        omega
      have hs0 : s.pageinfo pn = { owner := PO_FREE, refcount := 0 } := by
        rw [heta pn, hfree pn hpn hrc0, hrc0]
      have hle : (released_pages tf.physmem c vs).count pn ≤ 1 := by
        refine count_filterMap_le_one _ pn vs hvsnd ?_
        intro a ha b hb hga hgb
        obtain ⟨ma, hma, hpa⟩ := Option.map_eq_some'.mp hga
        obtain ⟨mb, hmb, hpb⟩ := Option.map_eq_some'.mp hgb
        by_contra hab
        have ca : fork_copies s proot a := by
          rcases htgt a ha ma hma with ⟨h1, _⟩ | ⟨_, h2, _⟩
          · rw [hpa] at h1
            exact absurd h1 hpos
          · exact h2
        have cb : fork_copies s proot b := by
          rcases htgt b hb mb hmb with ⟨h1, _⟩ | ⟨_, h2, _⟩
          · rw [hpb] at h1
            exact absurd h1 hpos
          · exact h2
        exact q8 a (hvs1 a ha) b (hvs1 b hb) hab ca cb ma mb hma hmb (hpa.trans hpb.symm)
      rcases Nat.eq_zero_or_pos ((released_pages tf.physmem c vs).count pn) with hz | hp
      · rw [hz]
        simp only [Function.iterate_zero, id]
        rcases b5 pn hpos with h | ⟨_, _, h⟩
        · left
          exact h
        · right
          exact ⟨hs0, h⟩
      · have h1 : (released_pages tf.physmem c vs).count pn = 1 := by omega
        rw [h1]
        obtain ⟨va, hva, vam, hvam, hpn'⟩ := hmemrel pn (List.count_pos_iff.mp hp)
        rcases htgt va hva vam hvam with ⟨h1, _⟩ | ⟨_, _, h3, _⟩
        · rw [hpn'] at h1
          exact absurd h1 hpos
        · left
          rw [hpn'] at h3
          rw [Function.iterate_one, h3, release_info_owned, hs0]
  · rw [hloop, hrcount, Function.iterate_zero, id, hrinfo]
  · rw [heta (PAGENUMBER c), hfree _ hrlt hr0, hr0]

/-! ## Rollback of a failed fork: the handler -/

/-- The fields of the state after `process_cleanup_partial` for a process that has a
page table. -/
theorem process_cleanup_partial_fields (K : KernelConfig) (u : KernelState) (f vaLast : Nat)
    (hne : (u.processes f).p_pagetable ≠ NULL) :
    (( process_cleanup_partial K u f vaLast).processes f).p_state = procstate.P_FREE ∧
      (( process_cleanup_partial K u f vaLast).processes f).p_pagetable = NULL ∧
      (∀ j, j ≠ f → ( process_cleanup_partial K u f vaLast).processes j = u.processes j) ∧
      (∀ pn, ( process_cleanup_partial K u f vaLast).pageinfo pn =
        (process_cleanup_sweep f (List.range (NPAGES K))
          (release_page
            (process_cleanup_loop f vaLast
              (page_addresses K.PROC_START_ADDR K.MEMSIZE_VIRTUAL)
              (set_p_state u f procstate.P_FREE))
            (PAGENUMBER (u.processes f).p_pagetable) f)).pageinfo pn) := by
  have hpt : ((set_p_state u f procstate.P_FREE).processes f).p_pagetable =
      (u.processes f).p_pagetable := by
    simp [set_p_state]
  have hne' : ((set_p_state u f procstate.P_FREE).processes f).p_pagetable ≠ NULL := by
    rw [hpt]; exact hne
  have hdef : process_cleanup_partial K u f vaLast =
      set_p_state
        (process_cleanup_sweep f (List.range (NPAGES K))
          (set_p_pagetable
            (release_page
              (process_cleanup_loop f vaLast
                (page_addresses K.PROC_START_ADDR K.MEMSIZE_VIRTUAL)
                (set_p_state u f procstate.P_FREE))
              (PAGENUMBER (u.processes f).p_pagetable) f)
            f NULL))
        f procstate.P_FREE := by
    simp only [Int.toNat_ofNat, process_cleanup_partial]
    rw [if_pos hne', hpt]
  rw [hdef]
  refine ⟨?_, ?_, ?_, ?_⟩
  · simp [set_p_state]
  · simp [set_p_state, set_p_pagetable]
  · intro j hj
    simp [set_p_state, set_p_pagetable, hj]
  · intro pn
    simp only [set_p_state, set_proc_pageinfo]
    rw [process_cleanup_sweep_pageinfo f pn _ _ (List.nodup_range _),
      process_cleanup_sweep_pageinfo f pn _ _ (List.nodup_range _)]
    simp only [set_p_pagetable, set_proc_pageinfo]

/-- The fields of the state after `process_cleanup_partial` for a process without a page
table. -/
theorem process_cleanup_partial_fields_null (K : KernelConfig) (u : KernelState)
    (f vaLast : Nat) (hnull : (u.processes f).p_pagetable = NULL) :
    (( process_cleanup_partial K u f vaLast).processes f).p_state = procstate.P_FREE ∧
      (( process_cleanup_partial K u f vaLast).processes f).p_pagetable = NULL ∧
      (∀ j, j ≠ f → ( process_cleanup_partial K u f vaLast).processes j = u.processes j) ∧
      (∀ pn, ( process_cleanup_partial K u f vaLast).pageinfo pn =
        (process_cleanup_sweep f (List.range (NPAGES K)) u).pageinfo pn) := by
  have hpt : ((set_p_state u f procstate.P_FREE).processes f).p_pagetable = NULL := by
    simp [set_p_state, hnull]
  have hne' : ¬ ((set_p_state u f procstate.P_FREE).processes f).p_pagetable ≠ NULL := by
    rw [hpt]; exact fun h => h rfl
  have hdef : process_cleanup_partial K u f vaLast =
      set_p_state
        (process_cleanup_sweep f (List.range (NPAGES K)) (set_p_state u f procstate.P_FREE))
        f procstate.P_FREE := by
    simp only [Int.toNat_ofNat, process_cleanup_partial]
    rw [if_neg hne']
  rw [hdef]
  refine ⟨?_, ?_, ?_, ?_⟩
  · simp [set_p_state]
  · simp [set_p_state, hnull]
  · intro j hj
    simp [set_p_state, hj]
  · intro pn
    simp only [set_p_state, set_proc_pageinfo]
    rw [process_cleanup_sweep_pageinfo f pn _ _ (List.nodup_range _),
      process_cleanup_sweep_pageinfo f pn _ _ (List.nodup_range _)]
    simp only [set_proc_pageinfo]

/-- The process table after the clone step of `fork`, whether or not it succeeded. -/
theorem sys_fork_clone_frame (K : KernelConfig) (s : KernelState) (f : Nat) :
    (sys_fork_clone K s f).current = s.current ∧
      ∀ j, j ≠ f → (sys_fork_clone K s f).processes j = s.processes j := by
  obtain ⟨c1, c2⟩ := copy_pagetable_frame K (set_p_state s f procstate.P_RUNNABLE)
    ((set_p_state s f procstate.P_RUNNABLE).processes s.current).p_pagetable
    (int8 (s.processes f).p_pid)
  refine ⟨?_, ?_⟩
  · simp only [sys_fork_clone, set_p_pagetable, set_proc_current, c2]
    rfl
  · intro j hj
    simp only [sys_fork_clone, set_p_pagetable, set_proc_processes, c1, if_neg hj]
    simp only [set_p_state, set_proc_processes, if_neg hj]

/-- The clone step of `fork` only takes pages from the free pool for the child, whether or
not it succeeds. -/
theorem sys_fork_clone_rollback (K : KernelConfig) (s : KernelState) (f : Nat)
    (hready : ForkReady K s) (hf : f < K.NPROC)
    (hfree : ∀ pn, pn < NPAGES K → (s.pageinfo pn).refcount = 0 →
      (s.pageinfo pn).owner = PO_FREE) :
    RollbackReady K s (sys_fork_clone K s f) f := by
  obtain ⟨hsane, hmv, hnp, hnr, _, _, hpid, _⟩ := hready
  have hpidf : int8 (s.processes f).p_pid = (f : Int) := by
    rw [hpid f hf]
    exact int8_natCast f (by omega)
  have hproot : ((set_p_state s f procstate.P_RUNNABLE).processes s.current).p_pagetable =
      (s.processes s.current).p_pagetable := by
    simp only [set_p_state, set_proc_processes]
    split
    · rename_i h
      rw [h]
    · rfl
  obtain ⟨_, _, _, _, c5, c6, _⟩ :=
    copy_pagetable_spec K (set_p_state s f procstate.P_RUNNABLE)
      (s.processes s.current).p_pagetable f hsane hmv hnr
  have hpi : ∀ pn, (sys_fork_clone K s f).pageinfo pn =
      (copy_pagetable K (set_p_state s f procstate.P_RUNNABLE)
        (s.processes s.current).p_pagetable f).1.pageinfo pn := by
    intro pn
    simp only [sys_fork_clone, hproot, hpidf, set_p_pagetable, set_proc_pageinfo]
  intro pn hpn
  rw [hpi pn]
  by_cases hpos : 0 < (s.pageinfo pn).refcount
  · left
    exact (c5 pn hpos).1
  · rcases c6 pn hpos with h | ⟨_, h0, h⟩
    · left
      exact h
    · right
      refine ⟨?_, h⟩
      have h0' : (s.pageinfo pn).refcount = 0 := h0
      have heta : s.pageinfo pn =
          { owner := (s.pageinfo pn).owner, refcount := (s.pageinfo pn).refcount } := rfl
      rw [heta, hfree pn hpn h0', h0']

/-- Rollback after a failed clone of the parent's page table. -/
theorem sys_fork_clone_failed_rollback (K : KernelConfig) (s : KernelState) (f : Nat)
    (hready : ForkReady K s) (hf : f < K.NPROC) (hfp : f ≠ s.current)
    (hfree : ∀ pn, pn < NPAGES K → (s.pageinfo pn).refcount = 0 →
      (s.pageinfo pn).owner = PO_FREE)
    (hstale : ∀ pn, pn < NPAGES K → (s.pageinfo pn).owner ≠ f)
    (hnull : ((sys_fork_clone K s f).processes f).p_pagetable = NULL) :
    ((set_reg_rax (process_cleanup K (sys_fork_clone K s f) f) s.current
        (uint64 (-1))).processes s.current).p_registers.reg_rax = uint64 (-1) ∧
      ((set_reg_rax (process_cleanup K (sys_fork_clone K s f) f) s.current
        (uint64 (-1))).processes f).p_state = procstate.P_FREE ∧
      ((set_reg_rax (process_cleanup K (sys_fork_clone K s f) f) s.current
        (uint64 (-1))).processes f).p_pagetable = NULL ∧
      (∀ pn, pn < NPAGES K →
        (set_reg_rax (process_cleanup K (sys_fork_clone K s f) f) s.current
          (uint64 (-1))).pageinfo pn = s.pageinfo pn) := by
  obtain ⟨e1, e2, _, e4⟩ :=
    process_cleanup_partial_fields_null K (sys_fork_clone K s f) f K.MEMSIZE_VIRTUAL hnull
  have hroll := sys_fork_clone_rollback K s f hready hf hfree
  refine ⟨?_, ?_, ?_, ?_⟩
  · simp [set_reg_rax]
  · simp only [set_reg_rax, set_proc_processes, if_neg hfp]
    exact e1
  · simp only [set_reg_rax, set_proc_processes, if_neg hfp]
    exact e2
  · intro pn hpn
    simp only [set_reg_rax, set_proc_pageinfo]
    show ( process_cleanup_partial K (sys_fork_clone K s f) f K.MEMSIZE_VIRTUAL).pageinfo pn =
      s.pageinfo pn
    rw [e4 pn]
    exact process_cleanup_sweep_rollback K s _ f hstale hroll pn hpn

/-- Rollback after a failed page allocation in the loop of `fork`. -/
theorem sys_fork_copy_failed_rollback (K : KernelConfig) (s : KernelState) (f i : Nat)
    (hready : ForkReady K s) (hf : f < K.NPROC) (hfp : f ≠ s.current)
    (hstart : K.PROC_START_ADDR % 4096 = 0)
    (hfree : ∀ pn, pn < NPAGES K → (s.pageinfo pn).refcount = 0 →
      (s.pageinfo pn).owner = PO_FREE)
    (hstale : ∀ pn, pn < NPAGES K → (s.pageinfo pn).owner ≠ f)
    (huser : ∀ va ∈ page_addresses K.PROC_START_ADDR K.MEMSIZE_VIRTUAL, ∀ vam,
      virtual_memory_lookup s.physmem (s.processes s.current).p_pagetable va = some vam →
      vam.perm &&& PTE_U ≠ 0 ∧ 0 ≤ (s.pageinfo vam.pn).owner)
    (hlow : ∀ va ∈ page_addresses 0 K.PROC_START_ADDR, ∀ vam,
      virtual_memory_lookup s.physmem (s.processes s.current).p_pagetable va = some vam →
      vam.perm &&& (PTE_U ||| PTE_W) = PTE_U → (s.pageinfo vam.pn).owner < 0)
    (hne : ((sys_fork_clone K s f).processes f).p_pagetable ≠ NULL)
    (hres : (sys_fork_loop K f (page_addresses 0 K.MEMSIZE_VIRTUAL)
      (sys_fork_clone K s f)).2 = some i) :
    (((sys_fork_loop K f (page_addresses 0 K.MEMSIZE_VIRTUAL)
        (sys_fork_clone K s f)).1.processes s.current).p_registers.reg_rax = uint64 (-1)) ∧
      ((sys_fork_loop K f (page_addresses 0 K.MEMSIZE_VIRTUAL)
        (sys_fork_clone K s f)).1.processes f).p_state = procstate.P_FREE ∧
      ((sys_fork_loop K f (page_addresses 0 K.MEMSIZE_VIRTUAL)
        (sys_fork_clone K s f)).1.processes f).p_pagetable = NULL ∧
      (∀ pn, pn < NPAGES K →
        (sys_fork_loop K f (page_addresses 0 K.MEMSIZE_VIRTUAL)
          (sys_fork_clone K s f)).1.pageinfo pn = s.pageinfo pn) := by
  obtain ⟨hinv, hproot, _, hpf, _, hlookc⟩ := sys_fork_clone_spec K s f hready hf hfp hne
  obtain ⟨hsane, hmv, hnp, hnr, hur, hno, hpid, _⟩ := hready
  obtain ⟨_, hfailc⟩ := sys_fork_loop_spec K s (s.processes s.current).p_pagetable
    ((sys_fork_clone K s f).processes f).p_pagetable f f
    (page_addresses 0 K.MEMSIZE_VIRTUAL) (sys_fork_clone K s f) (fun _ => 0)
    (fun va hva => (page_addresses_zero_mem _ va hva).1) hnr hur
    (page_addresses_pairwise _ hmv)
    (fun va hva vam hvam => by
      have := hno va hva vam hvam
      simpa using this)
    hinv hproot rfl
  obtain ⟨l1, l2, tf, hl, hprog, _, hstate⟩ := hfailc i hres
  have hcur0 : (sys_fork_clone K s f).current = s.current := (sys_fork_clone_frame K s f).1
  have hpid0 : ((sys_fork_clone K s f).processes f).p_pid = (f : Int) := by
    rw [hpf]
    exact hpid f hf
  rw [hstate, hcur0, hpid0]
  have hproc : tf.processes = (sys_fork_clone K s f).processes := hprog.2.1
  have hupt : ((set_reg_rax tf s.current (uint64 (-1))).processes f).p_pagetable =
      ((sys_fork_clone K s f).processes f).p_pagetable := by
    simp only [set_reg_rax, set_proc_processes, if_neg hfp, hproc]
  obtain ⟨e1, e2, e3, e4⟩ := process_cleanup_partial_fields K
    (set_reg_rax tf s.current (uint64 (-1))) f i (by rw [hupt]; exact hne)
  obtain ⟨r1, r2, r3, r4⟩ := process_cleanup_loop_rollback K s (sys_fork_clone K s f) tf
    (set_p_state (set_reg_rax tf s.current (uint64 (-1))) f procstate.P_FREE)
    (s.processes s.current).p_pagetable ((sys_fork_clone K s f).processes f).p_pagetable f i
    l1 l2 hsane hur hno hstart hfree hstale huser hlow hl hinv hlookc hprog rfl rfl
    (by
      simp only [set_p_state, set_proc_processes, if_true]
      exact hupt)
  refine ⟨?_, e1, e2, ?_⟩
  · rw [e3 s.current (fun h => hfp h.symm)]
    simp [set_reg_rax]
  · intro pn hpn
    rw [e4 pn, hupt]
    refine process_cleanup_sweep_rollback K s _ f hstale ?_ pn hpn
    intro p hp
    rw [release_page_pageinfo]
    by_cases hroot : p = PAGENUMBER ((sys_fork_clone K s f).processes f).p_pagetable
    · left
      rw [if_pos hroot, r3, release_info_owned, hroot, r4]
    · rw [if_neg hroot]
      exact r1 p hp

/-- The two ways in which `fork` fails on an allocation: the clone of the page table
returned `NULL`, or the loop over the address space returned early. -/
theorem sys_fork_failed_cases (K : KernelConfig) (s s' : KernelState) (child : Nat)
    (hfail : sys_fork K s = (s', fork_outcome.clone_failed child) ∨
      ∃ i, sys_fork K s = (s', fork_outcome.copy_failed child i)) :
    child = sys_fork_find_slot K s K.NPROC 1 ∧ child < K.NPROC ∧
      ((((sys_fork_clone K s child).processes child).p_pagetable = NULL ∧
          s' = set_reg_rax (process_cleanup K (sys_fork_clone K s child) child) s.current
            (uint64 (-1))) ∨
        (((sys_fork_clone K s child).processes child).p_pagetable ≠ NULL ∧
          ∃ i, (sys_fork_loop K child (page_addresses 0 K.MEMSIZE_VIRTUAL)
              (sys_fork_clone K s child)).2 = some i ∧
            s' = (sys_fork_loop K child (page_addresses 0 K.MEMSIZE_VIRTUAL)
              (sys_fork_clone K s child)).1)) := by
  have hgen : ∀ o, sys_fork K s = (s', o) →
      (o = fork_outcome.clone_failed child ∨ ∃ i, o = fork_outcome.copy_failed child i) →
      child = sys_fork_find_slot K s K.NPROC 1 ∧ child < K.NPROC ∧
      ((((sys_fork_clone K s child).processes child).p_pagetable = NULL ∧
          s' = set_reg_rax (process_cleanup K (sys_fork_clone K s child) child) s.current
            (uint64 (-1))) ∨
        (((sys_fork_clone K s child).processes child).p_pagetable ≠ NULL ∧
          ∃ i, (sys_fork_loop K child (page_addresses 0 K.MEMSIZE_VIRTUAL)
              (sys_fork_clone K s child)).2 = some i ∧
            s' = (sys_fork_loop K child (page_addresses 0 K.MEMSIZE_VIRTUAL)
              (sys_fork_clone K s child)).1)) := by
    intro o ho hoc
    simp only [sys_fork] at ho
    by_cases h1 : K.NPROC ≤ sys_fork_find_slot K s K.NPROC 1
    · rw [if_pos h1] at ho
      have ho' := (Prod.mk.inj ho).2
      rcases hoc with h | ⟨i, h⟩
      · rw [h] at ho'
        exact absurd ho' (by simp)
      · rw [h] at ho'
        exact absurd ho' (by simp)
    rw [if_neg h1] at ho
    by_cases h2 : ((sys_fork_clone K s (sys_fork_find_slot K s K.NPROC 1)).processes
        (sys_fork_find_slot K s K.NPROC 1)).p_pagetable = NULL
    · rw [if_pos h2] at ho
      obtain ⟨hs', ho'⟩ := Prod.mk.inj ho
      rcases hoc with h | ⟨i, h⟩
      · rw [h] at ho'
        have hc : sys_fork_find_slot K s K.NPROC 1 = child := by simpa using ho'
        refine ⟨hc.symm, by omega, Or.inl ?_⟩
        rw [hc] at hs' h2
        exact ⟨h2, hs'.symm⟩
      · rw [h] at ho'
        exact absurd ho' (by simp)
    rw [if_neg h2] at ho
    split at ho
    · rename_i i0 hsome
      obtain ⟨hs', ho'⟩ := Prod.mk.inj ho
      rcases hoc with h | ⟨i, h⟩
      · rw [h] at ho'
        exact absurd ho' (by simp)
      · rw [h] at ho'
        have hc : sys_fork_find_slot K s K.NPROC 1 = child := by
          have := ho'
          simp only [fork_outcome.copy_failed.injEq] at this
          exact this.1
        refine ⟨hc.symm, by omega, Or.inr ?_⟩
        rw [hc] at hs' h2 hsome
        exact ⟨h2, i0, hsome, hs'.symm⟩
    · have ho' := (Prod.mk.inj ho).2
      rcases hoc with h | ⟨i, h⟩
      · rw [h] at ho'
        exact absurd ho' (by simp)
      · rw [h] at ho'
        exact absurd ho' (by simp)
  rcases hfail with h | ⟨i, h⟩
  · exact hgen _ h (Or.inl rfl)
  · exact hgen _ h (Or.inr ⟨i, rfl⟩)

/-- C10, as amended.  Fork failure rollback.  Take a state in which `fork` can be
analysed, with `PROC_START_ADDR` page-aligned, in which every page with reference count 0
has owner Free, no page is recorded as owned by the pid of the child slot, every page the
parent maps at or above `PROC_START_ADDR` is user-accessible and has an owner that is not
negative (a page of a process, not a kernel or reserved page), and below
`PROC_START_ADDR` the parent maps no page with a non-negative owner user-accessible and
not writable.  If the fork fails because an allocation fails during the clone of the page
table or during the copy walk, then afterwards the parent's return value is -1, the child
slot is Free with a null page table, no page is owned by the child pid, and the owner and
reference count of every physical page equal their values before the fork. -/
theorem sys_fork_failure_rollback (K : KernelConfig) (s s' : KernelState) (child : Nat)
    (hready : ForkReady K s)
    (hstart : K.PROC_START_ADDR % PAGESIZE = 0)
    (hfree : ∀ pn, pn < NPAGES K → (s.pageinfo pn).refcount = 0 →
      (s.pageinfo pn).owner = PO_FREE)
    (hstale : ∀ pn, pn < NPAGES K → (s.pageinfo pn).owner ≠ child)
    (huser : ∀ va ∈ page_addresses K.PROC_START_ADDR K.MEMSIZE_VIRTUAL, ∀ vam,
      virtual_memory_lookup s.physmem (s.processes s.current).p_pagetable va = some vam →
      vam.perm &&& PTE_U ≠ 0 ∧ 0 ≤ (s.pageinfo vam.pn).owner)
    (hlow : ∀ va ∈ page_addresses 0 K.PROC_START_ADDR, ∀ vam,
      virtual_memory_lookup s.physmem (s.processes s.current).p_pagetable va = some vam →
      vam.perm &&& (PTE_U ||| PTE_W) = PTE_U → (s.pageinfo vam.pn).owner < 0)
    (hfail : sys_fork K s = (s', fork_outcome.clone_failed child) ∨
      ∃ i, sys_fork K s = (s', fork_outcome.copy_failed child i)) :
    (s'.processes s.current).p_registers.reg_rax = uint64 (-1) ∧
      (s'.processes child).p_state = procstate.P_FREE ∧
      (s'.processes child).p_pagetable = NULL ∧
      (∀ pn, pn < NPAGES K → (s'.pageinfo pn).owner ≠ child) ∧
      (∀ pn, pn < NPAGES K → s'.pageinfo pn = s.pageinfo pn) := by
  obtain ⟨hslot, hlt, hcase⟩ := sys_fork_failed_cases K s s' child hfail
  obtain ⟨_, _, hffree⟩ := sys_fork_find_slot_result K s
  rw [← hslot] at hffree
  have hfp : child ≠ s.current := by
    intro hc
    have := hffree hlt
    rw [hc] at this
    exact hready.2.2.2.2.2.2.2 this
  have hall : (s'.processes s.current).p_registers.reg_rax = uint64 (-1) ∧
      (s'.processes child).p_state = procstate.P_FREE ∧
      (s'.processes child).p_pagetable = NULL ∧
      (∀ pn, pn < NPAGES K → s'.pageinfo pn = s.pageinfo pn) := by
    rcases hcase with ⟨hnull, hs'⟩ | ⟨hne, i, hres, hs'⟩
    · rw [hs']
      exact sys_fork_clone_failed_rollback K s child hready hlt hfp hfree hstale hnull
    · rw [hs']
      exact sys_fork_copy_failed_rollback K s child i hready hlt hfp hstart hfree hstale
        huser hlow hne hres
  obtain ⟨a1, a2, a3, a4⟩ := hall
  exact ⟨a1, a2, a3, fun pn hpn => by rw [a4 pn hpn]; exact hstale pn hpn, a4⟩

theorem example_parent_low_ready : ForkReady example_config example_parent_low := by
  unfold ForkReady AllocSane NodesReferenced UserMappedReferenced NoOverflow
  decide

/-- Witness for C10: in the example parent short of memory the fork of process 1 shares
the read-only page 5 and then fails at address `0x5000`, where no page is left for the
copy; afterwards process 1 has return value -1, slot 2 is Free with a null page table,
and every page record is as before the fork. -/
theorem sys_fork_failure_rollback_witness :
    (sys_fork example_config example_parent_low).2 = fork_outcome.copy_failed 2 0x5000 ∧
      (((sys_fork example_config example_parent_low).1.processes 1).p_registers.reg_rax =
          uint64 (-1) ∧
        ((sys_fork example_config example_parent_low).1.processes 2).p_state =
          procstate.P_FREE ∧
        ((sys_fork example_config example_parent_low).1.processes 2).p_pagetable = NULL ∧
        (∀ pn, pn < NPAGES example_config →
          ((sys_fork example_config example_parent_low).1.pageinfo pn).owner ≠ (2 : Nat)) ∧
        (∀ pn, pn < NPAGES example_config →
          (sys_fork example_config example_parent_low).1.pageinfo pn =
            example_parent_low.pageinfo pn)) :=
  ⟨by decide,
    sys_fork_failure_rollback example_config example_parent_low
      (sys_fork example_config example_parent_low).1 2 example_parent_low_ready (by decide)
      (by decide) (by decide) (by decide) (by decide)
      (Or.inr ⟨0x5000, Prod.ext rfl (by decide)⟩)⟩

/-! ## `copy_pagetable`: the two outcomes -/

/-- A mapping step of the loop of `copy_pagetable` fails only when no page is left: then
every physical page is referenced. -/
theorem copy_pagetable_loop_failed (K : KernelConfig) (s : KernelState) (proot c : Nat)
    (owner : Int) (inc : Nat → Int) :
    ∀ (l : List Nat) (t : KernelState),
      (∀ va ∈ l, va % 4096 = 0) → NodesReferenced s proot l →
      BuildInv K s owner c inc t →
      (copy_pagetable_loop K proot c l t).2 = false →
      ∀ pn, pn < NPAGES K →
        0 < ((copy_pagetable_loop K proot c l t).1.pageinfo pn).refcount := by
  intro l
  induction l with
  | nil =>
    intro t _ _ _ hf
    exact absurd hf (by simp [copy_pagetable_loop])
  | cons va rest ih =>
    intro t hal hst hinv
    have hal' : ∀ v ∈ rest, v % 4096 = 0 := fun v hv => hal v (List.mem_cons_of_mem _ hv)
    have hst' : NodesReferenced s proot rest :=
      fun v hv => hst v (List.mem_cons_of_mem _ hv)
    have hlk : virtual_memory_lookup t.physmem proot va =
        virtual_memory_lookup s.physmem proot va :=
      hinv.lookup_stable proot va (hst va (List.mem_cons_self _ _))
    rcases Option.eq_none_or_eq_some (virtual_memory_lookup s.physmem proot va)
      with hsrc | ⟨vam, hsrc⟩
    · have hres : copy_pagetable_loop K proot c (va :: rest) t =
          copy_pagetable_loop K proot c rest t := by
        simp only [copy_pagetable_loop, hlk, hsrc]
      rw [hres]
      exact ih t hal' hst' hinv
    · obtain ⟨hp4, hp2, hpa⟩ := virtual_memory_lookup_props s.physmem proot va vam hsrc
      have hva0 : va % 4096 = 0 := hal va (List.mem_cons_self _ _)
      have hpa0 : vam.pa % 4096 = 0 := by omega
      obtain ⟨hm, hs1, ht1, _, _, hmfail⟩ :=
        virtual_memory_map_spec K t c va vam.pa vam.perm hinv.1 hinv.2.1 hpa0 hp4 hp2
      by_cases hneg : (virtual_memory_map K t c va vam.pa PAGESIZE vam.perm true).2 < 0
      · have hres : copy_pagetable_loop K proot c (va :: rest) t =
            ((virtual_memory_map K t c va vam.pa PAGESIZE vam.perm true).1, false) := by
          simp only [copy_pagetable_loop, hlk, hsrc, if_pos hneg]
        rw [hres]
        intro _
        exact (hmfail hneg).2
      · have hres : copy_pagetable_loop K proot c (va :: rest) t =
            copy_pagetable_loop K proot c rest
              (virtual_memory_map K t c va vam.pa PAGESIZE vam.perm true).1 := by
          simp only [copy_pagetable_loop, hlk, hsrc, if_neg hneg]
        rw [hres]
        exact ih _ hal' hst' (hinv.mapstep hm hs1 ht1)

/-- The failure cases of `copy_pagetable`: either no page is free and the state only
records the new `current_owner`, or the loop failed and then every physical page is
referenced. -/
theorem copy_pagetable_null_spec (K : KernelConfig) (s : KernelState) (proot : Nat)
    (owner : Int) (hs : AllocSane K s)
    (hst : NodesReferenced s proot (page_addresses 0 K.MEMSIZE_VIRTUAL))
    (hnull : (copy_pagetable K s proot owner).2 = NULL) :
    ((find_free_page K { s with current_owner := owner }).2 = NULL ∧
        (∀ pn, pn < NPAGES K → 0 < (s.pageinfo pn).refcount) ∧
        (copy_pagetable K s proot owner).1 = { s with current_owner := owner }) ∨
      ((find_free_page K { s with current_owner := owner }).2 ≠ NULL ∧
        (copy_pagetable_loop K proot (find_free_page K { s with current_owner := owner }).2
          (page_addresses 0 K.MEMSIZE_VIRTUAL)
          (find_free_page K { s with current_owner := owner }).1).2 = false ∧
        ∀ pn, pn < NPAGES K →
          0 < ((copy_pagetable K s proot owner).1.pageinfo pn).refcount) := by
  have hs0 : AllocSane K { s with current_owner := owner } := hs
  by_cases h2 : (find_free_page K { s with current_owner := owner }).2 = NULL
  · left
    rcases find_free_page_alloc K { s with current_owner := owner } hs0 with
      ⟨_, h1, hall⟩ | ⟨fp, _, _, _, _, _, hne, _⟩
    · refine ⟨h2, hall, ?_⟩
      simp only [copy_pagetable, h2, h1, if_true]
    · exact absurd h2 hne
  · right
    rcases find_free_page_alloc K { s with current_owner := owner } hs0 with
      ⟨h2', _, _⟩ | ⟨fp, hfp0, hfpN, hrc, _, hfp, hne, h1⟩
    · exact absurd h2' h2
    · have hflag : (copy_pagetable_loop K proot
          (find_free_page K { s with current_owner := owner }).2
          (page_addresses 0 K.MEMSIZE_VIRTUAL)
          (find_free_page K { s with current_owner := owner }).1).2 = false := by
        by_contra hc
        have ht : (copy_pagetable_loop K proot
            (find_free_page K { s with current_owner := owner }).2
            (page_addresses 0 K.MEMSIZE_VIRTUAL)
            (find_free_page K { s with current_owner := owner }).1).2 = true := by
          simpa using hc
        have : (copy_pagetable K s proot owner).2 =
            (find_free_page K { s with current_owner := owner }).2 := by
          simp only [copy_pagetable, if_neg h2, if_pos ht]
        rw [this] at hnull
        exact h2 hnull
      refine ⟨h2, hflag, ?_⟩
      have hres : (copy_pagetable K s proot owner).1 =
          (copy_pagetable_loop K proot (find_free_page K { s with current_owner := owner }).2
            (page_addresses 0 K.MEMSIZE_VIRTUAL)
            (find_free_page K { s with current_owner := owner }).1).1 := by
        simp only [copy_pagetable, if_neg h2, hflag]
        simp
      rw [hres]
      have hrc' : (s.pageinfo fp).refcount = 0 := hrc
      -- the invariant holds once the root is allocated
      have hinv1 : BuildInv K s owner (find_free_page K { s with current_owner := owner }).2
          (fun _ => 0) (find_free_page K { s with current_owner := owner }).1 := by
        rw [hfp, h1]
        obtain ⟨_, hinj, hnodes, _⟩ := pt_walk_zero_root
          (set_page (set_pageinfo { s with current_owner := owner } fp
            { owner := owner, refcount := 1 }) fp (fun _ => 0)).physmem (PAGEADDRESS fp)
          (by intro idx; simp [PAGENUMBER_PAGEADDRESS])
        rw [PAGENUMBER_PAGEADDRESS] at hnodes
        refine ⟨⟨?_, ?_⟩, ⟨hinj, ?_⟩, ?_, ?_, ?_, ?_, rfl, rfl⟩
        · intro pn hpn
          by_cases hp : pn = fp
          · subst hp; simp
          · simp only [set_page_pageinfo, set_pageinfo_pageinfo, if_neg hp]
            exact hs.1 pn hpn
        · have : (0 : Nat) ≠ fp := by omega
          simp only [set_page_pageinfo, set_pageinfo_pageinfo, if_neg this]
          exact hs.2
        · intro n hn
          rw [hnodes n hn]
          simp
        · intro n hn
          rw [hnodes n hn]
          exact ⟨hfpN, hrc'⟩
        · intro pn hpos
          have hp : pn ≠ fp := by
            intro hc; subst hc; omega
          refine ⟨le_refl _, ?_⟩
          simp [hp]
        · intro pn _
          by_cases hp : pn = fp
          · subst hp
            right
            exact ⟨hfpN, hrc', by simp⟩
          · left
            simp [hp]
        · intro pn hpos
          have hp : pn ≠ fp := by
            intro hc; subst hc; omega
          simp [hp]
      exact copy_pagetable_loop_failed K s proot _ owner (fun _ => 0)
        (page_addresses 0 K.MEMSIZE_VIRTUAL) _
        (fun va hva => (page_addresses_zero_mem _ va hva).1) hst hinv1 hflag

/-- C11. `copy_pagetable`, success case.  In a state where allocation is well behaved and
the nodes of the source table are referenced pages, whenever
`copy_pagetable(source, new_owner)` returns a page table `T` (a pointer other than
`NULL`): for every page-aligned virtual address below `MEMSIZE_VIRTUAL` the lookup in `T`
equals the lookup in `source` (which the call does not change); the root of `T` is a page
that had reference count 0 before the call and now has owner `new_owner` and reference
count 1; and the record of every page that was referenced before is unchanged. -/
theorem copy_pagetable_success (K : KernelConfig) (s : KernelState) (source : Nat)
    (new_owner : Int) (hs : AllocSane K s) (hmv : K.MEMSIZE_VIRTUAL ≤ 2 ^ 48)
    (hst : NodesReferenced s source (page_addresses 0 K.MEMSIZE_VIRTUAL))
    (hT : (copy_pagetable K s source new_owner).2 ≠ NULL) :
    (∀ va, va % PAGESIZE = 0 → va < K.MEMSIZE_VIRTUAL →
        virtual_memory_lookup (copy_pagetable K s source new_owner).1.physmem
            (copy_pagetable K s source new_owner).2 va =
          virtual_memory_lookup s.physmem source va ∧
        virtual_memory_lookup (copy_pagetable K s source new_owner).1.physmem source va =
          virtual_memory_lookup s.physmem source va) ∧
      (copy_pagetable K s source new_owner).2 =
        PAGEADDRESS (PAGENUMBER (copy_pagetable K s source new_owner).2) ∧
      PAGENUMBER (copy_pagetable K s source new_owner).2 < NPAGES K ∧
      (s.pageinfo (PAGENUMBER (copy_pagetable K s source new_owner).2)).refcount = 0 ∧
      (copy_pagetable K s source new_owner).1.pageinfo
          (PAGENUMBER (copy_pagetable K s source new_owner).2) =
        { owner := new_owner, refcount := 1 } ∧
      (∀ pn, 0 < (s.pageinfo pn).refcount →
        (copy_pagetable K s source new_owner).1.pageinfo pn = s.pageinfo pn) := by
  obtain ⟨_, _, _, _, c5, _, c7⟩ := copy_pagetable_spec K s source new_owner hs hmv hst
  obtain ⟨hinv, h1, h2, h3, h4, h5⟩ := c7 hT
  refine ⟨?_, h1, h3, h2, h4, fun pn hpos => (c5 pn hpos).1⟩
  intro va hva0 hvalt
  have hmem : va ∈ page_addresses 0 K.MEMSIZE_VIRTUAL :=
    page_addresses_zero_of _ va hva0 hvalt
  exact ⟨h5 va hmem, hinv.lookup_stable source va (hst va hmem)⟩

/-- Witness for C11: the page table of the example parent (root `0x1000`) is copied for
owner 2; the copy has its root in page 8, which was free, and maps `0x5000` as the source
does. -/
theorem copy_pagetable_success_witness :
    (copy_pagetable example_config example_parent 0x1000 2).2 = 0x8000 ∧
      (example_parent.pageinfo 8).refcount = 0 ∧
      (copy_pagetable example_config example_parent 0x1000 2).1.pageinfo 8 =
        { owner := 2, refcount := 1 } ∧
      virtual_memory_lookup (copy_pagetable example_config example_parent 0x1000 2).1.physmem
          (copy_pagetable example_config example_parent 0x1000 2).2 0x5000 =
        virtual_memory_lookup example_parent.physmem 0x1000 0x5000 :=
  have h := copy_pagetable_success example_config example_parent 0x1000 2
    (by unfold AllocSane; decide) (by decide) (by unfold NodesReferenced; decide) (by decide)
  ⟨by decide, by decide, by decide, (h.1 0x5000 (by decide) (by decide)).1⟩

/-- C12. `copy_pagetable`, failure case.  In a state where allocation is well behaved and
the nodes of the source table are referenced pages, `copy_pagetable(source, new_owner)`
returns `NULL` exactly when the allocation of the root fails or a mapping step of its
loop fails.  If the root allocation fails, the ownership table is unchanged.  If a mapping
step fails, the record of every page that was referenced before is unchanged and every
page that was free before (the root and the nodes allocated up to the failure, which are
then all the free pages) is recorded with owner `new_owner` and reference count 1; a
following `process_cleanup(new_owner)`, run while the descriptor of `new_owner` holds no
page table, returns each of them to reference count 0 and owner Free. -/
theorem copy_pagetable_failure (K : KernelConfig) (s : KernelState) (source : Nat)
    (new_owner : Nat) (hs : AllocSane K s) (hmv : K.MEMSIZE_VIRTUAL ≤ 2 ^ 48)
    (hst : NodesReferenced s source (page_addresses 0 K.MEMSIZE_VIRTUAL)) :
    ((copy_pagetable K s source new_owner).2 = NULL ↔
        ((find_free_page K { s with current_owner := new_owner }).2 = NULL ∨
          (copy_pagetable_loop K source
            (find_free_page K { s with current_owner := new_owner }).2
            (page_addresses 0 K.MEMSIZE_VIRTUAL)
            (find_free_page K { s with current_owner := new_owner }).1).2 = false)) ∧
      ((find_free_page K { s with current_owner := new_owner }).2 = NULL →
        (copy_pagetable K s source new_owner).1.pageinfo = s.pageinfo) ∧
      ((find_free_page K { s with current_owner := new_owner }).2 ≠ NULL →
        (copy_pagetable_loop K source
          (find_free_page K { s with current_owner := new_owner }).2
          (page_addresses 0 K.MEMSIZE_VIRTUAL)
          (find_free_page K { s with current_owner := new_owner }).1).2 = false →
        (∀ pn, 0 < (s.pageinfo pn).refcount →
          (copy_pagetable K s source new_owner).1.pageinfo pn = s.pageinfo pn) ∧
        (∀ pn, pn < NPAGES K → (s.pageinfo pn).refcount = 0 →
          (copy_pagetable K s source new_owner).1.pageinfo pn =
            { owner := new_owner, refcount := 1 }) ∧
        (s.pageinfo
          (PAGENUMBER (find_free_page K { s with current_owner := new_owner }).2)).refcount =
            0 ∧
        PAGENUMBER (find_free_page K { s with current_owner := new_owner }).2 < NPAGES K ∧
        ∀ u : KernelState, u.pageinfo = (copy_pagetable K s source new_owner).1.pageinfo →
          (u.processes new_owner).p_pagetable = NULL →
          ∀ pn, pn < NPAGES K → (s.pageinfo pn).refcount = 0 →
            (process_cleanup K u new_owner).pageinfo pn =
              { owner := PO_FREE, refcount := 0 }) := by
  have hs0 : AllocSane K { s with current_owner := (new_owner : Int) } := hs
  have hnullof : ((find_free_page K { s with current_owner := new_owner }).2 = NULL ∨
      (copy_pagetable_loop K source
        (find_free_page K { s with current_owner := new_owner }).2
        (page_addresses 0 K.MEMSIZE_VIRTUAL)
        (find_free_page K { s with current_owner := new_owner }).1).2 = false) →
      (copy_pagetable K s source new_owner).2 = NULL := by
    intro h
    by_cases h2 : (find_free_page K { s with current_owner := (new_owner : Int) }).2 = NULL
    · simp only [copy_pagetable, if_pos h2]
    · rcases h with h | h
      · exact absurd h h2
      · simp only [copy_pagetable, if_neg h2, h]
        simp
  refine ⟨⟨?_, hnullof⟩, ?_, ?_⟩
  · intro hnull
    rcases copy_pagetable_null_spec K s source new_owner hs hst hnull with
      ⟨h, _, _⟩ | ⟨_, h, _⟩
    · exact Or.inl h
    · exact Or.inr h
  · intro h2
    rcases copy_pagetable_null_spec K s source new_owner hs hst (hnullof (Or.inl h2)) with
      ⟨_, _, h⟩ | ⟨hne, _, _⟩
    · rw [h]
    · exact absurd h2 hne
  · intro hne hflag
    have hnull := hnullof (Or.inr hflag)
    rcases copy_pagetable_null_spec K s source new_owner hs hst hnull with
      ⟨h2, _, _⟩ | ⟨_, _, hall⟩
    · exact absurd h2 hne
    rcases find_free_page_alloc K { s with current_owner := (new_owner : Int) } hs0 with
      ⟨h2', _, _⟩ | ⟨fp, _, hfpN, hrc, _, hfp, _, _⟩
    · exact absurd h2' hne
    obtain ⟨_, _, _, _, c5, c6, _⟩ := copy_pagetable_spec K s source new_owner hs hmv hst
    have hnew : ∀ pn, pn < NPAGES K → (s.pageinfo pn).refcount = 0 →
        (copy_pagetable K s source new_owner).1.pageinfo pn =
          { owner := new_owner, refcount := 1 } := by
      intro pn hpn h0
      rcases c6 pn (by omega) with h | ⟨_, _, h⟩
      · have := hall pn hpn
        rw [h] at this
        omega
      · exact h
    refine ⟨fun pn hpos => (c5 pn hpos).1, hnew, ?_, ?_, ?_⟩
    · rw [hfp, PAGENUMBER_PAGEADDRESS]
      exact hrc
    · rw [hfp, PAGENUMBER_PAGEADDRESS]
      exact hfpN
    · intro u hu hpt pn hpn h0
      obtain ⟨_, _, _, e4⟩ :=
        process_cleanup_partial_fields_null K u new_owner K.MEMSIZE_VIRTUAL hpt
      show ( process_cleanup_partial K u new_owner K.MEMSIZE_VIRTUAL).pageinfo pn = _
      rw [e4 pn, process_cleanup_sweep_pageinfo new_owner pn _ u (List.nodup_range _), hu,
        hnew pn hpn h0, if_pos ⟨List.mem_range.mpr hpn, rfl⟩, release_info_owned]

/-- Witness for C12: with only pages 8 and 9 free the copy of the example parent's page
table fails after the root and one node have been allocated; both pages are recorded for
owner 2 with reference count 1, and `process_cleanup(2)` frees them. -/
theorem copy_pagetable_failure_witness :
    (copy_pagetable example_config example_parent_tight 0x1000 2).2 = NULL ∧
      (copy_pagetable example_config example_parent_tight 0x1000 2).1.pageinfo 8 =
        { owner := 2, refcount := 1 } ∧
      (copy_pagetable example_config example_parent_tight 0x1000 2).1.pageinfo 9 =
        { owner := 2, refcount := 1 } ∧
      (process_cleanup example_config
        (copy_pagetable example_config example_parent_tight 0x1000 2).1 2).pageinfo 9 =
        { owner := PO_FREE, refcount := 0 } :=
  have h := copy_pagetable_failure example_config example_parent_tight 0x1000 2
    (by unfold AllocSane; decide) (by decide) (by unfold NodesReferenced; decide)
  have h3 := h.2.2 (by decide) (by decide)
  ⟨by decide, h3.2.1 8 (by decide) (by decide), h3.2.1 9 (by decide) (by decide),
    h3.2.2.2.2 _ rfl (by decide) 9 (by decide) (by decide)⟩

/-! ## The page-allocation system call -/

theorem set_page_set_page (s : KernelState) (pn : Nat) (p p' : Nat → Nat) :
    set_page (set_page s pn p) pn p' = set_page s pn p' := by
  simp only [set_page]
  congr 1
  funext i
  by_cases h : i = pn <;> simp [h]

/-- Addresses on the same path through the tree are mapped or unmapped together. -/
theorem virtual_memory_lookup_samepath_none (m : Nat → Nat → Nat) (r va va' : Nat)
    (hsp : SamePath va va' 4) (h : virtual_memory_lookup m r va = none) :
    virtual_memory_lookup m r va' = none := by
  have hw := pt_walk_samepath m r va va' 3 (hsp.mono (by omega))
  have h3 : PAGEINDEX va 3 = PAGEINDEX va' 3 := hsp 3 (by omega)
  simp only [virtual_memory_lookup] at h ⊢
  rw [← hw, ← h3]
  cases hwalk : pt_walk m r va 3 with
  | none => rfl
  | some l4 =>
    rw [hwalk] at h
    simp only at h ⊢
    split at h
    · exact absurd h (by simp)
    · rename_i hp
      rw [if_neg hp]

/-- The `INT_SYS_PAGE_ALLOC` handler rejects an address that is misaligned or already
mapped before it touches anything else. -/
theorem sys_page_alloc_rejected (K : KernelConfig) (s : KernelState)
    (h : (s.processes s.current).p_registers.reg_rdi % 4096 ≠ 0 ∨
      ∃ vam, virtual_memory_lookup s.physmem (s.processes s.current).p_pagetable
        (s.processes s.current).p_registers.reg_rdi = some vam) :
    sys_page_alloc K s = set_reg_rax s s.current (uint64 (-1)) := by
  simp only [sys_page_alloc]
  by_cases ha : (s.processes s.current).p_registers.reg_rdi &&& 0xFFF ≠ 0
  · rw [if_pos ha]
  · rw [if_neg ha]
    rcases h with h | ⟨vam, h⟩
    · rw [and_0xFFF] at ha
      exact absurd h (by simpa using ha)
    · rw [h]

/-- The fields of a state after `set_reg_rax`. -/
theorem set_reg_rax_fields (s : KernelState) (i v : Nat) :
    (set_reg_rax s i v).pageinfo = s.pageinfo ∧ (set_reg_rax s i v).physmem = s.physmem ∧
      (set_reg_rax s i v).current = s.current ∧
      (set_reg_rax s i v).current_owner = s.current_owner ∧
      (set_reg_rax s i v).processes i =
        { s.processes i with
          p_registers := { (s.processes i).p_registers with reg_rax := v } } ∧
      (∀ j, j ≠ i → (set_reg_rax s i v).processes j = s.processes j) := by
  refine ⟨rfl, rfl, rfl, rfl, ?_, ?_⟩
  · simp [set_reg_rax]
  · intro j hj
    simp [set_reg_rax, hj]

/-- The successful path of the `INT_SYS_PAGE_ALLOC` handler: `find_free_page` returns the
lowest free page `fp`, the mapping step maps the address to it, and the handler returns 0.
Page records change only by allocation to the caller; referenced pages outside the
caller's page table keep their contents. -/
theorem sys_page_alloc_mapped_spec (K : KernelConfig) (s : KernelState)
    (hs : AllocSane K s) (ht : TreeOwned s (s.processes s.current).p_pagetable)
    (haligned : (s.processes s.current).p_registers.reg_rdi % 4096 = 0)
    (hunmapped : virtual_memory_lookup s.physmem (s.processes s.current).p_pagetable
      (s.processes s.current).p_registers.reg_rdi = none)
    (hfree : ∃ pn, pn < NPAGES K ∧ (s.pageinfo pn).refcount = 0)
    (hmap : ¬ (sys_page_alloc_map K s).2 < 0) :
    ∃ fp, 0 < fp ∧ fp < NPAGES K ∧ (s.pageinfo fp).refcount = 0 ∧
      (∀ j, j < fp → 0 < (s.pageinfo j).refcount) ∧
      sys_page_alloc K s = set_reg_rax (sys_page_alloc_map K s).1 s.current 0 ∧
      (sys_page_alloc_map K s).1.processes = s.processes ∧
      (sys_page_alloc_map K s).1.current = s.current ∧
      AllocSane K (sys_page_alloc_map K s).1 ∧
      TreeOwned (sys_page_alloc_map K s).1 (s.processes s.current).p_pagetable ∧
      virtual_memory_lookup (sys_page_alloc_map K s).1.physmem
          (s.processes s.current).p_pagetable (s.processes s.current).p_registers.reg_rdi =
        some { pn := fp, pa := PAGEADDRESS fp, perm := PTE_P ||| PTE_W ||| PTE_U } ∧
      (sys_page_alloc_map K s).1.pageinfo fp =
        { owner := int8 (s.processes s.current).p_pid, refcount := 1 } ∧
      (∀ va', ¬ SamePath (s.processes s.current).p_registers.reg_rdi va' 4 →
        virtual_memory_lookup (sys_page_alloc_map K s).1.physmem
            (s.processes s.current).p_pagetable va' =
          virtual_memory_lookup s.physmem (s.processes s.current).p_pagetable va') ∧
      (∀ pn, 0 < (s.pageinfo pn).refcount →
        ¬ IsNode s.physmem (s.processes s.current).p_pagetable pn →
        (sys_page_alloc_map K s).1.physmem pn = s.physmem pn) ∧
      (∀ pn, (sys_page_alloc_map K s).1.pageinfo pn = s.pageinfo pn ∨
        (pn < NPAGES K ∧ (s.pageinfo pn).refcount = 0 ∧
          (sys_page_alloc_map K s).1.pageinfo pn =
            { owner := int8 (s.processes s.current).p_pid, refcount := 1 })) := by
  have hs1 : AllocSane K (sys_page_alloc_owner s) := hs
  have ht1 : TreeOwned (sys_page_alloc_owner s) (s.processes s.current).p_pagetable := ht
  rcases find_free_page_alloc K (sys_page_alloc_owner s) hs1 with
    ⟨_, _, hall⟩ | ⟨fp, hfp0, hfpN, hrc, hbelow, hfp, hne, h1⟩
  · obtain ⟨pn, hpn, h0⟩ := hfree
    have := hall pn hpn
    have h0' : ((sys_page_alloc_owner s).pageinfo pn).refcount = 0 := h0
    omega
  have hrc' : (s.pageinfo fp).refcount = 0 := hrc
  obtain ⟨d1, d2, d3, d4, _⟩ := find_free_page_data_step K (sys_page_alloc_owner s)
    (s.processes s.current).p_pagetable fp (fun _ => 0) hs1 ht1 hfp0 hfpN hrc
  rw [set_page_set_page, ← h1] at d1 d2 d3 d4
  have hpa0 : PAGEADDRESS fp % 4096 = 0 := PAGEADDRESS_mod fp
  obtain ⟨m1, m2, m3, m4, m5, _⟩ := virtual_memory_map_spec K
    (find_free_page K (sys_page_alloc_owner s)).1 (s.processes s.current).p_pagetable
    (s.processes s.current).p_registers.reg_rdi (PAGEADDRESS fp) (PTE_P ||| PTE_W ||| PTE_U)
    d2 d3 hpa0 (by decide) (by decide)
  have hmapdef : sys_page_alloc_map K s =
      virtual_memory_map K (find_free_page K (sys_page_alloc_owner s)).1
        (s.processes s.current).p_pagetable (s.processes s.current).p_registers.reg_rdi
        (PAGEADDRESS fp) PAGESIZE (PTE_P ||| PTE_W ||| PTE_U) true := by
    simp only [sys_page_alloc_map, hfp, PAGENUMBER_PAGEADDRESS]
  rw [← hmapdef] at m1 m2 m3 m4 m5
  have hfpinfo : (find_free_page K (sys_page_alloc_owner s)).1.pageinfo fp =
      { owner := int8 (s.processes s.current).p_pid, refcount := 1 } := by
    rw [h1]
    simp [sys_page_alloc_owner]
  have hinfo2 : ∀ pn, pn ≠ fp →
      (find_free_page K (sys_page_alloc_owner s)).1.pageinfo pn = s.pageinfo pn := by
    intro pn hp
    rw [h1]
    simp [sys_page_alloc_owner, hp]
  have hmem2 : ∀ pn, pn ≠ fp →
      (find_free_page K (sys_page_alloc_owner s)).1.physmem pn = s.physmem pn := by
    intro pn hp
    rw [h1]
    simp [sys_page_alloc_owner, hp]
  refine ⟨fp, hfp0, hfpN, hrc', hbelow, ?_, ?_, ?_, m2, m3, ?_, ?_, ?_, ?_, ?_⟩
  · simp only [sys_page_alloc]
    rw [if_neg (by rw [and_0xFFF]; simpa using haligned), hunmapped]
    simp only
    rw [if_neg hne, if_neg hmap]
  · rw [m1.1, d1.1]
    rfl
  · rw [m1.2.1, d1.2.1]
    rfl
  · rw [m4 hmap]
    have h4 : PAGEADDRESS fp / 4096 = fp := PAGENUMBER_PAGEADDRESS fp
    simp only [h4, PAGESIZE, haligned, Nat.add_zero]
  · rcases m1.2.2.2.2.2.1 fp with h | ⟨_, h, _⟩
    · rw [h, hfpinfo]
    · rw [hfpinfo] at h
      exact absurd (show (1 : Int) = 0 from h) (by decide)
  · intro va' hsp
    rw [m5 va' hsp, d4 va']
    rfl
  · intro pn hpos hnn
    have hp : pn ≠ fp := by
      intro hc
      rw [hc] at hpos
      omega
    have hpos2 : 0 < ((find_free_page K (sys_page_alloc_owner s)).1.pageinfo pn).refcount := by
      rw [hinfo2 pn hp]
      exact hpos
    have hnn2 : ¬ IsNode (find_free_page K (sys_page_alloc_owner s)).1.physmem
        (s.processes s.current).p_pagetable pn := by
      intro hn
      rcases d1.2.2.2.2.1 pn hn with h | ⟨_, h⟩
      · exact hnn h
      · have h' : (s.pageinfo pn).refcount = 0 := h
        omega
    rw [m1.2.2.2.2.2.2 pn hpos2 hnn2, hmem2 pn hp]
  · intro pn
    by_cases hp : pn = fp
    · right
      rw [hp]
      refine ⟨hfpN, hrc', ?_⟩
      rcases m1.2.2.2.2.2.1 fp with h | ⟨_, h, _⟩
      · rw [h, hfpinfo]
      · rw [hfpinfo] at h
        exact absurd (show (1 : Int) = 0 from h) (by decide)
    · rcases m1.2.2.2.2.2.1 pn with h | ⟨h1', h2', h3'⟩
      · left
        rw [h, hinfo2 pn hp]
      · right
        rw [hinfo2 pn hp] at h2'
        refine ⟨h1', h2', ?_⟩
        rw [h3', d1.2.2.1]
        rfl

/-- The page table of the example states is a chain: the node of level `l` on any path is
page `l + 1`, reached through entry 0 of each node above it. -/
theorem example_chain (m : Nat → Nat → Nat)
    (h1 : ∀ i, m 1 i = if i = 0 then 0x2007 else 0)
    (h2 : ∀ i, m 2 i = if i = 0 then 0x3007 else 0)
    (h3 : ∀ i, m 3 i = if i = 0 then 0x4007 else 0) (va l a : Nat) (hl : l ≤ 3)
    (hw : pt_walk m 0x1000 va l = some a) :
    a = (l + 1) * 4096 ∧ ∀ i, i < l → PAGEINDEX va i = 0 := by
  have hn1 : pt_next m 0x1000 va 0 = if PAGEINDEX va 0 = 0 then some 0x2000 else none := by
    have hp : PAGENUMBER 0x1000 = 1 := by decide
    simp only [pt_next, pt_entry, hp, h1]
    by_cases hi : PAGEINDEX va 0 = 0
    · rw [if_pos hi, if_pos hi]
      rw [if_pos (by decide)]
      rfl
    · rw [if_neg hi, if_neg hi]
      rw [if_neg (by decide)]
  have hn2 : pt_next m 0x2000 va 1 = if PAGEINDEX va 1 = 0 then some 0x3000 else none := by
    have hp : PAGENUMBER 0x2000 = 2 := by decide
    simp only [pt_next, pt_entry, hp, h2]
    by_cases hi : PAGEINDEX va 1 = 0
    · rw [if_pos hi, if_pos hi]
      rw [if_pos (by decide)]
      rfl
    · rw [if_neg hi, if_neg hi]
      rw [if_neg (by decide)]
  have hn3 : pt_next m 0x3000 va 2 = if PAGEINDEX va 2 = 0 then some 0x4000 else none := by
    have hp : PAGENUMBER 0x3000 = 3 := by decide
    simp only [pt_next, pt_entry, hp, h3]
    by_cases hi : PAGEINDEX va 2 = 0
    · rw [if_pos hi, if_pos hi]
      rw [if_pos (by decide)]
      rfl
    · rw [if_neg hi, if_neg hi]
      rw [if_neg (by decide)]
  have hw1 : pt_walk m 0x1000 va 1 = if PAGEINDEX va 0 = 0 then some 0x2000 else none := by
    rw [pt_walk_succ, pt_walk_zero]
    exact hn1
  have hw2 : pt_walk m 0x1000 va 2 =
      if PAGEINDEX va 0 = 0 ∧ PAGEINDEX va 1 = 0 then some 0x3000 else none := by
    rw [pt_walk_succ, hw1]
    by_cases hi : PAGEINDEX va 0 = 0
    · rw [if_pos hi]
      simp only [hn2, hi, true_and]
    · rw [if_neg hi, if_neg (fun hc => hi hc.1)]
  have hw3 : pt_walk m 0x1000 va 3 =
      if PAGEINDEX va 0 = 0 ∧ PAGEINDEX va 1 = 0 ∧ PAGEINDEX va 2 = 0 then some 0x4000
      else none := by
    rw [pt_walk_succ, hw2]
    by_cases hi : PAGEINDEX va 0 = 0 ∧ PAGEINDEX va 1 = 0
    · rw [if_pos hi]
      simp only [hn3, hi.1, hi.2, true_and]
    · rw [if_neg hi, if_neg (fun hc => hi ⟨hc.1, hc.2.1⟩)]
  have hcases : l = 0 ∨ l = 1 ∨ l = 2 ∨ l = 3 := by omega
  rcases hcases with h | h | h | h
  · subst h
    rw [pt_walk_zero] at hw
    refine ⟨(Option.some.inj hw).symm, fun i hi => absurd hi (by omega)⟩
  · subst h
    rw [hw1] at hw
    split at hw
    · rename_i h0
      refine ⟨(Option.some.inj hw).symm, fun i hi => ?_⟩
      have : i = 0 := by omega
      rw [this]
      exact h0
    · exact absurd hw (by simp)
  · subst h
    rw [hw2] at hw
    split at hw
    · rename_i h0
      refine ⟨(Option.some.inj hw).symm, fun i hi => ?_⟩
      have : i = 0 ∨ i = 1 := by omega
      rcases this with h | h
      · rw [h]; exact h0.1
      · rw [h]; exact h0.2
    · exact absurd hw (by simp)
  · subst h
    rw [hw3] at hw
    split at hw
    · rename_i h0
      refine ⟨(Option.some.inj hw).symm, fun i hi => ?_⟩
      have : i = 0 ∨ i = 1 ∨ i = 2 := by omega
      rcases this with h | h | h
      · rw [h]; exact h0.1
      · rw [h]; exact h0.2.1
      · rw [h]; exact h0.2.2
    · exact absurd hw (by simp)

/-- A chain of four referenced pages is a page table in the sense of `TreeOwned`. -/
theorem example_chain_tree (s : KernelState)
    (h1 : ∀ i, s.physmem 1 i = if i = 0 then 0x2007 else 0)
    (h2 : ∀ i, s.physmem 2 i = if i = 0 then 0x3007 else 0)
    (h3 : ∀ i, s.physmem 3 i = if i = 0 then 0x4007 else 0)
    (hrc : ∀ n, 1 ≤ n → n ≤ 4 → 0 < (s.pageinfo n).refcount) : TreeOwned s 0x1000 := by
  refine ⟨?_, ?_⟩
  · intro va va' l l' a a' hl hl' hw hw' hpn
    obtain ⟨ha, hidx⟩ := example_chain s.physmem h1 h2 h3 va l a hl hw
    obtain ⟨ha', hidx'⟩ := example_chain s.physmem h1 h2 h3 va' l' a' hl' hw'
    have hll : l = l' := by
      rw [ha, ha'] at hpn
      simp only [PAGENUMBER, PAGESIZE] at hpn
      omega
    refine ⟨hll, fun i hi => ?_⟩
    rw [hidx i hi, hidx' i (by omega)]
  · rintro n ⟨va, l, a, hl, hw, hpn⟩
    obtain ⟨ha, _⟩ := example_chain s.physmem h1 h2 h3 va l a hl hw
    rw [ha] at hpn
    simp only [PAGENUMBER, PAGESIZE] at hpn
    exact hrc n (by omega) (by omega)

theorem example_parent_tree : TreeOwned example_parent 0x1000 :=
  example_chain_tree example_parent (by intro i; simp [example_parent])
    (by intro i; simp [example_parent]) (by intro i; simp [example_parent])
    (by
      intro n h1 h4
      have : n = 1 ∨ n = 2 ∨ n = 3 ∨ n = 4 := by omega
      rcases this with h | h | h | h <;> · rw [h]; decide)

theorem example_parent_sane : AllocSane example_config example_parent := by
  unfold AllocSane
  decide

/-- C13. page-alloc, success case.  In a state where allocation is well behaved, the
caller's page table is a tree of referenced pages and the caller's pid fits the 8-bit
owner field: if the requested address is page-aligned and unmapped in the current
process, a free physical page exists and the mapping step succeeds, then the syscall
returns 0; the address is mapped Present+Writable+User to the lowest-numbered page that
was free; that page has owner = current pid and reference count 1; every mapping the
current process had is unchanged; the descriptor of every other process is unchanged, and
so is every lookup of its page table, provided the nodes of that table are referenced
pages outside the caller's table. -/
theorem sys_page_alloc_success (K : KernelConfig) (s : KernelState)
    (hs : AllocSane K s) (ht : TreeOwned s (s.processes s.current).p_pagetable)
    (hpid : 0 ≤ (s.processes s.current).p_pid ∧ (s.processes s.current).p_pid < 128)
    (haligned : (s.processes s.current).p_registers.reg_rdi % PAGESIZE = 0)
    (hunmapped : virtual_memory_lookup s.physmem (s.processes s.current).p_pagetable
      (s.processes s.current).p_registers.reg_rdi = none)
    (hfree : ∃ pn, pn < NPAGES K ∧ (s.pageinfo pn).refcount = 0)
    (hmap : ¬ (sys_page_alloc_map K s).2 < 0) :
    ((sys_page_alloc K s).processes s.current).p_registers.reg_rax = 0 ∧
      ((sys_page_alloc K s).processes s.current).p_pagetable =
        (s.processes s.current).p_pagetable ∧
      ∃ fp, fp < NPAGES K ∧ (s.pageinfo fp).refcount = 0 ∧
        (∀ j, j < fp → (s.pageinfo j).refcount ≠ 0) ∧
        virtual_memory_lookup (sys_page_alloc K s).physmem
            (s.processes s.current).p_pagetable
            (s.processes s.current).p_registers.reg_rdi =
          some { pn := fp, pa := PAGEADDRESS fp, perm := PTE_P ||| PTE_W ||| PTE_U } ∧
        (sys_page_alloc K s).pageinfo fp =
          { owner := (s.processes s.current).p_pid, refcount := 1 } ∧
        (∀ va' m,
          virtual_memory_lookup s.physmem (s.processes s.current).p_pagetable va' = some m →
          virtual_memory_lookup (sys_page_alloc K s).physmem
            (s.processes s.current).p_pagetable va' = some m) ∧
        (∀ j, j ≠ s.current →
          (sys_page_alloc K s).processes j = s.processes j ∧
          ((∀ va k a, k ≤ 3 →
              pt_walk s.physmem (s.processes j).p_pagetable va k = some a →
              0 < (s.pageinfo (PAGENUMBER a)).refcount ∧
                ¬ IsNode s.physmem (s.processes s.current).p_pagetable (PAGENUMBER a)) →
            ∀ va, virtual_memory_lookup (sys_page_alloc K s).physmem
                (s.processes j).p_pagetable va =
              virtual_memory_lookup s.physmem (s.processes j).p_pagetable va)) := by
  obtain ⟨fp, _, hfpN, hrc, hbelow, hres, hproc, _, _, _, hlk, hinfo, hoth, hmem, _⟩ :=
    sys_page_alloc_mapped_spec K s hs ht haligned hunmapped hfree hmap
  obtain ⟨f1, f2, _, _, f5, f6⟩ := set_reg_rax_fields (sys_page_alloc_map K s).1 s.current 0
  rw [hres]
  refine ⟨by rw [f5], by rw [f5, hproc], fp, hfpN, hrc, ?_, ?_, ?_, ?_, ?_⟩
  · intro j hj
    have := hbelow j hj
    omega
  · rw [f2]
    exact hlk
  · rw [f1, hinfo, int8_of_range _ (by omega) (by omega)]
  · intro va' m hm
    rw [f2]
    by_cases hsp : SamePath (s.processes s.current).p_registers.reg_rdi va' 4
    · have := virtual_memory_lookup_samepath_none s.physmem _ _ va' hsp hunmapped
      rw [this] at hm
      exact absurd hm (by simp)
    · rw [hoth va' hsp]
      exact hm
  · intro j hj
    refine ⟨by rw [f6 j hj, hproc], ?_⟩
    intro hnodes va
    rw [f2]
    exact (virtual_memory_lookup_frame s.physmem (sys_page_alloc_map K s).1.physmem
      (s.processes j).p_pagetable va
      (fun k a hk hw => hmem _ (hnodes va k a hk hw).1 (hnodes va k a hk hw).2)).2

/-- Witness for C13: process 1 of the example parent asks for a page at `0x6000`; it
gets page 8, the lowest free page, and its mapping of `0x5000` is as before. -/
theorem sys_page_alloc_success_witness :
    ((sys_page_alloc example_config (example_alloc_trap 0x6000)).processes
        1).p_registers.reg_rax = 0 ∧
      virtual_memory_lookup (sys_page_alloc example_config (example_alloc_trap 0x6000)).physmem
          0x1000 0x6000 =
        some { pn := 8, pa := 0x8000, perm := PTE_P ||| PTE_W ||| PTE_U } ∧
      (sys_page_alloc example_config (example_alloc_trap 0x6000)).pageinfo 8 =
        { owner := 1, refcount := 1 } ∧
      virtual_memory_lookup (sys_page_alloc example_config (example_alloc_trap 0x6000)).physmem
          0x1000 0x5000 = some { pn := 6, pa := 0x6000, perm := 7 } :=
  have h := sys_page_alloc_success example_config (example_alloc_trap 0x6000)
    example_parent_sane example_parent_tree (by decide) (by decide) (by decide)
    ⟨8, by decide, by decide⟩ (by decide)
  ⟨h.1, by decide, by decide,
    by
      obtain ⟨_, _, fp, _, _, _, _, _, hkeep, _⟩ := h
      exact hkeep 0x5000 { pn := 6, pa := 0x6000, perm := 7 } (by decide)⟩

/-- C14. page-alloc, invalid request.  For every state, if the requested address is not a
multiple of 4096, or is already mapped in the current process, the syscall returns -1 and
the state is as before except for the caller's return-value register: the ownership
table, all of memory (and with it every page table), the other registers of the caller,
and the pid, state and page-table pointer of every process are unchanged. -/
theorem sys_page_alloc_invalid (K : KernelConfig) (s : KernelState)
    (h : (s.processes s.current).p_registers.reg_rdi % 4096 ≠ 0 ∨
      ∃ vam, virtual_memory_lookup s.physmem (s.processes s.current).p_pagetable
        (s.processes s.current).p_registers.reg_rdi = some vam) :
    ((sys_page_alloc K s).processes s.current).p_registers =
        { (s.processes s.current).p_registers with reg_rax := uint64 (-1) } ∧
      uint64 (-1) = 2 ^ 64 - 1 ∧
      (sys_page_alloc K s).pageinfo = s.pageinfo ∧
      (sys_page_alloc K s).physmem = s.physmem ∧
      (sys_page_alloc K s).current = s.current ∧
      (sys_page_alloc K s).current_owner = s.current_owner ∧
      (∀ j, ((sys_page_alloc K s).processes j).p_state = (s.processes j).p_state ∧
        ((sys_page_alloc K s).processes j).p_pagetable = (s.processes j).p_pagetable ∧
        ((sys_page_alloc K s).processes j).p_pid = (s.processes j).p_pid) ∧
      (∀ j, j ≠ s.current → (sys_page_alloc K s).processes j = s.processes j) := by
  rw [sys_page_alloc_rejected K s h]
  obtain ⟨f1, f2, f3, f4, f5, f6⟩ := set_reg_rax_fields s s.current (uint64 (-1))
  refine ⟨by rw [f5], by decide, f1, f2, f3, f4, ?_, f6⟩
  intro j
  by_cases hj : j = s.current
  · rw [hj, f5]
    exact ⟨rfl, rfl, rfl⟩
  · rw [f6 j hj]
    exact ⟨rfl, rfl, rfl⟩

/-- Witness for C14: process 1 of the example parent asks for a page at `0x5000`, which
it has mapped already. -/
theorem sys_page_alloc_invalid_witness :
    ((sys_page_alloc example_config (example_alloc_trap 0x5000)).processes
        1).p_registers.reg_rax = 2 ^ 64 - 1 ∧
      (sys_page_alloc example_config (example_alloc_trap 0x5000)).pageinfo =
        example_parent.pageinfo ∧
      (sys_page_alloc example_config (example_alloc_trap 0x5000)).physmem =
        example_parent.physmem :=
  have h := sys_page_alloc_invalid example_config (example_alloc_trap 0x5000)
    (Or.inr ⟨{ pn := 6, pa := 0x6000, perm := 7 }, by decide⟩)
  ⟨by rw [show (example_alloc_trap 0x5000).current = 1 from rfl] at h; rw [h.1]; decide,
    h.2.2.1, h.2.2.2.1⟩

/-- C15, as amended.  The page-alloc handler compares the requested address with nothing
but its own page table: a page-aligned address at or above `MEMSIZE_VIRTUAL` is treated
like any other address.  In a state where allocation is well behaved and the caller's
page table is a tree of referenced pages: if the address is already mapped in the current
process, the syscall returns -1 and neither the ownership table nor memory changes; if it
is unmapped, a free physical page exists and the mapping step succeeds, the syscall
returns 0 and the address is mapped Present+Writable+User to the lowest-numbered page that
was free, which is then recorded for the caller with reference count 1. -/
theorem sys_page_alloc_out_of_range (K : KernelConfig) (s : KernelState)
    (hs : AllocSane K s) (ht : TreeOwned s (s.processes s.current).p_pagetable)
    (haligned : (s.processes s.current).p_registers.reg_rdi % PAGESIZE = 0)
    (hrange : K.MEMSIZE_VIRTUAL ≤ (s.processes s.current).p_registers.reg_rdi) :
    ((∃ vam, virtual_memory_lookup s.physmem (s.processes s.current).p_pagetable
          (s.processes s.current).p_registers.reg_rdi = some vam) →
        ((sys_page_alloc K s).processes s.current).p_registers.reg_rax = uint64 (-1) ∧
          (sys_page_alloc K s).pageinfo = s.pageinfo ∧
          (sys_page_alloc K s).physmem = s.physmem) ∧
      (virtual_memory_lookup s.physmem (s.processes s.current).p_pagetable
          (s.processes s.current).p_registers.reg_rdi = none →
        (∃ pn, pn < NPAGES K ∧ (s.pageinfo pn).refcount = 0) →
        ¬ (sys_page_alloc_map K s).2 < 0 →
        ((sys_page_alloc K s).processes s.current).p_registers.reg_rax = 0 ∧
          ∃ fp, fp < NPAGES K ∧ (s.pageinfo fp).refcount = 0 ∧
            (∀ j, j < fp → (s.pageinfo j).refcount ≠ 0) ∧
            K.MEMSIZE_VIRTUAL ≤ (s.processes s.current).p_registers.reg_rdi ∧
            virtual_memory_lookup (sys_page_alloc K s).physmem
                (s.processes s.current).p_pagetable
                (s.processes s.current).p_registers.reg_rdi =
              some { pn := fp, pa := PAGEADDRESS fp, perm := PTE_P ||| PTE_W ||| PTE_U } ∧
            (sys_page_alloc K s).pageinfo fp =
              { owner := int8 (s.processes s.current).p_pid, refcount := 1 }) := by
  refine ⟨?_, ?_⟩
  · intro hmapped
    rw [sys_page_alloc_rejected K s (Or.inr hmapped)]
    obtain ⟨f1, f2, _, _, f5, _⟩ := set_reg_rax_fields s s.current (uint64 (-1))
    exact ⟨by rw [f5], f1, f2⟩
  · intro hunmapped hfree hmap
    obtain ⟨fp, _, hfpN, hrc, hbelow, hres, _, _, _, _, hlk, hinfo, _⟩ :=
      sys_page_alloc_mapped_spec K s hs ht haligned hunmapped hfree hmap
    obtain ⟨f1, f2, _, _, f5, _⟩ := set_reg_rax_fields (sys_page_alloc_map K s).1 s.current 0
    rw [hres]
    refine ⟨by rw [f5], fp, hfpN, hrc, ?_, hrange, ?_, ?_⟩
    · intro j hj
      have := hbelow j hj
      omega
    · rw [f2]
      exact hlk
    · rw [f1]
      exact hinfo

/-- Witness for C15: in the small configuration `MEMSIZE_VIRTUAL` is `0x8000`; process 1
of the example parent asks for a page at `0x9000` and gets page 8 mapped there. -/
theorem sys_page_alloc_out_of_range_witness :
    example_config.MEMSIZE_VIRTUAL ≤ 0x9000 ∧
      ((sys_page_alloc example_config (example_alloc_trap 0x9000)).processes
        1).p_registers.reg_rax = 0 ∧
      virtual_memory_lookup (sys_page_alloc example_config (example_alloc_trap 0x9000)).physmem
          0x1000 0x9000 =
        some { pn := 8, pa := 0x8000, perm := PTE_P ||| PTE_W ||| PTE_U } :=
  have h := (sys_page_alloc_out_of_range example_config (example_alloc_trap 0x9000)
    example_parent_sane example_parent_tree (by decide) (by decide)).2 (by decide)
    ⟨8, by decide, by decide⟩ (by decide)
  ⟨by decide, h.1, by decide⟩

/-! ## Exhaustion -/

theorem process_cleanup_partial_physmem (K : KernelConfig) (u : KernelState) (pid : Int)
    (vaLast : Nat) : ( process_cleanup_partial K u pid vaLast).physmem = u.physmem := by
  simp only [ process_cleanup_partial]
  split <;> simp [set_p_state, set_p_pagetable]

theorem process_cleanup_loop_current (pid : Int) (vaLast : Nat) (l : List Nat) :
    ∀ s : KernelState, (process_cleanup_loop pid vaLast l s).current = s.current := by
  induction l with
  | nil => intro s; rfl
  | cons va rest ih =>
    intro s
    simp only [process_cleanup_loop]
    split
    · rfl
    · split
      · exact ih s
      · rw [ih]
        simp

theorem process_cleanup_sweep_current (pid : Int) (l : List Nat) :
    ∀ s : KernelState, (process_cleanup_sweep pid l s).current = s.current := by
  induction l with
  | nil => intro s; rfl
  | cons i rest ih =>
    intro s
    rw [process_cleanup_sweep_cons, ih]
    split <;> simp

theorem process_cleanup_partial_current (K : KernelConfig) (u : KernelState) (pid : Int)
    (vaLast : Nat) : ( process_cleanup_partial K u pid vaLast).current = u.current := by
  simp only [ process_cleanup_partial]
  split <;>
    simp [set_p_state, set_p_pagetable, process_cleanup_sweep_current,
      process_cleanup_loop_current]

/-- With every page referenced the page-alloc handler fails at `find_free_page`: the
result is the input state with the new `current_owner` and return value -1. -/
theorem sys_page_alloc_exhausted (K : KernelConfig) (s : KernelState)
    (hall : ∀ pn, pn < NPAGES K → 0 < (s.pageinfo pn).refcount)
    (haligned : (s.processes s.current).p_registers.reg_rdi % 4096 = 0)
    (hunmapped : virtual_memory_lookup s.physmem (s.processes s.current).p_pagetable
      (s.processes s.current).p_registers.reg_rdi = none) :
    sys_page_alloc K s = set_reg_rax (sys_page_alloc_owner s) s.current (uint64 (-1)) := by
  obtain ⟨h2, h1⟩ := find_free_page_exhausted K (sys_page_alloc_owner s) hall
  simp only [sys_page_alloc]
  rw [if_neg (by rw [and_0xFFF]; simpa using haligned), hunmapped]
  simp only
  rw [if_pos h2, h1]

/-- With every page referenced `fork` fails: either no slot is free, or the clone of the
page table fails at its first allocation and the slot is cleaned up again. -/
theorem sys_fork_exhausted (K : KernelConfig) (s : KernelState)
    (hall : ∀ pn, pn < NPAGES K → 0 < (s.pageinfo pn).refcount)
    (hrun : (s.processes s.current).p_state = procstate.P_RUNNABLE)
    (hstale : ∀ pn, pn < NPAGES K → ∀ j, 1 ≤ j → j < K.NPROC →
      (s.processes j).p_state = procstate.P_FREE → (s.pageinfo pn).owner ≠ j) :
    ((sys_fork K s).1.processes s.current).p_registers =
        { (s.processes s.current).p_registers with reg_rax := uint64 (-1) } ∧
      (∀ pn, pn < NPAGES K → (sys_fork K s).1.pageinfo pn = s.pageinfo pn) ∧
      (sys_fork K s).1.physmem = s.physmem ∧
      (sys_fork K s).1.current = s.current ∧
      (∀ j, ((sys_fork K s).1.processes j).p_state = (s.processes j).p_state) ∧
      ((sys_fork K s).1.processes s.current).p_pagetable =
        (s.processes s.current).p_pagetable ∧
      (∀ j, (s.processes j).p_state ≠ procstate.P_FREE → j ≠ s.current →
        (sys_fork K s).1.processes j = s.processes j) := by
  obtain ⟨hf1, _, hffree⟩ := sys_fork_find_slot_result K s
  simp only [sys_fork]
  by_cases h1 : K.NPROC ≤ sys_fork_find_slot K s K.NPROC 1
  · rw [if_pos h1]
    obtain ⟨f1, f2, f3, _, f5, f6⟩ := set_reg_rax_fields s s.current (uint64 (-1))
    refine ⟨by rw [f5], fun pn _ => by rw [f1], f2, f3, ?_, by rw [f5], fun j _ hj => f6 j hj⟩
    intro j
    by_cases hj : j = s.current
    · rw [hj, f5]
    · rw [f6 j hj]
  rw [if_neg h1]
  generalize hf : sys_fork_find_slot K s K.NPROC 1 = f at hf1 hffree h1
  have hflt : f < K.NPROC := by omega
  have hfree := hffree hflt
  have hfp : f ≠ s.current := by
    intro hc
    rw [hc, hrun] at hfree
    exact absurd hfree (by decide)
  -- the clone fails at the root
  have hall0 : ∀ pn, pn < NPAGES K →
      0 < (({ set_p_state s f procstate.P_RUNNABLE with
        current_owner := int8 (s.processes f).p_pid } : KernelState).pageinfo pn).refcount :=
    hall
  obtain ⟨h2, h1'⟩ := find_free_page_exhausted K
    { set_p_state s f procstate.P_RUNNABLE with
      current_owner := int8 (s.processes f).p_pid } hall0
  have hclone : sys_fork_clone K s f =
      set_p_pagetable { set_p_state s f procstate.P_RUNNABLE with
        current_owner := int8 (s.processes f).p_pid } f NULL := by
    simp only [sys_fork_clone, copy_pagetable, h2, h1', if_true]
  have hnull : ((sys_fork_clone K s f).processes f).p_pagetable = NULL := by
    rw [hclone]
    simp [set_p_pagetable]
  rw [if_pos hnull]
  obtain ⟨e1, _, e3, e4⟩ :=
    process_cleanup_partial_fields_null K (sys_fork_clone K s f) f K.MEMSIZE_VIRTUAL hnull
  obtain ⟨f1, f2, f3, _, f5, f6⟩ :=
    set_reg_rax_fields (process_cleanup K (sys_fork_clone K s f) f) s.current (uint64 (-1))
  have hcl : ∀ j, j ≠ f → (sys_fork_clone K s f).processes j = s.processes j :=
    (sys_fork_clone_frame K s f).2
  have hpc : (process_cleanup K (sys_fork_clone K s f) f).processes s.current =
      s.processes s.current := by
    show ( process_cleanup_partial K (sys_fork_clone K s f) f K.MEMSIZE_VIRTUAL).processes
      s.current = _
    rw [e3 s.current (fun h => hfp h.symm), hcl s.current (fun h => hfp h.symm)]
  refine ⟨by rw [f5, hpc], ?_, ?_, ?_, ?_, by rw [f5, hpc], ?_⟩
  · intro pn hpn
    rw [f1]
    show ( process_cleanup_partial K (sys_fork_clone K s f) f K.MEMSIZE_VIRTUAL).pageinfo pn = _
    rw [e4 pn, process_cleanup_sweep_pageinfo f pn _ _ (List.nodup_range _)]
    have hpi : (sys_fork_clone K s f).pageinfo pn = s.pageinfo pn := by
      rw [hclone]
      rfl
    rw [hpi, if_neg]
    rintro ⟨_, hc⟩
    exact hstale pn hpn f hf1 hflt hfree hc
  · rw [f2]
    show ( process_cleanup_partial K (sys_fork_clone K s f) f K.MEMSIZE_VIRTUAL).physmem = _
    rw [process_cleanup_partial_physmem, hclone]
    rfl
  · rw [f3]
    show ( process_cleanup_partial K (sys_fork_clone K s f) f K.MEMSIZE_VIRTUAL).current = _
    rw [process_cleanup_partial_current, hclone]
    rfl
  · intro j
    by_cases hj : j = s.current
    · rw [hj, f5, hpc]
    · rw [f6 j hj]
      by_cases hjf : j = f
      · rw [hjf, hfree]
        exact e1
      · show (( process_cleanup_partial K (sys_fork_clone K s f) f
          K.MEMSIZE_VIRTUAL).processes j).p_state = _
        rw [e3 j hjf, hcl j hjf]
  · intro j hjs hj
    have hjf : j ≠ f := by
      intro hc
      rw [hc] at hjs
      exact hjs hfree
    rw [f6 j hj]
    show ( process_cleanup_partial K (sys_fork_clone K s f) f K.MEMSIZE_VIRTUAL).processes j = _
    rw [e3 j hjf, hcl j hjf]

/-- C16. Exhaustion law for syscalls.  In every state in which every physical page has a
positive reference count, the caller is Runnable and no page is recorded for the pid of a
Free slot (the condition `check_virtual_memory` asserts for referenced pages): a
page-alloc syscall with a page-aligned, unmapped address and a fork syscall each return -1
to the caller, with the caller's other registers as they were; the owner and reference
count of every page, all of memory (and with it every page-table mapping) and the state of
every process are unchanged; the descriptor of every process that is not Free is
unchanged apart from the caller's return value; the caller remains Runnable. -/
theorem syscall_exhaustion (K : KernelConfig) (s : KernelState)
    (hall : ∀ pn, pn < NPAGES K → 0 < (s.pageinfo pn).refcount)
    (hrun : (s.processes s.current).p_state = procstate.P_RUNNABLE)
    (hstale : ∀ pn, pn < NPAGES K → ∀ j, 1 ≤ j → j < K.NPROC →
      (s.processes j).p_state = procstate.P_FREE → (s.pageinfo pn).owner ≠ j) :
    ((s.processes s.current).p_registers.reg_rdi % PAGESIZE = 0 →
        virtual_memory_lookup s.physmem (s.processes s.current).p_pagetable
          (s.processes s.current).p_registers.reg_rdi = none →
        ((sys_page_alloc K s).processes s.current).p_registers =
            { (s.processes s.current).p_registers with reg_rax := uint64 (-1) } ∧
          (sys_page_alloc K s).pageinfo = s.pageinfo ∧
          (sys_page_alloc K s).physmem = s.physmem ∧
          (∀ j, ((sys_page_alloc K s).processes j).p_state = (s.processes j).p_state ∧
            ((sys_page_alloc K s).processes j).p_pagetable = (s.processes j).p_pagetable) ∧
          (∀ j, j ≠ s.current → (sys_page_alloc K s).processes j = s.processes j) ∧
          ((sys_page_alloc K s).processes s.current).p_state = procstate.P_RUNNABLE) ∧
      (((sys_fork K s).1.processes s.current).p_registers =
          { (s.processes s.current).p_registers with reg_rax := uint64 (-1) } ∧
        (∀ pn, pn < NPAGES K → (sys_fork K s).1.pageinfo pn = s.pageinfo pn) ∧
        (sys_fork K s).1.physmem = s.physmem ∧
        (∀ j, ((sys_fork K s).1.processes j).p_state = (s.processes j).p_state) ∧
        (∀ j, (s.processes j).p_state ≠ procstate.P_FREE →
          ((sys_fork K s).1.processes j).p_pagetable = (s.processes j).p_pagetable) ∧
        (∀ j, (s.processes j).p_state ≠ procstate.P_FREE → j ≠ s.current →
          (sys_fork K s).1.processes j = s.processes j) ∧
        ((sys_fork K s).1.processes s.current).p_state = procstate.P_RUNNABLE) := by
  refine ⟨?_, ?_⟩
  · intro haligned hunmapped
    rw [sys_page_alloc_exhausted K s hall haligned hunmapped]
    obtain ⟨f1, f2, _, _, f5, f6⟩ :=
      set_reg_rax_fields (sys_page_alloc_owner s) s.current (uint64 (-1))
    refine ⟨by rw [f5]; rfl, f1, f2, ?_, fun j hj => by rw [f6 j hj]; rfl,
      by rw [f5]; exact hrun⟩
    intro j
    by_cases hj : j = s.current
    · rw [hj, f5]
      exact ⟨rfl, rfl⟩
    · rw [f6 j hj]
      exact ⟨rfl, rfl⟩
  · obtain ⟨g1, g2, g3, _, g5, g6, g7⟩ := sys_fork_exhausted K s hall hrun hstale
    refine ⟨g1, g2, g3, g5, ?_, g7, by rw [g5]; exact hrun⟩
    intro j hjs
    by_cases hj : j = s.current
    · rw [hj]
      exact g6
    · rw [g7 j hjs hj]

/-- Witness for C16: in the example parent without a free page, the page-alloc of
process 1 at `0x6000` and its fork both return -1 and leave the ownership table as it
was. -/
theorem syscall_exhaustion_witness :
    ((sys_page_alloc example_config
        (exception_save example_parent_full
          { example_registers with reg_rdi := 0x6000 })).processes 1).p_registers.reg_rax =
        uint64 (-1) ∧
      ((sys_fork example_config
        (exception_save example_parent_full
          { example_registers with reg_rdi := 0x6000 })).1.processes 1).p_registers.reg_rax =
        uint64 (-1) ∧
      (∀ pn, pn < NPAGES example_config →
        (sys_fork example_config
          (exception_save example_parent_full
            { example_registers with reg_rdi := 0x6000 })).1.pageinfo pn =
          example_parent_full.pageinfo pn) :=
  have h := syscall_exhaustion example_config
    (exception_save example_parent_full { example_registers with reg_rdi := 0x6000 })
    (by decide) (by decide) (by decide)
  have h1 := h.1 (by decide) (by decide)
  ⟨by
      have := h1.1
      rw [show (exception_save example_parent_full
        { example_registers with reg_rdi := 0x6000 }).current = 1 from rfl] at this
      rw [this],
    by
      have := h.2.1
      rw [show (exception_save example_parent_full
        { example_registers with reg_rdi := 0x6000 }).current = 1 from rfl] at this
      rw [this],
    h.2.2.1⟩

/-! ## Allocation until the pool is empty -/

theorem countP_range_update (p p' : Nat → Bool) (fp : Nat) (hp : p fp = true)
    (hp' : p' fp = false) (hoth : ∀ n, n ≠ fp → p' n = p n) :
    ∀ N, (List.range N).countP p = (List.range N).countP p' + (if fp < N then 1 else 0) := by
  intro N
  induction N with
  | zero => simp
  | succ n ih =>
    have hc : ∀ q : Nat → Bool, List.countP q [n] = if q n = true then 1 else 0 := by
      intro q
      simp [List.countP_cons]
    rw [List.range_succ, List.countP_append, List.countP_append, ih, hc p, hc p']
    by_cases hn : n = fp
    · subst hn
      simp [hp, hp']
    · rw [hoth n hn]
      by_cases hlt : fp < n
      · rw [if_pos hlt, if_pos (by omega : fp < n + 1)]
        omega
      · rw [if_neg hlt, if_neg (by omega : ¬ fp < n + 1)]
        omega

/-- Allocating a free page lowers the number of free pages by one. -/
theorem free_page_count_alloc (K : KernelConfig) (s s' : KernelState) (fp : Nat)
    (hfp : fp < NPAGES K) (h0 : (s.pageinfo fp).refcount = 0)
    (h1 : (s'.pageinfo fp).refcount ≠ 0)
    (hoth : ∀ pn, pn ≠ fp → s'.pageinfo pn = s.pageinfo pn) :
    free_page_count K s = free_page_count K s' + 1 := by
  have := countP_range_update (fun pn => decide ((s.pageinfo pn).refcount = 0))
    (fun pn => decide ((s'.pageinfo pn).refcount = 0)) fp (by simpa using h0)
    (by simpa using h1) (fun n hn => by simp only [hoth n hn]) (NPAGES K)
  rw [if_pos hfp] at this
  exact this

theorem free_page_count_zero (K : KernelConfig) (s : KernelState) (hs : AllocSane K s)
    (h : free_page_count K s = 0) : ∀ pn, pn < NPAGES K → 0 < (s.pageinfo pn).refcount := by
  intro pn hpn
  have h' := List.countP_eq_zero.mp h pn (List.mem_range.mpr hpn)
  have h0 : (s.pageinfo pn).refcount ≠ 0 := by simpa using h'
  have := hs.1 pn hpn
  omega

theorem free_page_count_pos (K : KernelConfig) (s : KernelState)
    (h : 0 < free_page_count K s) : ∃ pn, pn < NPAGES K ∧ (s.pageinfo pn).refcount = 0 := by
  obtain ⟨pn, hmem, hp⟩ := List.countP_pos_iff.mp h
  exact ⟨pn, List.mem_range.mp hmem, by simpa using hp⟩

/-- When the leaf-level node of `va` is present, mapping a page at `va` allocates nothing:
it writes the leaf entry and succeeds. -/
theorem virtual_memory_map_page_present (K : KernelConfig) (s : KernelState)
    (r va pa perm l4 : Nat) (allocator : Bool) (hP : perm &&& PTE_P ≠ 0)
    (hw : pt_walk s.physmem r va 3 = some l4) :
    virtual_memory_map_page K s r va pa perm allocator =
      (set_word s (PAGENUMBER l4) (PAGEINDEX va 3) (pa ||| perm), 0) := by
  rcases Option.eq_none_or_eq_some (pt_walk s.physmem r va 2) with h2 | ⟨l3, h2⟩
  · rw [pt_walk_succ_none s.physmem r va 2 h2] at hw
    exact absurd hw (by simp)
  rcases Option.eq_none_or_eq_some (pt_walk s.physmem r va 1) with h1 | ⟨l2, h1⟩
  · rw [pt_walk_succ_none s.physmem r va 1 h1] at h2
    exact absurd h2 (by simp)
  have n0 : pt_next s.physmem r va 0 = some l2 := by
    rw [pt_walk_succ_some s.physmem r va 0 r (pt_walk_zero _ _ _)] at h1
    exact h1
  have n1 : pt_next s.physmem l2 va 1 = some l3 := by
    rw [pt_walk_succ_some s.physmem r va 1 l2 h1] at h2
    exact h2
  have n2 : pt_next s.physmem l3 va 2 = some l4 := by
    rw [pt_walk_succ_some s.physmem r va 2 l3 h2] at hw
    exact hw
  have hl : lookup_l4pagetable K s r va perm allocator = (s, some l4) := by
    simp only [lookup_l4pagetable, pt_next_alloc, n0, n1, n2]
  simp only [virtual_memory_map_page, hl, if_pos hP]

/-- `find_free_page` does not move the nodes of a page table made of referenced pages. -/
theorem find_free_page_walk (K : KernelConfig) (t : KernelState) (r : Nat)
    (hs : AllocSane K t) (ht : TreeOwned t r) (va k : Nat) (hk : k ≤ 3) :
    pt_walk (find_free_page K t).1.physmem r va k = pt_walk t.physmem r va k := by
  rcases find_free_page_alloc K t hs with ⟨_, h1, _⟩ | ⟨fp, _, _, hrc, _, _, _, h1⟩
  · rw [h1]
  · refine (virtual_memory_lookup_frame t.physmem (find_free_page K t).1.physmem r va ?_).1 k hk
    intro j a hj hw
    have hpos := ht.2 (PAGENUMBER a) ⟨va, j, a, hj, hw, rfl⟩
    have hne : PAGENUMBER a ≠ fp := by
      intro hc
      rw [hc] at hpos
      omega
    rw [h1]
    simp [hne]

/-- The mapping step of the page-alloc handler when the leaf-level node of the address is
present: it succeeds without allocating a node and leaves every node where it is. -/
theorem sys_page_alloc_map_present (K : KernelConfig) (s : KernelState) (l4 : Nat)
    (hs : AllocSane K s) (ht : TreeOwned s (s.processes s.current).p_pagetable)
    (hleaf : pt_walk s.physmem (s.processes s.current).p_pagetable
      (s.processes s.current).p_registers.reg_rdi 3 = some l4) :
    (sys_page_alloc_map K s).2 = 0 ∧
      (sys_page_alloc_map K s).1.pageinfo =
        (find_free_page K (sys_page_alloc_owner s)).1.pageinfo ∧
      ∀ k va', k ≤ 3 →
        pt_walk (sys_page_alloc_map K s).1.physmem (s.processes s.current).p_pagetable va' k =
          pt_walk s.physmem (s.processes s.current).p_pagetable va' k := by
  have hs1 : AllocSane K (sys_page_alloc_owner s) := hs
  have ht1 : TreeOwned (sys_page_alloc_owner s) (s.processes s.current).p_pagetable := ht
  have hwalk : ∀ k va', k ≤ 3 →
      pt_walk (find_free_page K (sys_page_alloc_owner s)).1.physmem
          (s.processes s.current).p_pagetable va' k =
        pt_walk s.physmem (s.processes s.current).p_pagetable va' k :=
    fun k va' hk => find_free_page_walk K (sys_page_alloc_owner s) _ hs1 ht1 va' k hk
  have hleaf2 : pt_walk (find_free_page K (sys_page_alloc_owner s)).1.physmem
      (s.processes s.current).p_pagetable (s.processes s.current).p_registers.reg_rdi 3 =
      some l4 := by
    rw [hwalk 3 _ (le_refl _)]
    exact hleaf
  have hinj : TreeInj (find_free_page K (sys_page_alloc_owner s)).1.physmem
      (s.processes s.current).p_pagetable :=
    TreeInj_of_walk_eq s.physmem _ _ hwalk ht.1
  have hpage := virtual_memory_map_page_present K (find_free_page K (sys_page_alloc_owner s)).1
    (s.processes s.current).p_pagetable (s.processes s.current).p_registers.reg_rdi
    (PAGEADDRESS (PAGENUMBER (find_free_page K (sys_page_alloc_owner s)).2))
    (PTE_P ||| PTE_W ||| PTE_U) l4 true (by decide) hleaf2
  have hmap : sys_page_alloc_map K s =
      (set_word (find_free_page K (sys_page_alloc_owner s)).1 (PAGENUMBER l4)
        (PAGEINDEX (s.processes s.current).p_registers.reg_rdi 3)
        (PAGEADDRESS (PAGENUMBER (find_free_page K (sys_page_alloc_owner s)).2) |||
          (PTE_P ||| PTE_W ||| PTE_U)), 0) := by
    simp only [sys_page_alloc_map]
    rw [virtual_memory_map_single, hpage]
    simp
  rw [hmap]
  refine ⟨rfl, rfl, ?_⟩
  intro k va' hk
  obtain ⟨hw, _, _⟩ := virtual_memory_lookup_write_leaf
    (find_free_page K (sys_page_alloc_owner s)).1.physmem
    (set_word (find_free_page K (sys_page_alloc_owner s)).1 (PAGENUMBER l4)
      (PAGEINDEX (s.processes s.current).p_registers.reg_rdi 3)
      (PAGEADDRESS (PAGENUMBER (find_free_page K (sys_page_alloc_owner s)).2) |||
        (PTE_P ||| PTE_W ||| PTE_U))).physmem
    (s.processes s.current).p_pagetable (s.processes s.current).p_registers.reg_rdi l4
    (PAGEADDRESS (PAGENUMBER (find_free_page K (sys_page_alloc_owner s)).2) |||
      (PTE_P ||| PTE_W ||| PTE_U))
    hinj hleaf2
    (by simp)
    (by
      intro n idx hne
      simp only [set_word_physmem, if_neg hne])
  rw [hw k va' hk, hwalk k va' hk]

/-- One successful call of the allocation scenario. -/
theorem page_alloc_call_step (K : KernelConfig) (s : KernelState) (a n : Nat)
    (hs : AllocSane K s) (ht : TreeOwned s (s.processes s.current).p_pagetable)
    (hcount : free_page_count K s = n + 1) (haligned : a % 4096 = 0)
    (hunmapped : virtual_memory_lookup s.physmem (s.processes s.current).p_pagetable a = none)
    (hleaf : pt_walk s.physmem (s.processes s.current).p_pagetable a 3 ≠ none) :
    ((sys_page_alloc K (page_alloc_trap s a)).processes s.current).p_registers.reg_rax = 0 ∧
      (sys_page_alloc K (page_alloc_trap s a)).current = s.current ∧
      ((sys_page_alloc K (page_alloc_trap s a)).processes s.current).p_pagetable =
        (s.processes s.current).p_pagetable ∧
      AllocSane K (sys_page_alloc K (page_alloc_trap s a)) ∧
      TreeOwned (sys_page_alloc K (page_alloc_trap s a)) (s.processes s.current).p_pagetable ∧
      free_page_count K (sys_page_alloc K (page_alloc_trap s a)) = n ∧
      (∀ b, ¬ SamePath a b 4 →
        virtual_memory_lookup (sys_page_alloc K (page_alloc_trap s a)).physmem
            (s.processes s.current).p_pagetable b =
          virtual_memory_lookup s.physmem (s.processes s.current).p_pagetable b) ∧
      (∀ b, pt_walk (sys_page_alloc K (page_alloc_trap s a)).physmem
            (s.processes s.current).p_pagetable b 3 =
          pt_walk s.physmem (s.processes s.current).p_pagetable b 3) := by
  have hcur : (page_alloc_trap s a).current = s.current := rfl
  have hpt : ((page_alloc_trap s a).processes (page_alloc_trap s a).current).p_pagetable =
      (s.processes s.current).p_pagetable := by
    simp [page_alloc_trap, exception_save]
  have hrdi : ((page_alloc_trap s a).processes
      (page_alloc_trap s a).current).p_registers.reg_rdi = a := by
    simp [page_alloc_trap, exception_save]
  have hsa : AllocSane K (page_alloc_trap s a) := hs
  have hta : TreeOwned (page_alloc_trap s a)
      ((page_alloc_trap s a).processes (page_alloc_trap s a).current).p_pagetable := by
    rw [hpt]
    exact ht
  obtain ⟨l4, hl4⟩ := Option.ne_none_iff_exists'.mp hleaf
  obtain ⟨p1, p2, p3⟩ := sys_page_alloc_map_present K (page_alloc_trap s a) l4 hsa hta
    (by rw [hpt, hrdi]; exact hl4)
  have hfree : ∃ pn, pn < NPAGES K ∧ ((page_alloc_trap s a).pageinfo pn).refcount = 0 :=
    free_page_count_pos K s (by omega)
  obtain ⟨fp, _, hfpN, hrc, _, hres, hproc, hcur', hs3, ht3, _, hinfo, hoth, _, _⟩ :=
    sys_page_alloc_mapped_spec K (page_alloc_trap s a) hsa hta (by rw [hrdi]; exact haligned)
      (by rw [hpt, hrdi]; exact hunmapped) hfree (by rw [p1]; decide)
  rw [hpt] at ht3 p3 hoth
  rw [hrdi] at hoth
  obtain ⟨f1, f2, f3, _, f5, _⟩ :=
    set_reg_rax_fields (sys_page_alloc_map K (page_alloc_trap s a)).1 s.current 0
  rw [hcur] at hres
  rw [hres]
  refine ⟨by rw [f5], by rw [f3, hcur', hcur], ?_, ?_, ?_, ?_, ?_, ?_⟩
  · rw [f5, hproc]
    exact hpt
  · exact hs3
  · exact ht3
  · -- one page less
    have hrc' : (s.pageinfo fp).refcount = 0 := hrc
    have hcnt := free_page_count_alloc K s
      (set_reg_rax (sys_page_alloc_map K (page_alloc_trap s a)).1 s.current 0) fp hfpN hrc'
      (by
        rw [f1, hinfo]
        exact one_ne_zero)
      (by
        intro pn hp
        rw [f1, p2]
        rcases find_free_page_alloc K (sys_page_alloc_owner (page_alloc_trap s a)) hsa with
          ⟨_, h1, _⟩ | ⟨fp', _, _, hrc2, _, _, _, h1⟩
        · rw [h1]
          rfl
        · have hfp' : fp' = fp := by
            by_contra hne
            have hne' : ¬ fp = fp' := fun h => hne h.symm
            have h2 : (find_free_page K (sys_page_alloc_owner (page_alloc_trap s a))).1.pageinfo
                fp = s.pageinfo fp := by
              rw [h1]
              simp [hne']
              rfl
            rw [← p2, hinfo] at h2
            rw [← h2] at hrc'
            exact absurd (show (1 : Int) = 0 from hrc') (by decide)
          rw [h1, hfp']
          simp [hp]
          rfl)
    omega
  · intro b hsp
    rw [f2]
    exact hoth b hsp
  · intro b
    rw [f2]
    exact p3 3 b (le_refl _)

/-- Two page-aligned addresses below `2 ^ 48` that select the same entries at all four
levels are equal. -/
theorem SamePath.aligned_eq {a b : Nat} (h : SamePath a b 4) (ha : a % 4096 = 0)
    (hb : b % 4096 = 0) (ha48 : a < 2 ^ 48) (hb48 : b < 2 ^ 48) : a = b := by
  have h0 := h 0 (by decide)
  have h1 := h 1 (by decide)
  have h2 := h 2 (by decide)
  have h3 := h 3 (by decide)
  simp only [PAGEINDEX, NPAGETABLEENTRIES] at h0 h1 h2 h3
  norm_num at h0 h1 h2 h3 ha48 hb48
  omega

/-- C17 (amended). Allocate-to-exhaustion.  In a state where allocation is well behaved
and the caller's page table is a tree of referenced pages, with exactly `k` physical pages
of refcount 0: the current process issuing page-alloc syscalls at `k + 1` distinct
page-aligned addresses below `2 ^ 48` that are unmapped and whose leaf-level page-table
node is already present gets return value 0 for each of the first `k` calls and -1 for
the last. -/
theorem page_alloc_to_exhaustion (K : KernelConfig) (addrs : List Nat) :
    ∀ (s : KernelState) (k : Nat), AllocSane K s →
      TreeOwned s (s.processes s.current).p_pagetable →
      free_page_count K s = k → addrs.length = k + 1 → addrs.Nodup →
      (∀ a ∈ addrs, a % 4096 = 0 ∧ a < 2 ^ 48 ∧
        virtual_memory_lookup s.physmem (s.processes s.current).p_pagetable a = none ∧
        pt_walk s.physmem (s.processes s.current).p_pagetable a 3 ≠ none) →
      (page_alloc_calls K addrs s).1 = List.replicate k 0 ++ [uint64 (-1)] := by
  induction addrs with
  | nil =>
    intro s k _ _ _ hlen
    simp at hlen
  | cons a rest ih =>
    intro s k hs ht hk hlen hnodup haddr
    obtain ⟨hal, ha48, hun, hleaf⟩ := haddr a (List.mem_cons_self a rest)
    have hpt : ((page_alloc_trap s a).processes (page_alloc_trap s a).current).p_pagetable =
        (s.processes s.current).p_pagetable := by
      simp [page_alloc_trap, exception_save]
    have hrdi : ((page_alloc_trap s a).processes
        (page_alloc_trap s a).current).p_registers.reg_rdi = a := by
      simp [page_alloc_trap, exception_save]
    cases k with
    | zero =>
      have hrest : rest = [] := List.length_eq_zero.mp (by simpa using hlen)
      subst hrest
      have hall := free_page_count_zero K s hs hk
      have hex := sys_page_alloc_exhausted K (page_alloc_trap s a) hall
        (by rw [hrdi]; exact hal) (by rw [hpt, hrdi]; exact hun)
      have hcur : (page_alloc_trap s a).current = s.current := rfl
      rw [hcur] at hex
      obtain ⟨_, _, _, _, f5, _⟩ :=
        set_reg_rax_fields (sys_page_alloc_owner (page_alloc_trap s a)) s.current
          (uint64 (-1))
      simp only [page_alloc_calls, List.replicate, List.nil_append]
      rw [hex, f5]
    | succ n =>
      obtain ⟨h1, h2, h3, h4, h5, h6, h7, h8⟩ :=
        page_alloc_call_step K s a n hs ht hk hal hun hleaf
      have hroot : ((sys_page_alloc K (page_alloc_trap s a)).processes
          (sys_page_alloc K (page_alloc_trap s a)).current).p_pagetable =
          (s.processes s.current).p_pagetable := by
        rw [h2, h3]
      have hnd := List.nodup_cons.mp hnodup
      have hrec := ih (sys_page_alloc K (page_alloc_trap s a)) n h4
        (by rw [hroot]; exact h5) h6 (by simpa using hlen) hnd.2
        (by
          intro b hb
          obtain ⟨hbl, hb48, hbun, hbleaf⟩ := haddr b (List.mem_cons_of_mem a hb)
          have hne : ¬ SamePath a b 4 := by
            intro hsp
            have := hsp.aligned_eq hal hbl ha48 hb48
            rw [this] at hnd
            exact hnd.1 hb
          rw [hroot, h7 b hne, h8 b]
          exact ⟨hbl, hb48, hbun, hbleaf⟩)
      simp only [page_alloc_calls, List.replicate, List.cons_append]
      rw [h1, hrec]

theorem example_parent_tight_tree : TreeOwned example_parent_tight 0x1000 :=
  example_chain_tree example_parent_tight (by intro i; simp [example_parent_tight, example_parent])
    (by intro i; simp [example_parent_tight, example_parent])
    (by intro i; simp [example_parent_tight, example_parent])
    (by
      intro n h1 h4
      have : n = 1 ∨ n = 2 ∨ n = 3 ∨ n = 4 := by omega
      rcases this with h | h | h | h <;> · rw [h]; decide)

/-- Witness for C17: the example parent with the two free pages 8 and 9 asks for pages at
`0x6000`, `0x7000` and `0x8000`; the first two calls return 0 and the third -1. -/
theorem page_alloc_to_exhaustion_witness :
    (page_alloc_calls example_config [0x6000, 0x7000, 0x8000] example_parent_tight).1 =
      [0, 0, uint64 (-1)] :=
  page_alloc_to_exhaustion example_config [0x6000, 0x7000, 0x8000] example_parent_tight 2
    (by unfold AllocSane; decide) example_parent_tight_tree (by decide) (by decide)
    (by decide) (by decide)

/-- From a pid that is a natural number the scan moves to the next slot modulo `NPROC`. -/
theorem schedule_scan_succ (K : KernelConfig) (s : KernelState) (fuel c : Nat) :
    schedule_scan K s (fuel + 1) (c : Int) =
      if (s.processes ((c + 1) % K.NPROC)).p_state = procstate.P_RUNNABLE then
        some ((c + 1) % K.NPROC)
      else schedule_scan K s fuel (((c + 1) % K.NPROC : Nat) : Int) := by
  have h : Int.tmod ((c : Int) + 1) (K.NPROC : Int) = (((c + 1) % K.NPROC : Nat) : Int) := by
    have : ((c : Int) + 1) = ((c + 1 : Nat) : Int) := by push_cast; rfl
    rw [this]
    rfl
  simp only [schedule_scan, h, Int.toNat_ofNat]

/-- The scan stops at the first Runnable slot after the starting pid. -/
theorem schedule_scan_eq (K : KernelConfig) (s : KernelState) :
    ∀ (fuel c k : Nat), 1 ≤ k → k ≤ fuel →
      (s.processes ((c + k) % K.NPROC)).p_state = procstate.P_RUNNABLE →
      (∀ j, 1 ≤ j → j < k →
        (s.processes ((c + j) % K.NPROC)).p_state ≠ procstate.P_RUNNABLE) →
      schedule_scan K s fuel (c : Int) = some ((c + k) % K.NPROC) := by
  intro fuel
  induction fuel with
  | zero =>
    intro c k h1 h2
    omega
  | succ f ih =>
    intro c k h1 h2 hrun hmin
    rw [schedule_scan_succ]
    by_cases hk : k = 1
    · subst hk
      rw [if_pos hrun]
    · rw [if_neg (hmin 1 (le_refl _) (by omega))]
      have hmod : ∀ j, ((c + 1) % K.NPROC + j) % K.NPROC = (c + (j + 1)) % K.NPROC := by
        intro j
        rw [Nat.add_mod, Nat.mod_mod, ← Nat.add_mod]
        congr 1
        omega
      have := ih ((c + 1) % K.NPROC) (k - 1) (by omega) (by omega)
        (by rw [hmod, Nat.sub_add_cancel h1]; exact hrun)
        (by
          intro j hj1 hj2
          rw [hmod]
          exact hmin (j + 1) (by omega) (by omega))
      rw [this, hmod, Nat.sub_add_cancel h1]

/-- The scan only ever returns a Runnable slot. -/
theorem schedule_scan_runnable (K : KernelConfig) (s : KernelState) :
    ∀ (fuel : Nat) (pid : Int) (p : Nat), schedule_scan K s fuel pid = some p →
      (s.processes p).p_state = procstate.P_RUNNABLE := by
  intro fuel
  induction fuel with
  | zero =>
    intro pid p h
    simp [schedule_scan] at h
  | succ f ih =>
    intro pid p h
    simp only [schedule_scan] at h
    split at h
    · rename_i hr
      cases h
      exact hr
    · exact ih _ p h

/-- A scan that finds nothing has seen only slots that are not Runnable. -/
theorem schedule_scan_none (K : KernelConfig) (s : KernelState) :
    ∀ (fuel c : Nat), schedule_scan K s fuel (c : Int) = none →
      ∀ j, 1 ≤ j → j ≤ fuel →
        (s.processes ((c + j) % K.NPROC)).p_state ≠ procstate.P_RUNNABLE := by
  intro fuel
  induction fuel with
  | zero =>
    intro c _ j h1 h2
    omega
  | succ f ih =>
    intro c h j h1 h2
    rw [schedule_scan_succ] at h
    split at h
    · cases h
    · rename_i hr
      by_cases hj : j = 1
      · subst hj
        exact hr
      · have := ih ((c + 1) % K.NPROC) h (j - 1) (by omega) (by omega)
        have hmod : ((c + 1) % K.NPROC + (j - 1)) % K.NPROC = (c + j) % K.NPROC := by
          rw [Nat.add_mod, Nat.mod_mod, ← Nat.add_mod]
          congr 1
          omega
        rw [hmod] at this
        exact this

/-- With no Runnable slot the scan finds nothing, whatever the fuel. -/
theorem schedule_scan_idle (K : KernelConfig) (s : KernelState) (hN : 0 < K.NPROC)
    (hno : ∀ i, i < K.NPROC → (s.processes i).p_state ≠ procstate.P_RUNNABLE) :
    ∀ (fuel : Nat) (pid : Int), schedule_scan K s fuel pid = none := by
  intro fuel
  induction fuel with
  | zero =>
    intro pid
    rfl
  | succ f ih =>
    intro pid
    simp only [schedule_scan]
    have hlt : (Int.tmod (pid + 1) K.NPROC).toNat < K.NPROC := by
      have h1 : Int.tmod (pid + 1) (K.NPROC : Int) < (K.NPROC : Int) :=
        Int.tmod_lt_of_pos _ (by exact_mod_cast hN)
      omega
    rw [if_neg (hno _ hlt)]
    exact ih _

/-- Every slot is reached from every pid within `NPROC` steps. -/
theorem schedule_reach (N c i : Nat) (hi : i < N) :
    ∃ k, 1 ≤ k ∧ k ≤ N ∧ (c + k) % N = i := by
  by_cases h0 : (i + N - c % N) % N = 0
  · refine ⟨N, by omega, le_refl _, ?_⟩
    have hc : c % N < N := Nat.mod_lt _ (by omega)
    have h1 : (i + N - c % N) = i - c % N + N ∨ (i + N - c % N) = N - (c % N - i) := by omega
    have h2 : i = c % N := by
      rcases h1 with h | h
      · rw [h, Nat.add_mod_right] at h0
        have : (i - c % N) % N = i - c % N := Nat.mod_eq_of_lt (by omega)
        omega
      · by_cases he : c % N - i = 0
        · omega
        · rw [h, Nat.mod_eq_of_lt (by omega)] at h0
          omega
    rw [Nat.add_mod_right]
    exact h2.symm
  · refine ⟨(i + N - c % N) % N, by omega, (Nat.mod_lt _ (by omega)).le, ?_⟩
    have hc : c % N < N := Nat.mod_lt _ (by omega)
    rw [Nat.add_mod_mod, ← Nat.mod_add_mod]
    have : c % N + (i + N - c % N) = i + N := by omega
    rw [this, Nat.add_mod_right]
    exact Nat.mod_eq_of_lt hi

/-- When some slot is Runnable there is a first Runnable slot after any pid. -/
theorem schedule_first (K : KernelConfig) (s : KernelState) (c : Nat)
    (h : ∃ i, i < K.NPROC ∧ (s.processes i).p_state = procstate.P_RUNNABLE) :
    ∃ k, 1 ≤ k ∧ k ≤ K.NPROC ∧
      (s.processes ((c + k) % K.NPROC)).p_state = procstate.P_RUNNABLE ∧
      ∀ j, 1 ≤ j → j < k →
        (s.processes ((c + j) % K.NPROC)).p_state ≠ procstate.P_RUNNABLE := by
  obtain ⟨i, hi, hrun⟩ := h
  obtain ⟨k0, hk1, hk2, hk3⟩ := schedule_reach K.NPROC c i hi
  have hex : ∃ k, 1 ≤ k ∧
      (s.processes ((c + k) % K.NPROC)).p_state = procstate.P_RUNNABLE :=
    ⟨k0, hk1, by rw [hk3]; exact hrun⟩
  refine ⟨Nat.find hex, (Nat.find_spec hex).1, ?_, (Nat.find_spec hex).2, ?_⟩
  · exact le_trans (Nat.find_min' hex ⟨hk1, by rw [hk3]; exact hrun⟩) hk2
  · intro j hj1 hj2 hr
    exact Nat.find_min hex hj2 ⟨hj1, hr⟩

/-- `schedule()` resumes the slot the scan returns. -/
theorem schedule_of_scan (K : KernelConfig) (s : KernelState) (p : Nat)
    (h : schedule_scan K s K.NPROC (s.processes s.current).p_pid = some p) :
    schedule K s = trap_result.resumed { s with current := p } := by
  have hr := schedule_scan_runnable K s _ _ p h
  simp only [schedule, h, run]
  rw [if_pos hr]

/-- C18. Scheduler selection.  Let `c` be the pid of the current process and `NPROC` be
positive.  If some slot is Runnable, `schedule()` transfers control to process
`(c + k) mod NPROC` where `k` is the smallest value in `1..NPROC` such that that slot is
Runnable (the loop reaches it as soon as it is given `k` iterations), and `k = NPROC`,
the case in which `c` itself is selected again, happens only when no other slot is
Runnable.  The selected process is always Runnable.  No process is selected at all (the
loop finds nothing however long it runs, `schedule()` spins) if and only if no slot is
Runnable. -/
theorem schedule_selection (K : KernelConfig) (s : KernelState) (c : Nat)
    (hN : 0 < K.NPROC) (hc : (s.processes s.current).p_pid = (c : Int)) :
    ((∃ i, i < K.NPROC ∧ (s.processes i).p_state = procstate.P_RUNNABLE) →
        ∃ k, 1 ≤ k ∧ k ≤ K.NPROC ∧
          (s.processes ((c + k) % K.NPROC)).p_state = procstate.P_RUNNABLE ∧
          (∀ j, 1 ≤ j → j < k →
            (s.processes ((c + j) % K.NPROC)).p_state ≠ procstate.P_RUNNABLE) ∧
          schedule K s = trap_result.resumed { s with current := (c + k) % K.NPROC } ∧
          (∀ fuel, k ≤ fuel →
            schedule_scan K s fuel (s.processes s.current).p_pid =
              some ((c + k) % K.NPROC)) ∧
          (k = K.NPROC → ∀ i, i < K.NPROC → i ≠ c % K.NPROC →
            (s.processes i).p_state ≠ procstate.P_RUNNABLE)) ∧
      (∀ s', schedule K s = trap_result.resumed s' →
        (s.processes s'.current).p_state = procstate.P_RUNNABLE ∧
          s' = { s with current := s'.current }) ∧
      ((∀ fuel, schedule_scan K s fuel (s.processes s.current).p_pid = none) ↔
        ∀ i, i < K.NPROC → (s.processes i).p_state ≠ procstate.P_RUNNABLE) ∧
      (schedule K s = trap_result.spinning s ↔
        ∀ i, i < K.NPROC → (s.processes i).p_state ≠ procstate.P_RUNNABLE) := by
  have hnone : (∀ i, i < K.NPROC → (s.processes i).p_state ≠ procstate.P_RUNNABLE) →
      ∀ fuel, schedule_scan K s fuel (s.processes s.current).p_pid = none :=
    fun hno fuel => schedule_scan_idle K s hN hno fuel _
  have hsome : (∃ i, i < K.NPROC ∧ (s.processes i).p_state = procstate.P_RUNNABLE) →
      ∃ p, schedule_scan K s K.NPROC (s.processes s.current).p_pid = some p := by
    intro h
    obtain ⟨k, hk1, hk2, hrun, hmin⟩ := schedule_first K s c h
    exact ⟨_, by rw [hc]; exact schedule_scan_eq K s K.NPROC c k hk1 hk2 hrun hmin⟩
  have hcases : (∀ i, i < K.NPROC → (s.processes i).p_state ≠ procstate.P_RUNNABLE) ∨
      ∃ i, i < K.NPROC ∧ (s.processes i).p_state = procstate.P_RUNNABLE := by
    by_cases h : ∃ i, i < K.NPROC ∧ (s.processes i).p_state = procstate.P_RUNNABLE
    · exact Or.inr h
    · exact Or.inl (fun i hi hr => h ⟨i, hi, hr⟩)
  refine ⟨?_, ?_, ?_, ?_⟩
  · intro h
    obtain ⟨k, hk1, hk2, hrun, hmin⟩ := schedule_first K s c h
    refine ⟨k, hk1, hk2, hrun, hmin, ?_, ?_, ?_⟩
    · exact schedule_of_scan K s _
        (by rw [hc]; exact schedule_scan_eq K s K.NPROC c k hk1 hk2 hrun hmin)
    · intro fuel hf
      rw [hc]
      exact schedule_scan_eq K s fuel c k hk1 hf hrun hmin
    · intro hkN i hi hne
      obtain ⟨j, hj1, hj2, hj3⟩ := schedule_reach K.NPROC c i hi
      have hjk : j < k := by
        rcases Nat.lt_or_ge j k with h' | h'
        · exact h'
        · exfalso
          have : j = K.NPROC := by omega
          rw [this, Nat.add_mod_right] at hj3
          exact hne hj3.symm
      rw [← hj3]
      exact hmin j hj1 hjk
  · intro s' hs'
    cases hscan : schedule_scan K s K.NPROC (s.processes s.current).p_pid with
    | none =>
      simp only [schedule, hscan] at hs'
      cases hs'
    | some p =>
      rw [schedule_of_scan K s p hscan] at hs'
      cases hs'
      exact ⟨schedule_scan_runnable K s _ _ p hscan, rfl⟩
  · refine ⟨?_, hnone⟩
    intro hall i hi hr
    obtain ⟨p, hp⟩ := hsome ⟨i, hi, hr⟩
    rw [hall] at hp
    cases hp
  · constructor
    · intro hspin i hi hr
      obtain ⟨p, hp⟩ := hsome ⟨i, hi, hr⟩
      rw [schedule_of_scan K s p hp] at hspin
      cases hspin
    · intro hno
      simp only [schedule, hnone hno]

/-- Witness for C18: in the example with processes 1 and 3 Runnable and process 2
Broken, `schedule()` called by process 1 resumes process 3. -/
theorem schedule_selection_witness :
    schedule example_config example_three =
      trap_result.resumed { example_three with current := 3 } :=
  match (schedule_selection example_config example_three 1 (by decide) rfl).1
      ⟨1, by decide, by decide⟩ with
  | ⟨k, h1, h2, hrun, hmin, h5, _⟩ => by
    have h2' : k ≤ 4 := h2
    have hk : k = 2 := by
      have : k = 1 ∨ k = 2 ∨ k = 3 ∨ k = 4 := by omega
      rcases this with h | h | h | h
      · subst h
        exact absurd hrun (by decide)
      · exact h
      · subst h
        exact absurd (by decide) (hmin 2 (by decide) (by decide))
      · subst h
        exact absurd (by decide) (hmin 2 (by decide) (by decide))
    subst hk
    exact h5

/-- The list of Runnable slots holds exactly the Runnable indices below `NPROC`. -/
theorem mem_runnable_slots (K : KernelConfig) (s : KernelState) (i : Nat) :
    i ∈ runnable_slots K s ↔
      i < K.NPROC ∧ (s.processes i).p_state = procstate.P_RUNNABLE := by
  simp [runnable_slots]

/-- The list of Runnable slots is strictly increasing. -/
theorem runnable_slots_sorted (K : KernelConfig) (s : KernelState) :
    List.Pairwise (fun a b => a < b) (runnable_slots K s) :=
  List.Pairwise.filter _ (List.pairwise_lt_range K.NPROC)

theorem runnable_slots_lt (K : KernelConfig) (s : KernelState) (i j : Nat) (hij : i < j)
    (hj : j < (runnable_slots K s).length) :
    (runnable_slots K s).getD i 0 < (runnable_slots K s).getD j 0 := by
  rw [List.getD_eq_getElem _ _ (lt_trans hij hj), List.getD_eq_getElem _ _ hj]
  exact List.pairwise_iff_getElem.mp (runnable_slots_sorted K s) i j _ _ hij

theorem runnable_slots_le (K : KernelConfig) (s : KernelState) (i j : Nat) (hij : i ≤ j)
    (hj : j < (runnable_slots K s).length) :
    (runnable_slots K s).getD i 0 ≤ (runnable_slots K s).getD j 0 := by
  rcases Nat.eq_or_lt_of_le hij with h | h
  · rw [h]
  · exact (runnable_slots_lt K s i j h hj).le

theorem runnable_slots_get (K : KernelConfig) (s : KernelState) (i : Nat)
    (hi : i < (runnable_slots K s).length) :
    (runnable_slots K s).getD i 0 < K.NPROC ∧
      (s.processes ((runnable_slots K s).getD i 0)).p_state = procstate.P_RUNNABLE := by
  rw [List.getD_eq_getElem _ _ hi]
  exact (mem_runnable_slots K s _).mp (List.getElem_mem _)

theorem runnable_slots_index (K : KernelConfig) (s : KernelState) (x : Nat)
    (hx : x < K.NPROC) (hr : (s.processes x).p_state = procstate.P_RUNNABLE) :
    ∃ i, i < (runnable_slots K s).length ∧ (runnable_slots K s).getD i 0 = x := by
  obtain ⟨i, hi, h⟩ := List.mem_iff_getElem.mp ((mem_runnable_slots K s x).mpr ⟨hx, hr⟩)
  exact ⟨i, hi, by rw [List.getD_eq_getElem _ _ hi]; exact h⟩

/-- From the `m`-th Runnable slot the scan stops at the next one, cyclically. -/
theorem schedule_scan_next (K : KernelConfig) (s : KernelState) (m : Nat)
    (hm : m < (runnable_slots K s).length) :
    schedule_scan K s K.NPROC (((runnable_slots K s).getD m 0 : Nat) : Int) =
      some ((runnable_slots K s).getD ((m + 1) % (runnable_slots K s).length) 0) := by
  obtain ⟨hpN, _⟩ := runnable_slots_get K s m hm
  by_cases hlast : m + 1 < (runnable_slots K s).length
  · rw [Nat.mod_eq_of_lt hlast]
    obtain ⟨hqN, hqr⟩ := runnable_slots_get K s (m + 1) hlast
    have hpq := runnable_slots_lt K s m (m + 1) (Nat.lt_succ_self m) hlast
    have hk : (runnable_slots K s).getD m 0 +
        ((runnable_slots K s).getD (m + 1) 0 - (runnable_slots K s).getD m 0) =
        (runnable_slots K s).getD (m + 1) 0 := by omega
    have := schedule_scan_eq K s K.NPROC ((runnable_slots K s).getD m 0)
      ((runnable_slots K s).getD (m + 1) 0 - (runnable_slots K s).getD m 0) (by omega)
      (by omega) (by rw [hk, Nat.mod_eq_of_lt hqN]; exact hqr)
      (by
        intro j hj1 hj2 hr
        rw [Nat.mod_eq_of_lt (by omega)] at hr
        obtain ⟨i, hi, hx⟩ := runnable_slots_index K s _ (by omega) hr
        rcases Nat.lt_or_ge m i with h | h
        · have := runnable_slots_le K s (m + 1) i h hi
          omega
        · have := runnable_slots_le K s i m h hm
          omega)
    rw [this, hk, Nat.mod_eq_of_lt hqN]
  · have hlen : m + 1 = (runnable_slots K s).length := by omega
    rw [← hlen, Nat.mod_self]
    obtain ⟨hqN, hqr⟩ := runnable_slots_get K s 0 (by omega)
    have hqp := runnable_slots_le K s 0 m (Nat.zero_le m) hm
    have hk : (runnable_slots K s).getD m 0 +
        (K.NPROC - (runnable_slots K s).getD m 0 + (runnable_slots K s).getD 0 0) =
        (runnable_slots K s).getD 0 0 + K.NPROC := by omega
    have := schedule_scan_eq K s K.NPROC ((runnable_slots K s).getD m 0)
      (K.NPROC - (runnable_slots K s).getD m 0 + (runnable_slots K s).getD 0 0) (by omega)
      (by omega) (by rw [hk, Nat.add_mod_right, Nat.mod_eq_of_lt hqN]; exact hqr)
      (by
        intro j hj1 hj2 hr
        by_cases hw : (runnable_slots K s).getD m 0 + j < K.NPROC
        · rw [Nat.mod_eq_of_lt hw] at hr
          obtain ⟨i, hi, hx⟩ := runnable_slots_index K s _ hw hr
          have := runnable_slots_le K s i m (by omega) hm
          omega
        · rw [Nat.mod_eq_sub_mod (by omega), Nat.mod_eq_of_lt (by omega)] at hr
          obtain ⟨i, hi, hx⟩ := runnable_slots_index K s _ (by omega) hr
          have := runnable_slots_le K s 0 i (Nat.zero_le i) hi
          omega)
    rw [this, hk, Nat.add_mod_right, Nat.mod_eq_of_lt hqN]

/-- Consecutive calls of `schedule()` issued by the `m`-th Runnable slot walk through the
Runnable slots in cyclic order. -/
theorem schedule_calls_from (K : KernelConfig) :
    ∀ (n : Nat) (s : KernelState) (m : Nat),
      (∀ i, i < K.NPROC → (s.processes i).p_pid = (i : Int)) →
      m < (runnable_slots K s).length →
      (s.processes s.current).p_pid = (((runnable_slots K s).getD m 0 : Nat) : Int) →
      schedule_calls K n s =
        (List.range n).map
          (fun i => (runnable_slots K s).getD ((m + 1 + i) % (runnable_slots K s).length) 0) := by
  intro n
  induction n with
  | zero =>
    intro s m _ _ _
    rfl
  | succ n ih =>
    intro s m hpid hm hc
    have hscan := schedule_scan_next K s m hm
    rw [← hc] at hscan
    have hml : (m + 1) % (runnable_slots K s).length < (runnable_slots K s).length :=
      Nat.mod_lt _ (by omega)
    obtain ⟨hqN, _⟩ := runnable_slots_get K s _ hml
    have hrec := ih { s with current :=
        ((runnable_slots K s).getD ((m + 1) % (runnable_slots K s).length) 0) }
      ((m + 1) % (runnable_slots K s).length) hpid hml (hpid _ hqN)
    have hR : runnable_slots K { s with current :=
        ((runnable_slots K s).getD ((m + 1) % (runnable_slots K s).length) 0) } =
        runnable_slots K s := rfl
    rw [hR] at hrec
    simp only [schedule_calls, schedule_of_scan K s _ hscan]
    rw [hrec, List.range_succ_eq_map, List.map_cons, List.map_map]
    refine congrArg₂ _ rfl (List.map_congr_left ?_)
    intro i _
    simp only [Function.comp]
    congr 1
    rw [Nat.add_assoc, Nat.mod_add_mod]
    congr 1
    omega

/-- A rotation of a list, entry by entry. -/
theorem rotate_eq_map_range (l : List Nat) (m : Nat) :
    l.rotate m = (List.range l.length).map (fun i => l.getD ((m + i) % l.length) 0) := by
  refine List.ext_getElem (by simp) ?_
  intro i h1 h2
  have hi : i < l.length := by simpa using h1
  have hmod : (i + m) % l.length < l.length := Nat.mod_lt _ (by omega)
  rw [List.getElem_rotate, List.getElem_map, List.getElem_range, Nat.add_comm m i,
    List.getD_eq_getElem _ _ hmod]

/-- C19. Round-robin fairness.  Let the pid of every process be its index, slot 0 not be
Runnable (the process 0 invariant) and the Runnable processes be at the indices
`p1 < p2 < ... < pK` with `K >= 1` (the list `runnable_slots`, which is strictly
increasing and holds exactly the Runnable indices).  Then `K` consecutive calls of
`schedule()`, each issued with the previously selected process as `current` and the first
from any current pid `c`, select a rotation of `p1, ..., pK`: each of them exactly once,
in increasing cyclic order; every selected slot is Runnable (never Free or Broken) and
none is index 0. -/
theorem schedule_round_robin (K : KernelConfig) (s : KernelState) (c : Nat)
    (hN : 0 < K.NPROC)
    (hpid : ∀ i, i < K.NPROC → (s.processes i).p_pid = (i : Int))
    (hc : (s.processes s.current).p_pid = (c : Int))
    (h0 : (s.processes 0).p_state ≠ procstate.P_RUNNABLE)
    (hK : 1 ≤ (runnable_slots K s).length) :
    (∃ m, m < (runnable_slots K s).length ∧
        schedule_calls K (runnable_slots K s).length s = (runnable_slots K s).rotate m) ∧
      List.Perm (schedule_calls K (runnable_slots K s).length s) (runnable_slots K s) ∧
      (schedule_calls K (runnable_slots K s).length s).Nodup ∧
      (∀ p, p ∈ schedule_calls K (runnable_slots K s).length s →
        (s.processes p).p_state = procstate.P_RUNNABLE ∧ p ≠ 0) ∧
      List.Pairwise (fun a b => a < b) (runnable_slots K s) ∧
      (∀ i, i ∈ runnable_slots K s ↔
        i < K.NPROC ∧ (s.processes i).p_state = procstate.P_RUNNABLE) := by
  have hrot : ∃ m, m < (runnable_slots K s).length ∧
      schedule_calls K (runnable_slots K s).length s = (runnable_slots K s).rotate m := by
    obtain ⟨hx0, hr0⟩ := runnable_slots_get K s 0 (by omega)
    obtain ⟨k, hk1, hk2, hrun, hmin⟩ := schedule_first K s c ⟨_, hx0, hr0⟩
    have hscan : schedule_scan K s K.NPROC (s.processes s.current).p_pid =
        some ((c + k) % K.NPROC) := by
      rw [hc]
      exact schedule_scan_eq K s K.NPROC c k hk1 hk2 hrun hmin
    obtain ⟨m0, hm0, hget⟩ := runnable_slots_index K s _ (Nat.mod_lt _ hN) hrun
    refine ⟨m0, hm0, ?_⟩
    obtain ⟨n, hn⟩ : ∃ n, (runnable_slots K s).length = n + 1 := ⟨_, (Nat.sub_add_cancel hK).symm⟩
    have hrec := schedule_calls_from K n { s with current := (c + k) % K.NPROC } m0 hpid hm0
      (by
        have hR : runnable_slots K { s with current := (c + k) % K.NPROC } =
            runnable_slots K s := rfl
        rw [hR, hget]
        exact hpid _ (Nat.mod_lt _ hN))
    have hR : runnable_slots K { s with current := (c + k) % K.NPROC } =
        runnable_slots K s := rfl
    rw [hR] at hrec
    rw [rotate_eq_map_range]
    rw [hn]
    simp only [schedule_calls, schedule_of_scan K s _ hscan]
    rw [hrec, List.range_succ_eq_map, List.map_cons, List.map_map, hn]
    refine congrArg₂ _ ?_ (List.map_congr_left ?_)
    · rw [← hn, Nat.add_zero, Nat.mod_eq_of_lt hm0, hget]
    · intro i _
      simp only [Function.comp]
      congr 2
      omega
  refine ⟨hrot, ?_, ?_, ?_, runnable_slots_sorted K s, mem_runnable_slots K s⟩
  · obtain ⟨m, _, h⟩ := hrot
    rw [h]
    exact List.rotate_perm _ _
  · obtain ⟨m, _, h⟩ := hrot
    rw [h]
    exact List.nodup_rotate.mpr ((runnable_slots_sorted K s).imp (fun h => Nat.ne_of_lt h))
  · intro p hp
    obtain ⟨m, _, h⟩ := hrot
    rw [h, List.mem_rotate] at hp
    have hr := ((mem_runnable_slots K s p).mp hp).2
    refine ⟨hr, ?_⟩
    intro hp0
    rw [hp0] at hr
    exact h0 hr

/-- Witness for C19: in the example with processes 1 and 3 Runnable, two calls of
`schedule()` begun by process 1 select a rotation of `1, 3`. -/
theorem schedule_round_robin_witness :
    ∃ m, m < 2 ∧ schedule_calls example_config 2 example_three = [1, 3].rotate m :=
  (schedule_round_robin example_config example_three 1 (by decide)
    (by intro i _; rfl) rfl (by decide) (by decide)).1

theorem ProcFrame.frame_refl (A : Nat → Prop) (s : KernelState) : ProcFrame A s s :=
  ⟨rfl, fun _ _ => rfl, fun _ => rfl⟩

theorem ProcFrame.frame_trans {A : Nat → Prop} {s t u : KernelState} (h1 : ProcFrame A s t)
    (h2 : ProcFrame A t u) : ProcFrame A s u :=
  ⟨h2.1.trans h1.1, fun j hj => (h2.2.1 j hj).trans (h1.2.1 j hj),
    fun j => (h2.2.2 j).trans (h1.2.2 j)⟩

theorem ProcFrame.frame_mono {A B : Nat → Prop} {s t : KernelState} (h : ProcFrame A s t)
    (hAB : ∀ j, A j → B j) : ProcFrame B s t :=
  ⟨h.1, fun j hj => h.2.1 j (fun ha => hj (hAB j ha)), h.2.2⟩

theorem ProcFrame.of_eq (A : Nat → Prop) {s t : KernelState}
    (hp : t.processes = s.processes) (hc : t.current = s.current) : ProcFrame A s t :=
  ⟨hc, fun j _ => by rw [hp], fun j => by rw [hp]⟩

theorem ProcFrame.of_set_proc (s : KernelState) (i : Nat) (p : proc)
    (hp : p.p_pid = (s.processes i).p_pid) : ProcFrame (fun j => j = i) s (set_proc s i p) := by
  refine ⟨rfl, ?_, ?_⟩
  · intro j hj
    simp only [set_proc_processes, if_neg hj]
  · intro j
    simp only [set_proc_processes]
    split
    · rename_i h
      rw [hp, h]
    · rfl

theorem ProcFrame.of_set_reg_rax (s : KernelState) (i v : Nat) :
    ProcFrame (fun j => j = i) s (set_reg_rax s i v) :=
  ProcFrame.of_set_proc s i _ rfl

theorem ProcFrame.of_set_p_state (s : KernelState) (i : Nat) (st : procstate) :
    ProcFrame (fun j => j = i) s (set_p_state s i st) :=
  ProcFrame.of_set_proc s i _ rfl

theorem ProcFrame.of_set_p_pagetable (s : KernelState) (i pt : Nat) :
    ProcFrame (fun j => j = i) s (set_p_pagetable s i pt) :=
  ProcFrame.of_set_proc s i _ rfl

theorem ProcFrame.of_exception_save (s : KernelState) (reg : x86_64_registers) :
    ProcFrame (fun j => j = s.current) s (exception_save s reg) :=
  ProcFrame.of_set_proc s s.current _ rfl

/-- `process_cleanup_partial(pid, vaLast)` writes only the descriptor of slot `pid`, which
it leaves Free. -/
theorem process_cleanup_partial_frame (K : KernelConfig) (s : KernelState) (pid : Int)
    (vaLast : Nat) :
    ProcFrame (fun j => j = pid.toNat) s ( process_cleanup_partial K s pid vaLast) ∧
      (( process_cleanup_partial K s pid vaLast).processes pid.toNat).p_state =
        procstate.P_FREE := by
  have hcur := process_cleanup_partial_current K s pid vaLast
  refine ⟨⟨hcur, ?_, ?_⟩, ?_⟩
  · intro j hj
    simp only [ process_cleanup_partial]
    split <;>
      simp [set_p_state, set_p_pagetable, hj]
  · intro j
    simp only [ process_cleanup_partial]
    split <;>
    · simp only [set_p_state, set_p_pagetable, set_proc_processes,
        process_cleanup_sweep_processes, release_page_processes,
        process_cleanup_loop_processes]
      by_cases hj : j = pid.toNat <;> simp [hj]
  · simp [set_p_state, process_cleanup_partial]

/-- The page-alloc handler writes only the caller's descriptor. -/
theorem sys_page_alloc_frame (K : KernelConfig) (s : KernelState) :
    ProcFrame (fun j => j = s.current) s (sys_page_alloc K s) := by
  obtain ⟨f1, f2, _⟩ := find_free_page_frame K (sys_page_alloc_owner s)
  have hfind : ProcFrame (fun j => j = s.current) s (find_free_page K (sys_page_alloc_owner s)).1 :=
    ProcFrame.of_eq _ f1 f2
  have hmap : ProcFrame (fun j => j = s.current) s (sys_page_alloc_map K s).1 := by
    obtain ⟨m1, m2⟩ := virtual_memory_map_frame K (find_free_page K (sys_page_alloc_owner s)).1
      (s.processes s.current).p_pagetable (s.processes s.current).p_registers.reg_rdi
      (PAGEADDRESS (PAGENUMBER (find_free_page K (sys_page_alloc_owner s)).2))
      (PTE_P ||| PTE_W ||| PTE_U) true
    exact hfind.frame_trans (ProcFrame.of_eq _ m1 m2)
  simp only [sys_page_alloc]
  split
  · exact ProcFrame.of_set_reg_rax s s.current _
  · split
    · exact ProcFrame.of_set_reg_rax s s.current _
    · split
      · exact hfind.frame_trans (ProcFrame.of_set_reg_rax _ s.current _)
      · split
        · exact (hmap.frame_trans (ProcFrame.of_eq _ (release_page_processes _ _ _) (release_page_current _ _ _))).frame_trans
            (ProcFrame.of_set_reg_rax _ s.current _)
        · exact hmap.frame_trans (ProcFrame.of_set_reg_rax _ s.current _)

/-- The loop of `fork` writes only the descriptors of the caller and of the slot whose
number is the child's pid. -/
theorem sys_fork_loop_procframe (K : KernelConfig) (f : Nat) :
    ∀ (l : List Nat) (t : KernelState),
      ProcFrame (fun j => j = t.current ∨ j = (t.processes f).p_pid.toNat) t
        (sys_fork_loop K f l t).1 := by
  intro l
  induction l with
  | nil =>
    intro t
    exact ProcFrame.frame_refl _ t
  | cons i rest ih =>
    intro t
    rw [sys_fork_loop_cons]
    obtain ⟨h, g⟩ := sys_fork_step_frame K f i t
    have hstep : ProcFrame (fun j => j = t.current ∨ j = (t.processes f).p_pid.toNat) t
        (sys_fork_step K f i t).1 := ProcFrame.of_eq _ h g
    split
    · refine hstep.frame_trans (ProcFrame.frame_trans
        ((ProcFrame.of_set_reg_rax _ t.current _).frame_mono (fun j hj => Or.inl hj))
        ((process_cleanup_partial_frame K _ (t.processes f).p_pid i).1.frame_mono
          (fun j hj => Or.inr hj)))
    · have := ih (sys_fork_step K f i t).1
      rw [h, g] at this
      exact hstep.frame_trans this

/-- The clone step of `fork` writes only the descriptor of the chosen slot. -/
theorem sys_fork_clone_procframe (K : KernelConfig) (s : KernelState) (f : Nat) :
    ProcFrame (fun j => j = f) s (sys_fork_clone K s f) := by
  obtain ⟨c1, c2⟩ := copy_pagetable_frame K (set_p_state s f procstate.P_RUNNABLE)
    ((set_p_state s f procstate.P_RUNNABLE).processes s.current).p_pagetable
    (int8 (s.processes f).p_pid)
  exact ((ProcFrame.of_set_p_state s f _).frame_trans (ProcFrame.of_eq _ c1 c2)).frame_trans
    (ProcFrame.of_set_p_pagetable _ f _)

theorem sys_fork_finish_procframe (t : KernelState) (f : Nat) :
    ProcFrame (fun j => j = t.current ∨ j = f) t (sys_fork_finish t f) := by
  unfold sys_fork_finish
  exact ProcFrame.frame_trans (ProcFrame.frame_trans
    ((ProcFrame.of_set_proc t f
      { t.processes f with p_registers := (t.processes t.current).p_registers }
      rfl).frame_mono (fun j hj => Or.inr hj))
    ((ProcFrame.of_set_reg_rax _ t.current _).frame_mono (fun j hj => Or.inl hj)))
    ((ProcFrame.of_set_reg_rax _ f _).frame_mono (fun j hj => Or.inr hj))

/-- The fork handler writes only the descriptors of the caller and of the slot it chose,
which is never slot 0. -/
theorem sys_fork_frame (K : KernelConfig) (s : KernelState)
    (hpid : ∀ i, i < K.NPROC → (s.processes i).p_pid = (i : Int)) :
    ProcFrame (fun j => j = s.current ∨ j = sys_fork_find_slot K s K.NPROC 1) s
      (sys_fork K s).1 := by
  have hclone := sys_fork_clone_procframe K s (sys_fork_find_slot K s K.NPROC 1)
  simp only [sys_fork]
  split
  · exact (ProcFrame.of_set_reg_rax s s.current _).frame_mono (fun j hj => Or.inl hj)
  · rename_i hlt
    have hlt' : sys_fork_find_slot K s K.NPROC 1 < K.NPROC := by omega
    have hclone' : ProcFrame
        (fun j => j = s.current ∨ j = sys_fork_find_slot K s K.NPROC 1) s
        (sys_fork_clone K s (sys_fork_find_slot K s K.NPROC 1)) :=
      hclone.frame_mono (fun j hj => Or.inr hj)
    have hloop := sys_fork_loop_procframe K (sys_fork_find_slot K s K.NPROC 1)
      (page_addresses 0 K.MEMSIZE_VIRTUAL)
      (sys_fork_clone K s (sys_fork_find_slot K s K.NPROC 1))
    rw [hclone.1, hclone.2.2, hpid _ hlt', Int.toNat_ofNat] at hloop
    split
    · refine hclone'.frame_trans (ProcFrame.frame_trans
        ((process_cleanup_partial_frame K _ _ _).1.frame_mono (fun j hj => Or.inr ?_))
        ((ProcFrame.of_set_reg_rax _ s.current _).frame_mono (fun j hj => Or.inl hj)))
      rw [hj, Int.toNat_ofNat]
    · split
      · exact hclone'.frame_trans hloop
      · refine (hclone'.frame_trans hloop).frame_trans ?_
        have := sys_fork_finish_procframe
          (sys_fork_loop K (sys_fork_find_slot K s K.NPROC 1)
            (page_addresses 0 K.MEMSIZE_VIRTUAL)
            (sys_fork_clone K s (sys_fork_find_slot K s K.NPROC 1))).1
          (sys_fork_find_slot K s K.NPROC 1)
        rw [hloop.1, hclone.1] at this
        exact this

theorem ProcessZero.of_frame {K : KernelConfig} {A : Nat → Prop} {s t : KernelState}
    (hz : ProcessZero K s) (hf : ProcFrame A s t) (h0 : ¬ A 0) : ProcessZero K t := by
  obtain ⟨h1, h2, h3⟩ := hz
  refine ⟨?_, ?_, ?_⟩
  · rw [hf.2.1 0 h0]
    exact h1
  · rw [hf.2.1 0 h0]
    exact h2
  · intro i hi
    rw [hf.2.2 i]
    exact h3 i hi

/-- The slot the scan returns is a slot of the table. -/
theorem schedule_scan_lt (K : KernelConfig) (s : KernelState) (hN : 0 < K.NPROC) :
    ∀ (fuel : Nat) (pid : Int) (p : Nat), schedule_scan K s fuel pid = some p →
      p < K.NPROC := by
  intro fuel
  induction fuel with
  | zero =>
    intro pid p h
    simp [schedule_scan] at h
  | succ f ih =>
    intro pid p h
    simp only [schedule_scan] at h
    split at h
    · cases h
      have h1 : Int.tmod (pid + 1) (K.NPROC : Int) < (K.NPROC : Int) :=
        Int.tmod_lt_of_pos _ (by exact_mod_cast hN)
      omega
    · exact ih _ p h

/-- What `schedule()` can end in: it resumes a Runnable slot of the table, with nothing
but `current` changed, or spins in the state it was called in. -/
theorem schedule_result (K : KernelConfig) (t : KernelState) (hN : 0 < K.NPROC) :
    (∀ s', schedule K t = trap_result.resumed s' →
        s'.processes = t.processes ∧
          (s'.processes s'.current).p_state = procstate.P_RUNNABLE ∧
          s'.current < K.NPROC) ∧
      (∀ s', schedule K t = trap_result.spinning s' → s' = t) := by
  cases hscan : schedule_scan K t K.NPROC (t.processes t.current).p_pid with
  | none =>
    simp only [schedule, hscan]
    refine ⟨fun s' h => ?_, fun s' h => ?_⟩
    · cases h
    · cases h
      rfl
  | some p =>
    rw [schedule_of_scan K t p hscan]
    refine ⟨fun s' h => ?_, fun s' h => ?_⟩
    · cases h
      exact ⟨rfl, schedule_scan_runnable K t _ _ p hscan, schedule_scan_lt K t hN _ _ p hscan⟩
    · cases h

/-- What the end of `exception` can end in. -/
theorem exception_exit_result (K : KernelConfig) (t : KernelState) (hN : 0 < K.NPROC)
    (hcur : t.current < K.NPROC) :
    (∀ s', exception_exit K t = trap_result.resumed s' →
        s'.processes = t.processes ∧
          (s'.processes s'.current).p_state = procstate.P_RUNNABLE ∧
          s'.current < K.NPROC) ∧
      (∀ s', exception_exit K t = trap_result.spinning s' → s' = t) := by
  by_cases hr : (t.processes t.current).p_state = procstate.P_RUNNABLE
  · simp only [exception_exit, if_pos hr, run]
    refine ⟨fun s' h => ?_, fun s' h => ?_⟩
    · cases h
      exact ⟨rfl, hr, hcur⟩
    · cases h
  · simp only [exception_exit, if_neg hr]
    exact schedule_result K t hN

/-- Every trap ends in a halt, or in `schedule()` or the end of `exception` run on a
state that differs from the state at the trap in descriptors other than slot 0 only. -/
theorem exception_cases (K : KernelConfig) (L : KernelLayout) (s : KernelState)
    (reg : x86_64_registers) (hz : ProcessZero K s)
    (hrun : (s.processes s.current).p_state = procstate.P_RUNNABLE)
    (hcur : s.current < K.NPROC) :
    exception K L s reg = trap_result.halted ∨
      ∃ t, ProcFrame (fun j => j ≠ 0) s t ∧
        (exception K L s reg = schedule K t ∨ exception K L s reg = exception_exit K t) := by
  have hc0 : s.current ≠ 0 := by
    intro h
    rw [h, hz.1] at hrun
    cases hrun
  have hsave : ProcFrame (fun j => j ≠ 0) s (exception_save s reg) :=
    (ProcFrame.of_exception_save s reg).frame_mono (fun j hj => by rw [hj]; exact hc0)
  have hcs : (exception_save s reg).current = s.current := hsave.1
  have hat : ∀ t, ProcFrame (fun j => j = s.current) (exception_save s reg) t →
      ProcFrame (fun j => j ≠ 0) s t := fun t ht =>
    hsave.frame_trans (ht.frame_mono (fun j hj => by rw [hj]; exact hc0))
  have hpid : ∀ i, i < K.NPROC → ((exception_save s reg).processes i).p_pid = (i : Int) := by
    intro i hi
    rw [hsave.2.2 i]
    exact hz.2.2 i hi
  simp only [exception]
  split
  · exact Or.inl rfl
  · simp only [exception_switch]
    split
    · exact Or.inl rfl
    · split
      · refine Or.inr ⟨_, hat _ ?_, Or.inr rfl⟩
        rw [hcs]
        exact ProcFrame.of_set_reg_rax _ s.current _
      · split
        · exact Or.inr ⟨_, hsave, Or.inl rfl⟩
        · split
          · refine Or.inr ⟨_, hat _ ?_, Or.inr rfl⟩
            have := sys_page_alloc_frame K (exception_save s reg)
            rw [hcs] at this
            exact this
          · split
            · exact Or.inr ⟨{ exception_save s reg with
                  ticks := ((exception_save s reg).ticks + 1) % 2 ^ 32 },
                hsave.frame_trans (ProcFrame.of_eq _ rfl rfl), Or.inl rfl⟩
            · split
              · split
                · exact Or.inl rfl
                · refine Or.inr ⟨_, hat _ ?_, Or.inr rfl⟩
                  rw [hcs]
                  exact ProcFrame.of_set_p_state _ s.current _
              · split
                · refine Or.inr ⟨_, hsave.frame_trans ?_, Or.inr rfl⟩
                  refine (sys_fork_frame K (exception_save s reg) hpid).frame_mono ?_
                  intro j hj
                  rcases hj with hj | hj
                  · rw [hj, hcs]
                    exact hc0
                  · have := (sys_fork_find_slot_result K (exception_save s reg)).1
                    omega
                · split
                  · refine Or.inr ⟨_, hat _ ?_, Or.inr rfl⟩
                    have := (process_cleanup_partial_frame K (exception_save s reg)
                      ((exception_save s reg).processes (exception_save s reg).current).p_pid
                      K.MEMSIZE_VIRTUAL).1
                    rw [hcs, hpid _ hcur, Int.toNat_ofNat] at this
                    rw [hcs, hpid _ hcur]
                    exact this
                  · exact Or.inl rfl

/-- A trap taken while a process with the process 0 invariant in force runs keeps the
invariant. -/
theorem exception_keeps_zero (K : KernelConfig) (L : KernelLayout) (s : KernelState)
    (reg : x86_64_registers) (hN : 0 < K.NPROC) (hz : ProcessZero K s)
    (hrun : (s.processes s.current).p_state = procstate.P_RUNNABLE)
    (hcur : s.current < K.NPROC) :
    (∀ s', exception K L s reg = trap_result.resumed s' →
        ProcessZero K s' ∧ (s'.processes s'.current).p_state = procstate.P_RUNNABLE ∧
          s'.current < K.NPROC) ∧
      (∀ s', exception K L s reg = trap_result.spinning s' → ProcessZero K s') := by
  rcases exception_cases K L s reg hz hrun hcur with h | ⟨t, ht, h | h⟩
  · rw [h]
    exact ⟨fun s' h' => (by cases h'), fun s' h' => (by cases h')⟩
  · rw [h]
    obtain ⟨r1, r2⟩ := schedule_result K t hN
    have hzt : ProcessZero K t := hz.of_frame ht (fun h => h rfl)
    refine ⟨fun s' h' => ?_, fun s' h' => ?_⟩
    · obtain ⟨p1, p2, p3⟩ := r1 s' h'
      exact ⟨⟨by rw [p1]; exact hzt.1, by rw [p1]; exact hzt.2.1,
        fun i hi => by rw [p1]; exact hzt.2.2 i hi⟩, p2, p3⟩
    · rw [r2 s' h']
      exact hzt
  · rw [h]
    obtain ⟨r1, r2⟩ := exception_exit_result K t hN (by rw [ht.1]; exact hcur)
    have hzt : ProcessZero K t := hz.of_frame ht (fun h => h rfl)
    refine ⟨fun s' h' => ?_, fun s' h' => ?_⟩
    · obtain ⟨p1, p2, p3⟩ := r1 s' h'
      exact ⟨⟨by rw [p1]; exact hzt.1, by rw [p1]; exact hzt.2.1,
        fun i hi => by rw [p1]; exact hzt.2.2 i hi⟩, p2, p3⟩
    · rw [r2 s' h']
      exact hzt

theorem virtual_memory_map_pages_frame (K : KernelConfig) (r perm : Nat) (a : Bool) :
    ∀ (n : Nat) (s : KernelState) (va pa : Nat),
      (virtual_memory_map_pages K r perm a n s va pa).1.processes = s.processes ∧
        (virtual_memory_map_pages K r perm a n s va pa).1.current = s.current := by
  intro n
  induction n with
  | zero =>
    intro s va pa
    exact ⟨rfl, rfl⟩
  | succ n ih =>
    intro s va pa
    obtain ⟨h, g⟩ := virtual_memory_map_page_frame K s r va pa perm a
    simp only [virtual_memory_map_pages]
    split
    · exact ⟨h, g⟩
    · obtain ⟨h', g'⟩ := ih (virtual_memory_map_page K s r va pa perm a).1
        (va + PAGESIZE) (pa + PAGESIZE)
      exact ⟨h'.trans h, g'.trans g⟩

/-- `virtual_memory_map` of a range of any size writes no descriptor. -/
theorem virtual_memory_map_procframe (K : KernelConfig) (A : Nat → Prop) (s : KernelState)
    (r va pa sz perm : Nat) (a : Bool) :
    ProcFrame A s (virtual_memory_map K s r va pa sz perm a).1 := by
  obtain ⟨h, g⟩ := virtual_memory_map_pages_frame K r perm a (sz / PAGESIZE) s va pa
  exact ProcFrame.of_eq A h g

theorem assign_physical_page_procframe (K : KernelConfig) (A : Nat → Prop)
    (s : KernelState) (addr : Nat) (owner : Int) :
    ProcFrame A s (assign_physical_page K s addr owner).1 := by
  simp only [assign_physical_page]
  split
  · exact ProcFrame.frame_refl A s
  · split
    · exact ProcFrame.frame_refl A s
    · exact ProcFrame.of_eq A rfl rfl

/-- `process_setup(pid, n)` writes only the descriptor of slot `pid`, which it leaves
Runnable. -/
theorem process_setup_frame (K : KernelConfig) (L : KernelLayout) (env : LoaderModel)
    (s s' : KernelState) (pid n : Nat) (h : process_setup K L env s pid n = some s') :
    ProcFrame (fun j => j = pid) s s' ∧
      (s'.processes pid).p_state = procstate.P_RUNNABLE := by
  have hmap : ProcFrame (fun j => j = pid) s (process_setup_map K L env s pid) := by
    obtain ⟨c1, c2⟩ := copy_pagetable_frame K
      (set_proc s pid { s.processes pid with p_registers := env.process_init })
      L.kernel_pagetable (int8 pid)
    simp only [process_setup_map]
    refine ProcFrame.frame_trans ?_ (virtual_memory_map_procframe K _ _ _ _ _ _ _ _)
    refine ProcFrame.frame_trans ?_ (virtual_memory_map_procframe K _ _ _ _ _ _ _ _)
    refine ProcFrame.frame_trans ?_ (virtual_memory_map_procframe K _ _ _ _ _ _ _ _)
    have h2 := ProcFrame.frame_trans (ProcFrame.frame_trans
      (ProcFrame.of_set_proc s pid
        { s.processes pid with p_registers := env.process_init } rfl)
      (ProcFrame.of_eq _ c1 c2))
      (ProcFrame.of_set_p_pagetable _ pid
        (copy_pagetable K
          (set_proc s pid { s.processes pid with p_registers := env.process_init })
          L.kernel_pagetable (int8 pid)).2)
    exact ⟨h2.1, h2.2.1, h2.2.2⟩
  have hload : ∀ t, ProcFrame (fun j => j = pid) t (program_load_state env t pid n) := by
    intro t
    simp only [program_load_state]
    exact ProcFrame.frame_trans
      (ProcFrame.of_eq _ rfl rfl :
        ProcFrame (fun j => j = pid) t
          { t with pageinfo := (env.program_load t pid n).1,
                   physmem := (env.program_load t pid n).2.1 })
      (ProcFrame.of_set_proc _ pid
        { t.processes pid with p_registers := (env.program_load t pid n).2.2.1 } rfl)
  have hstack : ∀ t sp, ProcFrame (fun j => j = pid) t (process_setup_stack K t pid sp) ∧
      ((process_setup_stack K t pid sp).processes pid).p_state = procstate.P_RUNNABLE := by
    intro t sp
    simp only [process_setup_stack]
    refine ⟨?_, by simp [set_p_state]⟩
    refine ProcFrame.frame_trans ?_ (ProcFrame.of_set_p_state _ pid _)
    refine ProcFrame.frame_trans ?_ (virtual_memory_map_procframe K _ _ _ _ _ _ _ _)
    refine ProcFrame.frame_trans ?_ (assign_physical_page_procframe K _ _ _ _)
    exact ProcFrame.of_set_proc t pid
      { t.processes pid with
        p_registers := { (t.processes pid).p_registers with reg_rsp := K.MEMSIZE_VIRTUAL } }
      rfl
  simp only [process_setup] at h
  split at h
  · cases h
  · split at h
    · cases h
    · cases h
      obtain ⟨f1, f2, _⟩ := find_free_page_frame K
        (program_load_state env (process_setup_map K L env s pid) pid n)
      exact ⟨((hmap.frame_trans (hload _)).frame_trans (ProcFrame.of_eq _ f1 f2)).frame_trans
        (hstack _ _).1, (hstack _ _).2⟩

theorem kernel_setup_loop_frame (K : KernelConfig) (L : KernelLayout) (env : LoaderModel) :
    ∀ (l : List Nat) (s s' : KernelState), (∀ i, i ∈ l → i ≠ 0) →
      kernel_setup_loop K L env l s = some s' → ProcFrame (fun j => j ≠ 0) s s' := by
  intro l
  induction l with
  | nil =>
    intro s s' _ h
    simp only [kernel_setup_loop] at h
    cases h
    exact ProcFrame.frame_refl _ s
  | cons i rest ih =>
    intro s s' hl h
    simp only [kernel_setup_loop] at h
    cases hset : process_setup K L env s i (i - 1) with
    | none =>
      rw [hset] at h
      cases h
    | some t =>
      rw [hset] at h
      obtain ⟨hf, _⟩ := process_setup_frame K L env s t i (i - 1) hset
      have hr := ih t s' (fun j hj => hl j (List.mem_cons_of_mem i hj)) h
      exact (hf.frame_mono (fun j hj => by
        rw [hj]
        exact hl i (List.mem_cons_self i rest))).frame_trans hr

theorem kernel_init_processes_zero (K : KernelConfig) (s : KernelState) (hN : 0 < K.NPROC) :
    ProcessZero K (kernel_init_processes K s) := by
  refine ⟨?_, ?_, ?_⟩
  · simp [kernel_init_processes, hN]
  · simp [kernel_init_processes, hN]
  · intro i hi
    simp [kernel_init_processes, hi]

theorem run_result (t : KernelState) (pid : Nat) (s' : KernelState)
    (h : run t pid = trap_result.resumed s') :
    s' = { t with current := pid } ∧ (t.processes pid).p_state = procstate.P_RUNNABLE := by
  simp only [run] at h
  split at h
  · rename_i hr
    cases h
    exact ⟨rfl, hr⟩
  · cases h

/-- The state in which `kernel` starts process 1 has the process 0 invariant. -/
theorem kernel_boot_zero (K : KernelConfig) (L : KernelLayout) (env : LoaderModel)
    (s0 : KernelState) (command : boot_command) (s : KernelState) (hN : 0 < K.NPROC)
    (h : kernel K L env s0 command = trap_result.resumed s) :
    ProcessZero K s ∧ (s.processes s.current).p_state = procstate.P_RUNNABLE ∧
      s.current = 1 := by
  have hinit := kernel_init_processes_zero K
    (virtual_memory_map K
      (virtual_memory_map K s0 L.kernel_pagetable 0 0 K.PROC_START_ADDR
        (PTE_P ||| PTE_W) false).1
      L.kernel_pagetable 0xB8000 0xB8000 PAGESIZE (PTE_P ||| PTE_W ||| PTE_U) false).1 hN
  have hfin : ∀ t, ProcessZero K t → run t 1 = trap_result.resumed s →
      ProcessZero K s ∧ (s.processes s.current).p_state = procstate.P_RUNNABLE ∧
        s.current = 1 := by
    intro t hz hr
    obtain ⟨h1, h2⟩ := run_result t 1 s hr
    rw [h1]
    exact ⟨hz, h2, rfl⟩
  have hone : ∀ t n, process_setup K L env
      (kernel_init_processes K
        (virtual_memory_map K
          (virtual_memory_map K s0 L.kernel_pagetable 0 0 K.PROC_START_ADDR
            (PTE_P ||| PTE_W) false).1
          L.kernel_pagetable 0xB8000 0xB8000 PAGESIZE (PTE_P ||| PTE_W ||| PTE_U) false).1)
      1 n = some t → ProcessZero K t := by
    intro t n ht
    exact hinit.of_frame (process_setup_frame K L env _ t 1 n ht).1 (by decide)
  cases command with
  | fork =>
    simp only [kernel] at h
    split at h
    · cases h
    · rename_i t ht
      exact hfin t (hone t 4 ht) h
  | forkexit =>
    simp only [kernel] at h
    split at h
    · cases h
    · rename_i t ht
      exact hfin t (hone t 5 ht) h
  | other =>
    simp only [kernel] at h
    split at h
    · cases h
    · rename_i t ht
      refine hfin t (hinit.of_frame (kernel_setup_loop_frame K L env [1, 2, 3, 4] _ t ?_ ht)
        (fun h => h rfl)) h
      intro i hi
      simp at hi
      omega

/-- In every state in which a process runs the process 0 invariant holds and the
current process is a Runnable slot of the table. -/
theorem reachable_zero (K : KernelConfig) (L : KernelLayout) (env : LoaderModel)
    (hN : 1 < K.NPROC) (s : KernelState) (h : Reachable K L env s) :
    ProcessZero K s ∧ (s.processes s.current).p_state = procstate.P_RUNNABLE ∧
      s.current < K.NPROC := by
  induction h with
  | boot s0 command s hboot =>
    obtain ⟨h1, h2, h3⟩ := kernel_boot_zero K L env s0 command s (by omega) hboot
    exact ⟨h1, h2, by rw [h3]; exact hN⟩
  | trap s reg s' _ htrap ih =>
    obtain ⟨h1, h2, h3⟩ := ih
    exact (exception_keeps_zero K L s reg (by omega) h1 h2 h3).1 s' htrap

/-- The child slot of `fork`, whatever path the handler takes, is not slot 0. -/
theorem sys_fork_child_pos (K : KernelConfig) (s : KernelState) (c : Nat)
    (h : (sys_fork K s).2 = fork_outcome.forked c ∨
      (sys_fork K s).2 = fork_outcome.clone_failed c ∨
      ∃ i, (sys_fork K s).2 = fork_outcome.copy_failed c i) : 1 ≤ c := by
  have hpos := (sys_fork_find_slot_result K s).1
  simp only [sys_fork] at h
  split at h
  · rcases h with h | h | ⟨i, h⟩ <;> cases h
  · split at h
    · rcases h with h | h | ⟨i, h⟩
      · cases h
      · cases h
        exact hpos
      · cases h
    · split at h
      · rcases h with h | h | ⟨i, h⟩
        · cases h
        · cases h
        · cases h
          exact hpos
      · rcases h with h | h | ⟨i, h⟩
        · cases h
          exact hpos
        · cases h
        · cases h

/-- C20. Process 0 invariant.  Let the table have at least two slots.  In the state in
which `kernel` starts the first process, and in every state in which a process is resumed
after a trap taken in a state reached this way (in all of them the current process is
Runnable with a pid of at least 1, and the pid of every slot is its index), slot 0 is Free
and holds a null page table; the same holds in the state in which the scheduler spins
after such a trap.  More generally every trap taken while a Runnable process runs keeps
"slot 0 is Free with a null page table and every pid is its slot index".  Fork never
chooses slot 0 as the child: its search starts at slot 1. -/
theorem process_zero_invariant (K : KernelConfig) (L : KernelLayout) (env : LoaderModel)
    (hN : 1 < K.NPROC) :
    (∀ s0 command s, kernel K L env s0 command = trap_result.resumed s →
        (s.processes 0).p_state = procstate.P_FREE ∧ (s.processes 0).p_pagetable = NULL) ∧
      (∀ s, Reachable K L env s →
        (s.processes 0).p_state = procstate.P_FREE ∧ (s.processes 0).p_pagetable = NULL ∧
          (s.processes s.current).p_state = procstate.P_RUNNABLE ∧
          1 ≤ (s.processes s.current).p_pid ∧
          ∀ i, i < K.NPROC → (s.processes i).p_pid = (i : Int)) ∧
      (∀ s reg s', Reachable K L env s →
        exception K L s reg = trap_result.resumed s' ∨
          exception K L s reg = trap_result.spinning s' →
        (s'.processes 0).p_state = procstate.P_FREE ∧ (s'.processes 0).p_pagetable = NULL) ∧
      (∀ s reg s', ProcessZero K s →
        (s.processes s.current).p_state = procstate.P_RUNNABLE → s.current < K.NPROC →
        exception K L s reg = trap_result.resumed s' ∨
          exception K L s reg = trap_result.spinning s' →
        ProcessZero K s') ∧
      (∀ s, 1 ≤ sys_fork_find_slot K s K.NPROC 1 ∧
        ∀ c, ((sys_fork K s).2 = fork_outcome.forked c ∨
            (sys_fork K s).2 = fork_outcome.clone_failed c ∨
            ∃ i, (sys_fork K s).2 = fork_outcome.copy_failed c i) → 1 ≤ c) := by
  have hstep : ∀ s reg s', ProcessZero K s →
      (s.processes s.current).p_state = procstate.P_RUNNABLE → s.current < K.NPROC →
      exception K L s reg = trap_result.resumed s' ∨
        exception K L s reg = trap_result.spinning s' →
      ProcessZero K s' := by
    intro s reg s' hz hr hc h
    obtain ⟨k1, k2⟩ := exception_keeps_zero K L s reg (by omega) hz hr hc
    rcases h with h | h
    · exact (k1 s' h).1
    · exact k2 s' h
  refine ⟨?_, ?_, ?_, hstep, ?_⟩
  · intro s0 command s h
    obtain ⟨hz, _, _⟩ := kernel_boot_zero K L env s0 command s (by omega) h
    exact ⟨hz.1, hz.2.1⟩
  · intro s h
    obtain ⟨hz, hr, hc⟩ := reachable_zero K L env hN s h
    refine ⟨hz.1, hz.2.1, hr, ?_, hz.2.2⟩
    rw [hz.2.2 _ hc]
    have : s.current ≠ 0 := by
      intro h0
      rw [h0, hz.1] at hr
      cases hr
    omega
  · intro s reg s' h hres
    obtain ⟨hz, hr, hc⟩ := reachable_zero K L env hN s h
    have := hstep s reg s' hz hr hc hres
    exact ⟨this.1, this.2.1⟩
  · intro s
    exact ⟨(sys_fork_find_slot_result K s).1, fun c h => sys_fork_child_pos K s c h⟩

theorem trap_result.eq_resumed (r : trap_result) (d : KernelState)
    (h : r.is_resumed = true) : r = trap_result.resumed (r.state_or d) := by
  cases r with
  | resumed s => rfl
  | spinning s => cases h
  | halted => cases h

theorem trap_numbers_distinct_ne (L : KernelLayout) (h : trap_numbers_distinct L) :
    L.INT_SYS_PANIC ≠ L.INT_SYS_GETPID ∧ L.INT_SYS_PANIC ≠ L.INT_SYS_YIELD ∧
      L.INT_SYS_PANIC ≠ L.INT_SYS_PAGE_ALLOC ∧ L.INT_SYS_PANIC ≠ L.INT_TIMER ∧
      L.INT_SYS_PANIC ≠ L.INT_PAGEFAULT ∧ L.INT_SYS_PANIC ≠ L.INT_SYS_FORK ∧
      L.INT_SYS_PANIC ≠ L.INT_SYS_EXIT ∧
      L.INT_SYS_GETPID ≠ L.INT_SYS_YIELD ∧ L.INT_SYS_GETPID ≠ L.INT_SYS_PAGE_ALLOC ∧
      L.INT_SYS_GETPID ≠ L.INT_TIMER ∧ L.INT_SYS_GETPID ≠ L.INT_PAGEFAULT ∧
      L.INT_SYS_GETPID ≠ L.INT_SYS_FORK ∧ L.INT_SYS_GETPID ≠ L.INT_SYS_EXIT ∧
      L.INT_SYS_YIELD ≠ L.INT_SYS_PAGE_ALLOC ∧ L.INT_SYS_YIELD ≠ L.INT_TIMER ∧
      L.INT_SYS_YIELD ≠ L.INT_PAGEFAULT ∧ L.INT_SYS_YIELD ≠ L.INT_SYS_FORK ∧
      L.INT_SYS_YIELD ≠ L.INT_SYS_EXIT ∧
      L.INT_SYS_PAGE_ALLOC ≠ L.INT_TIMER ∧ L.INT_SYS_PAGE_ALLOC ≠ L.INT_PAGEFAULT ∧
      L.INT_SYS_PAGE_ALLOC ≠ L.INT_SYS_FORK ∧ L.INT_SYS_PAGE_ALLOC ≠ L.INT_SYS_EXIT ∧
      L.INT_TIMER ≠ L.INT_PAGEFAULT ∧ L.INT_TIMER ≠ L.INT_SYS_FORK ∧
      L.INT_TIMER ≠ L.INT_SYS_EXIT ∧
      L.INT_PAGEFAULT ≠ L.INT_SYS_FORK ∧ L.INT_PAGEFAULT ≠ L.INT_SYS_EXIT ∧
      L.INT_SYS_FORK ≠ L.INT_SYS_EXIT := by
  simp only [trap_numbers_distinct, List.nodup_cons, List.mem_cons, List.mem_singleton,
    not_or, List.not_mem_nil, not_false_eq_true, List.nodup_nil, and_true] at h
  obtain ⟨⟨a1, a2, a3, a4, a5, a6, a7⟩, ⟨b1, b2, b3, b4, b5, b6⟩, ⟨c1, c2, c3, c4, c5⟩,
    ⟨d1, d2, d3, d4⟩, ⟨e1, e2, e3⟩, ⟨f1, f2⟩, g1⟩ := h
  exact ⟨a1, a2, a3, a4, a5, a6, a7, b1, b2, b3, b4, b5, b6, c1, c2, c3, c4, c5, d1, d2, d3,
    d4, e1, e2, e3, f1, f2, g1⟩

/-- The `switch` of `exception`, case by case, for pairwise different trap numbers. -/
theorem exception_switch_cases (K : KernelConfig) (L : KernelLayout) (t : KernelState)
    (reg : x86_64_registers) (hd : trap_numbers_distinct L) :
    (reg.reg_intno = L.INT_SYS_PANIC → exception_switch K L t reg = trap_result.halted) ∧
      (reg.reg_intno = L.INT_SYS_GETPID →
        exception_switch K L t reg =
          exception_exit K (set_reg_rax t t.current (uint64 (t.processes t.current).p_pid))) ∧
      (reg.reg_intno = L.INT_SYS_YIELD → exception_switch K L t reg = schedule K t) ∧
      (reg.reg_intno = L.INT_SYS_PAGE_ALLOC →
        exception_switch K L t reg = exception_exit K (sys_page_alloc K t)) ∧
      (reg.reg_intno = L.INT_TIMER →
        exception_switch K L t reg = schedule K { t with ticks := (t.ticks + 1) % 2 ^ 32 }) ∧
      (reg.reg_intno = L.INT_PAGEFAULT →
        exception_switch K L t reg =
          if reg.reg_err &&& L.PFERR_USER = 0 then trap_result.halted
          else exception_exit K (set_p_state t t.current procstate.P_BROKEN)) ∧
      (reg.reg_intno = L.INT_SYS_FORK →
        exception_switch K L t reg = exception_exit K (sys_fork K t).1) ∧
      (reg.reg_intno = L.INT_SYS_EXIT →
        exception_switch K L t reg =
          exception_exit K (process_cleanup K t (t.processes t.current).p_pid)) ∧
      (unknown_trap L reg → exception_switch K L t reg = trap_result.halted) := by
  obtain ⟨a1, a2, a3, a4, a5, a6, a7, b1, b2, b3, b4, b5, b6, c1, c2, c3, c4, c5, d1, d2,
    d3, d4, e1, e2, e3, f1, f2, g1⟩ := trap_numbers_distinct_ne L hd
  refine ⟨?_, ?_, ?_, ?_, ?_, ?_, ?_, ?_, ?_⟩
  · intro h
    simp only [exception_switch, h, if_true]
  · intro h
    simp only [exception_switch, h, if_neg a1.symm, if_true]
  · intro h
    simp only [exception_switch, h, if_neg a2.symm, if_neg b1.symm, if_true]
  · intro h
    simp only [exception_switch, h, if_neg a3.symm, if_neg b2.symm, if_neg c1.symm, if_true]
  · intro h
    simp only [exception_switch, h, if_neg a4.symm, if_neg b3.symm, if_neg c2.symm,
      if_neg d1.symm, if_true]
  · intro h
    simp only [exception_switch, h, if_neg a5.symm, if_neg b4.symm, if_neg c3.symm,
      if_neg d2.symm, if_neg e1.symm, if_true]
  · intro h
    simp only [exception_switch, h, if_neg a6.symm, if_neg b5.symm, if_neg c4.symm,
      if_neg d3.symm, if_neg e2.symm, if_neg f1.symm, if_true]
  · intro h
    simp only [exception_switch, h, if_neg a7.symm, if_neg b6.symm, if_neg c5.symm,
      if_neg d4.symm, if_neg e3.symm, if_neg f2.symm, if_neg g1.symm, if_true]
  · intro h
    simp only [unknown_trap, List.mem_cons, List.mem_singleton, not_or, List.not_mem_nil,
      not_false_eq_true, and_true] at h
    obtain ⟨h1, h2, h3, h4, h5, h6, h7, h8⟩ := h
    simp only [exception_switch, if_neg h1, if_neg h2, if_neg h3, if_neg h4, if_neg h5,
      if_neg h6, if_neg h7, if_neg h8]

/-- `exception` is its `switch` on the saved state unless the invariant checker stops
the kernel. -/
theorem exception_checked (K : KernelConfig) (L : KernelLayout) (s : KernelState)
    (reg : x86_64_registers)
    (hcheck : check_virtual_memory K L (exception_save s reg) = true) :
    exception K L s reg = exception_switch K L (exception_save s reg) reg := by
  simp only [exception, hcheck]
  rw [if_neg (by simp)]

/-- `schedule()` never ends in a halt: it resumes a process or spins. -/
theorem schedule_ne_halted (K : KernelConfig) (t : KernelState) :
    schedule K t ≠ trap_result.halted := by
  cases hscan : schedule_scan K t K.NPROC (t.processes t.current).p_pid with
  | none =>
    simp only [schedule, hscan]
    intro h
    cases h
  | some p =>
    rw [schedule_of_scan K t p hscan]
    intro h
    cases h

/-- C24. Kernel-fatal traps.  For pairwise different trap numbers and every state: a page
fault whose error code lacks the user-mode bit, the panic syscall, and a trap whose number
is none of panic, get-pid, yield, page-alloc, timer, page fault, fork and exit each end in
a halt.  No process is resumed, and the scheduler is not invoked: the result is not the
result of any call of `schedule`, which resumes a process or spins. -/
theorem exception_fatal (K : KernelConfig) (L : KernelLayout) (s : KernelState)
    (reg : x86_64_registers) (hd : trap_numbers_distinct L)
    (h : kernel_page_fault L reg ∨ reg.reg_intno = L.INT_SYS_PANIC ∨ unknown_trap L reg) :
    exception K L s reg = trap_result.halted ∧
      (∀ s', exception K L s reg ≠ trap_result.resumed s') ∧
      (∀ t, exception K L s reg ≠ schedule K t) := by
  have hsw : exception_switch K L (exception_save s reg) reg = trap_result.halted := by
    obtain ⟨c1, _, _, _, _, c6, _, _, c9⟩ :=
      exception_switch_cases K L (exception_save s reg) reg hd
    rcases h with h | h | h
    · rw [c6 h.1, if_pos h.2]
    · exact c1 h
    · exact c9 h
  have hex : exception K L s reg = trap_result.halted := by
    simp only [exception]
    split
    · rfl
    · exact hsw
  refine ⟨hex, ?_, ?_⟩
  · intro s' heq
    rw [hex] at heq
    cases heq
  · intro t heq
    rw [hex] at heq
    exact schedule_ne_halted K t heq.symm

/-- Witness for C24: in the booted small machine the panic syscall (trap 48), a page fault
(trap 14) with error code 2, which lacks the user-mode bit 4, and the unknown trap 99 all
halt the kernel. -/
theorem exception_fatal_witness :
    exception boot_config boot_layout booted_state (trap_registers 48 0) =
        trap_result.halted ∧
      exception boot_config boot_layout booted_state (trap_registers 14 2) =
        trap_result.halted ∧
      exception boot_config boot_layout booted_state (trap_registers 99 0) =
        trap_result.halted :=
  ⟨(exception_fatal boot_config boot_layout booted_state (trap_registers 48 0) (by decide)
      (Or.inr (Or.inl rfl))).1,
    (exception_fatal boot_config boot_layout booted_state (trap_registers 14 2) (by decide)
      (Or.inl (by decide))).1,
    (exception_fatal boot_config boot_layout booted_state (trap_registers 99 0) (by decide)
      (Or.inr (Or.inr (by decide)))).1⟩

/-- The end of `exception`: the current process is resumed in the state the handler left
if it is Runnable there, otherwise the scheduler selects. -/
theorem exception_exit_eq (K : KernelConfig) (t : KernelState) :
    exception_exit K t =
      if (t.processes t.current).p_state = procstate.P_RUNNABLE then trap_result.resumed t
      else schedule K t := by
  simp only [exception_exit, run]
  split <;> rfl

/-- C25. Trap exit decision.  For pairwise different trap numbers, at a trap at which the
invariant checker does not stop the kernel: yield ends in the scheduler's selection made
in the state with the trap's register snapshot saved, and so does timer, after the tick
counter, an unsigned 32-bit number, has been incremented by exactly 1 (both whether or not
the current process is still Runnable); get-pid, page-alloc, fork, exit and a page fault
from user mode end, in the state `t` their handler leaves, with the current process
resumed if it is Runnable in `t` and with the scheduler's selection otherwise. -/
theorem exception_exit_decision (K : KernelConfig) (L : KernelLayout) (s : KernelState)
    (reg : x86_64_registers) (hd : trap_numbers_distinct L)
    (hcheck : check_virtual_memory K L (exception_save s reg) = true) :
    (reg.reg_intno = L.INT_SYS_YIELD →
        exception K L s reg = schedule K (exception_save s reg)) ∧
      (reg.reg_intno = L.INT_TIMER →
        exception K L s reg =
            schedule K { exception_save s reg with ticks := (s.ticks + 1) % 2 ^ 32 } ∧
          (s.ticks + 1 < 2 ^ 32 → (s.ticks + 1) % 2 ^ 32 = s.ticks + 1)) ∧
      ((reg.reg_intno = L.INT_SYS_GETPID ∨ reg.reg_intno = L.INT_SYS_PAGE_ALLOC ∨
          reg.reg_intno = L.INT_SYS_FORK ∨ reg.reg_intno = L.INT_SYS_EXIT ∨
          (reg.reg_intno = L.INT_PAGEFAULT ∧ reg.reg_err &&& L.PFERR_USER ≠ 0)) →
        ∃ t,
          (reg.reg_intno = L.INT_SYS_GETPID →
            t = set_reg_rax (exception_save s reg) s.current
              (uint64 ((exception_save s reg).processes s.current).p_pid)) ∧
          (reg.reg_intno = L.INT_SYS_PAGE_ALLOC → t = sys_page_alloc K (exception_save s reg)) ∧
          (reg.reg_intno = L.INT_SYS_FORK → t = (sys_fork K (exception_save s reg)).1) ∧
          (reg.reg_intno = L.INT_SYS_EXIT →
            t = process_cleanup K (exception_save s reg)
              ((exception_save s reg).processes s.current).p_pid) ∧
          (reg.reg_intno = L.INT_PAGEFAULT →
            t = set_p_state (exception_save s reg) s.current procstate.P_BROKEN) ∧
          exception K L s reg =
            if (t.processes t.current).p_state = procstate.P_RUNNABLE then
              trap_result.resumed t
            else schedule K t) := by
  obtain ⟨a1, a2, a3, a4, a5, a6, a7, b1, b2, b3, b4, b5, b6, c1, c2, c3, c4, c5, d1, d2,
    d3, d4, e1, e2, e3, f1, f2, g1⟩ := trap_numbers_distinct_ne L hd
  obtain ⟨_, k2, k3, k4, k5, k6, k7, k8, _⟩ :=
    exception_switch_cases K L (exception_save s reg) reg hd
  have hcur : (exception_save s reg).current = s.current := rfl
  rw [exception_checked K L s reg hcheck]
  refine ⟨k3, ?_, ?_⟩
  · intro h
    exact ⟨k5 h, fun hlt => Nat.mod_eq_of_lt hlt⟩
  · intro h
    rcases h with h | h | h | h | ⟨h, he⟩
    · refine ⟨_, fun _ => rfl, ?_, ?_, ?_, ?_, ?_⟩
      · intro h'
        exact absurd (h.symm.trans h') b2
      · intro h'
        exact absurd (h.symm.trans h') b5
      · intro h'
        exact absurd (h.symm.trans h') b6
      · intro h'
        exact absurd (h.symm.trans h') b4
      · rw [k2 h, exception_exit_eq]
        rfl
    · refine ⟨_, ?_, fun _ => rfl, ?_, ?_, ?_, ?_⟩
      · intro h'
        exact absurd (h'.symm.trans h) b2
      · intro h'
        exact absurd (h.symm.trans h') d3
      · intro h'
        exact absurd (h.symm.trans h') d4
      · intro h'
        exact absurd (h.symm.trans h') d2
      · rw [k4 h, exception_exit_eq]
    · refine ⟨_, ?_, ?_, fun _ => rfl, ?_, ?_, ?_⟩
      · intro h'
        exact absurd (h'.symm.trans h) b5
      · intro h'
        exact absurd (h'.symm.trans h) d3
      · intro h'
        exact absurd (h.symm.trans h') g1
      · intro h'
        exact absurd (h'.symm.trans h) f1
      · rw [k7 h, exception_exit_eq]
    · refine ⟨_, ?_, ?_, ?_, fun _ => rfl, ?_, ?_⟩
      · intro h'
        exact absurd (h'.symm.trans h) b6
      · intro h'
        exact absurd (h'.symm.trans h) d4
      · intro h'
        exact absurd (h'.symm.trans h) g1
      · intro h'
        exact absurd (h'.symm.trans h) f2
      · rw [k8 h, exception_exit_eq]
        rfl
    · refine ⟨_, ?_, ?_, ?_, ?_, fun _ => rfl, ?_⟩
      · intro h'
        exact absurd (h'.symm.trans h) b4
      · intro h'
        exact absurd (h'.symm.trans h) d2
      · intro h'
        exact absurd (h.symm.trans h') f1
      · intro h'
        exact absurd (h.symm.trans h') f2
      · rw [k6 h, if_neg he, exception_exit_eq]
        rfl

/-- The fork handler writes only the descriptors of the caller and of a slot that was
Free. -/
theorem sys_fork_frame_free (K : KernelConfig) (s : KernelState)
    (hpid : ∀ i, i < K.NPROC → (s.processes i).p_pid = (i : Int)) :
    ProcFrame (fun j => j = s.current ∨ (s.processes j).p_state = procstate.P_FREE) s
      (sys_fork K s).1 := by
  by_cases hslot : K.NPROC ≤ sys_fork_find_slot K s K.NPROC 1
  · have : sys_fork K s = (set_reg_rax s s.current (uint64 (-1)), fork_outcome.no_free_slot) := by
      simp only [sys_fork, if_pos hslot]
    rw [this]
    exact (ProcFrame.of_set_reg_rax s s.current _).frame_mono (fun j hj => Or.inl hj)
  · refine (sys_fork_frame K s hpid).frame_mono ?_
    intro j hj
    rcases hj with hj | hj
    · exact Or.inl hj
    · right
      rw [hj]
      exact (sys_fork_find_slot_result K s).2.2 (by omega)

/-- Every trap ends in a halt, or in `schedule()` or the end of `exception` run on a
state that differs from the saved state in the descriptors of the current process and of
slots that were Free only. -/
theorem exception_cases_free (K : KernelConfig) (L : KernelLayout) (s : KernelState)
    (reg : x86_64_registers)
    (hpid : ∀ i, i < K.NPROC → (s.processes i).p_pid = (i : Int))
    (hcur : s.current < K.NPROC) :
    exception K L s reg = trap_result.halted ∨
      ∃ t, ProcFrame (fun j => j = s.current ∨ (s.processes j).p_state = procstate.P_FREE)
          (exception_save s reg) t ∧
        (exception K L s reg = schedule K t ∨ exception K L s reg = exception_exit K t) := by
  have hsave := ProcFrame.of_exception_save s reg
  have hcs : (exception_save s reg).current = s.current := rfl
  have hpid1 : ∀ i, i < K.NPROC → ((exception_save s reg).processes i).p_pid = (i : Int) := by
    intro i hi
    rw [hsave.2.2 i]
    exact hpid i hi
  have hat : ∀ t, ProcFrame (fun j => j = s.current) (exception_save s reg) t →
      ProcFrame (fun j => j = s.current ∨ (s.processes j).p_state = procstate.P_FREE)
        (exception_save s reg) t := fun t ht => ht.frame_mono (fun j hj => Or.inl hj)
  simp only [exception]
  split
  · exact Or.inl rfl
  · simp only [exception_switch]
    split
    · exact Or.inl rfl
    · split
      · refine Or.inr ⟨_, hat _ ?_, Or.inr rfl⟩
        rw [hcs]
        exact ProcFrame.of_set_reg_rax _ s.current _
      · split
        · exact Or.inr ⟨_, ProcFrame.frame_refl _ _, Or.inl rfl⟩
        · split
          · refine Or.inr ⟨_, hat _ ?_, Or.inr rfl⟩
            have := sys_page_alloc_frame K (exception_save s reg)
            rw [hcs] at this
            exact this
          · split
            · exact Or.inr ⟨{ exception_save s reg with
                  ticks := ((exception_save s reg).ticks + 1) % 2 ^ 32 },
                ProcFrame.of_eq _ rfl rfl, Or.inl rfl⟩
            · split
              · split
                · exact Or.inl rfl
                · refine Or.inr ⟨_, hat _ ?_, Or.inr rfl⟩
                  rw [hcs]
                  exact ProcFrame.of_set_p_state _ s.current _
              · split
                · refine Or.inr ⟨_, ?_, Or.inr rfl⟩
                  refine (sys_fork_frame_free K (exception_save s reg) hpid1).frame_mono ?_
                  intro j hj
                  rcases hj with hj | hj
                  · exact Or.inl hj
                  · by_cases hjc : j = s.current
                    · exact Or.inl hjc
                    · right
                      rw [← hsave.2.1 j hjc]
                      exact hj
                · split
                  · refine Or.inr ⟨_, hat _ ?_, Or.inr rfl⟩
                    have := (process_cleanup_partial_frame K (exception_save s reg)
                      ((exception_save s reg).processes (exception_save s reg).current).p_pid
                      K.MEMSIZE_VIRTUAL).1
                    rw [hcs, hpid1 _ hcur, Int.toNat_ofNat] at this
                    rw [hcs, hpid1 _ hcur]
                    exact this
                  · exact Or.inl rfl

/-- A trap leaves the descriptor of every process that is neither the current one nor
Free as it is. -/
theorem exception_frame (K : KernelConfig) (L : KernelLayout) (s : KernelState)
    (reg : x86_64_registers) (hN : 0 < K.NPROC)
    (hpid : ∀ i, i < K.NPROC → (s.processes i).p_pid = (i : Int))
    (hcur : s.current < K.NPROC) (s' : KernelState)
    (hres : exception K L s reg = trap_result.resumed s' ∨
      exception K L s reg = trap_result.spinning s') :
    ∀ j, j ≠ s.current → (s.processes j).p_state ≠ procstate.P_FREE →
      s'.processes j = s.processes j := by
  intro j hj hfree
  have hsave := ProcFrame.of_exception_save s reg
  rcases exception_cases_free K L s reg hpid hcur with h | ⟨t, ht, hex⟩
  · rw [h] at hres
    rcases hres with h' | h' <;> cases h'
  · have htj : t.processes j = s.processes j := by
      rw [ht.2.1 j (by
        intro h
        rcases h with h | h
        · exact hj h
        · exact hfree h), hsave.2.1 j hj]
    have hproc : s'.processes = t.processes := by
      rcases hex with hex | hex
      · rw [hex] at hres
        obtain ⟨r1, r2⟩ := schedule_result K t hN
        rcases hres with h | h
        · exact (r1 s' h).1
        · rw [r2 s' h]
      · rw [hex] at hres
        obtain ⟨r1, r2⟩ := exception_exit_result K t hN (by rw [ht.1]; exact hcur)
        rcases hres with h | h
        · exact (r1 s' h).1
        · rw [r2 s' h]
    rw [hproc, htj]

/-- C26. The get-pid syscall.  For pairwise different trap numbers, at a get-pid trap of a
Runnable process at which the invariant checker does not stop the kernel: the caller is
resumed, in the state that differs from the state at the trap only in the caller's
register snapshot, which is the snapshot taken at the trap with the caller's pid (as a
64-bit value; the pid itself when it is not negative) in the return-value register.  The
ownership table, all of memory (and with it every page table), the pid, state and
page-table pointer of every process, the descriptors of the other processes and `current`
are unchanged. -/
theorem sys_getpid_spec (K : KernelConfig) (L : KernelLayout) (s : KernelState)
    (reg : x86_64_registers) (hd : trap_numbers_distinct L)
    (hcheck : check_virtual_memory K L (exception_save s reg) = true)
    (hno : reg.reg_intno = L.INT_SYS_GETPID)
    (hrun : (s.processes s.current).p_state = procstate.P_RUNNABLE) :
    ∃ s', exception K L s reg = trap_result.resumed s' ∧
      (s'.processes s.current).p_registers =
        { reg with reg_rax := uint64 (s.processes s.current).p_pid } ∧
      (∀ n : Nat, (s.processes s.current).p_pid = (n : Int) → n < 2 ^ 64 →
        (s'.processes s.current).p_registers.reg_rax = n) ∧
      s'.pageinfo = s.pageinfo ∧ s'.physmem = s.physmem ∧ s'.current = s.current ∧
      s'.current_owner = s.current_owner ∧ s'.ticks = s.ticks ∧
      (∀ j, (s'.processes j).p_pid = (s.processes j).p_pid ∧
        (s'.processes j).p_state = (s.processes j).p_state ∧
        (s'.processes j).p_pagetable = (s.processes j).p_pagetable) ∧
      (∀ j, j ≠ s.current → s'.processes j = s.processes j) := by
  obtain ⟨_, k2, _⟩ := exception_switch_cases K L (exception_save s reg) reg hd
  have hst : ((set_reg_rax (exception_save s reg) s.current
      (uint64 ((exception_save s reg).processes s.current).p_pid)).processes
      s.current).p_state = procstate.P_RUNNABLE := by
    simp [set_reg_rax, exception_save, hrun]
  refine ⟨set_reg_rax (exception_save s reg) s.current
    (uint64 ((exception_save s reg).processes s.current).p_pid), ?_, ?_, ?_, rfl, rfl, rfl,
    rfl, rfl, ?_, ?_⟩
  · rw [exception_checked K L s reg hcheck, k2 hno, exception_exit_eq]
    exact if_pos hst
  · simp [set_reg_rax, exception_save]
  · intro n hn hlt
    simp only [set_reg_rax, exception_save, set_proc_processes, if_true]
    rw [hn]
    exact uint64_natCast n hlt
  · intro j
    by_cases hj : j = s.current
    · subst hj
      simp [set_reg_rax, exception_save]
    · simp [set_reg_rax, exception_save, hj]
  · intro j hj
    simp [set_reg_rax, exception_save, hj]

/-- C23. Bad page fault isolation.  For pairwise different trap numbers, at a page fault
from user mode at which the invariant checker does not stop the kernel: in the state `t`
the handler leaves, the faulting (current) process is Broken; the ownership table (every
owner and reference count) and all of memory, and with it every address space, are as at
the trap; the descriptor of every other process is unchanged.  What runs next is the
scheduler's selection in `t`: a process that is resumed is Runnable, is not the faulting
process and was Runnable at the trap, and nothing but `current` differs from `t`.  As long
as a process is Broken no `schedule()` selects it, and a trap taken later by another
process leaves the descriptor of the Broken process as it is. -/
theorem page_fault_isolation (K : KernelConfig) (L : KernelLayout) (s : KernelState)
    (reg : x86_64_registers) (hd : trap_numbers_distinct L)
    (hcheck : check_virtual_memory K L (exception_save s reg) = true)
    (hno : reg.reg_intno = L.INT_PAGEFAULT) (huser : reg.reg_err &&& L.PFERR_USER ≠ 0) :
    ∃ t, exception K L s reg = schedule K t ∧
      (t.processes s.current).p_state = procstate.P_BROKEN ∧
      (t.processes s.current).p_registers = reg ∧
      (t.processes s.current).p_pagetable = (s.processes s.current).p_pagetable ∧
      t.pageinfo = s.pageinfo ∧ t.physmem = s.physmem ∧
      (∀ j, j ≠ s.current → t.processes j = s.processes j) ∧
      (∀ s', exception K L s reg = trap_result.resumed s' →
        s'.processes = t.processes ∧ s'.pageinfo = s.pageinfo ∧ s'.physmem = s.physmem ∧
          s'.current ≠ s.current ∧
          (s.processes s'.current).p_state = procstate.P_RUNNABLE) ∧
      (∀ (u : KernelState) (q : Nat), (u.processes q).p_state = procstate.P_BROKEN →
        ∀ u', schedule K u = trap_result.resumed u' → u'.current ≠ q) ∧
      (∀ (u : KernelState) (q : Nat) (reg' : x86_64_registers) (u' : KernelState),
        0 < K.NPROC → (∀ i, i < K.NPROC → (u.processes i).p_pid = (i : Int)) →
        u.current < K.NPROC → (u.processes q).p_state = procstate.P_BROKEN →
        q ≠ u.current →
        exception K L u reg' = trap_result.resumed u' ∨
          exception K L u reg' = trap_result.spinning u' →
        u'.processes q = u.processes q) := by
  obtain ⟨_, _, _, _, _, k6, _⟩ := exception_switch_cases K L (exception_save s reg) reg hd
  have hbroken : ((set_p_state (exception_save s reg) s.current
      procstate.P_BROKEN).processes s.current).p_state = procstate.P_BROKEN := by
    simp [set_p_state]
  have hex : exception K L s reg =
      schedule K (set_p_state (exception_save s reg) s.current procstate.P_BROKEN) := by
    rw [exception_checked K L s reg hcheck, k6 hno, if_neg huser, exception_exit_eq]
    refine if_neg ?_
    intro h
    have h' : ((set_p_state (exception_save s reg) s.current
        procstate.P_BROKEN).processes s.current).p_state = procstate.P_RUNNABLE := h
    rw [hbroken] at h'
    cases h'
  have hsel : ∀ (u : KernelState) (q : Nat), (u.processes q).p_state = procstate.P_BROKEN →
      ∀ u', schedule K u = trap_result.resumed u' → u'.current ≠ q := by
    intro u q hq u' hu' hc
    cases hscan : schedule_scan K u K.NPROC (u.processes u.current).p_pid with
    | none =>
      simp only [schedule, hscan] at hu'
      cases hu'
    | some p =>
      rw [schedule_of_scan K u p hscan] at hu'
      cases hu'
      have := schedule_scan_runnable K u _ _ p hscan
      have hpq : p = q := hc
      rw [hpq, hq] at this
      cases this
  have hother : ∀ j, j ≠ s.current →
      (set_p_state (exception_save s reg) s.current procstate.P_BROKEN).processes j =
        s.processes j := by
    intro j hj
    simp [set_p_state, exception_save, hj]
  refine ⟨_, hex, hbroken, ?_, ?_, rfl, rfl, hother, ?_, hsel, ?_⟩
  · simp [set_p_state, exception_save]
  · simp [set_p_state, exception_save]
  · intro s' hs'
    rw [hex] at hs'
    cases hscan : schedule_scan K
        (set_p_state (exception_save s reg) s.current procstate.P_BROKEN) K.NPROC
        (((set_p_state (exception_save s reg) s.current procstate.P_BROKEN).processes
          (set_p_state (exception_save s reg) s.current procstate.P_BROKEN).current).p_pid)
      with
    | none =>
      simp only [schedule, hscan] at hs'
      cases hs'
    | some p =>
      have hne := hsel _ s.current hbroken s' hs'
      rw [schedule_of_scan K _ p hscan] at hs'
      cases hs'
      have hr := schedule_scan_runnable K _ _ _ p hscan
      refine ⟨rfl, rfl, rfl, hne, ?_⟩
      have hp : p ≠ s.current := hne
      rw [hother p hp] at hr
      exact hr
  · intro u q reg' u' hN hpid hcur hq hqc hres
    exact exception_frame K L u reg' hN hpid hcur u' hres q hqc (by rw [hq]; intro h; cases h)

/-- C28. `release_page` can break the coupling of reference count and owner.  In every
state in which a page has owner `p` and reference count 2 (so "refcount == 0 iff owner ==
Free" holds for the page, for a pid `p` that is not 0), `release_page(page, p)` leaves the
page with owner Free and reference count 1: the coupling no longer holds. -/
theorem release_page_breaks_coupling (s : KernelState) (pn : Nat) (p : Int)
    (hp : p ≠ PO_FREE) (hinfo : s.pageinfo pn = { owner := p, refcount := 2 }) :
    ((s.pageinfo pn).refcount = 0 ↔ (s.pageinfo pn).owner = PO_FREE) ∧
      (release_page s pn p).pageinfo pn = { owner := PO_FREE, refcount := 1 } ∧
      ¬ (((release_page s pn p).pageinfo pn).refcount = 0 ↔
        ((release_page s pn p).pageinfo pn).owner = PO_FREE) := by
  have hrel : (release_page s pn p).pageinfo pn = { owner := PO_FREE, refcount := 1 } := by
    simp [release_page, hinfo, int8]
  refine ⟨?_, hrel, ?_⟩
  · rw [hinfo]
    constructor
    · intro h
      exact absurd (show (2 : Int) = 0 from h) (by decide)
    · intro h
      exact absurd h hp
  · rw [hrel]
    intro h
    exact absurd (h.mpr rfl) (by decide)

/-- Witness for C28: after the fork of the example parent page 5 has owner 1 and reference
count 2 and is mapped read-only for user mode at `0x4000` by the parent (process 1) and
by the child (process 2); `release_page(5, 1)` leaves it with owner Free and reference
count 1. -/
theorem release_page_breaks_coupling_witness :
    example_forked.pageinfo 5 = { owner := 1, refcount := 2 } ∧
      virtual_memory_lookup example_forked.physmem (example_forked.processes 1).p_pagetable
          0x4000 = some { pn := 5, pa := 0x5000, perm := PTE_P ||| PTE_U } ∧
      virtual_memory_lookup example_forked.physmem (example_forked.processes 2).p_pagetable
          0x4000 = some { pn := 5, pa := 0x5000, perm := PTE_P ||| PTE_U } ∧
      (release_page example_forked 5 1).pageinfo 5 = { owner := PO_FREE, refcount := 1 } :=
  have h : example_forked.pageinfo 5 = { owner := 1, refcount := 2 } := by decide
  ⟨h, by decide, by decide,
    (release_page_breaks_coupling example_forked 5 1 (by decide) h).2.1⟩

theorem check_page_table_ownership_level_congr (K : KernelConfig) (s t : KernelState)
    (hpi : t.pageinfo = s.pageinfo) (hmem : t.physmem = s.physmem) (owner : Int) :
    ∀ (depth pt : Nat) (rc : Int),
      check_page_table_ownership_level K t owner depth pt rc =
        check_page_table_ownership_level K s owner depth pt rc := by
  intro depth
  induction depth with
  | zero =>
    intro pt rc
    simp only [check_page_table_ownership_level, hpi]
  | succ d ih =>
    intro pt rc
    simp only [check_page_table_ownership_level, hpi, hmem, ih]

/-- The invariant checker looks at the ownership table, memory and the state and
page-table pointer of the processes only. -/
theorem check_virtual_memory_congr (K : KernelConfig) (L : KernelLayout) (s t : KernelState)
    (hpi : t.pageinfo = s.pageinfo) (hmem : t.physmem = s.physmem)
    (hproc : ∀ i, (t.processes i).p_state = (s.processes i).p_state ∧
      (t.processes i).p_pagetable = (s.processes i).p_pagetable) :
    check_virtual_memory K L t = check_virtual_memory K L s := by
  have hst : ∀ i, (t.processes i).p_state = (s.processes i).p_state := fun i => (hproc i).1
  have hpt : ∀ i, (t.processes i).p_pagetable = (s.processes i).p_pagetable :=
    fun i => (hproc i).2
  have hlev := check_page_table_ownership_level_congr K s t hpi hmem
  have hmap : ∀ pt, check_page_table_mappings L t pt = check_page_table_mappings L s pt := by
    intro pt
    simp only [check_page_table_mappings, check_identity_mapped, hmem]
  have hown : ∀ pt pid, check_page_table_ownership K L t pt pid =
      check_page_table_ownership K L s pt pid := by
    intro pt pid
    simp only [check_page_table_ownership, hlev, hst, hpt]
  simp only [check_virtual_memory, hmap, hown, hst, hpt, hpi]

theorem check_virtual_memory_save (K : KernelConfig) (L : KernelLayout) (s : KernelState)
    (reg : x86_64_registers) :
    check_virtual_memory K L (exception_save s reg) = check_virtual_memory K L s := by
  refine check_virtual_memory_congr K L s _ rfl rfl ?_
  intro i
  by_cases hi : i = s.current
  · subst hi
    simp [exception_save]
  · simp [exception_save, hi]

theorem AllocFrame.alloc_refl (s : KernelState) : AllocFrame s s :=
  ⟨rfl, fun _ => Or.inl rfl⟩

theorem AllocFrame.alloc_trans {s t u : KernelState} (h1 : AllocFrame s t)
    (h2 : AllocFrame t u) : AllocFrame s u := by
  refine ⟨h2.1.trans h1.1, fun pn => ?_⟩
  rcases h2.2 pn with h | h | h
  · rw [h]
    exact h1.2 pn
  · exact Or.inr (Or.inl h)
  · rw [h1.1] at h
    exact Or.inr (Or.inr h)

theorem AllocFrame.of_pageinfo {s t : KernelState} (hp : t.pageinfo = s.pageinfo)
    (hc : t.current_owner = s.current_owner) : AllocFrame s t :=
  ⟨hc, fun pn => Or.inl (by rw [hp])⟩

theorem find_free_page_allocframe (K : KernelConfig) (s : KernelState) :
    AllocFrame s (find_free_page K s).1 := by
  simp only [find_free_page]
  split
  · exact AllocFrame.alloc_refl s
  · refine ⟨rfl, fun pn => ?_⟩
    simp only [set_page_pageinfo, set_pageinfo_pageinfo]
    split
    · exact Or.inr (Or.inr rfl)
    · exact Or.inl rfl

theorem pt_next_alloc_allocframe (K : KernelConfig) (s : KernelState) (pt va perm l : Nat)
    (a : Bool) : AllocFrame s (pt_next_alloc K s pt va perm l a).1 := by
  have h := find_free_page_allocframe K s
  simp only [pt_next_alloc]
  split
  · exact AllocFrame.alloc_refl s
  · split
    · exact AllocFrame.alloc_refl s
    · split
      · exact h
      · exact h.alloc_trans (AllocFrame.of_pageinfo rfl rfl)

theorem lookup_l4pagetable_allocframe (K : KernelConfig) (s : KernelState)
    (r va perm : Nat) (a : Bool) : AllocFrame s (lookup_l4pagetable K s r va perm a).1 := by
  have h1 := pt_next_alloc_allocframe K s r va perm 0 a
  simp only [lookup_l4pagetable]
  rcases hr1 : pt_next_alloc K s r va perm 0 a with ⟨s1, o1⟩
  rw [hr1] at h1
  cases o1 with
  | none => exact h1
  | some l2 =>
    simp only
    have h2 := pt_next_alloc_allocframe K s1 l2 va perm 1 a
    rcases hr2 : pt_next_alloc K s1 l2 va perm 1 a with ⟨s2, o2⟩
    rw [hr2] at h2
    cases o2 with
    | none => exact h1.alloc_trans h2
    | some l3 =>
      simp only
      exact (h1.alloc_trans h2).alloc_trans (pt_next_alloc_allocframe K s2 l3 va perm 2 a)

theorem virtual_memory_map_page_allocframe (K : KernelConfig) (s : KernelState)
    (r va pa perm : Nat) (a : Bool) :
    AllocFrame s (virtual_memory_map_page K s r va pa perm a).1 := by
  have h := lookup_l4pagetable_allocframe K s r va perm a
  simp only [virtual_memory_map_page]
  rcases hr : lookup_l4pagetable K s r va perm a with ⟨s1, o⟩
  rw [hr] at h
  cases o with
  | none =>
    simp only
    split <;> exact h
  | some l4 => exact h.alloc_trans (AllocFrame.of_pageinfo rfl rfl)

theorem virtual_memory_map_pages_allocframe (K : KernelConfig) (r perm : Nat) (a : Bool) :
    ∀ (n : Nat) (s : KernelState) (va pa : Nat),
      AllocFrame s (virtual_memory_map_pages K r perm a n s va pa).1 := by
  intro n
  induction n with
  | zero =>
    intro s va pa
    exact AllocFrame.alloc_refl s
  | succ n ih =>
    intro s va pa
    have h := virtual_memory_map_page_allocframe K s r va pa perm a
    simp only [virtual_memory_map_pages]
    split
    · exact h
    · exact h.alloc_trans (ih _ _ _)

theorem virtual_memory_map_allocframe (K : KernelConfig) (s : KernelState)
    (r va pa sz perm : Nat) (a : Bool) :
    AllocFrame s (virtual_memory_map K s r va pa sz perm a).1 :=
  virtual_memory_map_pages_allocframe K r perm a (sz / PAGESIZE) s va pa

theorem copy_pagetable_loop_allocframe (K : KernelConfig) (proot c : Nat) :
    ∀ (l : List Nat) (t : KernelState), AllocFrame t (copy_pagetable_loop K proot c l t).1 := by
  intro l
  induction l with
  | nil =>
    intro t
    exact AllocFrame.alloc_refl t
  | cons va rest ih =>
    intro t
    simp only [copy_pagetable_loop]
    split
    · exact ih t
    · rename_i vam _
      have h := virtual_memory_map_allocframe K t c va vam.pa PAGESIZE vam.perm true
      split
      · exact h
      · exact h.alloc_trans (ih _)

/-- `copy_pagetable(pagetable, owner)` sets `current_owner` to `owner` and changes the
owner of a page only to `owner`. -/
theorem copy_pagetable_ownerstep (K : KernelConfig) (s : KernelState) (proot : Nat)
    (owner : Int) :
    (copy_pagetable K s proot owner).1.current_owner = owner ∧
      OwnerStep owner s (copy_pagetable K s proot owner).1 := by
  have h := find_free_page_allocframe K { s with current_owner := owner }
  have hl := copy_pagetable_loop_allocframe K proot
    (find_free_page K { s with current_owner := owner }).2
    (page_addresses 0 K.MEMSIZE_VIRTUAL) (find_free_page K { s with current_owner := owner }).1
  have key : ∀ t, AllocFrame { s with current_owner := owner } t →
      t.current_owner = owner ∧ OwnerStep owner s t := fun t ht => ⟨ht.1, ht.2⟩
  simp only [copy_pagetable]
  split
  · exact key _ h
  · split
    · exact key _ (h.alloc_trans hl)
    · exact key _ (h.alloc_trans hl)

theorem OwnerStep.owner_refl (o : Int) (s : KernelState) : OwnerStep o s s :=
  fun _ => Or.inl rfl

theorem OwnerStep.owner_trans {o : Int} {s t u : KernelState} (h1 : OwnerStep o s t)
    (h2 : OwnerStep o t u) : OwnerStep o s u := by
  intro pn
  rcases h2 pn with h | h | h
  · rw [h]
    exact h1 pn
  · exact Or.inr (Or.inl h)
  · exact Or.inr (Or.inr h)

theorem OwnerStep.of_same_table (o : Int) {s t : KernelState} (hp : t.pageinfo = s.pageinfo) :
    OwnerStep o s t := fun pn => Or.inl (by rw [hp])

theorem AllocFrame.ownerstep {s t : KernelState} (h : AllocFrame s t) :
    OwnerStep s.current_owner s t := h.2

theorem release_page_ownerstep (o : Int) (s : KernelState) (pn : Nat) (pid : Int) :
    OwnerStep o s (release_page s pn pid) := by
  intro j
  rw [release_page_pageinfo]
  split
  · rename_i hj
    rw [hj]
    simp only [release_info]
    split
    · exact Or.inr (Or.inl rfl)
    · exact Or.inl rfl
  · exact Or.inl rfl

theorem process_cleanup_loop_ownerstep (o : Int) (pid : Int) (vaLast : Nat) :
    ∀ (l : List Nat) (s : KernelState),
      OwnerStep o s (process_cleanup_loop pid vaLast l s) := by
  intro l
  induction l with
  | nil =>
    intro s
    exact OwnerStep.owner_refl o s
  | cons va rest ih =>
    intro s
    simp only [process_cleanup_loop]
    split
    · exact OwnerStep.owner_refl o s
    · split
      · exact ih s
      · exact (release_page_ownerstep o s _ pid).owner_trans (ih _)

theorem process_cleanup_sweep_ownerstep (o : Int) (pid : Int) :
    ∀ (l : List Nat) (s : KernelState), OwnerStep o s (process_cleanup_sweep pid l s) := by
  intro l
  induction l with
  | nil =>
    intro s
    exact OwnerStep.owner_refl o s
  | cons i rest ih =>
    intro s
    rw [process_cleanup_sweep_cons]
    split
    · exact (release_page_ownerstep o s _ pid).owner_trans (ih _)
    · exact ih s

/-- `process_cleanup_partial(pid, vaLast)` only frees pages, and leaves no page of the
machine owned by `pid`. -/
theorem process_cleanup_partial_ownerstep (K : KernelConfig) (o : Int) (s : KernelState)
    (pid : Int) (vaLast : Nat) :
    OwnerStep o s ( process_cleanup_partial K s pid vaLast) ∧
      (pid ≠ 0 → ∀ pn, pn < NPAGES K →
        (( process_cleanup_partial K s pid vaLast).pageinfo pn).owner ≠ pid) := by
  refine ⟨?_, ?_⟩
  · simp only [ process_cleanup_partial]
    split
    · refine OwnerStep.owner_trans ?_ (OwnerStep.of_same_table o rfl)
      refine OwnerStep.owner_trans ?_ (process_cleanup_sweep_ownerstep o pid _ _)
      refine OwnerStep.owner_trans ?_ (OwnerStep.of_same_table o rfl)
      refine OwnerStep.owner_trans ?_ (release_page_ownerstep o _ _ pid)
      exact OwnerStep.owner_trans (OwnerStep.of_same_table o rfl)
        (process_cleanup_loop_ownerstep o pid vaLast _ _)
    · refine OwnerStep.owner_trans ?_ (OwnerStep.of_same_table o rfl)
      exact OwnerStep.owner_trans (OwnerStep.of_same_table o rfl)
        (process_cleanup_sweep_ownerstep o pid _ _)
  · intro hpid pn hpn
    simp only [ process_cleanup_partial]
    split
    · exact process_cleanup_sweep_owner pid hpid _ _ pn (Or.inl (List.mem_range.mpr hpn))
    · exact process_cleanup_sweep_owner pid hpid _ _ pn (Or.inl (List.mem_range.mpr hpn))

/-- The page-alloc handler changes the owner of a page only to the caller's pid (as an
8-bit value) or to Free. -/
theorem sys_page_alloc_ownerstep (K : KernelConfig) (s : KernelState) :
    OwnerStep (int8 (s.processes s.current).p_pid) s (sys_page_alloc K s) := by
  have hfind : OwnerStep (int8 (s.processes s.current).p_pid) s
      (find_free_page K (sys_page_alloc_owner s)).1 :=
    (find_free_page_allocframe K (sys_page_alloc_owner s)).2
  have hmap : OwnerStep (int8 (s.processes s.current).p_pid) s (sys_page_alloc_map K s).1 :=
    ((find_free_page_allocframe K (sys_page_alloc_owner s)).alloc_trans
      (virtual_memory_map_allocframe K _ _ _ _ _ _ _)).2
  simp only [sys_page_alloc]
  split
  · exact OwnerStep.of_same_table _ rfl
  · split
    · exact OwnerStep.of_same_table _ rfl
    · split
      · exact hfind.owner_trans (OwnerStep.of_same_table _ rfl)
      · split
        · exact (hmap.owner_trans (release_page_ownerstep _ _ _ _)).owner_trans
            (OwnerStep.of_same_table _ rfl)
        · exact hmap.owner_trans (OwnerStep.of_same_table _ rfl)

/-- The page-alloc handler leaves the pid, state and page-table pointer of every process
as they are. -/
theorem sys_page_alloc_desc (K : KernelConfig) (s : KernelState) :
    DescFrame (fun _ => False) s (sys_page_alloc K s) := by
  obtain ⟨f1, _, _⟩ := find_free_page_frame K (sys_page_alloc_owner s)
  obtain ⟨m1, _⟩ := virtual_memory_map_frame K (find_free_page K (sys_page_alloc_owner s)).1
    (s.processes s.current).p_pagetable (s.processes s.current).p_registers.reg_rdi
    (PAGEADDRESS (PAGENUMBER (find_free_page K (sys_page_alloc_owner s)).2))
    (PTE_P ||| PTE_W ||| PTE_U) true
  have hf : (find_free_page K (sys_page_alloc_owner s)).1.processes = s.processes := f1
  have hm : (sys_page_alloc_map K s).1.processes = s.processes := m1.trans f1
  have key : ∀ (t : KernelState) (v : Nat), t.processes = s.processes →
      DescFrame (fun _ => False) s (set_reg_rax t s.current v) := by
    intro t v ht j _
    by_cases hj : j = s.current
    · subst hj
      simp [set_reg_rax, ht]
    · simp [set_reg_rax, ht, hj]
  simp only [sys_page_alloc]
  split
  · exact key s _ rfl
  · split
    · exact key s _ rfl
    · split
      · exact key _ _ hf
      · split
        · exact key _ _ ((release_page_processes _ _ _).trans hm)
        · exact key _ _ hm

theorem DescFrame.desc_refl (A : Nat → Prop) (s : KernelState) : DescFrame A s s :=
  fun _ _ => ⟨rfl, rfl, rfl⟩

theorem DescFrame.desc_trans {A : Nat → Prop} {s t u : KernelState} (h1 : DescFrame A s t)
    (h2 : DescFrame A t u) : DescFrame A s u := by
  intro j hj
  obtain ⟨a1, a2, a3⟩ := h1 j hj
  obtain ⟨b1, b2, b3⟩ := h2 j hj
  exact ⟨b1.trans a1, b2.trans a2, b3.trans a3⟩

theorem DescFrame.desc_mono {A B : Nat → Prop} {s t : KernelState} (h : DescFrame A s t)
    (hAB : ∀ j, A j → B j) : DescFrame B s t :=
  fun j hj => h j (fun ha => hj (hAB j ha))

theorem DescFrame.of_procs (A : Nat → Prop) {s t : KernelState}
    (hp : t.processes = s.processes) : DescFrame A s t :=
  fun j _ => by rw [hp]; exact ⟨rfl, rfl, rfl⟩

theorem DescFrame.of_procframe {A : Nat → Prop} {s t : KernelState} (h : ProcFrame A s t) :
    DescFrame A s t :=
  fun j hj => by rw [h.2.1 j hj]; exact ⟨rfl, rfl, rfl⟩

theorem DescFrame.of_registers (A : Nat → Prop) (s : KernelState) (i : Nat)
    (r : x86_64_registers) :
    DescFrame A s (set_proc s i { s.processes i with p_registers := r }) := by
  intro j _
  by_cases hj : j = i
  · subst hj
    simp
  · simp [hj]

theorem DescFrame.of_rax (A : Nat → Prop) (s : KernelState) (i v : Nat) :
    DescFrame A s (set_reg_rax s i v) :=
  DescFrame.of_registers A s i _

/-- One iteration of the fork loop changes the owner of a page only to `current_owner`. -/
theorem sys_fork_step_allocframe (K : KernelConfig) (f i : Nat) (t : KernelState) :
    AllocFrame t (sys_fork_step K f i t).1 := by
  have h := find_free_page_allocframe K t
  simp only [sys_fork_step]
  split
  · exact AllocFrame.alloc_refl t
  · split
    · split
      · refine ⟨rfl, fun pn => ?_⟩
        simp only [set_pageinfo_pageinfo]
        split
        · rename_i hpn
          rw [hpn]
          exact Or.inl rfl
        · exact Or.inl rfl
      · split
        · split
          · exact h
          · exact (h.alloc_trans (AllocFrame.of_pageinfo rfl rfl)).alloc_trans
              (virtual_memory_map_allocframe K _ _ _ _ _ _ _)
        · exact AllocFrame.alloc_refl t
    · exact AllocFrame.alloc_refl t

/-- The loop of `fork` changes the owner of a page only to `current_owner` or Free; it
leaves the pid, state and page-table pointer of every slot but the one whose number is
the child's pid. -/
theorem sys_fork_loop_ownerstep (K : KernelConfig) (f : Nat) :
    ∀ (l : List Nat) (t : KernelState),
      OwnerStep t.current_owner t (sys_fork_loop K f l t).1 ∧
        DescFrame (fun j => j = (t.processes f).p_pid.toNat) t (sys_fork_loop K f l t).1 := by
  intro l
  induction l with
  | nil =>
    intro t
    exact ⟨OwnerStep.owner_refl _ t, DescFrame.desc_refl _ t⟩
  | cons i rest ih =>
    intro t
    rw [sys_fork_loop_cons]
    have hstep := sys_fork_step_allocframe K f i t
    obtain ⟨hp, _⟩ := sys_fork_step_frame K f i t
    split
    · refine ⟨?_, ?_⟩
      · exact (hstep.ownerstep.owner_trans (OwnerStep.of_same_table _ rfl)).owner_trans
          (process_cleanup_partial_ownerstep K _ _ _ _).1
      · exact ((DescFrame.of_procs _ hp).desc_trans (DescFrame.of_rax _ _ _ _)).desc_trans
          (DescFrame.of_procframe (process_cleanup_partial_frame K _ _ _).1)
    · obtain ⟨h1, h2⟩ := ih (sys_fork_step K f i t).1
      rw [hstep.1] at h1
      rw [hp] at h2
      exact ⟨hstep.ownerstep.owner_trans h1, (DescFrame.of_procs _ hp).desc_trans h2⟩

/-- A failing loop of `fork` leaves no page of the machine owned by the child's pid. -/
theorem sys_fork_loop_failed_owner (K : KernelConfig) (f : Nat) :
    ∀ (l : List Nat) (t : KernelState), (sys_fork_loop K f l t).2 ≠ none →
      (t.processes f).p_pid ≠ 0 →
      (((sys_fork_loop K f l t).1.processes (t.processes f).p_pid.toNat).p_state =
          procstate.P_FREE ∧
        ∀ pn, pn < NPAGES K →
          ((sys_fork_loop K f l t).1.pageinfo pn).owner ≠ (t.processes f).p_pid) := by
  intro l
  induction l with
  | nil =>
    intro t h
    exact absurd rfl h
  | cons i rest ih =>
    intro t h hpid
    rw [sys_fork_loop_cons] at h ⊢
    obtain ⟨hp, _⟩ := sys_fork_step_frame K f i t
    split
    · exact ⟨(process_cleanup_partial_frame K _ _ _).2,
        (process_cleanup_partial_ownerstep K 0 _ _ _).2 hpid⟩
    · rename_i hstep
      rw [if_neg hstep] at h
      have := ih (sys_fork_step K f i t).1 h (by rw [hp]; exact hpid)
      rw [hp] at this
      exact this

/-- Every trap ends in a halt, or in `schedule()` or the end of `exception` run on the
state one of the seven handlers leaves. -/
theorem exception_handler_cases (K : KernelConfig) (L : KernelLayout) (s : KernelState)
    (reg : x86_64_registers) :
    exception K L s reg = trap_result.halted ∨
      ∃ t, (exception K L s reg = schedule K t ∨ exception K L s reg = exception_exit K t) ∧
        (t = set_reg_rax (exception_save s reg) s.current
              (uint64 ((exception_save s reg).processes s.current).p_pid) ∨
          t = exception_save s reg ∨
          t = sys_page_alloc K (exception_save s reg) ∨
          t = { exception_save s reg with ticks := (s.ticks + 1) % 2 ^ 32 } ∨
          t = set_p_state (exception_save s reg) s.current procstate.P_BROKEN ∨
          t = (sys_fork K (exception_save s reg)).1 ∨
          t = process_cleanup K (exception_save s reg)
              ((exception_save s reg).processes s.current).p_pid) := by
  simp only [exception]
  split
  · exact Or.inl rfl
  · simp only [exception_switch]
    split
    · exact Or.inl rfl
    · split
      · exact Or.inr ⟨_, Or.inr rfl, Or.inl rfl⟩
      · split
        · exact Or.inr ⟨_, Or.inl rfl, Or.inr (Or.inl rfl)⟩
        · split
          · exact Or.inr ⟨_, Or.inr rfl, Or.inr (Or.inr (Or.inl rfl))⟩
          · split
            · exact Or.inr ⟨{ exception_save s reg with ticks := (s.ticks + 1) % 2 ^ 32 },
                Or.inl rfl, Or.inr (Or.inr (Or.inr (Or.inl rfl)))⟩
            · split
              · split
                · exact Or.inl rfl
                · exact Or.inr ⟨_, Or.inr rfl, Or.inr (Or.inr (Or.inr (Or.inr (Or.inl rfl))))⟩
              · split
                · exact Or.inr ⟨_, Or.inr rfl,
                    Or.inr (Or.inr (Or.inr (Or.inr (Or.inr (Or.inl rfl)))))⟩
                · split
                  · exact Or.inr ⟨_, Or.inr rfl,
                      Or.inr (Or.inr (Or.inr (Or.inr (Or.inr (Or.inr rfl)))))⟩
                  · exact Or.inl rfl

/-- The state in which a trap resumes a process, or lets the scheduler spin, is the state
the handler left, up to `current`. -/
theorem handler_result (K : KernelConfig) (t : KernelState) (r : trap_result)
    (hr : r = schedule K t ∨ r = exception_exit K t) :
    (∀ s', r = trap_result.resumed s' →
        s' = { t with current := s'.current } ∧
          (t.processes s'.current).p_state = procstate.P_RUNNABLE ∧
          (0 < K.NPROC → t.current < K.NPROC → s'.current < K.NPROC)) ∧
      (∀ s', r = trap_result.spinning s' → s' = t) := by
  have hsched : (∀ s', schedule K t = trap_result.resumed s' →
        s' = { t with current := s'.current } ∧
          (t.processes s'.current).p_state = procstate.P_RUNNABLE ∧
          (0 < K.NPROC → t.current < K.NPROC → s'.current < K.NPROC)) ∧
      (∀ s', schedule K t = trap_result.spinning s' → s' = t) := by
    cases hscan : schedule_scan K t K.NPROC (t.processes t.current).p_pid with
    | none =>
      simp only [schedule, hscan]
      refine ⟨fun s' h => ?_, fun s' h => ?_⟩
      · cases h
      · cases h
        rfl
    | some p =>
      rw [schedule_of_scan K t p hscan]
      refine ⟨fun s' h => ?_, fun s' h => ?_⟩
      · cases h
        exact ⟨rfl, schedule_scan_runnable K t _ _ p hscan,
          fun hN _ => schedule_scan_lt K t hN _ _ p hscan⟩
      · cases h
  rcases hr with hr | hr
  · rw [hr]
    exact hsched
  · rw [hr, exception_exit_eq]
    split
    · rename_i hrun
      refine ⟨fun s' h => ?_, fun s' h => ?_⟩
      · cases h
        exact ⟨rfl, hrun, fun _ hc => hc⟩
      · cases h
    · exact hsched

theorem sys_fork_finish_desc (A : Nat → Prop) (t : KernelState) (f : Nat) :
    DescFrame A t (sys_fork_finish t f) := by
  unfold sys_fork_finish
  exact ((DescFrame.of_registers _ _ _ _).desc_trans
    (DescFrame.of_rax _ _ _ _)).desc_trans (DescFrame.of_rax _ _ _ _)

/-- The owners `fork` may write: whatever path the handler takes, a page changes its owner
only to Free or to the pid of the child slot, the descriptors of the other slots keep pid,
state and page table, and the child slot is either not Free afterwards or owns no page. -/
theorem sys_fork_owners (K : KernelConfig) (s : KernelState)
    (hpid : ∀ i, i < K.NPROC → (s.processes i).p_pid = (i : Int)) (hN : K.NPROC ≤ 128) :
    OwnerStep ((sys_fork_find_slot K s K.NPROC 1 : Nat) : Int) s (sys_fork K s).1 ∧
      DescFrame (fun j => j = sys_fork_find_slot K s K.NPROC 1 ∧ j < K.NPROC) s
        (sys_fork K s).1 ∧
      (sys_fork_find_slot K s K.NPROC 1 < K.NPROC →
        ((sys_fork K s).1.processes (sys_fork_find_slot K s K.NPROC 1)).p_state ≠
            procstate.P_FREE ∨
          ∀ pn, pn < NPAGES K →
            ((sys_fork K s).1.pageinfo pn).owner ≠
              ((sys_fork_find_slot K s K.NPROC 1 : Nat) : Int)) := by
  obtain ⟨hpos, _, _⟩ := sys_fork_find_slot_result K s
  by_cases hslot : K.NPROC ≤ sys_fork_find_slot K s K.NPROC 1
  · have hs : sys_fork K s =
        (set_reg_rax s s.current (uint64 (-1)), fork_outcome.no_free_slot) := by
      simp only [sys_fork, if_pos hslot]
    rw [hs]
    exact ⟨OwnerStep.of_same_table _ rfl, DescFrame.of_rax _ s _ _, fun h => absurd h (by omega)⟩
  · have hlt : sys_fork_find_slot K s K.NPROC 1 < K.NPROC := by omega
    obtain ⟨f, hf⟩ : ∃ f, f = sys_fork_find_slot K s K.NPROC 1 := ⟨_, rfl⟩
    rw [← hf] at hpos hslot hlt ⊢
    have hpf : (s.processes f).p_pid = (f : Int) := hpid f hlt
    have hi8 : int8 (f : Int) = f := int8_natCast f (by omega)
    have hf0 : (f : Int) ≠ 0 := by omega
    have htoNat : ((f : Int)).toNat = f := Int.toNat_ofNat f
    -- the clone step
    obtain ⟨c1, c2⟩ := copy_pagetable_ownerstep K (set_p_state s f procstate.P_RUNNABLE)
      ((set_p_state s f procstate.P_RUNNABLE).processes s.current).p_pagetable
      (int8 (s.processes f).p_pid)
    rw [hpf, hi8] at c1 c2
    have hcf := sys_fork_clone_procframe K s f
    have hco : (sys_fork_clone K s f).current_owner = (f : Int) := by
      simp only [sys_fork_clone, hpf, hi8]
      exact c1
    have hcs : OwnerStep (f : Int) s (sys_fork_clone K s f) := by
      simp only [sys_fork_clone, hpf, hi8]
      exact c2.owner_trans (OwnerStep.of_same_table _ rfl)
    have hcd : DescFrame (fun j => j = f ∧ j < K.NPROC) s (sys_fork_clone K s f) :=
      fun j hj => (DescFrame.of_procframe hcf) j (fun h => hj ⟨h, h ▸ hlt⟩)
    have hcpid : ((sys_fork_clone K s f).processes f).p_pid = (f : Int) := by
      rw [hcf.2.2 f, hpf]
    have hcst : ((sys_fork_clone K s f).processes f).p_state = procstate.P_RUNNABLE := by
      obtain ⟨k1, _⟩ := copy_pagetable_frame K (set_p_state s f procstate.P_RUNNABLE)
        ((set_p_state s f procstate.P_RUNNABLE).processes s.current).p_pagetable
        (int8 (s.processes f).p_pid)
      simp only [sys_fork_clone, set_p_pagetable, set_proc, k1]
      simp [set_p_state]
    simp only [sys_fork, ← hf, if_neg hslot]
    split
    · -- the clone failed
      obtain ⟨p1, p2⟩ := process_cleanup_partial_ownerstep K (f : Int) (sys_fork_clone K s f)
        (f : Int) K.MEMSIZE_VIRTUAL
      obtain ⟨q1, _⟩ := process_cleanup_partial_frame K (sys_fork_clone K s f) (f : Int)
        K.MEMSIZE_VIRTUAL
      rw [htoNat] at q1
      refine ⟨?_, ?_, fun _ => Or.inr ?_⟩
      · exact (hcs.owner_trans p1).owner_trans (OwnerStep.of_same_table _ rfl)
      · refine (hcd.desc_trans ?_).desc_trans (DescFrame.of_rax _ _ _ _)
        exact fun j hj => (DescFrame.of_procframe q1) j (fun h => hj ⟨h, h ▸ hlt⟩)
      · exact p2 hf0
    · obtain ⟨l1, l2⟩ := sys_fork_loop_ownerstep K f (page_addresses 0 K.MEMSIZE_VIRTUAL)
        (sys_fork_clone K s f)
      rw [hco] at l1
      rw [hcpid, htoNat] at l2
      have l2' : DescFrame (fun j => j = f ∧ j < K.NPROC) (sys_fork_clone K s f)
          (sys_fork_loop K f (page_addresses 0 K.MEMSIZE_VIRTUAL) (sys_fork_clone K s f)).1 :=
        fun j hj => l2 j (fun h => hj ⟨h, h ▸ hlt⟩)
      split
      · rename_i i hsome
        obtain ⟨_, r2⟩ := sys_fork_loop_failed_owner K f (page_addresses 0 K.MEMSIZE_VIRTUAL)
          (sys_fork_clone K s f) (by rw [hsome]; exact Option.some_ne_none i)
          (by rw [hcpid]; exact hf0)
        rw [hcpid] at r2
        exact ⟨hcs.owner_trans l1, hcd.desc_trans l2', fun _ => Or.inr r2⟩
      · rename_i hnone
        obtain ⟨n1, _⟩ := sys_fork_loop_frame K f (page_addresses 0 K.MEMSIZE_VIRTUAL)
          (sys_fork_clone K s f) hnone
        refine ⟨(hcs.owner_trans l1).owner_trans (OwnerStep.of_same_table _ rfl),
          (hcd.desc_trans l2').desc_trans ?_, fun _ => Or.inl ?_⟩
        · exact sys_fork_finish_desc _ _ f
        · rw [((sys_fork_finish_desc (fun _ => False) _ f) f (fun h => h)).2.1, n1, hcst]
          decide

/-- A step that gives pages only to `o` or frees them keeps every owner among Free,
Reserved, Kernel and the live processes, if `o` is live afterwards whenever it owns a
page, and a slot whose descriptor changes stays live or owns no page. -/
theorem OwnersLive.step {K : KernelConfig} {s s' : KernelState} (o : Int) (A : Nat → Prop)
    (h : OwnersLive K s) (ho : OwnerStep o s s') (hd : DescFrame A s s')
    (hA : ∀ p, A p → p < K.NPROC →
      ((s'.processes p).p_pid = (s.processes p).p_pid ∧
          (s'.processes p).p_state ≠ procstate.P_FREE) ∨
        (s.processes p).p_state = procstate.P_FREE ∨
        ∀ pn, pn < NPAGES K → (s'.pageinfo pn).owner ≠ (s.processes p).p_pid)
    (hlive : ∀ pn, pn < NPAGES K → (s'.pageinfo pn).owner = o →
      o = PO_FREE ∨ o = PO_RESERVED ∨ o = PO_KERNEL ∨
        ∃ p, p < K.NPROC ∧ (s'.processes p).p_pid = o ∧
          (s'.processes p).p_state ≠ procstate.P_FREE) :
    OwnersLive K s' := by
  intro pn hpn
  rcases ho pn with e | e | e
  · rcases h pn hpn with g | g | g | ⟨p, hp, g1, g2⟩
    · exact Or.inl (e.trans g)
    · exact Or.inr (Or.inl (e.trans g))
    · exact Or.inr (Or.inr (Or.inl (e.trans g)))
    · by_cases hAp : A p
      · rcases hA p hAp hp with ⟨a1, a2⟩ | a | a
        · exact Or.inr (Or.inr (Or.inr ⟨p, hp, by rw [a1, g1, e], a2⟩))
        · exact absurd a g2
        · exact absurd (e.trans g1.symm) (a pn hpn)
      · obtain ⟨d1, d2, _⟩ := hd p hAp
        exact Or.inr (Or.inr (Or.inr ⟨p, hp, by rw [d1, g1, e], by rw [d2]; exact g2⟩))
  · exact Or.inl e
  · rw [e]
    exact hlive pn hpn e

theorem OwnersLive.of_same {K : KernelConfig} {s s' : KernelState} (h : OwnersLive K s)
    (hp : s'.pageinfo = s.pageinfo) (hd : DescFrame (fun _ => False) s s') :
    OwnersLive K s' :=
  h.step PO_FREE (fun _ => False) (OwnerStep.of_same_table _ hp) hd
    (fun _ hf _ => absurd hf (fun x => x)) (fun _ _ _ => Or.inl rfl)

/-- The handlers of `exception` keep every owner among Free, Reserved, Kernel and the
live processes. -/
theorem exception_owners (K : KernelConfig) (L : KernelLayout) (s : KernelState)
    (reg : x86_64_registers) (hN : K.NPROC ≤ 128) (hz : ProcessZero K s)
    (hrun : (s.processes s.current).p_state = procstate.P_RUNNABLE)
    (hcur : s.current < K.NPROC) (ho : OwnersLive K s) (s' : KernelState)
    (h : exception K L s reg = trap_result.resumed s') : OwnersLive K s' := by
  have hsv : OwnersLive K (exception_save s reg) :=
    ho.of_same rfl (DescFrame.of_registers _ s s.current reg)
  have hsvd : DescFrame (fun _ => False) s (exception_save s reg) :=
    DescFrame.of_registers (fun _ => False) s s.current reg
  have hpid : ∀ i, i < K.NPROC → ((exception_save s reg).processes i).p_pid = (i : Int) := by
    intro i hi
    rw [(hsvd i (fun x => x)).1]
    exact hz.2.2 i hi
  have hsrun : ((exception_save s reg).processes s.current).p_state =
      procstate.P_RUNNABLE := by
    rw [(hsvd s.current (fun x => x)).2.1]
    exact hrun
  have hc0 : s.current ≠ 0 := by
    intro h0
    rw [h0, hz.1] at hrun
    cases hrun
  have hcpid := hpid s.current hcur
  have htoNat : ((s.current : Int)).toNat = s.current := Int.toNat_ofNat _
  rcases exception_handler_cases K L s reg with hh | ⟨t, hr, ht⟩
  · rw [hh] at h
    cases h
  · have hs' := ((handler_result K t _ hr).1 s' h).1
    suffices hto : OwnersLive K t by
      rw [hs']
      exact hto
    rcases ht with ht | ht | ht | ht | ht | ht | ht
    · rw [ht]
      exact hsv.of_same rfl (DescFrame.of_rax _ _ _ _)
    · rw [ht]
      exact hsv
    · rw [ht]
      have hd := sys_page_alloc_desc K (exception_save s reg)
      have hos := sys_page_alloc_ownerstep K (exception_save s reg)
      have hce : (exception_save s reg).current = s.current := rfl
      rw [hce, hcpid, int8_natCast _ (by omega)] at hos
      refine hsv.step _ _ hos hd (fun _ hf _ => absurd hf (fun x => x)) ?_
      intro pn _ _
      refine Or.inr (Or.inr (Or.inr ⟨s.current, hcur, ?_, ?_⟩))
      · rw [(hd s.current (fun x => x)).1, hcpid]
      · rw [(hd s.current (fun x => x)).2.1, hsrun]
        decide
    · rw [ht]
      exact hsv.of_same rfl (DescFrame.of_procs _ rfl)
    · rw [ht]
      refine hsv.step PO_FREE (fun j => j = s.current) (OwnerStep.of_same_table _ rfl)
        (DescFrame.of_procframe (ProcFrame.of_set_p_state _ _ _)) ?_
        (fun _ _ _ => Or.inl rfl)
      intro p hp _
      subst hp
      left
      simp [set_p_state]
    · rw [ht]
      obtain ⟨f1, f2, f3⟩ := sys_fork_owners K (exception_save s reg) hpid hN
      obtain ⟨_, _, ffree⟩ := sys_fork_find_slot_result K (exception_save s reg)
      refine hsv.step _ _ f1 f2 ?_ ?_
      · intro p hp _
        rw [hp.1]
        exact Or.inr (Or.inl (ffree (hp.1 ▸ hp.2)))
      · intro pn hpn he
        by_cases hlt : sys_fork_find_slot K (exception_save s reg) K.NPROC 1 < K.NPROC
        · rcases f3 hlt with g | g
          · refine Or.inr (Or.inr (Or.inr ⟨_, hlt, ?_, g⟩))
            rw [((sys_fork_frame K (exception_save s reg) hpid).2.2 _), hpid _ hlt]
          · exact absurd he (g pn hpn)
        · have hs : sys_fork K (exception_save s reg) =
              (set_reg_rax (exception_save s reg) (exception_save s reg).current
                (uint64 (-1)), fork_outcome.no_free_slot) := by
            simp only [sys_fork, if_pos (Nat.le_of_not_lt hlt)]
          rw [hs] at he
          rcases hsv pn hpn with g | g | g | ⟨p, hp, g1, g2⟩
          · exact Or.inl (he.symm.trans g)
          · exact Or.inr (Or.inl (he.symm.trans g))
          · exact Or.inr (Or.inr (Or.inl (he.symm.trans g)))
          · exfalso
            rw [hpid p hp] at g1
            have : ((sys_fork_find_slot K (exception_save s reg) K.NPROC 1 : Nat) : Int) =
                (p : Int) := he.symm.trans g1.symm
            omega
    · rw [ht, hcpid]
      obtain ⟨p1, p2⟩ := process_cleanup_partial_ownerstep K PO_FREE (exception_save s reg)
        (s.current : Int) K.MEMSIZE_VIRTUAL
      obtain ⟨q1, _⟩ := process_cleanup_partial_frame K (exception_save s reg)
        (s.current : Int) K.MEMSIZE_VIRTUAL
      rw [htoNat] at q1
      refine hsv.step PO_FREE (fun j => j = s.current) p1 (DescFrame.of_procframe q1) ?_
        (fun _ _ _ => Or.inl rfl)
      intro p hp _
      subst hp
      right
      right
      rw [hcpid]
      exact p2 (by omega)

theorem pt_next_alloc_noalloc (K : KernelConfig) (s : KernelState) (pt va perm l : Nat) :
    (pt_next_alloc K s pt va perm l false).1 = s := by
  simp only [pt_next_alloc]
  split
  · rfl
  · simp

theorem lookup_l4pagetable_noalloc (K : KernelConfig) (s : KernelState) (r va perm : Nat) :
    (lookup_l4pagetable K s r va perm false).1 = s := by
  have h0 := pt_next_alloc_noalloc K s r va perm 0
  simp only [lookup_l4pagetable]
  split
  · rename_i s1 heq
    rw [heq] at h0
    exact h0
  · rename_i s1 l2 heq
    rw [heq] at h0
    have h1 := pt_next_alloc_noalloc K s1 l2 va perm 1
    split
    · rename_i s2 heq2
      rw [heq2] at h1
      exact h1.trans h0
    · rename_i s2 l3 heq2
      rw [heq2] at h1
      exact (pt_next_alloc_noalloc K s2 l3 va perm 2).trans (h1.trans h0)

theorem virtual_memory_map_page_noalloc (K : KernelConfig) (s : KernelState)
    (r va pa perm : Nat) :
    (virtual_memory_map_page K s r va pa perm false).1.pageinfo = s.pageinfo := by
  have h := lookup_l4pagetable_noalloc K s r va perm
  simp only [virtual_memory_map_page]
  split
  · rename_i s1 l4 heq
    rw [heq] at h
    rw [← h]
    rfl
  · rename_i s1 heq
    rw [heq] at h
    split <;> rw [← h]

theorem virtual_memory_map_pages_noalloc (K : KernelConfig) (r perm : Nat) :
    ∀ (n : Nat) (s : KernelState) (va pa : Nat),
      (virtual_memory_map_pages K r perm false n s va pa).1.pageinfo = s.pageinfo := by
  intro n
  induction n with
  | zero => intro s va pa; rfl
  | succ n ih =>
    intro s va pa
    simp only [virtual_memory_map_pages]
    split
    · exact virtual_memory_map_page_noalloc K s r va pa perm
    · exact (ih _ _ _).trans (virtual_memory_map_page_noalloc K s r va pa perm)

/-- Without an allocator `virtual_memory_map` leaves the ownership table alone. -/
theorem virtual_memory_map_noalloc (K : KernelConfig) (s : KernelState)
    (r va pa sz perm : Nat) :
    (virtual_memory_map K s r va pa sz perm false).1.pageinfo = s.pageinfo :=
  virtual_memory_map_pages_noalloc K r perm (sz / PAGESIZE) s va pa

theorem pageinfo_init_owner_cases (L : KernelLayout) (isreserved : Nat → Bool) (addr : Nat) :
    pageinfo_init_owner L isreserved addr = PO_FREE ∨
      pageinfo_init_owner L isreserved addr = PO_RESERVED ∨
      pageinfo_init_owner L isreserved addr = PO_KERNEL := by
  simp only [pageinfo_init_owner]
  split
  · exact Or.inr (Or.inl rfl)
  · split
    · exact Or.inr (Or.inr rfl)
    · exact Or.inl rfl

theorem pageinfo_init_loop_owner (L : KernelLayout) (isreserved : Nat → Bool) :
    ∀ (l : List Nat) (s : KernelState) (pn : Nat),
      (((s.pageinfo pn).owner = PO_FREE ∨ (s.pageinfo pn).owner = PO_RESERVED ∨
          (s.pageinfo pn).owner = PO_KERNEL) ∨ ∃ a, a ∈ l ∧ PAGENUMBER a = pn) →
      (((pageinfo_init_loop L isreserved l s).pageinfo pn).owner = PO_FREE ∨
        ((pageinfo_init_loop L isreserved l s).pageinfo pn).owner = PO_RESERVED ∨
        ((pageinfo_init_loop L isreserved l s).pageinfo pn).owner = PO_KERNEL) := by
  intro l
  induction l with
  | nil =>
    intro s pn h
    rcases h with h | ⟨a, ha, _⟩
    · exact h
    · cases ha
  | cons a rest ih =>
    intro s pn h
    simp only [pageinfo_init_loop]
    apply ih
    by_cases hpn : pn = PAGENUMBER a
    · left
      simp only [set_pageinfo_pageinfo, if_pos hpn]
      exact pageinfo_init_owner_cases L isreserved a
    · rcases h with h | ⟨b, hb, hbn⟩
      · left
        simp only [set_pageinfo_pageinfo, if_neg hpn]
        exact h
      · rcases List.mem_cons.mp hb with hb | hb
        · exact absurd (hb ▸ hbn.symm) hpn
        · exact Or.inr ⟨b, hb, hbn⟩

/-- After `pageinfo_init` every physical page is Free, Reserved or a kernel page. -/
theorem pageinfo_init_owners (K : KernelConfig) (L : KernelLayout) (isreserved : Nat → Bool)
    (s : KernelState) (pn : Nat) (hpn : pn < NPAGES K) :
    ((pageinfo_init K L isreserved s).pageinfo pn).owner = PO_FREE ∨
      ((pageinfo_init K L isreserved s).pageinfo pn).owner = PO_RESERVED ∨
      ((pageinfo_init K L isreserved s).pageinfo pn).owner = PO_KERNEL := by
  apply pageinfo_init_loop_owner
  right
  refine ⟨pn * 4096, page_addresses_zero_of _ _ (by omega) ?_, ?_⟩
  · simp only [NPAGES, PAGENUMBER, PAGESIZE] at hpn
    omega
  · simp only [PAGENUMBER, PAGESIZE]
    omega

theorem AllocFrame.ownerstep_of {o : Int} {s t : KernelState} (h : AllocFrame s t)
    (hc : s.current_owner = o) : OwnerStep o s t := hc ▸ h.2

theorem assign_physical_page_ownerstep (K : KernelConfig) (s : KernelState) (addr : Nat)
    (owner : Int) : OwnerStep owner s (assign_physical_page K s addr owner).1 := by
  simp only [assign_physical_page]
  split
  · exact OwnerStep.owner_refl _ s
  · split
    · exact OwnerStep.owner_refl _ s
    · intro pn
      simp only [set_pageinfo_pageinfo]
      split
      · exact Or.inr (Or.inr rfl)
      · exact Or.inl rfl

theorem assign_physical_page_current_owner (K : KernelConfig) (s : KernelState) (addr : Nat)
    (owner : Int) : (assign_physical_page K s addr owner).1.current_owner = s.current_owner := by
  simp only [assign_physical_page]
  split
  · rfl
  · split <;> rfl

theorem process_setup_map_procframe (K : KernelConfig) (L : KernelLayout) (env : LoaderModel)
    (s : KernelState) (pid : Nat) :
    ProcFrame (fun j => j = pid) s (process_setup_map K L env s pid) := by
  obtain ⟨c1, c2⟩ := copy_pagetable_frame K
    (set_proc s pid { s.processes pid with p_registers := env.process_init })
    L.kernel_pagetable (int8 pid)
  simp only [process_setup_map]
  refine ProcFrame.frame_trans ?_ (virtual_memory_map_procframe K _ _ _ _ _ _ _ _)
  refine ProcFrame.frame_trans ?_ (virtual_memory_map_procframe K _ _ _ _ _ _ _ _)
  refine ProcFrame.frame_trans ?_ (virtual_memory_map_procframe K _ _ _ _ _ _ _ _)
  have h2 := ProcFrame.frame_trans (ProcFrame.frame_trans
    (ProcFrame.of_set_proc s pid
      { s.processes pid with p_registers := env.process_init } rfl)
    (ProcFrame.of_eq _ c1 c2))
    (ProcFrame.of_set_p_pagetable _ pid
      (copy_pagetable K
        (set_proc s pid { s.processes pid with p_registers := env.process_init })
        L.kernel_pagetable (int8 pid)).2)
  exact ⟨h2.1, h2.2.1, h2.2.2⟩

/-- The owners `process_setup` may write: a page changes its owner only to Free or to the
pid set up. -/
theorem process_setup_owners (K : KernelConfig) (L : KernelLayout) (env : LoaderModel)
    (hload : LoaderAssigns env) (s s' : KernelState) (pid n : Nat) (hpid : pid < 128)
    (hp : (s.processes pid).p_pid = (pid : Int))
    (h : process_setup K L env s pid n = some s') : OwnerStep (pid : Int) s s' := by
  have hi8 : int8 (pid : Int) = pid := int8_natCast pid hpid
  -- the address space
  have hmap : OwnerStep (pid : Int) s (process_setup_map K L env s pid) ∧
      (process_setup_map K L env s pid).current_owner = (pid : Int) := by
    obtain ⟨c1, c2⟩ := copy_pagetable_ownerstep K
      (set_proc s pid { s.processes pid with p_registers := env.process_init })
      L.kernel_pagetable (int8 pid)
    rw [hi8] at c1 c2
    have h3 : OwnerStep (pid : Int) s
        { set_p_pagetable (copy_pagetable K
            (set_proc s pid { s.processes pid with p_registers := env.process_init })
            L.kernel_pagetable (int8 pid)).1 pid
          (copy_pagetable K
            (set_proc s pid { s.processes pid with p_registers := env.process_init })
            L.kernel_pagetable (int8 pid)).2 with current_owner := int8 pid } := by
      rw [hi8]
      exact c2
    simp only [process_setup_map]
    refine ⟨?_, ?_⟩
    · refine OwnerStep.owner_trans ?_
        ((virtual_memory_map_allocframe K _ _ _ _ _ _ _).ownerstep_of ?_)
      · refine OwnerStep.owner_trans ?_
          ((virtual_memory_map_allocframe K _ _ _ _ _ _ _).ownerstep_of ?_)
        · refine OwnerStep.owner_trans ?_
            ((virtual_memory_map_allocframe K _ _ _ _ _ _ _).ownerstep_of ?_)
          · exact h3
          · exact hi8
        · rw [(virtual_memory_map_allocframe K _ _ _ _ _ _ _).1]
          exact hi8
      · rw [(virtual_memory_map_allocframe K _ _ _ _ _ _ _).1,
          (virtual_memory_map_allocframe K _ _ _ _ _ _ _).1]
        exact hi8
    · rw [(virtual_memory_map_allocframe K _ _ _ _ _ _ _).1,
        (virtual_memory_map_allocframe K _ _ _ _ _ _ _).1,
        (virtual_memory_map_allocframe K _ _ _ _ _ _ _).1]
      exact hi8
  obtain ⟨hm1, hm2⟩ := hmap
  have hmpid : ((process_setup_map K L env s pid).processes pid).p_pid = (pid : Int) := by
    rw [(process_setup_map_procframe K L env s pid).2.2 pid, hp]
  have hl : OwnerStep (pid : Int) (process_setup_map K L env s pid)
      (program_load_state env (process_setup_map K L env s pid) pid n) := by
    intro pn
    have := hload (process_setup_map K L env s pid) pid n pn
    rw [hmpid] at this
    exact this
  have hlc : (program_load_state env (process_setup_map K L env s pid) pid n).current_owner =
      (pid : Int) := hm2
  have hf := find_free_page_allocframe K
    (program_load_state env (process_setup_map K L env s pid) pid n)
  have hstack : ∀ t sp, t.current_owner = (pid : Int) →
      OwnerStep (pid : Int) t (process_setup_stack K t pid sp) := by
    intro t sp htc
    simp only [process_setup_stack]
    refine OwnerStep.owner_trans ?_ (OwnerStep.of_same_table _ rfl)
    refine OwnerStep.owner_trans ?_
      ((virtual_memory_map_allocframe K _ _ _ _ _ _ _).ownerstep_of ?_)
    · exact (OwnerStep.of_same_table _ rfl).owner_trans
        (assign_physical_page_ownerstep K _ sp pid)
    · rw [assign_physical_page_current_owner]
      exact htc
  simp only [process_setup] at h
  split at h
  · cases h
  · split at h
    · cases h
    · cases h
      exact ((hm1.owner_trans hl).owner_trans (hf.ownerstep_of hlc)).owner_trans
        (hstack _ _ (hf.1.trans hlc))

theorem process_setup_live (K : KernelConfig) (L : KernelLayout) (env : LoaderModel)
    (hload : LoaderAssigns env) (hN : K.NPROC ≤ 128) (s t : KernelState) (i n : Nat)
    (hi : i < K.NPROC) (hpid : ∀ j, j < K.NPROC → (s.processes j).p_pid = (j : Int))
    (ho : OwnersLive K s) (ht : process_setup K L env s i n = some t) :
    OwnersLive K t ∧ ∀ j, j < K.NPROC → (t.processes j).p_pid = (j : Int) := by
  obtain ⟨f1, f2⟩ := process_setup_frame K L env s t i n ht
  have hos := process_setup_owners K L env hload s t i n (by omega) (hpid i hi) ht
  refine ⟨?_, ?_⟩
  · refine ho.step (i : Int) (fun j => j = i) hos (DescFrame.of_procframe f1) ?_ ?_
    · intro p hp _
      subst hp
      exact Or.inl ⟨f1.2.2 p, by rw [f2]; decide⟩
    · intro pn _ _
      exact Or.inr (Or.inr (Or.inr ⟨i, hi, by rw [f1.2.2 i]; exact hpid i hi,
        by rw [f2]; decide⟩))
  · intro j hj
    rw [f1.2.2 j]
    exact hpid j hj

theorem kernel_setup_loop_owners (K : KernelConfig) (L : KernelLayout) (env : LoaderModel)
    (hload : LoaderAssigns env) (hN : K.NPROC ≤ 128) :
    ∀ (l : List Nat) (s s' : KernelState), (∀ i, i ∈ l → i < K.NPROC) →
      (∀ i, i < K.NPROC → (s.processes i).p_pid = (i : Int)) → OwnersLive K s →
      kernel_setup_loop K L env l s = some s' → OwnersLive K s' := by
  intro l
  induction l with
  | nil =>
    intro s s' _ _ ho h
    simp only [kernel_setup_loop] at h
    cases h
    exact ho
  | cons i rest ih =>
    intro s s' hl hpid ho h
    simp only [kernel_setup_loop] at h
    split at h
    · cases h
    · rename_i t ht
      obtain ⟨g1, g2⟩ := process_setup_live K L env hload hN s t i (i - 1)
        (hl i (List.mem_cons_self i rest)) hpid ho ht
      exact ih t s' (fun j hj => hl j (List.mem_cons_of_mem i hj)) g2 g1 h

/-- The state in which `kernel` starts process 1, from an ownership table in which every
page is Free, Reserved or a kernel page, has every owner among Free, Reserved, Kernel and
the live processes. -/
theorem kernel_owners (K : KernelConfig) (L : KernelLayout) (env : LoaderModel)
    (hload : LoaderAssigns env) (hN : K.NPROC ≤ 128) (hN4 : 4 < K.NPROC)
    (s0 : KernelState) (command : boot_command) (s : KernelState)
    (h0 : ∀ pn, pn < NPAGES K → (s0.pageinfo pn).owner = PO_FREE ∨
      (s0.pageinfo pn).owner = PO_RESERVED ∨ (s0.pageinfo pn).owner = PO_KERNEL)
    (h : kernel K L env s0 command = trap_result.resumed s) : OwnersLive K s := by
  have hinit : OwnersLive K (kernel_init_processes K
      (virtual_memory_map K
        (virtual_memory_map K s0 L.kernel_pagetable 0 0 K.PROC_START_ADDR
          (PTE_P ||| PTE_W) false).1
        L.kernel_pagetable 0xB8000 0xB8000 PAGESIZE (PTE_P ||| PTE_W ||| PTE_U) false).1) := by
    intro pn hpn
    have hp : ((kernel_init_processes K
        (virtual_memory_map K
          (virtual_memory_map K s0 L.kernel_pagetable 0 0 K.PROC_START_ADDR
            (PTE_P ||| PTE_W) false).1
          L.kernel_pagetable 0xB8000 0xB8000 PAGESIZE (PTE_P ||| PTE_W ||| PTE_U)
          false).1).pageinfo pn) = s0.pageinfo pn := by
      show (virtual_memory_map K
          (virtual_memory_map K s0 L.kernel_pagetable 0 0 K.PROC_START_ADDR
            (PTE_P ||| PTE_W) false).1
          L.kernel_pagetable 0xB8000 0xB8000 PAGESIZE (PTE_P ||| PTE_W ||| PTE_U)
          false).1.pageinfo pn = s0.pageinfo pn
      rw [virtual_memory_map_noalloc, virtual_memory_map_noalloc]
    rw [hp]
    rcases h0 pn hpn with g | g | g
    · exact Or.inl g
    · exact Or.inr (Or.inl g)
    · exact Or.inr (Or.inr (Or.inl g))
  have hz := kernel_init_processes_zero K
    (virtual_memory_map K
      (virtual_memory_map K s0 L.kernel_pagetable 0 0 K.PROC_START_ADDR
        (PTE_P ||| PTE_W) false).1
      L.kernel_pagetable 0xB8000 0xB8000 PAGESIZE (PTE_P ||| PTE_W ||| PTE_U) false).1
    (by omega)
  have hfin : ∀ t, OwnersLive K t → run t 1 = trap_result.resumed s → OwnersLive K s := by
    intro t ht hr
    rw [(run_result t 1 s hr).1]
    exact ht
  have hone : ∀ n t, process_setup K L env
      (kernel_init_processes K
        (virtual_memory_map K
          (virtual_memory_map K s0 L.kernel_pagetable 0 0 K.PROC_START_ADDR
            (PTE_P ||| PTE_W) false).1
          L.kernel_pagetable 0xB8000 0xB8000 PAGESIZE (PTE_P ||| PTE_W ||| PTE_U) false).1)
      1 n = some t → OwnersLive K t := by
    intro n t ht
    exact (process_setup_live K L env hload hN _ t 1 n (by omega) hz.2.2 hinit ht).1
  simp only [kernel] at h
  cases command with
  | fork =>
    simp only at h
    split at h
    · cases h
    · rename_i t ht
      exact hfin t (hone _ t ht) h
  | forkexit =>
    simp only at h
    split at h
    · cases h
    · rename_i t ht
      exact hfin t (hone _ t ht) h
  | other =>
    simp only at h
    split at h
    · cases h
    · rename_i t ht
      refine hfin t (kernel_setup_loop_owners K L env hload hN [1, 2, 3, 4] _ t ?_ hz.2.2
        hinit ht) h
      intro i hi
      simp only [List.mem_cons, List.mem_singleton, List.not_mem_nil, or_false] at hi
      omega

theorem Booted.reachable {K : KernelConfig} {L : KernelLayout} {env : LoaderModel}
    {isreserved : Nat → Bool} {s : KernelState} (h : Booted K L env isreserved s) :
    Reachable K L env s := by
  induction h with
  | boot s0 command s hboot => exact Reachable.boot _ command s hboot
  | trap s reg s' _ htrap ih => exact Reachable.trap s reg s' ih htrap

/-- C21 (ownership partition, owners): in every state reached from boot (`pageinfo_init`,
then `kernel`) by a sequence of traps, the owner of every physical page is Free, Reserved,
Kernel, or the pid of a process slot whose state is not Free.  The machine has the slots 1
to 4 that `kernel` sets up and at most 128 slots (pids are stored in an `int8_t` owner),
and the program loader, which is not part of the sources, gives the pages it takes to the
process it loads. -/
theorem owners_partition (K : KernelConfig) (L : KernelLayout) (env : LoaderModel)
    (isreserved : Nat → Bool) (hN4 : 4 < K.NPROC) (hN : K.NPROC ≤ 128)
    (hload : LoaderAssigns env) (s : KernelState) (h : Booted K L env isreserved s) :
    ∀ pn, pn < NPAGES K →
      (s.pageinfo pn).owner = PO_FREE ∨ (s.pageinfo pn).owner = PO_RESERVED ∨
        (s.pageinfo pn).owner = PO_KERNEL ∨
        ∃ p, p < K.NPROC ∧ (s.processes p).p_pid = (s.pageinfo pn).owner ∧
          (s.processes p).p_state ≠ procstate.P_FREE := by
  induction h with
  | boot s0 command s hboot =>
    exact kernel_owners K L env hload hN hN4 _ command s
      (pageinfo_init_owners K L isreserved s0) hboot
  | trap s reg s' hs htrap ih =>
    obtain ⟨z1, z2, z3⟩ := reachable_zero K L env (by omega) s hs.reachable
    exact exception_owners K L s reg hN z1 z2 z3 ih s' htrap

/-! ## The ownership partition: counting -/

/-- A state whose page-table node pages hold what they held in `s` has the same walks,
lookups and nodes. -/
theorem tree_frame (m m' : Nat → Nat → Nat) (r : Nat)
    (h : ∀ n, IsNode m r n → m' n = m n) :
    (∀ k va, k ≤ 3 → pt_walk m' r va k = pt_walk m r va k) ∧
      (∀ va, virtual_memory_lookup m' r va = virtual_memory_lookup m r va) ∧
      (∀ n, IsNode m' r n ↔ IsNode m r n) ∧ (TreeInj m r → TreeInj m' r) := by
  have hw : ∀ va, (∀ k, k ≤ 3 → pt_walk m' r va k = pt_walk m r va k) ∧
      virtual_memory_lookup m' r va = virtual_memory_lookup m r va := by
    intro va
    exact virtual_memory_lookup_frame m m' r va
      (fun k a hk ha => h _ ⟨va, k, a, hk, ha, rfl⟩)
  have hw' : ∀ k va, k ≤ 3 → pt_walk m' r va k = pt_walk m r va k :=
    fun k va hk => (hw va).1 k hk
  exact ⟨hw', fun va => (hw va).2, IsNode_of_walk_eq m m' r hw',
    TreeInj_of_walk_eq m m' r hw'⟩

theorem mem_released_pages (m : Nat → Nat → Nat) (c : Nat) (vas : List Nat) (pn : Nat) :
    pn ∈ released_pages m c vas ↔
      ∃ va ∈ vas, ∃ vam, virtual_memory_lookup m c va = some vam ∧ vam.pn = pn := by
  simp only [released_pages, List.mem_filterMap, Option.map_eq_some']

theorem released_pages_congr (m m' : Nat → Nat → Nat) (c c' : Nat) (vas : List Nat)
    (h : ∀ va ∈ vas, virtual_memory_lookup m' c' va = virtual_memory_lookup m c va) :
    released_pages m' c' vas = released_pages m c vas := by
  simp only [released_pages]
  induction vas with
  | nil => rfl
  | cons a rest ih =>
    simp only [List.filterMap_cons]
    rw [h a (List.mem_cons_self a rest), ih (fun va hva => h va (List.mem_cons_of_mem a hva))]

theorem mem_mapped_pages (K : KernelConfig) (s : KernelState) (p pn : Nat) :
    pn ∈ mapped_pages K s p ↔
      ∃ va ∈ user_range K, ∃ vam,
        virtual_memory_lookup s.physmem (s.processes p).p_pagetable va = some vam ∧
          vam.pn = pn :=
  mem_released_pages _ _ _ _

/-- Summing a function over a range in which two functions differ at one index. -/
theorem sum_range_update (n i : Nat) (f g : Nat → Nat) (hi : i < n)
    (h : ∀ j, j < n → j ≠ i → g j = f j) :
    ((List.range n).map g).sum + f i = ((List.range n).map f).sum + g i := by
  induction n with
  | zero => omega
  | succ n ih =>
    simp only [List.range_succ, List.map_append, List.sum_append, List.map_cons, List.map_nil,
      List.sum_cons, List.sum_nil, Nat.add_zero]
    by_cases hin : i = n
    · subst hin
      have : (List.range i).map g = (List.range i).map f := by
        apply List.map_congr_left
        intro j hj
        have := List.mem_range.mp hj
        exact h j (by omega) (by omega)
      rw [this]
      omega
    · have := ih (by omega) (fun j hj hji => h j (by omega) hji)
      rw [h n (by omega) (fun hc => hin hc.symm)]
      omega

theorem sum_range_congr (n : Nat) (f g : Nat → Nat) (h : ∀ j, j < n → g j = f j) :
    ((List.range n).map g).sum = ((List.range n).map f).sum := by
  congr 1
  apply List.map_congr_left
  intro j hj
  exact h j (List.mem_range.mp hj)

theorem sum_range_le (n : Nat) (f : Nat → Nat) (h : ∀ j, j < n → f j ≤ 1) :
    ((List.range n).map f).sum ≤ n := by
  induction n with
  | zero => simp
  | succ n ih =>
    simp only [List.range_succ, List.map_append, List.sum_append, List.map_cons, List.map_nil,
      List.sum_cons, List.sum_nil, Nat.add_zero]
    have := ih (fun j hj => h j (by omega))
    have := h n (by omega)
    omega

theorem sum_range_ge (n i : Nat) (f : Nat → Nat) (hi : i < n) :
    f i ≤ ((List.range n).map f).sum := by
  have := sum_range_update n i f (fun j => if j = i then 0 else f j) hi
    (fun j _ hj => by simp [hj])
  simp only [if_true] at this
  omega

theorem mapping_count_congr (K : KernelConfig) (s s' : KernelState) (pn : Nat)
    (h : ∀ j, j < K.NPROC →
      (if (s'.processes j).p_state ≠ procstate.P_FREE then (mapped_pages K s' j).count pn
        else 0) =
      (if (s.processes j).p_state ≠ procstate.P_FREE then (mapped_pages K s j).count pn
        else 0)) :
    mapping_count K s' pn = mapping_count K s pn :=
  sum_range_congr K.NPROC _ _ h

/-- The invariant looks at the ownership table, at the contents of the referenced pages,
and at the state (Free or not), pid and, for a slot that is not Free, page table of each
slot only. -/
theorem KernelInv.congr {K : KernelConfig} {s s' : KernelState} (h : KernelInv K s)
    (hpi : ∀ pn, pn < NPAGES K → s'.pageinfo pn = s.pageinfo pn)
    (hpi0 : s'.pageinfo 0 = s.pageinfo 0)
    (hm : ∀ pn, pn < NPAGES K → 0 < (s.pageinfo pn).refcount → s'.physmem pn = s.physmem pn)
    (hd : ∀ j, ((s'.processes j).p_state = procstate.P_FREE ↔
        (s.processes j).p_state = procstate.P_FREE) ∧
      (s'.processes j).p_pid = (s.processes j).p_pid ∧
      ((s.processes j).p_state ≠ procstate.P_FREE →
        (s'.processes j).p_pagetable = (s.processes j).p_pagetable))
    (hz : (s'.processes 0).p_pagetable = NULL) : KernelInv K s' := by
  have hlive : ∀ p, Live K s' p → Live K s p :=
    fun p hp => ⟨hp.1, fun hc => hp.2 ((hd p).1.mpr hc)⟩
  have hroot : ∀ p, Live K s' p → (s'.processes p).p_pagetable = (s.processes p).p_pagetable :=
    fun p hp => (hd p).2.2 (hlive p hp).2
  have htf : ∀ p, Live K s' p →
      (∀ va, virtual_memory_lookup s'.physmem (s'.processes p).p_pagetable va =
        virtual_memory_lookup s.physmem (s.processes p).p_pagetable va) ∧
      (∀ n, IsNode s'.physmem (s'.processes p).p_pagetable n ↔
        IsNode s.physmem (s.processes p).p_pagetable n) ∧
      (TreeInj s.physmem (s.processes p).p_pagetable →
        TreeInj s'.physmem (s'.processes p).p_pagetable) := by
    intro p hp
    rw [hroot p hp]
    have := tree_frame s.physmem s'.physmem (s.processes p).p_pagetable (fun n hn => by
      obtain ⟨n1, n2⟩ := h.nodes p (hlive p hp) n hn
      exact hm n n1 (by rw [n2]; exact Int.one_pos))
    exact ⟨this.2.1, this.2.2.1, this.2.2.2⟩
  have hmp : ∀ p, Live K s' p → mapped_pages K s' p = mapped_pages K s p := by
    intro p hp
    simp only [mapped_pages]
    exact released_pages_congr _ _ _ _ _ (fun va _ => (htf p hp).1 va)
  have hmc : ∀ pn, mapping_count K s' pn = mapping_count K s pn := by
    intro pn
    apply mapping_count_congr
    intro j hj
    by_cases hf : (s.processes j).p_state = procstate.P_FREE
    · simp [hf, (hd j).1.mpr hf]
    · have hf' : ¬ (s'.processes j).p_state = procstate.P_FREE := fun hc => hf ((hd j).1.mp hc)
      rw [hmp j ⟨hj, hf'⟩]
      simp [hf, hf']
  refine ⟨?_, ?_, ?_, ?_, ?_, ?_, ?_, ?_, ?_, ?_, ?_, ?_, ?_⟩
  · exact ⟨(hd 0).1.mpr h.zero.1, hz,
      fun i hi => by rw [(hd i).2.1]; exact h.zero.2.2 i hi⟩
  · refine ⟨fun pn hpn => ?_, ?_⟩
    · rw [hpi pn hpn]
      exact h.sane.1 pn hpn
    · rw [hpi0]
      exact h.sane.2
  · rw [hpi0]
    exact h.page0
  · intro pn hpn
    rw [hpi pn hpn]
    exact h.free pn hpn
  · intro pn hpn
    rw [hpi pn hpn]
    rcases h.owners pn hpn with g | g | g | ⟨p, hp, g1, g2⟩
    · exact Or.inl g
    · exact Or.inr (Or.inl g)
    · exact Or.inr (Or.inr (Or.inl g))
    · exact Or.inr (Or.inr (Or.inr ⟨p, hp, by rw [(hd p).2.1]; exact g1,
        fun hc => g2 ((hd p).1.mp hc)⟩))
  · intro p hp
    exact (htf p hp).2.2 (h.tree p (hlive p hp))
  · intro p hp n hn
    obtain ⟨n1, n2⟩ := h.nodes p (hlive p hp) n (((htf p hp).2.1 n).mp hn)
    exact ⟨n1, by rw [hpi n n1]; exact n2⟩
  · intro p hp va hva vam hvam
    rw [(htf p hp).1 va] at hvam
    obtain ⟨u1, u2, u3, u4⟩ := h.user p (hlive p hp) va hva vam hvam
    rw [hpi _ u3]
    exact ⟨u1, u2, u3, fun q hq hn => u4 q (hlive q hq) (((htf q hq).2.1 _).mp hn)⟩
  · intro p hp
    rw [hmp p hp]
    exact h.once p (hlive p hp)
  · intro pn hpn
    rw [hmc pn, hpi pn hpn]
    exact h.count pn hpn
  · intro pn hpn p hp ho hc
    rw [hpi pn hpn] at ho
    rw [hmc pn] at hc
    rw [hmp p hp]
    exact h.own pn hpn p (hlive p hp) ho hc
  · intro p hp va hva vam hvam hw
    rw [(htf p hp).1 va] at hvam
    rw [hpi _ (h.user p (hlive p hp) va hva vam hvam).2.2.1]
    exact h.wexcl p (hlive p hp) va hva vam hvam hw
  · intro p hp va hva
    obtain ⟨vam, l1, l2, l3, l4⟩ := h.low p (hlive p hp) va hva
    refine ⟨vam, by rw [(htf p hp).1 va]; exact l1, l2, ?_, l4⟩
    rw [hpi _ l2]
    exact l3

theorem KernelInv.live_pos {K : KernelConfig} {s : KernelState} (h : KernelInv K s) {p : Nat}
    (hp : Live K s p) : 1 ≤ p ∧ (s.processes p).p_pid = (p : Int) := by
  refine ⟨?_, h.zero.2.2 p hp.1⟩
  rcases Nat.eq_zero_or_pos p with h0 | h0
  · subst h0
    exact absurd h.zero.1 hp.2
  · exact h0

theorem KernelInv.root_ne_null {K : KernelConfig} {s : KernelState} (h : KernelInv K s)
    {p : Nat} (hp : Live K s p) : (s.processes p).p_pagetable ≠ NULL := by
  intro hc
  have hn : IsNode s.physmem (s.processes p).p_pagetable 0 :=
    ⟨0, 0, (s.processes p).p_pagetable, by omega, rfl, by rw [hc]; rfl⟩
  have := (h.nodes p hp 0 hn).2
  have h0 := h.page0
  rw [this] at h0
  simp only at h0
  omega

theorem KernelInv.count_le_one {K : KernelConfig} {s : KernelState} (h : KernelInv K s)
    {p : Nat} (hp : Live K s p) (pn : Nat) : (mapped_pages K s p).count pn ≤ 1 :=
  List.nodup_iff_count_le_one.mp (h.once p hp) pn

theorem KernelInv.mapping_count_le {K : KernelConfig} {s : KernelState} (h : KernelInv K s)
    (pn : Nat) : mapping_count K s pn ≤ K.NPROC := by
  apply sum_range_le
  intro j hj
  split
  · rename_i hf
    exact h.count_le_one ⟨hj, hf⟩ pn
  · omega

theorem mapping_count_pos (K : KernelConfig) (s : KernelState) (p pn : Nat)
    (hp : Live K s p) (hmem : pn ∈ mapped_pages K s p) : 0 < mapping_count K s pn := by
  have h1 := sum_range_ge K.NPROC p (fun p =>
    if (s.processes p).p_state ≠ procstate.P_FREE then (mapped_pages K s p).count pn
    else 0) hp.1
  simp only [if_pos hp.2] at h1
  have h2 : 0 < (mapped_pages K s p).count pn := List.count_pos_iff.mpr hmem
  exact Nat.lt_of_lt_of_le h2 h1

theorem KernelInv.refcount_le {K : KernelConfig} {s : KernelState} (h : KernelInv K s)
    (hN : 1 ≤ K.NPROC) (pn : Nat) (hpn : pn < NPAGES K) :
    0 ≤ (s.pageinfo pn).refcount ∧ (s.pageinfo pn).refcount ≤ K.NPROC := by
  refine ⟨h.sane.1 pn hpn, ?_⟩
  obtain ⟨c1, c2⟩ := h.count pn hpn
  rcases Nat.eq_zero_or_pos (mapping_count K s pn) with h0 | h0
  · have := c2 h0
    omega
  · rw [c1 h0]
    exact_mod_cast h.mapping_count_le pn

/-- The reference count of a page mapped in the process region of a live process is the
number of such mappings. -/
theorem KernelInv.mapped_refcount {K : KernelConfig} {s : KernelState} (h : KernelInv K s)
    {p : Nat} (hp : Live K s p) (va : Nat) (hva : va ∈ user_range K) (vam : vamapping)
    (hvam : virtual_memory_lookup s.physmem (s.processes p).p_pagetable va = some vam) :
    (s.pageinfo vam.pn).refcount = (mapping_count K s vam.pn : Int) ∧
      0 < mapping_count K s vam.pn := by
  have hmem : vam.pn ∈ mapped_pages K s p :=
    (mem_mapped_pages K s p vam.pn).mpr ⟨va, hva, vam, hvam, rfl⟩
  have hpos := mapping_count_pos K s p vam.pn hp hmem
  exact ⟨(h.count vam.pn (h.user p hp va hva vam hvam).2.2.1).1 hpos, hpos⟩

/-! ## The ownership partition: page-alloc -/

theorem virtual_memory_lookup_samepath (m : Nat → Nat → Nat) (r va va' : Nat)
    (hsp : SamePath va va' 4) (vam : vamapping)
    (h : virtual_memory_lookup m r va = some vam) :
    ∃ vam', virtual_memory_lookup m r va' = some vam' ∧ vam'.pn = vam.pn ∧
      vam'.perm = vam.perm := by
  have hw := pt_walk_samepath m r va va' 3 (hsp.mono (by omega))
  have h3 : PAGEINDEX va 3 = PAGEINDEX va' 3 := hsp 3 (by omega)
  simp only [virtual_memory_lookup] at h ⊢
  rw [← hw, ← h3]
  cases hwalk : pt_walk m r va 3 with
  | none =>
    rw [hwalk] at h
    cases h
  | some l4 =>
    rw [hwalk] at h
    simp only at h ⊢
    split at h
    · rename_i hp
      rw [if_pos hp]
      cases h
      exact ⟨_, rfl, rfl, rfl⟩
    · cases h

/-- What the allocation and the mapping call of the `INT_SYS_PAGE_ALLOC` handler do, whether
the mapping call succeeds or not: page `fp` is taken from the pool for the caller; the
caller's tree grows by pages that were free and are not `fp`; the other page records change
only by allocation of a free page to the caller; referenced pages outside the caller's tree
keep their contents; the lookups of the caller change only on the path of the requested
address, and there only if the call succeeds. -/
theorem sys_page_alloc_map_effect (K : KernelConfig) (s : KernelState)
    (hs : AllocSane K s) (ht : TreeOwned s (s.processes s.current).p_pagetable)
    (hfound : (find_free_page K (sys_page_alloc_owner s)).2 ≠ NULL) :
    ∃ fp, 0 < fp ∧ fp < NPAGES K ∧ (s.pageinfo fp).refcount = 0 ∧
      (find_free_page K (sys_page_alloc_owner s)).2 = PAGEADDRESS fp ∧
      (sys_page_alloc_map K s).1.processes = s.processes ∧
      (sys_page_alloc_map K s).1.current = s.current ∧
      AllocSane K (sys_page_alloc_map K s).1 ∧
      TreeOwned (sys_page_alloc_map K s).1 (s.processes s.current).p_pagetable ∧
      (∀ n, IsNode (sys_page_alloc_map K s).1.physmem (s.processes s.current).p_pagetable n →
        IsNode s.physmem (s.processes s.current).p_pagetable n ∨
          (n < NPAGES K ∧ (s.pageinfo n).refcount = 0 ∧ n ≠ fp)) ∧
      (sys_page_alloc_map K s).1.pageinfo fp =
        { owner := int8 (s.processes s.current).p_pid, refcount := 1 } ∧
      (∀ pn, (sys_page_alloc_map K s).1.pageinfo pn = s.pageinfo pn ∨
        (pn < NPAGES K ∧ (s.pageinfo pn).refcount = 0 ∧
          (sys_page_alloc_map K s).1.pageinfo pn =
            { owner := int8 (s.processes s.current).p_pid, refcount := 1 })) ∧
      (∀ pn, 0 < (s.pageinfo pn).refcount →
        ¬ IsNode s.physmem (s.processes s.current).p_pagetable pn →
        (sys_page_alloc_map K s).1.physmem pn = s.physmem pn) ∧
      (∀ va', ¬ SamePath (s.processes s.current).p_registers.reg_rdi va' 4 →
        virtual_memory_lookup (sys_page_alloc_map K s).1.physmem
            (s.processes s.current).p_pagetable va' =
          virtual_memory_lookup s.physmem (s.processes s.current).p_pagetable va') ∧
      (¬ (sys_page_alloc_map K s).2 < 0 →
        ∃ vam, virtual_memory_lookup (sys_page_alloc_map K s).1.physmem
            (s.processes s.current).p_pagetable (s.processes s.current).p_registers.reg_rdi =
          some vam ∧ vam.pn = fp ∧ vam.perm = PTE_P ||| PTE_W ||| PTE_U) ∧
      ((sys_page_alloc_map K s).2 < 0 →
        ∀ va', virtual_memory_lookup (sys_page_alloc_map K s).1.physmem
            (s.processes s.current).p_pagetable va' =
          virtual_memory_lookup s.physmem (s.processes s.current).p_pagetable va') := by
  have hs1 : AllocSane K (sys_page_alloc_owner s) := hs
  have ht1 : TreeOwned (sys_page_alloc_owner s) (s.processes s.current).p_pagetable := ht
  rcases find_free_page_alloc K (sys_page_alloc_owner s) hs1 with
    ⟨hnull, _, _⟩ | ⟨fp, hfp0, hfpN, hrc, hbelow, hfp, hne, h1⟩
  · exact absurd hnull hfound
  have hrc' : (s.pageinfo fp).refcount = 0 := hrc
  obtain ⟨d1, d2, d3, d4, d5⟩ := find_free_page_data_step K (sys_page_alloc_owner s)
    (s.processes s.current).p_pagetable fp (fun _ => 0) hs1 ht1 hfp0 hfpN hrc
  rw [set_page_set_page, ← h1] at d1 d2 d3 d4 d5
  have hpa0 : PAGEADDRESS fp % 4096 = 0 := PAGEADDRESS_mod fp
  obtain ⟨m1, m2, m3, m4, m5, m6⟩ := virtual_memory_map_spec K
    (find_free_page K (sys_page_alloc_owner s)).1 (s.processes s.current).p_pagetable
    (s.processes s.current).p_registers.reg_rdi (PAGEADDRESS fp) (PTE_P ||| PTE_W ||| PTE_U)
    d2 d3 hpa0 (by decide) (by decide)
  have hmapdef : sys_page_alloc_map K s =
      virtual_memory_map K (find_free_page K (sys_page_alloc_owner s)).1
        (s.processes s.current).p_pagetable (s.processes s.current).p_registers.reg_rdi
        (PAGEADDRESS fp) PAGESIZE (PTE_P ||| PTE_W ||| PTE_U) true := by
    simp only [sys_page_alloc_map, hfp, PAGENUMBER_PAGEADDRESS]
  rw [← hmapdef] at m1 m2 m3 m4 m5 m6
  have hfpinfo : (find_free_page K (sys_page_alloc_owner s)).1.pageinfo fp =
      { owner := int8 (s.processes s.current).p_pid, refcount := 1 } := by
    rw [h1]
    simp [sys_page_alloc_owner]
  have hinfo2 : ∀ pn, pn ≠ fp →
      (find_free_page K (sys_page_alloc_owner s)).1.pageinfo pn = s.pageinfo pn := by
    intro pn hp
    rw [h1]
    simp [sys_page_alloc_owner, hp]
  have hmem2 : ∀ pn, pn ≠ fp →
      (find_free_page K (sys_page_alloc_owner s)).1.physmem pn = s.physmem pn := by
    intro pn hp
    rw [h1]
    simp [sys_page_alloc_owner, hp]
  have hfpt : (sys_page_alloc_map K s).1.pageinfo fp =
      { owner := int8 (s.processes s.current).p_pid, refcount := 1 } := by
    rcases m1.2.2.2.2.2.1 fp with h | ⟨_, h, _⟩
    · rw [h, hfpinfo]
    · rw [hfpinfo] at h
      exact absurd (show (1 : Int) = 0 from h) (by decide)
  refine ⟨fp, hfp0, hfpN, hrc', hfp, ?_, ?_, m2, m3, ?_, hfpt, ?_, ?_, ?_, ?_, ?_⟩
  · rw [m1.1, d1.1]
    rfl
  · rw [m1.2.1, d1.2.1]
    rfl
  · intro n hn
    rcases m1.2.2.2.2.1 n hn with h | ⟨hN, h⟩
    · rcases d1.2.2.2.2.1 n h with g | ⟨gN, g⟩
      · exact Or.inl g
      · refine Or.inr ⟨gN, g, fun hc => ?_⟩
        rw [hc] at h
        exact d5 h
    · have hnfp : n ≠ fp := by
        intro hc
        rw [hc, hfpinfo] at h
        exact absurd (show (1 : Int) = 0 from h) (by decide)
      rw [hinfo2 n hnfp] at h
      exact Or.inr ⟨hN, h, hnfp⟩
  · intro pn
    by_cases hp : pn = fp
    · right
      rw [hp]
      exact ⟨hfpN, hrc', hfpt⟩
    · rcases m1.2.2.2.2.2.1 pn with h | ⟨h1', h2', h3'⟩
      · left
        rw [h, hinfo2 pn hp]
      · right
        rw [hinfo2 pn hp] at h2'
        refine ⟨h1', h2', ?_⟩
        rw [h3', d1.2.2.1]
        rfl
  · intro pn hpos hnn
    have hp : pn ≠ fp := by
      intro hc
      rw [hc] at hpos
      omega
    have hpos2 : 0 < ((find_free_page K (sys_page_alloc_owner s)).1.pageinfo pn).refcount := by
      rw [hinfo2 pn hp]
      exact hpos
    have hnn2 : ¬ IsNode (find_free_page K (sys_page_alloc_owner s)).1.physmem
        (s.processes s.current).p_pagetable pn := by
      intro hn
      rcases d1.2.2.2.2.1 pn hn with h | ⟨_, h⟩
      · exact hnn h
      · have h' : (s.pageinfo pn).refcount = 0 := h
        omega
    rw [m1.2.2.2.2.2.2 pn hpos2 hnn2, hmem2 pn hp]
  · intro va' hsp
    rw [m5 va' hsp, d4 va']
    rfl
  · intro hmap
    refine ⟨_, m4 hmap, ?_, rfl⟩
    exact PAGENUMBER_PAGEADDRESS fp
  · intro hmap va'
    rw [(m6 hmap).1 va', d4 va']
    rfl

theorem filterMap_insert_perm {α β : Type} (g g' : α → Option β) (a : α) (x : β) :
    ∀ l : List α, l.Nodup → a ∈ l → g a = none → g' a = some x →
      (∀ b ∈ l, b ≠ a → g' b = g b) → (l.filterMap g').Perm (x :: l.filterMap g) := by
  intro l
  induction l with
  | nil =>
    intro _ ha
    cases ha
  | cons b rest ih =>
    intro hnd ha hg hg' hoth
    obtain ⟨hb, hnd'⟩ := List.nodup_cons.mp hnd
    by_cases hba : b = a
    · subst hba
      have hrest : rest.filterMap g' = rest.filterMap g := by
        apply List.filterMap_congr
        intro y hy
        exact hoth y (List.mem_cons_of_mem _ hy) (fun hc => hb (hc ▸ hy))
      rw [List.filterMap_cons_some hg', List.filterMap_cons_none hg, hrest]
    · have ha' : a ∈ rest := by
        rcases List.mem_cons.mp ha with h | h
        · exact absurd h.symm hba
        · exact h
      have hih := ih hnd' ha' hg hg'
        (fun y hy hya => hoth y (List.mem_cons_of_mem _ hy) hya)
      have hgb := hoth b (List.mem_cons_self b rest) hba
      cases hb' : g b with
      | none =>
        rw [List.filterMap_cons_none (hgb.trans hb'), List.filterMap_cons_none hb']
        exact hih
      | some y =>
        rw [List.filterMap_cons_some (hgb.trans hb'), List.filterMap_cons_some hb']
        exact (List.Perm.cons y hih).trans (List.Perm.swap x y _)

/-- Two addresses of the process region on the same path through the tree are equal. -/
theorem user_range_samepath (K : KernelConfig) (hK : ConfigSane K) (a va va' : Nat)
    (hva : va ∈ user_range K) (hva' : va' ∈ user_range K) (h : SamePath a va 4)
    (h' : SamePath a va' 4) : va = va' := by
  obtain ⟨_, hmv, hps, _⟩ := hK
  obtain ⟨a1, _, a3⟩ := page_addresses_mem _ _ va hps hva
  obtain ⟨b1, _, b3⟩ := page_addresses_mem _ _ va' hps hva'
  have := samePath_four va va' (by omega) (by omega) (h.symm.path_trans h')
  omega

/-- The pages a process maps in the process region after one more address, on the path of
`a`, has been mapped to `fp`: the old ones, and `fp` if that address lies in the region. -/
theorem mapped_pages_insert (K : KernelConfig) (hK : ConfigSane K) (m m' : Nat → Nat → Nat)
    (r r' a fp : Nat)
    (hlook : ∀ va', ¬ SamePath a va' 4 →
      virtual_memory_lookup m' r' va' = virtual_memory_lookup m r va')
    (hun : virtual_memory_lookup m r a = none)
    (hnew : ∃ vam, virtual_memory_lookup m' r' a = some vam ∧ vam.pn = fp) :
    released_pages m' r' (user_range K) = released_pages m r (user_range K) ∨
      (released_pages m' r' (user_range K)).Perm (fp :: released_pages m r (user_range K)) := by
  by_cases hex : ∃ va ∈ user_range K, SamePath a va 4
  · right
    obtain ⟨va, hva, hsp⟩ := hex
    obtain ⟨vam, hvam, hpn⟩ := hnew
    obtain ⟨vam', hvam', hpn', _⟩ := virtual_memory_lookup_samepath m' r' a va hsp vam hvam
    refine filterMap_insert_perm _ _ va fp (user_range K) (page_addresses_nodup _ _) hva ?_ ?_ ?_
    · rw [virtual_memory_lookup_samepath_none m r a va hsp hun]
      rfl
    · rw [hvam']
      simp [hpn', hpn]
    · intro b hb hne
      rw [hlook b (fun hc => hne (user_range_samepath K hK a b va hb hva hc hsp))]
  · left
    apply released_pages_congr
    intro va hva
    exact hlook va (fun hc => hex ⟨va, hva, hc⟩)

/-- The invariant survives the growth of one process's address space by one page: process
`c` maps page `fp` of the pool writable and user-accessible on the path of address `a`,
which was unmapped (`mapped`), or maps nothing; its page table grows by pages that were
free, and free pages may become pages of `c`; nothing else changes but the contents of free
pages. -/
theorem KernelInv.grow {K : KernelConfig} {s u : KernelState} (h : KernelInv K s)
    (hK : ConfigSane K) (c : Nat) (hc : Live K s c) (fp a : Nat) (mapped : Bool)
    (hfpN : fp < NPAGES K) (hfprc : (s.pageinfo fp).refcount = 0)
    (hproc : ∀ j, (u.processes j).p_state = (s.processes j).p_state ∧
      (u.processes j).p_pid = (s.processes j).p_pid ∧
      (u.processes j).p_pagetable = (s.processes j).p_pagetable)
    (hti : TreeInj u.physmem (s.processes c).p_pagetable)
    (hnode : ∀ n, IsNode u.physmem (s.processes c).p_pagetable n →
      IsNode s.physmem (s.processes c).p_pagetable n ∨
        (n < NPAGES K ∧ (s.pageinfo n).refcount = 0 ∧ n ≠ fp ∧
          u.pageinfo n = { owner := (c : Int), refcount := 1 }))
    (hfpinfo : mapped = true → u.pageinfo fp = { owner := (c : Int), refcount := 1 })
    (hinfo : ∀ pn, (mapped = true → pn ≠ fp) → u.pageinfo pn = s.pageinfo pn ∨
      (pn < NPAGES K ∧ (s.pageinfo pn).refcount = 0 ∧
        u.pageinfo pn = { owner := (c : Int), refcount := 1 }))
    (hmem : ∀ pn, 0 < (s.pageinfo pn).refcount →
      ¬ IsNode s.physmem (s.processes c).p_pagetable pn → u.physmem pn = s.physmem pn)
    (hlook : ∀ va', ¬ SamePath a va' 4 →
      virtual_memory_lookup u.physmem (s.processes c).p_pagetable va' =
        virtual_memory_lookup s.physmem (s.processes c).p_pagetable va')
    (hnew : mapped = true →
      ∃ vam, virtual_memory_lookup u.physmem (s.processes c).p_pagetable a = some vam ∧
        vam.pn = fp ∧ vam.perm = PTE_P ||| PTE_W ||| PTE_U)
    (hfail : mapped = false → ∀ va',
      virtual_memory_lookup u.physmem (s.processes c).p_pagetable va' =
        virtual_memory_lookup s.physmem (s.processes c).p_pagetable va')
    (hun : virtual_memory_lookup s.physmem (s.processes c).p_pagetable a = none) :
    KernelInv K u := by
  have hc1 := (h.live_pos hc).1
  have hlive : ∀ p, Live K u p ↔ Live K s p := by
    intro p
    simp only [Live, (hproc p).1]
  have hroot : ∀ p, (u.processes p).p_pagetable = (s.processes p).p_pagetable :=
    fun p => (hproc p).2.2
  have hfp_free : s.pageinfo fp = { owner := PO_FREE, refcount := 0 } := by
    have := h.free fp hfpN hfprc
    cases hpi : s.pageinfo fp with
    | mk o r =>
      rw [hpi] at this hfprc
      simp only at this hfprc
      rw [this, hfprc]
  -- a referenced page keeps its record
  have hkeep : ∀ pn, 0 < (s.pageinfo pn).refcount → u.pageinfo pn = s.pageinfo pn := by
    intro pn hpos
    have hne : pn ≠ fp := fun hc' => by rw [hc', hfprc] at hpos; omega
    rcases hinfo pn (fun _ => hne) with g | ⟨_, g, _⟩
    · exact g
    · omega
  -- a changed record is that of a free page taken by `c`
  have hchg : ∀ pn, u.pageinfo pn = s.pageinfo pn ∨
      ((s.pageinfo pn).refcount = 0 ∧ pn < NPAGES K ∧
        u.pageinfo pn = { owner := (c : Int), refcount := 1 }) := by
    intro pn
    by_cases hne : pn = fp
    · subst hne
      cases hmp : mapped with
      | true => exact Or.inr ⟨hfprc, hfpN, hfpinfo hmp⟩
      | false =>
        rcases hinfo pn (fun hm => by rw [hmp] at hm; cases hm) with g | ⟨g1, g2, g3⟩
        · exact Or.inl g
        · exact Or.inr ⟨g2, g1, g3⟩
    · rcases hinfo pn (fun _ => hne) with g | ⟨g1, g2, g3⟩
      · exact Or.inl g
      · exact Or.inr ⟨g2, g1, g3⟩
  -- the trees of the other processes
  have hother : ∀ q, Live K s q → q ≠ c →
      (∀ va, virtual_memory_lookup u.physmem (s.processes q).p_pagetable va =
        virtual_memory_lookup s.physmem (s.processes q).p_pagetable va) ∧
      (∀ n, IsNode u.physmem (s.processes q).p_pagetable n ↔
        IsNode s.physmem (s.processes q).p_pagetable n) ∧
      TreeInj u.physmem (s.processes q).p_pagetable := by
    intro q hq hqc
    have := tree_frame s.physmem u.physmem (s.processes q).p_pagetable (fun n hn => by
      obtain ⟨_, n2⟩ := h.nodes q hq n hn
      refine hmem n (by rw [n2]; exact Int.one_pos) (fun hn' => ?_)
      have := (h.nodes c hc n hn').2
      rw [n2] at this
      have : (q : Int) = (c : Int) := congrArg physical_pageinfo.owner this
      omega)
    exact ⟨this.2.1, this.2.2.1, this.2.2.2 (h.tree q hq)⟩
  -- a page mapped in `s` is referenced
  have hmapped_pos : ∀ p, Live K s p → ∀ va ∈ user_range K, ∀ vam,
      virtual_memory_lookup s.physmem (s.processes p).p_pagetable va = some vam →
      0 < (s.pageinfo vam.pn).refcount := by
    intro p hp va hva vam hvam
    obtain ⟨e1, e2⟩ := h.mapped_refcount hp va hva vam hvam
    rw [e1]
    exact_mod_cast e2
  -- nodes in `u`
  have hnodes : ∀ q, Live K s q → ∀ n, IsNode u.physmem (s.processes q).p_pagetable n →
      n < NPAGES K ∧ u.pageinfo n = { owner := (q : Int), refcount := 1 } := by
    intro q hq n hn
    by_cases hqc : q = c
    · subst hqc
      rcases hnode n hn with g | ⟨g1, _, _, g4⟩
      · obtain ⟨n1, n2⟩ := h.nodes q hq n g
        exact ⟨n1, by rw [hkeep n (by rw [n2]; exact Int.one_pos)]; exact n2⟩
      · exact ⟨g1, g4⟩
    · obtain ⟨n1, n2⟩ := h.nodes q hq n (((hother q hq hqc).2.1 n).mp hn)
      exact ⟨n1, by rw [hkeep n (by rw [n2]; exact Int.one_pos)]; exact n2⟩
  -- a page referenced in `s` is no new node
  have hnotnode : ∀ pn, 0 < (s.pageinfo pn).refcount →
      (∀ q, Live K s q → ¬ IsNode s.physmem (s.processes q).p_pagetable pn) →
      ∀ q, Live K s q → ¬ IsNode u.physmem (s.processes q).p_pagetable pn := by
    intro pn hpos hno q hq hn
    by_cases hqc : q = c
    · subst hqc
      rcases hnode pn hn with g | ⟨_, g, _⟩
      · exact hno q hq g
      · omega
    · exact hno q hq (((hother q hq hqc).2.1 pn).mp hn)
  -- lookups in `u`
  have hlooku : ∀ p, Live K s p → ∀ va vam,
      virtual_memory_lookup u.physmem (s.processes p).p_pagetable va = some vam →
      virtual_memory_lookup s.physmem (s.processes p).p_pagetable va = some vam ∨
        (p = c ∧ mapped = true ∧ SamePath a va 4 ∧ vam.pn = fp ∧
          vam.perm = PTE_P ||| PTE_W ||| PTE_U) := by
    intro p hp va vam hvam
    by_cases hpc : p = c
    · subst hpc
      cases hmp : mapped with
      | false =>
        rw [hfail hmp va] at hvam
        exact Or.inl hvam
      | true =>
        by_cases hsp : SamePath a va 4
        · right
          obtain ⟨v0, hv0, hv1, hv2⟩ := hnew hmp
          obtain ⟨v', hv', hv1', hv2'⟩ :=
            virtual_memory_lookup_samepath u.physmem _ a va hsp v0 hv0
          rw [hv'] at hvam
          cases hvam
          exact ⟨rfl, rfl, hsp, hv1'.trans hv1, hv2'.trans hv2⟩
        · rw [hlook va hsp] at hvam
          exact Or.inl hvam
    · rw [(hother p hp hpc).1 va] at hvam
      exact Or.inl hvam
  -- the mapped pages
  have hmp_other : ∀ p, Live K s p → p ≠ c → mapped_pages K u p = mapped_pages K s p := by
    intro p hp hpc
    simp only [mapped_pages, hroot p]
    exact released_pages_congr _ _ _ _ _ (fun va _ => (hother p hp hpc).1 va)
  have hmp_c : mapped_pages K u c = mapped_pages K s c ∨
      (mapped = true ∧ (mapped_pages K u c).Perm (fp :: mapped_pages K s c)) := by
    simp only [mapped_pages, hroot c]
    cases hmp : mapped with
    | false =>
      left
      exact released_pages_congr _ _ _ _ _ (fun va _ => hfail hmp va)
    | true =>
      obtain ⟨v0, hv0, hv1, _⟩ := hnew hmp
      rcases mapped_pages_insert K hK s.physmem u.physmem _ _ a fp hlook hun
        ⟨v0, hv0, hv1⟩ with g | g
      · exact Or.inl g
      · exact Or.inr ⟨rfl, g⟩
  have hfp_notin : ∀ p, Live K s p → fp ∉ mapped_pages K s p := by
    intro p hp hmem'
    obtain ⟨va, hva, vam, hvam, hpn⟩ := (mem_mapped_pages K s p fp).mp hmem'
    have := hmapped_pos p hp va hva vam hvam
    rw [hpn, hfprc] at this
    omega
  obtain ⟨d0, hd0, hcnt_c, hd0mem⟩ : ∃ d0 : Nat, d0 ≤ 1 ∧
      (∀ pn, (mapped_pages K u c).count pn =
        (mapped_pages K s c).count pn + if pn = fp then d0 else 0) ∧
      (d0 = 1 → mapped = true ∧ fp ∈ mapped_pages K u c) := by
    rcases hmp_c with g | ⟨gm, g⟩
    · exact ⟨0, by omega, fun pn => by rw [g]; simp, fun hc' => by omega⟩
    · refine ⟨1, by omega, fun pn => ?_, fun _ => ⟨gm, g.mem_iff.mpr (List.mem_cons_self _ _)⟩⟩
      rw [g.count_eq, List.count_cons]
      by_cases hpn : pn = fp
      · simp [hpn]
      · have : ¬ (fp == pn) = true := by simpa using fun hc' => hpn hc'.symm
        simp [hpn, this]
  have hmc : ∀ pn, mapping_count K u pn = mapping_count K s pn + if pn = fp then d0 else 0 := by
    intro pn
    have := sum_range_update K.NPROC c
      (fun p => if (s.processes p).p_state ≠ procstate.P_FREE then
        (mapped_pages K s p).count pn else 0)
      (fun p => if (u.processes p).p_state ≠ procstate.P_FREE then
        (mapped_pages K u p).count pn else 0) hc.1
      (fun j hjN hj => by
        simp only [(hproc j).1]
        by_cases hf : (s.processes j).p_state = procstate.P_FREE
        · simp [hf]
        · rw [hmp_other j ⟨hjN, hf⟩ hj])
    simp only [(hproc c).1, if_pos hc.2, hcnt_c pn] at this
    simp only [mapping_count]
    omega
  have hcint : (c : Int) ≠ 0 := by omega
  refine ⟨?_, ?_, ?_, ?_, ?_, ?_, ?_, ?_, ?_, ?_, ?_, ?_, ?_⟩
  · -- zero
    exact ⟨by rw [(hproc 0).1]; exact h.zero.1, by rw [hroot 0]; exact h.zero.2.1,
      fun i hi => by rw [(hproc i).2.1]; exact h.zero.2.2 i hi⟩
  · -- sane
    refine ⟨fun pn hpn => ?_, ?_⟩
    · rcases hchg pn with g | ⟨_, _, g⟩
      · rw [g]
        exact h.sane.1 pn hpn
      · rw [g]
        exact Int.le_of_lt Int.one_pos
    · rw [hkeep 0 h.sane.2]
      exact h.sane.2
  · -- page0
    rw [hkeep 0 h.sane.2]
    exact h.page0
  · -- free
    intro pn hpn hz
    rcases hchg pn with g | ⟨_, _, g⟩
    · rw [g] at hz ⊢
      exact h.free pn hpn hz
    · rw [g] at hz
      exact absurd (show (1 : Int) = 0 from hz) (by decide)
  · -- owners
    intro pn hpn
    rcases hchg pn with g | ⟨_, _, g⟩
    · rw [g]
      rcases h.owners pn hpn with e | e | e | ⟨p, hp, e1, e2⟩
      · exact Or.inl e
      · exact Or.inr (Or.inl e)
      · exact Or.inr (Or.inr (Or.inl e))
      · exact Or.inr (Or.inr (Or.inr ⟨p, hp, by rw [(hproc p).2.1]; exact e1,
          by rw [(hproc p).1]; exact e2⟩))
    · rw [g]
      exact Or.inr (Or.inr (Or.inr ⟨c, hc.1, by rw [(hproc c).2.1]; exact (h.live_pos hc).2,
        by rw [(hproc c).1]; exact hc.2⟩))
  · -- tree
    intro p hp
    rw [hroot p]
    have hp' := (hlive p).mp hp
    by_cases hpc : p = c
    · rw [hpc]
      exact hti
    · exact (hother p hp' hpc).2.2
  · -- nodes
    intro p hp n hn
    rw [hroot p] at hn
    exact hnodes p ((hlive p).mp hp) n hn
  · -- user
    intro p hp va hva vam hvam
    rw [hroot p] at hvam
    have hp' := (hlive p).mp hp
    rcases hlooku p hp' va vam hvam with g | ⟨g1, g2, _, g4, g5⟩
    · obtain ⟨u1, u2, u3, u4⟩ := h.user p hp' va hva vam g
      have hpos := hmapped_pos p hp' va hva vam g
      rw [hkeep _ hpos]
      refine ⟨u1, u2, u3, fun q hq => ?_⟩
      rw [hroot q]
      exact hnotnode vam.pn hpos u4 q ((hlive q).mp hq)
    · rw [g4, g5, hfpinfo g2]
      refine ⟨by decide, Int.natCast_nonneg c, hfpN, fun q hq hn => ?_⟩
      rw [hroot q] at hn
      have hq' := (hlive q).mp hq
      by_cases hqc : q = c
      · subst hqc
        rcases hnode fp hn with e | ⟨_, _, e, _⟩
        · have := (h.nodes q hq' fp e).2
          rw [this] at hfprc
          exact absurd (show (1 : Int) = 0 from hfprc) (by decide)
        · exact e rfl
      · have := (h.nodes q hq' fp (((hother q hq' hqc).2.1 fp).mp hn)).2
        rw [this] at hfprc
        exact absurd (show (1 : Int) = 0 from hfprc) (by decide)
  · -- once
    intro p hp
    have hp' := (hlive p).mp hp
    by_cases hpc : p = c
    · subst hpc
      rcases hmp_c with g | ⟨_, g⟩
      · rw [g]
        exact h.once p hp'
      · exact g.nodup_iff.mpr (List.nodup_cons.mpr ⟨hfp_notin p hp', h.once p hp'⟩)
    · rw [hmp_other p hp' hpc]
      exact h.once p hp'
  · -- count
    intro pn hpn
    rw [hmc pn]
    obtain ⟨c1, c2⟩ := h.count pn hpn
    by_cases hpf : pn = fp
    · subst hpf
      have hz : mapping_count K s pn = 0 := by
        rcases Nat.eq_zero_or_pos (mapping_count K s pn) with e | e
        · exact e
        · have := c1 e
          rw [hfprc] at this
          omega
      rw [hz, if_pos rfl]
      refine ⟨fun hpos => ?_, fun hzero => ?_⟩
      · have hd1 : d0 = 1 := by omega
        rw [hfpinfo (hd0mem hd1).1, hd1]
        simp
      · rcases hchg pn with g | ⟨_, _, g⟩
        · rw [g, hfprc]
          decide
        · rw [g]
    · rw [if_neg hpf, Nat.add_zero]
      rcases hchg pn with g | ⟨g1, _, g3⟩
      · rw [g]
        exact ⟨c1, c2⟩
      · have hz : mapping_count K s pn = 0 := by
          rcases Nat.eq_zero_or_pos (mapping_count K s pn) with e | e
          · exact e
          · have := c1 e
            rw [g1] at this
            omega
        rw [hz, g3]
        exact ⟨fun hpos => absurd hpos (by omega), fun _ => by simp⟩
  · -- own
    intro pn hpn p hp ho hcnt
    have hp' := (hlive p).mp hp
    rw [hmc pn] at hcnt
    by_cases hpf : pn = fp
    · subst hpf
      have hz : mapping_count K s pn = 0 := by
        rcases Nat.eq_zero_or_pos (mapping_count K s pn) with e | e
        · exact e
        · have := (h.count pn hpn).1 e
          rw [hfprc] at this
          omega
      rw [hz, if_pos rfl] at hcnt
      have hd1 : d0 = 1 := by omega
      obtain ⟨gm, gmem⟩ := hd0mem hd1
      rw [hfpinfo gm] at ho
      have ho' : (c : Int) = (p : Int) := ho
      have hpc : p = c := by omega
      rw [hpc]
      exact gmem
    · rw [if_neg hpf, Nat.add_zero] at hcnt
      have hpos : 0 < (s.pageinfo pn).refcount := by
        rw [(h.count pn hpn).1 hcnt]
        exact_mod_cast hcnt
      rw [hkeep pn hpos] at ho
      have hold := h.own pn hpn p hp' ho hcnt
      by_cases hpc : p = c
      · subst hpc
        rcases hmp_c with g | ⟨_, g⟩
        · rw [g]
          exact hold
        · exact g.mem_iff.mpr (List.mem_cons_of_mem _ hold)
      · rw [hmp_other p hp' hpc]
        exact hold
  · -- wexcl
    intro p hp va hva vam hvam hw
    rw [hroot p] at hvam
    have hp' := (hlive p).mp hp
    rcases hlooku p hp' va vam hvam with g | ⟨_, g2, _, g4, _⟩
    · rw [hkeep _ (hmapped_pos p hp' va hva vam g)]
      exact h.wexcl p hp' va hva vam g hw
    · rw [g4]
      exact congrArg physical_pageinfo.refcount (hfpinfo g2)
  · -- low
    intro p hp va hva
    have hp' := (hlive p).mp hp
    obtain ⟨vam, l1, l2, l3, l4⟩ := h.low p hp' va hva
    have hsame : virtual_memory_lookup u.physmem (s.processes p).p_pagetable va = some vam := by
      by_cases hpc : p = c
      · subst hpc
        rw [hlook va (fun hsp => ?_)]
        · exact l1
        · rw [virtual_memory_lookup_samepath_none _ _ a va hsp hun] at l1
          cases l1
      · rw [(hother p hp' hpc).1 va]
        exact l1
    refine ⟨vam, by rw [hroot p]; exact hsame, l2, fun hu => ?_, l4⟩
    obtain ⟨e1, e2⟩ := l3 hu
    rw [hkeep _ e2]
    exact ⟨e1, e2⟩

theorem KernelInv.of_desc {K : KernelConfig} {t u : KernelState} (h : KernelInv K t)
    (hpi : u.pageinfo = t.pageinfo) (hm : u.physmem = t.physmem)
    (hd : DescFrame (fun _ => False) t u) : KernelInv K u :=
  h.congr (fun pn _ => by rw [hpi]) (by rw [hpi]) (fun pn _ _ => by rw [hm])
    (fun j => ⟨by rw [(hd j (fun x => x)).2.1], (hd j (fun x => x)).1,
      fun _ => (hd j (fun x => x)).2.2⟩)
    (by rw [(hd 0 (fun x => x)).2.2]; exact h.zero.2.1)

theorem KernelInv.tree_owned {K : KernelConfig} {s : KernelState} (h : KernelInv K s)
    {p : Nat} (hp : Live K s p) : TreeOwned s (s.processes p).p_pagetable :=
  ⟨h.tree p hp, fun n hn => by rw [(h.nodes p hp n hn).2]; exact Int.one_pos⟩

/-- The `INT_SYS_PAGE_ALLOC` handler keeps the invariant, and it changes the record of no
referenced page. -/
theorem sys_page_alloc_inv (K : KernelConfig) (s : KernelState) (hK : ConfigSane K)
    (h : KernelInv K s) (hc : Live K s s.current) :
    KernelInv K (sys_page_alloc K s) ∧
      ∀ pn, 0 < (s.pageinfo pn).refcount → (sys_page_alloc K s).pageinfo pn = s.pageinfo pn := by
  have hrej : ∀ v, KernelInv K (set_reg_rax s s.current v) ∧
      ∀ pn, 0 < (s.pageinfo pn).refcount →
        (set_reg_rax s s.current v).pageinfo pn = s.pageinfo pn :=
    fun v => ⟨h.of_desc rfl rfl (DescFrame.of_rax _ _ _ _), fun _ _ => rfl⟩
  have hcpid : (s.processes s.current).p_pid = (s.current : Int) := (h.live_pos hc).2
  have hi8 : int8 (s.processes s.current).p_pid = (s.current : Int) := by
    rw [hcpid]
    exact int8_natCast _ (by have := hK.1; have := hc.1; omega)
  simp only [sys_page_alloc]
  split
  · exact hrej _
  · split
    · exact hrej _
    · rename_i hun
      split
      · rename_i hnull
        rcases find_free_page_alloc K (sys_page_alloc_owner s) h.sane with
          ⟨_, e, _⟩ | ⟨fp, _, _, _, _, _, hne, _⟩
        · rw [e]
          exact ⟨h.of_desc rfl rfl (DescFrame.of_rax _ _ _ _), fun _ _ => rfl⟩
        · exact absurd hnull hne
      · rename_i hfound
        obtain ⟨fp, hfp0, hfpN, hfprc, hfpa, e1, e2, e3, e4, e5, e6, e7, e8, e9, e10, e11⟩ :=
          sys_page_alloc_map_effect K s h.sane (h.tree_owned hc) hfound
        rw [hi8] at e6 e7
        have hpn : PAGENUMBER (find_free_page K (sys_page_alloc_owner s)).2 = fp := by
          rw [hfpa]
          exact PAGENUMBER_PAGEADDRESS fp
        have hnode : ∀ n, IsNode (sys_page_alloc_map K s).1.physmem
            (s.processes s.current).p_pagetable n →
            IsNode s.physmem (s.processes s.current).p_pagetable n ∨
              (n < NPAGES K ∧ (s.pageinfo n).refcount = 0 ∧ n ≠ fp ∧
                (sys_page_alloc_map K s).1.pageinfo n =
                  { owner := (s.current : Int), refcount := 1 }) := by
          intro n hn
          rcases e5 n hn with g | ⟨g1, g2, g3⟩
          · exact Or.inl g
          · refine Or.inr ⟨g1, g2, g3, ?_⟩
            rcases e7 n with g | ⟨_, _, g⟩
            · have := e4.2 n hn
              rw [g, g2] at this
              omega
            · exact g
        have hkeep : ∀ pn, 0 < (s.pageinfo pn).refcount →
            (sys_page_alloc_map K s).1.pageinfo pn = s.pageinfo pn := by
          intro pn hpos
          rcases e7 pn with g | ⟨_, g, _⟩
          · exact g
          · omega
        split
        · rename_i hfail
          rw [hpn]
          have hgrow : KernelInv K (release_page (sys_page_alloc_map K s).1 fp
              (s.processes s.current).p_pid) := by
            refine h.grow hK s.current hc fp (s.processes s.current).p_registers.reg_rdi false
              hfpN hfprc ?_ ?_ ?_ ?_ ?_ ?_ ?_ ?_ ?_ hun
            · intro j
              rw [release_page_processes, e1]
              exact ⟨rfl, rfl, rfl⟩
            · simp only [release_page_physmem]
              exact e4.1
            · intro n hn
              simp only [release_page_physmem] at hn
              rcases hnode n hn with g | ⟨g1, g2, g3, g4⟩
              · exact Or.inl g
              · refine Or.inr ⟨g1, g2, g3, ?_⟩
                rw [release_page_pageinfo, if_neg g3]
                exact g4
            · intro hm
              cases hm
            · intro pn _
              by_cases hne : pn = fp
              · left
                rw [hne, release_page_pageinfo, if_pos rfl, e6, hcpid]
                have hf := h.free fp hfpN hfprc
                cases hpi : s.pageinfo fp with
                | mk o r =>
                  rw [hpi] at hf hfprc
                  simp only at hf hfprc
                  rw [hf, hfprc]
                  simp [release_info, int8_of_range, PO_FREE]
              · rw [release_page_pageinfo, if_neg hne]
                rcases e7 pn with g | ⟨g1, g2, g3⟩
                · exact Or.inl g
                · exact Or.inr ⟨g1, g2, g3⟩
            · intro pn hpos hnn
              simp only [release_page_physmem]
              exact e8 pn hpos hnn
            · intro va' hsp
              simp only [release_page_physmem]
              exact e9 va' hsp
            · intro hm
              cases hm
            · intro _ va'
              simp only [release_page_physmem]
              exact e11 hfail va'
          refine ⟨hgrow.of_desc rfl rfl (DescFrame.of_rax _ _ _ _), fun pn hpos => ?_⟩
          show (release_page (sys_page_alloc_map K s).1 fp
            (s.processes s.current).p_pid).pageinfo pn = s.pageinfo pn
          have hne : pn ≠ fp := fun hc' => by rw [hc', hfprc] at hpos; omega
          rw [release_page_pageinfo, if_neg hne]
          exact hkeep pn hpos
        · rename_i hok
          have hgrow : KernelInv K (sys_page_alloc_map K s).1 := by
            refine h.grow hK s.current hc fp (s.processes s.current).p_registers.reg_rdi true
              hfpN hfprc ?_ e4.1 hnode ?_ ?_ e8 e9 (fun _ => e10 hok) ?_ hun
            · intro j
              rw [e1]
              exact ⟨rfl, rfl, rfl⟩
            · intro _
              exact e6
            · intro pn _
              rcases e7 pn with g | ⟨g1, g2, g3⟩
              · exact Or.inl g
              · exact Or.inr ⟨g1, g2, g3⟩
            · intro hm
              cases hm
          exact ⟨hgrow.of_desc rfl rfl (DescFrame.of_rax _ _ _ _), fun pn hpos => hkeep pn hpos⟩

/-! ## The ownership partition: exit -/

theorem release_info_live (c : Int) (info : physical_pageinfo) (hr : 1 ≤ info.refcount)
    (hr' : info.refcount ≤ 127) :
    (release_info c info).refcount = info.refcount - 1 ∧
      ((release_info c info).owner = PO_FREE ∨
        ((release_info c info).owner = info.owner ∧ info.owner ≠ c ∧
          info.refcount ≠ 1)) ∧
      ((release_info c info).refcount = 0 → (release_info c info).owner = PO_FREE) := by
  have h8 : int8 (info.refcount - 1) = info.refcount - 1 :=
    int8_of_range _ (by omega) (by omega)
  simp only [release_info, h8]
  split
  · exact ⟨rfl, Or.inl rfl, fun _ => rfl⟩
  · rename_i hn
    simp only [not_or] at hn
    exact ⟨rfl, Or.inr ⟨rfl, hn.2, fun hc => hn.1 (by omega)⟩, fun hc => absurd hc hn.1⟩

/-- The ownership table after `process_cleanup` of a live process: a page the process maps
in its process region loses one reference; another page of the pool that the process owns
becomes Free; every other record is kept. -/
theorem process_cleanup_pageinfo (K : KernelConfig) (s : KernelState) (c : Nat)
    (hK : ConfigSane K) (h : KernelInv K s) (hc : Live K s c) (pn : Nat) :
    (process_cleanup K s c).pageinfo pn =
      if pn ∈ mapped_pages K s c then release_info c (s.pageinfo pn)
      else if pn < NPAGES K ∧ (s.pageinfo pn).owner = (c : Int) then
        { owner := PO_FREE, refcount := 0 }
      else s.pageinfo pn := by
  obtain ⟨_, _, _, hpi⟩ := process_cleanup_partial_fields K s c K.MEMSIZE_VIRTUAL
    (h.root_ne_null hc)
  have hc1 := (h.live_pos hc).1
  show ( process_cleanup_partial K s c K.MEMSIZE_VIRTUAL).pageinfo pn = _
  have hfilter : (page_addresses K.PROC_START_ADDR K.MEMSIZE_VIRTUAL).filter
      (fun va => decide (va < K.MEMSIZE_VIRTUAL)) = user_range K := by
    apply List.filter_eq_self.mpr
    intro va hva
    have := (page_addresses_mem _ _ va hK.2.2.1 hva).2.2
    simpa using this
  have hlist : released_pages (set_p_state s c procstate.P_FREE).physmem
      ((set_p_state s c procstate.P_FREE).processes ((c : Int)).toNat).p_pagetable
      ((page_addresses K.PROC_START_ADDR K.MEMSIZE_VIRTUAL).filter
        (fun va => decide (va < K.MEMSIZE_VIRTUAL))) = mapped_pages K s c := by
    rw [hfilter]
    simp [mapped_pages, set_p_state]
  have hloop : ∀ j, (process_cleanup_loop (c : Int) K.MEMSIZE_VIRTUAL
      (page_addresses K.PROC_START_ADDR K.MEMSIZE_VIRTUAL)
      (set_p_state s c procstate.P_FREE)).pageinfo j =
      (release_info c)^[(mapped_pages K s c).count j] (s.pageinfo j) := by
    intro j
    rw [process_cleanup_loop_pageinfo _ _ _ _ _ (page_addresses_sorted _ _), hlist]
    rfl
  have hroot : IsNode s.physmem (s.processes c).p_pagetable
      (PAGENUMBER (s.processes c).p_pagetable) := ⟨0, 0, _, by omega, rfl, rfl⟩
  obtain ⟨hrN, hrinfo⟩ := h.nodes c hc _ hroot
  have hrootk : (mapped_pages K s c).count (PAGENUMBER (s.processes c).p_pagetable) = 0 := by
    apply List.count_eq_zero_of_not_mem
    intro hmem
    obtain ⟨va, hva, vam, hvam, hvpn⟩ := (mem_mapped_pages K s c _).mp hmem
    exact (h.user c hc va hva vam hvam).2.2.2 c hc (hvpn ▸ hroot)
  have hrel : release_info c { owner := (c : Int), refcount := 1 } =
      { owner := PO_FREE, refcount := 0 } := by
    simp [release_info, int8_of_range]
  have hfree_ne : PO_FREE ≠ (c : Int) := by
    simp only [PO_FREE]
    omega
  -- the record after the first loop and the release of the root
  have hX : (release_page
      (process_cleanup_loop (c : Int) K.MEMSIZE_VIRTUAL
        (page_addresses K.PROC_START_ADDR K.MEMSIZE_VIRTUAL)
        (set_p_state s c procstate.P_FREE))
      (PAGENUMBER (s.processes c).p_pagetable) c).pageinfo pn =
      if pn ∈ mapped_pages K s c then release_info c (s.pageinfo pn)
      else if pn = PAGENUMBER (s.processes c).p_pagetable then
        { owner := PO_FREE, refcount := 0 }
      else s.pageinfo pn := by
    rw [release_page_pageinfo, hloop, hloop, hrootk]
    simp only [Function.iterate_zero, id_eq, hrinfo, hrel]
    by_cases hmem : pn ∈ mapped_pages K s c
    · have hk : (mapped_pages K s c).count pn = 1 := by
        have := h.count_le_one hc pn
        have := List.count_pos_iff.mpr hmem
        omega
      have hne : pn ≠ PAGENUMBER (s.processes c).p_pagetable := by
        intro hcon
        rw [hcon, hrootk] at hk
        omega
      rw [if_pos hmem, if_neg hne, hk]
      rfl
    · have hk : (mapped_pages K s c).count pn = 0 := List.count_eq_zero_of_not_mem hmem
      rw [if_neg hmem, hk]
      rfl
  rw [hpi pn, process_cleanup_sweep_pageinfo _ _ _ _ (List.nodup_range _), hX]
  by_cases hmem : pn ∈ mapped_pages K s c
  · -- mapped by `c`: released once by the first loop
    obtain ⟨va, hva, vam, hvam, hvpn⟩ := (mem_mapped_pages K s c pn).mp hmem
    obtain ⟨_, u2, u3, u4⟩ := h.user c hc va hva vam hvam
    rw [hvpn] at u2 u3 u4
    obtain ⟨m1, m2⟩ := h.mapped_refcount hc va hva vam hvam
    rw [hvpn] at m1 m2
    obtain ⟨b1, b2⟩ := h.refcount_le (by have := hc.1; omega) pn u3
    obtain ⟨r1, r2, r3⟩ := release_info_live c (s.pageinfo pn) (by omega)
      (by have := hK.1; omega)
    rw [if_pos hmem]
    split
    · rename_i hcon
      exfalso
      obtain ⟨_, ho⟩ := hcon
      rcases r2 with g | ⟨g', g, _⟩
      · rw [g] at ho
        exact hfree_ne ho
      · rw [g'] at ho
        exact g ho
    · rfl
  · rw [if_neg hmem]
    by_cases hroot' : pn = PAGENUMBER (s.processes c).p_pagetable
    · have hR : pn < NPAGES K ∧ (s.pageinfo pn).owner = (c : Int) :=
        ⟨hroot' ▸ hrN, by rw [hroot', hrinfo]⟩
      rw [if_pos hroot', if_pos hR]
      split
      · rename_i hcon
        exact absurd hcon.2 hfree_ne
      · rfl
    · rw [if_neg hroot']
      by_cases hown : pn < NPAGES K ∧ (s.pageinfo pn).owner = (c : Int)
      · rw [if_pos hown, if_pos ⟨List.mem_range.mpr hown.1, hown.2⟩]
        -- the page is referenced once
        obtain ⟨c1, c2⟩ := h.count pn hown.1
        have hz : mapping_count K s pn = 0 := by
          rcases Nat.eq_zero_or_pos (mapping_count K s pn) with e | e
          · exact e
          · exact absurd (h.own pn hown.1 c hc hown.2 e) hmem
        have hle := c2 hz
        have hge := h.sane.1 pn hown.1
        have hne0 : (s.pageinfo pn).refcount ≠ 0 := by
          intro h0
          have := h.free pn hown.1 h0
          rw [hown.2] at this
          exact hfree_ne this.symm
        have hone : (s.pageinfo pn).refcount = 1 := by omega
        simp [release_info, hone, int8_of_range]
      · rw [if_neg hown]
        split
        · rename_i hcon
          exact absurd ⟨List.mem_range.mp hcon.1, hcon.2⟩ hown
        · rfl

/-- `process_cleanup` of a live process keeps the invariant, and raises no reference
count. -/
theorem process_cleanup_inv (K : KernelConfig) (s : KernelState) (c : Nat)
    (hK : ConfigSane K) (h : KernelInv K s) (hc : Live K s c) :
    KernelInv K (process_cleanup K s c) ∧
      ∀ pn, (s.pageinfo pn).refcount ≤ 127 →
        ((process_cleanup K s c).pageinfo pn).refcount ≤ (s.pageinfo pn).refcount := by
  obtain ⟨hst, hpt, hoth, _⟩ := process_cleanup_partial_fields K s c K.MEMSIZE_VIRTUAL
    (h.root_ne_null hc)
  have hmem : (process_cleanup K s c).physmem = s.physmem :=
    process_cleanup_partial_physmem K s c K.MEMSIZE_VIRTUAL
  have hst' : ((process_cleanup K s c).processes c).p_state = procstate.P_FREE := hst
  have hpt' : ((process_cleanup K s c).processes c).p_pagetable = NULL := hpt
  have hoth' : ∀ j, j ≠ c → (process_cleanup K s c).processes j = s.processes j := hoth
  have hpi := process_cleanup_pageinfo K s c hK h hc
  have hpid : ∀ j, ((process_cleanup K s c).processes j).p_pid = (s.processes j).p_pid :=
    (process_cleanup_partial_frame K s c K.MEMSIZE_VIRTUAL).1.2.2
  have hc1 := (h.live_pos hc).1
  have hcN := hc.1
  have hNPROC := hK.1
  have hfree_ne : PO_FREE ≠ (c : Int) := by
    simp only [PO_FREE]
    omega
  generalize process_cleanup K s c = u at hmem hst' hpt' hoth' hpi hpid
  have hlive : ∀ p, Live K u p ↔ (Live K s p ∧ p ≠ c) := by
    intro p
    by_cases hpc : p = c
    · subst hpc
      simp only [Live, hst', ne_eq, not_true_eq_false, and_false]
    · simp only [Live, hoth' p hpc, ne_eq, hpc, not_false_eq_true, and_true]
  have hroot : ∀ p, p ≠ c → (u.processes p).p_pagetable = (s.processes p).p_pagetable :=
    fun p hp => by rw [hoth' p hp]
  have hmp : ∀ p, p ≠ c → mapped_pages K u p = mapped_pages K s p := by
    intro p hp
    simp only [mapped_pages, hmem, hroot p hp]
  -- the record of a page the exiting process maps
  have hmapped : ∀ pn, pn ∈ mapped_pages K s c →
      pn < NPAGES K ∧ 1 ≤ (s.pageinfo pn).refcount ∧ (s.pageinfo pn).refcount ≤ 126 ∧
        (s.pageinfo pn).refcount = (mapping_count K s pn : Int) ∧
        0 ≤ (s.pageinfo pn).owner ∧
        ∀ q, Live K s q → ¬ IsNode s.physmem (s.processes q).p_pagetable pn := by
    intro pn hm
    obtain ⟨va, hva, vam, hvam, hvpn⟩ := (mem_mapped_pages K s c pn).mp hm
    obtain ⟨_, u2, u3, u4⟩ := h.user c hc va hva vam hvam
    obtain ⟨m1, m2⟩ := h.mapped_refcount hc va hva vam hvam
    rw [hvpn] at u2 u3 u4 m1 m2
    obtain ⟨_, b2⟩ := h.refcount_le (by omega) pn u3
    exact ⟨u3, by omega, by omega, m1, u2, u4⟩
  -- a record that is kept
  have hkeep : ∀ pn, pn ∉ mapped_pages K s c → (s.pageinfo pn).owner ≠ (c : Int) →
      u.pageinfo pn = s.pageinfo pn := by
    intro pn h1 h2
    rw [hpi pn, if_neg h1, if_neg (fun hcon => h2 hcon.2)]
  have hkeep_neg : ∀ pn, (s.pageinfo pn).owner < 0 → u.pageinfo pn = s.pageinfo pn := by
    intro pn hneg
    refine hkeep pn (fun hm => ?_) (by omega)
    have := (hmapped pn hm).2.2.2.2.1
    omega
  have hkeep_node : ∀ q, Live K s q → q ≠ c → ∀ n,
      IsNode s.physmem (s.processes q).p_pagetable n → u.pageinfo n = s.pageinfo n := by
    intro q hq hqc n hn
    have hinfo := (h.nodes q hq n hn).2
    refine hkeep n (fun hm => (hmapped n hm).2.2.2.2.2 q hq hn) ?_
    rw [hinfo]
    simp only
    omega
  -- owners and reference counts after the cleanup
  have hcases : ∀ pn, pn < NPAGES K →
      (pn ∈ mapped_pages K s c ∧ (u.pageinfo pn).refcount = (s.pageinfo pn).refcount - 1 ∧
        ((u.pageinfo pn).owner = PO_FREE ∨
          ((u.pageinfo pn).owner = (s.pageinfo pn).owner ∧ (s.pageinfo pn).owner ≠ c)) ∧
        ((u.pageinfo pn).refcount = 0 → (u.pageinfo pn).owner = PO_FREE)) ∨
      (pn ∉ mapped_pages K s c ∧ (s.pageinfo pn).owner = (c : Int) ∧
        u.pageinfo pn = { owner := PO_FREE, refcount := 0 }) ∨
      (pn ∉ mapped_pages K s c ∧ (s.pageinfo pn).owner ≠ (c : Int) ∧
        u.pageinfo pn = s.pageinfo pn) := by
    intro pn hpn
    by_cases hm : pn ∈ mapped_pages K s c
    · left
      obtain ⟨_, a1, a2, _, _, _⟩ := hmapped pn hm
      obtain ⟨r1, r2, r3⟩ := release_info_live c (s.pageinfo pn) a1 (by omega)
      rw [hpi pn, if_pos hm]
      refine ⟨hm, r1, ?_, r3⟩
      rcases r2 with g | ⟨g1, g2, _⟩
      · exact Or.inl g
      · exact Or.inr ⟨g1, g2⟩
    · right
      by_cases ho : (s.pageinfo pn).owner = (c : Int)
      · left
        refine ⟨hm, ho, ?_⟩
        rw [hpi pn, if_neg hm, if_pos ⟨hpn, ho⟩]
      · right
        exact ⟨hm, ho, hkeep pn hm ho⟩
  -- the number of mappings
  have hmc : ∀ pn, mapping_count K u pn + (mapped_pages K s c).count pn =
      mapping_count K s pn := by
    intro pn
    have := sum_range_update K.NPROC c
      (fun p => if (s.processes p).p_state ≠ procstate.P_FREE then
        (mapped_pages K s p).count pn else 0)
      (fun p => if (u.processes p).p_state ≠ procstate.P_FREE then
        (mapped_pages K u p).count pn else 0) hc.1
      (fun j _ hj => by
        simp only [hoth' j hj, hmp j hj])
    have e2 : (if (u.processes c).p_state ≠ procstate.P_FREE then
        (mapped_pages K u c).count pn else 0) = 0 := by
      rw [hst']
      rfl
    simp only [e2, if_pos hc.2] at this
    simp only [mapping_count]
    omega
  have hmc_ge : ∀ q, Live K s q → q ≠ c → ∀ pn, pn ∈ mapped_pages K s q →
      0 < mapping_count K u pn := by
    intro q hq hqc pn hm
    exact mapping_count_pos K u q pn ((hlive q).mpr ⟨hq, hqc⟩) (by rw [hmp q hqc]; exact hm)
  have hcnt1 : ∀ pn, pn ∈ mapped_pages K s c → (mapped_pages K s c).count pn = 1 := by
    intro pn hm
    have := h.count_le_one hc pn
    have := List.count_pos_iff.mpr hm
    omega
  have hcnt0 : ∀ pn, pn ∉ mapped_pages K s c → (mapped_pages K s c).count pn = 0 :=
    fun pn hm => List.count_eq_zero_of_not_mem hm
  have hinv : KernelInv K u := by
    refine ⟨?_, ?_, ?_, ?_, ?_, ?_, ?_, ?_, ?_, ?_, ?_, ?_, ?_⟩
    · -- zero
      have h0c : (0 : Nat) ≠ c := by omega
      refine ⟨by rw [hoth' 0 h0c]; exact h.zero.1, by rw [hoth' 0 h0c]; exact h.zero.2.1,
        fun i hi => ?_⟩
      rw [hpid i]
      exact h.zero.2.2 i hi
    · -- sane
      refine ⟨fun pn hpn => ?_, ?_⟩
      · rcases hcases pn hpn with ⟨hm, g, _⟩ | ⟨_, _, g⟩ | ⟨_, _, g⟩
        · have := (hmapped pn hm).2.1
          omega
        · rw [g]
        · rw [g]
          exact h.sane.1 pn hpn
      · rw [hkeep_neg 0 h.page0]
        exact h.sane.2
    · rw [hkeep_neg 0 h.page0]
      exact h.page0
    · -- free
      intro pn hpn hz
      rcases hcases pn hpn with ⟨_, _, _, g⟩ | ⟨_, _, g⟩ | ⟨_, _, g⟩
      · exact g hz
      · rw [g]
      · rw [g] at hz ⊢
        exact h.free pn hpn hz
    · -- owners
      intro pn hpn
      have hold : (u.pageinfo pn).owner = PO_FREE ∨
          ((u.pageinfo pn).owner = (s.pageinfo pn).owner ∧ (s.pageinfo pn).owner ≠ c) := by
        rcases hcases pn hpn with ⟨_, _, g, _⟩ | ⟨_, _, g⟩ | ⟨_, g1, g⟩
        · exact g
        · exact Or.inl (by rw [g])
        · exact Or.inr ⟨by rw [g], g1⟩
      rcases hold with g | ⟨g1, g2⟩
      · exact Or.inl g
      · rw [g1]
        rcases h.owners pn hpn with e | e | e | ⟨p, hp, e1, e2⟩
        · exact Or.inl e
        · exact Or.inr (Or.inl e)
        · exact Or.inr (Or.inr (Or.inl e))
        · have hpc : p ≠ c := by
            intro hcon
            rw [hcon, (h.live_pos hc).2] at e1
            exact g2 e1.symm
          exact Or.inr (Or.inr (Or.inr ⟨p, hp, by rw [hoth' p hpc]; exact e1,
            by rw [hoth' p hpc]; exact e2⟩))
    · -- tree
      intro p hp
      obtain ⟨hp', hpc⟩ := (hlive p).mp hp
      rw [hmem, hroot p hpc]
      exact h.tree p hp'
    · -- nodes
      intro p hp n hn
      obtain ⟨hp', hpc⟩ := (hlive p).mp hp
      rw [hmem, hroot p hpc] at hn
      obtain ⟨n1, n2⟩ := h.nodes p hp' n hn
      exact ⟨n1, by rw [hkeep_node p hp' hpc n hn]; exact n2⟩
    · -- user
      intro p hp va hva vam hvam
      obtain ⟨hp', hpc⟩ := (hlive p).mp hp
      rw [hmem, hroot p hpc] at hvam
      obtain ⟨u1, u2, u3, u4⟩ := h.user p hp' va hva vam hvam
      refine ⟨u1, ?_, u3, fun q hq hn => ?_⟩
      · rcases hcases vam.pn u3 with ⟨_, _, g, _⟩ | ⟨_, _, g⟩ | ⟨_, _, g⟩
        · rcases g with g | ⟨g, _⟩
          · rw [g]
            decide
          · rw [g]
            exact u2
        · rw [g]
          decide
        · rw [g]
          exact u2
      · obtain ⟨hq', hqc⟩ := (hlive q).mp hq
        rw [hmem, hroot q hqc] at hn
        exact u4 q hq' hn
    · -- once
      intro p hp
      obtain ⟨hp', hpc⟩ := (hlive p).mp hp
      rw [hmp p hpc]
      exact h.once p hp'
    · -- count
      intro pn hpn
      obtain ⟨c1, c2⟩ := h.count pn hpn
      have hsum := hmc pn
      rcases hcases pn hpn with ⟨hm, g, _⟩ | ⟨hm, go, g⟩ | ⟨hm, _, g⟩
      · have hk := hcnt1 pn hm
        have hrc := (hmapped pn hm).2.2.2.1
        rw [g, hrc]
        refine ⟨fun _ => by omega, fun _ => by omega⟩
      · have hk := hcnt0 pn hm
        have hz : mapping_count K s pn = 0 := by
          rcases Nat.eq_zero_or_pos (mapping_count K s pn) with e | e
          · exact e
          · exact absurd (h.own pn hpn c hc go e) hm
        rw [g]
        refine ⟨fun hpos => by omega, fun _ => by decide⟩
      · have hk := hcnt0 pn hm
        have he : mapping_count K u pn = mapping_count K s pn := by omega
        rw [g, he]
        exact ⟨c1, c2⟩
    · -- own
      intro pn hpn p hp ho hcnt
      obtain ⟨hp', hpc⟩ := (hlive p).mp hp
      have hp1 := (h.live_pos hp').1
      have hsum := hmc pn
      have ho' : (s.pageinfo pn).owner = (p : Int) := by
        rcases hcases pn hpn with ⟨_, _, g, _⟩ | ⟨_, _, g⟩ | ⟨_, _, g⟩
        · rcases g with g | ⟨g, _⟩
          · rw [g] at ho
            simp only [PO_FREE] at ho
            omega
          · rw [← g]
            exact ho
        · rw [g] at ho
          simp only [PO_FREE] at ho
          omega
        · rw [← g]
          exact ho
      rw [hmp p hpc]
      exact h.own pn hpn p hp' ho' (by omega)
    · -- wexcl
      intro p hp va hva vam hvam hw
      obtain ⟨hp', hpc⟩ := (hlive p).mp hp
      rw [hmem, hroot p hpc] at hvam
      have hone := h.wexcl p hp' va hva vam hvam hw
      obtain ⟨m1, m2⟩ := h.mapped_refcount hp' va hva vam hvam
      have hpn := (h.user p hp' va hva vam hvam).2.2.1
      have hq := hmc_ge p hp' hpc vam.pn
        ((mem_mapped_pages K s p vam.pn).mpr ⟨va, hva, vam, hvam, rfl⟩)
      have hsum := hmc vam.pn
      have hnm : vam.pn ∉ mapped_pages K s c := by
        intro hm
        have := hcnt1 vam.pn hm
        rw [hone] at m1
        omega
      rcases hcases vam.pn hpn with ⟨hm, _⟩ | ⟨_, go, _⟩ | ⟨_, _, g⟩
      · exact absurd hm hnm
      · exact absurd (h.own vam.pn hpn c hc go m2) hnm
      · rw [g]
        exact hone
    · -- low
      intro p hp va hva
      obtain ⟨hp', hpc⟩ := (hlive p).mp hp
      obtain ⟨vam, l1, l2, l3, l4⟩ := h.low p hp' va hva
      refine ⟨vam, by rw [hmem, hroot p hpc]; exact l1, l2, fun hu => ?_, l4⟩
      obtain ⟨e1, e2⟩ := l3 hu
      rw [hkeep_neg _ e1]
      exact ⟨e1, e2⟩
  refine ⟨hinv, fun pn hle => ?_⟩
  rw [hpi pn]
  split
  · rename_i hm
    obtain ⟨_, a1, a2, _, _, _⟩ := hmapped pn hm
    obtain ⟨r1, _, _⟩ := release_info_live c (s.pageinfo pn) a1 (by omega)
    rw [r1]
    omega
  · split
    · rename_i hown
      exact h.sane.1 pn hown.1
    · exact Int.le_refl _

/-! ## The ownership partition: fork -/

theorem page_addresses_split (K : KernelConfig) (hK : ConfigSane K) (va : Nat)
    (h : va ∈ page_addresses 0 K.MEMSIZE_VIRTUAL) :
    va ∈ page_addresses 0 K.PROC_START_ADDR ∨ va ∈ user_range K := by
  obtain ⟨h1, h2⟩ := page_addresses_zero_mem _ va h
  by_cases hlt : va < K.PROC_START_ADDR
  · exact Or.inl (page_addresses_zero_of _ va h1 hlt)
  · exact Or.inr (page_addresses_of _ _ va hK.2.2.1 h1 (by omega) h2)

theorem user_range_sub (K : KernelConfig) (hK : ConfigSane K) (va : Nat)
    (h : va ∈ user_range K) : va ∈ page_addresses 0 K.MEMSIZE_VIRTUAL := by
  obtain ⟨h1, _, h3⟩ := page_addresses_mem _ _ va hK.2.2.1 h
  exact page_addresses_zero_of _ va h1 h3

theorem low_range_sub (K : KernelConfig) (hK : ConfigSane K) (va : Nat)
    (h : va ∈ page_addresses 0 K.PROC_START_ADDR) :
    va ∈ page_addresses 0 K.MEMSIZE_VIRTUAL := by
  obtain ⟨h1, h2⟩ := page_addresses_zero_mem _ va h
  exact page_addresses_zero_of _ va h1 (by have := hK.2.2.2; omega)

theorem released_pages_inj (m : Nat → Nat → Nat) (c : Nat) :
    ∀ l : List Nat, (released_pages m c l).Nodup → ∀ va ∈ l, ∀ va' ∈ l, ∀ v v',
      virtual_memory_lookup m c va = some v → virtual_memory_lookup m c va' = some v' →
      v.pn = v'.pn → va = va' := by
  intro l
  induction l with
  | nil =>
    intro _ va hva
    cases hva
  | cons a rest ih =>
    intro hnd va hva va' hva' v v' hv hv' hpn
    have hmemrest : ∀ x ∈ rest, ∀ w, virtual_memory_lookup m c x = some w →
        w.pn ∈ released_pages m c rest :=
      fun x hx w hw => (mem_released_pages m c rest w.pn).mpr ⟨x, hx, w, hw, rfl⟩
    rcases List.mem_cons.mp hva with e | e <;> rcases List.mem_cons.mp hva' with e' | e'
    · rw [e, e']
    · exfalso
      rw [e] at hv
      simp only [released_pages, List.filterMap_cons, hv, Option.map_some'] at hnd
      have := (List.nodup_cons.mp hnd).1
      exact this (hpn ▸ hmemrest va' e' v' hv')
    · exfalso
      rw [e'] at hv'
      simp only [released_pages, List.filterMap_cons, hv', Option.map_some'] at hnd
      have := (List.nodup_cons.mp hnd).1
      exact this (hpn ▸ hmemrest va e v hv)
    · have hnd' : (released_pages m c rest).Nodup := by
        simp only [released_pages, List.filterMap_cons] at hnd ⊢
        split at hnd
        · exact hnd
        · exact (List.nodup_cons.mp hnd).2
      exact ih hnd' va e va' e' v v' hv hv' hpn

theorem fork_share_pos (s : KernelState) (proot va pn : Nat)
    (h : fork_share s proot va pn ≠ 0) :
    fork_share s proot va pn = 1 ∧
      ∃ map, virtual_memory_lookup s.physmem proot va = some map ∧ map.pn = pn ∧
        0 ≤ (s.pageinfo pn).owner ∧ map.perm &&& (PTE_U ||| PTE_W) = PTE_U := by
  simp only [fork_share] at h ⊢
  split at h
  · exact absurd rfl h
  · rename_i map hmap
    split at h
    · rename_i hc
      exact ⟨if_pos hc, map, hmap, hc.1, hc.2.1, hc.2.2⟩
    · exact absurd rfl h

theorem perm_user_of_flags (perm : Nat) (h : perm &&& (PTE_U ||| PTE_W) = PTE_U) :
    perm &&& PTE_U ≠ 0 ∧ perm &&& PTE_W = 0 := by
  have h1 := and_low_bits perm (PTE_U ||| PTE_W) (by decide)
  have h2 := and_low_bits perm PTE_U (by decide)
  have h3 := and_low_bits perm PTE_W (by decide)
  rw [h1] at h
  rw [h2, h3]
  have hlt : perm % 8 < 8 := Nat.mod_lt _ (by omega)
  revert h
  generalize perm % 8 = x at hlt
  interval_cases x <;> decide

/-- The loop of `fork` adds at most one reference to a page. -/
theorem KernelInv.fork_shares_le {K : KernelConfig} {s : KernelState} (h : KernelInv K s)
    (hK : ConfigSane K) {p : Nat} (hp : Live K s p) (pn : Nat) :
    fork_shares s (s.processes p).p_pagetable (page_addresses 0 K.MEMSIZE_VIRTUAL) pn ≤ 1 := by
  by_cases hex : ∃ va ∈ page_addresses 0 K.MEMSIZE_VIRTUAL,
      fork_share s (s.processes p).p_pagetable va pn ≠ 0
  · obtain ⟨va, hva, hne⟩ := hex
    obtain ⟨h1, map, hmap, hpn, ho, hperm⟩ := fork_share_pos s _ va pn hne
    have hinR : ∀ x ∈ page_addresses 0 K.MEMSIZE_VIRTUAL, ∀ w,
        virtual_memory_lookup s.physmem (s.processes p).p_pagetable x = some w → w.pn = pn →
        w.perm &&& (PTE_U ||| PTE_W) = PTE_U → x ∈ user_range K := by
      intro x hx w hw hwpn hwperm
      rcases page_addresses_split K hK x hx with g | g
      · exfalso
        obtain ⟨vam, l1, _, l3, _⟩ := h.low p hp x g
        rw [hw] at l1
        cases l1
        have := (l3 (perm_user_of_flags _ hwperm).1).1
        rw [hwpn] at this
        omega
      · exact g
    have := fork_shares_eq_one s _ (page_addresses 0 K.MEMSIZE_VIRTUAL) pn va
      (page_addresses_nodup _ _) hva h1 (fun va' hva' hne' => by
        by_contra hcon
        obtain ⟨_, map', hmap', hpn', _, hperm'⟩ := fork_share_pos s _ va' pn hcon
        exact hne' (released_pages_inj s.physmem _ (user_range K) (h.once p hp) va'
          (hinR va' hva' map' hmap' hpn' hperm') va (hinR va hva map hmap hpn hperm)
          map' map hmap' hmap (hpn'.trans hpn.symm)))
    omega
  · have := fork_shares_eq_zero s (s.processes p).p_pagetable
      (page_addresses 0 K.MEMSIZE_VIRTUAL) pn (fun va hva => by
        by_contra hcon
        exact hex ⟨va, hva, hcon⟩)
    omega

/-- The invariant makes a state one in which `fork` can be analysed. -/
theorem KernelInv.fork_ready {K : KernelConfig} {s : KernelState} (h : KernelInv K s)
    (hK : ConfigSane K) (hc : Live K s s.current) : ForkReady K s := by
  have hNP := hK.1
  have hcN := hc.1
  refine ⟨h.sane, hK.2.1, by omega, ?_, ?_, ?_, h.zero.2.2, hc.2⟩
  · intro va _ k hk a ha
    rw [(h.nodes _ hc _ ⟨va, k, a, hk, ha, rfl⟩).2]
    exact Int.one_pos
  · intro va hva vam hvam hperm
    have hu : vam.perm &&& PTE_U ≠ 0 := by
      rcases hperm with g | g
      · exact (perm_user_of_flags _ g).1
      · exact perm_user_of_user_writable _ g
    rcases page_addresses_split K hK va hva with g | g
    · obtain ⟨vam', l1, _, l3, _⟩ := h.low _ hc va g
      rw [hvam] at l1
      cases l1
      exact (l3 hu).2
    · obtain ⟨e1, e2⟩ := h.mapped_refcount hc va g vam hvam
      rw [e1]
      exact_mod_cast e2
  · intro va hva vam hvam
    have hpn : vam.pn < NPAGES K := by
      rcases page_addresses_split K hK va hva with g | g
      · obtain ⟨vam', l1, l2, _, _⟩ := h.low _ hc va g
        rw [hvam] at l1
        cases l1
        exact l2
      · exact (h.user _ hc va g vam hvam).2.2.1
    have h1 := (h.refcount_le (by omega) vam.pn hpn).2
    have h2 := h.fork_shares_le hK hc vam.pn
    omega

/-- A failed `fork` leaves the contents of every referenced page as they were. -/
theorem sys_fork_failed_physmem (K : KernelConfig) (s s' : KernelState) (child : Nat)
    (hready : ForkReady K s)
    (hfail : sys_fork K s = (s', fork_outcome.clone_failed child) ∨
      ∃ i, sys_fork K s = (s', fork_outcome.copy_failed child i)) :
    ∀ pn, 0 < (s.pageinfo pn).refcount → s'.physmem pn = s.physmem pn := by
  obtain ⟨hslot, hlt, hcase⟩ := sys_fork_failed_cases K s s' child hfail
  obtain ⟨_, _, hffree⟩ := sys_fork_find_slot_result K s
  rw [← hslot] at hffree
  have hfp : child ≠ s.current := by
    intro hc
    have := hffree hlt
    rw [hc] at this
    exact hready.2.2.2.2.2.2.2 this
  have hready' := hready
  obtain ⟨hsane, hmv, hnp, hnr, hur, hno, hpid, _⟩ := hready'
  rcases hcase with ⟨hnull, hs'⟩ | ⟨hne, i, hres, hs'⟩
  · intro pn hpos
    have hpidf : int8 (s.processes child).p_pid = (child : Int) := by
      rw [hpid child hlt]
      exact int8_natCast child (by omega)
    have hproot : ((set_p_state s child procstate.P_RUNNABLE).processes s.current).p_pagetable =
        (s.processes s.current).p_pagetable := by
      simp only [set_p_state, set_proc_processes]
      split
      · rename_i h
        rw [h]
      · rfl
    obtain ⟨_, _, _, _, c5, _, _⟩ :=
      copy_pagetable_spec K (set_p_state s child procstate.P_RUNNABLE)
        (s.processes s.current).p_pagetable child hsane hmv hnr
    have hm : (sys_fork_clone K s child).physmem pn =
        (copy_pagetable K (set_p_state s child procstate.P_RUNNABLE)
          (s.processes s.current).p_pagetable child).1.physmem pn := by
      simp only [sys_fork_clone, hproot, hpidf, set_p_pagetable, set_proc_physmem]
    rw [hs']
    show ( process_cleanup_partial K (sys_fork_clone K s child) child
      K.MEMSIZE_VIRTUAL).physmem pn = s.physmem pn
    rw [process_cleanup_partial_physmem, hm]
    exact (c5 pn hpos).2
  · obtain ⟨hinv, hproot, _, hpf, _, hlookc⟩ :=
      sys_fork_clone_spec K s child hready hlt hfp hne
    obtain ⟨_, hfailc⟩ := sys_fork_loop_spec K s (s.processes s.current).p_pagetable
      ((sys_fork_clone K s child).processes child).p_pagetable child child
      (page_addresses 0 K.MEMSIZE_VIRTUAL) (sys_fork_clone K s child) (fun _ => 0)
      (fun va hva => (page_addresses_zero_mem _ va hva).1) hnr hur
      (page_addresses_pairwise _ hmv)
      (fun va hva vam hvam => by
        have := hno va hva vam hvam
        simpa using this)
      hinv hproot rfl
    obtain ⟨l1, l2, tf, hl, hprog, _, hstate⟩ := hfailc i hres
    intro pn hpos
    rw [hs', hstate, process_cleanup_partial_physmem]
    exact hprog.1.2.2.2.2.2.1 pn hpos

/-- A `fork` that fails on an allocation keeps the invariant and leaves the ownership
table as it was. -/
theorem sys_fork_failed_inv (K : KernelConfig) (s s' : KernelState) (child : Nat)
    (hK : ConfigSane K) (h : KernelInv K s) (hc : Live K s s.current)
    (hfail : sys_fork K s = (s', fork_outcome.clone_failed child) ∨
      ∃ i, sys_fork K s = (s', fork_outcome.copy_failed child i)) :
    KernelInv K s' ∧ ∀ pn, pn < NPAGES K → s'.pageinfo pn = s.pageinfo pn := by
  have hready := h.fork_ready hK hc
  obtain ⟨hslot, hlt, _⟩ := sys_fork_failed_cases K s s' child hfail
  obtain ⟨hpos, _, hffree⟩ := sys_fork_find_slot_result K s
  rw [← hslot] at hffree hpos
  have hcfree := hffree hlt
  have hs'eq : s' = (sys_fork K s).1 := by
    rcases hfail with e | ⟨i, e⟩
    · rw [e]
    · rw [e]
  have hstale : ∀ pn, pn < NPAGES K → (s.pageinfo pn).owner ≠ child := by
    intro pn hpn ho
    rcases h.owners pn hpn with g | g | g | ⟨p, hp, g1, g2⟩
    · rw [g] at ho
      simp only [PO_FREE] at ho
      omega
    · rw [g] at ho
      simp only [PO_RESERVED] at ho
      omega
    · rw [g] at ho
      simp only [PO_KERNEL] at ho
      omega
    · rw [h.zero.2.2 p hp, ho] at g1
      have : p = child := by omega
      rw [this] at g2
      exact g2 hcfree
  obtain ⟨_, r2, r3, _, r5⟩ := sys_fork_failure_rollback K s s' child hready hK.2.2.1 h.free
    hstale (fun va hva vam hvam =>
      ⟨(h.user _ hc va hva vam hvam).1, (h.user _ hc va hva vam hvam).2.1⟩)
    (fun va hva vam hvam hperm => by
      obtain ⟨vam', l1, _, l3, _⟩ := h.low _ hc va hva
      rw [hvam] at l1
      cases l1
      exact (l3 (perm_user_of_flags _ hperm).1).1) hfail
  have hphys := sys_fork_failed_physmem K s s' child hready hfail
  have hN0 : 0 < NPAGES K := by
    have := (h.nodes _ hc _ ⟨0, 0, _, by omega, rfl, rfl⟩).1
    omega
  obtain ⟨_, fd, _⟩ := sys_fork_owners K s h.zero.2.2 (by have := hK.1; omega)
  rw [← hslot, ← hs'eq] at fd
  have hpid := (sys_fork_frame K s h.zero.2.2).2.2
  rw [← hs'eq] at hpid
  refine ⟨h.congr r5 (r5 0 hN0) (fun pn _ hpos => hphys pn hpos) ?_ ?_, r5⟩
  · intro j
    by_cases hj : j = child
    · rw [hj]
      exact ⟨⟨fun _ => hcfree, fun _ => r2⟩, hpid child, fun hne => absurd hcfree hne⟩
    · obtain ⟨_, d2, d3⟩ := fd j (fun hcon => hj hcon.1)
      exact ⟨by rw [d2], hpid j, fun _ => d3⟩
  · have h0 : (0 : Nat) ≠ child := by omega
    rw [(fd 0 (fun hcon => h0 hcon.1)).2.2]
    exact h.zero.2.1

/-- The page table of the child of a successful `fork`: a tree of pages that were free and
now belong to the child with reference count 1, none of which is a copied page. -/
theorem sys_fork_forked_tree (K : KernelConfig) (s s' : KernelState) (child : Nat)
    (hready : ForkReady K s) (hfork : sys_fork K s = (s', fork_outcome.forked child)) :
    TreeInj s'.physmem (s'.processes child).p_pagetable ∧
      (∀ n, IsNode s'.physmem (s'.processes child).p_pagetable n →
        n < NPAGES K ∧ (s.pageinfo n).refcount = 0 ∧
          s'.pageinfo n = { owner := (child : Int), refcount := 1 }) ∧
      (∀ va ∈ page_addresses 0 K.MEMSIZE_VIRTUAL,
        fork_copies s (s.processes s.current).p_pagetable va → ∀ vam',
        virtual_memory_lookup s'.physmem (s'.processes child).p_pagetable va = some vam' →
        ¬ IsNode s'.physmem (s'.processes child).p_pagetable vam'.pn) := by
  obtain ⟨hf1, _, hffree⟩ := sys_fork_find_slot_result K s
  have hready' := hready
  obtain ⟨hsane, hmv, hnp, hnr, hur, hno, hpid, hcurstate⟩ := hready'
  simp only [sys_fork] at hfork
  by_cases h1 : K.NPROC ≤ sys_fork_find_slot K s K.NPROC 1
  · rw [if_pos h1] at hfork
    exact absurd (Prod.mk.inj hfork).2 (by simp)
  rw [if_neg h1] at hfork
  by_cases h2 : ((sys_fork_clone K s (sys_fork_find_slot K s K.NPROC 1)).processes
      (sys_fork_find_slot K s K.NPROC 1)).p_pagetable = NULL
  · rw [if_pos h2] at hfork
    exact absurd (Prod.mk.inj hfork).2 (by simp)
  rw [if_neg h2] at hfork
  have hflt : sys_fork_find_slot K s K.NPROC 1 < K.NPROC := by omega
  have hfree := hffree hflt
  have hfp : sys_fork_find_slot K s K.NPROC 1 ≠ s.current := by
    intro hc
    rw [hc] at hfree
    exact hcurstate hfree
  obtain ⟨hinv, hproot, hpcur, hpf, hpoth, hlookc⟩ :=
    sys_fork_clone_spec K s _ hready hflt hfp h2
  obtain ⟨hsucc, _⟩ := sys_fork_loop_spec K s (s.processes s.current).p_pagetable
    ((sys_fork_clone K s (sys_fork_find_slot K s K.NPROC 1)).processes
      (sys_fork_find_slot K s K.NPROC 1)).p_pagetable
    (sys_fork_find_slot K s K.NPROC 1) (sys_fork_find_slot K s K.NPROC 1)
    (page_addresses 0 K.MEMSIZE_VIRTUAL)
    (sys_fork_clone K s (sys_fork_find_slot K s K.NPROC 1)) (fun _ => 0)
    (fun va hva => (page_addresses_zero_mem _ va hva).1) hnr hur
    (page_addresses_pairwise _ hmv)
    (fun va hva vam hvam => by
      have := hno va hva vam hvam
      simpa using this)
    hinv hproot rfl
  split at hfork
  · exact absurd (Prod.mk.inj hfork).2 (by simp)
  · rename_i hnone
    obtain ⟨hs', hchild⟩ := Prod.mk.inj hfork
    have hchild' : sys_fork_find_slot K s K.NPROC 1 = child := by
      simpa using hchild
    obtain ⟨q1, q2, q3, q4, q8, q5, q6, q7⟩ := hsucc hnone
    rw [hchild'] at hs' q1 q2 q3 q4 q8 q5 q6 q7 hfp hfree hflt hf1 hinv hproot hpcur hpf hpoth hlookc h2
    have hcur' : (sys_fork_loop K child (page_addresses 0 K.MEMSIZE_VIRTUAL)
        (sys_fork_clone K s child)).1.current = s.current := q1.2.2.2.2.2.2.2
    have hfp' : child ≠ (sys_fork_loop K child (page_addresses 0 K.MEMSIZE_VIRTUAL)
        (sys_fork_clone K s child)).1.current := by rw [hcur']; exact hfp
    obtain ⟨e1, e2, e3, e4, e5, e6⟩ := sys_fork_finish_fields _ child hfp'
    rw [hs'] at e1 e2 e3 e4 e5 e6
    rw [hcur'] at e4 e5 e6
    rw [q2] at e4 e5 e6
    have hptc : (s'.processes child).p_pagetable =
        ((sys_fork_clone K s child).processes child).p_pagetable := by
      rw [e4]
    rw [← hptc] at q1 q6
    rw [← e2] at q6
    obtain ⟨_, ⟨b1, b2⟩, b3, _, b5, _, _, _⟩ := q1
    rw [← e2] at b1 b2 b3
    rw [← e1] at b2 b5
    refine ⟨b1, fun n hn => ?_, fun va hva hcop vam' hvam' => ?_⟩
    · obtain ⟨n1, n2⟩ := b3 n hn
      refine ⟨n1, n2, ?_⟩
      rcases b5 n (by omega) with g | ⟨_, _, g⟩
      · have := b2 n hn
        rw [g, n2] at this
        omega
      · exact g
    · obtain ⟨vam, hvam, ho, hperm⟩ := hcop
      obtain ⟨q, f1, _, _, _, f5, _⟩ := q6 va hva vam hvam ho hperm
      rw [f1] at hvam'
      cases hvam'
      exact f5

theorem released_pages_nodup_of_inj (m : Nat → Nat → Nat) (c : Nat) :
    ∀ l : List Nat, l.Nodup →
      (∀ va ∈ l, ∀ va' ∈ l, ∀ v v', virtual_memory_lookup m c va = some v →
        virtual_memory_lookup m c va' = some v' → v.pn = v'.pn → va = va') →
      (released_pages m c l).Nodup := by
  intro l
  induction l with
  | nil => intro _ _; exact List.nodup_nil
  | cons a rest ih =>
    intro hnd hinj
    obtain ⟨ha, hnd'⟩ := List.nodup_cons.mp hnd
    have hrest := ih hnd' (fun va hva va' hva' v v' hv hv' hpn =>
      hinj va (List.mem_cons_of_mem _ hva) va' (List.mem_cons_of_mem _ hva') v v' hv hv' hpn)
    simp only [released_pages, List.filterMap_cons]
    cases hl : virtual_memory_lookup m c a with
    | none => exact hrest
    | some v =>
      simp only [Option.map_some']
      refine List.nodup_cons.mpr ⟨fun hmem => ?_, hrest⟩
      obtain ⟨va', hva', v', hv', hpn⟩ := (mem_released_pages m c rest v.pn).mp hmem
      have := hinj a (List.mem_cons_self _ _) va' (List.mem_cons_of_mem _ hva') v v' hl hv'
        hpn.symm
      exact ha (this ▸ hva')

theorem fork_shares_ge (s : KernelState) (proot : Nat) (pn : Nat) :
    ∀ (l : List Nat) (va : Nat), va ∈ l →
      fork_share s proot va pn ≤ fork_shares s proot l pn := by
  intro l
  induction l with
  | nil =>
    intro va hva
    cases hva
  | cons a rest ih =>
    intro va hva
    rw [fork_shares_cons]
    have h1 := fork_share_nonneg s proot a pn
    have h2 := fork_shares_nonneg s proot rest pn
    rcases List.mem_cons.mp hva with e | e
    · rw [e]
      omega
    · have := ih va e
      omega

theorem fork_shares_pos (s : KernelState) (proot : Nat) (l : List Nat) (pn : Nat)
    (h : fork_shares s proot l pn ≠ 0) : ∃ va ∈ l, fork_share s proot va pn ≠ 0 := by
  by_contra hcon
  exact h (fork_shares_eq_zero s proot l pn (fun va hva => by
    by_contra hne
    exact hcon ⟨va, hva, hne⟩))

theorem mapping_count_ge_two (K : KernelConfig) (s : KernelState) (p q pn : Nat)
    (hp : Live K s p) (hq : Live K s q) (hpq : p ≠ q) (hmp : pn ∈ mapped_pages K s p)
    (hmq : pn ∈ mapped_pages K s q) : 2 ≤ mapping_count K s pn := by
  have hu := sum_range_update K.NPROC p
    (fun j => if (s.processes j).p_state ≠ procstate.P_FREE then
      (mapped_pages K s j).count pn else 0)
    (fun j => if j = p then 0 else
      if (s.processes j).p_state ≠ procstate.P_FREE then
        (mapped_pages K s j).count pn else 0) hp.1
    (fun j _ hj => by simp only [if_neg hj])
  have hg := sum_range_ge K.NPROC q
    (fun j => if j = p then 0 else
      if (s.processes j).p_state ≠ procstate.P_FREE then
        (mapped_pages K s j).count pn else 0) hq.1
  simp only [if_pos hp.2, if_pos hq.2, if_neg hpq.symm, if_true] at hu hg
  have h1 : 0 < (mapped_pages K s p).count pn := List.count_pos_iff.mpr hmp
  have h2 : 0 < (mapped_pages K s q).count pn := List.count_pos_iff.mpr hmq
  simp only [mapping_count]
  omega

/-- A successful `fork` keeps the invariant. -/
theorem sys_fork_forked_inv (K : KernelConfig) (s s' : KernelState) (child : Nat)
    (hK : ConfigSane K) (h : KernelInv K s) (hc : Live K s s.current)
    (hfork : sys_fork K s = (s', fork_outcome.forked child)) : KernelInv K s' := by
  have hready := h.fork_ready hK hc
  obtain ⟨T1, T2, T3⟩ := sys_fork_forked_tree K s s' child hready hfork
  obtain ⟨F1, F2, F3, F4, _, F6, F7, F8, _, F10, F11, _, F13, F14, F15⟩ :=
    sys_fork_forked_spec K s s' child hready hfork
  have hc1 := (h.live_pos hc).1
  have hNP := hK.1
  -- descriptors
  have hdesc : ∀ j, j ≠ child → (s'.processes j).p_state = (s.processes j).p_state ∧
      (s'.processes j).p_pid = (s.processes j).p_pid ∧
      (s'.processes j).p_pagetable = (s.processes j).p_pagetable := by
    intro j hj
    by_cases hjc : j = s.current
    · rw [hjc, F7]
      exact ⟨rfl, rfl, rfl⟩
    · rw [F8 j hj hjc]
      exact ⟨rfl, rfl, rfl⟩
  have hcst : (s'.processes child).p_state = procstate.P_RUNNABLE := by rw [F6]
  have hcpid : (s'.processes child).p_pid = (child : Int) := by rw [F6]
  have hclive : Live K s' child := ⟨F2, by rw [hcst]; decide⟩
  have hold_ne : ∀ p, Live K s p → p ≠ child := fun p hp hpc => hp.2 (hpc ▸ F4)
  have hold_live : ∀ p, Live K s p → Live K s' p :=
    fun p hp => ⟨hp.1, by rw [(hdesc p (hold_ne p hp)).1]; exact hp.2⟩
  have hlive' : ∀ p, Live K s' p → p = child ∨ Live K s p := by
    intro p hp
    by_cases hpc : p = child
    · exact Or.inl hpc
    · exact Or.inr ⟨hp.1, by rw [← (hdesc p hpc).1]; exact hp.2⟩
  have hroot : ∀ p, Live K s p → (s'.processes p).p_pagetable = (s.processes p).p_pagetable :=
    fun p hp => (hdesc p (hold_ne p hp)).2.2
  -- the trees of the processes that were there
  have hold : ∀ q, Live K s q →
      (∀ va, virtual_memory_lookup s'.physmem (s.processes q).p_pagetable va =
        virtual_memory_lookup s.physmem (s.processes q).p_pagetable va) ∧
      (∀ n, IsNode s'.physmem (s.processes q).p_pagetable n ↔
        IsNode s.physmem (s.processes q).p_pagetable n) ∧
      TreeInj s'.physmem (s.processes q).p_pagetable := by
    intro q hq
    have := tree_frame s.physmem s'.physmem (s.processes q).p_pagetable (fun n hn => by
      obtain ⟨_, n2⟩ := h.nodes q hq n hn
      exact (F10 n (by rw [n2]; exact Int.one_pos)).2)
    exact ⟨this.2.1, this.2.2.1, this.2.2.2 (h.tree q hq)⟩
  have hmp_old : ∀ p, Live K s p → mapped_pages K s' p = mapped_pages K s p := by
    intro p hp
    simp only [mapped_pages, hroot p hp]
    exact released_pages_congr _ _ _ _ _ (fun va _ => (hold p hp).1 va)
  -- pages mapped before the fork
  have hmapped_pos : ∀ p, Live K s p → ∀ va ∈ user_range K, ∀ vam,
      virtual_memory_lookup s.physmem (s.processes p).p_pagetable va = some vam →
      0 < (s.pageinfo vam.pn).refcount := by
    intro p hp va hva vam hvam
    obtain ⟨e1, e2⟩ := h.mapped_refcount hp va hva vam hvam
    rw [e1]
    exact_mod_cast e2
  -- the shares
  have hsh_le := fun pn => h.fork_shares_le hK hc pn
  have hsh_ge := fun pn => fork_shares_nonneg s (s.processes s.current).p_pagetable
    (page_addresses 0 K.MEMSIZE_VIRTUAL) pn
  have hsh_pos : ∀ pn, fork_shares s (s.processes s.current).p_pagetable
      (page_addresses 0 K.MEMSIZE_VIRTUAL) pn ≠ 0 →
      ∃ va ∈ user_range K, ∃ vam,
        virtual_memory_lookup s.physmem (s.processes s.current).p_pagetable va = some vam ∧
        vam.pn = pn ∧ vam.perm &&& (PTE_U ||| PTE_W) = PTE_U := by
    intro pn hne
    obtain ⟨va, hva, hsh⟩ := fork_shares_pos s _ _ pn hne
    obtain ⟨_, map, hmap, hpn, ho, hperm⟩ := fork_share_pos s _ va pn hsh
    rcases page_addresses_split K hK va hva with g | g
    · exfalso
      obtain ⟨vam, l1, _, l3, _⟩ := h.low _ hc va g
      rw [hmap] at l1
      cases l1
      have := (l3 (perm_user_of_flags _ hperm).1).1
      rw [hpn] at this
      omega
    · exact ⟨va, g, map, hmap, hpn, hperm⟩
  -- the mappings of the child in the process region
  have hchild : ∀ va ∈ user_range K, ∀ vam',
      virtual_memory_lookup s'.physmem (s'.processes child).p_pagetable va = some vam' →
      (virtual_memory_lookup s.physmem (s.processes s.current).p_pagetable va = some vam' ∧
        vam'.perm &&& (PTE_U ||| PTE_W) = PTE_U ∧ 0 < (s.pageinfo vam'.pn).refcount) ∨
      (vam'.perm &&& PTE_W ≠ 0 ∧ vam'.perm &&& PTE_U ≠ 0 ∧ vam'.pn < NPAGES K ∧
        (s.pageinfo vam'.pn).refcount = 0 ∧
        s'.pageinfo vam'.pn = { owner := (child : Int), refcount := 1 } ∧
        fork_copies s (s.processes s.current).p_pagetable va) := by
    intro va hva vam' hvam'
    have hvaA := user_range_sub K hK va hva
    by_cases hcop : fork_copies s (s.processes s.current).p_pagetable va
    · right
      obtain ⟨vam, hvam, ho, hperm⟩ := hcop
      obtain ⟨q, f1, f2, f3, f4, _⟩ := F14 va hvaA vam hvam ho hperm
      rw [f1] at hvam'
      cases hvam'
      have hu := perm_user_of_user_writable _ hperm
      have hw : vam.perm &&& PTE_W ≠ 0 := by
        have h1 := and_low_bits vam.perm (PTE_U ||| PTE_W) (by decide)
        have h3 := and_low_bits vam.perm PTE_W (by decide)
        rw [h1] at hperm
        rw [h3]
        have hlt : vam.perm % 8 < 8 := Nat.mod_lt _ (by omega)
        revert hperm
        generalize vam.perm % 8 = x at hlt
        interval_cases x <;> decide
      exact ⟨hw, hu, f2, f3, f4, vam, hvam, ho, hperm⟩
    · left
      rw [F13 va hvaA hcop] at hvam'
      obtain ⟨u1, u2, _, _⟩ := h.user _ hc va hva vam' hvam'
      refine ⟨hvam', ?_, hmapped_pos _ hc va hva vam' hvam'⟩
      rcases perm_user_cases _ u1 with g | g
      · exact g
      · exact absurd ⟨vam', hvam', u2, g⟩ hcop
  have hchild_of : ∀ va ∈ user_range K, ∀ vam,
      virtual_memory_lookup s.physmem (s.processes s.current).p_pagetable va = some vam →
      vam.perm &&& (PTE_U ||| PTE_W) = PTE_U →
      virtual_memory_lookup s'.physmem (s'.processes child).p_pagetable va = some vam := by
    intro va hva vam hvam hperm
    rw [F13 va (user_range_sub K hK va hva) (fun hcop => ?_)]
    · exact hvam
    · obtain ⟨vam2, hvam2, _, hperm2⟩ := hcop
      rw [hvam] at hvam2
      cases hvam2
      rw [hperm] at hperm2
      exact absurd hperm2 (by decide)
  -- the child maps a page at one address only
  have honce_c : (mapped_pages K s' child).Nodup := by
    refine released_pages_nodup_of_inj _ _ _ (page_addresses_nodup _ _) ?_
    intro va hva va' hva' v v' hv hv' hpn
    rcases hchild va hva v hv with ⟨a1, _, a3⟩ | ⟨_, _, _, a4, _, a6⟩ <;>
      rcases hchild va' hva' v' hv' with ⟨b1, _, b3⟩ | ⟨_, _, _, b4, _, b6⟩
    · exact released_pages_inj _ _ _ (h.once _ hc) va hva va' hva' v v' a1 b1 hpn
    · rw [hpn, b4] at a3
      omega
    · rw [← hpn, a4] at b3
      omega
    · by_contra hne
      exact F15 va (user_range_sub K hK va hva) va' (user_range_sub K hK va' hva') hne a6 b6
        v v' hv hv' hpn
  have hcnt_c_le : ∀ pn, (mapped_pages K s' child).count pn ≤ 1 :=
    fun pn => List.nodup_iff_count_le_one.mp honce_c pn
  -- for a referenced page the child's mappings are the shares
  have hcnt_c : ∀ pn, 0 < (s.pageinfo pn).refcount →
      ((mapped_pages K s' child).count pn : Int) =
        fork_shares s (s.processes s.current).p_pagetable
          (page_addresses 0 K.MEMSIZE_VIRTUAL) pn := by
    intro pn hpos
    have hle := hcnt_c_le pn
    have h1 := hsh_le pn
    have h2 := hsh_ge pn
    by_cases hm : pn ∈ mapped_pages K s' child
    · have hcp := List.count_pos_iff.mpr hm
      obtain ⟨va, hva, vam, hvam, hpn⟩ := (mem_mapped_pages K s' child pn).mp hm
      rcases hchild va hva vam hvam with ⟨a1, a2, _⟩ | ⟨_, _, _, a4, _⟩
      · have hsh : fork_share s (s.processes s.current).p_pagetable va pn = 1 := by
          simp only [fork_share, a1]
          rw [if_pos ⟨hpn, by rw [← hpn]; exact (h.user _ hc va hva vam a1).2.1, a2⟩]
        have := fork_shares_ge s (s.processes s.current).p_pagetable pn _ va
          (user_range_sub K hK va hva)
        omega
      · rw [hpn] at a4
        omega
    · have hcz := List.count_eq_zero_of_not_mem hm
      rw [hcz]
      by_contra hne
      obtain ⟨va, hva, vam, hvam, hpn, hperm⟩ := hsh_pos pn (fun hz => hne (by rw [hz]; rfl))
      exact hm ((mem_mapped_pages K s' child pn).mpr
        ⟨va, hva, vam, hchild_of va hva vam hvam hperm, hpn⟩)
  -- the number of mappings
  have hmc : ∀ pn, mapping_count K s' pn =
      mapping_count K s pn + (mapped_pages K s' child).count pn := by
    intro pn
    have := sum_range_update K.NPROC child
      (fun p => if (s.processes p).p_state ≠ procstate.P_FREE then
        (mapped_pages K s p).count pn else 0)
      (fun p => if (s'.processes p).p_state ≠ procstate.P_FREE then
        (mapped_pages K s' p).count pn else 0) F2
      (fun j hjN hj => by
        simp only [(hdesc j hj).1]
        by_cases hf : (s.processes j).p_state = procstate.P_FREE
        · simp [hf]
        · rw [hmp_old j ⟨hjN, hf⟩])
    have e1 : (if (s.processes child).p_state ≠ procstate.P_FREE then
        (mapped_pages K s child).count pn else 0) = 0 := by
      rw [F4]
      rfl
    simp only [e1, if_pos hclive.2] at this
    simp only [mapping_count]
    omega
  have hcount0 : ∀ pn, pn < NPAGES K → (s.pageinfo pn).refcount = 0 →
      mapping_count K s pn = 0 := by
    intro pn hpn hz
    rcases Nat.eq_zero_or_pos (mapping_count K s pn) with e | e
    · exact e
    · have := (h.count pn hpn).1 e
      omega
  have hchild_int : (child : Int) ≠ 0 := by omega
  -- records
  have hrec : ∀ pn, 0 < (s.pageinfo pn).refcount →
      (s'.pageinfo pn).owner = (s.pageinfo pn).owner ∧
      (s'.pageinfo pn).refcount = (s.pageinfo pn).refcount +
        fork_shares s (s.processes s.current).p_pagetable
          (page_addresses 0 K.MEMSIZE_VIRTUAL) pn := by
    intro pn hpos
    rw [(F10 pn hpos).1]
    exact ⟨rfl, rfl⟩
  have hrec_free : ∀ pn, (s.pageinfo pn).refcount = 0 →
      s'.pageinfo pn = s.pageinfo pn ∨
        (pn < NPAGES K ∧ s'.pageinfo pn = { owner := (child : Int), refcount := 1 }) := by
    intro pn hz
    rcases F11 pn (by omega) with g | ⟨g1, _, g3⟩
    · exact Or.inl g
    · exact Or.inr ⟨g1, g3⟩
  have hnotnode_c : ∀ pn, 0 < (s.pageinfo pn).refcount →
      ¬ IsNode s'.physmem (s'.processes child).p_pagetable pn := by
    intro pn hpos hn
    have := (T2 pn hn).2.1
    omega
  refine ⟨?_, ?_, ?_, ?_, ?_, ?_, ?_, ?_, ?_, ?_, ?_, ?_, ?_⟩
  · -- zero
    have h0 : (0 : Nat) ≠ child := by omega
    refine ⟨by rw [(hdesc 0 h0).1]; exact h.zero.1, by rw [(hdesc 0 h0).2.2]; exact h.zero.2.1,
      fun i hi => ?_⟩
    by_cases hic : i = child
    · rw [hic]
      exact hcpid
    · rw [(hdesc i hic).2.1]
      exact h.zero.2.2 i hi
  · -- sane
    refine ⟨fun pn hpn => ?_, ?_⟩
    · have hge := h.sane.1 pn hpn
      rcases lt_or_ge 0 (s.pageinfo pn).refcount with hpos | hz
      · rw [(hrec pn hpos).2]
        have := hsh_ge pn
        omega
      · rcases hrec_free pn (by omega) with g | ⟨_, g⟩
        · rw [g]
          exact hge
        · rw [g]
          exact Int.le_of_lt Int.one_pos
    · rw [(hrec 0 h.sane.2).2]
      have := hsh_ge 0
      have := h.sane.2
      omega
  · -- page0
    rw [(hrec 0 h.sane.2).1]
    exact h.page0
  · -- free
    intro pn hpn hz
    have hge := h.sane.1 pn hpn
    rcases lt_or_ge 0 (s.pageinfo pn).refcount with hpos | hz0
    · rw [(hrec pn hpos).2] at hz
      have := hsh_ge pn
      omega
    · rcases hrec_free pn (by omega) with g | ⟨_, g⟩
      · rw [g]
        exact h.free pn hpn (by omega)
      · rw [g] at hz
        exact absurd (show (1 : Int) = 0 from hz) (by decide)
  · -- owners
    intro pn hpn
    have hge := h.sane.1 pn hpn
    have hkeep : (s'.pageinfo pn).owner = (s.pageinfo pn).owner ∨
        (s'.pageinfo pn).owner = (child : Int) := by
      rcases lt_or_ge 0 (s.pageinfo pn).refcount with hpos | hz0
      · exact Or.inl (hrec pn hpos).1
      · rcases hrec_free pn (by omega) with g | ⟨_, g⟩
        · exact Or.inl (by rw [g])
        · exact Or.inr (by rw [g])
    rcases hkeep with g | g
    · rw [g]
      rcases h.owners pn hpn with e | e | e | ⟨p, hp, e1, e2⟩
      · exact Or.inl e
      · exact Or.inr (Or.inl e)
      · exact Or.inr (Or.inr (Or.inl e))
      · have hpl : Live K s p := ⟨hp, e2⟩
        exact Or.inr (Or.inr (Or.inr ⟨p, hp, by rw [(hdesc p (hold_ne p hpl)).2.1]; exact e1,
          (hold_live p hpl).2⟩))
    · rw [g]
      exact Or.inr (Or.inr (Or.inr ⟨child, F2, hcpid, hclive.2⟩))
  · -- tree
    intro p hp
    rcases hlive' p hp with g | g
    · rw [g]
      exact T1
    · rw [hroot p g]
      exact (hold p g).2.2
  · -- nodes
    intro p hp n hn
    rcases hlive' p hp with g | g
    · subst g
      obtain ⟨n1, _, n3⟩ := T2 n hn
      exact ⟨n1, n3⟩
    · rw [hroot p g] at hn
      have hn' := ((hold p g).2.1 n).mp hn
      obtain ⟨n1, n2⟩ := h.nodes p g n hn'
      have hpos : 0 < (s.pageinfo n).refcount := by rw [n2]; exact Int.one_pos
      have hsh0 : fork_shares s (s.processes s.current).p_pagetable
          (page_addresses 0 K.MEMSIZE_VIRTUAL) n = 0 := by
        by_contra hne
        obtain ⟨va, hva, vam, hvam, hpn, _⟩ := hsh_pos n hne
        exact (h.user _ hc va hva vam hvam).2.2.2 p g (hpn ▸ hn')
      refine ⟨n1, ?_⟩
      rw [(F10 n hpos).1, hsh0, n2]
      rfl
  · -- user
    intro p hp va hva vam hvam
    have hshared : ∀ q, Live K s q →
        virtual_memory_lookup s.physmem (s.processes q).p_pagetable va = some vam →
        vam.perm &&& PTE_U ≠ 0 ∧ 0 ≤ (s'.pageinfo vam.pn).owner ∧ vam.pn < NPAGES K ∧
          ∀ q', Live K s' q' → ¬ IsNode s'.physmem (s'.processes q').p_pagetable vam.pn := by
      intro q hq hv
      obtain ⟨u1, u2, u3, u4⟩ := h.user q hq va hva vam hv
      have hpos := hmapped_pos q hq va hva vam hv
      refine ⟨u1, by rw [(hrec _ hpos).1]; exact u2, u3, fun q' hq' hn => ?_⟩
      rcases hlive' q' hq' with g | g
      · rw [g] at hn
        exact hnotnode_c _ hpos hn
      · rw [hroot q' g] at hn
        exact u4 q' g (((hold q' g).2.1 _).mp hn)
    rcases hlive' p hp with g | g
    · subst g
      rcases hchild va hva vam hvam with ⟨a1, _, _⟩ | ⟨a1, a2, a3, a4, a5, a6⟩
      · exact hshared _ hc a1
      · refine ⟨a2, by rw [a5]; simp only; omega, a3, fun q' hq' hn => ?_⟩
        rcases hlive' q' hq' with g | g
        · rw [g] at hn
          exact T3 va (user_range_sub K hK va hva) a6 vam hvam hn
        · rw [hroot q' g] at hn
          have := (h.nodes q' g _ (((hold q' g).2.1 _).mp hn)).2
          rw [this] at a4
          exact absurd (show (1 : Int) = 0 from a4) (by decide)
    · rw [hroot p g, (hold p g).1 va] at hvam
      exact hshared p g hvam
  · -- once
    intro p hp
    rcases hlive' p hp with g | g
    · rw [g]
      exact honce_c
    · rw [hmp_old p g]
      exact h.once p g
  · -- count
    intro pn hpn
    rw [hmc pn]
    obtain ⟨c1, c2⟩ := h.count pn hpn
    have hge := h.sane.1 pn hpn
    have hcle := hcnt_c_le pn
    rcases lt_or_ge 0 (s.pageinfo pn).refcount with hpos | hz0
    · rw [(hrec pn hpos).2, ← hcnt_c pn hpos]
      rcases Nat.eq_zero_or_pos (mapping_count K s pn) with e | e
      · have hcz : (mapped_pages K s' child).count pn = 0 := by
          by_contra hne
          have hsh := hcnt_c pn hpos
          obtain ⟨va, hva, vam, hvam, hvpn, _⟩ := hsh_pos pn (by
            intro hz
            rw [hz] at hsh
            exact hne (by exact_mod_cast hsh))
          have := mapping_count_pos K s _ pn hc
            ((mem_mapped_pages K s _ pn).mpr ⟨va, hva, vam, hvam, hvpn⟩)
          omega
        have := c2 e
        rw [e, hcz]
        refine ⟨fun hp0 => absurd hp0 (by omega), fun _ => by simpa using this⟩
      · have := c1 e
        rw [this]
        refine ⟨fun _ => by push_cast; ring, fun hz => by omega⟩
    · have hz : (s.pageinfo pn).refcount = 0 := by omega
      rw [hcount0 pn hpn hz, Nat.zero_add]
      rcases hrec_free pn hz with g | ⟨_, g⟩
      · rw [g, hz]
        refine ⟨fun hp0 => ?_, fun _ => by decide⟩
        exfalso
        obtain ⟨va, hva, vam, hvam, hvpn⟩ := (mem_mapped_pages K s' child pn).mp
          (List.count_pos_iff.mp hp0)
        rcases hchild va hva vam hvam with ⟨_, _, a3⟩ | ⟨_, _, _, _, a5, _⟩
        · rw [hvpn] at a3
          omega
        · rw [hvpn, g] at a5
          have : (s.pageinfo pn).refcount = 1 := by rw [a5]
          omega
      · rw [g]
        refine ⟨fun hp0 => ?_, fun _ => Int.le_refl 1⟩
        have : (mapped_pages K s' child).count pn = 1 := by omega
        rw [this]
        rfl
  · -- own
    intro pn hpn p hp ho hcnt
    rw [hmc pn] at hcnt
    have hge := h.sane.1 pn hpn
    rcases lt_or_ge 0 (s.pageinfo pn).refcount with hpos | hz0
    · rw [(hrec pn hpos).1] at ho
      have hcount : 0 < mapping_count K s pn := by
        by_contra hcon
        have hcp : 0 < (mapped_pages K s' child).count pn := by omega
        have hsh := hcnt_c pn hpos
        obtain ⟨va, hva, vam, hvam, hvpn, _⟩ := hsh_pos pn (by
          intro hz
          rw [hz] at hsh
          have : (mapped_pages K s' child).count pn = 0 := by exact_mod_cast hsh
          omega)
        exact hcon (mapping_count_pos K s _ pn hc
          ((mem_mapped_pages K s _ pn).mpr ⟨va, hva, vam, hvam, hvpn⟩))
      rcases hlive' p hp with g | g
      · exfalso
        rw [g] at ho
        rcases h.owners pn hpn with e | e | e | ⟨q, hq, e1, e2⟩
        · rw [e] at ho
          simp only [PO_FREE] at ho
          omega
        · rw [e] at ho
          simp only [PO_RESERVED] at ho
          omega
        · rw [e] at ho
          simp only [PO_KERNEL] at ho
          omega
        · rw [h.zero.2.2 q hq, ho] at e1
          have : q = child := by omega
          rw [this] at e2
          exact e2 F4
      · rw [hmp_old p g]
        exact h.own pn hpn p g ho hcount
    · have hz : (s.pageinfo pn).refcount = 0 := by omega
      rw [hcount0 pn hpn hz, Nat.zero_add] at hcnt
      rcases hrec_free pn hz with g | ⟨_, g⟩
      · exfalso
        obtain ⟨va, hva, vam, hvam, hvpn⟩ := (mem_mapped_pages K s' child pn).mp
          (List.count_pos_iff.mp hcnt)
        rcases hchild va hva vam hvam with ⟨_, _, a3⟩ | ⟨_, _, _, _, a5, _⟩
        · rw [hvpn] at a3
          omega
        · rw [hvpn, g] at a5
          have : (s.pageinfo pn).refcount = 1 := by rw [a5]
          omega
      · rw [g] at ho
        have hpc : p = child := by
          have : (child : Int) = (p : Int) := ho
          omega
        rw [hpc]
        exact List.count_pos_iff.mp hcnt
  · -- wexcl
    intro p hp va hva vam hvam hw
    have hshared : ∀ q, Live K s q →
        virtual_memory_lookup s.physmem (s.processes q).p_pagetable va = some vam →
        (s'.pageinfo vam.pn).refcount = 1 := by
      intro q hq hv
      have hone := h.wexcl q hq va hva vam hv hw
      have hpos : 0 < (s.pageinfo vam.pn).refcount := by rw [hone]; exact Int.one_pos
      obtain ⟨m1, m2⟩ := h.mapped_refcount hq va hva vam hv
      have hsh0 : fork_shares s (s.processes s.current).p_pagetable
          (page_addresses 0 K.MEMSIZE_VIRTUAL) vam.pn = 0 := by
        by_contra hne
        obtain ⟨va', hva', vam', hvam', hpn', hperm'⟩ := hsh_pos vam.pn hne
        by_cases hqc : q = s.current
        · rw [hqc] at hv
          have := released_pages_inj _ _ _ (h.once _ hc) va hva va' hva' vam vam' hv hvam'
            hpn'.symm
          rw [← this, hv] at hvam'
          cases hvam'
          exact hw (perm_user_of_flags _ hperm').2
        · have := mapping_count_ge_two K s q s.current vam.pn hq hc hqc
            ((mem_mapped_pages K s q vam.pn).mpr ⟨va, hva, vam, hv, rfl⟩)
            ((mem_mapped_pages K s _ vam.pn).mpr ⟨va', hva', vam', hvam', hpn'⟩)
          rw [hone] at m1
          omega
      rw [(hrec _ hpos).2, hsh0, hone]
      rfl
    rcases hlive' p hp with g | g
    · subst g
      rcases hchild va hva vam hvam with ⟨a1, a2, _⟩ | ⟨_, _, _, _, a5, _⟩
      · exact absurd (perm_user_of_flags _ a2).2 hw
      · rw [a5]
    · rw [hroot p g, (hold p g).1 va] at hvam
      exact hshared p g hvam
  · -- low
    intro p hp va hva
    have hlow_old : ∀ q, Live K s q → ∃ vam,
        virtual_memory_lookup s.physmem (s.processes q).p_pagetable va = some vam ∧
        vam.pn < NPAGES K ∧
        (vam.perm &&& PTE_U ≠ 0 →
          (s'.pageinfo vam.pn).owner < 0 ∧ 0 < (s'.pageinfo vam.pn).refcount) ∧
        (va ≠ 0xB8000 → ¬ (vam.perm &&& PTE_W ≠ 0 ∧ vam.perm &&& PTE_U ≠ 0)) := by
      intro q hq
      obtain ⟨vam, l1, l2, l3, l4⟩ := h.low q hq va hva
      refine ⟨vam, l1, l2, fun hu => ?_, l4⟩
      obtain ⟨e1, e2⟩ := l3 hu
      rw [(hrec _ e2).1, (hrec _ e2).2]
      have := hsh_ge vam.pn
      exact ⟨e1, by omega⟩
    rcases hlive' p hp with g | g
    · subst g
      obtain ⟨vam, l1, l2, l3, l4⟩ := hlow_old _ hc
      refine ⟨vam, ?_, l2, l3, l4⟩
      rw [F13 va (low_range_sub K hK va hva) (fun hcop => ?_)]
      · exact l1
      · obtain ⟨vam2, hvam2, ho2, hperm2⟩ := hcop
        rw [l1] at hvam2
        cases hvam2
        obtain ⟨_, k1, _, k3, _⟩ := h.low _ hc va hva
        rw [l1] at k1
        cases k1
        have := (k3 (perm_user_of_user_writable _ hperm2)).1
        omega
    · obtain ⟨vam, l1, l2, l3, l4⟩ := hlow_old p g
      exact ⟨vam, by rw [hroot p g, (hold p g).1 va]; exact l1, l2, l3, l4⟩

/-! ## The ownership partition: traps -/

theorem sys_fork_no_slot (K : KernelConfig) (s : KernelState)
    (h : (sys_fork K s).2 = fork_outcome.no_free_slot) :
    (sys_fork K s).1 = set_reg_rax s s.current (uint64 (-1)) := by
  simp only [sys_fork] at h ⊢
  split
  · rfl
  · rename_i h1
    rw [if_neg h1] at h
    split at h
    · cases h
    · split at h
      · cases h
      · cases h

/-- The `INT_SYS_FORK` handler keeps the invariant; it leaves the reference counts of the
referenced pages as they were, or it succeeds and adds to each the number of its shared
mappings. -/
theorem sys_fork_inv (K : KernelConfig) (s : KernelState) (hK : ConfigSane K)
    (h : KernelInv K s) (hc : Live K s s.current) :
    KernelInv K (sys_fork K s).1 ∧
      ((∀ pn, pn < NPAGES K → (sys_fork K s).1.pageinfo pn = s.pageinfo pn) ∨
        ∀ pn, 0 < (s.pageinfo pn).refcount →
          ((sys_fork K s).1.pageinfo pn).refcount = (s.pageinfo pn).refcount +
            fork_shares s (s.processes s.current).p_pagetable
              (page_addresses 0 K.MEMSIZE_VIRTUAL) pn) := by
  cases hout : (sys_fork K s).2 with
  | no_free_slot =>
    rw [sys_fork_no_slot K s hout]
    exact ⟨h.of_desc rfl rfl (DescFrame.of_rax _ _ _ _), Or.inl (fun _ _ => rfl)⟩
  | clone_failed f =>
    have hf : sys_fork K s = ((sys_fork K s).1, fork_outcome.clone_failed f) :=
      Prod.ext rfl hout
    obtain ⟨a, b⟩ := sys_fork_failed_inv K s _ f hK h hc (Or.inl hf)
    exact ⟨a, Or.inl b⟩
  | copy_failed f i =>
    have hf : sys_fork K s = ((sys_fork K s).1, fork_outcome.copy_failed f i) :=
      Prod.ext rfl hout
    obtain ⟨a, b⟩ := sys_fork_failed_inv K s _ f hK h hc (Or.inr ⟨i, hf⟩)
    exact ⟨a, Or.inl b⟩
  | forked f =>
    have hf : sys_fork K s = ((sys_fork K s).1, fork_outcome.forked f) :=
      Prod.ext rfl hout
    refine ⟨sys_fork_forked_inv K s _ f hK h hc hf, Or.inr (fun pn hpos => ?_)⟩
    have F := sys_fork_forked_spec K s _ f (h.fork_ready hK hc) hf
    rw [(F.2.2.2.2.2.2.2.2.2.1 pn hpos).1]

/-- Every trap ends in a halt, or in `schedule()` or the end of `exception` run on the
state a handler leaves; that handler is fork's only for the trap number of fork. -/
theorem exception_handler_fork (K : KernelConfig) (L : KernelLayout) (s : KernelState)
    (reg : x86_64_registers) :
    exception K L s reg = trap_result.halted ∨
      ∃ t, (exception K L s reg = schedule K t ∨ exception K L s reg = exception_exit K t) ∧
        (t = set_reg_rax (exception_save s reg) s.current
              (uint64 ((exception_save s reg).processes s.current).p_pid) ∨
          t = exception_save s reg ∨
          t = sys_page_alloc K (exception_save s reg) ∨
          t = { exception_save s reg with ticks := (s.ticks + 1) % 2 ^ 32 } ∨
          t = set_p_state (exception_save s reg) s.current procstate.P_BROKEN ∨
          (reg.reg_intno = L.INT_SYS_FORK ∧ t = (sys_fork K (exception_save s reg)).1) ∨
          t = process_cleanup K (exception_save s reg)
              ((exception_save s reg).processes s.current).p_pid) := by
  simp only [exception]
  split
  · exact Or.inl rfl
  · simp only [exception_switch]
    split
    · exact Or.inl rfl
    · split
      · exact Or.inr ⟨_, Or.inr rfl, Or.inl rfl⟩
      · split
        · exact Or.inr ⟨_, Or.inl rfl, Or.inr (Or.inl rfl)⟩
        · split
          · exact Or.inr ⟨_, Or.inr rfl, Or.inr (Or.inr (Or.inl rfl))⟩
          · split
            · exact Or.inr ⟨{ exception_save s reg with ticks := (s.ticks + 1) % 2 ^ 32 },
                Or.inl rfl, Or.inr (Or.inr (Or.inr (Or.inl rfl)))⟩
            · split
              · split
                · exact Or.inl rfl
                · exact Or.inr ⟨_, Or.inr rfl, Or.inr (Or.inr (Or.inr (Or.inr (Or.inl rfl))))⟩
              · split
                · rename_i hfork
                  exact Or.inr ⟨_, Or.inr rfl,
                    Or.inr (Or.inr (Or.inr (Or.inr (Or.inr (Or.inl ⟨hfork, rfl⟩)))))⟩
                · split
                  · exact Or.inr ⟨_, Or.inr rfl,
                      Or.inr (Or.inr (Or.inr (Or.inr (Or.inr (Or.inr rfl)))))⟩
                  · exact Or.inl rfl

/-- A trap taken while a process runs keeps the invariant.  No reference count of a
referenced page grows, unless the trap is a `fork` that succeeds: then each grows by the
number of the parent's mappings that `fork` shares. -/
theorem exception_inv (K : KernelConfig) (L : KernelLayout) (s : KernelState)
    (reg : x86_64_registers) (hK : ConfigSane K) (h : KernelInv K s)
    (hrun : (s.processes s.current).p_state = procstate.P_RUNNABLE)
    (hcur : s.current < K.NPROC) (s' : KernelState)
    (hres : exception K L s reg = trap_result.resumed s') :
    KernelInv K s' ∧ (s'.processes s'.current).p_state = procstate.P_RUNNABLE ∧
      s'.current < K.NPROC ∧
      ((∀ pn, pn < NPAGES K → 0 < (s.pageinfo pn).refcount →
          (s'.pageinfo pn).refcount ≤ (s.pageinfo pn).refcount) ∨
        (reg.reg_intno = L.INT_SYS_FORK ∧
          ∀ pn, 0 < (s.pageinfo pn).refcount →
            (s'.pageinfo pn).refcount = (s.pageinfo pn).refcount +
              fork_shares s (s.processes s.current).p_pagetable
                (page_addresses 0 K.MEMSIZE_VIRTUAL) pn)) := by
  obtain ⟨_, k2, k3⟩ := (exception_keeps_zero K L s reg (by omega) h.zero hrun hcur).1 s' hres
  have hsv : KernelInv K (exception_save s reg) :=
    h.of_desc rfl rfl (DescFrame.of_registers _ s s.current reg)
  have hsvd : DescFrame (fun _ => False) s (exception_save s reg) :=
    DescFrame.of_registers (fun _ => False) s s.current reg
  have hlive : Live K (exception_save s reg) (exception_save s reg).current := by
    refine ⟨hcur, ?_⟩
    show ((exception_save s reg).processes s.current).p_state ≠ procstate.P_FREE
    rw [(hsvd s.current (fun x => x)).2.1, hrun]
    decide
  have hcpid : ((exception_save s reg).processes s.current).p_pid = (s.current : Int) :=
    hsv.zero.2.2 s.current hcur
  have hsame : ∀ t : KernelState, t.pageinfo = s.pageinfo →
      ∀ pn, pn < NPAGES K → 0 < (s.pageinfo pn).refcount →
        (t.pageinfo pn).refcount ≤ (s.pageinfo pn).refcount :=
    fun t ht pn _ _ => by rw [ht]
  rcases exception_handler_fork K L s reg with hh | ⟨t, hr, ht⟩
  · rw [hh] at hres
    cases hres
  · have hs' := ((handler_result K t _ hr).1 s' hres).1
    suffices hto : KernelInv K t ∧
        ((∀ pn, pn < NPAGES K → 0 < (s.pageinfo pn).refcount →
            (t.pageinfo pn).refcount ≤ (s.pageinfo pn).refcount) ∨
          (reg.reg_intno = L.INT_SYS_FORK ∧
            ∀ pn, 0 < (s.pageinfo pn).refcount →
              (t.pageinfo pn).refcount = (s.pageinfo pn).refcount +
                fork_shares s (s.processes s.current).p_pagetable
                  (page_addresses 0 K.MEMSIZE_VIRTUAL) pn)) by
      refine ⟨?_, k2, k3, ?_⟩
      · rw [hs']
        exact hto.1.of_desc rfl rfl (DescFrame.of_procs _ rfl)
      · rw [hs']
        exact hto.2
    rcases ht with ht | ht | ht | ht | ht | ⟨hno, ht⟩ | ht
    · rw [ht]
      exact ⟨hsv.of_desc rfl rfl (DescFrame.of_rax _ _ _ _), Or.inl (hsame _ rfl)⟩
    · rw [ht]
      exact ⟨hsv, Or.inl (hsame _ rfl)⟩
    · rw [ht]
      obtain ⟨a, b⟩ := sys_page_alloc_inv K (exception_save s reg) hK hsv hlive
      refine ⟨a, Or.inl (fun pn _ hpos => ?_)⟩
      rw [b pn hpos]
      exact Int.le_refl _
    · rw [ht]
      exact ⟨hsv.of_desc rfl rfl (DescFrame.of_procs _ rfl), Or.inl (hsame _ rfl)⟩
    · rw [ht]
      refine ⟨hsv.congr (fun _ _ => rfl) rfl (fun _ _ _ => rfl) (fun j => ?_) ?_,
        Or.inl (hsame _ rfl)⟩
      · by_cases hj : j = s.current
        · subst hj
          refine ⟨⟨fun hc => ?_, fun hc => absurd hc hlive.2⟩, ?_, fun _ => ?_⟩
          · simp [set_p_state] at hc
          · simp [set_p_state]
          · simp [set_p_state]
        · simp [set_p_state, hj]
      · have h0 : (0 : Nat) ≠ s.current := by
          have : 1 ≤ s.current := (hsv.live_pos hlive).1
          omega
        simp only [set_p_state, set_proc_processes, if_neg h0]
        exact hsv.zero.2.1
    · rw [ht]
      obtain ⟨a, b⟩ := sys_fork_inv K (exception_save s reg) hK hsv hlive
      refine ⟨a, ?_⟩
      rcases b with b | b
      · exact Or.inl (fun pn hpn _ => by rw [b pn hpn]; exact Int.le_refl _)
      · have hroot_sv : ((exception_save s reg).processes
            (exception_save s reg).current).p_pagetable = (s.processes s.current).p_pagetable :=
          (hsvd s.current (fun x => x)).2.2
        rw [hroot_sv] at b
        exact Or.inr ⟨hno, b⟩
    · rw [ht, hcpid]
      obtain ⟨a, b⟩ := process_cleanup_inv K (exception_save s reg) s.current hK hsv hlive
      refine ⟨a, Or.inl (fun pn hpn _ => b pn ?_)⟩
      have := (hsv.refcount_le (by omega) pn hpn).2
      have := hK.1
      omega

/-! ## Mapping without allocation -/

theorem pt_next_alloc_existing (K : KernelConfig) (s : KernelState) (pt va perm l : Nat)
    (a : Bool) (hno : perm &&& PTE_P = 0 ∨ a = false) :
    pt_next_alloc K s pt va perm l a = (s, pt_next s.physmem pt va l) := by
  simp only [pt_next_alloc]
  cases pt_next s.physmem pt va l with
  | some n => rfl
  | none => simp only [if_pos hno]

theorem lookup_l4pagetable_existing (K : KernelConfig) (s : KernelState) (r va perm : Nat)
    (a : Bool) (hno : perm &&& PTE_P = 0 ∨ a = false) :
    lookup_l4pagetable K s r va perm a = (s, pt_walk s.physmem r va 3) := by
  simp only [lookup_l4pagetable, pt_next_alloc_existing K _ _ _ _ _ a hno, pt_walk]
  cases pt_next s.physmem r va 0 with
  | none => rfl
  | some l2 =>
    simp only
    cases pt_next s.physmem l2 va 1 with
    | none => rfl
    | some l3 => rfl

/-- Mapping one page when no node may be allocated (no allocator, or a non-present
mapping): the leaf entry of `va` is written if the leaf node exists, and nothing else
changes. -/
theorem virtual_memory_map_page_existing (K : KernelConfig) (s : KernelState)
    (r va pa perm : Nat) (a : Bool) (hno : perm &&& PTE_P = 0 ∨ a = false)
    (hinj : TreeInj s.physmem r) (hpa : pa % 4096 = 0) (hperm4 : perm < 4096) :
    (virtual_memory_map_page K s r va pa perm a).1.pageinfo = s.pageinfo ∧
      (virtual_memory_map_page K s r va pa perm a).1.processes = s.processes ∧
      (virtual_memory_map_page K s r va pa perm a).1.current = s.current ∧
      (virtual_memory_map_page K s r va pa perm a).1.current_owner = s.current_owner ∧
      (∀ k va', k ≤ 3 →
        pt_walk (virtual_memory_map_page K s r va pa perm a).1.physmem r va' k =
          pt_walk s.physmem r va' k) ∧
      (∀ va', ¬ SamePath va va' 4 →
        virtual_memory_lookup (virtual_memory_map_page K s r va pa perm a).1.physmem r va' =
          virtual_memory_lookup s.physmem r va') ∧
      (∀ n, ¬ IsNode s.physmem r n →
        (virtual_memory_map_page K s r va pa perm a).1.physmem n = s.physmem n) ∧
      virtual_memory_lookup (virtual_memory_map_page K s r va pa perm a).1.physmem r va =
        (if perm % 2 = 1 ∧ pt_walk s.physmem r va 3 ≠ none then
          some { pn := pa / 4096, pa := pa + va % PAGESIZE, perm := perm }
        else none) ∧
      ((virtual_memory_map_page K s r va pa perm a).2 < 0 ↔
        perm % 2 = 1 ∧ pt_walk s.physmem r va 3 = none) := by
  have hdef : virtual_memory_map_page K s r va pa perm a =
      match pt_walk s.physmem r va 3 with
      | some l4 =>
        (set_word s (PAGENUMBER l4) (PAGEINDEX va 3)
          (if perm &&& PTE_P ≠ 0 then pa ||| perm else perm), 0)
      | none => if perm &&& PTE_P ≠ 0 then (s, -1) else (s, 0) := by
    simp only [virtual_memory_map_page, lookup_l4pagetable_existing K s r va perm a hno]
    cases pt_walk s.physmem r va 3 <;> rfl
  rw [hdef]
  cases hw : pt_walk s.physmem r va 3 with
  | none =>
    simp only
    have hst : (if perm &&& PTE_P ≠ 0 then (s, (-1 : Int)) else (s, 0)).1 = s := by
      split <;> rfl
    rw [hst]
    refine ⟨rfl, rfl, rfl, rfl, fun _ _ _ => rfl, fun _ _ => rfl, fun _ _ => rfl, ?_, ?_⟩
    · rw [virtual_memory_lookup_of_walk_none _ _ _ hw, if_neg (fun hc => hc.2 rfl)]
    · by_cases hp : perm % 2 = 1
      · rw [if_pos ((pte_present_iff perm).mpr hp)]
        exact ⟨fun _ => ⟨hp, trivial⟩, fun _ => show (-1 : Int) < 0 by decide⟩
      · rw [if_neg (fun hc => hp ((pte_present_iff perm).mp hc))]
        exact ⟨fun hc => absurd (show (0 : Int) < 0 from hc) (by decide),
          fun hc => absurd hc.1 hp⟩
  | some l4 =>
    simp only
    obtain ⟨hwalk, hlother, hlva⟩ :=
      virtual_memory_lookup_write_leaf s.physmem
        (set_word s (PAGENUMBER l4) (PAGEINDEX va 3)
          (if perm &&& PTE_P ≠ 0 then pa ||| perm else perm)).physmem r va l4
        (if perm &&& PTE_P ≠ 0 then pa ||| perm else perm) hinj hw (by simp)
        (by
          intro n idx hne
          simp only [set_word_physmem, if_neg hne])
    refine ⟨rfl, rfl, rfl, rfl, hwalk, hlother, ?_, ?_, ?_⟩
    · intro n hn
      have hpn : n ≠ PAGENUMBER l4 := fun hc => hn ⟨va, 3, l4, le_refl _, hw, hc.symm⟩
      funext idx
      simp [hpn]
    · rw [hlva]
      by_cases hp : perm % 2 = 1
      · obtain ⟨he2, hepn, hea, hef⟩ := pte_leaf_entry pa perm hpa hperm4
        rw [if_pos ((pte_present_iff perm).mpr hp),
          if_pos ((pte_present_iff _).mpr (by rw [he2]; exact hp)), hepn, hea, hef,
          if_pos ⟨hp, by simp⟩]
      · have hnp : ¬ perm &&& PTE_P ≠ 0 := fun hc => hp ((pte_present_iff perm).mp hc)
        rw [if_neg hnp, if_neg hnp, if_neg (fun hc => hp hc.1)]
    · exact ⟨fun hc => absurd (show (0 : Int) < 0 from hc) (by decide),
        fun hc => absurd hc.2 (by simp)⟩

/-- A step that keeps all walks and the ownership table is a mapping step that keeps the
allocation state and the tree. -/
theorem MapStep.of_walks (K : KernelConfig) (s t : KernelState) (r : Nat)
    (hpi : t.pageinfo = s.pageinfo) (hp : t.processes = s.processes)
    (hc : t.current = s.current) (ho : t.current_owner = s.current_owner)
    (hw : ∀ k va', k ≤ 3 → pt_walk t.physmem r va' k = pt_walk s.physmem r va' k)
    (hm : ∀ n, ¬ IsNode s.physmem r n → t.physmem n = s.physmem n) :
    MapStep K s t r ∧ (AllocSane K s → AllocSane K t) ∧ (TreeOwned s r → TreeOwned t r) := by
  have hnode := IsNode_of_walk_eq s.physmem t.physmem r hw
  refine ⟨⟨hp, hc, ho, fun n hn => (hnode n).mpr hn, fun n hn => Or.inl ((hnode n).mp hn),
    fun pn => Or.inl (by rw [hpi]), fun pn _ hnn => hm pn hnn⟩, ?_, ?_⟩
  · intro hs
    unfold AllocSane
    rw [hpi]
    exact hs
  · intro ht
    refine ⟨TreeInj_of_walk_eq s.physmem t.physmem r hw ht.1, fun n hn => ?_⟩
    rw [hpi]
    exact ht.2 n ((hnode n).mp hn)

/-- Mapping `n` pages from `va` when no node may be allocated and, for a present mapping,
every leaf node exists: the lookups of the pages in the range are the new mappings (or
nothing, for a non-present mapping), and nothing else changes. -/
theorem virtual_memory_map_pages_existing (K : KernelConfig) (r perm : Nat) (a : Bool)
    (hno : perm &&& PTE_P = 0 ∨ a = false) (hperm4 : perm < 4096) :
    ∀ (n : Nat) (s : KernelState) (va pa : Nat), TreeInj s.physmem r → pa % 4096 = 0 →
      va % 4096 = 0 → va + n * 4096 ≤ 2 ^ 48 →
      (perm % 2 = 1 → ∀ k, k < n → pt_walk s.physmem r (va + k * 4096) 3 ≠ none) →
      (virtual_memory_map_pages K r perm a n s va pa).1.pageinfo = s.pageinfo ∧
        (virtual_memory_map_pages K r perm a n s va pa).1.processes = s.processes ∧
        (virtual_memory_map_pages K r perm a n s va pa).1.current = s.current ∧
        (virtual_memory_map_pages K r perm a n s va pa).1.current_owner = s.current_owner ∧
        (∀ k va', k ≤ 3 →
          pt_walk (virtual_memory_map_pages K r perm a n s va pa).1.physmem r va' k =
            pt_walk s.physmem r va' k) ∧
        (∀ m, ¬ IsNode s.physmem r m →
          (virtual_memory_map_pages K r perm a n s va pa).1.physmem m = s.physmem m) ∧
        (∀ va', va' % 4096 = 0 → va' < 2 ^ 48 →
          virtual_memory_lookup (virtual_memory_map_pages K r perm a n s va pa).1.physmem r
              va' =
            if va ≤ va' ∧ va' < va + n * 4096 then
              (if perm % 2 = 1 then
                some { pn := (pa + (va' - va)) / 4096, pa := pa + (va' - va), perm := perm }
              else none)
            else virtual_memory_lookup s.physmem r va') := by
  intro n
  induction n with
  | zero =>
    intro s va pa _ _ _ _ _
    refine ⟨rfl, rfl, rfl, rfl, fun _ _ _ => rfl, fun _ _ => rfl, fun va' _ _ => ?_⟩
    rw [if_neg (by omega)]
    rfl
  | succ n ih =>
    intro s va pa hinj hpa hva hbound hleaf
    obtain ⟨s1, s2, s3, s4, s5, s6, s7, s8, s9⟩ :=
      virtual_memory_map_page_existing K s r va pa perm a hno hinj hpa hperm4
    have hok : ¬ (virtual_memory_map_page K s r va pa perm a).2 < 0 := by
      intro hc
      obtain ⟨c1, c2⟩ := s9.mp hc
      have := hleaf c1 0 (by omega)
      simp only [Nat.zero_mul, Nat.add_zero] at this
      exact this c2
    have hdef : virtual_memory_map_pages K r perm a (n + 1) s va pa =
        virtual_memory_map_pages K r perm a n
          (virtual_memory_map_page K s r va pa perm a).1 (va + 4096) (pa + 4096) := by
      simp only [virtual_memory_map_pages, if_neg hok]
      rfl
    rw [hdef]
    have hnode := IsNode_of_walk_eq s.physmem
      (virtual_memory_map_page K s r va pa perm a).1.physmem r s5
    obtain ⟨i1, i2, i3, i4, i5, i6, i7⟩ := ih
      (virtual_memory_map_page K s r va pa perm a).1 (va + 4096) (pa + 4096)
      (TreeInj_of_walk_eq s.physmem _ r s5 hinj) (by omega) (by omega) (by omega)
      (fun hp k hk => by
        rw [s5 3 _ (le_refl _)]
        have := hleaf hp (k + 1) (by omega)
        have e : va + (k + 1) * 4096 = va + 4096 + k * 4096 := by omega
        rw [e] at this
        exact this)
    refine ⟨i1.trans s1, i2.trans s2, i3.trans s3, i4.trans s4,
      fun k va' hk => (i5 k va' hk).trans (s5 k va' hk),
      fun m hm => (i6 m (fun hc => hm ((hnode m).mp hc))).trans (s7 m hm), ?_⟩
    intro va' hva' hva48
    rw [i7 va' hva' hva48]
    by_cases hin : va + 4096 ≤ va' ∧ va' < va + 4096 + n * 4096
    · rw [if_pos hin,
        if_pos (show va ≤ va' ∧ va' < va + (n + 1) * 4096 from ⟨by omega, by omega⟩)]
      have e : pa + 4096 + (va' - (va + 4096)) = pa + (va' - va) := by omega
      rw [e]
    · rw [if_neg hin]
      by_cases heq : va' = va
      · subst heq
        rw [s8, if_pos (show va' ≤ va' ∧ va' < va' + (n + 1) * 4096 from
          ⟨le_refl _, by omega⟩)]
        by_cases hp : perm % 2 = 1
        · have hl := hleaf hp 0 (by omega)
          simp only [Nat.zero_mul, Nat.add_zero] at hl
          rw [if_pos ⟨hp, hl⟩, if_pos hp]
          simp only [PAGESIZE, Nat.sub_self, Nat.add_zero, hva']
        · rw [if_neg (fun hc => hp hc.1), if_neg hp]
      · rw [s6 va' (fun hsp => heq (hsp.aligned_eq hva hva' (by omega) hva48).symm),
          if_neg (show ¬ (va ≤ va' ∧ va' < va + (n + 1) * 4096) by omega)]

/-! ## Referenced pages and allocation -/

theorem RefKeep.keep_refl (s : KernelState) : RefKeep s s := fun _ _ => rfl

theorem RefKeep.keep_trans {s t u : KernelState} (h1 : RefKeep s t) (h2 : RefKeep t u) :
    RefKeep s u := by
  intro pn hpos
  rw [h2 pn (by rw [h1 pn hpos]; exact hpos), h1 pn hpos]

theorem find_free_page_refkeep (K : KernelConfig) (s : KernelState) :
    RefKeep s (find_free_page K s).1 := by
  obtain ⟨_, _, hat⟩ := find_free_page_scan_result K s
  intro pn hpos
  simp only [find_free_page]
  split
  · rfl
  · rename_i hlt
    have hne : pn ≠ find_free_page_scan K s (NPAGES K) 0 := by
      intro hc
      have := hat (by omega)
      rw [← hc] at this
      omega
    simp [hne]

theorem pt_next_alloc_refkeep (K : KernelConfig) (s : KernelState) (pt va perm l : Nat)
    (a : Bool) : RefKeep s (pt_next_alloc K s pt va perm l a).1 := by
  have h := find_free_page_refkeep K s
  simp only [pt_next_alloc]
  split
  · exact RefKeep.keep_refl s
  · split
    · exact RefKeep.keep_refl s
    · split
      · exact h
      · exact h

theorem lookup_l4pagetable_refkeep (K : KernelConfig) (s : KernelState) (r va perm : Nat)
    (a : Bool) : RefKeep s (lookup_l4pagetable K s r va perm a).1 := by
  have h0 := pt_next_alloc_refkeep K s r va perm 0 a
  simp only [lookup_l4pagetable]
  split
  · rename_i s1 heq
    rw [heq] at h0
    exact h0
  · rename_i s1 l2 heq
    rw [heq] at h0
    have h1 := pt_next_alloc_refkeep K s1 l2 va perm 1 a
    split
    · rename_i s2 heq2
      rw [heq2] at h1
      exact h0.keep_trans h1
    · rename_i s2 l3 heq2
      rw [heq2] at h1
      exact (h0.keep_trans h1).keep_trans (pt_next_alloc_refkeep K s2 l3 va perm 2 a)

theorem virtual_memory_map_page_refkeep (K : KernelConfig) (s : KernelState)
    (r va pa perm : Nat) (a : Bool) :
    RefKeep s (virtual_memory_map_page K s r va pa perm a).1 := by
  have h := lookup_l4pagetable_refkeep K s r va perm a
  simp only [virtual_memory_map_page]
  split
  · rename_i s1 l4 heq
    rw [heq] at h
    exact h
  · rename_i s1 heq
    rw [heq] at h
    split <;> exact h

theorem virtual_memory_map_pages_refkeep (K : KernelConfig) (r perm : Nat) (a : Bool) :
    ∀ (n : Nat) (s : KernelState) (va pa : Nat),
      RefKeep s (virtual_memory_map_pages K r perm a n s va pa).1 := by
  intro n
  induction n with
  | zero => intro s va pa; exact RefKeep.keep_refl s
  | succ n ih =>
    intro s va pa
    simp only [virtual_memory_map_pages]
    split
    · exact virtual_memory_map_page_refkeep K s r va pa perm a
    · exact (virtual_memory_map_page_refkeep K s r va pa perm a).keep_trans (ih _ _ _)

/-- `virtual_memory_map` changes the record of no referenced page. -/
theorem virtual_memory_map_refkeep (K : KernelConfig) (s : KernelState)
    (r va pa sz perm : Nat) (a : Bool) :
    RefKeep s (virtual_memory_map K s r va pa sz perm a).1 :=
  virtual_memory_map_pages_refkeep K r perm a (sz / PAGESIZE) s va pa

/-- With every page referenced `find_free_page` returns `NULL`. -/
theorem find_free_page_none_left (K : KernelConfig) (s : KernelState)
    (h : ∀ pn, pn < NPAGES K → 0 < (s.pageinfo pn).refcount) :
    (find_free_page K s).2 = NULL := by
  obtain ⟨_, _, hat⟩ := find_free_page_scan_result K s
  simp only [find_free_page]
  split
  · rfl
  · rename_i hlt
    have hlt' : find_free_page_scan K s (NPAGES K) 0 < NPAGES K := by omega
    have h1 := hat hlt'
    have h2 := h _ hlt'
    omega

/-- The stack page `process_setup` has just taken from the pool cannot be assigned again:
the call of `assign_physical_page` changes nothing. -/
theorem assign_physical_page_referenced (K : KernelConfig) (s : KernelState) (addr : Nat)
    (owner : Int) (h : (s.pageinfo (PAGENUMBER addr)).refcount ≠ 0) :
    (assign_physical_page K s addr owner).1 = s := by
  simp only [assign_physical_page]
  split
  · rfl
  · rw [if_pos (Or.inr (Or.inr h))]

/-! ## Mapping a range into a table under construction -/

/-- Mapping `n` pages from `va` with a present permission into the table under
construction keeps the invariant of the construction; the lookup of a page is as before
or, for a page of the range, the new mapping. -/
theorem virtual_memory_map_pages_build (K : KernelConfig) (s : KernelState) (owner : Int)
    (c : Nat) (inc : Nat → Int) (perm : Nat) (hperm4 : perm < 4096) (hperm : perm % 2 = 1) :
    ∀ (n : Nat) (t : KernelState) (va pa : Nat), BuildInv K s owner c inc t →
      pa % 4096 = 0 → va % 4096 = 0 → va + n * 4096 ≤ 2 ^ 48 →
      BuildInv K s owner c inc (virtual_memory_map_pages K c perm true n t va pa).1 ∧
        (virtual_memory_map_pages K c perm true n t va pa).1.processes = t.processes ∧
        ∀ va', va' % 4096 = 0 → va' < 2 ^ 48 →
          virtual_memory_lookup (virtual_memory_map_pages K c perm true n t va pa).1.physmem c
              va' = virtual_memory_lookup t.physmem c va' ∨
            (va ≤ va' ∧ va' < va + n * 4096 ∧
              virtual_memory_lookup (virtual_memory_map_pages K c perm true n t va pa).1.physmem
                c va' =
                some { pn := (pa + (va' - va)) / 4096, pa := pa + (va' - va), perm := perm }) := by
  intro n
  induction n with
  | zero =>
    intro t va pa hinv _ _ _
    exact ⟨hinv, rfl, fun _ _ _ => Or.inl rfl⟩
  | succ n ih =>
    intro t va pa hinv hpa hva hbound
    obtain ⟨hm, hs1, ht1, hr, hok, hoth, hfail⟩ :=
      virtual_memory_map_page_spec K t c va pa perm hinv.1 hinv.2.1 hpa hperm4 hperm
    by_cases hneg : (virtual_memory_map_page K t c va pa perm true).2 < 0
    · have hdef : virtual_memory_map_pages K c perm true (n + 1) t va pa =
          ((virtual_memory_map_page K t c va pa perm true).1, -1) := by
        simp only [virtual_memory_map_pages, if_pos hneg]
      rw [hdef]
      have hm1 : (virtual_memory_map_page K t c va pa perm true).2 = -1 := by
        rcases hr with h | h
        · rw [h] at hneg
          exact absurd hneg (by decide)
        · exact h
      exact ⟨hinv.mapstep hm hs1 ht1, hm.1, fun va' _ _ => Or.inl ((hfail hm1).1 va')⟩
    · have hdef : virtual_memory_map_pages K c perm true (n + 1) t va pa =
          virtual_memory_map_pages K c perm true n
            (virtual_memory_map_page K t c va pa perm true).1 (va + 4096) (pa + 4096) := by
        simp only [virtual_memory_map_pages, if_neg hneg]
        rfl
      rw [hdef]
      have h0 : (virtual_memory_map_page K t c va pa perm true).2 = 0 := by
        rcases hr with h | h
        · exact h
        · rw [h] at hneg
          exact absurd (show (-1 : Int) < 0 by decide) hneg
      obtain ⟨i1, i2, i3⟩ := ih (virtual_memory_map_page K t c va pa perm true).1 (va + 4096)
        (pa + 4096) (hinv.mapstep hm hs1 ht1) (by omega) (by omega) (by omega)
      refine ⟨i1, i2.trans hm.1, fun va' hva' hva48 => ?_⟩
      rcases i3 va' hva' hva48 with e | ⟨r1, r2, e⟩
      · by_cases heq : va' = va
        · right
          subst heq
          refine ⟨le_refl _, by omega, ?_⟩
          rw [e, hok h0]
          simp only [PAGESIZE, Nat.sub_self, Nat.add_zero, hva']
        · left
          rw [e]
          exact hoth va' (fun hsp => heq (hsp.aligned_eq hva hva' (by omega) hva48).symm)
      · right
        refine ⟨by omega, by omega, ?_⟩
        rw [e]
        have e2 : pa + 4096 + (va' - (va + 4096)) = pa + (va' - va) := by omega
        rw [e2]

/-- What taking a page from the pool and mapping it writable and user-accessible at `a`
into the tree rooted at `r` does, whether the mapping call succeeds or not. -/
theorem alloc_map_effect (K : KernelConfig) (s : KernelState) (r a : Nat) (P : Nat → proc)
    (hs : AllocSane K s) (ht : TreeOwned s r) (hfound : (find_free_page K s).2 ≠ NULL) :
    ∃ fp, 0 < fp ∧ fp < NPAGES K ∧ (s.pageinfo fp).refcount = 0 ∧
      (find_free_page K s).2 = PAGEADDRESS fp ∧
      (find_free_page K s).1.pageinfo fp = { owner := s.current_owner, refcount := 1 } ∧
      (virtual_memory_map K { (find_free_page K s).1 with processes := P } r a
        (PAGEADDRESS (PAGENUMBER (find_free_page K s).2)) PAGESIZE
        (PTE_P ||| PTE_W ||| PTE_U) true).1.processes = P ∧
      TreeOwned (virtual_memory_map K { (find_free_page K s).1 with processes := P } r a
        (PAGEADDRESS (PAGENUMBER (find_free_page K s).2)) PAGESIZE
        (PTE_P ||| PTE_W ||| PTE_U) true).1 r ∧
      (∀ n, IsNode (virtual_memory_map K { (find_free_page K s).1 with processes := P } r a
          (PAGEADDRESS (PAGENUMBER (find_free_page K s).2)) PAGESIZE
          (PTE_P ||| PTE_W ||| PTE_U) true).1.physmem r n →
        IsNode s.physmem r n ∨ (n < NPAGES K ∧ (s.pageinfo n).refcount = 0 ∧ n ≠ fp)) ∧
      (virtual_memory_map K { (find_free_page K s).1 with processes := P } r a
        (PAGEADDRESS (PAGENUMBER (find_free_page K s).2)) PAGESIZE
        (PTE_P ||| PTE_W ||| PTE_U) true).1.pageinfo fp =
        { owner := s.current_owner, refcount := 1 } ∧
      (∀ pn, (virtual_memory_map K { (find_free_page K s).1 with processes := P } r a
          (PAGEADDRESS (PAGENUMBER (find_free_page K s).2)) PAGESIZE
          (PTE_P ||| PTE_W ||| PTE_U) true).1.pageinfo pn = s.pageinfo pn ∨
        (pn < NPAGES K ∧ (s.pageinfo pn).refcount = 0 ∧
          (virtual_memory_map K { (find_free_page K s).1 with processes := P } r a
            (PAGEADDRESS (PAGENUMBER (find_free_page K s).2)) PAGESIZE
            (PTE_P ||| PTE_W ||| PTE_U) true).1.pageinfo pn =
            { owner := s.current_owner, refcount := 1 })) ∧
      (∀ pn, 0 < (s.pageinfo pn).refcount → ¬ IsNode s.physmem r pn →
        (virtual_memory_map K { (find_free_page K s).1 with processes := P } r a
          (PAGEADDRESS (PAGENUMBER (find_free_page K s).2)) PAGESIZE
          (PTE_P ||| PTE_W ||| PTE_U) true).1.physmem pn = s.physmem pn) ∧
      (∀ va', ¬ SamePath a va' 4 →
        virtual_memory_lookup (virtual_memory_map K
            { (find_free_page K s).1 with processes := P } r a
            (PAGEADDRESS (PAGENUMBER (find_free_page K s).2)) PAGESIZE
            (PTE_P ||| PTE_W ||| PTE_U) true).1.physmem r va' =
          virtual_memory_lookup s.physmem r va') ∧
      (¬ (virtual_memory_map K { (find_free_page K s).1 with processes := P } r a
          (PAGEADDRESS (PAGENUMBER (find_free_page K s).2)) PAGESIZE
          (PTE_P ||| PTE_W ||| PTE_U) true).2 < 0 →
        ∃ vam, virtual_memory_lookup (virtual_memory_map K
            { (find_free_page K s).1 with processes := P } r a
            (PAGEADDRESS (PAGENUMBER (find_free_page K s).2)) PAGESIZE
            (PTE_P ||| PTE_W ||| PTE_U) true).1.physmem r a = some vam ∧
          vam.pn = fp ∧ vam.perm = PTE_P ||| PTE_W ||| PTE_U) ∧
      ((virtual_memory_map K { (find_free_page K s).1 with processes := P } r a
          (PAGEADDRESS (PAGENUMBER (find_free_page K s).2)) PAGESIZE
          (PTE_P ||| PTE_W ||| PTE_U) true).2 < 0 →
        ∀ va', virtual_memory_lookup (virtual_memory_map K
            { (find_free_page K s).1 with processes := P } r a
            (PAGEADDRESS (PAGENUMBER (find_free_page K s).2)) PAGESIZE
            (PTE_P ||| PTE_W ||| PTE_U) true).1.physmem r va' =
          virtual_memory_lookup s.physmem r va') := by
  rcases find_free_page_alloc K s hs with
    ⟨hnull, _, _⟩ | ⟨fp, hfp0, hfpN, hrc, hbelow, hfp, hne, h1⟩
  · exact absurd hnull hfound
  obtain ⟨d1, d2, d3, d4, d5⟩ := find_free_page_data_step K s r fp (fun _ => 0) hs ht hfp0
    hfpN hrc
  rw [set_page_set_page, ← h1] at d1 d2 d3 d4 d5
  have hpa0 : PAGEADDRESS fp % 4096 = 0 := PAGEADDRESS_mod fp
  have d2' : AllocSane K { (find_free_page K s).1 with processes := P } := d2
  have d3' : TreeOwned { (find_free_page K s).1 with processes := P } r := d3
  obtain ⟨m1, m2, m3, m4, m5, m6⟩ := virtual_memory_map_spec K
    { (find_free_page K s).1 with processes := P } r a (PAGEADDRESS fp)
    (PTE_P ||| PTE_W ||| PTE_U) d2' d3' hpa0 (by decide) (by decide)
  rw [hfp, PAGENUMBER_PAGEADDRESS]
  have hfpinfo : (find_free_page K s).1.pageinfo fp =
      { owner := s.current_owner, refcount := 1 } := by
    rw [h1]
    simp
  have hinfo2 : ∀ pn, pn ≠ fp → (find_free_page K s).1.pageinfo pn = s.pageinfo pn := by
    intro pn hp
    rw [h1]
    simp [hp]
  have hmem2 : ∀ pn, pn ≠ fp → (find_free_page K s).1.physmem pn = s.physmem pn := by
    intro pn hp
    rw [h1]
    simp [hp]
  have hfpt : (virtual_memory_map K { (find_free_page K s).1 with processes := P } r a
      (PAGEADDRESS fp) PAGESIZE (PTE_P ||| PTE_W ||| PTE_U) true).1.pageinfo fp =
      { owner := s.current_owner, refcount := 1 } := by
    rcases m1.2.2.2.2.2.1 fp with h | ⟨_, h, _⟩
    · rw [h]
      exact hfpinfo
    · have h' : ((find_free_page K s).1.pageinfo fp).refcount = 0 := h
      rw [hfpinfo] at h'
      exact absurd (show (1 : Int) = 0 from h') (by decide)
  refine ⟨fp, hfp0, hfpN, hrc, rfl, hfpinfo, m1.1, m3, ?_, hfpt, ?_, ?_, ?_, ?_, ?_⟩
  · intro n hn
    rcases m1.2.2.2.2.1 n hn with h | ⟨hN, h⟩
    · rcases d1.2.2.2.2.1 n h with g | ⟨gN, g⟩
      · exact Or.inl g
      · refine Or.inr ⟨gN, g, fun hc => ?_⟩
        rw [hc] at h
        exact d5 h
    · have hnfp : n ≠ fp := by
        intro hc
        have h' : ((find_free_page K s).1.pageinfo n).refcount = 0 := h
        rw [hc, hfpinfo] at h'
        exact absurd (show (1 : Int) = 0 from h') (by decide)
      have h' : ((find_free_page K s).1.pageinfo n).refcount = 0 := h
      rw [hinfo2 n hnfp] at h'
      exact Or.inr ⟨hN, h', hnfp⟩
  · intro pn
    by_cases hp : pn = fp
    · right
      rw [hp]
      exact ⟨hfpN, hrc, hfpt⟩
    · rcases m1.2.2.2.2.2.1 pn with h | ⟨h1', h2', h3'⟩
      · left
        rw [h]
        exact hinfo2 pn hp
      · right
        have h2'' : ((find_free_page K s).1.pageinfo pn).refcount = 0 := h2'
        rw [hinfo2 pn hp] at h2''
        refine ⟨h1', h2'', ?_⟩
        rw [h3']
        show ({ owner := (find_free_page K s).1.current_owner, refcount := 1 } :
          physical_pageinfo) = _
        rw [d1.2.2.1]
  · intro pn hpos hnn
    have hp : pn ≠ fp := by
      intro hc
      rw [hc] at hpos
      omega
    have hpos2 : 0 < ((find_free_page K s).1.pageinfo pn).refcount := by
      rw [hinfo2 pn hp]
      exact hpos
    have hnn2 : ¬ IsNode (find_free_page K s).1.physmem r pn := by
      intro hn
      rcases d1.2.2.2.2.1 pn hn with h | ⟨_, h⟩
      · exact hnn h
      · omega
    rw [m1.2.2.2.2.2.2 pn hpos2 hnn2]
    exact hmem2 pn hp
  · intro va' hsp
    rw [m5 va' hsp]
    exact d4 va'
  · intro hmap
    refine ⟨_, m4 hmap, ?_, rfl⟩
    exact PAGENUMBER_PAGEADDRESS fp
  · intro hmap va'
    rw [(m6 hmap).1 va']
    exact d4 va'

/-! ## The ownership partition: a new process -/

/-- The invariant survives the creation of a process in a Free slot: its page table has
been built from free pages, it maps every page below `PROC_START_ADDR` as the invariant
asks and nothing in the process region; no referenced page has changed. -/
theorem KernelInv.add_process {K : KernelConfig} {s t : KernelState} (h : KernelInv K s)
    (pid c : Nat) (hpid1 : 1 ≤ pid) (hpidN : pid < K.NPROC)
    (hfree : (s.processes pid).p_state = procstate.P_FREE)
    (hb : BuildInv K s (pid : Int) c (fun _ => 0) t)
    (hother : ∀ j, j ≠ pid → (t.processes j).p_state = (s.processes j).p_state ∧
      (t.processes j).p_pid = (s.processes j).p_pid ∧
      (t.processes j).p_pagetable = (s.processes j).p_pagetable)
    (hnew : (t.processes pid).p_state ≠ procstate.P_FREE ∧
      (t.processes pid).p_pid = (s.processes pid).p_pid ∧ (t.processes pid).p_pagetable = c)
    (hlow : ∀ va ∈ page_addresses 0 K.PROC_START_ADDR,
      ∃ vam, virtual_memory_lookup t.physmem c va = some vam ∧ vam.pn < NPAGES K ∧
        (vam.perm &&& PTE_U ≠ 0 →
          (s.pageinfo vam.pn).owner < 0 ∧ 0 < (s.pageinfo vam.pn).refcount) ∧
        (va ≠ 0xB8000 → ¬ (vam.perm &&& PTE_W ≠ 0 ∧ vam.perm &&& PTE_U ≠ 0)))
    (hnone : ∀ va ∈ user_range K, virtual_memory_lookup t.physmem c va = none) :
    KernelInv K t := by
  obtain ⟨hsane, htree, hnodes, hold, hnewp, hmem, _, _⟩ := hb
  have hkeep : ∀ pn, 0 < (s.pageinfo pn).refcount → t.pageinfo pn = s.pageinfo pn := by
    intro pn hpos
    rw [(hold pn hpos).2]
    simp
  have hchg : ∀ pn, t.pageinfo pn = s.pageinfo pn ∨
      ((s.pageinfo pn).refcount = 0 ∧ pn < NPAGES K ∧
        t.pageinfo pn = { owner := (pid : Int), refcount := 1 }) := by
    intro pn
    by_cases hpos : 0 < (s.pageinfo pn).refcount
    · exact Or.inl (hkeep pn hpos)
    · rcases hnewp pn hpos with g | ⟨g1, g2, g3⟩
      · exact Or.inl g
      · exact Or.inr ⟨g2, g1, g3⟩
  have hne_of_live : ∀ p, Live K s p → p ≠ pid := by
    intro p hp hc
    rw [hc] at hp
    exact hp.2 hfree
  have hlive : ∀ p, Live K t p → p = pid ∨ Live K s p := by
    intro p hp
    by_cases hc : p = pid
    · exact Or.inl hc
    · exact Or.inr ⟨hp.1, by rw [← (hother p hc).1]; exact hp.2⟩
  have hlive' : ∀ p, Live K s p → Live K t p :=
    fun p hp => ⟨hp.1, by rw [(hother p (hne_of_live p hp)).1]; exact hp.2⟩
  have hroot : ∀ p, Live K s p → (t.processes p).p_pagetable = (s.processes p).p_pagetable :=
    fun p hp => (hother p (hne_of_live p hp)).2.2
  have hothers : ∀ q, Live K s q →
      (∀ va, virtual_memory_lookup t.physmem (s.processes q).p_pagetable va =
        virtual_memory_lookup s.physmem (s.processes q).p_pagetable va) ∧
      (∀ n, IsNode t.physmem (s.processes q).p_pagetable n ↔
        IsNode s.physmem (s.processes q).p_pagetable n) ∧
      TreeInj t.physmem (s.processes q).p_pagetable := by
    intro q hq
    have := tree_frame s.physmem t.physmem (s.processes q).p_pagetable (fun n hn => by
      obtain ⟨_, n2⟩ := h.nodes q hq n hn
      exact hmem n (by rw [n2]; exact Int.one_pos))
    exact ⟨this.2.1, this.2.2.1, this.2.2.2 (h.tree q hq)⟩
  have hmapped_pos : ∀ p, Live K s p → ∀ va ∈ user_range K, ∀ vam,
      virtual_memory_lookup s.physmem (s.processes p).p_pagetable va = some vam →
      0 < (s.pageinfo vam.pn).refcount := by
    intro p hp va hva vam hvam
    obtain ⟨e1, e2⟩ := h.mapped_refcount hp va hva vam hvam
    rw [e1]
    exact_mod_cast e2
  have hmp_other : ∀ p, Live K s p → mapped_pages K t p = mapped_pages K s p := by
    intro p hp
    simp only [mapped_pages, hroot p hp]
    exact released_pages_congr _ _ _ _ _ (fun va _ => (hothers p hp).1 va)
  have hmp_new : ∀ pn, pn ∉ mapped_pages K t pid := by
    intro pn hmem'
    obtain ⟨va, hva, vam, hvam, _⟩ := (mem_mapped_pages K t pid pn).mp hmem'
    rw [hnew.2.2, hnone va hva] at hvam
    cases hvam
  have hmc : ∀ pn, mapping_count K t pn = mapping_count K s pn := by
    intro pn
    apply mapping_count_congr
    intro j hj
    by_cases hjp : j = pid
    · subst hjp
      rw [if_pos hnew.1, if_neg (fun hc => hc hfree)]
      exact List.count_eq_zero.mpr (hmp_new pn)
    · rw [(hother j hjp).1]
      by_cases hf : (s.processes j).p_state = procstate.P_FREE
      · simp [hf]
      · rw [hmp_other j ⟨hj, hf⟩]
  have hcount_zero : ∀ pn, pn < NPAGES K → (s.pageinfo pn).refcount = 0 →
      mapping_count K s pn = 0 := by
    intro pn hpn hz
    rcases Nat.eq_zero_or_pos (mapping_count K s pn) with e | e
    · exact e
    · have := (h.count pn hpn).1 e
      rw [hz] at this
      omega
  have hspid : (s.processes pid).p_pid = (pid : Int) := h.zero.2.2 pid hpidN
  refine ⟨?_, hsane, ?_, ?_, ?_, ?_, ?_, ?_, ?_, ?_, ?_, ?_, ?_⟩
  · -- zero
    have h0 : (0 : Nat) ≠ pid := by omega
    refine ⟨by rw [(hother 0 h0).1]; exact h.zero.1,
      by rw [(hother 0 h0).2.2]; exact h.zero.2.1, fun i hi => ?_⟩
    by_cases hc : i = pid
    · rw [hc, hnew.2.1]
      exact hspid
    · rw [(hother i hc).2.1]
      exact h.zero.2.2 i hi
  · -- page0
    rw [hkeep 0 h.sane.2]
    exact h.page0
  · -- free
    intro pn hpn hz
    rcases hchg pn with g | ⟨_, _, g⟩
    · rw [g] at hz ⊢
      exact h.free pn hpn hz
    · rw [g] at hz
      exact absurd (show (1 : Int) = 0 from hz) (by decide)
  · -- owners
    intro pn hpn
    rcases hchg pn with g | ⟨_, _, g⟩
    · rw [g]
      rcases h.owners pn hpn with e | e | e | ⟨p, hp, e1, e2⟩
      · exact Or.inl e
      · exact Or.inr (Or.inl e)
      · exact Or.inr (Or.inr (Or.inl e))
      · have hpl : Live K s p := ⟨hp, e2⟩
        exact Or.inr (Or.inr (Or.inr ⟨p, hp,
          by rw [(hother p (hne_of_live p hpl)).2.1]; exact e1, (hlive' p hpl).2⟩))
    · rw [g]
      exact Or.inr (Or.inr (Or.inr ⟨pid, hpidN, by rw [hnew.2.1]; exact hspid, hnew.1⟩))
  · -- tree
    intro p hp
    rcases hlive p hp with hc | hps
    · rw [hc, hnew.2.2]
      exact htree.1
    · rw [hroot p hps]
      exact (hothers p hps).2.2
  · -- nodes
    intro p hp n hn
    rcases hlive p hp with hc | hps
    · rw [hc, hnew.2.2] at hn
      obtain ⟨n1, n2⟩ := hnodes n hn
      refine ⟨n1, ?_⟩
      rcases hchg n with g | ⟨_, _, g⟩
      · have := htree.2 n hn
        rw [g, n2] at this
        omega
      · rw [hc]
        exact g
    · rw [hroot p hps] at hn
      obtain ⟨n1, n2⟩ := h.nodes p hps n (((hothers p hps).2.1 n).mp hn)
      exact ⟨n1, by rw [hkeep n (by rw [n2]; exact Int.one_pos)]; exact n2⟩
  · -- user
    intro p hp va hva vam hvam
    rcases hlive p hp with hc | hps
    · rw [hc, hnew.2.2, hnone va hva] at hvam
      cases hvam
    · rw [hroot p hps, (hothers p hps).1 va] at hvam
      obtain ⟨u1, u2, u3, u4⟩ := h.user p hps va hva vam hvam
      have hpos := hmapped_pos p hps va hva vam hvam
      rw [hkeep _ hpos]
      refine ⟨u1, u2, u3, fun q hq hn => ?_⟩
      rcases hlive q hq with hqc | hqs
      · rw [hqc, hnew.2.2] at hn
        have := (hnodes _ hn).2
        omega
      · rw [hroot q hqs] at hn
        exact u4 q hqs (((hothers q hqs).2.1 _).mp hn)
  · -- once
    intro p hp
    rcases hlive p hp with hc | hps
    · rw [hc]
      have : mapped_pages K t pid = [] := List.eq_nil_iff_forall_not_mem.mpr hmp_new
      rw [this]
      exact List.nodup_nil
    · rw [hmp_other p hps]
      exact h.once p hps
  · -- count
    intro pn hpn
    rw [hmc pn]
    rcases hchg pn with g | ⟨g1, _, g3⟩
    · rw [g]
      exact h.count pn hpn
    · rw [hcount_zero pn hpn g1, g3]
      exact ⟨fun hpos => absurd hpos (by omega), fun _ => Int.le_refl 1⟩
  · -- own
    intro pn hpn p hp ho hcnt
    rw [hmc pn] at hcnt
    have hpos : 0 < (s.pageinfo pn).refcount := by
      rw [(h.count pn hpn).1 hcnt]
      exact_mod_cast hcnt
    rw [hkeep pn hpos] at ho
    rcases hlive p hp with hc | hps
    · exfalso
      rw [hc] at ho
      rcases h.owners pn hpn with e | e | e | ⟨p', hp', e1, e2⟩
      · rw [ho] at e
        simp only [PO_FREE] at e
        omega
      · rw [ho] at e
        simp only [PO_RESERVED] at e
        omega
      · rw [ho] at e
        simp only [PO_KERNEL] at e
        omega
      · rw [ho, h.zero.2.2 p' hp'] at e1
        have : p' = pid := by omega
        rw [this] at e2
        exact e2 hfree
    · rw [hmp_other p hps]
      exact h.own pn hpn p hps ho hcnt
  · -- wexcl
    intro p hp va hva vam hvam hw
    rcases hlive p hp with hc | hps
    · rw [hc, hnew.2.2, hnone va hva] at hvam
      cases hvam
    · rw [hroot p hps, (hothers p hps).1 va] at hvam
      rw [hkeep _ (hmapped_pos p hps va hva vam hvam)]
      exact h.wexcl p hps va hva vam hvam hw
  · -- low
    intro p hp va hva
    rcases hlive p hp with hc | hps
    · rw [hc, hnew.2.2]
      obtain ⟨vam, l1, l2, l3, l4⟩ := hlow va hva
      refine ⟨vam, l1, l2, fun hu => ?_, l4⟩
      obtain ⟨e1, e2⟩ := l3 hu
      rw [hkeep _ e2]
      exact ⟨e1, e2⟩
    · obtain ⟨vam, l1, l2, l3, l4⟩ := h.low p hps va hva
      refine ⟨vam, by rw [hroot p hps, (hothers p hps).1 va]; exact l1, l2, fun hu => ?_, l4⟩
      obtain ⟨e1, e2⟩ := l3 hu
      rw [hkeep _ e2]
      exact ⟨e1, e2⟩

/-! ## Boot: the state before the first process -/

theorem pageinfo_init_loop_frame (L : KernelLayout) (isreserved : Nat → Bool) :
    ∀ (l : List Nat) (s : KernelState),
      (pageinfo_init_loop L isreserved l s).physmem = s.physmem ∧
        (pageinfo_init_loop L isreserved l s).processes = s.processes := by
  intro l
  induction l with
  | nil => intro s; exact ⟨rfl, rfl⟩
  | cons a rest ih =>
    intro s
    simp only [pageinfo_init_loop]
    exact ih _

theorem pageinfo_init_loop_record (L : KernelLayout) (isreserved : Nat → Bool) (pn : Nat) :
    ∀ (l : List Nat) (s : KernelState), (∀ a ∈ l, a % 4096 = 0) →
      (s.pageinfo pn =
          { owner := pageinfo_init_owner L isreserved (PAGEADDRESS pn),
            refcount :=
              if pageinfo_init_owner L isreserved (PAGEADDRESS pn) ≠ PO_FREE then 1 else 0 } ∨
        PAGEADDRESS pn ∈ l) →
      (pageinfo_init_loop L isreserved l s).pageinfo pn =
        { owner := pageinfo_init_owner L isreserved (PAGEADDRESS pn),
          refcount :=
            if pageinfo_init_owner L isreserved (PAGEADDRESS pn) ≠ PO_FREE then 1 else 0 } := by
  intro l
  induction l with
  | nil =>
    intro s _ h
    rcases h with h | h
    · exact h
    · cases h
  | cons a rest ih =>
    intro s hal h
    simp only [pageinfo_init_loop]
    apply ih _ (fun b hb => hal b (List.mem_cons_of_mem a hb))
    have ha := hal a (List.mem_cons_self a rest)
    by_cases hpn : pn = PAGENUMBER a
    · left
      have haddr : PAGEADDRESS pn = a := by
        rw [hpn]
        simp only [PAGEADDRESS, PAGENUMBER, PAGESIZE]
        omega
      simp only [set_pageinfo_pageinfo, if_pos hpn, haddr]
    · rcases h with h | h
      · left
        simp only [set_pageinfo_pageinfo, if_neg hpn]
        exact h
      · rcases List.mem_cons.mp h with hb | hb
        · exfalso
          apply hpn
          rw [← hb]
          exact (PAGENUMBER_PAGEADDRESS pn).symm
        · exact Or.inr hb

/-- The record `pageinfo_init` gives a physical page: the owner by address, and reference
count 1 unless the page is free. -/
theorem pageinfo_init_record (K : KernelConfig) (L : KernelLayout) (isreserved : Nat → Bool)
    (s : KernelState) (pn : Nat) (hpn : pn < NPAGES K) :
    (pageinfo_init K L isreserved s).pageinfo pn =
      { owner := pageinfo_init_owner L isreserved (PAGEADDRESS pn),
        refcount :=
          if pageinfo_init_owner L isreserved (PAGEADDRESS pn) ≠ PO_FREE then 1 else 0 } := by
  apply pageinfo_init_loop_record L isreserved pn _ s
  · intro a ha
    exact (page_addresses_zero_mem _ a ha).1
  · right
    apply page_addresses_zero_of
    · exact PAGEADDRESS_mod pn
    · simp only [NPAGES, PAGENUMBER, PAGESIZE] at hpn
      simp only [PAGEADDRESS, PAGESIZE]
      omega

theorem pageinfo_init_negative (K : KernelConfig) (L : KernelLayout) (isreserved : Nat → Bool)
    (s : KernelState) (pn : Nat) (hpn : pn < NPAGES K)
    (h : pageinfo_init_owner L isreserved (PAGEADDRESS pn) ≠ PO_FREE) :
    ((pageinfo_init K L isreserved s).pageinfo pn).owner < 0 ∧
      ((pageinfo_init K L isreserved s).pageinfo pn).refcount = 1 := by
  rw [pageinfo_init_record K L isreserved s pn hpn]
  rw [if_pos h]
  refine ⟨?_, rfl⟩
  show pageinfo_init_owner L isreserved (PAGEADDRESS pn) < 0
  rcases pageinfo_init_owner_cases L isreserved (PAGEADDRESS pn) with g | g | g
  · exact absurd g h
  · rw [g]
    decide
  · rw [g]
    decide

/-- The kernel page table keeps its properties as long as the referenced pages with
negative owner keep their record and contents. -/
theorem KernelTable.table_frame {K : KernelConfig} {L : KernelLayout} {s t : KernelState}
    (h : KernelTable K L s)
    (hk : ∀ pn, (s.pageinfo pn).owner < 0 → 0 < (s.pageinfo pn).refcount →
      t.pageinfo pn = s.pageinfo pn ∧ t.physmem pn = s.physmem pn) : KernelTable K L t := by
  obtain ⟨f1, f2, f3, f4⟩ := tree_frame s.physmem t.physmem L.kernel_pagetable
    (fun n hn => (hk n (h.nodes n hn).2.1 (h.nodes n hn).2.2).2)
  refine ⟨f4 h.tree, ?_, ?_, ?_, ?_⟩
  · intro n hn
    obtain ⟨n1, n2, n3⟩ := h.nodes n ((f3 n).mp hn)
    rw [(hk n n2 n3).1]
    exact ⟨n1, n2, n3⟩
  · intro va hva
    obtain ⟨vam, l1, l2, l3, l4⟩ := h.low va hva
    refine ⟨vam, by rw [f2 va]; exact l1, l2, fun hu => ?_, l4⟩
    obtain ⟨e1, e2⟩ := l3 hu
    rw [(hk _ e1 e2).1]
    exact ⟨e1, e2⟩
  · intro va hva hge
    rw [f2 va]
    exact h.high va hva hge
  · intro hc
    obtain ⟨e1, e2⟩ := h.console hc
    rw [(hk _ e1 e2).1]
    exact ⟨e1, e2⟩

/-- A state without processes in which every page is Free with reference count 0 or a
referenced kernel or reserved page satisfies the invariant. -/
theorem KernelInv.of_no_process {K : KernelConfig} {s : KernelState} (hz : ProcessZero K s)
    (hfree : ∀ p, p < K.NPROC → (s.processes p).p_state = procstate.P_FREE)
    (hpage0 : (s.pageinfo 0).owner < 0 ∧ (s.pageinfo 0).refcount = 1)
    (hrec : ∀ pn, pn < NPAGES K →
      s.pageinfo pn = { owner := PO_FREE, refcount := 0 } ∨
        ((s.pageinfo pn).owner = PO_RESERVED ∨ (s.pageinfo pn).owner = PO_KERNEL) ∧
          (s.pageinfo pn).refcount = 1) : KernelInv K s := by
  have hnl : ∀ p, ¬ Live K s p := fun p hp => hp.2 (hfree p hp.1)
  have hmc : ∀ pn, mapping_count K s pn = 0 := by
    intro pn
    simp only [mapping_count]
    apply List.sum_eq_zero
    intro x hx
    obtain ⟨p, hp, rfl⟩ := List.mem_map.mp hx
    rw [if_neg (fun hc => hc (hfree p (List.mem_range.mp hp)))]
  refine ⟨hz, ⟨fun pn hpn => ?_, by rw [hpage0.2]; decide⟩, hpage0.1, ?_, ?_,
    fun p hp => absurd hp (hnl p), fun p hp => absurd hp (hnl p),
    fun p hp => absurd hp (hnl p), fun p hp => absurd hp (hnl p), ?_,
    fun pn _ p hp => absurd hp (hnl p), fun p hp => absurd hp (hnl p),
    fun p hp => absurd hp (hnl p)⟩
  · rcases hrec pn hpn with g | ⟨_, g⟩
    · rw [g]
    · rw [g]
      decide
  · intro pn hpn hrc
    rcases hrec pn hpn with g | ⟨_, g⟩
    · rw [g]
    · rw [g] at hrc
      exact absurd hrc (by decide)
  · intro pn hpn
    rcases hrec pn hpn with g | ⟨g | g, _⟩
    · exact Or.inl (by rw [g])
    · exact Or.inr (Or.inl g)
    · exact Or.inr (Or.inr (Or.inl g))
  · intro pn hpn
    rw [hmc pn]
    refine ⟨fun hc => absurd hc (by omega), fun _ => ?_⟩
    rcases hrec pn hpn with g | ⟨_, g⟩
    · rw [g]
      decide
    · rw [g]

/-- The state in which `kernel` starts to set processes up, on a machine as `hardware_init`
and `pageinfo_init` leave it: the invariant holds (there is no process yet), the kernel
page table maps the kernel region as every process will, and every slot is Free. -/
theorem kernel_table_init (K : KernelConfig) (L : KernelLayout) (isreserved : Nat → Bool)
    (s0 : KernelState) (hK : ConfigSane K) (hB : BootSane K)
    (h0 : HardwareInit K L isreserved s0) :
    KernelInv K (kernel_init_processes K
        (virtual_memory_map K
          (virtual_memory_map K (pageinfo_init K L isreserved s0) L.kernel_pagetable 0 0
            K.PROC_START_ADDR (PTE_P ||| PTE_W) false).1
          L.kernel_pagetable 0xB8000 0xB8000 PAGESIZE (PTE_P ||| PTE_W ||| PTE_U) false).1) ∧
      KernelTable K L (kernel_init_processes K
        (virtual_memory_map K
          (virtual_memory_map K (pageinfo_init K L isreserved s0) L.kernel_pagetable 0 0
            K.PROC_START_ADDR (PTE_P ||| PTE_W) false).1
          L.kernel_pagetable 0xB8000 0xB8000 PAGESIZE (PTE_P ||| PTE_W ||| PTE_U) false).1) ∧
      ∀ p, p < K.NPROC → ((kernel_init_processes K
        (virtual_memory_map K
          (virtual_memory_map K (pageinfo_init K L isreserved s0) L.kernel_pagetable 0 0
            K.PROC_START_ADDR (PTE_P ||| PTE_W) false).1
          L.kernel_pagetable 0xB8000 0xB8000 PAGESIZE (PTE_P ||| PTE_W ||| PTE_U)
          false).1).processes p).p_state = procstate.P_FREE := by
  obtain ⟨hc1, hc2, hc3, hc4, hc5, hc6, hc7, hc8⟩ := hB
  obtain ⟨hk1, hk2, hk3, hk4⟩ := hK
  have hsi_m : (pageinfo_init K L isreserved s0).physmem = s0.physmem :=
    (pageinfo_init_loop_frame L isreserved _ s0).1
  have hn : K.PROC_START_ADDR / PAGESIZE * 4096 = K.PROC_START_ADDR := by
    simp only [PAGESIZE]
    omega
  have hNP : K.PROC_START_ADDR / 4096 ≤ NPAGES K := by
    simp only [NPAGES, PAGENUMBER, PAGESIZE]
    exact Nat.div_le_div_right hc3
  have hNP0 : 0 < NPAGES K := by
    have : 0 < K.PROC_START_ADDR / 4096 := by omega
    omega
  obtain ⟨a1, _, _, _, a5, a6, a7⟩ := virtual_memory_map_pages_existing K L.kernel_pagetable
    (PTE_P ||| PTE_W) false (Or.inr rfl) (by decide) (K.PROC_START_ADDR / PAGESIZE)
    (pageinfo_init K L isreserved s0) 0 0 (by rw [hsi_m]; exact h0.tree) (by decide)
    (by decide) (by rw [hn]; omega)
    (fun _ k hk => by
      rw [hsi_m]
      apply h0.leaves
      apply page_addresses_zero_of
      · omega
      · simp only [PAGESIZE] at hk
        omega)
  have e0 : virtual_memory_map K (pageinfo_init K L isreserved s0) L.kernel_pagetable 0 0
      K.PROC_START_ADDR (PTE_P ||| PTE_W) false =
      virtual_memory_map_pages K L.kernel_pagetable (PTE_P ||| PTE_W) false
        (K.PROC_START_ADDR / PAGESIZE) (pageinfo_init K L isreserved s0) 0 0 := rfl
  rw [e0, virtual_memory_map_single]
  obtain ⟨t0, ht0⟩ : ∃ t0, t0 = (virtual_memory_map_pages K L.kernel_pagetable
    (PTE_P ||| PTE_W) false (K.PROC_START_ADDR / PAGESIZE)
    (pageinfo_init K L isreserved s0) 0 0).1 := ⟨_, rfl⟩
  rw [← ht0] at a1 a5 a6 a7 ⊢
  rw [hsi_m] at a5 a6 a7
  rw [hn] at a7
  have hinj0 : TreeInj t0.physmem L.kernel_pagetable :=
    TreeInj_of_walk_eq s0.physmem t0.physmem _ a5 h0.tree
  obtain ⟨b1, _, _, _, b5, b6, _, b8, _⟩ := virtual_memory_map_page_existing K t0
    L.kernel_pagetable 0xB8000 0xB8000 (PTE_P ||| PTE_W ||| PTE_U) false (Or.inr rfl) hinj0
    (by decide) (by decide)
  obtain ⟨t1, ht1⟩ : ∃ t1, t1 = (virtual_memory_map_page K t0 L.kernel_pagetable 0xB8000
    0xB8000 (PTE_P ||| PTE_W ||| PTE_U) false).1 := ⟨_, rfl⟩
  simp only
  rw [← ht1] at b1 b5 b6 b8 ⊢
  have hpi : ∀ pn, (kernel_init_processes K t1).pageinfo pn =
      (pageinfo_init K L isreserved s0).pageinfo pn := by
    intro pn
    show t1.pageinfo pn = _
    rw [b1, a1]
  have hwalk : ∀ k va', k ≤ 3 →
      pt_walk (kernel_init_processes K t1).physmem L.kernel_pagetable va' k =
        pt_walk s0.physmem L.kernel_pagetable va' k :=
    fun k va' hk => (b5 k va' hk).trans (a5 k va' hk)
  have hnode := IsNode_of_walk_eq s0.physmem (kernel_init_processes K t1).physmem
    L.kernel_pagetable hwalk
  have hlook : ∀ va', va' % 4096 = 0 → va' < 2 ^ 48 → va' ≠ 0xB8000 →
      virtual_memory_lookup (kernel_init_processes K t1).physmem L.kernel_pagetable va' =
        if 0 ≤ va' ∧ va' < 0 + K.PROC_START_ADDR then
          (if (PTE_P ||| PTE_W) % 2 = 1 then
            some { pn := (0 + (va' - 0)) / 4096, pa := 0 + (va' - 0), perm := PTE_P ||| PTE_W }
          else none)
        else virtual_memory_lookup s0.physmem L.kernel_pagetable va' := by
    intro va' h1 h2 h3
    show virtual_memory_lookup t1.physmem L.kernel_pagetable va' = _
    rw [b6 va' (fun hsp => h3 (hsp.aligned_eq (by decide) h1 (by decide) h2).symm),
      a7 va' h1 h2]
  have hcons : 0xB8000 < K.PROC_START_ADDR →
      ((pageinfo_init K L isreserved s0).pageinfo 0xB8).owner < 0 ∧
        ((pageinfo_init K L isreserved s0).pageinfo 0xB8).refcount = 1 := by
    intro hc
    apply pageinfo_init_negative
    · have : 0xB8 < K.PROC_START_ADDR / 4096 := by omega
      omega
    · exact h0.console hc
  have hfree : ∀ p, p < K.NPROC →
      ((kernel_init_processes K t1).processes p).p_state = procstate.P_FREE := by
    intro p hp
    simp [kernel_init_processes, hp]
  refine ⟨?_, ?_, hfree⟩
  · -- the invariant
    apply KernelInv.of_no_process (kernel_init_processes_zero K t1 (by omega)) hfree
    · rw [hpi 0]
      exact pageinfo_init_negative K L isreserved s0 0 hNP0 h0.page0
    · intro pn hpn
      rw [hpi pn, pageinfo_init_record K L isreserved s0 pn hpn]
      rcases pageinfo_init_owner_cases L isreserved (PAGEADDRESS pn) with g | g | g
      · left
        rw [g]
        rfl
      · right
        rw [g]
        exact ⟨Or.inl rfl, rfl⟩
      · right
        rw [g]
        exact ⟨Or.inr rfl, rfl⟩
  · -- the kernel page table
    refine ⟨TreeInj_of_walk_eq s0.physmem _ _ hwalk h0.tree, ?_, ?_, ?_, ?_⟩
    · intro n hn
      obtain ⟨n1, n2⟩ := h0.nodes n ((hnode n).mp hn)
      obtain ⟨e1, e2⟩ := pageinfo_init_negative K L isreserved s0 n n1 n2
      rw [hpi n]
      exact ⟨n1, e1, by rw [e2]; decide⟩
    · intro va hva
      obtain ⟨v1, v2⟩ := page_addresses_zero_mem _ va hva
      by_cases hcon : va = 0xB8000
      · subst hcon
        have hleaf := h0.leaves _ hva
        rw [← a5 3 _ (le_refl _)] at hleaf
        refine ⟨⟨0xB8000 / 4096, 0xB8000 + 0xB8000 % PAGESIZE, PTE_P ||| PTE_W ||| PTE_U⟩,
          ?_, ?_, fun _ => ?_, fun hc => absurd rfl hc⟩
        · show virtual_memory_lookup t1.physmem L.kernel_pagetable 0xB8000 = _
          rw [b8, if_pos ⟨by decide, hleaf⟩]
        · show 0xB8000 / 4096 < NPAGES K
          have : 0xB8 < K.PROC_START_ADDR / 4096 := by omega
          omega
        · obtain ⟨e1, e2⟩ := hcons v2
          show ((kernel_init_processes K t1).pageinfo (0xB8000 / 4096)).owner < 0 ∧
            0 < ((kernel_init_processes K t1).pageinfo (0xB8000 / 4096)).refcount
          rw [hpi]
          exact ⟨e1, by rw [e2]; decide⟩
      · refine ⟨⟨(0 + (va - 0)) / 4096, 0 + (va - 0), PTE_P ||| PTE_W⟩,
          ?_, ?_, fun hu => ?_, fun _ hwu => ?_⟩
        · rw [hlook va v1 (by omega) hcon, if_pos ⟨by omega, by omega⟩, if_pos (by decide)]
        · show (0 + (va - 0)) / 4096 < NPAGES K
          have : va / 4096 < K.PROC_START_ADDR / 4096 := by omega
          simp only [Nat.zero_add, Nat.sub_zero]
          omega
        · exact absurd hu (show ¬ ((PTE_P ||| PTE_W) &&& PTE_U ≠ 0) by decide)
        · exact absurd hwu.2 (show ¬ ((PTE_P ||| PTE_W) &&& PTE_U ≠ 0) by decide)
    · intro va hva hge
      obtain ⟨v1, v2, v3⟩ := page_addresses_mem _ _ va hk3 hva
      have hcon : va ≠ 0xB8000 := by
        rcases hc8 with g | g
        · omega
        · omega
      rw [hlook va v1 (by omega) hcon, if_neg (by omega)]
      exact h0.high va hva hge
    · intro hc
      obtain ⟨e1, e2⟩ := hcons hc
      rw [hpi]
      exact ⟨e1, by rw [e2]; decide⟩

/-! ## Boot: the address space of a new process -/

theorem process_setup_map_eq (K : KernelConfig) (L : KernelLayout) (env : LoaderModel)
    (s : KernelState) (pid : Nat) (cp : KernelState × Nat)
    (hcp : cp = copy_pagetable K
      (set_proc s pid { s.processes pid with p_registers := env.process_init })
      L.kernel_pagetable (int8 pid)) :
    process_setup_map K L env s pid =
      (virtual_memory_map K
        (virtual_memory_map K
          (virtual_memory_map K
            { set_p_pagetable cp.1 pid cp.2 with current_owner := int8 pid }
            cp.2 0 0 K.PROC_START_ADDR (PTE_P ||| PTE_W) true).1
          cp.2 0xB8000 0xB8000 PAGESIZE (PTE_P ||| PTE_U ||| PTE_W) true).1
        cp.2 K.PROC_START_ADDR K.PROC_START_ADDR
        (K.MEMSIZE_PHYSICAL - K.PROC_START_ADDR) 0 true).1 := by
  subst hcp
  have r3 : ∀ (t : KernelState) (c : Nat),
      ((set_p_pagetable t pid c).processes pid).p_pagetable = c := by
    intro t c
    simp [set_p_pagetable, set_proc]
  have r4 : ∀ (t : KernelState) (r va pa sz perm : Nat),
      ((virtual_memory_map K t r va pa sz perm true).1.processes pid).p_pagetable =
        (t.processes pid).p_pagetable := by
    intro t r va pa sz perm
    exact congrArg (fun f => (f pid).p_pagetable)
      (virtual_memory_map_pages_frame K r perm true (sz / PAGESIZE) t va pa).1
  simp only [process_setup_map, r4, r3]

theorem virtual_memory_map_processes (K : KernelConfig) (t : KernelState)
    (r va pa sz perm : Nat) (a : Bool) :
    (virtual_memory_map K t r va pa sz perm a).1.processes = t.processes :=
  (virtual_memory_map_pages_frame K r perm a (sz / PAGESIZE) t va pa).1

/-- The address space `process_setup` builds before it loads the program.  Either the pool
ran out while the kernel page table was copied, and then every page is referenced; or the
new page table is a tree of pages that were free, it maps every page below
`PROC_START_ADDR` as the invariant asks and nothing in the process region, and no
referenced page has changed. -/
theorem process_setup_map_spec (K : KernelConfig) (L : KernelLayout) (env : LoaderModel)
    (hK : ConfigSane K) (hB : BootSane K) (s : KernelState) (pid : Nat)
    (hpidN : pid < K.NPROC) (h : KernelInv K s) (hkt : KernelTable K L s) :
    (∀ pn, pn < NPAGES K →
        0 < ((process_setup_map K L env s pid).pageinfo pn).refcount) ∨
      (BuildInv K s (pid : Int) ((process_setup_map K L env s pid).processes pid).p_pagetable
          (fun _ => 0) (process_setup_map K L env s pid) ∧
        (∀ va ∈ page_addresses 0 K.PROC_START_ADDR,
          ∃ vam, virtual_memory_lookup (process_setup_map K L env s pid).physmem
              ((process_setup_map K L env s pid).processes pid).p_pagetable va = some vam ∧
            vam.pn < NPAGES K ∧
            (vam.perm &&& PTE_U ≠ 0 →
              (s.pageinfo vam.pn).owner < 0 ∧ 0 < (s.pageinfo vam.pn).refcount) ∧
            (va ≠ 0xB8000 → ¬ (vam.perm &&& PTE_W ≠ 0 ∧ vam.perm &&& PTE_U ≠ 0))) ∧
        (∀ va ∈ user_range K,
          virtual_memory_lookup (process_setup_map K L env s pid).physmem
            ((process_setup_map K L env s pid).processes pid).p_pagetable va = none)) := by
  obtain ⟨hc1, hc2, hc3, hc4, hc5, hc6, hc7, hc8⟩ := hB
  obtain ⟨hk1, hk2, hk3, hk4⟩ := hK
  have hi8 : int8 (pid : Int) = pid := int8_natCast pid (by omega)
  obtain ⟨cp, hcp⟩ : ∃ cp, cp = copy_pagetable K
    (set_proc s pid { s.processes pid with p_registers := env.process_init })
    L.kernel_pagetable (int8 pid) := ⟨_, rfl⟩
  have hs1 : AllocSane K
      (set_proc s pid { s.processes pid with p_registers := env.process_init }) := h.sane
  have hst : NodesReferenced
      (set_proc s pid { s.processes pid with p_registers := env.process_init })
      L.kernel_pagetable (page_addresses 0 K.MEMSIZE_VIRTUAL) :=
    fun va _ k hk a hw => (hkt.nodes _ ⟨va, k, a, hk, hw, rfl⟩).2.2
  have hroot : ((process_setup_map K L env s pid).processes pid).p_pagetable = cp.2 := by
    rw [process_setup_map_eq K L env s pid cp hcp, virtual_memory_map_processes,
      virtual_memory_map_processes, virtual_memory_map_processes]
    simp [set_p_pagetable, set_proc]
  rw [hroot, process_setup_map_eq K L env s pid cp hcp]
  by_cases hnull : cp.2 = NULL
  · left
    have hex : ∀ pn, pn < NPAGES K → 0 < (cp.1.pageinfo pn).refcount := by
      rw [hcp] at hnull ⊢
      rcases copy_pagetable_null_spec K _ L.kernel_pagetable (int8 pid) hs1 hst hnull with
        ⟨_, g2, g3⟩ | ⟨_, _, g3⟩
      · rw [g3]
        exact g2
      · exact g3
    intro pn hpn
    have k1 := virtual_memory_map_refkeep K
      { set_p_pagetable cp.1 pid cp.2 with current_owner := int8 pid }
      cp.2 0 0 K.PROC_START_ADDR (PTE_P ||| PTE_W) true
    have k2 := virtual_memory_map_refkeep K
      (virtual_memory_map K { set_p_pagetable cp.1 pid cp.2 with current_owner := int8 pid }
        cp.2 0 0 K.PROC_START_ADDR (PTE_P ||| PTE_W) true).1
      cp.2 0xB8000 0xB8000 PAGESIZE (PTE_P ||| PTE_U ||| PTE_W) true
    have k3 := virtual_memory_map_refkeep K
      (virtual_memory_map K
        (virtual_memory_map K { set_p_pagetable cp.1 pid cp.2 with current_owner := int8 pid }
          cp.2 0 0 K.PROC_START_ADDR (PTE_P ||| PTE_W) true).1
        cp.2 0xB8000 0xB8000 PAGESIZE (PTE_P ||| PTE_U ||| PTE_W) true).1
      cp.2 K.PROC_START_ADDR K.PROC_START_ADDR (K.MEMSIZE_PHYSICAL - K.PROC_START_ADDR) 0 true
    rw [((k1.keep_trans k2).keep_trans k3) pn (hex pn hpn)]
    exact hex pn hpn
  · right
    obtain ⟨hb, _, _, _, _, hclook⟩ :=
      (copy_pagetable_spec K _ L.kernel_pagetable (int8 pid) hs1 hk2 hst).2.2.2.2.2.2
        (by rw [← hcp]; exact hnull)
    rw [← hcp] at hb hclook
    rw [hi8] at hb
    have hb3 : BuildInv K s (pid : Int) cp.2 (fun _ => 0)
        { set_p_pagetable cp.1 pid cp.2 with current_owner := int8 pid } :=
      ⟨hb.1, hb.2.1, hb.2.2.1, hb.2.2.2.1, hb.2.2.2.2.1, hb.2.2.2.2.2.1, hi8,
        hb.2.2.2.2.2.2.2⟩
    have hn : K.PROC_START_ADDR / PAGESIZE * 4096 = K.PROC_START_ADDR := by
      simp only [PAGESIZE]
      omega
    have hn3 : K.PROC_START_ADDR + (K.MEMSIZE_PHYSICAL - K.PROC_START_ADDR) / PAGESIZE * 4096 =
        K.MEMSIZE_PHYSICAL := by
      simp only [PAGESIZE]
      omega
    have hNP : K.PROC_START_ADDR / 4096 ≤ NPAGES K := by
      simp only [NPAGES, PAGENUMBER, PAGESIZE]
      exact Nat.div_le_div_right hc3
    -- the kernel region, mapped again
    have e1 : virtual_memory_map K
        { set_p_pagetable cp.1 pid cp.2 with current_owner := int8 pid }
        cp.2 0 0 K.PROC_START_ADDR (PTE_P ||| PTE_W) true =
        virtual_memory_map_pages K cp.2 (PTE_P ||| PTE_W) true (K.PROC_START_ADDR / PAGESIZE)
          { set_p_pagetable cp.1 pid cp.2 with current_owner := int8 pid } 0 0 := rfl
    obtain ⟨hb4, _, l4⟩ := virtual_memory_map_pages_build K s pid cp.2 (fun _ => 0)
      (PTE_P ||| PTE_W) (by decide) (by decide) (K.PROC_START_ADDR / PAGESIZE)
      { set_p_pagetable cp.1 pid cp.2 with current_owner := int8 pid } 0 0 hb3 (by decide)
      (by decide) (by rw [hn]; omega)
    rw [hn] at l4
    rw [e1]
    obtain ⟨s4, hs4⟩ : ∃ s4, s4 = (virtual_memory_map_pages K cp.2 (PTE_P ||| PTE_W) true
      (K.PROC_START_ADDR / PAGESIZE)
      { set_p_pagetable cp.1 pid cp.2 with current_owner := int8 pid } 0 0).1 := ⟨_, rfl⟩
    rw [← hs4] at hb4 l4 ⊢
    -- the console
    obtain ⟨hm5, hs5', ht5, hok5, hoth5, hfail5⟩ := virtual_memory_map_spec K s4 cp.2 0xB8000
      0xB8000 (PTE_P ||| PTE_U ||| PTE_W) hb4.1 hb4.2.1 (by decide) (by decide) (by decide)
    have hb5 := hb4.mapstep hm5 hs5' ht5
    obtain ⟨s5, hs5⟩ : ∃ s5, s5 = (virtual_memory_map K s4 cp.2 0xB8000 0xB8000 PAGESIZE
      (PTE_P ||| PTE_U ||| PTE_W) true).1 := ⟨_, rfl⟩
    rw [← hs5] at hb5 hok5 hoth5 hfail5 ⊢
    -- physical memory above the kernel region, unmapped
    have e3 : virtual_memory_map K s5 cp.2 K.PROC_START_ADDR K.PROC_START_ADDR
        (K.MEMSIZE_PHYSICAL - K.PROC_START_ADDR) 0 true =
        virtual_memory_map_pages K cp.2 0 true
          ((K.MEMSIZE_PHYSICAL - K.PROC_START_ADDR) / PAGESIZE) s5 K.PROC_START_ADDR
          K.PROC_START_ADDR := rfl
    obtain ⟨q1, q2, q3, q4, q5, q6, q7⟩ := virtual_memory_map_pages_existing K cp.2 0 true
      (Or.inl (by decide)) (by decide) ((K.MEMSIZE_PHYSICAL - K.PROC_START_ADDR) / PAGESIZE)
      s5 K.PROC_START_ADDR K.PROC_START_ADDR hb5.2.1.1 hk3 hk3 (by rw [hn3]; omega)
      (fun hp => absurd hp (by decide))
    rw [hn3] at q7
    rw [e3]
    obtain ⟨s6, hs6⟩ : ∃ s6, s6 = (virtual_memory_map_pages K cp.2 0 true
      ((K.MEMSIZE_PHYSICAL - K.PROC_START_ADDR) / PAGESIZE) s5 K.PROC_START_ADDR
      K.PROC_START_ADDR).1 := ⟨_, rfl⟩
    rw [← hs6] at q1 q2 q3 q4 q5 q6 q7 ⊢
    obtain ⟨w1, w2, w3⟩ := MapStep.of_walks K s5 s6 cp.2 q1 q2 q3 q4 q5 q6
    have hb6 := hb5.mapstep w1 (w2 hb5.1) (w3 hb5.2.1)
    have hcopy : ∀ va ∈ page_addresses 0 K.MEMSIZE_VIRTUAL,
        virtual_memory_lookup
          ({ set_p_pagetable cp.1 pid cp.2 with current_owner := int8 pid } :
            KernelState).physmem cp.2 va =
          virtual_memory_lookup s.physmem L.kernel_pagetable va :=
      fun va hva => hclook va hva
    refine ⟨hb6, ?_, ?_⟩
    · intro va hva
      obtain ⟨v1, v2⟩ := page_addresses_zero_mem _ va hva
      have v48 : va < 2 ^ 48 := by omega
      obtain ⟨vam, k1, k2, k3, k4⟩ := hkt.low va hva
      rw [q7 va v1 v48, if_neg (by omega)]
      have st4 : ∃ vam, virtual_memory_lookup s4.physmem cp.2 va = some vam ∧
          vam.pn < NPAGES K ∧
          (vam.perm &&& PTE_U ≠ 0 →
            (s.pageinfo vam.pn).owner < 0 ∧ 0 < (s.pageinfo vam.pn).refcount) ∧
          (va ≠ 0xB8000 → ¬ (vam.perm &&& PTE_W ≠ 0 ∧ vam.perm &&& PTE_U ≠ 0)) := by
        rcases l4 va v1 v48 with e | ⟨_, _, e⟩
        · rw [hcopy va (page_addresses_zero_of _ va v1 (by omega))] at e
          exact ⟨vam, e.trans k1, k2, k3, k4⟩
        · refine ⟨⟨(0 + (va - 0)) / 4096, 0 + (va - 0), PTE_P ||| PTE_W⟩, e, ?_,
            fun hu => ?_, fun _ hwu => ?_⟩
          · show (0 + (va - 0)) / 4096 < NPAGES K
            have : va / 4096 < K.PROC_START_ADDR / 4096 := by omega
            simp only [Nat.zero_add, Nat.sub_zero]
            omega
          · exact absurd hu (show ¬ ((PTE_P ||| PTE_W) &&& PTE_U ≠ 0) by decide)
          · exact absurd hwu.2 (show ¬ ((PTE_P ||| PTE_W) &&& PTE_U ≠ 0) by decide)
      by_cases hcon : va = 0xB8000
      · by_cases hneg : (virtual_memory_map K s4 cp.2 0xB8000 0xB8000 PAGESIZE
            (PTE_P ||| PTE_U ||| PTE_W) true).2 < 0
        · rw [(hfail5 hneg).1 va]
          exact st4
        · rw [hcon]
          refine ⟨⟨0xB8000 / 4096, 0xB8000 + 0xB8000 % PAGESIZE, PTE_P ||| PTE_U ||| PTE_W⟩,
            hok5 hneg, ?_, fun _ => ?_, fun hc => absurd rfl hc⟩
          · show 0xB8000 / 4096 < NPAGES K
            have : 0xB8 < K.PROC_START_ADDR / 4096 := by omega
            omega
          · exact hkt.console (by omega)
      · rw [hoth5 va (fun hsp => hcon (hsp.aligned_eq (by decide) v1 (by decide) v48).symm)]
        exact st4
    · intro va hva
      obtain ⟨v1, v2, v3⟩ := page_addresses_mem _ _ va hk3 hva
      have v48 : va < 2 ^ 48 := by omega
      rw [q7 va v1 v48]
      by_cases hlt : va < K.MEMSIZE_PHYSICAL
      · rw [if_pos ⟨v2, hlt⟩, if_neg (by decide)]
      · rw [if_neg (fun hc => hlt hc.2)]
        have hcon : va ≠ 0xB8000 := by
          rcases hc8 with g | g
          · omega
          · omega
        rw [hoth5 va (fun hsp => hcon (hsp.aligned_eq (by decide) v1 (by decide) v48).symm)]
        rcases l4 va v1 v48 with e | ⟨_, r2, _⟩
        · rw [e, hcopy va (page_addresses_zero_of _ va v1 v3)]
          exact hkt.high va hva (by omega)
        · omega

/-! ## Boot: `process_setup` keeps the invariant -/

/-- `process_setup(pid, n)` for a Free slot keeps the invariant and the properties of the
kernel page table. -/
theorem process_setup_inv (K : KernelConfig) (L : KernelLayout) (env : LoaderModel)
    (hK : ConfigSane K) (hB : BootSane K) (hload : LoaderSound K env)
    (s s' : KernelState) (pid n : Nat) (hpid1 : 1 ≤ pid) (hpidN : pid < K.NPROC)
    (h : KernelInv K s) (hkt : KernelTable K L s)
    (hfree : (s.processes pid).p_state = procstate.P_FREE)
    (hs' : process_setup K L env s pid n = some s') :
    KernelInv K s' ∧ KernelTable K L s' := by
  have hB' := hB
  obtain ⟨hc1, hc2, hc3, hc4, hc5, hc6, hc7, hc8⟩ := hB'
  have hK' := hK
  obtain ⟨hk1, hk2, hk3, hk4⟩ := hK'
  have pf := process_setup_map_procframe K L env s pid
  have spec := process_setup_map_spec K L env hK hB s pid hpidN h hkt
  simp only [process_setup] at hs'
  obtain ⟨sm, hsm⟩ : ∃ sm, sm = process_setup_map K L env s pid := ⟨_, rfl⟩
  rw [← hsm] at pf spec hs'
  obtain ⟨ld1, ld2, ld3⟩ := hload sm pid n
  have hsl_pi : (program_load_state env sm pid n).pageinfo = (env.program_load sm pid n).1 :=
    rfl
  have hsl_m : (program_load_state env sm pid n).physmem = (env.program_load sm pid n).2.1 :=
    rfl
  have hsl_co : (program_load_state env sm pid n).current_owner = sm.current_owner := rfl
  have hsl_proc : ∀ j, ((program_load_state env sm pid n).processes j).p_state =
        (sm.processes j).p_state ∧
      ((program_load_state env sm pid n).processes j).p_pid = (sm.processes j).p_pid ∧
      ((program_load_state env sm pid n).processes j).p_pagetable =
        (sm.processes j).p_pagetable := by
    intro j
    by_cases hj : j = pid
    · subst hj
      simp [program_load_state, set_proc]
    · simp [program_load_state, set_proc, hj]
  obtain ⟨sl, hsl⟩ : ∃ sl, sl = program_load_state env sm pid n := ⟨_, rfl⟩
  rw [← hsl] at hs' hsl_pi hsl_m hsl_co hsl_proc
  split at hs'
  · cases hs'
  rename_i hret
  split at hs'
  · cases hs'
  rename_i hfound
  have hs'' : s' = process_setup_stack K (find_free_page K sl).1 pid (find_free_page K sl).2 :=
    (Option.some.inj hs').symm
  rcases spec with hex | ⟨hb, hlow, hnone⟩
  · -- the pool ran out: the stack page cannot have been found
    exfalso
    apply hfound
    apply find_free_page_none_left
    intro pn hpn
    rw [hsl_pi]
    exact ld1 pn (hex pn hpn)
  obtain ⟨c, hc⟩ : ∃ c, c = (sm.processes pid).p_pagetable := ⟨_, rfl⟩
  rw [← hc] at hb hlow hnone ld3
  have hsmco : sm.current_owner = (pid : Int) := hb.2.2.2.2.2.2.1
  -- the new process, before the program is loaded
  have hinv3 : KernelInv K (set_p_state sm pid procstate.P_RUNNABLE) := by
    refine h.add_process pid c hpid1 hpidN hfree hb ?_ ?_ hlow hnone
    · intro j hj
      have := pf.2.1 j hj
      simp only [set_p_state, set_proc, if_neg hj, this, and_self]
    · refine ⟨?_, ?_, ?_⟩
      · simp [set_p_state, set_proc]
      · have := pf.2.2 pid
        simp only [set_p_state, set_proc, if_pos rfl]
        exact this
      · simp only [set_p_state, set_proc, if_pos rfl]
        exact hc.symm
  obtain ⟨hinvl, hstack⟩ := ld3 hpidN hinv3 hnone hret
  rw [← hsl_m] at hstack
  rw [← hsl] at hinvl
  have hlive : Live K (set_p_state sl pid procstate.P_RUNNABLE) pid :=
    ⟨hpidN, by simp [set_p_state, set_proc]⟩
  have hrootl : ((set_p_state sl pid procstate.P_RUNNABLE).processes pid).p_pagetable = c := by
    simp only [set_p_state, set_proc, if_pos rfl]
    rw [(hsl_proc pid).2.2]
    exact hc.symm
  have hsl_sane : AllocSane K sl := hinvl.sane
  have hsl_tree : TreeOwned sl c := by
    have := hinvl.tree_owned hlive
    rw [hrootl] at this
    exact this
  have hslco : sl.current_owner = (pid : Int) := hsl_co.trans hsmco
  -- the stack page
  obtain ⟨P, hP⟩ : ∃ P, P = (set_proc (find_free_page K sl).1 pid
    { (find_free_page K sl).1.processes pid with
      p_registers := { ((find_free_page K sl).1.processes pid).p_registers with
        reg_rsp := K.MEMSIZE_VIRTUAL } }).processes := ⟨_, rfl⟩
  obtain ⟨fp, hfp0, hfpN, hfprc, hfpa, e0, e1, e3, e5, e6, e7, e8, e9, e10, e11⟩ :=
    alloc_map_effect K sl c (K.MEMSIZE_VIRTUAL - PAGESIZE) P hsl_sane hsl_tree hfound
  rw [hslco] at e0 e6 e7
  have hffp := find_free_page_frame K sl
  have hs'eq : s' = set_p_state
      (virtual_memory_map K { (find_free_page K sl).1 with processes := P } c
        (K.MEMSIZE_VIRTUAL - PAGESIZE) (PAGEADDRESS (PAGENUMBER (find_free_page K sl).2))
        PAGESIZE (PTE_P ||| PTE_W ||| PTE_U) true).1 pid procstate.P_RUNNABLE := by
    rw [hs'']
    simp only [process_setup_stack]
    rw [assign_physical_page_referenced]
    · have hr : ((set_proc (find_free_page K sl).1 pid
          { (find_free_page K sl).1.processes pid with
            p_registers := { ((find_free_page K sl).1.processes pid).p_registers with
              reg_rsp := K.MEMSIZE_VIRTUAL } }).processes pid).p_pagetable = c := by
        simp only [set_proc, if_pos rfl]
        rw [hffp.1, (hsl_proc pid).2.2]
        exact hc.symm
      rw [hr, hP]
      rfl
    · show ((find_free_page K sl).1.pageinfo (PAGENUMBER (find_free_page K sl).2)).refcount ≠ 0
      rw [hfpa, PAGENUMBER_PAGEADDRESS, e0]
      exact Int.one_ne_zero
  obtain ⟨X, hX⟩ : ∃ X, X = virtual_memory_map K
    { (find_free_page K sl).1 with processes := P } c
    (K.MEMSIZE_VIRTUAL - PAGESIZE) (PAGEADDRESS (PAGENUMBER (find_free_page K sl).2))
    PAGESIZE (PTE_P ||| PTE_W ||| PTE_U) true := ⟨_, rfl⟩
  rw [← hX] at e1 e3 e5 e6 e7 e8 e9 e10 e11 hs'eq
  have hproc : ∀ j, (s'.processes j).p_state =
        ((set_p_state sl pid procstate.P_RUNNABLE).processes j).p_state ∧
      (s'.processes j).p_pid = ((set_p_state sl pid procstate.P_RUNNABLE).processes j).p_pid ∧
      (s'.processes j).p_pagetable =
        ((set_p_state sl pid procstate.P_RUNNABLE).processes j).p_pagetable := by
    intro j
    rw [hs'eq]
    by_cases hj : j = pid
    · subst hj
      simp [set_p_state, set_proc, e1, hP, hffp.1]
    · simp [set_p_state, set_proc, e1, hP, hffp.1, hj]
  have hstack' : virtual_memory_lookup (set_p_state sl pid procstate.P_RUNNABLE).physmem
      ((set_p_state sl pid procstate.P_RUNNABLE).processes pid).p_pagetable
      (K.MEMSIZE_VIRTUAL - PAGESIZE) = none := by
    rw [hrootl]
    exact hstack
  have hnode : ∀ n, IsNode X.1.physmem c n → IsNode sl.physmem c n ∨
      (n < NPAGES K ∧ (sl.pageinfo n).refcount = 0 ∧ n ≠ fp ∧
        X.1.pageinfo n = { owner := (pid : Int), refcount := 1 }) := by
    intro n hn
    rcases e5 n hn with g | ⟨g1, g2, g3⟩
    · exact Or.inl g
    · refine Or.inr ⟨g1, g2, g3, ?_⟩
      rcases e7 n with g | ⟨_, _, g⟩
      · have := e3.2 n hn
        rw [g, g2] at this
        omega
      · exact g
  have hinv' : KernelInv K s' := by
    by_cases hmapfail : X.2 < 0
    · refine hinvl.grow hK pid hlive fp (K.MEMSIZE_VIRTUAL - PAGESIZE) false hfpN hfprc hproc
        ?_ ?_ (fun hm => by cases hm) ?_ ?_ ?_ (fun hm => by cases hm) ?_ hstack'
      · rw [hrootl, hs'eq]
        exact e3.1
      · intro n hn
        rw [hrootl] at hn ⊢
        rw [hs'eq] at hn ⊢
        exact hnode n hn
      · intro pn _
        rw [hs'eq]
        rcases e7 pn with g | ⟨g1, g2, g3⟩
        · exact Or.inl g
        · exact Or.inr ⟨g1, g2, g3⟩
      · intro pn hpos hnn
        rw [hrootl] at hnn
        rw [hs'eq]
        exact e8 pn hpos hnn
      · intro va' hsp
        rw [hrootl, hs'eq]
        exact e9 va' hsp
      · intro _ va'
        rw [hrootl, hs'eq]
        exact e11 hmapfail va'
    · refine hinvl.grow hK pid hlive fp (K.MEMSIZE_VIRTUAL - PAGESIZE) true hfpN hfprc hproc
        ?_ ?_ ?_ ?_ ?_ ?_ ?_ (fun hm => by cases hm) hstack'
      · rw [hrootl, hs'eq]
        exact e3.1
      · intro n hn
        rw [hrootl] at hn ⊢
        rw [hs'eq] at hn ⊢
        exact hnode n hn
      · intro _
        rw [hs'eq]
        exact e6
      · intro pn _
        rw [hs'eq]
        rcases e7 pn with g | ⟨g1, g2, g3⟩
        · exact Or.inl g
        · exact Or.inr ⟨g1, g2, g3⟩
      · intro pn hpos hnn
        rw [hrootl] at hnn
        rw [hs'eq]
        exact e8 pn hpos hnn
      · intro va' hsp
        rw [hrootl, hs'eq]
        exact e9 va' hsp
      · intro _
        rw [hrootl, hs'eq]
        exact e10 hmapfail
  refine ⟨hinv', ?_⟩
  -- the kernel page table
  apply hkt.table_frame
  intro pn hneg hpos
  have hsm_pi : sm.pageinfo pn = s.pageinfo pn := by
    rw [(hb.2.2.2.1 pn hpos).2]
    simp
  have hsm_m : sm.physmem pn = s.physmem pn := hb.2.2.2.2.2.1 pn hpos
  obtain ⟨l1, l2⟩ := ld2 pn (by rw [hsm_pi]; exact hneg) (by rw [hsm_pi]; exact hpos)
  rw [← hsl_pi] at l1
  rw [← hsl_m] at l2
  have hposl : 0 < (sl.pageinfo pn).refcount := by
    rw [l1, hsm_pi]
    exact hpos
  have hnn : ¬ IsNode sl.physmem c pn := by
    intro hn
    have hn' : IsNode (set_p_state sl pid procstate.P_RUNNABLE).physmem
        ((set_p_state sl pid procstate.P_RUNNABLE).processes pid).p_pagetable pn := by
      rw [hrootl]
      exact hn
    have := (hinvl.nodes pid hlive pn hn').2
    have hown : (sl.pageinfo pn).owner = (pid : Int) := congrArg physical_pageinfo.owner this
    rw [l1, hsm_pi] at hown
    omega
  rw [hs'eq]
  refine ⟨?_, ?_⟩
  · show X.1.pageinfo pn = s.pageinfo pn
    rcases e7 pn with g | ⟨_, g, _⟩
    · rw [g, l1, hsm_pi]
    · omega
  · show X.1.physmem pn = s.physmem pn
    rw [e8 pn hposl hnn, l2, hsm_m]

/-! ## Boot establishes the invariant -/

theorem kernel_setup_loop_inv (K : KernelConfig) (L : KernelLayout) (env : LoaderModel)
    (hK : ConfigSane K) (hB : BootSane K) (hload : LoaderSound K env) :
    ∀ (l : List Nat) (s s' : KernelState), (∀ i ∈ l, 1 ≤ i ∧ i < K.NPROC) → l.Nodup →
      (∀ i ∈ l, (s.processes i).p_state = procstate.P_FREE) →
      KernelInv K s → KernelTable K L s → kernel_setup_loop K L env l s = some s' →
      KernelInv K s' := by
  intro l
  induction l with
  | nil =>
    intro s s' _ _ _ h _ hs'
    simp only [kernel_setup_loop] at hs'
    cases hs'
    exact h
  | cons i rest ih =>
    intro s s' hl hnd hfree h hkt hs'
    simp only [kernel_setup_loop] at hs'
    split at hs'
    · cases hs'
    · rename_i t ht
      obtain ⟨hi1, hiN⟩ := hl i (List.mem_cons_self i rest)
      obtain ⟨g1, g2⟩ := process_setup_inv K L env hK hB hload s t i (i - 1) hi1 hiN h hkt
        (hfree i (List.mem_cons_self i rest)) ht
      obtain ⟨f1, _⟩ := process_setup_frame K L env s t i (i - 1) ht
      obtain ⟨hni, hnd'⟩ := List.nodup_cons.mp hnd
      refine ih t s' (fun j hj => hl j (List.mem_cons_of_mem i hj)) hnd' ?_ g1 g2 hs'
      intro j hj
      rw [f1.2.1 j (fun hc => hni (hc ▸ hj))]
      exact hfree j (List.mem_cons_of_mem i hj)

/-- The state in which `kernel` starts process 1, on a machine as `hardware_init` and
`pageinfo_init` leave it, satisfies the invariant, and process 1 is Runnable. -/
theorem kernel_inv (K : KernelConfig) (L : KernelLayout) (env : LoaderModel)
    (isreserved : Nat → Bool) (hK : ConfigSane K) (hB : BootSane K)
    (hload : LoaderSound K env) (s0 : KernelState) (h0 : HardwareInit K L isreserved s0)
    (command : boot_command) (s : KernelState)
    (h : kernel K L env (pageinfo_init K L isreserved s0) command = trap_result.resumed s) :
    KernelInv K s ∧ (s.processes s.current).p_state = procstate.P_RUNNABLE ∧
      s.current < K.NPROC := by
  obtain ⟨hinv, hkt, hfree⟩ := kernel_table_init K L isreserved s0 hK hB h0
  have hN : 4 < K.NPROC := hB.1
  have hfin : ∀ t, KernelInv K t → run t 1 = trap_result.resumed s →
      KernelInv K s ∧ (s.processes s.current).p_state = procstate.P_RUNNABLE ∧
        s.current < K.NPROC := by
    intro t ht hr
    obtain ⟨r1, r2⟩ := run_result t 1 s hr
    rw [r1]
    refine ⟨ht.of_desc rfl rfl (fun j _ => ⟨rfl, rfl, rfl⟩), r2, ?_⟩
    show 1 < K.NPROC
    omega
  have hone : ∀ n t, process_setup K L env
      (kernel_init_processes K
        (virtual_memory_map K
          (virtual_memory_map K (pageinfo_init K L isreserved s0) L.kernel_pagetable 0 0
            K.PROC_START_ADDR (PTE_P ||| PTE_W) false).1
          L.kernel_pagetable 0xB8000 0xB8000 PAGESIZE (PTE_P ||| PTE_W ||| PTE_U) false).1)
      1 n = some t → KernelInv K t := by
    intro n t ht
    exact (process_setup_inv K L env hK hB hload _ t 1 n (le_refl 1) (by omega) hinv hkt
      (hfree 1 (by omega)) ht).1
  simp only [kernel] at h
  cases command with
  | fork =>
    simp only at h
    split at h
    · cases h
    · rename_i t ht
      exact hfin t (hone _ t ht) h
  | forkexit =>
    simp only at h
    split at h
    · cases h
    · rename_i t ht
      exact hfin t (hone _ t ht) h
  | other =>
    simp only at h
    split at h
    · cases h
    · rename_i t ht
      refine hfin t (kernel_setup_loop_inv K L env hK hB hload [1, 2, 3, 4] _ t ?_
        (by decide) ?_ hinv hkt ht) h
      · intro i hi
        simp only [List.mem_cons, List.mem_singleton, List.not_mem_nil, or_false] at hi
        omega
      · intro i hi
        simp only [List.mem_cons, List.mem_singleton, List.not_mem_nil, or_false] at hi
        exact hfree i (by omega)

/-- Every state reached by traps from a state that satisfies the invariant and in which a
Runnable process runs satisfies the invariant, and a Runnable process runs in it. -/
theorem traps_inv (K : KernelConfig) (L : KernelLayout) (hK : ConfigSane K)
    (s1 : KernelState) (h1 : KernelInv K s1)
    (hrun : (s1.processes s1.current).p_state = procstate.P_RUNNABLE)
    (hcur : s1.current < K.NPROC) (s : KernelState) (h : TrapsFrom K L s1 s) :
    KernelInv K s ∧ (s.processes s.current).p_state = procstate.P_RUNNABLE ∧
      s.current < K.NPROC := by
  induction h with
  | start => exact ⟨h1, hrun, hcur⟩
  | trap s reg s' _ htrap ih =>
    obtain ⟨e1, e2, e3, _⟩ := exception_inv K L s reg hK ih.1 ih.2.1 ih.2.2 s' htrap
    exact ⟨e1, e2, e3⟩

/-- The invariant holds in every state reached from boot by traps. -/
theorem booted_inv (K : KernelConfig) (L : KernelLayout) (env : LoaderModel)
    (isreserved : Nat → Bool) (hK : ConfigSane K) (hB : BootSane K)
    (hload : LoaderSound K env) (s0 : KernelState) (h0 : HardwareInit K L isreserved s0)
    (command : boot_command) (s1 : KernelState)
    (hboot : kernel K L env (pageinfo_init K L isreserved s0) command =
      trap_result.resumed s1)
    (s : KernelState) (h : TrapsFrom K L s1 s) :
    KernelInv K s ∧ (s.processes s.current).p_state = procstate.P_RUNNABLE ∧
      s.current < K.NPROC := by
  obtain ⟨b1, b2, b3⟩ := kernel_inv K L env isreserved hK hB hload s0 h0 command s1 hboot
  exact traps_inv K L hK s1 b1 b2 b3 s h

/-! ## The ownership partition: reference counts, isolation, sharing, page-table nodes -/

/-- C22, amended to the process region: in every state reached from boot (`hardware_init`,
`pageinfo_init`, `kernel`) by a sequence of traps, for every page-aligned address at or
above `PROC_START_ADDR` mapped in the page table of a process that is not Free, the
reference count of the mapped physical page is the number of (process, address) pairs,
over the processes that are not Free and the addresses of the process region, whose
mapping refers to that page.  The machine is as `ConfigSane` and `BootSane` say, and
`hardware_init` and the program loader, which are not part of the sources, are as
`HardwareInit` and `LoaderSound` assume. -/
theorem refcount_counts_mappings (K : KernelConfig) (L : KernelLayout) (env : LoaderModel)
    (isreserved : Nat → Bool) (hK : ConfigSane K) (hB : BootSane K)
    (hload : LoaderSound K env) (s0 : KernelState) (h0 : HardwareInit K L isreserved s0)
    (command : boot_command) (s1 : KernelState)
    (hboot : kernel K L env (pageinfo_init K L isreserved s0) command =
      trap_result.resumed s1)
    (s : KernelState) (h : TrapsFrom K L s1 s) :
    ∀ p, p < K.NPROC → (s.processes p).p_state ≠ procstate.P_FREE →
      ∀ va ∈ page_addresses K.PROC_START_ADDR K.MEMSIZE_VIRTUAL, ∀ vam,
        virtual_memory_lookup s.physmem (s.processes p).p_pagetable va = some vam →
        (s.pageinfo vam.pn).refcount = (mapping_count K s vam.pn : Int) := by
  intro p hp hst va hva vam hvam
  exact ((booted_inv K L env isreserved hK hB hload s0 h0 command s1 hboot s h).1.mapped_refcount
    ⟨hp, hst⟩ va hva vam hvam).1

/-- C27, amended for the console: in every state reached from boot by a sequence of traps,
in the address space of every process that is not Free, no page-aligned address below
`PROC_START_ADDR` other than the console page `0xB8000` is mapped both writable and
user-accessible.  The machine is as `ConfigSane` and `BootSane` say, and `hardware_init`
and the program loader, which are not part of the sources, are as `HardwareInit` and
`LoaderSound` assume. -/
theorem kernel_region_isolated (K : KernelConfig) (L : KernelLayout) (env : LoaderModel)
    (isreserved : Nat → Bool) (hK : ConfigSane K) (hB : BootSane K)
    (hload : LoaderSound K env) (s0 : KernelState) (h0 : HardwareInit K L isreserved s0)
    (command : boot_command) (s1 : KernelState)
    (hboot : kernel K L env (pageinfo_init K L isreserved s0) command =
      trap_result.resumed s1)
    (s : KernelState) (h : TrapsFrom K L s1 s) :
    ∀ p, p < K.NPROC → (s.processes p).p_state ≠ procstate.P_FREE →
      ∀ va ∈ page_addresses 0 K.PROC_START_ADDR, va ≠ 0xB8000 → ∀ vam,
        virtual_memory_lookup s.physmem (s.processes p).p_pagetable va = some vam →
        ¬ (vam.perm &&& PTE_W ≠ 0 ∧ vam.perm &&& PTE_U ≠ 0) := by
  intro p hp hst va hva hcon vam hvam
  obtain ⟨v, l1, _, _, l4⟩ :=
    (booted_inv K L env isreserved hK hB hload s0 h0 command s1 hboot s h).1.low p ⟨hp, hst⟩
      va hva
  rw [hvam] at l1
  cases l1
  exact l4 hcon

/-- C30: in every state reached from boot by a sequence of traps, for every process that
is not Free, every node of its page table (the root, the intermediate nodes and the leaf
tables) is a physical page whose recorded owner is the pid of that process and whose
reference count is exactly 1.  The machine is as `ConfigSane` and `BootSane` say, and
`hardware_init` and the program loader, which are not part of the sources, are as
`HardwareInit` and `LoaderSound` assume. -/
theorem page_table_nodes_owned (K : KernelConfig) (L : KernelLayout) (env : LoaderModel)
    (isreserved : Nat → Bool) (hK : ConfigSane K) (hB : BootSane K)
    (hload : LoaderSound K env) (s0 : KernelState) (h0 : HardwareInit K L isreserved s0)
    (command : boot_command) (s1 : KernelState)
    (hboot : kernel K L env (pageinfo_init K L isreserved s0) command =
      trap_result.resumed s1)
    (s : KernelState) (h : TrapsFrom K L s1 s) :
    ∀ p, p < K.NPROC → (s.processes p).p_state ≠ procstate.P_FREE →
      ∀ n, IsNode s.physmem (s.processes p).p_pagetable n →
        n < NPAGES K ∧ (s.pageinfo n).owner = (s.processes p).p_pid ∧
          (s.pageinfo n).refcount = 1 := by
  intro p hp hst n hn
  obtain ⟨hinv, _, _⟩ := booted_inv K L env isreserved hK hB hload s0 h0 command s1 hboot s h
  obtain ⟨n1, n2⟩ := hinv.nodes p ⟨hp, hst⟩ n hn
  rw [n2, hinv.zero.2.2 p hp]
  exact ⟨n1, rfl, rfl⟩

/-! ## Boot: the pool does not run out -/

/-- The addresses below `2 ^ 21` share the entries of the three upper levels. -/
theorem samePath_low (va va' : Nat) (h : va < 2 ^ 21) (h' : va' < 2 ^ 21) :
    SamePath va va' 3 := by
  have h0 : ∀ v i, v < 2 ^ 21 → i < 3 → PAGEINDEX v i = 0 := by
    intro v i hv hi
    simp only [PAGEINDEX, NPAGETABLEENTRIES]
    interval_cases i <;> simp <;> omega
  intro i hi
  rw [h0 va i h hi, h0 va' i h' hi]

theorem free_page_count_congr (K : KernelConfig) (s t : KernelState)
    (h : ∀ pn, pn < NPAGES K → t.pageinfo pn = s.pageinfo pn) :
    free_page_count K t = free_page_count K s := by
  simp only [free_page_count]
  apply List.countP_congr
  intro pn hpn
  rw [h pn (List.mem_range.mp hpn)]

/-- `find_free_page` takes at most one page from the pool. -/
theorem find_free_page_count (K : KernelConfig) (s : KernelState) (hs : AllocSane K s) :
    AllocSane K (find_free_page K s).1 ∧
      free_page_count K s ≤ free_page_count K (find_free_page K s).1 + 1 := by
  rcases find_free_page_alloc K s hs with ⟨_, h1, _⟩ | ⟨fp, hfp0, hfpN, hrc, _, _, _, h1⟩
  · rw [h1]
    exact ⟨hs, Nat.le_succ _⟩
  · rw [h1]
    refine ⟨⟨fun pn hpn => ?_, ?_⟩, ?_⟩
    · by_cases hp : pn = fp
      · subst hp
        simp
      · simp only [set_page_pageinfo, set_pageinfo_pageinfo, if_neg hp]
        exact hs.1 pn hpn
    · have : (0 : Nat) ≠ fp := by omega
      simp only [set_page_pageinfo, set_pageinfo_pageinfo, if_neg this]
      exact hs.2
    · have e := free_page_count_alloc K s
        (set_page (set_pageinfo s fp { owner := s.current_owner, refcount := 1 }) fp
          (fun _ => 0)) fp hfpN hrc (by simp) (fun pn hp => by simp [hp])
      omega

theorem pt_next_alloc_count (K : KernelConfig) (s : KernelState) (pt va perm l : Nat)
    (a : Bool) (hs : AllocSane K s) :
    AllocSane K (pt_next_alloc K s pt va perm l a).1 ∧
      free_page_count K s ≤ free_page_count K (pt_next_alloc K s pt va perm l a).1 + 1 := by
  have h := find_free_page_count K s hs
  simp only [pt_next_alloc]
  split
  · exact ⟨hs, Nat.le_succ _⟩
  · split
    · exact ⟨hs, Nat.le_succ _⟩
    · split
      · exact h
      · exact h

theorem lookup_l4pagetable_count (K : KernelConfig) (s : KernelState) (r va perm : Nat)
    (a : Bool) (hs : AllocSane K s) :
    AllocSane K (lookup_l4pagetable K s r va perm a).1 ∧
      free_page_count K s ≤ free_page_count K (lookup_l4pagetable K s r va perm a).1 + 3 := by
  have h0 := pt_next_alloc_count K s r va perm 0 a hs
  simp only [lookup_l4pagetable]
  split
  · rename_i s1 heq
    rw [heq] at h0
    dsimp only at h0 ⊢
    exact ⟨h0.1, by have := h0.2; omega⟩
  · rename_i s1 l2 heq
    rw [heq] at h0
    dsimp only at h0
    have h1 := pt_next_alloc_count K s1 l2 va perm 1 a h0.1
    split
    · rename_i s2 heq2
      rw [heq2] at h1
      dsimp only at h1 ⊢
      exact ⟨h1.1, by have := h0.2; have := h1.2; omega⟩
    · rename_i s2 l3 heq2
      rw [heq2] at h1
      dsimp only at h1
      have h2 := pt_next_alloc_count K s2 l3 va perm 2 a h1.1
      exact ⟨h2.1, by have := h0.2; have := h1.2; have := h2.2; omega⟩

/-- Mapping one page takes at most three pages from the pool. -/
theorem virtual_memory_map_page_count (K : KernelConfig) (s : KernelState)
    (r va pa perm : Nat) (a : Bool) (hs : AllocSane K s) :
    AllocSane K (virtual_memory_map_page K s r va pa perm a).1 ∧
      free_page_count K s ≤
        free_page_count K (virtual_memory_map_page K s r va pa perm a).1 + 3 := by
  have h := lookup_l4pagetable_count K s r va perm a hs
  simp only [virtual_memory_map_page]
  split
  · rename_i s1 l4 heq
    rw [heq] at h
    exact h
  · rename_i s1 heq
    rw [heq] at h
    split <;> exact h

/-- Mapping a page at an address below `2 ^ 21` into an anchored table succeeds, and the
table is anchored afterwards. -/
theorem virtual_memory_map_page_anchored (K : KernelConfig) (s : KernelState)
    (c va pa perm : Nat) (hs : AllocSane K s) (ht : TreeOwned s c) (hpa : pa % 4096 = 0)
    (hperm4 : perm < 4096) (hperm : perm % 2 = 1) (hva : va < 2 ^ 21)
    (hA : Anchored K c s) :
    (virtual_memory_map_page K s c va pa perm true).2 = 0 ∧
      Anchored K c (virtual_memory_map_page K s c va pa perm true).1 := by
  obtain ⟨_, _, _, hr, hok, _, hfail⟩ :=
    virtual_memory_map_page_spec K s c va pa perm hs ht hpa hperm4 hperm
  have hcnt := (virtual_memory_map_page_count K s c va pa perm true hs).2
  have hP : perm &&& PTE_P ≠ 0 := (pte_present_iff perm).mpr hperm
  have hone : 1 ≤ free_page_count K (virtual_memory_map_page K s c va pa perm true).1 := by
    rcases hA with ⟨⟨va0, v, hva0, hlk⟩, h1⟩ | h4
    · obtain ⟨l4, hw0⟩ : ∃ l4, pt_walk s.physmem c va0 3 = some l4 := by
        cases hw : pt_walk s.physmem c va0 3 with
        | none =>
          rw [virtual_memory_lookup_of_walk_none _ _ _ hw] at hlk
          cases hlk
        | some a => exact ⟨a, rfl⟩
      have hw : pt_walk s.physmem c va 3 = some l4 := by
        rw [pt_walk_samepath s.physmem c va va0 3 (samePath_low va va0 hva hva0)]
        exact hw0
      rw [virtual_memory_map_page_present K s c va pa perm l4 true hP hw]
      exact h1
    · omega
  have hsucc : (virtual_memory_map_page K s c va pa perm true).2 = 0 := by
    rcases hr with h | h
    · exact h
    · exfalso
      obtain ⟨pn, hpn, h0⟩ := free_page_count_pos K _ hone
      have := (hfail h).2 pn hpn
      omega
  exact ⟨hsucc, Or.inl ⟨⟨va, _, hva, hok hsucc⟩, hone⟩⟩

theorem virtual_memory_map_anchored (K : KernelConfig) (s : KernelState)
    (c va pa perm : Nat) (hs : AllocSane K s) (ht : TreeOwned s c) (hpa : pa % 4096 = 0)
    (hperm4 : perm < 4096) (hperm : perm % 2 = 1) (hva : va < 2 ^ 21)
    (hA : Anchored K c s) :
    ¬ (virtual_memory_map K s c va pa PAGESIZE perm true).2 < 0 ∧
      Anchored K c (virtual_memory_map K s c va pa PAGESIZE perm true).1 := by
  obtain ⟨h1, h2⟩ := virtual_memory_map_page_anchored K s c va pa perm hs ht hpa hperm4 hperm
    hva hA
  rw [virtual_memory_map_single]
  refine ⟨?_, h2⟩
  show ¬ (if (virtual_memory_map_page K s c va pa perm true).2 < 0 then (-1 : Int) else 0) < 0
  rw [h1]
  decide

/-- Mapping `n` pages below `2 ^ 21` into an anchored table succeeds and takes nothing from
the pool once the table is anchored. -/
theorem virtual_memory_map_pages_anchored (K : KernelConfig) (c perm : Nat)
    (hperm4 : perm < 4096) (hperm : perm % 2 = 1) :
    ∀ (n : Nat) (s : KernelState) (va pa : Nat), AllocSane K s → TreeOwned s c →
      pa % 4096 = 0 → va + n * 4096 ≤ 2 ^ 21 → Anchored K c s →
      AllocSane K (virtual_memory_map_pages K c perm true n s va pa).1 ∧
        TreeOwned (virtual_memory_map_pages K c perm true n s va pa).1 c ∧
        Anchored K c (virtual_memory_map_pages K c perm true n s va pa).1 := by
  intro n
  induction n with
  | zero =>
    intro s va pa hs ht _ _ hA
    exact ⟨hs, ht, hA⟩
  | succ n ih =>
    intro s va pa hs ht hpa hva hA
    obtain ⟨_, hs1, ht1, _⟩ :=
      virtual_memory_map_page_spec K s c va pa perm hs ht hpa hperm4 hperm
    obtain ⟨h1, h2⟩ := virtual_memory_map_page_anchored K s c va pa perm hs ht hpa hperm4
      hperm (by omega) hA
    simp only [virtual_memory_map_pages]
    rw [if_neg (by rw [h1]; decide)]
    exact ih _ _ _ hs1 ht1 (by simp only [PAGESIZE]; omega) (by simp only [PAGESIZE]; omega) h2

/-- The loop of `copy_pagetable` into an anchored table, when the source maps only
addresses below `2 ^ 21`, does not fail. -/
theorem copy_pagetable_loop_anchored (K : KernelConfig) (s : KernelState) (proot c : Nat)
    (owner : Int) (inc : Nat → Int) :
    ∀ (l : List Nat) (t : KernelState),
      (∀ va ∈ l, va % 4096 = 0) → NodesReferenced s proot l →
      (∀ va ∈ l, ∀ vam, virtual_memory_lookup s.physmem proot va = some vam → va < 2 ^ 21) →
      BuildInv K s owner c inc t → Anchored K c t →
      (copy_pagetable_loop K proot c l t).2 = true ∧
        Anchored K c (copy_pagetable_loop K proot c l t).1 := by
  intro l
  induction l with
  | nil =>
    intro t _ _ _ _ hA
    exact ⟨rfl, hA⟩
  | cons va rest ih =>
    intro t hal hst hlow hinv hA
    have hal' : ∀ v ∈ rest, v % 4096 = 0 := fun v hv => hal v (List.mem_cons_of_mem _ hv)
    have hst' : NodesReferenced s proot rest :=
      fun v hv => hst v (List.mem_cons_of_mem _ hv)
    have hlow' : ∀ v ∈ rest, ∀ vam, virtual_memory_lookup s.physmem proot v = some vam →
        v < 2 ^ 21 := fun v hv => hlow v (List.mem_cons_of_mem _ hv)
    have hlk : virtual_memory_lookup t.physmem proot va =
        virtual_memory_lookup s.physmem proot va :=
      hinv.lookup_stable proot va (hst va (List.mem_cons_self _ _))
    cases hsrc : virtual_memory_lookup s.physmem proot va with
    | none =>
      have hres : copy_pagetable_loop K proot c (va :: rest) t =
          copy_pagetable_loop K proot c rest t := by
        simp only [copy_pagetable_loop, hlk, hsrc]
      rw [hres]
      exact ih t hal' hst' hlow' hinv hA
    | some vam =>
      obtain ⟨hp4, hp2, hpa⟩ := virtual_memory_lookup_props s.physmem proot va vam hsrc
      have hva0 : va % 4096 = 0 := hal va (List.mem_cons_self _ _)
      have hpa0 : vam.pa % 4096 = 0 := by omega
      obtain ⟨hm, hs1, ht1, _⟩ :=
        virtual_memory_map_spec K t c va vam.pa vam.perm hinv.1 hinv.2.1 hpa0 hp4 hp2
      have hinv1 := hinv.mapstep hm hs1 ht1
      obtain ⟨hneg, hA1⟩ := virtual_memory_map_anchored K t c va vam.pa vam.perm hinv.1
        hinv.2.1 hpa0 hp4 hp2 (hlow va (List.mem_cons_self _ _) vam hsrc) hA
      have hres : copy_pagetable_loop K proot c (va :: rest) t =
          copy_pagetable_loop K proot c rest
            (virtual_memory_map K t c va vam.pa PAGESIZE vam.perm true).1 := by
        simp only [copy_pagetable_loop, hlk, hsrc, if_neg hneg]
      rw [hres]
      exact ih _ hal' hst' hlow' hinv1 hA1

/-- The state in which `copy_pagetable` starts its loop: the new root page, zeroed, is a
table under construction. -/
theorem copy_pagetable_root_inv (K : KernelConfig) (s : KernelState) (owner : Int) (fp : Nat)
    (hs : AllocSane K s) (hfp0 : 0 < fp) (hfpN : fp < NPAGES K)
    (hrc : (s.pageinfo fp).refcount = 0) :
    BuildInv K s owner (PAGEADDRESS fp) (fun _ => 0)
      (set_page (set_pageinfo { s with current_owner := owner } fp
        { owner := owner, refcount := 1 }) fp (fun _ => 0)) := by
  obtain ⟨_, hinj, hnodes, _⟩ := pt_walk_zero_root
    (set_page (set_pageinfo { s with current_owner := owner } fp
      { owner := owner, refcount := 1 }) fp (fun _ => 0)).physmem (PAGEADDRESS fp)
    (by intro idx; simp [PAGENUMBER_PAGEADDRESS])
  rw [PAGENUMBER_PAGEADDRESS] at hnodes
  refine ⟨⟨?_, ?_⟩, ⟨hinj, ?_⟩, ?_, ?_, ?_, ?_, rfl, rfl⟩
  · intro pn hpn
    by_cases hp : pn = fp
    · subst hp; simp
    · simp only [set_page_pageinfo, set_pageinfo_pageinfo, if_neg hp]
      exact hs.1 pn hpn
  · have : (0 : Nat) ≠ fp := by omega
    simp only [set_page_pageinfo, set_pageinfo_pageinfo, if_neg this]
    exact hs.2
  · intro n hn
    rw [hnodes n hn]
    simp
  · intro n hn
    rw [hnodes n hn]
    exact ⟨hfpN, hrc⟩
  · intro pn hpos
    have hp : pn ≠ fp := by
      intro hc; subst hc; omega
    refine ⟨le_refl _, ?_⟩
    simp [hp]
  · intro pn _
    by_cases hp : pn = fp
    · subst hp
      right
      exact ⟨hfpN, hrc, by simp⟩
    · left
      simp [hp]
  · intro pn hpos
    have hp : pn ≠ fp := by
      intro hc; subst hc; omega
    simp [hp]

/-- With five free pages, `copy_pagetable` of a table that maps only addresses below
`2 ^ 21` succeeds, and the copy is anchored. -/
theorem copy_pagetable_anchored (K : KernelConfig) (s : KernelState) (proot : Nat)
    (owner : Int) (hs : AllocSane K s)
    (hst : NodesReferenced s proot (page_addresses 0 K.MEMSIZE_VIRTUAL))
    (hlow : ∀ va ∈ page_addresses 0 K.MEMSIZE_VIRTUAL, ∀ vam,
      virtual_memory_lookup s.physmem proot va = some vam → va < 2 ^ 21)
    (hcount : 5 ≤ free_page_count K s) :
    (copy_pagetable K s proot owner).2 ≠ NULL ∧
      Anchored K (copy_pagetable K s proot owner).2 (copy_pagetable K s proot owner).1 := by
  have hs0 : AllocSane K { s with current_owner := owner } := hs
  rcases find_free_page_alloc K { s with current_owner := owner } hs0 with
    ⟨_, _, hall⟩ | ⟨fp, hfp0, hfpN, hrc, _, h2, hne, h1⟩
  · exfalso
    obtain ⟨pn, hpn, h0⟩ := free_page_count_pos K s (by omega)
    have : 0 < (s.pageinfo pn).refcount := hall pn hpn
    omega
  · have hrc' : (s.pageinfo fp).refcount = 0 := hrc
    have hinv1 := copy_pagetable_root_inv K s owner fp hs hfp0 hfpN hrc'
    have hA0 : Anchored K (PAGEADDRESS fp)
        (set_page (set_pageinfo { s with current_owner := owner } fp
          { owner := owner, refcount := 1 }) fp (fun _ => 0)) := by
      right
      have e := free_page_count_alloc K s
        (set_page (set_pageinfo { s with current_owner := owner } fp
          { owner := owner, refcount := 1 }) fp (fun _ => 0)) fp hfpN hrc' (by simp)
        (fun pn hp => by simp [hp])
      omega
    obtain ⟨hflag, hA⟩ := copy_pagetable_loop_anchored K s proot (PAGEADDRESS fp) owner
      (fun _ => 0) (page_addresses 0 K.MEMSIZE_VIRTUAL) _
      (fun va hva => (page_addresses_zero_mem _ va hva).1) hst hlow hinv1 hA0
    have hne' : PAGEADDRESS fp ≠ NULL := by rw [← h2]; exact hne
    have hres : copy_pagetable K s proot owner =
        ((copy_pagetable_loop K proot (PAGEADDRESS fp)
          (page_addresses 0 K.MEMSIZE_VIRTUAL)
          (set_page (set_pageinfo { s with current_owner := owner } fp
            { owner := owner, refcount := 1 }) fp (fun _ => 0))).1, PAGEADDRESS fp) := by
      simp only [copy_pagetable, h2, h1, if_neg hne', if_pos hflag]
    rw [hres]
    exact ⟨hne', hA⟩

/-- On a machine whose physical memory lies below `2 ^ 21` and whose console page lies in
the kernel region, with five free pages: the address space `process_setup` builds before
it loads the program leaves a page free, and it maps the console page present, writable
and user-accessible. -/
theorem process_setup_map_room (K : KernelConfig) (L : KernelLayout) (env : LoaderModel)
    (hK : ConfigSane K) (hB : BootSane K) (s : KernelState) (pid : Nat)
    (hpidN : pid < K.NPROC) (h : KernelInv K s) (hkt : KernelTable K L s)
    (hMP : K.MEMSIZE_PHYSICAL ≤ 2 ^ 21) (hcon : 0xB8000 < K.PROC_START_ADDR)
    (hcount : 5 ≤ free_page_count K s) :
    1 ≤ free_page_count K (process_setup_map K L env s pid) ∧
      virtual_memory_lookup (process_setup_map K L env s pid).physmem
          ((process_setup_map K L env s pid).processes pid).p_pagetable 0xB8000 =
        some { pn := 0xB8, pa := 0xB8000, perm := PTE_P ||| PTE_U ||| PTE_W } := by
  obtain ⟨hc1, hc2, hc3, hc4, hc5, hc6, hc7, hc8⟩ := hB
  obtain ⟨hk1, hk2, hk3, hk4⟩ := hK
  have hi8 : int8 (pid : Int) = pid := int8_natCast pid (by omega)
  obtain ⟨cp, hcp⟩ : ∃ cp, cp = copy_pagetable K
    (set_proc s pid { s.processes pid with p_registers := env.process_init })
    L.kernel_pagetable (int8 pid) := ⟨_, rfl⟩
  have hs1 : AllocSane K
      (set_proc s pid { s.processes pid with p_registers := env.process_init }) := h.sane
  have hst : NodesReferenced
      (set_proc s pid { s.processes pid with p_registers := env.process_init })
      L.kernel_pagetable (page_addresses 0 K.MEMSIZE_VIRTUAL) :=
    fun va _ k hk a hw => (hkt.nodes _ ⟨va, k, a, hk, hw, rfl⟩).2.2
  have hlowaddr : ∀ va ∈ page_addresses 0 K.MEMSIZE_VIRTUAL, ∀ vam,
      virtual_memory_lookup
        (set_proc s pid { s.processes pid with p_registers := env.process_init }).physmem
        L.kernel_pagetable va = some vam → va < 2 ^ 21 := by
    intro va hva vam hvam
    obtain ⟨v1, v2⟩ := page_addresses_zero_mem _ va hva
    by_cases hlt : va < K.MEMSIZE_PHYSICAL
    · omega
    · have := hkt.high va (page_addresses_of _ _ va hk3 v1 (by omega) v2) (by omega)
      have hvam' : virtual_memory_lookup s.physmem L.kernel_pagetable va = some vam := hvam
      rw [this] at hvam'
      cases hvam'
  have hroot : ((process_setup_map K L env s pid).processes pid).p_pagetable = cp.2 := by
    rw [process_setup_map_eq K L env s pid cp hcp, virtual_memory_map_processes,
      virtual_memory_map_processes, virtual_memory_map_processes]
    simp [set_p_pagetable, set_proc]
  rw [hroot, process_setup_map_eq K L env s pid cp hcp]
  obtain ⟨hnull, hanch⟩ := copy_pagetable_anchored K _ L.kernel_pagetable (int8 pid) hs1 hst
    hlowaddr hcount
  rw [← hcp] at hnull hanch
  obtain ⟨hb, _⟩ :=
    (copy_pagetable_spec K _ L.kernel_pagetable (int8 pid) hs1 hk2 hst).2.2.2.2.2.2
      (by rw [← hcp]; exact hnull)
  rw [← hcp] at hb
  have hs3 : AllocSane K { set_p_pagetable cp.1 pid cp.2 with current_owner := int8 pid } :=
    hb.1
  have ht3 : TreeOwned { set_p_pagetable cp.1 pid cp.2 with current_owner := int8 pid }
      cp.2 := hb.2.1
  have ha3 : Anchored K cp.2
      { set_p_pagetable cp.1 pid cp.2 with current_owner := int8 pid } := hanch
  have hn : K.PROC_START_ADDR / PAGESIZE * 4096 = K.PROC_START_ADDR := by
    simp only [PAGESIZE]
    omega
  have hn3 : K.PROC_START_ADDR + (K.MEMSIZE_PHYSICAL - K.PROC_START_ADDR) / PAGESIZE * 4096 =
      K.MEMSIZE_PHYSICAL := by
    simp only [PAGESIZE]
    omega
  -- the kernel region, mapped again
  have e1 : virtual_memory_map K
      { set_p_pagetable cp.1 pid cp.2 with current_owner := int8 pid }
      cp.2 0 0 K.PROC_START_ADDR (PTE_P ||| PTE_W) true =
      virtual_memory_map_pages K cp.2 (PTE_P ||| PTE_W) true (K.PROC_START_ADDR / PAGESIZE)
        { set_p_pagetable cp.1 pid cp.2 with current_owner := int8 pid } 0 0 := rfl
  obtain ⟨hs4', ht4, ha4⟩ := virtual_memory_map_pages_anchored K cp.2 (PTE_P ||| PTE_W)
    (by decide) (by decide) (K.PROC_START_ADDR / PAGESIZE)
    { set_p_pagetable cp.1 pid cp.2 with current_owner := int8 pid } 0 0 hs3 ht3 (by decide)
    (by rw [hn]; omega) ha3
  rw [e1]
  obtain ⟨s4, hs4⟩ : ∃ s4, s4 = (virtual_memory_map_pages K cp.2 (PTE_P ||| PTE_W) true
    (K.PROC_START_ADDR / PAGESIZE)
    { set_p_pagetable cp.1 pid cp.2 with current_owner := int8 pid } 0 0).1 := ⟨_, rfl⟩
  rw [← hs4] at hs4' ht4 ha4 ⊢
  -- the console
  obtain ⟨_, _, ht5, hok5, _, _⟩ := virtual_memory_map_spec K s4 cp.2 0xB8000
    0xB8000 (PTE_P ||| PTE_U ||| PTE_W) hs4' ht4 (by decide) (by decide) (by decide)
  obtain ⟨hn5, ha5⟩ := virtual_memory_map_anchored K s4 cp.2 0xB8000 0xB8000
    (PTE_P ||| PTE_U ||| PTE_W) hs4' ht4 (by decide) (by decide) (by decide) (by decide) ha4
  have hl5 := hok5 hn5
  obtain ⟨s5, hs5⟩ : ∃ s5, s5 = (virtual_memory_map K s4 cp.2 0xB8000 0xB8000 PAGESIZE
    (PTE_P ||| PTE_U ||| PTE_W) true).1 := ⟨_, rfl⟩
  rw [← hs5] at ht5 ha5 hl5 ⊢
  -- physical memory above the kernel region, unmapped
  have e3 : virtual_memory_map K s5 cp.2 K.PROC_START_ADDR K.PROC_START_ADDR
      (K.MEMSIZE_PHYSICAL - K.PROC_START_ADDR) 0 true =
      virtual_memory_map_pages K cp.2 0 true
        ((K.MEMSIZE_PHYSICAL - K.PROC_START_ADDR) / PAGESIZE) s5 K.PROC_START_ADDR
        K.PROC_START_ADDR := rfl
  obtain ⟨q1, _, _, _, _, _, q7⟩ := virtual_memory_map_pages_existing K cp.2 0 true
    (Or.inl (by decide)) (by decide) ((K.MEMSIZE_PHYSICAL - K.PROC_START_ADDR) / PAGESIZE)
    s5 K.PROC_START_ADDR K.PROC_START_ADDR ht5.1 hk3 hk3 (by rw [hn3]; omega)
    (fun hp => absurd hp (by decide))
  rw [e3]
  refine ⟨?_, ?_⟩
  · rw [free_page_count_congr K s5 _ (fun pn _ => by rw [q1])]
    rcases ha5 with g | g
    · exact g.2
    · omega
  · rw [q7 0xB8000 (by decide) (by decide), if_neg (by omega), hl5]
    rfl

/-- On a machine whose physical memory lies below `2 ^ 21` and whose console page lies in
the kernel region, with five free pages and a loader that allocates nothing:
`process_setup` succeeds, and the new process maps the console page present, writable and
user-accessible. -/
theorem process_setup_console (K : KernelConfig) (L : KernelLayout)
    (hK : ConfigSane K) (hB : BootSane K) (s : KernelState) (pid n : Nat)
    (hpidN : pid < K.NPROC) (h : KernelInv K s) (hkt : KernelTable K L s)
    (hMP : K.MEMSIZE_PHYSICAL ≤ 2 ^ 21) (hcon : 0xB8000 < K.PROC_START_ADDR)
    (hcount : 5 ≤ free_page_count K s) :
    ∃ s', process_setup K L boot_loader s pid n = some s' ∧
      virtual_memory_lookup s'.physmem (s'.processes pid).p_pagetable 0xB8000 =
        some { pn := 0xB8, pa := 0xB8000, perm := PTE_P ||| PTE_U ||| PTE_W } := by
  have hB' := hB
  obtain ⟨hc1, hc2, hc3, hc4, hc5, hc6, hc7, hc8⟩ := hB'
  have hK' := hK
  obtain ⟨hk1, hk2, hk3, hk4⟩ := hK'
  obtain ⟨hroom, hlook⟩ :=
    process_setup_map_room K L boot_loader hK hB s pid hpidN h hkt hMP hcon hcount
  have spec := process_setup_map_spec K L boot_loader hK hB s pid hpidN h hkt
  simp only [process_setup]
  obtain ⟨sm, hsm⟩ : ∃ sm, sm = process_setup_map K L boot_loader s pid := ⟨_, rfl⟩
  rw [← hsm] at hroom hlook spec ⊢
  obtain ⟨sl, hsl⟩ : ∃ sl, sl = program_load_state boot_loader sm pid n := ⟨_, rfl⟩
  have hsl_pi : sl.pageinfo = sm.pageinfo := by rw [hsl]; rfl
  have hsl_m : sl.physmem = sm.physmem := by rw [hsl]; rfl
  have hsl_root : (sl.processes pid).p_pagetable = (sm.processes pid).p_pagetable := by
    rw [hsl]
    simp [program_load_state, set_proc]
  rw [← hsl]
  rcases spec with hex | ⟨hb, _, _⟩
  · exfalso
    obtain ⟨pn, hpn, h0⟩ := free_page_count_pos K sm hroom
    have := hex pn hpn
    omega
  obtain ⟨c, hc⟩ : ∃ c, c = (sm.processes pid).p_pagetable := ⟨_, rfl⟩
  rw [← hc] at hb hlook
  have hsl_sane : AllocSane K sl :=
    ⟨by rw [hsl_pi]; exact hb.1.1, by rw [hsl_pi]; exact hb.1.2⟩
  have hsl_tree : TreeOwned sl c := by
    refine ⟨by rw [hsl_m]; exact hb.2.1.1, fun n hn => ?_⟩
    rw [hsl_pi]
    exact hb.2.1.2 n (by rw [← hsl_m]; exact hn)
  have hfound : ¬ (find_free_page K sl).2 = NULL := by
    intro hnull
    rcases find_free_page_alloc K sl hsl_sane with ⟨_, _, hall⟩ | ⟨_, _, _, _, _, _, hne, _⟩
    · obtain ⟨pn, hpn, h0⟩ := free_page_count_pos K sm hroom
      have := hall pn hpn
      rw [hsl_pi] at this
      omega
    · exact hne hnull
  have hret : ¬ (boot_loader.program_load sm pid n).2.2.2 < 0 := by
    show ¬ (0 : Int) < 0
    decide
  rw [if_neg hret, if_neg hfound]
  refine ⟨_, rfl, ?_⟩
  -- the stack page
  obtain ⟨P, hP⟩ : ∃ P, P = (set_proc (find_free_page K sl).1 pid
    { (find_free_page K sl).1.processes pid with
      p_registers := { ((find_free_page K sl).1.processes pid).p_registers with
        reg_rsp := K.MEMSIZE_VIRTUAL } }).processes := ⟨_, rfl⟩
  obtain ⟨fp, _, _, _, hfpa, e0, e1, _, _, _, _, _, e9, _, _⟩ :=
    alloc_map_effect K sl c (K.MEMSIZE_VIRTUAL - PAGESIZE) P hsl_sane hsl_tree hfound
  have hffp := find_free_page_frame K sl
  have hs'eq : process_setup_stack K (find_free_page K sl).1 pid (find_free_page K sl).2 =
      set_p_state
        (virtual_memory_map K { (find_free_page K sl).1 with processes := P } c
          (K.MEMSIZE_VIRTUAL - PAGESIZE) (PAGEADDRESS (PAGENUMBER (find_free_page K sl).2))
          PAGESIZE (PTE_P ||| PTE_W ||| PTE_U) true).1 pid procstate.P_RUNNABLE := by
    simp only [process_setup_stack]
    rw [assign_physical_page_referenced]
    · have hr : ((set_proc (find_free_page K sl).1 pid
          { (find_free_page K sl).1.processes pid with
            p_registers := { ((find_free_page K sl).1.processes pid).p_registers with
              reg_rsp := K.MEMSIZE_VIRTUAL } }).processes pid).p_pagetable = c := by
        simp only [set_proc, if_pos rfl]
        rw [hffp.1, hsl_root]
        exact hc.symm
      rw [hr, hP]
      rfl
    · show ((find_free_page K sl).1.pageinfo (PAGENUMBER (find_free_page K sl).2)).refcount ≠ 0
      rw [hfpa, PAGENUMBER_PAGEADDRESS, e0]
      exact Int.one_ne_zero
  rw [hs'eq]
  obtain ⟨X, hX⟩ : ∃ X, X = virtual_memory_map K
    { (find_free_page K sl).1 with processes := P } c
    (K.MEMSIZE_VIRTUAL - PAGESIZE) (PAGEADDRESS (PAGENUMBER (find_free_page K sl).2))
    PAGESIZE (PTE_P ||| PTE_W ||| PTE_U) true := ⟨_, rfl⟩
  rw [← hX] at e1 e9 ⊢
  have hroot' : ((set_p_state X.1 pid procstate.P_RUNNABLE).processes pid).p_pagetable =
      c := by
    simp only [set_p_state, set_proc, if_pos rfl]
    rw [e1, hP]
    simp only [set_proc, if_pos rfl]
    rw [hffp.1, hsl_root]
    exact hc.symm
  rw [hroot']
  show virtual_memory_lookup X.1.physmem c 0xB8000 = _
  have hnsp : ¬ SamePath (K.MEMSIZE_VIRTUAL - PAGESIZE) 0xB8000 4 := by
    intro hsp
    have := hsp.aligned_eq (by simp only [PAGESIZE]; omega) (by decide)
      (by simp only [PAGESIZE]; omega) (by decide)
    simp only [PAGESIZE] at this
    omega
  rw [e9 0xB8000 hnsp, hsl_m]
  exact hlook

/-- On a machine whose physical memory lies below `2 ^ 21` and whose console page lies in
the kernel region, set up by `hardware_init` as assumed and with five pages left free by
`pageinfo_init`: `kernel`, called with the command `fork` and a loader that allocates
nothing, starts process 1, and process 1 maps the console page present, writable and
user-accessible. -/
theorem kernel_fork_console (K : KernelConfig) (L : KernelLayout) (isreserved : Nat → Bool)
    (hK : ConfigSane K) (hB : BootSane K) (s0 : KernelState)
    (h0 : HardwareInit K L isreserved s0) (hMP : K.MEMSIZE_PHYSICAL ≤ 2 ^ 21)
    (hcon : 0xB8000 < K.PROC_START_ADDR)
    (hcount : 5 ≤ free_page_count K (pageinfo_init K L isreserved s0)) :
    ∃ s1, kernel K L boot_loader (pageinfo_init K L isreserved s0) boot_command.fork =
        trap_result.resumed s1 ∧
      s1.current = 1 ∧ (s1.processes 1).p_state = procstate.P_RUNNABLE ∧
      virtual_memory_lookup s1.physmem (s1.processes 1).p_pagetable 0xB8000 =
        some { pn := 0xB8, pa := 0xB8000, perm := PTE_P ||| PTE_U ||| PTE_W } := by
  obtain ⟨hinv, hkt, _⟩ := kernel_table_init K L isreserved s0 hK hB h0
  have hN : 4 < K.NPROC := hB.1
  have hcnt : 5 ≤ free_page_count K (kernel_init_processes K
      (virtual_memory_map K
        (virtual_memory_map K (pageinfo_init K L isreserved s0) L.kernel_pagetable 0 0
          K.PROC_START_ADDR (PTE_P ||| PTE_W) false).1
        L.kernel_pagetable 0xB8000 0xB8000 PAGESIZE (PTE_P ||| PTE_W ||| PTE_U) false).1) := by
    rw [free_page_count_congr K (pageinfo_init K L isreserved s0) _ (fun pn _ => by
      show (virtual_memory_map K _ _ _ _ _ _ false).1.pageinfo pn = _
      rw [virtual_memory_map_noalloc, virtual_memory_map_noalloc])]
    exact hcount
  obtain ⟨s', hs', hl⟩ := process_setup_console K L hK hB _ 1 4 (by omega) hinv hkt hMP hcon
    hcnt
  have hrun := (process_setup_frame K L boot_loader _ s' 1 4 hs').2
  refine ⟨{ s' with current := 1 }, ?_, rfl, hrun, hl⟩
  simp only [kernel, hs', run, if_pos hrun]

/-- The number of pages `pageinfo_init` leaves free. -/
theorem pageinfo_init_free_count (K : KernelConfig) (L : KernelLayout)
    (isreserved : Nat → Bool) (s : KernelState) :
    free_page_count K (pageinfo_init K L isreserved s) =
      (List.range (NPAGES K)).countP
        (fun pn => decide (pageinfo_init_owner L isreserved (PAGEADDRESS pn) = PO_FREE)) := by
  simp only [free_page_count]
  apply List.countP_congr
  intro pn hpn
  rw [pageinfo_init_record K L isreserved s pn (List.mem_range.mp hpn)]
  by_cases ho : pageinfo_init_owner L isreserved (PAGEADDRESS pn) = PO_FREE
  · simp [ho]
  · simp [ho]

/-! ## Boot seeding and the range of the reference counts -/

/-- C33: after `pageinfo_init`, every physical page is classified Reserved if the
reserved-range query says so, otherwise Kernel if its address lies in
`[KERNEL_START_ADDR, end)` or is that of the kernel stack page, otherwise Free; its
reference count is 1 if the owner is not Free and 0 if it is Free; so the reference count
is 0 exactly when the owner is Free. -/
theorem pageinfo_init_seeding (K : KernelConfig) (L : KernelLayout)
    (isreserved : Nat → Bool) (s : KernelState) (pn : Nat) (hpn : pn < NPAGES K) :
    ((pageinfo_init K L isreserved s).pageinfo pn).owner =
        (if isreserved (PAGEADDRESS pn) = true then PO_RESERVED
        else if (L.KERNEL_START_ADDR ≤ PAGEADDRESS pn ∧ PAGEADDRESS pn < L.kernel_end) ∨
            PAGEADDRESS pn = uint64 ((L.KERNEL_STACK_TOP : Int) - PAGESIZE) then PO_KERNEL
        else PO_FREE) ∧
      ((pageinfo_init K L isreserved s).pageinfo pn).refcount =
        (if ((pageinfo_init K L isreserved s).pageinfo pn).owner ≠ PO_FREE then 1 else 0) ∧
      (((pageinfo_init K L isreserved s).pageinfo pn).refcount = 0 ↔
        ((pageinfo_init K L isreserved s).pageinfo pn).owner = PO_FREE) := by
  rw [pageinfo_init_record K L isreserved s pn hpn]
  refine ⟨rfl, rfl, ?_⟩
  by_cases ho : pageinfo_init_owner L isreserved (PAGEADDRESS pn) = PO_FREE
  · simp [ho]
  · simp [ho]

/-- C39: page-alloc when the mapping step fails.  In a state where allocation is well
behaved, the caller's page table is a tree of referenced pages and the caller's pid fits
the 8-bit owner field: if the requested address is page-aligned and unmapped, a free
physical page is found and the mapping call then fails, the syscall returns -1; the
address stays unmapped and every lookup of the caller's page table is as before; the data
page the handler had obtained (the lowest free page) is released: its reference count is 0
and its owner Free; the record of any other page is as before, or the page was free and
belongs to the caller with reference count 1; and every page-table node allocated during
the attempt is such a page: it stays a node of the caller's table, owned by the caller
with reference count 1. -/
theorem sys_page_alloc_map_failure (K : KernelConfig) (s : KernelState)
    (hs : AllocSane K s) (ht : TreeOwned s (s.processes s.current).p_pagetable)
    (hpid : 0 ≤ (s.processes s.current).p_pid ∧ (s.processes s.current).p_pid < 128)
    (haligned : (s.processes s.current).p_registers.reg_rdi % PAGESIZE = 0)
    (hunmapped : virtual_memory_lookup s.physmem (s.processes s.current).p_pagetable
      (s.processes s.current).p_registers.reg_rdi = none)
    (hfound : (find_free_page K (sys_page_alloc_owner s)).2 ≠ NULL)
    (hmap : (sys_page_alloc_map K s).2 < 0) :
    ((sys_page_alloc K s).processes s.current).p_registers.reg_rax = uint64 (-1) ∧
      uint64 (-1) = 2 ^ 64 - 1 ∧
      ((sys_page_alloc K s).processes s.current).p_pagetable =
        (s.processes s.current).p_pagetable ∧
      virtual_memory_lookup (sys_page_alloc K s).physmem (s.processes s.current).p_pagetable
        (s.processes s.current).p_registers.reg_rdi = none ∧
      (∀ va', virtual_memory_lookup (sys_page_alloc K s).physmem
          (s.processes s.current).p_pagetable va' =
        virtual_memory_lookup s.physmem (s.processes s.current).p_pagetable va') ∧
      ∃ fp, fp < NPAGES K ∧ (s.pageinfo fp).refcount = 0 ∧
        (∀ j, j < fp → (s.pageinfo j).refcount ≠ 0) ∧
        (find_free_page K (sys_page_alloc_owner s)).2 = PAGEADDRESS fp ∧
        (sys_page_alloc K s).pageinfo fp = { owner := PO_FREE, refcount := 0 } ∧
        (∀ pn, pn ≠ fp → (sys_page_alloc K s).pageinfo pn = s.pageinfo pn ∨
          (pn < NPAGES K ∧ (s.pageinfo pn).refcount = 0 ∧
            (sys_page_alloc K s).pageinfo pn =
              { owner := (s.processes s.current).p_pid, refcount := 1 })) ∧
        (∀ n, IsNode (sys_page_alloc K s).physmem (s.processes s.current).p_pagetable n →
          ¬ IsNode s.physmem (s.processes s.current).p_pagetable n →
          n ≠ fp ∧ n < NPAGES K ∧ (s.pageinfo n).refcount = 0 ∧
            (sys_page_alloc K s).pageinfo n =
              { owner := (s.processes s.current).p_pid, refcount := 1 }) := by
  obtain ⟨fp, _, hfpN, hfprc, hfpa, e1, _, _, e4, e5, e6, e7, _, _, _, e11⟩ :=
    sys_page_alloc_map_effect K s hs ht hfound
  have hi8 : int8 (s.processes s.current).p_pid = (s.processes s.current).p_pid :=
    int8_of_range _ (by omega) (by omega)
  rw [hi8] at e6 e7
  have hbelow : ∀ j, j < fp → (s.pageinfo j).refcount ≠ 0 := by
    rcases find_free_page_alloc K (sys_page_alloc_owner s) hs with
      ⟨hnull, _, _⟩ | ⟨fp', _, _, _, hb, hfp', _, _⟩
    · exact absurd hnull hfound
    · have hfe : fp' = fp := by
        have := congrArg PAGENUMBER (hfp'.symm.trans hfpa)
        rw [PAGENUMBER_PAGEADDRESS, PAGENUMBER_PAGEADDRESS] at this
        exact this
      intro j hj
      have : 0 < (s.pageinfo j).refcount := hb j (by omega)
      omega
  have hpn : PAGENUMBER (find_free_page K (sys_page_alloc_owner s)).2 = fp := by
    rw [hfpa]
    exact PAGENUMBER_PAGEADDRESS fp
  have hres : sys_page_alloc K s =
      set_reg_rax
        (release_page (sys_page_alloc_map K s).1 fp (s.processes s.current).p_pid)
        s.current (uint64 (-1)) := by
    simp only [sys_page_alloc]
    rw [if_neg (by rw [and_0xFFF]; simpa [PAGESIZE] using haligned), hunmapped]
    simp only [if_neg hfound, if_pos hmap, hpn]
  obtain ⟨f1, f2, _, _, f5, _⟩ := set_reg_rax_fields
    (release_page (sys_page_alloc_map K s).1 fp (s.processes s.current).p_pid) s.current
    (uint64 (-1))
  have hnode : ∀ n, IsNode (sys_page_alloc_map K s).1.physmem
      (s.processes s.current).p_pagetable n →
      ¬ IsNode s.physmem (s.processes s.current).p_pagetable n →
      n ≠ fp ∧ n < NPAGES K ∧ (s.pageinfo n).refcount = 0 ∧
        (sys_page_alloc_map K s).1.pageinfo n =
          { owner := (s.processes s.current).p_pid, refcount := 1 } := by
    intro n hn hnot
    rcases e5 n hn with g | ⟨g1, g2, g3⟩
    · exact absurd g hnot
    · refine ⟨g3, g1, g2, ?_⟩
      rcases e7 n with g | ⟨_, _, g⟩
      · have := e4.2 n hn
        rw [g, g2] at this
        omega
      · exact g
  rw [hres]
  refine ⟨by rw [f5], by decide, ?_, ?_, ?_, fp, hfpN, hfprc, hbelow, hfpa, ?_, ?_, ?_⟩
  · rw [f5]
    show ((release_page (sys_page_alloc_map K s).1 fp
      (s.processes s.current).p_pid).processes s.current).p_pagetable = _
    rw [release_page_processes, e1]
  · rw [f2, release_page_physmem, e11 hmap]
    exact hunmapped
  · intro va'
    rw [f2, release_page_physmem]
    exact e11 hmap va'
  · rw [f1, release_page_pageinfo, if_pos rfl, e6]
    exact release_info_owned _
  · intro pn hne
    rw [f1, release_page_pageinfo, if_neg hne]
    exact e7 pn
  · intro n hn hnot
    rw [f2, release_page_physmem] at hn
    obtain ⟨g1, g2, g3, g4⟩ := hnode n hn hnot
    refine ⟨g1, g2, g3, ?_⟩
    rw [f1, release_page_pageinfo, if_neg g1]
    exact g4

/-! ## Fork followed by the exit of the child -/

/-- The first loop of `process_cleanup_partial` run with bound `i` for a child that `fork`
has built over the addresses `l1`, those below `i`: it takes back the references the fork
had added to shared pages and frees the copies mapped from `PROC_START_ADDR` on; the root of
the child's table is still allocated.  With `l1` all addresses and `i = MEMSIZE_VIRTUAL`
this is the exit of a child right after a successful fork. -/
theorem process_cleanup_loop_restore (K : KernelConfig) (s t0 tf w : KernelState)
    (proot c f i : Nat) (l1 l2 : List Nat)
    (hsane : AllocSane K s)
    (hur : UserMappedReferenced s proot (page_addresses 0 K.MEMSIZE_VIRTUAL))
    (hno : NoOverflow s proot (page_addresses 0 K.MEMSIZE_VIRTUAL))
    (hstart : K.PROC_START_ADDR % 4096 = 0)
    (hfree : ∀ pn, pn < NPAGES K → (s.pageinfo pn).refcount = 0 →
      (s.pageinfo pn).owner = PO_FREE)
    (hstale : ∀ pn, pn < NPAGES K → (s.pageinfo pn).owner ≠ f)
    (huser : ∀ va ∈ page_addresses K.PROC_START_ADDR K.MEMSIZE_VIRTUAL, ∀ vam,
      virtual_memory_lookup s.physmem proot va = some vam →
      vam.perm &&& PTE_U ≠ 0 ∧ 0 ≤ (s.pageinfo vam.pn).owner)
    (hlow : ∀ va ∈ page_addresses 0 K.PROC_START_ADDR, ∀ vam,
      virtual_memory_lookup s.physmem proot va = some vam →
      vam.perm &&& (PTE_U ||| PTE_W) = PTE_U → (s.pageinfo vam.pn).owner < 0)
    (hl : page_addresses 0 K.MEMSIZE_VIRTUAL = l1 ++ l2)
    (hlt1 : ∀ va ∈ l1, va < i) (hge2 : ∀ va ∈ l2, i ≤ va)
    (hinv0 : BuildInv K s f c (fun _ => 0) t0)
    (hlook0 : ∀ va ∈ page_addresses 0 K.MEMSIZE_VIRTUAL,
      virtual_memory_lookup t0.physmem c va = virtual_memory_lookup s.physmem proot va)
    (hprog : ForkProgress K s f c proot (fun _ => 0) t0 l1 tf)
    (hwi : w.pageinfo = tf.pageinfo) (hwm : w.physmem = tf.physmem)
    (hwc : (w.processes f).p_pagetable = c) :
    RollbackReady K s
        (process_cleanup_loop f i (page_addresses K.PROC_START_ADDR K.MEMSIZE_VIRTUAL) w) f ∧
      PAGENUMBER c < NPAGES K ∧
      (process_cleanup_loop f i (page_addresses K.PROC_START_ADDR K.MEMSIZE_VIRTUAL)
        w).pageinfo (PAGENUMBER c) = { owner := f, refcount := 1 } ∧
      s.pageinfo (PAGENUMBER c) = { owner := PO_FREE, refcount := 0 } := by
  obtain ⟨q1, _, _, _, _, q6, q7, q8⟩ := hprog
  obtain ⟨_, b2, b3, b4, b5, _, _, _⟩ := q1
  have heta : ∀ pn, s.pageinfo pn =
      { owner := (s.pageinfo pn).owner, refcount := (s.pageinfo pn).refcount } := fun _ => rfl
  have hsorted := page_addresses_sorted 0 K.MEMSIZE_VIRTUAL
  rw [hl] at hsorted
  obtain ⟨hs1, _, _⟩ := List.pairwise_append.mp hsorted
  have hnd1 : l1.Nodup := hs1.imp (fun h => Nat.ne_of_lt h)
  have hmem1 : ∀ va ∈ l1, va < i ∧ va ∈ page_addresses 0 K.MEMSIZE_VIRTUAL :=
    fun va hva => ⟨hlt1 va hva, by
      rw [hl]; exact List.mem_append_left _ hva⟩
  -- the addresses the loop visits
  have hvs_mem : ∀ va,
      va ∈ (page_addresses K.PROC_START_ADDR K.MEMSIZE_VIRTUAL).filter
        (fun va => decide (va < i)) ↔
      va ∈ page_addresses K.PROC_START_ADDR K.MEMSIZE_VIRTUAL ∧ va < i := by
    intro va
    simp only [List.mem_filter, decide_eq_true_eq]
  generalize hvs : (page_addresses K.PROC_START_ADDR K.MEMSIZE_VIRTUAL).filter
    (fun va => decide (va < i)) = vs at hvs_mem
  have hvsnd : vs.Nodup := by
    rw [← hvs]
    exact (page_addresses_nodup _ _).filter _
  have hvs1 : ∀ va ∈ vs, va ∈ l1 := by
    intro va hva
    obtain ⟨h1, h2⟩ := (hvs_mem va).mp hva
    obtain ⟨a0, _, a2⟩ := page_addresses_mem _ _ va hstart h1
    have : va ∈ l1 ++ l2 := by
      rw [← hl]
      exact page_addresses_zero_of _ va a0 a2
    rcases List.mem_append.mp this with h | h
    · exact h
    · have := hge2 va h
      omega
  -- what the child maps at a visited address
  have htgt : ∀ va ∈ vs, ∀ vam, virtual_memory_lookup tf.physmem c va = some vam →
      (0 < (s.pageinfo vam.pn).refcount ∧ ¬ fork_copies s proot va ∧
        virtual_memory_lookup s.physmem proot va = some vam ∧
        vam.perm &&& (PTE_U ||| PTE_W) = PTE_U ∧ 0 ≤ (s.pageinfo vam.pn).owner) ∨
      (¬ 0 < (s.pageinfo vam.pn).refcount ∧ fork_copies s proot va ∧
        tf.pageinfo vam.pn = { owner := f, refcount := 1 } ∧
        ¬ IsNode tf.physmem c vam.pn) := by
    intro va hva vam hvam
    have hva1 := hvs1 va hva
    obtain ⟨_, hva0⟩ := hmem1 va hva1
    by_cases hc : fork_copies s proot va
    · right
      obtain ⟨map, hmap, hown, hperm⟩ := hc
      obtain ⟨q, f1, _, f3, f4, f5, _⟩ := q7 va hva1 map hmap hown hperm
      rw [f1] at hvam
      have hq : vam.pn = q := by rw [← Option.some.inj hvam]
      rw [hq]
      refine ⟨?_, ⟨map, hmap, hown, hperm⟩, f4, f5⟩
      have := hinv0.rc_zero q f3
      omega
    · left
      have hlk : virtual_memory_lookup tf.physmem c va =
          virtual_memory_lookup s.physmem proot va := (q6 va hva1 hc).trans (hlook0 va hva0)
      rw [hlk] at hvam
      obtain ⟨hu, hown⟩ := huser va ((hvs_mem va).mp hva).1 vam hvam
      rcases perm_user_cases vam.perm hu with h4 | h6
      · exact ⟨hur va hva0 vam hvam (Or.inl h4), hc, hvam, h4, hown⟩
      · exact absurd ⟨vam, hvam, hown, h6⟩ hc
  -- the references the fork added are the releases of the loop
  have hshare : ∀ pn, 0 < (s.pageinfo pn).refcount → ∀ va ∈ vs,
      fork_share s proot va pn =
        if (virtual_memory_lookup tf.physmem c va).map (fun vam => vam.pn) = some pn then 1
        else 0 := by
    intro pn hpos va hva
    rcases Option.eq_none_or_eq_some (virtual_memory_lookup tf.physmem c va)
      with hn | ⟨vam, hvam⟩
    · have hva1 := hvs1 va hva
      have hva0 := (hmem1 va hva1).2
      by_cases hc : fork_copies s proot va
      · obtain ⟨map, hmap, hown, hperm⟩ := hc
        obtain ⟨q, f1, _⟩ := q7 va hva1 map hmap hown hperm
        rw [f1] at hn
        exact absurd hn (by simp)
      · have hlk := (q6 va hva1 hc).trans (hlook0 va hva0)
        rw [hn] at hlk
        simp only [fork_share, ← hlk, hn, Option.map_none']
        simp
    · rcases htgt va hva vam hvam with ⟨_, _, h3, h4, h5⟩ | ⟨h1, h2, _, _⟩
      · simp only [fork_share, h3, hvam, Option.map_some', Option.some.injEq]
        by_cases hp : vam.pn = pn
        · rw [← hp]
          simp [h4, h5]
        · simp [hp]
      · obtain ⟨map, hmap, hown, hperm⟩ := h2
        have hne : vam.pn ≠ pn := by
          intro hc
          rw [hc] at h1
          exact h1 hpos
        have hnp : ¬ (map.perm &&& (PTE_U ||| PTE_W) = PTE_U) := by
          rw [hperm]
          decide
        simp only [fork_share, hmap, hvam, Option.map_some', Option.some.injEq, if_neg hne]
        simp [hnp]
  have hloop : ∀ pn,
      (process_cleanup_loop f i (page_addresses K.PROC_START_ADDR K.MEMSIZE_VIRTUAL)
        w).pageinfo pn =
      (release_info f)^[(released_pages tf.physmem c vs).count pn] (tf.pageinfo pn) := by
    intro pn
    rw [process_cleanup_loop_pageinfo f i pn _ w (page_addresses_sorted _ _)]
    simp only [Int.toNat_ofNat, hwm, hwc, hwi, hvs]
  have hmemrel : ∀ pn, pn ∈ released_pages tf.physmem c vs →
      ∃ va ∈ vs, ∃ vam, virtual_memory_lookup tf.physmem c va = some vam ∧ vam.pn = pn := by
    intro pn h
    obtain ⟨va, hva, hg⟩ := List.mem_filterMap.mp h
    rcases Option.eq_none_or_eq_some (virtual_memory_lookup tf.physmem c va)
      with hn | ⟨vam, hvam⟩
    · rw [hn] at hg
      simp at hg
    · rw [hvam] at hg
      exact ⟨va, hva, vam, hvam, by simpa using hg⟩
  -- the root of the child's table
  have hrootnode : IsNode tf.physmem c (PAGENUMBER c) := ⟨0, 0, c, by omega, rfl, rfl⟩
  obtain ⟨hrlt, hr0⟩ := b3 _ hrootnode
  have hrpos : 0 < (tf.pageinfo (PAGENUMBER c)).refcount := b2.2 _ hrootnode
  have hrinfo : tf.pageinfo (PAGENUMBER c) = { owner := f, refcount := 1 } := by
    rcases b5 (PAGENUMBER c) (by omega) with h | ⟨_, _, h⟩
    · rw [h] at hrpos
      omega
    · exact h
  have hrcount : (released_pages tf.physmem c vs).count (PAGENUMBER c) = 0 := by
    rw [List.count_eq_zero]
    intro hmem
    obtain ⟨va, hva, vam, hvam, hpn⟩ := hmemrel _ hmem
    rcases htgt va hva vam hvam with ⟨h1, _⟩ | ⟨_, _, _, h4⟩
    · rw [hpn] at h1
      omega
    · rw [hpn] at h4
      exact h4 hrootnode
  refine ⟨?_, hrlt, ?_, ?_⟩
  · intro pn hpn
    rw [hloop pn]
    by_cases hpos : 0 < (s.pageinfo pn).refcount
    · left
      obtain ⟨_, hinfo⟩ := b4 pn hpos
      have hsub : fork_shares s proot vs pn = fork_shares s proot l1 pn := by
        refine fork_shares_subset s proot pn l1 vs hnd1 hvsnd hvs1 ?_
        intro va hva hnot
        obtain ⟨hlt, hva0⟩ := hmem1 va hva
        obtain ⟨a0, a2⟩ := page_addresses_zero_mem _ va hva0
        have hbelow : va < K.PROC_START_ADDR := by
          by_contra hge
          exact hnot ((hvs_mem va).mpr
            ⟨page_addresses_of _ _ va hstart a0 (by omega) a2, hlt⟩)
        have hvalow : va ∈ page_addresses 0 K.PROC_START_ADDR :=
          page_addresses_zero_of _ va a0 hbelow
        simp only [fork_share]
        rcases Option.eq_none_or_eq_some (virtual_memory_lookup s.physmem proot va)
          with hn | ⟨map, hmap⟩
        · rw [hn]
        · rw [hmap]
          simp only
          rw [if_neg]
          rintro ⟨e1, e2, e3⟩
          have := hlow va hvalow map hmap e3
          rw [e1] at this
          omega
      have hcnt : (((released_pages tf.physmem c vs).count pn : Nat) : Int) =
          fork_shares s proot l1 pn := by
        rw [← hsub]
        exact count_filterMap_sum _ pn (fun va => fork_share s proot va pn) vs
          (hshare pn hpos)
      rw [hinfo]
      simp only [zero_add]
      rw [← hcnt]
      by_cases hz : (released_pages tf.physmem c vs).count pn = 0
      · rw [hz]
        simp only [Function.iterate_zero, id, Nat.cast_zero, add_zero]
      · have hmem : pn ∈ released_pages tf.physmem c vs :=
          List.count_pos_iff.mp (Nat.pos_of_ne_zero hz)
        obtain ⟨va, hva, vam, hvam, hpn'⟩ := hmemrel pn hmem
        have hb : (s.pageinfo pn).refcount +
            (((released_pages tf.physmem c vs).count pn : Nat) : Int) ≤ 127 := by
          rcases htgt va hva vam hvam with ⟨_, _, h3, _, _⟩ | ⟨h1, _⟩
          · have := hno va (hmem1 va (hvs1 va hva)).2 vam h3
            rw [hl, fork_shares_append, hpn'] at this
            have hnn := fork_shares_nonneg s proot l2 pn
            rw [hcnt]
            omega
          · rw [hpn'] at h1
            exact absurd hpos h1
        rw [release_info_iterate f _ _ (hstale pn hpn) (by omega) _ hb]
    · have hrc0 : (s.pageinfo pn).refcount = 0 := by
        have := hsane.1 pn hpn
        omega
      have hs0 : s.pageinfo pn = { owner := PO_FREE, refcount := 0 } := by
        rw [heta pn, hfree pn hpn hrc0, hrc0]
      have hle : (released_pages tf.physmem c vs).count pn ≤ 1 := by
        refine count_filterMap_le_one _ pn vs hvsnd ?_
        intro a ha b hb hga hgb
        obtain ⟨ma, hma, hpa⟩ := Option.map_eq_some'.mp hga
        obtain ⟨mb, hmb, hpb⟩ := Option.map_eq_some'.mp hgb
        by_contra hab
        have ca : fork_copies s proot a := by
          rcases htgt a ha ma hma with ⟨h1, _⟩ | ⟨_, h2, _⟩
          · rw [hpa] at h1
            exact absurd h1 hpos
          · exact h2
        have cb : fork_copies s proot b := by
          rcases htgt b hb mb hmb with ⟨h1, _⟩ | ⟨_, h2, _⟩
          · rw [hpb] at h1
            exact absurd h1 hpos
          · exact h2
        exact q8 a (hvs1 a ha) b (hvs1 b hb) hab ca cb ma mb hma hmb (hpa.trans hpb.symm)
      rcases Nat.eq_zero_or_pos ((released_pages tf.physmem c vs).count pn) with hz | hp
      · rw [hz]
        simp only [Function.iterate_zero, id]
        rcases b5 pn hpos with h | ⟨_, _, h⟩
        · left
          exact h
        · right
          exact ⟨hs0, h⟩
      · have h1 : (released_pages tf.physmem c vs).count pn = 1 := by omega
        rw [h1]
        obtain ⟨va, hva, vam, hvam, hpn'⟩ := hmemrel pn (List.count_pos_iff.mp hp)
        rcases htgt va hva vam hvam with ⟨h1, _⟩ | ⟨_, _, h3, _⟩
        · rw [hpn'] at h1
          exact absurd h1 hpos
        · left
          rw [hpn'] at h3
          rw [Function.iterate_one, h3, release_info_owned, hs0]
  · rw [hloop, hrcount, Function.iterate_zero, id, hrinfo]
  · rw [heta (PAGENUMBER c), hfree _ hrlt hr0, hr0]


/-- A successful `fork` leaves the final state of its loop over all addresses, up to the
register snapshots. -/
theorem sys_fork_forked_progress (K : KernelConfig) (s s' : KernelState) (child : Nat)
    (hready : ForkReady K s) (hfork : sys_fork K s = (s', fork_outcome.forked child)) :
    BuildInv K s child (s'.processes child).p_pagetable (fun _ => 0)
        (sys_fork_clone K s child) ∧
      (∀ va ∈ page_addresses 0 K.MEMSIZE_VIRTUAL,
        virtual_memory_lookup (sys_fork_clone K s child).physmem
            (s'.processes child).p_pagetable va =
          virtual_memory_lookup s.physmem (s.processes s.current).p_pagetable va) ∧
      ∃ tf, ForkProgress K s child (s'.processes child).p_pagetable
          (s.processes s.current).p_pagetable (fun _ => 0) (sys_fork_clone K s child)
          (page_addresses 0 K.MEMSIZE_VIRTUAL) tf ∧
        s'.pageinfo = tf.pageinfo ∧ s'.physmem = tf.physmem := by
  obtain ⟨_, _, hffree⟩ := sys_fork_find_slot_result K s
  have hready' := hready
  obtain ⟨_, hmv, _, hnr, hur, hno, _, hcurstate⟩ := hready'
  simp only [sys_fork] at hfork
  by_cases h1 : K.NPROC ≤ sys_fork_find_slot K s K.NPROC 1
  · rw [if_pos h1] at hfork
    exact absurd (Prod.mk.inj hfork).2 (by simp)
  rw [if_neg h1] at hfork
  by_cases h2 : ((sys_fork_clone K s (sys_fork_find_slot K s K.NPROC 1)).processes
      (sys_fork_find_slot K s K.NPROC 1)).p_pagetable = NULL
  · rw [if_pos h2] at hfork
    exact absurd (Prod.mk.inj hfork).2 (by simp)
  rw [if_neg h2] at hfork
  have hflt : sys_fork_find_slot K s K.NPROC 1 < K.NPROC := by omega
  have hfree := hffree hflt
  have hfp : sys_fork_find_slot K s K.NPROC 1 ≠ s.current := by
    intro hc
    rw [hc] at hfree
    exact hcurstate hfree
  obtain ⟨hinv, hproot, _, _, _, hlookc⟩ :=
    sys_fork_clone_spec K s _ hready hflt hfp h2
  obtain ⟨hsucc, _⟩ := sys_fork_loop_spec K s (s.processes s.current).p_pagetable
    ((sys_fork_clone K s (sys_fork_find_slot K s K.NPROC 1)).processes
      (sys_fork_find_slot K s K.NPROC 1)).p_pagetable
    (sys_fork_find_slot K s K.NPROC 1) (sys_fork_find_slot K s K.NPROC 1)
    (page_addresses 0 K.MEMSIZE_VIRTUAL)
    (sys_fork_clone K s (sys_fork_find_slot K s K.NPROC 1)) (fun _ => 0)
    (fun va hva => (page_addresses_zero_mem _ va hva).1) hnr hur
    (page_addresses_pairwise _ hmv)
    (fun va hva vam hvam => by
      have := hno va hva vam hvam
      simpa using this)
    hinv hproot rfl
  split at hfork
  · exact absurd (Prod.mk.inj hfork).2 (by simp)
  · rename_i hnone
    obtain ⟨hs', hchild⟩ := Prod.mk.inj hfork
    have hchild' : sys_fork_find_slot K s K.NPROC 1 = child := by
      simpa using hchild
    have hprog := hsucc hnone
    rw [hchild'] at hs' hprog hfp hinv hlookc
    have hcur' : (sys_fork_loop K child (page_addresses 0 K.MEMSIZE_VIRTUAL)
        (sys_fork_clone K s child)).1.current = s.current := hprog.1.2.2.2.2.2.2.2
    have hfp' : child ≠ (sys_fork_loop K child (page_addresses 0 K.MEMSIZE_VIRTUAL)
        (sys_fork_clone K s child)).1.current := by rw [hcur']; exact hfp
    obtain ⟨e1, e2, _, e4, _, _⟩ := sys_fork_finish_fields _ child hfp'
    rw [hs'] at e1 e2 e4
    have hptc : (s'.processes child).p_pagetable =
        ((sys_fork_clone K s child).processes child).p_pagetable := by
      rw [e4, hprog.2.1]
    rw [hptc]
    exact ⟨hinv, hlookc, _, hprog, e1, e2⟩

/-- C35, as amended.  A fork that succeeds, followed by the exit of the child, undoes
itself.  Take a state in which `fork` can be analysed, with `PROC_START_ADDR` page-aligned,
in which every page with reference count 0 has owner Free, no page is recorded as owned by
the pid of the child slot, every page the parent maps at or above `PROC_START_ADDR` is
user-accessible and has an owner that is not negative (a page of a process), and below
`PROC_START_ADDR` the parent maps no page with a non-negative owner user-accessible and not
writable.  After a successful `fork` and `process_cleanup` of the child, the owner and the
reference count of every physical page are what they were before the fork; the child's slot
is Free with a null page table; the parent's descriptor is as before except for the return
value of `fork`, and every other descriptor is as before; every lookup of the parent's page
table in its address space and the contents of every page that was referenced are as
before. -/
theorem fork_exit_round_trip (K : KernelConfig) (s s' : KernelState) (child : Nat)
    (hready : ForkReady K s)
    (hstart : K.PROC_START_ADDR % PAGESIZE = 0)
    (hfree : ∀ pn, pn < NPAGES K → (s.pageinfo pn).refcount = 0 →
      (s.pageinfo pn).owner = PO_FREE)
    (hstale : ∀ pn, pn < NPAGES K → (s.pageinfo pn).owner ≠ child)
    (huser : ∀ va ∈ page_addresses K.PROC_START_ADDR K.MEMSIZE_VIRTUAL, ∀ vam,
      virtual_memory_lookup s.physmem (s.processes s.current).p_pagetable va = some vam →
      vam.perm &&& PTE_U ≠ 0 ∧ 0 ≤ (s.pageinfo vam.pn).owner)
    (hlow : ∀ va ∈ page_addresses 0 K.PROC_START_ADDR, ∀ vam,
      virtual_memory_lookup s.physmem (s.processes s.current).p_pagetable va = some vam →
      vam.perm &&& (PTE_U ||| PTE_W) = PTE_U → (s.pageinfo vam.pn).owner < 0)
    (hfork : sys_fork K s = (s', fork_outcome.forked child)) :
    (∀ pn, pn < NPAGES K →
        (process_cleanup K s' (s'.processes child).p_pid).pageinfo pn = s.pageinfo pn) ∧
      ((process_cleanup K s' (s'.processes child).p_pid).processes child).p_state =
        procstate.P_FREE ∧
      ((process_cleanup K s' (s'.processes child).p_pid).processes child).p_pagetable =
        NULL ∧
      (process_cleanup K s' (s'.processes child).p_pid).processes s.current =
        { s.processes s.current with
          p_registers :=
            { (s.processes s.current).p_registers with reg_rax := uint64 child } } ∧
      (∀ j, j ≠ child → j ≠ s.current →
        (process_cleanup K s' (s'.processes child).p_pid).processes j = s.processes j) ∧
      (∀ va ∈ page_addresses 0 K.MEMSIZE_VIRTUAL,
        virtual_memory_lookup (process_cleanup K s' (s'.processes child).p_pid).physmem
          (s.processes s.current).p_pagetable va =
        virtual_memory_lookup s.physmem (s.processes s.current).p_pagetable va) ∧
      (∀ pn, 0 < (s.pageinfo pn).refcount →
        (process_cleanup K s' (s'.processes child).p_pid).physmem pn = s.physmem pn) := by
  obtain ⟨_, _, F3, _, _, F6, F7, F8, F9, F10, _, F12, _⟩ :=
    sys_fork_forked_spec K s s' child hready hfork
  obtain ⟨hinv, hlookc, tf, hprog, hpi, hpm⟩ :=
    sys_fork_forked_progress K s s' child hready hfork
  obtain ⟨hsane, _, _, _, hur, hno, _, _⟩ := hready
  have hcpid : (s'.processes child).p_pid = (child : Int) := by rw [F6]
  rw [hcpid]
  obtain ⟨e1, e2, e3, e4⟩ := process_cleanup_partial_fields K s' child K.MEMSIZE_VIRTUAL F9
  have hmem : (process_cleanup K s' child).physmem = s'.physmem :=
    process_cleanup_partial_physmem K s' child K.MEMSIZE_VIRTUAL
  have hwc : ((set_p_state s' child procstate.P_FREE).processes child).p_pagetable =
      (s'.processes child).p_pagetable := by
    simp [set_p_state]
  obtain ⟨r1, r2, r3, r4⟩ := process_cleanup_loop_restore K s (sys_fork_clone K s child) tf
    (set_p_state s' child procstate.P_FREE)
    (s.processes s.current).p_pagetable (s'.processes child).p_pagetable child
    K.MEMSIZE_VIRTUAL (page_addresses 0 K.MEMSIZE_VIRTUAL) []
    hsane hur hno hstart hfree hstale huser hlow (List.append_nil _).symm
    (fun va hva => (page_addresses_zero_mem _ va hva).2)
    (fun va hva => absurd hva (List.not_mem_nil va))
    hinv hlookc hprog hpi hpm hwc
  refine ⟨?_, e1, e2, ?_, ?_, ?_, ?_⟩
  · intro pn hpn
    show ( process_cleanup_partial K s' child K.MEMSIZE_VIRTUAL).pageinfo pn = s.pageinfo pn
    rw [e4 pn]
    refine process_cleanup_sweep_rollback K s _ child hstale ?_ pn hpn
    intro p hp
    rw [release_page_pageinfo]
    by_cases hroot : p = PAGENUMBER (s'.processes child).p_pagetable
    · left
      rw [if_pos hroot, r3, release_info_owned, hroot, r4]
    · rw [if_neg hroot]
      exact r1 p hp
  · exact (e3 s.current (Ne.symm F3)).trans F7
  · intro j hj1 hj2
    exact (e3 j hj1).trans (F8 j hj1 hj2)
  · intro va hva
    rw [hmem]
    exact F12 va hva
  · intro pn hpos
    rw [hmem]
    exact (F10 pn hpos).2

/-! ## The array indices the two search loops use -/

theorem find_free_page_scan_reads_end (K : KernelConfig) (s : KernelState) :
    ∀ (fuel freePage : Nat), freePage ≤ NPAGES K → NPAGES K - freePage < fuel →
      (∀ pn, freePage ≤ pn → pn < NPAGES K → 0 < (s.pageinfo pn).refcount) →
      NPAGES K ∈ find_free_page_scan_reads K s fuel freePage := by
  intro fuel
  induction fuel with
  | zero => intro freePage _ h; omega
  | succ n ih =>
    intro freePage hle hfuel hall
    simp only [find_free_page_scan_reads]
    by_cases hlt : freePage < NPAGES K
    · rw [if_pos ⟨hall freePage (le_refl _) hlt, hlt⟩]
      exact List.mem_cons_of_mem _
        (ih (freePage + 1) (by omega) (by omega) (fun pn h1 h2 => hall pn (by omega) h2))
    · rw [if_neg (fun hc => hlt hc.2)]
      have : freePage = NPAGES K := by omega
      rw [this]
      exact List.mem_singleton_self _

/-- With every page referenced, `find_free_page` reads `pageinfo[NPAGES]`, one entry past
the end of the array. -/
theorem find_free_page_reads_past_end (K : KernelConfig) (s : KernelState)
    (h : ∀ pn, pn < NPAGES K → 0 < (s.pageinfo pn).refcount) :
    NPAGES K ∈ find_free_page_accesses K s :=
  List.mem_append_left _
    (find_free_page_scan_reads_end K s (NPAGES K + 1) 0 (Nat.zero_le _) (by omega)
      (fun pn _ hpn => h pn hpn))

theorem find_free_page_scan_reads_bound (K : KernelConfig) (s : KernelState) :
    ∀ (fuel freePage : Nat),
      (∃ pn, freePage ≤ pn ∧ pn < NPAGES K ∧ ¬ 0 < (s.pageinfo pn).refcount) →
      ∀ i ∈ find_free_page_scan_reads K s fuel freePage, i < NPAGES K := by
  intro fuel
  induction fuel with
  | zero =>
    intro freePage _ i hi
    simp [find_free_page_scan_reads] at hi
  | succ n ih =>
    intro freePage hex i hi
    obtain ⟨pn, h1, h2, h3⟩ := hex
    simp only [find_free_page_scan_reads] at hi
    split at hi
    · rename_i hcond
      rcases List.mem_cons.mp hi with g | g
      · omega
      · have hne : pn ≠ freePage := fun hc => h3 (hc ▸ hcond.1)
        exact ih (freePage + 1) ⟨pn, by omega, h2, h3⟩ i g
    · rw [List.mem_singleton.mp hi]
      omega

/-- When a page is free, every index `find_free_page` uses is inside the array. -/
theorem find_free_page_accesses_bound (K : KernelConfig) (s : KernelState)
    (h : ∃ pn, pn < NPAGES K ∧ ¬ 0 < (s.pageinfo pn).refcount) :
    ∀ i ∈ find_free_page_accesses K s, i < NPAGES K := by
  intro i hi
  obtain ⟨pn, h1, h2⟩ := h
  rcases List.mem_append.mp hi with g | g
  · exact find_free_page_scan_reads_bound K s _ 0 ⟨pn, Nat.zero_le _, h1, h2⟩ i g
  · split at g
    · simp at g
    · rename_i hlt
      simp only [List.mem_cons, List.mem_singleton, List.not_mem_nil, or_false, or_self] at g
      omega

theorem sys_fork_find_slot_reads_end (K : KernelConfig) (s : KernelState) :
    ∀ (fuel freeProc : Nat), freeProc ≤ K.NPROC → K.NPROC - freeProc < fuel →
      (∀ i, freeProc ≤ i → i < K.NPROC → (s.processes i).p_state ≠ procstate.P_FREE) →
      K.NPROC ∈ sys_fork_find_slot_reads K s fuel freeProc := by
  intro fuel
  induction fuel with
  | zero => intro freeProc _ h; omega
  | succ n ih =>
    intro freeProc hle hfuel hall
    simp only [sys_fork_find_slot_reads]
    by_cases hlt : freeProc < K.NPROC
    · rw [if_pos ⟨hall freeProc (le_refl _) hlt, hlt⟩]
      exact List.mem_cons_of_mem _
        (ih (freeProc + 1) (by omega) (by omega) (fun i h1 h2 => hall i (by omega) h2))
    · rw [if_neg (fun hc => hlt hc.2)]
      have : freeProc = K.NPROC := by omega
      rw [this]
      exact List.mem_singleton_self _

/-- With no slot from 1 on Free, the search of `fork` reads `processes[NPROC]`, one entry
past the end of the table. -/
theorem sys_fork_reads_past_end (K : KernelConfig) (s : KernelState) (hN : 1 ≤ K.NPROC)
    (h : ∀ i, 1 ≤ i → i < K.NPROC → (s.processes i).p_state ≠ procstate.P_FREE) :
    K.NPROC ∈ sys_fork_slot_reads K s :=
  sys_fork_find_slot_reads_end K s K.NPROC 1 hN (by omega) h

theorem sys_fork_find_slot_reads_bound (K : KernelConfig) (s : KernelState) :
    ∀ (fuel freeProc : Nat),
      (∃ i, freeProc ≤ i ∧ i < K.NPROC ∧ (s.processes i).p_state = procstate.P_FREE) →
      ∀ j ∈ sys_fork_find_slot_reads K s fuel freeProc, freeProc ≤ j ∧ j < K.NPROC := by
  intro fuel
  induction fuel with
  | zero =>
    intro freeProc _ j hj
    simp [sys_fork_find_slot_reads] at hj
  | succ n ih =>
    intro freeProc hex j hj
    obtain ⟨i, h1, h2, h3⟩ := hex
    simp only [sys_fork_find_slot_reads] at hj
    split at hj
    · rename_i hcond
      rcases List.mem_cons.mp hj with g | g
      · omega
      · have hne : i ≠ freeProc := fun hc => hcond.1 (hc ▸ h3)
        have := ih (freeProc + 1) ⟨i, by omega, h2, h3⟩ j g
        omega
    · rw [List.mem_singleton.mp hj]
      omega

/-- When a slot from 1 on is Free, the search of `fork` stays inside the table. -/
theorem sys_fork_slot_reads_bound (K : KernelConfig) (s : KernelState)
    (h : ∃ i, 1 ≤ i ∧ i < K.NPROC ∧ (s.processes i).p_state = procstate.P_FREE) :
    ∀ j ∈ sys_fork_slot_reads K s, 1 ≤ j ∧ j < K.NPROC :=
  sys_fork_find_slot_reads_bound K s K.NPROC 1 h

/-- The assertions of `check_virtual_memory` one by one. -/
theorem check_virtual_memory_of_parts (K : KernelConfig) (L : KernelLayout) (s : KernelState)
    (h0 : (s.processes 0).p_state = procstate.P_FREE)
    (h1 : check_page_table_mappings L s L.kernel_pagetable = true)
    (h2 : check_page_table_ownership K L s L.kernel_pagetable (-1) = true)
    (h3 : ∀ pid, pid < K.NPROC → (s.processes pid).p_state ≠ procstate.P_FREE →
      (s.processes pid).p_pagetable ≠ L.kernel_pagetable →
      (check_page_table_mappings L s (s.processes pid).p_pagetable &&
        check_page_table_ownership K L s (s.processes pid).p_pagetable pid) = true)
    (h4 : (List.range (NPAGES K)).all
      (fun pn =>
        !(decide (0 < (s.pageinfo pn).refcount ∧ 0 ≤ (s.pageinfo pn).owner)) ||
          decide ((s.processes (s.pageinfo pn).owner.toNat).p_state ≠ procstate.P_FREE)) =
        true) :
    check_virtual_memory K L s = true := by
  unfold check_virtual_memory
  rw [h4, h1, h2, decide_eq_true h0]
  simp only [Bool.and_true, Bool.true_and]
  rw [List.all_eq_true]
  intro pid hpid
  rw [List.mem_range] at hpid
  by_cases hp : (s.processes pid).p_state ≠ procstate.P_FREE ∧
      (s.processes pid).p_pagetable ≠ L.kernel_pagetable
  · rw [h3 pid hpid hp.1 hp.2, Bool.or_true]
  · rw [decide_eq_false hp]; rfl

/-- A referenced page whose owner is a Free slot fails `check_virtual_memory`. -/
theorem check_virtual_memory_orphan (K : KernelConfig) (L : KernelLayout) (s : KernelState)
    (pn : Nat) (hpn : pn < NPAGES K) (hr : 0 < (s.pageinfo pn).refcount)
    (ho : 0 ≤ (s.pageinfo pn).owner)
    (hf : (s.processes (s.pageinfo pn).owner.toNat).p_state = procstate.P_FREE) :
    check_virtual_memory K L s = false := by
  have h : (List.range (NPAGES K)).all
      (fun pn =>
        !(decide (0 < (s.pageinfo pn).refcount ∧ 0 ≤ (s.pageinfo pn).owner)) ||
          decide ((s.processes (s.pageinfo pn).owner.toNat).p_state ≠ procstate.P_FREE)) =
        false := by
    rw [List.all_eq_false]
    refine ⟨pn, List.mem_range.mpr hpn, ?_⟩
    rw [decide_eq_true (⟨hr, ho⟩ : 0 < (s.pageinfo pn).refcount ∧ 0 ≤ (s.pageinfo pn).owner),
      decide_eq_false (not_not.mpr hf)]
    decide
  unfold check_virtual_memory
  rw [h, Bool.and_false]

/-- The round trip in the states the kernel reaches.  In a state that satisfies the kernel's
invariant, with a current process that is not Free: after a successful `fork` and
`process_cleanup` of the child, the owner and the reference count of every physical page are
what they were before the fork; the child's slot is Free with a null page table; the
parent's descriptor is as before except for the return value of `fork`; every lookup of the
parent's page table and the contents of every page that was referenced are as before. -/
theorem kernel_inv_fork_exit (K : KernelConfig) (s s' : KernelState) (child : Nat)
    (hK : ConfigSane K) (h : KernelInv K s) (hc : Live K s s.current)
    (hfork : sys_fork K s = (s', fork_outcome.forked child)) :
    (∀ pn, pn < NPAGES K →
        (process_cleanup K s' (s'.processes child).p_pid).pageinfo pn = s.pageinfo pn) ∧
      ((process_cleanup K s' (s'.processes child).p_pid).processes child).p_state =
        procstate.P_FREE ∧
      ((process_cleanup K s' (s'.processes child).p_pid).processes child).p_pagetable =
        NULL ∧
      (process_cleanup K s' (s'.processes child).p_pid).processes s.current =
        { s.processes s.current with
          p_registers :=
            { (s.processes s.current).p_registers with reg_rax := uint64 child } } ∧
      (∀ j, j ≠ child → j ≠ s.current →
        (process_cleanup K s' (s'.processes child).p_pid).processes j = s.processes j) ∧
      (∀ va, virtual_memory_lookup (process_cleanup K s' (s'.processes child).p_pid).physmem
          (s.processes s.current).p_pagetable va =
        virtual_memory_lookup s.physmem (s.processes s.current).p_pagetable va) ∧
      (∀ pn, 0 < (s.pageinfo pn).refcount →
        (process_cleanup K s' (s'.processes child).p_pid).physmem pn = s.physmem pn) := by
  have hready := h.fork_ready hK hc
  obtain ⟨F1, F2, F3, F4, _, F6, F7, F8, _, F10, F11, _, F13, F14, _⟩ :=
    sys_fork_forked_spec K s s' child hready hfork
  have hinv' := sys_fork_forked_inv K s s' child hK h hc hfork
  have hcpid : (s'.processes child).p_pid = (child : Int) := by rw [F6]
  have hcst : (s'.processes child).p_state = procstate.P_RUNNABLE := by rw [F6]
  have hclive : Live K s' child := ⟨F2, by rw [hcst]; decide⟩
  rw [hcpid]
  obtain ⟨hst, hpt, hoth, _⟩ := process_cleanup_partial_fields K s' child K.MEMSIZE_VIRTUAL
    (hinv'.root_ne_null hclive)
  have hmem : (process_cleanup K s' child).physmem = s'.physmem :=
    process_cleanup_partial_physmem K s' child K.MEMSIZE_VIRTUAL
  have hst' : ((process_cleanup K s' child).processes child).p_state = procstate.P_FREE := hst
  have hpt' : ((process_cleanup K s' child).processes child).p_pagetable = NULL := hpt
  have hoth' : ∀ j, j ≠ child → (process_cleanup K s' child).processes j = s'.processes j :=
    hoth
  have hpi := process_cleanup_pageinfo K s' child hK hinv' hclive
  have hNP := hK.1
  have hchild_ne : (PO_FREE : Int) ≠ (child : Int) := by
    simp only [PO_FREE]
    omega
  -- what the child maps in its process region
  have hshared : ∀ va ∈ user_range K, ∀ vam,
      virtual_memory_lookup s'.physmem (s'.processes child).p_pagetable va = some vam →
      0 < (s.pageinfo vam.pn).refcount →
      fork_share s (s.processes s.current).p_pagetable va vam.pn = 1 := by
    intro va hva vam hvam hpos
    have hva0 := user_range_sub K hK va hva
    by_cases hcp : fork_copies s (s.processes s.current).p_pagetable va
    · obtain ⟨map, hmap, hown, hperm⟩ := hcp
      obtain ⟨q, f1, _, f3, _⟩ := F14 va hva0 map hmap hown hperm
      rw [f1] at hvam
      have hq : vam.pn = q := by rw [← Option.some.inj hvam]
      rw [hq] at hpos
      omega
    · rw [F13 va hva0 hcp] at hvam
      obtain ⟨hu, hown, _⟩ := h.user s.current hc va hva vam hvam
      simp only [fork_share, hvam]
      rcases perm_user_cases vam.perm hu with h4 | h6
      · rw [if_pos ⟨trivial, hown, h4⟩]
      · exact absurd ⟨vam, hvam, hown, h6⟩ hcp
  have hunshared : ∀ pn, pn ∉ mapped_pages K s' child →
      fork_shares s (s.processes s.current).p_pagetable
        (page_addresses 0 K.MEMSIZE_VIRTUAL) pn = 0 := by
    intro pn hnot
    by_contra hne
    obtain ⟨va, hva, hsh⟩ := fork_shares_pos s _ _ pn hne
    obtain ⟨_, map, hmap, hmpn, hown, hperm⟩ := fork_share_pos s _ va pn hsh
    obtain ⟨hu, hw⟩ := perm_user_of_flags map.perm hperm
    rcases page_addresses_split K hK va hva with hlow | huser
    · obtain ⟨vam, l1, _, l3, _⟩ := h.low s.current hc va hlow
      rw [hmap] at l1
      have hv := Option.some.inj l1
      rw [← hv, hmpn] at l3
      have := (l3 hu).1
      omega
    · have hncp : ¬ fork_copies s (s.processes s.current).p_pagetable va := by
        rintro ⟨map', hmap', _, hperm'⟩
        rw [hmap] at hmap'
        have hv := Option.some.inj hmap'
        rw [← hv, hperm] at hperm'
        exact absurd hperm' (by decide)
      apply hnot
      exact (mem_mapped_pages K s' child pn).mpr
        ⟨va, huser, map, (F13 va hva hncp).trans hmap, hmpn⟩
  refine ⟨?_, hst', hpt', ?_, ?_, ?_, ?_⟩
  · intro pn hpn
    rw [hpi pn]
    have hsane := h.sane.1 pn hpn
    by_cases hpos : 0 < (s.pageinfo pn).refcount
    · obtain ⟨hinfo, _⟩ := F10 pn hpos
      have hown_ne : (s.pageinfo pn).owner ≠ (child : Int) := by
        intro hc'
        rcases h.owners pn hpn with g | g | g | ⟨p, hp, hpp, hps⟩
        · rw [g] at hc'
          exact hchild_ne hc'
        · rw [g] at hc'
          simp only [PO_RESERVED] at hc'
          omega
        · rw [g] at hc'
          simp only [PO_KERNEL] at hc'
          omega
        · rw [h.zero.2.2 p hp, hc'] at hpp
          have hpc : p = child := by exact_mod_cast hpp
          rw [hpc] at hps
          exact hps F4
      by_cases hm : pn ∈ mapped_pages K s' child
      · rw [if_pos hm, hinfo]
        obtain ⟨va, hva, vam, hvam, hvpn⟩ := (mem_mapped_pages K s' child pn).mp hm
        have h1 := hshared va hva vam hvam (by rw [hvpn]; exact hpos)
        rw [hvpn] at h1
        have hge := fork_shares_ge s (s.processes s.current).p_pagetable pn
          (page_addresses 0 K.MEMSIZE_VIRTUAL) va (user_range_sub K hK va hva)
        have hle := h.fork_shares_le hK hc pn
        have hsh : fork_shares s (s.processes s.current).p_pagetable
            (page_addresses 0 K.MEMSIZE_VIRTUAL) pn = 1 := by omega
        have hrle := (h.refcount_le (by omega) pn hpn).2
        rw [hsh]
        simp only [release_info]
        have h8 : int8 ((s.pageinfo pn).refcount + 1 - 1) = (s.pageinfo pn).refcount :=
          by
            rw [Int.add_sub_cancel]
            exact int8_of_range _ (by omega) (by omega)
        rw [h8, if_neg (by
          rintro (g | g)
          · omega
          · exact hown_ne g)]
      · rw [if_neg hm, hinfo, hunshared pn hm, if_neg (fun g => hown_ne g.2)]
        simp
    · have h0 : (s.pageinfo pn).refcount = 0 := by omega
      have hfree := h.free pn hpn h0
      have hs0 : s.pageinfo pn = { owner := PO_FREE, refcount := 0 } := by
        rw [← hfree, ← h0]
      rcases F11 pn hpos with g | ⟨_, _, g⟩
      · have hm : pn ∉ mapped_pages K s' child := by
          intro hm
          obtain ⟨va, hva, vam, hvam, hvpn⟩ := (mem_mapped_pages K s' child pn).mp hm
          obtain ⟨m1, m2⟩ := hinv'.mapped_refcount hclive va hva vam hvam
          rw [hvpn, g, h0] at m1
          rw [hvpn] at m2
          omega
        rw [if_neg hm, g, if_neg (by
          rintro ⟨_, g'⟩
          rw [hfree] at g'
          exact hchild_ne g')]
      · by_cases hm : pn ∈ mapped_pages K s' child
        · rw [if_pos hm, g, release_info_owned, hs0]
        · rw [if_neg hm, if_pos ⟨hpn, by rw [g]⟩, hs0]
  · rw [hoth' s.current (Ne.symm F3), F7]
  · intro j hj1 hj2
    rw [hoth' j hj1, F8 j hj1 hj2]
  · intro va
    rw [hmem]
    exact (virtual_memory_lookup_frame s.physmem s'.physmem _ va (fun k a hk hw => by
      have hn := (h.nodes s.current hc (PAGENUMBER a) ⟨va, k, a, hk, hw, rfl⟩).2
      exact (F10 (PAGENUMBER a) (by rw [hn]; exact Int.one_pos)).2)).2
  · intro pn hpos
    rw [hmem]
    exact (F10 pn hpos).2

/-! ## Fork in the layout of the kernel as built -/

set_option maxRecDepth 1000000 in
/-- Counterexample to C7 as stated: process 1 maps the console at `0xB8000`
user-accessible and writable.  The console page is reserved memory (negative owner), so
the fork does not copy it: the child maps `0xB8000` to the same physical page `0xB8`,
which was referenced before the fork and does not belong to the child afterwards. -/
theorem sys_fork_copies_writable_counterexample :
    (sys_fork weensy_config (weensy_state 1 58)).2 = fork_outcome.forked 2 ∧
      virtual_memory_lookup (weensy_state 1 58).physmem
          ((weensy_state 1 58).processes 1).p_pagetable 0xB8000 =
        some { pn := 0xB8, pa := 0xB8000, perm := PTE_P ||| PTE_W ||| PTE_U } ∧
      virtual_memory_lookup (sys_fork weensy_config (weensy_state 1 58)).1.physmem
          ((sys_fork weensy_config (weensy_state 1 58)).1.processes 2).p_pagetable 0xB8000 =
        some { pn := 0xB8, pa := 0xB8000, perm := PTE_P ||| PTE_W ||| PTE_U } ∧
      ((weensy_state 1 58).pageinfo 0xB8).refcount ≠ 0 ∧
      (sys_fork weensy_config (weensy_state 1 58)).1.pageinfo 0xB8 =
        { owner := PO_RESERVED, refcount := 1 } := by
  decide

set_option maxRecDepth 1000000 in
/-- Counterexample to C10 as stated: in the layout of the kernel as built, reference
count 0 and owner Free coincide on every page and every page process 1 maps at or above
`PROC_START_ADDR` is user-accessible; page `0x100`, mapped read-only for user mode at
`0x100000`, belongs to the kernel, and five pages are free.  The fork builds the child's
page table from the five free pages and fails at `0x101000`, where no page is left for the
copy.  The rollback releases every page the child maps from `PROC_START_ADDR` up to the
failing address, also page `0x100`, to which the fork had not added a reference: its
record changes from owner Kernel, reference count 1, to owner Free, reference count 0. -/
theorem sys_fork_failure_rollback_counterexample :
    (sys_fork weensy_config (weensy_state PO_KERNEL 5)).2 =
        fork_outcome.copy_failed 2 0x101000 ∧
      (∀ pn, pn < NPAGES weensy_config →
        (((weensy_state PO_KERNEL 5).pageinfo pn).refcount = 0 ↔
          ((weensy_state PO_KERNEL 5).pageinfo pn).owner = PO_FREE)) ∧
      (∀ va ∈ page_addresses weensy_config.PROC_START_ADDR weensy_config.MEMSIZE_VIRTUAL,
        ∀ vam, virtual_memory_lookup (weensy_state PO_KERNEL 5).physmem
            ((weensy_state PO_KERNEL 5).processes 1).p_pagetable va = some vam →
          vam.perm &&& PTE_U ≠ 0) ∧
      (weensy_state PO_KERNEL 5).pageinfo 0x100 = { owner := PO_KERNEL, refcount := 1 } ∧
      (sys_fork weensy_config (weensy_state PO_KERNEL 5)).1.pageinfo 0x100 =
        { owner := PO_FREE, refcount := 0 } := by
  refine ⟨by decide, ?_, ?_, by decide, by decide⟩
  · intro pn hpn
    have h := List.all_eq_true.mp (by decide :
      (List.range (NPAGES weensy_config)).all (fun pn =>
        decide (((weensy_state PO_KERNEL 5).pageinfo pn).refcount = 0 ↔
          ((weensy_state PO_KERNEL 5).pageinfo pn).owner = PO_FREE)) = true) pn
      (List.mem_range.mpr hpn)
    simpa using h
  · intro va hva vam hvam
    have h := List.all_eq_true.mp (by decide :
      (page_addresses weensy_config.PROC_START_ADDR weensy_config.MEMSIZE_VIRTUAL).all
        (fun va => match virtual_memory_lookup (weensy_state PO_KERNEL 5).physmem
              ((weensy_state PO_KERNEL 5).processes 1).p_pagetable va with
          | some vam => decide (vam.perm &&& PTE_U ≠ 0)
          | none => true) = true) va hva
    rw [hvam] at h
    simpa using h

set_option maxRecDepth 1000000 in
/-- Counterexample to C15 as stated: in the layout of the kernel as built
`MEMSIZE_VIRTUAL` is `0x300000`.  Process 1 asks for a page at the page-aligned address
`0x300000`, which it has not mapped.  The handler makes no range check: the syscall
returns 0, page 6 (free before) is allocated to process 1, and the address is mapped to
it. -/
theorem sys_page_alloc_out_of_range_counterexample :
    0x300000 % PAGESIZE = 0 ∧ weensy_config.MEMSIZE_VIRTUAL ≤ 0x300000 ∧
      ((weensy_alloc_trap 0x300000).processes 1).p_registers.reg_rdi = 0x300000 ∧
      ((sys_page_alloc weensy_config (weensy_alloc_trap 0x300000)).processes
        1).p_registers.reg_rax = 0 ∧
      (weensy_alloc_trap 0x300000).pageinfo 6 = { owner := PO_FREE, refcount := 0 } ∧
      (sys_page_alloc weensy_config (weensy_alloc_trap 0x300000)).pageinfo 6 =
        { owner := 1, refcount := 1 } ∧
      virtual_memory_lookup (sys_page_alloc weensy_config (weensy_alloc_trap 0x300000)).physmem
          0x1000 0x300000 =
        some { pn := 6, pa := 0x6000, perm := PTE_P ||| PTE_W ||| PTE_U } := by
  decide

set_option maxRecDepth 1000000 in
/-- Counterexample for C17 as stated, in the layout of the kernel as built.  With exactly
one free page (page 6), process 1 asks for pages at the two distinct, page-aligned,
unmapped addresses `0x400000` and `0x401000`: the first call already returns -1, because
the mapping needs a second page for a leaf-level page-table node.  With two free pages and
the three distinct, page-aligned, unmapped addresses `0x200000`, `2 ^ 48 + 0x200000` and
`0x201000`, the second call returns -1 and the third 0, because the four-level page table
does not tell the first two addresses apart. -/
theorem page_alloc_to_exhaustion_counterexample :
    free_page_count weensy_config (weensy_state 1 1) = 1 ∧
      virtual_memory_lookup (weensy_state 1 1).physmem 0x1000 0x400000 = none ∧
      virtual_memory_lookup (weensy_state 1 1).physmem 0x1000 0x401000 = none ∧
      (page_alloc_calls weensy_config [0x400000, 0x401000] (weensy_state 1 1)).1 =
        [uint64 (-1), uint64 (-1)] ∧
      free_page_count weensy_config (weensy_state 1 2) = 2 ∧
      virtual_memory_lookup (weensy_state 1 2).physmem 0x1000 0x200000 = none ∧
      virtual_memory_lookup (weensy_state 1 2).physmem 0x1000 (2 ^ 48 + 0x200000) = none ∧
      virtual_memory_lookup (weensy_state 1 2).physmem 0x1000 0x201000 = none ∧
      (page_alloc_calls weensy_config [0x200000, 2 ^ 48 + 0x200000, 0x201000]
          (weensy_state 1 2)).1 = [0, uint64 (-1), 0] := by
  refine ⟨by decide, by decide, by decide, by decide, by decide, by decide, by decide,
    by decide, by decide⟩

set_option maxRecDepth 1000000 in
/-- The small machine boots: `kernel` reaches `run` and process 1 is Runnable. -/
theorem boot_resumes :
    (kernel boot_config boot_layout boot_loader boot_state boot_command.fork).is_resumed =
      true := by decide

set_option maxRecDepth 1000000 in
/-- In the booted small machine the invariant checker passes and the get-pid trap of
process 1 resumes a process. -/
theorem booted_getpid_resumes :
    (exception boot_config boot_layout booted_state getpid_registers).is_resumed = true := by
  decide

/-- Witness for C20: the small machine, booted with the command `fork`, starts process 1
with slot 0 Free and holding a null page table; the get-pid trap of process 1 resumes a
process in a state in which slot 0 is again Free with a null page table. -/
theorem process_zero_invariant_witness :
    kernel boot_config boot_layout boot_loader boot_state boot_command.fork =
        trap_result.resumed booted_state ∧
      (booted_state.processes 0).p_state = procstate.P_FREE ∧
      (booted_state.processes 0).p_pagetable = NULL ∧
      ∃ s', exception boot_config boot_layout booted_state getpid_registers =
          trap_result.resumed s' ∧
        (s'.processes 0).p_state = procstate.P_FREE ∧ (s'.processes 0).p_pagetable = NULL :=
  have hboot : kernel boot_config boot_layout boot_loader boot_state boot_command.fork =
      trap_result.resumed booted_state := trap_result.eq_resumed _ boot_state boot_resumes
  have htrap := trap_result.eq_resumed _ boot_state booted_getpid_resumes
  have h := process_zero_invariant boot_config boot_layout boot_loader (by decide)
  ⟨hboot, (h.1 _ _ _ hboot).1, (h.1 _ _ _ hboot).2, _, htrap,
    h.2.2.1 _ _ _ (Reachable.boot _ _ _ hboot) (Or.inl htrap)⟩

set_option maxRecDepth 1000000 in
/-- In the booted small machine the invariant checker finds nothing wrong. -/
theorem booted_check :
    check_virtual_memory boot_config boot_layout booted_state = true := by decide

theorem booted_check_save (reg : x86_64_registers) :
    check_virtual_memory boot_config boot_layout (exception_save booted_state reg) = true := by
  rw [check_virtual_memory_save]
  exact booted_check

set_option maxRecDepth 1000000 in
theorem booted_current : booted_state.current = 1 ∧
    (booted_state.processes 1).p_state = procstate.P_RUNNABLE ∧
    (booted_state.processes 1).p_pid = 1 := by decide

/-- Witness for C25: in the booted small machine the timer trap (32) of process 1 ends in
the scheduler's selection with the tick counter at 1; its get-pid trap (49) ends with the
handler's state `t` resumed or scheduled according to the state of process 1 in `t`. -/
theorem exception_exit_decision_witness :
    exception boot_config boot_layout booted_state (trap_registers 32 0) =
        schedule boot_config
          { exception_save booted_state (trap_registers 32 0) with
            ticks := (booted_state.ticks + 1) % 2 ^ 32 } ∧
      ∃ t, exception boot_config boot_layout booted_state (trap_registers 49 0) =
        if (t.processes t.current).p_state = procstate.P_RUNNABLE then trap_result.resumed t
        else schedule boot_config t :=
  ⟨((exception_exit_decision boot_config boot_layout booted_state (trap_registers 32 0)
      (by decide) (booted_check_save _)).2.1 rfl).1,
    match (exception_exit_decision boot_config boot_layout booted_state (trap_registers 49 0)
      (by decide) (booted_check_save _)).2.2 (Or.inl rfl) with
    | ⟨t, _, _, _, _, _, h⟩ => ⟨t, h⟩⟩

/-- Witness for C26: in the booted small machine the get-pid trap of process 1 resumes
process 1 with 1 in its return-value register. -/
theorem sys_getpid_spec_witness :
    ∃ s', exception boot_config boot_layout booted_state (trap_registers 49 0) =
        trap_result.resumed s' ∧
      (s'.processes 1).p_registers.reg_rax = 1 ∧ s'.current = 1 ∧
      s'.pageinfo = booted_state.pageinfo ∧ s'.physmem = booted_state.physmem :=
  match sys_getpid_spec boot_config boot_layout booted_state (trap_registers 49 0)
      (by decide) (booted_check_save _) rfl
      (by rw [booted_current.1]; exact booted_current.2.1) with
  | ⟨s', h1, _, h3, h4, h5, h6, _⟩ =>
    ⟨s', h1,
      by
        have := h3 1 (by rw [booted_current.1]; exact booted_current.2.2) (by decide)
        rw [booted_current.1] at this
        exact this,
      by rw [h6]; exact booted_current.1, h4, h5⟩

/-- Witness for C23: in the booted small machine a page fault of process 1 with the
user-mode bit in its error code (trap 14, error code 4) leaves process 1 Broken and the
ownership table and memory as they were, and hands over to the scheduler. -/
theorem page_fault_isolation_witness :
    ∃ t, exception boot_config boot_layout booted_state (trap_registers 14 4) =
        schedule boot_config t ∧
      (t.processes 1).p_state = procstate.P_BROKEN ∧
      t.pageinfo = booted_state.pageinfo ∧ t.physmem = booted_state.physmem :=
  match page_fault_isolation boot_config boot_layout booted_state (trap_registers 14 4)
      (by decide) (booted_check_save _) rfl (by decide) with
  | ⟨t, h1, h2, _, _, h5, h6, _⟩ =>
    ⟨t, h1, by rw [booted_current.1] at h2; exact h2, h5, h6⟩

set_option maxRecDepth 1000000 in
/-- The small machine with five slots boots from the table `pageinfo_init` builds. -/
theorem five_resumes :
    (kernel boot_config_five boot_layout boot_loader
      (pageinfo_init boot_config_five boot_layout boot_isreserved boot_state)
      boot_command.fork).is_resumed = true := by decide

/-- Witness for C21: the small machine with five slots boots, and in the state in which
it starts process 1 every page is Free, Reserved, a kernel page or owned by a live
process. -/
theorem owners_partition_witness :
    Booted boot_config_five boot_layout boot_loader boot_isreserved booted_five ∧
      ∀ pn, pn < NPAGES boot_config_five →
        (booted_five.pageinfo pn).owner = PO_FREE ∨
          (booted_five.pageinfo pn).owner = PO_RESERVED ∨
          (booted_five.pageinfo pn).owner = PO_KERNEL ∨
          ∃ p, p < boot_config_five.NPROC ∧
            (booted_five.processes p).p_pid = (booted_five.pageinfo pn).owner ∧
            (booted_five.processes p).p_state ≠ procstate.P_FREE :=
  have hb : Booted boot_config_five boot_layout boot_loader boot_isreserved booted_five :=
    Booted.boot boot_state boot_command.fork _
      (trap_result.eq_resumed _ boot_state five_resumes)
  ⟨hb, owners_partition boot_config_five boot_layout boot_loader boot_isreserved
    (by decide) (by decide) (fun _ _ _ _ => Or.inl rfl) booted_five hb⟩

/-! ## Booted machines -/

/-- The loader that loads an empty program is as the invariant needs the loader to be, on
every machine whose process region holds the stack page. -/
theorem boot_loader_sound (K : KernelConfig)
    (hstack : K.MEMSIZE_VIRTUAL - PAGESIZE ∈ user_range K) : LoaderSound K boot_loader := by
  intro s pid n
  refine ⟨fun pn h => h, fun pn _ _ => ⟨rfl, rfl⟩, fun _ hinv hnone _ => ⟨?_, ?_⟩⟩
  · refine hinv.of_desc rfl rfl (fun j _ => ?_)
    by_cases hj : j = pid
    · subst hj
      simp [program_load_state, set_p_state, set_proc, boot_loader]
    · simp [program_load_state, set_p_state, set_proc, hj]
  · exact hnone _ hstack

theorem chain_state_tree : TreeInj chain_state.physmem 0x1000 ∧
    ∀ n, IsNode chain_state.physmem 0x1000 n → n = 1 ∨ n = 2 ∨ n = 3 ∨ n = 4 := by
  have h1 : ∀ i, chain_state.physmem 1 i = if i = 0 then 0x2007 else 0 := by
    intro i
    simp [chain_state]
  have h2 : ∀ i, chain_state.physmem 2 i = if i = 0 then 0x3007 else 0 := by
    intro i
    simp [chain_state]
  have h3 : ∀ i, chain_state.physmem 3 i = if i = 0 then 0x4007 else 0 := by
    intro i
    simp [chain_state]
  refine ⟨(example_chain_tree chain_state h1 h2 h3 (by
    intro n hn1 hn4
    have : n = 1 ∨ n = 2 ∨ n = 3 ∨ n = 4 := by omega
    rcases this with h | h | h | h <;> · rw [h]; decide)).1, ?_⟩
  rintro n ⟨va, l, a, hl, hw, hpn⟩
  obtain ⟨ha, _⟩ := example_chain chain_state.physmem h1 h2 h3 va l a hl hw
  rw [ha] at hpn
  simp only [PAGENUMBER, PAGESIZE] at hpn
  omega

/-- The small machine is as `hardware_init` is assumed to leave a machine. -/
theorem chain_hardware :
    HardwareInit boot_config_five chain_layout boot_isreserved chain_state := by
  refine ⟨chain_state_tree.1, ?_, by decide, by decide, by decide,
    fun hc => absurd hc (by decide)⟩
  intro n hn
  rcases chain_state_tree.2 n hn with h | h | h | h <;> · rw [h]; decide

set_option maxRecDepth 1000000 in
theorem chain_resumes :
    (kernel boot_config_five chain_layout boot_loader
      (pageinfo_init boot_config_five chain_layout boot_isreserved chain_state)
      boot_command.fork).is_resumed = true := by decide

theorem chain_boots :
    kernel boot_config_five chain_layout boot_loader
      (pageinfo_init boot_config_five chain_layout boot_isreserved chain_state)
      boot_command.fork = trap_result.resumed chain_booted :=
  trap_result.eq_resumed _ chain_state chain_resumes

set_option maxRecDepth 1000000 in
/-- The machine with the constants of the kernel as built is as `hardware_init` is assumed
to leave a machine. -/
theorem weensy_hardware :
    HardwareInit weensy_config chain_layout weensy_isreserved chain_state := by
  refine ⟨chain_state_tree.1, ?_, ?_, ?_, by decide, fun _ => by decide⟩
  · intro n hn
    rcases chain_state_tree.2 n hn with h | h | h | h <;> · rw [h]; decide
  · exact fun va hva => of_decide_eq_true (List.all_eq_true.mp
      (by decide! : (page_addresses 0 weensy_config.PROC_START_ADDR).all
        (fun va => decide (pt_walk chain_state.physmem chain_layout.kernel_pagetable va 3 ≠
          none)) = true) va hva)
  · exact fun va hva => of_decide_eq_true (List.all_eq_true.mp
      (by decide! : (user_range weensy_config).all
        (fun va => decide (weensy_config.MEMSIZE_PHYSICAL ≤ va →
          virtual_memory_lookup chain_state.physmem chain_layout.kernel_pagetable va =
            none)) = true) va hva)

theorem weensy_pool :
    5 ≤ free_page_count weensy_config
      (pageinfo_init weensy_config chain_layout weensy_isreserved chain_state) := by
  rw [pageinfo_init_free_count]
  decide!

theorem weensy_console_facts :
    kernel weensy_config chain_layout boot_loader
        (pageinfo_init weensy_config chain_layout weensy_isreserved chain_state)
        boot_command.fork = trap_result.resumed weensy_booted ∧
      (weensy_booted.processes 1).p_state = procstate.P_RUNNABLE ∧
      virtual_memory_lookup weensy_booted.physmem (weensy_booted.processes 1).p_pagetable
          0xB8000 =
        some { pn := 0xB8, pa := 0xB8000, perm := PTE_P ||| PTE_U ||| PTE_W } := by
  obtain ⟨s, c1, _, c2, c3⟩ := kernel_fork_console weensy_config chain_layout
    weensy_isreserved (by decide) (by decide) chain_state weensy_hardware (by decide)
    (by decide) weensy_pool
  have hs : weensy_booted = s := by
    unfold weensy_booted
    rw [c1]
    rfl
  rw [hs]
  exact ⟨c1, c2, c3⟩

theorem weensy_boots :
    kernel weensy_config chain_layout boot_loader
      (pageinfo_init weensy_config chain_layout weensy_isreserved chain_state)
      boot_command.fork = trap_result.resumed weensy_booted :=
  weensy_console_facts.1

set_option maxRecDepth 1000000 in
theorem chain_four_resumes :
    (kernel four_config chain_layout boot_loader
      (pageinfo_init four_config chain_layout boot_isreserved chain_state)
      boot_command.other).is_resumed = true := by decide!

set_option maxRecDepth 1000000 in
theorem chain_four_count :
    (chain_booted_four.processes 1).p_state ≠ procstate.P_FREE ∧
      (virtual_memory_lookup chain_booted_four.physmem
        (chain_booted_four.processes 1).p_pagetable 0x1000).map (fun v => v.pn) = some 1 ∧
      (chain_booted_four.pageinfo 1).refcount = 1 ∧
      mapping_count_all four_config chain_booted_four 1 = 4 := by decide!

/-! ## The ownership partition on booted machines -/

/-- Counterexample to C22 as stated: on the machine with 32 pages, in the state in which
`kernel` starts process 1 after it has set up the processes 1 to 4, process 1 maps page 1,
a kernel page, at address `0x1000`; the page is mapped once by each of the four processes,
and its reference count is 1. -/
theorem kernel_page_counted_once :
    kernel four_config chain_layout boot_loader
        (pageinfo_init four_config chain_layout boot_isreserved chain_state)
        boot_command.other = trap_result.resumed chain_booted_four ∧
      (chain_booted_four.processes 1).p_state ≠ procstate.P_FREE ∧
      (virtual_memory_lookup chain_booted_four.physmem
        (chain_booted_four.processes 1).p_pagetable 0x1000).map (fun v => v.pn) = some 1 ∧
      (chain_booted_four.pageinfo 1).refcount = 1 ∧
      mapping_count_all four_config chain_booted_four 1 = 4 :=
  ⟨trap_result.eq_resumed _ chain_state chain_four_resumes, chain_four_count⟩

/-- Witness for C22 as amended: on the small machine, in the state in which `kernel`
starts process 1, the reference count of every page mapped in the process region of a
process is the number of such mappings. -/
theorem refcount_counts_mappings_witness :
    HardwareInit boot_config_five chain_layout boot_isreserved chain_state ∧
      kernel boot_config_five chain_layout boot_loader
        (pageinfo_init boot_config_five chain_layout boot_isreserved chain_state)
        boot_command.fork = trap_result.resumed chain_booted ∧
      ∀ p, p < boot_config_five.NPROC →
        (chain_booted.processes p).p_state ≠ procstate.P_FREE →
        ∀ va ∈ page_addresses boot_config_five.PROC_START_ADDR
            boot_config_five.MEMSIZE_VIRTUAL, ∀ vam,
          virtual_memory_lookup chain_booted.physmem (chain_booted.processes p).p_pagetable
            va = some vam →
          (chain_booted.pageinfo vam.pn).refcount =
            (mapping_count boot_config_five chain_booted vam.pn : Int) :=
  ⟨chain_hardware, chain_boots,
    refcount_counts_mappings boot_config_five chain_layout boot_loader boot_isreserved
      (by decide) (by decide) (boot_loader_sound boot_config_five (by decide)) chain_state
      chain_hardware boot_command.fork chain_booted chain_boots chain_booted
      TrapsFrom.start⟩

/-- Counterexample to C27 as stated: on the machine with the constants of the kernel as
built, in the state in which `kernel` starts process 1, process 1 maps the console page
`0xB8000`, which lies below `PROC_START_ADDR`, writable and user-accessible. -/
theorem console_below_start_writable :
    0xB8000 < weensy_config.PROC_START_ADDR ∧
      kernel weensy_config chain_layout boot_loader
        (pageinfo_init weensy_config chain_layout weensy_isreserved chain_state)
        boot_command.fork = trap_result.resumed weensy_booted ∧
      (weensy_booted.processes 1).p_state = procstate.P_RUNNABLE ∧
      ∃ vam, virtual_memory_lookup weensy_booted.physmem
          (weensy_booted.processes 1).p_pagetable 0xB8000 = some vam ∧
        vam.perm &&& PTE_W ≠ 0 ∧ vam.perm &&& PTE_U ≠ 0 := by
  obtain ⟨c1, c2, c3⟩ := weensy_console_facts
  exact ⟨by decide, c1, c2, _, c3, by decide, by decide⟩

/-- Witness for C27 as amended: on the machine with the constants of the kernel as built,
in the state in which `kernel` starts process 1, no page below `PROC_START_ADDR` other
than the console page is mapped writable and user-accessible. -/
theorem kernel_region_isolated_witness :
    HardwareInit weensy_config chain_layout weensy_isreserved chain_state ∧
      kernel weensy_config chain_layout boot_loader
        (pageinfo_init weensy_config chain_layout weensy_isreserved chain_state)
        boot_command.fork = trap_result.resumed weensy_booted ∧
      ∀ p, p < weensy_config.NPROC →
        (weensy_booted.processes p).p_state ≠ procstate.P_FREE →
        ∀ va ∈ page_addresses 0 weensy_config.PROC_START_ADDR, va ≠ 0xB8000 → ∀ vam,
          virtual_memory_lookup weensy_booted.physmem (weensy_booted.processes p).p_pagetable
            va = some vam →
          ¬ (vam.perm &&& PTE_W ≠ 0 ∧ vam.perm &&& PTE_U ≠ 0) :=
  ⟨weensy_hardware, weensy_boots,
    kernel_region_isolated weensy_config chain_layout boot_loader weensy_isreserved
      (by decide) (by decide)
      (boot_loader_sound weensy_config
        (page_addresses_of _ _ _ (by decide) (by decide) (by decide) (by decide)))
      chain_state weensy_hardware boot_command.fork weensy_booted weensy_boots weensy_booted
      TrapsFrom.start⟩

/-- Witness for C30: on the small machine, in the state in which `kernel` starts process
1, every node of the page table of a process belongs to that process and has reference
count 1. -/
theorem page_table_nodes_owned_witness :
    HardwareInit boot_config_five chain_layout boot_isreserved chain_state ∧
      kernel boot_config_five chain_layout boot_loader
        (pageinfo_init boot_config_five chain_layout boot_isreserved chain_state)
        boot_command.fork = trap_result.resumed chain_booted ∧
      ∀ p, p < boot_config_five.NPROC →
        (chain_booted.processes p).p_state ≠ procstate.P_FREE →
        ∀ n, IsNode chain_booted.physmem (chain_booted.processes p).p_pagetable n →
          n < NPAGES boot_config_five ∧
            (chain_booted.pageinfo n).owner = (chain_booted.processes p).p_pid ∧
            (chain_booted.pageinfo n).refcount = 1 :=
  ⟨chain_hardware, chain_boots,
    page_table_nodes_owned boot_config_five chain_layout boot_loader boot_isreserved
      (by decide) (by decide) (boot_loader_sound boot_config_five (by decide)) chain_state
      chain_hardware boot_command.fork chain_booted chain_boots chain_booted
      TrapsFrom.start⟩

/-- The layout of the kernel as built is one the invariants are stated for. -/
theorem weensy_config_sane : ConfigSane weensy_config ∧ BootSane weensy_config :=
  ⟨by decide, by decide⟩

/-! ## A parent that exits while its child shares a page -/

set_option maxRecDepth 1000000 in
/-- The machine of `share_config` boots; process 1 runs and owns page 12, which it maps
read-only for user mode at `PROC_START_ADDR`. -/
theorem share_boots :
    (kernel share_config chain_layout (ro_loader share_config)
      (pageinfo_init share_config chain_layout boot_isreserved chain_state)
      boot_command.fork).is_resumed = true ∧
      share_booted.current = 1 ∧
      (share_booted.processes 1).p_state = procstate.P_RUNNABLE ∧
      share_booted.pageinfo 12 = ⟨1, 1⟩ ∧
      virtual_memory_lookup share_booted.physmem (share_booted.processes 1).p_pagetable
        0x8000 = some ⟨12, 0xC000, PTE_P ||| PTE_U⟩ := by
  decide!

set_option maxRecDepth 1000000 in
/-- The invariant check passes at the fork trap. -/
theorem share_booted_check :
    check_virtual_memory share_config chain_layout
      (exception_save share_booted (trap_registers 52 0)) = true := by
  decide!

set_option maxRecDepth 1000000 in
/-- The fork trap resumes the parent; the child is process 2 and page 12 is referenced
twice. -/
theorem share_fork_resumes :
    (exception_switch share_config chain_layout
      (exception_save share_booted (trap_registers 52 0)) (trap_registers 52 0)).is_resumed =
        true ∧
      share_forked.current = 1 ∧
      (share_forked.processes 1).p_registers.reg_rax = 2 ∧
      (share_forked.processes 1).p_state = procstate.P_RUNNABLE ∧
      (share_forked.processes 2).p_state = procstate.P_RUNNABLE ∧
      share_forked.pageinfo 12 = ⟨1, 2⟩ ∧
      virtual_memory_lookup share_forked.physmem (share_forked.processes 2).p_pagetable
        0x8000 = some ⟨12, 0xC000, PTE_P ||| PTE_U⟩ := by
  decide!

set_option maxRecDepth 1000000 in
/-- At the exit trap: the slots other than 1 and 2 are Free and every referenced page with
a process owner belongs to a slot in use. -/
theorem share_forked_slots :
    ((exception_save share_forked (trap_registers 53 0)).processes 0).p_state =
        procstate.P_FREE ∧
      ((exception_save share_forked (trap_registers 53 0)).processes 3).p_state =
        procstate.P_FREE ∧
      ((exception_save share_forked (trap_registers 53 0)).processes 4).p_state =
        procstate.P_FREE ∧
      (List.range (NPAGES share_config)).all
        (fun pn =>
          !(decide (0 < ((exception_save share_forked (trap_registers 53 0)).pageinfo
              pn).refcount ∧
            0 ≤ ((exception_save share_forked (trap_registers 53 0)).pageinfo pn).owner)) ||
            decide (((exception_save share_forked (trap_registers 53 0)).processes
              ((exception_save share_forked (trap_registers 53 0)).pageinfo
                pn).owner.toNat).p_state ≠ procstate.P_FREE)) = true := by
  decide!

set_option maxRecDepth 1000000 in
/-- At the exit trap the kernel page table passes its checks. -/
theorem share_forked_kernel_table :
    check_page_table_mappings chain_layout
        (exception_save share_forked (trap_registers 53 0)) chain_layout.kernel_pagetable =
          true ∧
      check_page_table_ownership share_config chain_layout
        (exception_save share_forked (trap_registers 53 0)) chain_layout.kernel_pagetable
          (-1) = true := by
  decide!

set_option maxRecDepth 1000000 in
/-- At the exit trap the page table of the parent passes its checks. -/
theorem share_forked_parent_table :
    (check_page_table_mappings chain_layout
        (exception_save share_forked (trap_registers 53 0))
        ((exception_save share_forked (trap_registers 53 0)).processes 1).p_pagetable &&
      check_page_table_ownership share_config chain_layout
        (exception_save share_forked (trap_registers 53 0))
        ((exception_save share_forked (trap_registers 53 0)).processes 1).p_pagetable
          ((1 : Nat) : Int)) = true := by
  decide!

set_option maxRecDepth 1000000 in
/-- At the exit trap the page table of the child passes its checks. -/
theorem share_forked_child_table :
    (check_page_table_mappings chain_layout
        (exception_save share_forked (trap_registers 53 0))
        ((exception_save share_forked (trap_registers 53 0)).processes 2).p_pagetable &&
      check_page_table_ownership share_config chain_layout
        (exception_save share_forked (trap_registers 53 0))
        ((exception_save share_forked (trap_registers 53 0)).processes 2).p_pagetable
          ((2 : Nat) : Int)) = true := by
  decide!

/-- The invariant check passes at the exit trap. -/
theorem share_forked_check :
    check_virtual_memory share_config chain_layout
      (exception_save share_forked (trap_registers 53 0)) = true := by
  refine check_virtual_memory_of_parts _ _ _ share_forked_slots.1
    share_forked_kernel_table.1 share_forked_kernel_table.2 ?_ share_forked_slots.2.2.2
  intro pid hpid hstate _
  have hpid5 : pid < 5 := hpid
  interval_cases pid
  · exact absurd share_forked_slots.1 hstate
  · exact share_forked_parent_table
  · exact share_forked_child_table
  · exact absurd share_forked_slots.2.1 hstate
  · exact absurd share_forked_slots.2.2.1 hstate

set_option maxRecDepth 1000000 in
/-- The exit trap of the parent resumes the child.  Page 12 keeps one reference, that of
the child, and its owner field is `PO_FREE`; slot 0 is Free. -/
theorem share_exit_resumes :
    (exception_switch share_config chain_layout
      (exception_save share_forked (trap_registers 53 0)) (trap_registers 53 0)).is_resumed =
        true ∧
      share_orphan.current = 2 ∧
      (share_orphan.processes 0).p_state = procstate.P_FREE ∧
      (share_orphan.processes 1).p_state = procstate.P_FREE ∧
      (share_orphan.processes 2).p_state = procstate.P_RUNNABLE ∧
      share_orphan.pageinfo 12 = ⟨0, 1⟩ ∧
      virtual_memory_lookup share_orphan.physmem (share_orphan.processes 2).p_pagetable
        0x8000 = some ⟨12, 0xC000, PTE_P ||| PTE_U⟩ := by
  decide!

/-- The fork trap, run by `exception`. -/
theorem share_fork_trap :
    exception share_config chain_layout share_booted (trap_registers 52 0) =
      trap_result.resumed share_forked := by
  have h : exception share_config chain_layout share_booted (trap_registers 52 0) =
      exception_switch share_config chain_layout
        (exception_save share_booted (trap_registers 52 0)) (trap_registers 52 0) := by
    unfold exception
    rw [share_booted_check]
    exact if_neg (fun h => Bool.noConfusion h.2)
  rw [h]
  exact trap_result.eq_resumed _ chain_state share_fork_resumes.1

/-- The exit trap, run by `exception`. -/
theorem share_exit_trap :
    exception share_config chain_layout share_forked (trap_registers 53 0) =
      trap_result.resumed share_orphan := by
  have h : exception share_config chain_layout share_forked (trap_registers 53 0) =
      exception_switch share_config chain_layout
        (exception_save share_forked (trap_registers 53 0)) (trap_registers 53 0) := by
    unfold exception
    rw [share_forked_check]
    exact if_neg (fun h => Bool.noConfusion h.2)
  rw [h]
  exact trap_result.eq_resumed _ chain_state share_exit_resumes.1

/-- C36: there is a state reached from boot by traps on which the referenced-page condition
of `check_virtual_memory` is false.  On the machine of `share_config` the kernel boots into
`s1`, where process 1 owns page 12 and maps it read-only for user mode; its fork trap
succeeds (state `s2`: child 2, page 12 referenced twice); its exit trap then leaves `s3`,
where the child still runs and still maps page 12, the page has refcount 1 and owner value
0, which is `PO_FREE`, slot 0 is Free, and `check_virtual_memory` is false. -/
theorem parent_exit_defeats_checker :
    ∃ s1 s2 s3 : KernelState,
      kernel share_config chain_layout (ro_loader share_config)
        (pageinfo_init share_config chain_layout boot_isreserved chain_state)
        boot_command.fork = trap_result.resumed s1 ∧
      s1.current = 1 ∧ s1.pageinfo 12 = ⟨1, 1⟩ ∧
      virtual_memory_lookup s1.physmem (s1.processes 1).p_pagetable 0x8000 =
        some ⟨12, 0xC000, PTE_P ||| PTE_U⟩ ∧
      exception share_config chain_layout s1 (trap_registers 52 0) =
        trap_result.resumed s2 ∧
      s2.current = 1 ∧ (s2.processes 1).p_registers.reg_rax = 2 ∧
      (s2.processes 2).p_state = procstate.P_RUNNABLE ∧ s2.pageinfo 12 = ⟨1, 2⟩ ∧
      exception share_config chain_layout s2 (trap_registers 53 0) =
        trap_result.resumed s3 ∧
      TrapsFrom share_config chain_layout s1 s3 ∧
      (s3.processes 1).p_state = procstate.P_FREE ∧
      (s3.processes 2).p_state = procstate.P_RUNNABLE ∧ s3.current = 2 ∧
      virtual_memory_lookup s3.physmem (s3.processes 2).p_pagetable 0x8000 =
        some ⟨12, 0xC000, PTE_P ||| PTE_U⟩ ∧
      (s3.pageinfo 12).refcount = 1 ∧ (s3.pageinfo 12).owner = 0 ∧
      (s3.pageinfo 12).owner = PO_FREE ∧
      (s3.processes 0).p_state = procstate.P_FREE ∧
      ¬ (0 < (s3.pageinfo 12).refcount ∧ 0 ≤ (s3.pageinfo 12).owner →
          (s3.processes (s3.pageinfo 12).owner.toNat).p_state ≠ procstate.P_FREE) ∧
      check_virtual_memory share_config chain_layout s3 = false := by
  have hb := share_boots
  have hf := share_fork_resumes
  have he := share_exit_resumes
  have hrec : share_orphan.pageinfo 12 = ⟨0, 1⟩ := he.2.2.2.2.2.1
  have hr : (share_orphan.pageinfo 12).refcount = 1 := by rw [hrec]
  have ho : (share_orphan.pageinfo 12).owner = 0 := by rw [hrec]
  have hfree : (share_orphan.processes (share_orphan.pageinfo 12).owner.toNat).p_state =
      procstate.P_FREE := by
    rw [ho, Int.toNat_zero]; exact he.2.2.1
  refine ⟨share_booted, share_forked, share_orphan,
    trap_result.eq_resumed _ chain_state hb.1, hb.2.1, hb.2.2.2.1, hb.2.2.2.2,
    share_fork_trap, hf.2.1, hf.2.2.1, hf.2.2.2.2.1, hf.2.2.2.2.2.1, share_exit_trap,
    TrapsFrom.trap _ _ _ (TrapsFrom.trap _ _ _ TrapsFrom.start share_fork_trap)
      share_exit_trap,
    he.2.2.2.1, he.2.2.2.2.1, he.2.1, he.2.2.2.2.2.2, hr, ho, ho, he.2.2.1, ?_, ?_⟩
  · intro h
    exact h ⟨by rw [hr]; exact Int.one_pos, by rw [ho]⟩ hfree
  · exact check_virtual_memory_orphan _ _ _ 12 (by decide) (by rw [hr]; exact Int.one_pos)
      (by rw [ho]) hfree

/-! ## Boot seeding, reference counts, failed mappings, fork and exit -/

/-- Witness for C33: on the small machine page 3 lies in the kernel image and is seeded as a
kernel page with reference count 1. -/
theorem pageinfo_init_seeding_witness :
    3 < NPAGES boot_config_five ∧
      ((pageinfo_init boot_config_five chain_layout boot_isreserved chain_state).pageinfo
        3).owner = PO_KERNEL ∧
      ((pageinfo_init boot_config_five chain_layout boot_isreserved chain_state).pageinfo
        3).refcount = 1 :=
  have h := pageinfo_init_seeding boot_config_five chain_layout boot_isreserved chain_state 3
    (by decide)
  have ho : ((pageinfo_init boot_config_five chain_layout boot_isreserved
      chain_state).pageinfo 3).owner = PO_KERNEL := h.1.trans (by decide)
  ⟨by decide, ho, by rw [h.2.1, ho]; decide⟩

/-- Witness for C39: the example parent with the two free pages 8 and 9 asks for a page at
`0x40000000`.  Page 8 is taken for the data; the mapping needs two new page-table nodes,
takes page 9 for the first and finds none for the second.  The syscall returns -1, the
address stays unmapped, page 8 is free again and page 9 stays with process 1. -/
theorem sys_page_alloc_map_failure_witness :
    (find_free_page example_config (sys_page_alloc_owner (example_tight_trap 0x40000000))).2 =
        0x8000 ∧
      (sys_page_alloc_map example_config (example_tight_trap 0x40000000)).2 < 0 ∧
      ((sys_page_alloc example_config (example_tight_trap 0x40000000)).processes
        1).p_registers.reg_rax = 2 ^ 64 - 1 ∧
      virtual_memory_lookup
        (sys_page_alloc example_config (example_tight_trap 0x40000000)).physmem 0x1000
          0x40000000 = none ∧
      (sys_page_alloc example_config (example_tight_trap 0x40000000)).pageinfo 8 =
        { owner := PO_FREE, refcount := 0 } ∧
      (sys_page_alloc example_config (example_tight_trap 0x40000000)).pageinfo 9 =
        { owner := 1, refcount := 1 } :=
  have h := sys_page_alloc_map_failure example_config (example_tight_trap 0x40000000)
    (by unfold AllocSane; decide) example_parent_tight_tree (by decide) (by decide)
    (by decide) (by decide) (by decide)
  ⟨by decide, by decide, h.1.trans h.2.1, h.2.2.2.1, by decide, by decide⟩

/-- Counterexample to C35 as stated, in two states of the small configuration in which
reference count 0 and owner Free coincide on every page and every page process 1 maps at or
above `PROC_START_ADDR` is user-accessible and belongs to a process.  In the first, process 1
also maps its page 8 read-only for user mode at `0x2000`, below `PROC_START_ADDR`: the fork
shares the page there, the exit of the child releases nothing below `PROC_START_ADDR`, and
the reference count of page 8 ends at 2 instead of 1.  In the second, page 8 is recorded
for slot 2, which is Free and becomes the child: the owner sweep of the child's exit frees
the page. -/
theorem fork_exit_round_trip_counterexample :
    ((∀ pn, pn < NPAGES example_config →
        ((example_parent_low_share.pageinfo pn).refcount = 0 ↔
          (example_parent_low_share.pageinfo pn).owner = PO_FREE)) ∧
      (∀ va ∈ page_addresses example_config.PROC_START_ADDR example_config.MEMSIZE_VIRTUAL,
        ∀ vam, virtual_memory_lookup example_parent_low_share.physmem
            (example_parent_low_share.processes 1).p_pagetable va = some vam →
          vam.perm &&& PTE_U ≠ 0 ∧ 0 < (example_parent_low_share.pageinfo vam.pn).owner) ∧
      (sys_fork example_config example_parent_low_share).2 = fork_outcome.forked 2 ∧
      example_parent_low_share.pageinfo 8 = { owner := 1, refcount := 1 } ∧
      (process_cleanup example_config (sys_fork example_config example_parent_low_share).1
        (((sys_fork example_config example_parent_low_share).1.processes 2).p_pid)).pageinfo
          8 = { owner := 1, refcount := 2 }) ∧
    ((∀ pn, pn < NPAGES example_config →
        ((example_parent_stale.pageinfo pn).refcount = 0 ↔
          (example_parent_stale.pageinfo pn).owner = PO_FREE)) ∧
      (∀ va ∈ page_addresses example_config.PROC_START_ADDR example_config.MEMSIZE_VIRTUAL,
        ∀ vam, virtual_memory_lookup example_parent_stale.physmem
            (example_parent_stale.processes 1).p_pagetable va = some vam →
          vam.perm &&& PTE_U ≠ 0 ∧ 0 < (example_parent_stale.pageinfo vam.pn).owner) ∧
      (sys_fork example_config example_parent_stale).2 = fork_outcome.forked 2 ∧
      example_parent_stale.pageinfo 8 = { owner := 2, refcount := 1 } ∧
      (process_cleanup example_config (sys_fork example_config example_parent_stale).1
        (((sys_fork example_config example_parent_stale).1.processes 2).p_pid)).pageinfo
          8 = { owner := PO_FREE, refcount := 0 }) := by
  refine ⟨⟨by decide, by decide, by decide, by decide, by decide⟩,
    ⟨by decide, by decide, by decide, by decide, by decide⟩⟩

/-- Witness for C35: process 1 of the example parent forks and the child, process 2, exits
at once.  Every page record is as before the fork and slot 2 is Free again. -/
theorem fork_exit_round_trip_witness :
    (sys_fork example_config example_parent).2 = fork_outcome.forked 2 ∧
      (∀ pn, pn < NPAGES example_config →
        (process_cleanup example_config (sys_fork example_config example_parent).1
          (((sys_fork example_config example_parent).1.processes 2).p_pid)).pageinfo pn =
            example_parent.pageinfo pn) ∧
      ((process_cleanup example_config (sys_fork example_config example_parent).1
        (((sys_fork example_config example_parent).1.processes 2).p_pid)).processes
          2).p_state = procstate.P_FREE :=
  have h := fork_exit_round_trip example_config example_parent
    (sys_fork example_config example_parent).1 2 example_parent_ready (by decide) (by decide)
    (by decide) (by decide) (by decide) example_parent_forks
  ⟨by decide, h.1, h.2.1⟩

/-- C34: when the slots 1 to `NPROC - 1` are all in use the search of `INT_SYS_FORK`
inspects slot `NPROC`, which `processes[NPROC]` does not have.  In the small configuration
(`NPROC = 4`) with the slots 1, 2 and 3 in use, the search reads the slots 1, 2, 3 and 4;
the fork then returns -1 to the parent and leaves the ownership table, memory and the
process states alone. -/
theorem sys_fork_search_reads_past_table :
    example_config.NPROC = 4 ∧
      (∀ p, 1 ≤ p → p < example_config.NPROC →
        (example_three.processes p).p_state ≠ procstate.P_FREE) ∧
      sys_fork_slot_reads example_config example_three = [1, 2, 3, 4] ∧
      example_config.NPROC ∈ sys_fork_slot_reads example_config example_three ∧
      (sys_fork example_config example_three).2 = fork_outcome.no_free_slot ∧
      ((sys_fork example_config example_three).1.processes
        example_three.current).p_registers.reg_rax = 2 ^ 64 - 1 ∧
      (sys_fork example_config example_three).1.pageinfo = example_three.pageinfo ∧
      (sys_fork example_config example_three).1.physmem = example_three.physmem ∧
      (∀ p, ((sys_fork example_config example_three).1.processes p).p_state =
        (example_three.processes p).p_state) := by
  refine ⟨rfl, by decide, by decide, by decide, by decide, by decide, rfl, rfl, ?_⟩
  intro p
  rw [sys_fork_no_slot example_config example_three (by decide)]
  simp only [set_reg_rax, set_proc_processes]
  split
  · rename_i h
    rw [h]
  · rfl

/-- C38: when every page is referenced `find_free_page` reads `pageinfo[NPAGES]`, one past
the end of the array.  In the small configuration (16 pages) with every page referenced the
loop reads the records 0 to 16 and the function returns `NULL`. -/
theorem find_free_page_reads_past_table :
    NPAGES example_config = 16 ∧
      (∀ pn, pn < NPAGES example_config → 0 < (example_full_table.pageinfo pn).refcount) ∧
      find_free_page_accesses example_config example_full_table = List.range 17 ∧
      NPAGES example_config ∈ find_free_page_accesses example_config example_full_table ∧
      (find_free_page example_config example_full_table).2 = NULL := by
  refine ⟨by decide, by decide, by decide, by decide, by decide⟩

end Weensy

/-! # Properties of the debugging allocator -/

namespace M61

/-- C31: `m61_calloc` has no result for a zero argument.  With `sz = 0` the guard divides
`maximum_int` by zero at once; with `nmemb = 0` and `sz` not zero the first comparison is
false and the guard divides `maximum_int` by `nmemb`, again by zero.  This holds in every
state and for every behaviour of `malloc` and `rand`; the calls `m61_calloc(1, 0, ...)` and
`m61_calloc(0, 8, ...)` in the empty allocator are instances. -/
theorem m61_calloc_zero_argument :
    (∀ (env : m61_env) (st : m61_state) (nmemb file : Nat) (line : Int),
        m61_calloc env st nmemb 0 file line = none) ∧
      (∀ (env : m61_env) (st : m61_state) (sz file : Nat) (line : Int),
        m61_calloc env st 0 sz file line = none) ∧
      m61_calloc m61_example_env m61_empty 1 0 0 1 = none ∧
      m61_calloc m61_example_env m61_empty 0 8 0 1 = none := by
  refine ⟨?_, ?_, ?_, ?_⟩
  · intro env st nmemb file line
    simp [m61_calloc]
  · intro env st sz file line
    by_cases h : sz = 0
    · simp [m61_calloc, h]
    · simp [m61_calloc, h]
  · simp [m61_calloc]
  · simp [m61_calloc]

/-- For arguments that are not zero `m61_calloc` behaves as documented, as long as the C
library's `malloc` does not return `NULL`: it returns `NULL`, or a pointer to `nmemb * sz`
bytes that are all zero. -/
theorem m61_calloc_nonzero (env : m61_env) (st : m61_state) (nmemb sz file : Nat)
    (line : Int) (hn : nmemb ≠ 0) (hs : sz ≠ 0) (hm : ∀ t n, env.malloc t n ≠ NULL) :
    ∃ st' ptr, m61_calloc env st nmemb sz file line = some (st', ptr) ∧
      (ptr = NULL ∨ ∀ i, i < nmemb * sz → st'.memory (ptr + i) = 0) := by
  simp only [m61_calloc, if_neg hs, if_neg hn]
  by_cases h1 : nmemb > (2 ^ 32 - 1) / sz
  · rw [if_pos h1]
    exact ⟨_, _, rfl, Or.inl rfl⟩
  rw [if_neg h1]
  by_cases h2 : sz > (2 ^ 32 - 1) / nmemb
  · rw [if_pos h2]
    exact ⟨_, _, rfl, Or.inl rfl⟩
  rw [if_neg h2]
  have hprod : nmemb * sz < 2 ^ 64 := by
    have h3 : nmemb ≤ (2 ^ 32 - 1) / sz := by omega
    have h4 : nmemb * sz ≤ 2 ^ 32 - 1 :=
      (Nat.le_div_iff_mul_le (Nat.pos_of_ne_zero hs)).mp h3
    omega
  have hsz : size_t (nmemb * sz) = nmemb * sz := Nat.mod_eq_of_lt hprod
  rw [hsz]
  cases hmal : m61_malloc env st (nmemb * sz) file line with
  | none =>
    exfalso
    simp only [m61_malloc] at hmal
    split at hmal
    · cases hmal
    · simp only [hm, if_false] at hmal
      cases hmal
  | some r =>
    obtain ⟨st', ptr⟩ := r
    by_cases hp : ptr = NULL
    · refine ⟨st', ptr, ?_, Or.inl hp⟩
      simp [hp]
    · refine ⟨memset_zero st' ptr (nmemb * sz), ptr, ?_, Or.inr ?_⟩
      · simp [hp]
      · intro i hi
        simp only [memset_zero]
        rw [if_pos ⟨Nat.le_add_right _ _, by omega⟩]

end M61

/-! # Properties of the buffered reads -/

namespace Io61

/-- While the position lies between 0 and the size, the count `io61_read` computes is the
smaller of `sz` and the number of bytes that remain. -/
theorem io61_read_size_in_file (f : io61_file) (sz : Nat) (hsz : sz < 2 ^ 63)
    (h0 : 0 ≤ f.cache.current_pos) (h1 : f.cache.current_pos ≤ f.size)
    (h2 : f.size < 2 ^ 63) :
    io61_read_size f sz = min (sz : Int) (f.size - f.cache.current_pos) := by
  have hu : ((uint64 (f.size - f.cache.current_pos) : Nat) : Int) =
      f.size - f.cache.current_pos := by
    simp only [uint64]
    rw [Int.toNat_of_nonneg (Int.emod_nonneg _ (by norm_num))]
    exact Int.emod_eq_of_lt (by omega) (by omega)
  simp only [io61_read_size]
  split
  · rename_i h
    have h' : ((sz : Nat) : Int) < f.size - f.cache.current_pos := by
      rw [← hu]; exact_mod_cast h
    simp only [int64]
    omega
  · rename_i h
    have h' : f.size - f.cache.current_pos ≤ ((sz : Nat) : Int) := by
      rw [← hu]; exact_mod_cast Nat.le_of_not_lt h
    rw [hu]
    simp only [int64]
    omega

/-- C32: after `io61_readc` has returned `EOF`, `io61_read` does not return 0.  On the
memory-mapped file of the two bytes `0x61 0x62`, three calls of `io61_readc` return `0x61`,
`0x62` and `EOF` and leave the position at 3, one past the size: the third call has
incremented it as well.  The difference `size - position` is then -1, which compared as a
pointer is larger than any `sz`: `io61_read(f, buf, 1)` returns 1, copies the byte at offset
3, which lies beyond the file, and moves the position to 4. -/
theorem io61_read_after_eof :
    ∃ f1 f2 f3 f4 buf,
      io61_readc (fun _ => none) two_byte_file = some (f1, 0x61) ∧
      io61_readc (fun _ => none) f1 = some (f2, 0x62) ∧
      io61_readc (fun _ => none) f2 = some (f3, EOF) ∧
      f3.size = 2 ∧ f3.cache.current_pos = 3 ∧
      io61_read (fun _ _ _ => none) f3 (fun _ => 0xFF) 1 = some (f4, buf, 1) ∧
      buf 0 = 0 ∧ f4.cache.current_pos = 4 ∧
      min (1 : Int) (max 0 (f3.size - f3.cache.current_pos)) = 0 := by
  refine ⟨_, _, _, _, _, rfl, rfl, rfl, rfl, rfl, rfl, rfl, rfl, rfl⟩

end Io61
